import Mathlib

/-!
# jsnpg: a shallow embedding of the parser/generator core

Bytes are natural numbers below 256.  Buffers are lists of bytes; a read at an
index past the end of a list yields 0, which is the value of the sentinel byte
that `parser_set_bytes` appends to the private copy of the input.
Unsigned C arithmetic is written with an explicit modulus where it can wrap.
-/

namespace Jsnpg

/-! ## utf8.c -/

def SURROGATE_MIN : Nat := 0xD800
def SURROGATE_MAX : Nat := 0xDFFF
def CODEPOINT_MAX : Nat := 0x10FFFF

def _1_BYTE_MAX : Nat := 0x7F
def _2_BYTE_MAX : Nat := 0x7FF
def _3_BYTE_MAX : Nat := 0xFFFF

def CONTINUATION_BYTE : Nat := 0x80
def _2_BYTE_LEADER : Nat := 0xC0
def _3_BYTE_LEADER : Nat := 0xE0
def _4_BYTE_LEADER : Nat := 0xF0

def HI_2_BITS (x : Nat) : Nat := x &&& 0xC0
def HI_3_BITS (x : Nat) : Nat := x &&& 0xE0
def HI_4_BITS (x : Nat) : Nat := x &&& 0xF0
def HI_5_BITS (x : Nat) : Nat := x &&& 0xF8

def LO_3_BITS (x : Nat) : Nat := x &&& 0x07
def LO_4_BITS (x : Nat) : Nat := x &&& 0x0F
def LO_5_BITS (x : Nat) : Nat := x &&& 0x1F
def LO_6_BITS (x : Nat) : Nat := x &&& 0x3F

def IS_2_BYTE_LEADER (x : Nat) : Bool := _2_BYTE_LEADER == HI_3_BITS x
def IS_3_BYTE_LEADER (x : Nat) : Bool := _3_BYTE_LEADER == HI_4_BITS x
def IS_4_BYTE_LEADER (x : Nat) : Bool := _4_BYTE_LEADER == HI_5_BITS x
def IS_CONTINUATION (x : Nat) : Bool := CONTINUATION_BYTE == HI_2_BITS x

def is_surrogate (cp : Nat) : Bool := decide (cp ≥ SURROGATE_MIN) && decide (cp ≤ SURROGATE_MAX)

def is_valid_codepoint (cp : Nat) : Bool := decide (cp ≤ CODEPOINT_MAX) && !is_surrogate cp

/-- The continuation-byte loop at the end of `utf8_encode`:
`while(shift > 0) { shift -= 6; *bytes++ = 0x80 | LO_6_BITS(cp >> shift); }`.
The argument counts the iterations left, so `shift` is six times it. -/
def utf8_encode_cont (cp : Nat) : Nat → List Nat
  | 0 => []
  | k + 1 => (CONTINUATION_BYTE ||| LO_6_BITS (cp >>> (6 * k))) :: utf8_encode_cont cp k

/-- The bytes `utf8_encode` stores through `*bytes`, in order.  For a surrogate
or a code point above `CODEPOINT_MAX` the release build returns without
writing anything. -/
def utf8_encode (cp : Nat) : List Nat :=
  if cp ≤ _1_BYTE_MAX then
    (cp % 256) :: utf8_encode_cont cp 0
  else if cp ≤ _2_BYTE_MAX then
    ((_2_BYTE_LEADER ||| LO_5_BITS (cp >>> 6)) % 256) :: utf8_encode_cont cp 1
  else if is_surrogate cp then
    []
  else if cp ≤ _3_BYTE_MAX then
    ((_3_BYTE_LEADER ||| LO_4_BITS (cp >>> 12)) % 256) :: utf8_encode_cont cp 2
  else if cp ≤ CODEPOINT_MAX then
    ((_4_BYTE_LEADER ||| LO_3_BITS (cp >>> 18)) % 256) :: utf8_encode_cont cp 3
  else
    []

/-- The loop `for(length = 1 ; length <= cont ; length++)` of
`utf8_validate_sequence`.  The first argument counts the iterations left.
`none` is the early `return -1`; otherwise the final `length` and
`codepoint`. -/
def utf8_validate_loop (bytes : List Nat) : Nat → Nat → Nat → Option (Nat × Nat)
  | 0, length, codepoint => some (length, codepoint)
  | k + 1, length, codepoint =>
    let b := bytes.getD length 0
    if !IS_CONTINUATION b then none
    else utf8_validate_loop bytes k (length + 1) ((codepoint <<< 6) ||| LO_6_BITS b)

/-- The lead-byte dispatch of `utf8_validate_sequence`: initial `codepoint`,
`bar` and `cont`, or `none` for the `return -1` of the last branch. -/
def utf8_lead (b : Nat) : Option (Nat × Nat × Nat) :=
  if IS_2_BYTE_LEADER b then some (LO_5_BITS b, _1_BYTE_MAX + 1, 1)
  else if IS_3_BYTE_LEADER b then some (LO_4_BITS b, _2_BYTE_MAX + 1, 2)
  else if IS_4_BYTE_LEADER b then some (LO_3_BITS b, _3_BYTE_MAX + 1, 3)
  else if b ≤ _1_BYTE_MAX then some (b, 0, 0)
  else none

/-- Embedding of `utf8_validate_sequence(bytes, count)`: `bytes` is the memory from the
pointer onward, `count` the number of bytes the caller declares available. -/
def utf8_validate_sequence (bytes : List Nat) (count : Nat) : Int :=
  match utf8_lead (bytes.getD 0 0) with
  | none => -1
  | some (codepoint, bar, cont) =>
    if count < 1 + cont then -1
    else
      match utf8_validate_loop bytes cont 1 codepoint with
      | none => -1
      | some (length, codepoint) =>
        if codepoint < bar || !is_valid_codepoint codepoint then -1
        else (length : Int)

def BYTE_ORDER_MARK : List Nat := [0xEF, 0xBB, 0xBF]

/-- Embedding of `utf8_bom_bytes`: the C `sizeof(BYTE_ORDER_MARK)` counts the terminating
NUL of the string literal, so `bom_count` is 4 and `memcmp` compares 4 bytes,
the last of them against 0. -/
def utf8_bom_bytes (bytes : List Nat) (count : Nat) : Nat :=
  let bom_count := 4
  if count ≥ bom_count && (List.range bom_count).all
      (fun i => (BYTE_ORDER_MARK ++ [0]).getD i 0 == bytes.getD i 0)
  then bom_count else 0

/-! ## include/jsnpg.h -/

def JSNPG_ALLOW_COMMENTS : Nat := 0x01
def JSNPG_ALLOW_TRAILING_COMMAS : Nat := 0x02
def JSNPG_ALLOW_TRAILING_CHARS : Nat := 0x04
def JSNPG_ALLOW_MULTIPLE_VALUES : Nat := 0x08
def JSNPG_ALLOW_INVALID_UTF8_IN : Nat := 0x10
def JSNPG_ALLOW_INVALID_UTF8_OUT : Nat := 0x20

/-- The C truth value of `flags & mask`. -/
def flag_set (flags mask : Nat) : Bool := flags &&& mask != 0

inductive jsnpg_type where
  | JSNPG_NONE | JSNPG_PULL | JSNPG_NULL | JSNPG_FALSE | JSNPG_TRUE | JSNPG_INTEGER
  | JSNPG_REAL | JSNPG_STRING | JSNPG_KEY | JSNPG_START_ARRAY | JSNPG_END_ARRAY
  | JSNPG_START_OBJECT | JSNPG_END_OBJECT | JSNPG_ERROR | JSNPG_EOF
  deriving DecidableEq, Inhabited

inductive jsnpg_error_code where
  | JSNPG_ERROR_NONE | JSNPG_ERROR_OPT | JSNPG_ERROR_ALLOC | JSNPG_ERROR_NUMBER
  | JSNPG_ERROR_UTF8 | JSNPG_ERROR_SURROGATE | JSNPG_ERROR_STACK_UNDERFLOW
  | JSNPG_ERROR_STACK_OVERFLOW | JSNPG_ERROR_EXPECTED_VALUE | JSNPG_ERROR_EXPECTED_KEY
  | JSNPG_ERROR_NO_OBJECT | JSNPG_ERROR_NO_ARRAY | JSNPG_ERROR_ESCAPE
  | JSNPG_ERROR_UNEXPECTED | JSNPG_ERROR_INVALID | JSNPG_ERROR_TERMINATED | JSNPG_ERROR_EOF
  deriving DecidableEq, Inhabited

open jsnpg_type jsnpg_error_code

/-- The anonymous union of `jsnpg_result`: the member last stored.  A double
is carried as its 64-bit pattern. -/
inductive result_union where
  | none
  | integer (integer : Int)
  | real (real : Nat)
  | string (bytes : List Nat) (count : Nat)
  | error (code : jsnpg_error_code)
  deriving DecidableEq, Inhabited

/-- Embedding of `jsnpg_result`.  A string member holds the bytes its pointer designates
at the time the result is made. -/
structure jsnpg_result where
  type : jsnpg_type
  position : Nat
  u : result_union
  deriving DecidableEq, Inhabited

/-- One call on the generator interface (`jsnpg_null`, `jsnpg_boolean`, ...,
`jsnpg_end_object`) with its arguments. -/
inductive Event where
  | null
  | boolean (is_true : Bool)
  | integer (integer : Int)
  | real (real : Nat)
  | string (bytes : List Nat)
  | key (bytes : List Nat)
  | start_array
  | end_array
  | start_object
  | end_object
  deriving DecidableEq, Inhabited

/-! ## types.h, stack.c -/

def STACK_OBJECT : Int := 0
def STACK_ARRAY : Int := 1
def STACK_NONE : Int := 2

/-- Embedding of `struct stack`: `stack` is the byte array holding one bit per level. -/
structure stack where
  ptr : Nat
  size : Nat
  stack : List Nat
  deriving DecidableEq, Inhabited

def stack_peek (s : stack) : Int :=
  if s.ptr = 0 then -1
  else
    let sp := s.ptr - 1
    ((0x01 &&& ((s.stack.getD (sp >>> 3) 0) >>> (sp &&& 0x07)) : Nat) : Int)

def stack_pop (s : stack) : Int × stack :=
  if s.ptr = 0 then (-1, s)
  else if s.ptr = 1 then (STACK_NONE, { s with ptr := 0 })
  else
    let s1 := { s with ptr := s.ptr - 1 }
    let sp := s1.ptr - 1
    (((0x01 &&& ((s1.stack.getD (sp >>> 3) 0) >>> (sp &&& 0x07)) : Nat) : Int), s1)

/-- Embedding of `stack_push`.  `offset` is declared `byte`, so the index `sp >> 3` is
reduced modulo 256 before it is used; `~mask` is taken within a byte. -/
def stack_push (s : stack) (type : Int) : Int × stack :=
  let sp := s.ptr
  if sp ≥ s.size then (-1, s)
  else
    let offset := (sp >>> 3) % 256
    let mask := (1 <<< (sp &&& 0x07)) % 256
    let cell := s.stack.getD offset 0
    let cell1 := if type = STACK_ARRAY then cell ||| mask else cell &&& (0xFF ^^^ mask)
    (0, { s with stack := s.stack.set offset cell1, ptr := s.ptr + 1 })

inductive parse_state where
  | STATE_START | STATE_OBJECT | STATE_KEY | STATE_KEY_VALUE | STATE_OBJECT_COMMA
  | STATE_ARRAY | STATE_ARRAY_VALUE | STATE_ARRAY_COMMA | STATE_DONE | STATE_EOF
  deriving DecidableEq, Inhabited

open parse_state

/-! ## input.c -/

/-- Embedding of `struct memory_input_stream`.  `start` is the private buffer (the input
bytes followed by the sentinel 0) and `has_start` tells whether the pointer is
non-null; the other pointers are offsets into it. -/
structure memory_input_stream where
  has_start : Bool
  start : List Nat
  string : Nat
  read : Nat
  write : Nat
  mark : Nat
  count : Nat
  deriving DecidableEq, Inhabited

def mis_new : memory_input_stream :=
  { has_start := false, start := [], string := 0, read := 0, write := 0, mark := 0, count := 0 }

def mis_set_bytes (mis : memory_input_stream) (bytes : List Nat) (count : Nat) :
    memory_input_stream :=
  { mis with has_start := true, start := bytes, read := 0, count := count }

def mis_tell (mis : memory_input_stream) : Nat := mis.read

def mis_adjust (mis : memory_input_stream) (ptr : Nat) : memory_input_stream :=
  { mis with read := ptr }

def mis_eof (mis : memory_input_stream) : Bool := mis_tell mis == mis.count

def mis_peek (mis : memory_input_stream) : Nat := mis.start.getD mis.read 0

def mis_take (mis : memory_input_stream) : Nat × memory_input_stream :=
  (mis.start.getD mis.read 0, { mis with read := mis.read + 1 })

/-- The scan of `strchr(read, c)`: the offset of the first byte equal to `c`
at or after `pos`, or `none` when a NUL byte comes first.  The first argument
bounds the scan by the bytes left in the buffer. -/
def strchr_from (buf : List Nat) (c : Nat) : Nat → Nat → Option Nat
  | 0, _ => none
  | k + 1, pos =>
    let x := buf.getD pos 0
    if x = c then some pos
    else if x = 0 then none
    else strchr_from buf c k (pos + 1)

def mis_find (mis : memory_input_stream) (c : Nat) : Nat × memory_input_stream :=
  match strchr_from mis.start c (mis.start.length + 1 - mis.read) mis.read with
  | none => (0, { mis with read := mis.count })
  | some p => (mis.start.getD p 0, { mis with read := p })

def mis_consume (mis : memory_input_stream) (b : Nat) : Bool × memory_input_stream :=
  if mis.start.getD mis.read 0 ≠ b then (false, mis)
  else (true, { mis with read := mis.read + 1 })

def mis_validate_utf8 (mis : memory_input_stream) : Bool × memory_input_stream :=
  let len := utf8_validate_sequence (mis.start.drop mis.read) 4
  if len = -1 then (false, mis)
  else (true, { mis with read := mis.read + len.toNat })

def mis_string_start (mis : memory_input_stream) : memory_input_stream :=
  { mis with string := mis.read, write := mis.read, mark := mis.read }

/-- Embedding of `memmove(dst, src, n)` inside one buffer. -/
def memmove (buf : List Nat) (dst src n : Nat) : List Nat :=
  let chunk := (buf.drop src).take n
  buf.take dst ++ chunk ++ buf.drop (dst + chunk.length)

def mis_string_update (mis : memory_input_stream) : memory_input_stream :=
  if mis.mark ≠ mis.write then
    let amt := mis.read - mis.mark
    if amt ≠ 0 then
      { mis with start := memmove mis.start mis.write mis.mark amt, write := mis.write + amt }
    else mis
  else { mis with write := mis.read }

def mis_string_restart (mis : memory_input_stream) : memory_input_stream :=
  { mis with mark := mis.read }

/-- Storing `bytes` through the pointer returned by `mis_writer`, as
`utf8_encode` does: each byte is written at `write`, which then advances. -/
def mis_write_bytes (mis : memory_input_stream) (bytes : List Nat) : memory_input_stream :=
  { mis with
    start := mis.start.take mis.write ++ bytes ++ mis.start.drop (mis.write + bytes.length),
    write := mis.write + bytes.length }

/-- Embedding of `mis_string_complete`: the returned pair is `*bytes` (as the designated
bytes `[string, string + len)`) and the length. -/
def mis_string_complete (mis : memory_input_stream) : (List Nat × Nat) × memory_input_stream :=
  if mis.mark = mis.string then
    let len := mis.read - mis.string
    (((mis.start.drop mis.string).take len, len), { mis with read := mis.read + 1 })
  else
    let mis1 := mis_string_update mis
    let len := mis1.write - mis1.string
    (((mis1.start.drop mis1.string).take len, len), { mis1 with read := mis1.read + 1 })

/-! ## types.h: parser, error.c -/

/-- Embedding of `struct dom_info`: `hdr` is the index of the chunk in the event log's chain
(`none` for a null pointer), `offset` a byte offset into that chunk. -/
structure dom_info where
  hdr : Option Nat
  offset : Nat
  deriving DecidableEq, Inhabited

/-- Embedding of `struct jsnpg_parser`, without the allocator and the jump buffer. -/
structure parser where
  flags : Nat
  mis : memory_input_stream
  state : parse_state
  dom_info : dom_info
  result : jsnpg_result
  stack : stack
  deriving DecidableEq, Inhabited

def make_error_return (code : jsnpg_error_code) (at_ : Nat) : jsnpg_result :=
  { type := JSNPG_ERROR, position := at_, u := result_union.error code }

/-! ## Non-local exit

A parse helper either returns a value together with the parser it leaves
behind, or it leaves through `longjmp` after `throw_parse_error` has stored the
error in `p->result`.  `Res.thrown` carries the parser at the time of the
jump.  `Res.aborted` is a failed `assert(false)`: the debug build stops there
and the release build has no defined behaviour.  It is also what a loop of the
embedding yields when its iteration bound runs out, which the bounds chosen
rule out. -/

inductive Res (α : Type) where
  | ok (a : α) (p : parser)
  | thrown (p : parser)
  | aborted (p : parser)
  deriving DecidableEq

/-- A parse helper taking `parser *p`. -/
def PM (α : Type) : Type := parser → Res α

def PM.pure {α : Type} (a : α) : PM α := fun p => Res.ok a p

def PM.bind {α β : Type} (m : PM α) (f : α → PM β) : PM β := fun p =>
  match m p with
  | Res.ok a p1 => f a p1
  | Res.thrown p1 => Res.thrown p1
  | Res.aborted p1 => Res.aborted p1

instance : Monad PM where
  pure := PM.pure
  bind := PM.bind

/-- Run a stream primitive on `p->mis`. -/
def on_mis {α : Type} (f : memory_input_stream → α × memory_input_stream) : PM α := fun p =>
  let r := f p.mis
  Res.ok r.1 { p with mis := r.2 }

/-- Apply a stream update to `p->mis`. -/
def set_mis (f : memory_input_stream → memory_input_stream) : PM Unit := fun p =>
  Res.ok () { p with mis := f p.mis }

/-- Read from `p->mis` without changing it. -/
def get_mis {α : Type} (f : memory_input_stream → α) : PM α := fun p => Res.ok (f p.mis) p

/-! ## parser.c -/

def MIN_STACK_SIZE : Nat := 1024

def parser_in_object (p : parser) : Bool := stack_peek p.stack == STACK_OBJECT

def parser_in_array (p : parser) : Bool := stack_peek p.stack == STACK_ARRAY

def parse_position (p : parser) : Nat := if p.mis.has_start then mis_tell p.mis else 0

/-- Embedding of `make_parse_result(p, type, ...)`: the variadic arguments are given as
the union member they fill. -/
def make_parse_result (p : parser) (type : jsnpg_type) (u : result_union) : jsnpg_result :=
  { type := type, position := parse_position p, u := u }

def throw_parse_error_at {α : Type} (code : jsnpg_error_code) (at_ : Nat) : PM α := fun p =>
  Res.thrown { p with result := make_error_return code at_ }

def throw_parse_error {α : Type} (code : jsnpg_error_code) : PM α := fun p =>
  throw_parse_error_at code (parse_position p) p

def parse_start_object : PM Int := do
  let _ ← on_mis mis_take
  fun p =>
    let r := stack_push p.stack STACK_OBJECT
    if r.1 = -1 then throw_parse_error JSNPG_ERROR_STACK_OVERFLOW { p with stack := r.2 }
    else Res.ok STACK_OBJECT { p with stack := r.2 }

def parse_end_object : PM Int := do
  let _ ← on_mis mis_take
  fun p =>
    let r := stack_pop p.stack
    if r.1 = -1 then throw_parse_error JSNPG_ERROR_STACK_UNDERFLOW { p with stack := r.2 }
    else Res.ok r.1 { p with stack := r.2 }

def parse_start_array : PM Int := do
  let _ ← on_mis mis_take
  fun p =>
    let r := stack_push p.stack STACK_ARRAY
    if r.1 = -1 then throw_parse_error JSNPG_ERROR_STACK_OVERFLOW { p with stack := r.2 }
    else Res.ok STACK_ARRAY { p with stack := r.2 }

def parse_end_array : PM Int := do
  let _ ← on_mis mis_take
  fun p =>
    let r := stack_pop p.stack
    if r.1 = -1 then throw_parse_error JSNPG_ERROR_STACK_UNDERFLOW { p with stack := r.2 }
    else Res.ok r.1 { p with stack := r.2 }

/-- The chain `!mis_consume(mis, c1) || !mis_consume(mis, c2) || ...` with
C short-circuit evaluation: true when some byte fails to match. -/
def consume_fails : List Nat → PM Bool
  | [] => pure false
  | c :: cs => do
    let ok ← on_mis (fun m => mis_consume m c)
    if !ok then pure true else consume_fails cs

def parse_true : PM Unit := do
  let _ ← on_mis mis_take
  if (← consume_fails [0x72, 0x75, 0x65]) then throw_parse_error JSNPG_ERROR_UNEXPECTED
  else pure ()

def parse_false : PM Unit := do
  let _ ← on_mis mis_take
  if (← consume_fails [0x61, 0x6C, 0x73, 0x65]) then throw_parse_error JSNPG_ERROR_UNEXPECTED
  else pure ()

def parse_null : PM Unit := do
  let _ ← on_mis mis_take
  if (← consume_fails [0x75, 0x6C, 0x6C]) then throw_parse_error JSNPG_ERROR_UNEXPECTED
  else pure ()

/-- The loop of `parse_hex4`; the first argument counts the iterations left.
`codepoint` is `unsigned`, 32 bits wide. -/
def parse_hex4_loop : Nat → Nat → PM Nat
  | 0, codepoint => pure codepoint
  | k + 1, codepoint => do
    let c ← get_mis mis_peek
    let codepoint := (codepoint <<< 4) % 2 ^ 32
    if c ≥ 0x30 ∧ c ≤ 0x39 then
      let _ ← on_mis mis_take
      parse_hex4_loop k ((codepoint + (c - 0x30)) % 2 ^ 32)
    else if c ≥ 0x41 ∧ c ≤ 0x46 then
      let _ ← on_mis mis_take
      parse_hex4_loop k ((codepoint + (10 + (c - 0x41))) % 2 ^ 32)
    else if c ≥ 0x61 ∧ c ≤ 0x66 then
      let _ ← on_mis mis_take
      parse_hex4_loop k ((codepoint + (10 + (c - 0x61))) % 2 ^ 32)
    else throw_parse_error JSNPG_ERROR_ESCAPE

def parse_hex4 : PM Nat := parse_hex4_loop 4 0

/-- The table `escape[256]` of `parse_escape`; entries not listed are 0. -/
def escape_table (e : Nat) : Nat :=
  if e = 0x22 then 0x22        -- '"'
  else if e = 0x2F then 0x2F   -- '/'
  else if e = 0x5C then 0x5C   -- '\\'
  else if e = 0x62 then 0x08   -- 'b'
  else if e = 0x66 then 0x0C   -- 'f'
  else if e = 0x6E then 0x0A   -- 'n'
  else if e = 0x72 then 0x0D   -- 'r'
  else if e = 0x74 then 0x09   -- 't'
  else 0

def parse_escape : PM Nat := do
  let _ ← on_mis mis_take
  let e ← get_mis mis_peek
  if escape_table e ≠ 0 then
    let _ ← on_mis mis_take
    pure (escape_table e)
  else if e = 0x75 then
    let _ ← on_mis mis_take
    let codepoint ← parse_hex4
    if codepoint ≥ 0xD800 ∧ codepoint ≤ 0xDFFF then
      if codepoint ≤ 0xDBFF then
        let c1 ← on_mis (fun m => mis_consume m 0x5C)
        let c2 ← if c1 then on_mis (fun m => mis_consume m 0x75) else pure false
        if !(c1 && c2) then throw_parse_error JSNPG_ERROR_SURROGATE
        else
          let codepoint2 ← parse_hex4
          if codepoint2 < 0xDC00 ∨ codepoint2 > 0xDFFF then
            throw_parse_error JSNPG_ERROR_SURROGATE
          else
            pure (((((codepoint - 0xD800) <<< 10) ||| (codepoint2 - 0xDC00)) + 0x10000) % 2 ^ 32)
      else throw_parse_error JSNPG_ERROR_SURROGATE
    else pure codepoint
  else throw_parse_error JSNPG_ERROR_ESCAPE

/-- The loop of `mis_consume_whitespace`; the first argument bounds the
iterations by the bytes left in the buffer. -/
def mis_consume_whitespace_loop : Nat → memory_input_stream → Nat × memory_input_stream
  | 0, mis => (mis_peek mis, mis)
  | k + 1, mis =>
    let c := mis_peek mis
    if c = 0x20 ∨ c = 0x0A ∨ c = 0x0D ∨ c = 0x09 then
      mis_consume_whitespace_loop k (mis_take mis).2
    else (c, mis)

def mis_consume_whitespace (mis : memory_input_stream) : Nat × memory_input_stream :=
  mis_consume_whitespace_loop (mis.start.length + 1 - mis.read) mis

/-- The inner `while(true)` of `consume_whitespace` that skips a block comment
after its opening `/*`.  The flag is true for the `break` (comment closed) and
false for the `return 0` at end of input.  The first argument bounds the
iterations. -/
def block_comment_loop : Nat → memory_input_stream → Bool × memory_input_stream
  | 0, mis => (false, mis)
  | k + 1, mis =>
    let r := mis_find mis 0x2A
    if r.1 = 0x2A then
      let m1 := (mis_take r.2).2
      let r2 := mis_consume m1 0x2F
      if r2.1 then (true, r2.2)
      else if mis_eof r2.2 then (false, r2.2)
      else block_comment_loop k r2.2
    else if mis_eof r.2 then (false, r.2)
    else block_comment_loop k r.2

/-- The outer `while(true)` of `consume_whitespace` when comments are
allowed.  The first argument bounds the iterations. -/
def consume_whitespace_loop : Nat → PM Nat
  | 0 => get_mis mis_peek
  | k + 1 => do
    let c ← on_mis mis_consume_whitespace
    if c ≠ 0x2F then pure c
    else
      let _ ← on_mis mis_take
      let c ← get_mis mis_peek
      if c = 0x2A then
        let _ ← on_mis mis_take
        let closed ← on_mis
          (fun m => block_comment_loop (m.start.length + 1 - m.read) m)
        if closed then consume_whitespace_loop k else pure 0
      else if c = 0x2F then
        let _ ← on_mis (fun m => mis_find m 0x0A)
        if (← get_mis mis_eof) then pure 0 else consume_whitespace_loop k
      else throw_parse_error JSNPG_ERROR_UNEXPECTED

def consume_whitespace (allow_comments : Bool) : PM Nat :=
  if !allow_comments then on_mis mis_consume_whitespace
  else fun p => consume_whitespace_loop (p.mis.start.length + 1 - p.mis.read) p

/-- The `while(true)` of `parse_string_in_stream`; the first argument bounds
the iterations by the bytes left in the buffer. -/
def parse_string_loop (validate_utf8 : Bool) : Nat → PM (List Nat × Nat)
  | 0 => fun p => Res.aborted p
  | k + 1 => do
    let c ← get_mis mis_peek
    if c = 0x22 then on_mis mis_string_complete
    else if c = 0x5C then
      set_mis mis_string_update
      let codepoint ← parse_escape
      set_mis (fun m => mis_write_bytes m (utf8_encode codepoint))
      set_mis mis_string_restart
      parse_string_loop validate_utf8 k
    else if validate_utf8 && decide (c ≥ 0x80) then
      if !(← on_mis mis_validate_utf8) then throw_parse_error JSNPG_ERROR_UTF8
      else parse_string_loop validate_utf8 k
    else if c < 0x20 then throw_parse_error JSNPG_ERROR_INVALID
    else
      let _ ← on_mis mis_take
      parse_string_loop validate_utf8 k

def parse_string_in_stream (validate_utf8 : Bool) : PM (List Nat × Nat) := do
  set_mis mis_string_start
  fun p => parse_string_loop validate_utf8 (p.mis.start.length + 1 - p.mis.read) p

def parse_string (validate_utf8 : Bool) : PM (List Nat × Nat) := do
  let _ ← on_mis mis_take
  parse_string_in_stream validate_utf8

/-- The third-party numeric routines, which are not part of the sources at
hand (`thirdparty/fast_double_parser.h`, `thirdparty/dragonbox.c`) and are
taken as parameters.  A double is its 64-bit pattern.
`compute_float_64 power i negative` is `some d` when the routine sets
`*success`; `parse_float_strtod text` gets the bytes from `start` up to the
sentinel and yields the double and the number of bytes up to the returned end
pointer, or `none` for a null return; `dtoa d` is the text written. -/
structure FloatPrims where
  FASTFLOAT_SMALLEST_POWER : Int
  FASTFLOAT_LARGEST_POWER : Int
  compute_float_64 : Int → Nat → Bool → Option Nat
  parse_float_strtod : List Nat → Option (Nat × Nat)
  dtoa : Nat → List Nat

def LONG_MAX : Nat := 2 ^ 63 - 1

/-- Conversion of a 64-bit unsigned value to `long` (two's complement). -/
def to_long (u : Nat) : Int :=
  if u % 2 ^ 64 < 2 ^ 63 then ((u % 2 ^ 64 : Nat) : Int) else ((u % 2 ^ 64 : Nat) : Int) - 2 ^ 64

/-- Embedding of `byte` subtraction `x - '0'`, modulo 256. -/
def sub_zero (x : Nat) : Nat := (x + 256 - 0x30) % 256

def max_sig_digits : Int := 19

/-- The locals of `parse_number` that its digit loops update. -/
structure number_scan where
  sum : Nat
  exponent : Int
  sig_digits : Int
  c : Nat
  deriving DecidableEq, Inhabited

/-- Embedding of `while(c < 10)` over the digits of the integer part. -/
def integer_digits_loop : Nat → number_scan → memory_input_stream →
    number_scan × memory_input_stream
  | 0, n, mis => (n, mis)
  | k + 1, n, mis =>
    if n.c < 10 then
      let mis := (mis_take mis).2
      let n : number_scan :=
        if n.sig_digits < max_sig_digits then
          { n with sig_digits := n.sig_digits + 1, sum := (n.sum * 10 + n.c) % 2 ^ 64 }
        else { n with sig_digits := n.sig_digits + 1, exponent := n.exponent + 1 }
      integer_digits_loop k { n with c := sub_zero (mis_peek mis) } mis
    else (n, mis)

/-- Embedding of `do { ... } while(c < 10)` over the digits of the fraction. -/
def fraction_digits_loop : Nat → number_scan → memory_input_stream →
    number_scan × memory_input_stream
  | 0, n, mis => (n, mis)
  | k + 1, n, mis =>
    let mis := (mis_take mis).2
    let n : number_scan :=
      if n.sig_digits < max_sig_digits then
        let sum := (10 * n.sum + n.c) % 2 ^ 64
        { n with sum := sum, exponent := n.exponent - 1,
                 sig_digits := n.sig_digits + (if sum ≠ 0 then 1 else 0) }
      else n
    let n : number_scan := { n with c := sub_zero (mis_peek mis) }
    if n.c < 10 then fraction_digits_loop k n mis else (n, mis)

/-- Embedding of `do { ... } while(c < 10)` over the digits of the exponent; `none` is the
`throw_parse_error` inside the loop, with the stream at that point. -/
def exponent_digits_loop : Nat → Int → Nat → memory_input_stream →
    Option (Int × Nat) × memory_input_stream
  | 0, exp, c, mis => (some (exp, c), mis)
  | k + 1, exp, c, mis =>
    let mis := (mis_take mis).2
    let exp : Int := 10 * exp + (c : Int)
    if exp > 1000 then (none, mis)
    else
      let c := sub_zero (mis_peek mis)
      if c < 10 then exponent_digits_loop k exp c mis else (some (exp, c), mis)

/-- Embedding of `parse_number`, lines 361-373: the optional sign and the first digit.
Yields `negative` and the scan locals. -/
def parse_number_first : PM (Bool × number_scan) := do
  let c ← on_mis mis_take
  let negative := decide (c = 0x2D)
  let c ← if c = 0x2D then on_mis mis_take else pure c
  let c := sub_zero c
  if c < 10 then
    let sum := c
    pure (negative, { sum := sum, exponent := 0, sig_digits := if sum ≠ 0 then 1 else 0, c := c })
  else throw_parse_error JSNPG_ERROR_NUMBER

/-- Embedding of `parse_number`, lines 375-386: the remaining digits of the integer part. -/
def parse_number_integer_part (n : number_scan) : PM number_scan := do
  let c ← get_mis mis_peek
  let n : number_scan := { n with c := sub_zero c }
  if n.sum ≠ 0 then
    on_mis (fun m => integer_digits_loop (m.start.length + 1 - m.read) n m)
  else pure n

/-- Embedding of `parse_number`, lines 387-405: the fraction.  The flag is `force_double`. -/
def parse_number_fraction (n : number_scan) (force_double : Bool) : PM (number_scan × Bool) := do
  let point : Nat := sub_zero 0x2E
  if n.c = point then
    let _ ← on_mis mis_take
    let c ← get_mis mis_peek
    let n : number_scan := { n with c := sub_zero c }
    if n.c ≥ 10 then throw_parse_error JSNPG_ERROR_NUMBER
    else
      let n ← on_mis (fun m => fraction_digits_loop (m.start.length + 1 - m.read) n m)
      pure (n, true)
  else pure (n, force_double)

/-- Embedding of `parse_number`, lines 406-434: the exponent. -/
def parse_number_exponent (n : number_scan) (force_double : Bool) : PM (number_scan × Bool) := do
  let lower_e : Nat := sub_zero 0x65
  let upper_e : Nat := sub_zero 0x45
  if n.c = lower_e ∨ n.c = upper_e then
    let _ ← on_mis mis_take
    let c ← get_mis mis_peek
    let exp_sign : Int := if c = 0x2D then -1 else 1
    let c ← if c = 0x2D ∨ c = 0x2B then do
        let _ ← on_mis mis_take
        get_mis mis_peek
      else pure c
    let c := sub_zero c
    if c ≥ 10 then throw_parse_error JSNPG_ERROR_NUMBER
    else
      let e ← on_mis (fun m => exponent_digits_loop (m.start.length + 1 - m.read) 0 c m)
      match e with
      | none => throw_parse_error JSNPG_ERROR_NUMBER
      | some (exp, c) =>
        pure ({ n with exponent := n.exponent + exp_sign * exp, c := c }, true)
  else pure (n, force_double)

/-- Embedding of `parse_number`, lines 443-455: the conversion to `double`, by
the fast path or else by `parse_float_strtod` from the start of the numeral. -/
def parse_number_real (fp : FloatPrims) (start_pos : Nat) (negative : Bool) (n : number_scan) :
    PM (jsnpg_type × result_union) := do
  let fast :=
    if n.exponent ≥ fp.FASTFLOAT_SMALLEST_POWER ∨ n.exponent ≤ fp.FASTFLOAT_LARGEST_POWER then
      fp.compute_float_64 n.exponent n.sum negative
    else none
  match fast with
  | some d => pure (JSNPG_REAL, result_union.real d)
  | none =>
    let text ← get_mis (fun m => m.start.drop start_pos)
    match fp.parse_float_strtod text with
    | none => throw_parse_error JSNPG_ERROR_NUMBER
    | some (d, len) =>
      set_mis (fun m => mis_adjust m (start_pos + len))
      pure (JSNPG_REAL, result_union.real d)

/-- Embedding of `parse_number`, lines 436-459: the choice between `long` and
`double`. -/
def parse_number_finish (fp : FloatPrims) (start_pos : Nat) (negative : Bool) (n : number_scan)
    (force_double : Bool) : PM (jsnpg_type × result_union) :=
  let force_double : Bool := force_double
    || decide (n.sig_digits > max_sig_digits)
    || (if negative then decide (n.sum > 1 + LONG_MAX) else decide (n.sum > LONG_MAX))
  if force_double then parse_number_real fp start_pos negative n
  else
    pure (JSNPG_INTEGER,
      result_union.integer (to_long (if negative then 2 ^ 64 - n.sum else n.sum)))

/-- Embedding of `parse_number`, as the sequence of its parts. -/
def parse_number (fp : FloatPrims) : PM (jsnpg_type × result_union) := do
  let start_pos ← get_mis mis_tell
  let first ← parse_number_first
  let n ← parse_number_integer_part first.2
  let r ← parse_number_fraction n false
  let r ← parse_number_exponent r.1 r.2
  parse_number_finish fp start_pos first.1 r.1 r.2

/-! ## types.h: generator, generate.c (release build: `ASSERT` compiled out) -/

/-- Embedding of `struct jsnpg_generator` without the allocator; the callback table is
passed alongside.  `ctx` is the sink's own state and `error` the code of
`g->error`. -/
structure generator (σ : Type) where
  ctx : σ
  validate_utf8 : Bool
  key_next : Bool
  error : jsnpg_error_code
  count : Nat
  stack : stack

/-- Embedding of `jsnpg_callbacks`: a null function pointer is `none`.  A callback gets the
generator it is registered with, through which it reaches its `ctx`, and
returns its boolean together with the generator it leaves behind. -/
structure callbacks (σ : Type) where
  boolean : Option (generator σ → Bool → Bool × generator σ)
  null : Option (generator σ → Bool × generator σ)
  integer : Option (generator σ → Int → Bool × generator σ)
  real : Option (generator σ → Nat → Bool × generator σ)
  string : Option (generator σ → List Nat → Nat → Bool × generator σ)
  key : Option (generator σ → List Nat → Nat → Bool × generator σ)
  start_array : Option (generator σ → Bool × generator σ)
  end_array : Option (generator σ → Bool × generator σ)
  start_object : Option (generator σ → Bool × generator σ)
  end_object : Option (generator σ → Bool × generator σ)

variable {σ : Type}

def jsnpg_null (cb : callbacks σ) (g : generator σ) : Bool × generator σ :=
  match cb.null with
  | none => (true, g)
  | some f => f g

def jsnpg_boolean (cb : callbacks σ) (g : generator σ) (is_true : Bool) : Bool × generator σ :=
  match cb.boolean with
  | none => (true, g)
  | some f => f g is_true

def jsnpg_integer (cb : callbacks σ) (g : generator σ) (integer : Int) : Bool × generator σ :=
  match cb.integer with
  | none => (true, g)
  | some f => f g integer

def jsnpg_real (cb : callbacks σ) (g : generator σ) (real : Nat) : Bool × generator σ :=
  match cb.real with
  | none => (true, g)
  | some f => f g real

def jsnpg_string (cb : callbacks σ) (g : generator σ) (bytes : List Nat) (count : Nat) :
    Bool × generator σ :=
  match cb.string with
  | none => (true, g)
  | some f => f g bytes count

def jsnpg_key (cb : callbacks σ) (g : generator σ) (bytes : List Nat) (count : Nat) :
    Bool × generator σ :=
  match cb.key with
  | none => (true, g)
  | some f => f g bytes count

def jsnpg_start_array (cb : callbacks σ) (g : generator σ) : Bool × generator σ :=
  match cb.start_array with
  | none => (true, g)
  | some f => f g

def jsnpg_end_array (cb : callbacks σ) (g : generator σ) : Bool × generator σ :=
  match cb.end_array with
  | none => (true, g)
  | some f => f g

def jsnpg_start_object (cb : callbacks σ) (g : generator σ) : Bool × generator σ :=
  match cb.start_object with
  | none => (true, g)
  | some f => f g

def jsnpg_end_object (cb : callbacks σ) (g : generator σ) : Bool × generator σ :=
  match cb.end_object with
  | none => (true, g)
  | some f => f g

def generator_reset (g : generator σ) (flags : Nat) : generator σ :=
  { g with count := 0, validate_utf8 := !flag_set flags JSNPG_ALLOW_INVALID_UTF8_OUT,
           error := JSNPG_ERROR_NONE }

/-- Embedding of `generator_new` followed by `generator_set_callbacks(g, callbacks, ctx)`;
the bit-stack bytes are taken as zero. -/
def generator_new (stack_size : Nat) (flags : Nat) (ctx : σ) : generator σ :=
  { ctx := ctx, validate_utf8 := !flag_set flags JSNPG_ALLOW_INVALID_UTF8_OUT,
    key_next := false, error := JSNPG_ERROR_NONE, count := 0,
    stack := { ptr := 0, size := stack_size, stack := List.replicate (stack_size >>> 3) 0 } }

def make_pg_error_return (p : parser) (g : generator σ) : jsnpg_result :=
  let r := p.result
  if r.type = JSNPG_ERROR then
    if r.u = result_union.error JSNPG_ERROR_TERMINATED ∧ g.error ≠ JSNPG_ERROR_NONE then
      { r with u := result_union.error g.error }
    else r
  else make_error_return JSNPG_ERROR_UNEXPECTED 0

/-! ## parser.c: construction -/

def get_stack_size (stack_size : Nat) : Nat :=
  if stack_size > MIN_STACK_SIZE then stack_size else MIN_STACK_SIZE

/-- Embedding of `parser_new`; the bit-stack bytes, which follow the struct in the same
allocation, are taken as zero. -/
def parser_new (stack_size : Nat) (flags : Nat) : parser :=
  { flags := flags, mis := mis_new, state := STATE_START,
    dom_info := { hdr := none, offset := 0 },
    result := { type := JSNPG_NONE, position := 0, u := result_union.none },
    stack := { ptr := 0, size := stack_size,
               stack := List.replicate ((stack_size + 7) / 8) 0 } }

/-- Embedding of `parser_set_bytes`: skip a byte order mark, copy `count` bytes and append
the sentinel. -/
def parser_set_bytes (p : parser) (bytes : List Nat) (count : Nat) : parser :=
  let skip := utf8_bom_bytes bytes count
  let bytes := bytes.drop skip
  let count := count - skip
  { p with mis := mis_set_bytes p.mis (bytes.take count ++ [0]) count }

/-! ## parse.c -/

/-- Outcome of a step that works on a parser and a generator together. -/
inductive GRes (σ : Type) (α : Type) where
  | ok (a : α) (p : parser) (g : generator σ)
  | thrown (p : parser) (g : generator σ)
  | aborted (p : parser) (g : generator σ)

/-- A step taking `parser *p` and `generator *g`. -/
def GM (σ : Type) (α : Type) : Type := parser → generator σ → GRes σ α

def GM.pure {α : Type} (a : α) : GM σ α := fun p g => GRes.ok a p g

def GM.bind {α β : Type} (m : GM σ α) (f : α → GM σ β) : GM σ β := fun p g =>
  match m p g with
  | GRes.ok a p1 g1 => f a p1 g1
  | GRes.thrown p1 g1 => GRes.thrown p1 g1
  | GRes.aborted p1 g1 => GRes.aborted p1 g1

instance : Monad (GM σ) where
  pure := GM.pure
  bind := GM.bind

/-- A parse helper used where a generator is also at hand. -/
def liftP {α : Type} (m : PM α) : GM σ α := fun p g =>
  match m p with
  | Res.ok a p1 => GRes.ok a p1 g
  | Res.thrown p1 => GRes.thrown p1 g
  | Res.aborted p1 => GRes.aborted p1 g

/-- Embedding of `if(!jsnpg_xxx(g, ...)) throw_parse_error(p, JSNPG_ERROR_TERMINATED);` -/
def emit_or_terminate (call : generator σ → Bool × generator σ) : GM σ Unit := fun p g =>
  let r := call g
  if !r.1 then liftP (throw_parse_error JSNPG_ERROR_TERMINATED) p r.2
  else GRes.ok () p r.2

/-- Where control goes after one pass through the body of the `do` loop of
`parse_generate` or one iteration of its inner `while(true)`: to the top of the
`do` loop (`continue`, or `break` out of the inner loop with `more_todo`
still true), into the inner loop, or out of the `do` loop.  The payload is the
locals `b` and `stack_type`. -/
inductive pg_ctl where
  | top (b : Nat) (stack_type : Int)
  | inner (stack_type : Int)
  | finished
  deriving DecidableEq

/-- Lines 64-79 of `parse_generate`: the key of an object member and the colon
after it.  Yields the byte after the whitespace that follows the colon. -/
def pg_top_key (cb : callbacks σ) (opt_comments validate_utf8 : Bool) (b : Nat) : GM σ Nat := do
  if b ≠ 0x22 then liftP (throw_parse_error JSNPG_ERROR_EXPECTED_KEY)
  else
    let s ← liftP (parse_string validate_utf8)
    let b ← liftP (consume_whitespace opt_comments)
    if b ≠ 0x3A then liftP (throw_parse_error JSNPG_ERROR_EXPECTED_KEY)
    else
      emit_or_terminate (fun g => jsnpg_key cb g s.1 s.2)
      let _ ← liftP (on_mis mis_take)
      liftP (consume_whitespace opt_comments)

/-- Lines 81-159 of `parse_generate`: the `switch(b)`. -/
def pg_top_switch (cb : callbacks σ) (fp : FloatPrims)
    (opt_comments opt_trailing_commas validate_utf8 : Bool) (b : Nat) (stack_type : Int) :
    GM σ pg_ctl := do
  if b = 0x5B then
    let stack_type ← liftP parse_start_array
    emit_or_terminate (jsnpg_start_array cb)
    let b ← liftP (consume_whitespace opt_comments)
    let b ← if opt_trailing_commas && decide (b = 0x2C) then do
        let _ ← liftP (on_mis mis_take)
        let b ← liftP (consume_whitespace opt_comments)
        if b ≠ 0x5D then liftP (throw_parse_error JSNPG_ERROR_UNEXPECTED) else pure b
      else pure b
    if b = 0x5D then
      let stack_type ← liftP parse_end_array
      emit_or_terminate (jsnpg_end_array cb)
      pure (pg_ctl.inner stack_type)
    else
      let b ← liftP (consume_whitespace opt_comments)
      pure (pg_ctl.top b stack_type)
  else if b = 0x7B then
    let stack_type ← liftP parse_start_object
    emit_or_terminate (jsnpg_start_object cb)
    let b ← liftP (consume_whitespace opt_comments)
    let b ← if opt_trailing_commas && decide (b = 0x2C) then do
        let _ ← liftP (on_mis mis_take)
        let b ← liftP (consume_whitespace opt_comments)
        if b ≠ 0x7D then liftP (throw_parse_error JSNPG_ERROR_UNEXPECTED) else pure b
      else pure b
    if b = 0x7D then
      let stack_type ← liftP parse_end_object
      emit_or_terminate (jsnpg_end_object cb)
      pure (pg_ctl.inner stack_type)
    else
      let b ← liftP (consume_whitespace opt_comments)
      pure (pg_ctl.top b stack_type)
  else if b = 0x22 then
    let s ← liftP (parse_string validate_utf8)
    emit_or_terminate (fun g => jsnpg_string cb g s.1 s.2)
    pure (pg_ctl.inner stack_type)
  else if b = 0x74 then
    liftP parse_true
    emit_or_terminate (fun g => jsnpg_boolean cb g true)
    pure (pg_ctl.inner stack_type)
  else if b = 0x66 then
    liftP parse_false
    emit_or_terminate (fun g => jsnpg_boolean cb g false)
    pure (pg_ctl.inner stack_type)
  else if b = 0x6E then
    liftP parse_null
    emit_or_terminate (jsnpg_null cb)
    pure (pg_ctl.inner stack_type)
  else if b = 0x2D ∨ (0x30 ≤ b ∧ b ≤ 0x39) then
    let r ← liftP (parse_number fp)
    match r.2 with
    | result_union.real d =>
      emit_or_terminate (fun g => jsnpg_real cb g d)
      pure (pg_ctl.inner stack_type)
    | result_union.integer l =>
      emit_or_terminate (fun g => jsnpg_integer cb g l)
      pure (pg_ctl.inner stack_type)
    | _ => pure (pg_ctl.inner stack_type)
  else liftP (throw_parse_error JSNPG_ERROR_UNEXPECTED)

/-- Lines 64-159 of `parse_generate`: the key of an object member, then the
`switch(b)`. -/
def pg_top (cb : callbacks σ) (fp : FloatPrims) (b : Nat) (stack_type : Int) : GM σ pg_ctl := do
  let flags ← liftP (fun p => Res.ok p.flags p)
  let opt_comments := flag_set flags JSNPG_ALLOW_COMMENTS
  let opt_trailing_commas := flag_set flags JSNPG_ALLOW_TRAILING_COMMAS
  let validate_utf8 := !flag_set flags JSNPG_ALLOW_INVALID_UTF8_IN
  let b ← if stack_type = STACK_OBJECT then pg_top_key cb opt_comments validate_utf8 b
    else pure b
  pg_top_switch cb fp opt_comments opt_trailing_commas validate_utf8 b stack_type

/-- One iteration of the inner `while(true)` of `parse_generate`
(lines 161-185). -/
def pg_inner (cb : callbacks σ) (stack_type : Int) : GM σ pg_ctl := do
  let flags ← liftP (fun p => Res.ok p.flags p)
  let opt_comments := flag_set flags JSNPG_ALLOW_COMMENTS
  let opt_trailing_commas := flag_set flags JSNPG_ALLOW_TRAILING_COMMAS
  let b ← liftP (consume_whitespace opt_comments)
  let r ← if b = 0x2C then do
      let _ ← liftP (on_mis mis_take)
      let b ← liftP (consume_whitespace opt_comments)
      pure (b, !(opt_trailing_commas && (decide (b = 0x7D) || decide (b = 0x5D))))
    else pure (b, false)
  let b := r.1
  if r.2 then pure (pg_ctl.top b stack_type)
  else if b = 0x7D ∧ stack_type = STACK_OBJECT then
    let stack_type ← liftP parse_end_object
    emit_or_terminate (jsnpg_end_object cb)
    pure (pg_ctl.inner stack_type)
  else if b = 0x5D ∧ stack_type = STACK_ARRAY then
    let stack_type ← liftP parse_end_array
    emit_or_terminate (jsnpg_end_array cb)
    pure (pg_ctl.inner stack_type)
  else if stack_type = STACK_NONE then pure pg_ctl.finished
  else liftP (throw_parse_error JSNPG_ERROR_UNEXPECTED)

/-- The `do ... while(more_todo)` loop of `parse_generate` with its inner
loop, one pass or iteration per unit of the first argument. -/
def pg_loop (cb : callbacks σ) (fp : FloatPrims) : Nat → pg_ctl → GM σ Unit
  | 0, _ => fun p g => GRes.aborted p g
  | _ + 1, pg_ctl.finished => pure ()
  | k + 1, pg_ctl.top b stack_type => do
    let c ← pg_top cb fp b stack_type
    pg_loop cb fp k c
  | k + 1, pg_ctl.inner stack_type => do
    let c ← pg_inner cb stack_type
    pg_loop cb fp k c

/-- Embedding of `parse_generate`.  Every pass through the loop consumes a byte, leaves the
loop or throws, so twice the buffer length plus two bounds the passes. -/
def parse_generate (cb : callbacks σ) (fp : FloatPrims) : GM σ Unit := do
  let flags ← liftP (fun p => Res.ok p.flags p)
  let opt_comments := flag_set flags JSNPG_ALLOW_COMMENTS
  let b ← liftP (consume_whitespace opt_comments)
  let n ← liftP (fun p => Res.ok (2 * p.mis.start.length + 3) p)
  pg_loop cb fp n (pg_ctl.top b STACK_NONE)
  let _ ← liftP (consume_whitespace opt_comments)
  pure ()

/-- The `while(true)` of `parse`, one call of `parse_generate` per unit of
the first argument. -/
def parse_loop (cb : callbacks σ) (fp : FloatPrims) : Nat → GM σ Unit
  | 0 => fun p g => GRes.aborted p g
  | k + 1 => do
    parse_generate cb fp
    let flags ← liftP (fun p => Res.ok p.flags p)
    let multiple_values := flag_set flags JSNPG_ALLOW_MULTIPLE_VALUES
    let trailing_chars := flag_set flags JSNPG_ALLOW_TRAILING_CHARS
    if !(← liftP (get_mis mis_eof)) then
      if multiple_values then parse_loop cb fp k
      else if !trailing_chars then liftP (throw_parse_error JSNPG_ERROR_UNEXPECTED)
      else pure ()
    else pure ()

/-- Embedding of `parse`: the result record together with the parser and the generator as
the call leaves them. -/
def parse (cb : callbacks σ) (fp : FloatPrims) (p : parser) (g : generator σ) :
    jsnpg_result × parser × generator σ :=
  match parse_loop cb fp (p.mis.start.length + 2) p g with
  | GRes.ok _ p1 g1 => (make_parse_result p1 JSNPG_EOF result_union.none, p1, g1)
  | GRes.thrown p1 g1 => (make_pg_error_return p1 g1, p1, g1)
  | GRes.aborted p1 g1 => (make_pg_error_return p1 g1, p1, g1)

/-! ## parsenext.c -/

/-- Embedding of `state_change_value`; `none` is the `assert(false && "Invalid state")`. -/
def state_change_value (state : parse_state) : Option parse_state :=
  if state = STATE_START then some STATE_DONE
  else if state = STATE_KEY then some STATE_KEY_VALUE
  else if state = STATE_ARRAY ∨ state = STATE_ARRAY_VALUE then some STATE_ARRAY_VALUE
  else none

def state_change_end (p : parser) : parse_state :=
  if parser_in_object p then STATE_KEY_VALUE
  else if parser_in_array p then STATE_ARRAY_VALUE
  else STATE_DONE

/-- The common body of `accept_boolean`, `accept_null`, `accept_integer`,
`accept_real` and `accept_string`. -/
def accept_value (type : jsnpg_type) (u : result_union) : PM jsnpg_type := fun p =>
  match state_change_value p.state with
  | none => Res.aborted p
  | some st =>
    let p1 := { p with state := st }
    let p2 := { p1 with result := make_parse_result p1 type u }
    Res.ok p2.result.type p2

def accept_boolean (is_true : Bool) : PM jsnpg_type :=
  accept_value (if is_true then JSNPG_TRUE else JSNPG_FALSE) result_union.none

def accept_null : PM jsnpg_type := accept_value JSNPG_NULL result_union.none

def accept_integer (integer : Int) : PM jsnpg_type :=
  accept_value JSNPG_INTEGER (result_union.integer integer)

def accept_real (real : Nat) : PM jsnpg_type :=
  accept_value JSNPG_REAL (result_union.real real)

def accept_string (bytes : List Nat) (count : Nat) : PM jsnpg_type :=
  accept_value JSNPG_STRING (result_union.string bytes count)

/-- The common body of the `accept_` functions that set the state directly. -/
def accept_with (st : parser → parse_state) (type : jsnpg_type) (u : result_union) :
    PM jsnpg_type := fun p =>
  let p1 := { p with state := st p }
  let p2 := { p1 with result := make_parse_result p1 type u }
  Res.ok p2.result.type p2

def accept_key (bytes : List Nat) (count : Nat) : PM jsnpg_type :=
  accept_with (fun _ => STATE_KEY) JSNPG_KEY (result_union.string bytes count)

def accept_start_object : PM jsnpg_type :=
  accept_with (fun _ => STATE_OBJECT) JSNPG_START_OBJECT result_union.none

def accept_end_object : PM jsnpg_type :=
  accept_with state_change_end JSNPG_END_OBJECT result_union.none

def accept_start_array : PM jsnpg_type :=
  accept_with (fun _ => STATE_ARRAY) JSNPG_START_ARRAY result_union.none

def accept_end_array : PM jsnpg_type :=
  accept_with state_change_end JSNPG_END_ARRAY result_union.none

def accept_eof : PM jsnpg_type := fun p =>
  let p2 := { p with result := make_parse_result p JSNPG_EOF result_union.none }
  Res.ok p2.result.type p2

/-- The second `switch(b)` of `parse_next`: a value, `{` or `[` is expected. -/
def parse_next_value (fp : FloatPrims) (validate_utf8 : Bool) (b : Nat) : PM jsnpg_type := do
  if b = 0x22 then
    let s ← parse_string validate_utf8
    accept_string s.1 s.2
  else if b = 0x7B then
    let _ ← parse_start_object
    accept_start_object
  else if b = 0x5B then
    let _ ← parse_start_array
    accept_start_array
  else if b = 0x74 then
    parse_true
    accept_boolean true
  else if b = 0x66 then
    parse_false
    accept_boolean false
  else if b = 0x6E then
    parse_null
    accept_null
  else if b = 0x2D ∨ (0x30 ≤ b ∧ b ≤ 0x39) then
    let r ← parse_number fp
    match r.2 with
    | result_union.real d => accept_real d
    | result_union.integer l => accept_integer l
    | _ => fun p => Res.aborted p
  else throw_parse_error JSNPG_ERROR_UNEXPECTED

/-- Embedding of `case STATE_OBJECT_COMMA` of `parse_next`. -/
def parse_next_object_comma (opt_comments validate_utf8 : Bool) (b : Nat) : PM jsnpg_type := do
  if b ≠ 0x22 then throw_parse_error JSNPG_ERROR_EXPECTED_KEY
  else
    let s ← parse_string validate_utf8
    let b ← consume_whitespace opt_comments
    if b ≠ 0x3A then throw_parse_error JSNPG_ERROR_EXPECTED_KEY
    else
      let _ ← on_mis mis_take
      accept_key s.1 s.2

/-- Embedding of `case STATE_OBJECT` of `parse_next`, which falls through into
`case STATE_OBJECT_COMMA`. -/
def parse_next_object (opt_comments validate_utf8 : Bool) (b : Nat) : PM jsnpg_type := do
  if b = 0x7D then
    let _ ← parse_end_object
    accept_end_object
  else parse_next_object_comma opt_comments validate_utf8 b

/-- Embedding of `case STATE_ARRAY` of `parse_next`: an end of array, or `break` to the
value switch. -/
def parse_next_array (fp : FloatPrims) (validate_utf8 : Bool) (b : Nat) : PM jsnpg_type := do
  if b = 0x5D then
    let _ ← parse_end_array
    accept_end_array
  else parse_next_value fp validate_utf8 b

/-- The `while(true)` of `parse_next` from the local `state` and byte `b`.
The `continue` of `case STATE_KEY_VALUE` re-enters the switch at
`STATE_OBJECT_COMMA`, which always returns or throws, so the loop body runs at
most twice; the re-entry is written out. -/
def parse_next_switch (fp : FloatPrims) (state : parse_state) (b : Nat) : PM jsnpg_type := do
  let flags ← fun p => Res.ok p.flags p
  let opt_comments := flag_set flags JSNPG_ALLOW_COMMENTS
  let validate_utf8 := !flag_set flags JSNPG_ALLOW_INVALID_UTF8_IN
  match state with
  | STATE_KEY_VALUE =>
    if b = 0x7D then
      let _ ← parse_end_object
      accept_end_object
    else
      let b ← if b = 0x2C then do
          let _ ← on_mis mis_take
          consume_whitespace opt_comments
        else pure b
      if !flag_set flags JSNPG_ALLOW_TRAILING_COMMAS then
        parse_next_object_comma opt_comments validate_utf8 b
      else parse_next_object opt_comments validate_utf8 b
  | STATE_OBJECT => parse_next_object opt_comments validate_utf8 b
  | STATE_OBJECT_COMMA => parse_next_object_comma opt_comments validate_utf8 b
  | STATE_ARRAY_VALUE =>
    if b = 0x5D then
      let _ ← parse_end_array
      accept_end_array
    else if b = 0x2C then
      let _ ← on_mis mis_take
      let b ← consume_whitespace opt_comments
      if !flag_set flags JSNPG_ALLOW_TRAILING_COMMAS then parse_next_value fp validate_utf8 b
      else parse_next_array fp validate_utf8 b
    else throw_parse_error JSNPG_ERROR_UNEXPECTED
  | STATE_ARRAY => parse_next_array fp validate_utf8 b
  | STATE_DONE =>
    let _ ← consume_whitespace opt_comments
    if !(← get_mis mis_eof) then
      if flag_set flags JSNPG_ALLOW_MULTIPLE_VALUES then parse_next_value fp validate_utf8 b
      else if !flag_set flags JSNPG_ALLOW_TRAILING_CHARS then
        throw_parse_error JSNPG_ERROR_UNEXPECTED
      else do
        fun p => Res.ok () { p with state := STATE_EOF }
        accept_eof
    else do
      fun p => Res.ok () { p with state := STATE_EOF }
      accept_eof
  | _ => parse_next_value fp validate_utf8 b

def parse_next (fp : FloatPrims) : PM jsnpg_type := do
  let flags ← fun p => Res.ok p.flags p
  let opt_comments := flag_set flags JSNPG_ALLOW_COMMENTS
  let state ← fun p => Res.ok p.state p
  let b ← consume_whitespace opt_comments
  if state = STATE_EOF then throw_parse_error JSNPG_ERROR_EOF
  else parse_next_switch fp state b

/-- Embedding of `parser_parse_next`: after a `longjmp` the type stored in `p->result` is
returned. -/
def parser_parse_next (fp : FloatPrims) : PM jsnpg_type := fun p =>
  match parse_next fp p with
  | Res.ok t p1 => Res.ok t p1
  | Res.thrown p1 => Res.ok p1.result.type p1
  | Res.aborted p1 => Res.aborted p1

/-! ## output.c

Allocation is taken to succeed, so `mos_reserve` never returns null and the
output stream is the list of the `count` bytes written so far. -/

/-- Embedding of `struct memory_output_stream`: the first `count` bytes of
`buffer`. -/
structure memory_output_stream where
  buffer : List Nat
  deriving DecidableEq, Inhabited

def mos_new : memory_output_stream := { buffer := [] }

def mos_put (mos : memory_output_stream) (chr : Nat) : memory_output_stream :=
  { mos with buffer := mos.buffer ++ [chr] }

def mos_putn (mos : memory_output_stream) (chr : Nat) (count : Nat) : memory_output_stream :=
  { mos with buffer := mos.buffer ++ List.replicate count chr }

/-- Embedding of `mos_puts(mos, string, count)`, with the `count` bytes at
`string` given as a list. -/
def mos_puts (mos : memory_output_stream) (bytes : List Nat) : memory_output_stream :=
  { mos with buffer := mos.buffer ++ bytes }

/-- Embedding of `struct json_output_stream`; the back pointer to the
generator is the generator the callbacks are handed. -/
structure json_output_stream where
  mos : memory_output_stream
  indent : Nat
  level : Nat
  nl : Bool
  comma : Bool
  key : Bool
  deriving DecidableEq, Inhabited

def jos_new (indent : Nat) : json_output_stream :=
  { mos := mos_new, indent := indent, level := 0, nl := false, comma := false, key := false }

/-- The emitter's generator: its `ctx` is the `json_output_stream`. -/
abbrev jgen : Type := generator json_output_stream

def jos_put (g : jgen) (chr : Nat) : jgen :=
  { g with ctx := { g.ctx with mos := mos_put g.ctx.mos chr } }

def jos_puts (g : jgen) (bytes : List Nat) : jgen :=
  { g with ctx := { g.ctx with mos := mos_puts g.ctx.mos bytes } }

/-- Embedding of `find_next_special`; the first argument counts the iterations
left (`count - start` suffices). -/
def find_next_special_loop (string : List Nat) (count : Nat) (validate_utf8 : Bool) :
    Nat → Nat → Nat
  | 0, i => i
  | k + 1, i =>
    if i < count then
      let chr := string.getD i 0
      if chr = 0x22 ∨ chr = 0x5C ∨ chr < 0x20 ∨ (validate_utf8 ∧ chr ≥ 0x80) then i
      else find_next_special_loop string count validate_utf8 k (i + 1)
    else i

def find_next_special (string : List Nat) (count start : Nat) (validate_utf8 : Bool) : Nat :=
  find_next_special_loop string count validate_utf8 (count - start) start

/-- The table `s_escapes` of `jos_scan_escape`: the two hex digits for a
control byte, `none` for the null entries. -/
def s_escapes : List (Option (Nat × Nat)) :=
  [some (0x30, 0x30), some (0x30, 0x31), some (0x30, 0x32), some (0x30, 0x33),
   some (0x30, 0x34), some (0x30, 0x35), some (0x30, 0x36), some (0x30, 0x37),
   none, none, none, some (0x30, 0x42),
   none, none, some (0x30, 0x45), some (0x30, 0x46),
   some (0x31, 0x30), some (0x31, 0x31), some (0x31, 0x32), some (0x31, 0x33),
   some (0x31, 0x34), some (0x31, 0x35), some (0x31, 0x36), some (0x31, 0x37),
   some (0x31, 0x38), some (0x31, 0x39), some (0x31, 0x41), some (0x31, 0x42),
   some (0x31, 0x43), some (0x31, 0x44), some (0x31, 0x45), some (0x31, 0x46)]

/-- The table `c_escapes` of `jos_scan_escape`; entries not listed are 0. -/
def c_escapes (chr : Nat) : Nat :=
  if chr = 0x08 then 0x62
  else if chr = 0x09 then 0x74
  else if chr = 0x0A then 0x6E
  else if chr = 0x0C then 0x66
  else if chr = 0x0D then 0x72
  else if chr = 0x22 then 0x22
  else if chr = 0x5C then 0x5C
  else 0

/-- The `while` loop of `jos_scan_escape` and the final `mos_puts`; the first
argument counts the iterations left (every iteration moves `pmos1` forward, so
`count + 1` suffices).  A null entry of `s_escapes` is never read, since
`c_escapes` is non-zero there; the embedding writes nothing for it. -/
def jos_scan_escape_loop (string : List Nat) (count : Nat) : Nat → Nat → jgen → Bool × jgen
  | 0, _, g => (false, g)
  | k + 1, pmos1, g =>
    let validate_utf8 := g.validate_utf8
    let pmos2 := find_next_special string count pmos1 validate_utf8
    if count > pmos2 then
      let chr := string.getD pmos2 0
      let g := jos_puts g ((string.drop pmos1).take (pmos2 - pmos1))
      if validate_utf8 ∧ chr ≥ 0x80 then
        let len := utf8_validate_sequence (string.drop pmos2) (count - pmos2)
        if len = -1 then (false, { g with error := JSNPG_ERROR_UTF8 })
        else
          let g := jos_puts g ((string.drop pmos2).take len.toNat)
          jos_scan_escape_loop string count k (pmos2 + len.toNat) g
      else
        let e := c_escapes chr
        let g :=
          if e ≠ 0 then jos_puts g [0x5C, e]
          else
            match s_escapes.getD chr none with
            | some (h, l) => jos_puts g [0x5C, 0x75, 0x30, 0x30, h, l]
            | none => jos_puts g [0x5C, 0x75, 0x30, 0x30]
        jos_scan_escape_loop string count k (pmos2 + 1) g
    else (true, jos_puts g ((string.drop pmos1).take (pmos2 - pmos1)))

def jos_scan_escape (g : jgen) (string : List Nat) (count : Nat) : Bool × jgen :=
  jos_scan_escape_loop string count (count + 1) 0 g

/-! ## Observing the event stream -/

/-- A callback table that appends each call to a list kept in `ctx` and
returns true: the events a sink is handed, in order. -/
def record_callbacks : callbacks (List Event) :=
  { boolean := some (fun g is_true => (true, { g with ctx := g.ctx ++ [Event.boolean is_true] })),
    null := some (fun g => (true, { g with ctx := g.ctx ++ [Event.null] })),
    integer := some (fun g i => (true, { g with ctx := g.ctx ++ [Event.integer i] })),
    real := some (fun g d => (true, { g with ctx := g.ctx ++ [Event.real d] })),
    string := some (fun g bytes _ => (true, { g with ctx := g.ctx ++ [Event.string bytes] })),
    key := some (fun g bytes _ => (true, { g with ctx := g.ctx ++ [Event.key bytes] })),
    start_array := some (fun g => (true, { g with ctx := g.ctx ++ [Event.start_array] })),
    end_array := some (fun g => (true, { g with ctx := g.ctx ++ [Event.end_array] })),
    start_object := some (fun g => (true, { g with ctx := g.ctx ++ [Event.start_object] })),
    end_object := some (fun g => (true, { g with ctx := g.ctx ++ [Event.end_object] })) }

/-- Embedding of `jsnpg_parser_new_opt` for the input source `.bytes`/`.count`. -/
def jsnpg_parser_new_bytes (max_nesting allow : Nat) (bytes : List Nat) (count : Nat) : parser :=
  parser_set_bytes (parser_new (get_stack_size max_nesting) allow) bytes count

/-- Embedding of `jsnpg_parse_opt` for `.bytes`/`.count` input and `.callbacks`/`.ctx`
output: the generator is made by `generator_new(0, p->flags)`. -/
def jsnpg_parse_bytes_callbacks (cb : callbacks σ) (fp : FloatPrims) (ctx : σ)
    (max_nesting allow : Nat) (bytes : List Nat) (count : Nat) :
    jsnpg_result × parser × generator σ :=
  let p := jsnpg_parser_new_bytes max_nesting allow bytes count
  parse cb fp p (generator_new 0 p.flags ctx)

/-- The push parser on a byte buffer with option mask `allow`: the result
record and the events its sink was handed. -/
def push_events (fp : FloatPrims) (allow : Nat) (bytes : List Nat) :
    jsnpg_result × List Event :=
  let r := jsnpg_parse_bytes_callbacks record_callbacks fp [] 0 allow bytes bytes.length
  (r.1, r.2.2.ctx)

/-- The event a pull-parser result record stands for, if its type is one of the
ten event types. -/
def event_of_result (r : jsnpg_result) : Option Event :=
  match r.type, r.u with
  | JSNPG_NULL, _ => some Event.null
  | JSNPG_TRUE, _ => some (Event.boolean true)
  | JSNPG_FALSE, _ => some (Event.boolean false)
  | JSNPG_INTEGER, result_union.integer i => some (Event.integer i)
  | JSNPG_REAL, result_union.real d => some (Event.real d)
  | JSNPG_STRING, result_union.string bytes _ => some (Event.string bytes)
  | JSNPG_KEY, result_union.string bytes _ => some (Event.key bytes)
  | JSNPG_START_ARRAY, _ => some Event.start_array
  | JSNPG_END_ARRAY, _ => some Event.end_array
  | JSNPG_START_OBJECT, _ => some Event.start_object
  | JSNPG_END_OBJECT, _ => some Event.end_object
  | _, _ => none

/-- Calling `parser_parse_next` until it returns `JSNPG_EOF` or `JSNPG_ERROR`
(or anything else that is not an event): the events returned before, and the
final result record, which is `none` when a call ends in `Res.aborted`.  One
call per unit of the first argument. -/
def pull_loop (fp : FloatPrims) : Nat → parser → List Event → Option jsnpg_result × List Event
  | 0, _, acc => (none, acc)
  | k + 1, p, acc =>
    match parser_parse_next fp p with
    | Res.ok _ p1 =>
      match event_of_result p1.result with
      | some e => pull_loop fp k p1 (acc ++ [e])
      | none => (some p1.result, acc)
    | Res.thrown _ => (none, acc)
    | Res.aborted _ => (none, acc)

/-- The pull parser on a byte buffer with option mask `allow`: the final
result record and the events returned before it.  Every call that returns an
event consumes at least one byte, so the buffer length bounds the calls. -/
def pull_events (fp : FloatPrims) (allow : Nat) (bytes : List Nat) :
    Option jsnpg_result × List Event :=
  let p := jsnpg_parser_new_bytes 0 allow bytes bytes.length
  pull_loop fp (p.mis.start.length + 1) p []

/-- A stand-in for the numeric routines in which every conversion is refused
and nothing is printed; for runs on inputs without a real number, where the
routines are never reached. -/
def no_float : FloatPrims :=
  { FASTFLOAT_SMALLEST_POWER := -325, FASTFLOAT_LARGEST_POWER := 308,
    compute_float_64 := fun _ _ _ => none,
    parse_float_strtod := fun _ => none,
    dtoa := fun _ => [] }

end Jsnpg

namespace Jsnpg

open jsnpg_type jsnpg_error_code

variable {σ : Type}

/-! ## dom.c

The event log is a chain of blocks got from `allocator_alloc`, which is taken
to succeed.  A block is its header fields and its bytes; a pointer to a block
is the index of the block among those allocated so far, the root being the
first.  The layout is that of an LP64 little-endian target: `sizeof(dom_node)`
is 8, `sizeof(dom)` is 40 and `json_type` is a 4-byte enum.  What a fresh
block holds is indeterminate; it is the parameter `junk` (block index, byte
offset). -/

def DOM_MIN_SIZE : Nat := 8192
def NODE_SIZE : Nat := 8
def sizeof_dom : Nat := 40

/-- Embedding of `struct jsnpg_dom` without the allocator, together with the bytes of the
block it heads (`block`, indexed from the start of the header). -/
structure jsnpg_dom where
  next : Option Nat
  current : Option Nat
  count : Nat
  size : Nat
  block : List Nat
  deriving DecidableEq, Inhabited

/-- The enumerator values of `jsnpg_type`. -/
def json_type_code : jsnpg_type → Nat
  | JSNPG_NONE => 0 | JSNPG_PULL => 1 | JSNPG_NULL => 2 | JSNPG_FALSE => 3
  | JSNPG_TRUE => 4 | JSNPG_INTEGER => 5 | JSNPG_REAL => 6 | JSNPG_STRING => 7
  | JSNPG_KEY => 8 | JSNPG_START_ARRAY => 9 | JSNPG_END_ARRAY => 10
  | JSNPG_START_OBJECT => 11 | JSNPG_END_OBJECT => 12 | JSNPG_ERROR => 13
  | JSNPG_EOF => 14

/-- The enumerator with a given value, `none` for a value that names none. -/
def json_type_of_code (code : Nat) : Option jsnpg_type :=
  [JSNPG_NONE, JSNPG_PULL, JSNPG_NULL, JSNPG_FALSE, JSNPG_TRUE, JSNPG_INTEGER, JSNPG_REAL,
   JSNPG_STRING, JSNPG_KEY, JSNPG_START_ARRAY, JSNPG_END_ARRAY, JSNPG_START_OBJECT,
   JSNPG_END_OBJECT, JSNPG_ERROR, JSNPG_EOF].get? code

/-- The `width` bytes of an unsigned value in memory, least significant first. -/
def le_bytes (width value : Nat) : List Nat :=
  (List.range width).map (fun i => value / 256 ^ i % 256)

/-- The unsigned value of bytes in memory, least significant first. -/
def le_value (bytes : List Nat) : Nat :=
  bytes.foldr (fun b acc => b + 256 * acc) 0

/-- The value of a `long` with a given 64-bit pattern. -/
def long_of_bits (bits : Nat) : Int :=
  if bits < 2 ^ 63 then (bits : Int) else (bits : Int) - 2 ^ 64

/-- The 64-bit pattern of a `long`. -/
def bits_of_long (integer : Int) : Nat := (integer % 2 ^ 64).toNat

/-- Storing bytes at a byte offset of a block. -/
def dom_store (heap : List jsnpg_dom) (hdr offset : Nat) (bytes : List Nat) : List jsnpg_dom :=
  let d := heap.getD hdr default
  heap.set hdr { d with
    block := d.block.take offset ++ bytes ++ d.block.drop (offset + bytes.length) }

/-- Loading `n` bytes from a byte offset of a block. -/
def dom_load (heap : List jsnpg_dom) (hdr offset n : Nat) : List Nat :=
  ((heap.getD hdr default).block.drop offset).take n

def dom_parser_info (root : Nat) : dom_info :=
  { hdr := some root, offset := sizeof_dom }

/-- Embedding of `dom_size_align`, in `size_t` arithmetic. -/
def dom_size_align (size : Nat) : Nat :=
  (NODE_SIZE * (1 + ((size + 2 ^ 64 - 1) % 2 ^ 64) / NODE_SIZE)) % 2 ^ 64

def dom_alloc_size (size : Nat) : Nat :=
  dom_size_align (if size < DOM_MIN_SIZE then DOM_MIN_SIZE else size)

/-- Embedding of `dom_hdr_new`: the new block is appended to the blocks allocated so far and
its index returned. -/
def dom_hdr_new (junk : Nat → Nat → Nat) (heap : List jsnpg_dom) (size : Nat) :
    Nat × List jsnpg_dom :=
  let size := dom_alloc_size ((size + sizeof_dom) % 2 ^ 64)
  (heap.length,
   heap ++ [{ next := none, current := none, size := size, count := sizeof_dom,
              block := (List.range size).map (fun i => junk heap.length i % 256) }])

/-- Embedding of `dom_node_next`: the node is returned as block index and byte offset. -/
def dom_node_next (junk : Nat → Nat → Nat) (heap : List jsnpg_dom) (root count : Nat) :
    (Nat × Nat) × List jsnpg_dom :=
  let required := dom_size_align ((count + 2 * NODE_SIZE) % 2 ^ 64)
  let cur := (heap.getD root default).current.getD root
  let hdr := heap.getD cur default
  if required > (hdr.size + 2 ^ 64 - hdr.count) % 2 ^ 64 then
    let r := dom_hdr_new junk heap required
    let new := r.1
    let heap := r.2
    let heap := heap.set cur { heap.getD cur default with next := some new }
    let heap := heap.set root { heap.getD root default with current := some new }
    let hdr := heap.getD new default
    ((new, hdr.count), heap.set new { hdr with count := (hdr.count + required) % 2 ^ 64 })
  else
    ((cur, hdr.count), heap.set cur { hdr with count := (hdr.count + required) % 2 ^ 64 })

/-- Embedding of `dom_add_type`: the returned node is the count slot. -/
def dom_add_type (junk : Nat → Nat → Nat) (heap : List jsnpg_dom) (root : Nat)
    (type : jsnpg_type) (count : Nat) : (Nat × Nat) × List jsnpg_dom :=
  let r := dom_node_next junk heap root count
  let node := r.1
  let heap := dom_store r.2 node.1 node.2 (le_bytes 4 (json_type_code type))
  let node := (node.1, node.2 + NODE_SIZE)
  (node, dom_store heap node.1 node.2 (le_bytes 8 count))

def dom_add_integer (junk : Nat → Nat → Nat) (heap : List jsnpg_dom) (root : Nat)
    (integer : Int) : (Nat × Nat) × List jsnpg_dom :=
  let r := dom_add_type junk heap root JSNPG_INTEGER NODE_SIZE
  let node := (r.1.1, r.1.2 + NODE_SIZE)
  (node, dom_store r.2 node.1 node.2 (le_bytes 8 (bits_of_long integer)))

def dom_add_real (junk : Nat → Nat → Nat) (heap : List jsnpg_dom) (root : Nat)
    (real : Nat) : (Nat × Nat) × List jsnpg_dom :=
  let r := dom_add_type junk heap root JSNPG_REAL NODE_SIZE
  let node := (r.1.1, r.1.2 + NODE_SIZE)
  (node, dom_store r.2 node.1 node.2 (le_bytes 8 real))

def dom_add_bytes (junk : Nat → Nat → Nat) (heap : List jsnpg_dom) (root : Nat)
    (type : jsnpg_type) (bytes : List Nat) (count : Nat) : (Nat × Nat) × List jsnpg_dom :=
  let r := dom_add_type junk heap root type count
  let node := (r.1.1, r.1.2 + NODE_SIZE)
  (node, dom_store r.2 node.1 node.2 (bytes.take count))

/-- Embedding of `dom_callbacks`: `ctx` is the event log, whose root is block 0.  No callback
fails, since allocation does not. -/
def dom_callbacks (junk : Nat → Nat → Nat) : callbacks (List jsnpg_dom) :=
  { boolean := some (fun g is_true =>
      (true, { g with ctx :=
        (dom_add_type junk g.ctx 0 (if is_true then JSNPG_TRUE else JSNPG_FALSE) 0).2 })),
    null := some (fun g => (true, { g with ctx := (dom_add_type junk g.ctx 0 JSNPG_NULL 0).2 })),
    integer := some (fun g integer =>
      (true, { g with ctx := (dom_add_integer junk g.ctx 0 integer).2 })),
    real := some (fun g real => (true, { g with ctx := (dom_add_real junk g.ctx 0 real).2 })),
    string := some (fun g bytes count =>
      (true, { g with ctx := (dom_add_bytes junk g.ctx 0 JSNPG_STRING bytes count).2 })),
    key := some (fun g bytes count =>
      (true, { g with ctx := (dom_add_bytes junk g.ctx 0 JSNPG_KEY bytes count).2 })),
    start_array := some (fun g =>
      (true, { g with ctx := (dom_add_type junk g.ctx 0 JSNPG_START_ARRAY 0).2 })),
    end_array := some (fun g =>
      (true, { g with ctx := (dom_add_type junk g.ctx 0 JSNPG_END_ARRAY 0).2 })),
    start_object := some (fun g =>
      (true, { g with ctx := (dom_add_type junk g.ctx 0 JSNPG_START_OBJECT 0).2 })),
    end_object := some (fun g =>
      (true, { g with ctx := (dom_add_type junk g.ctx 0 JSNPG_END_OBJECT 0).2 })) }

/-- Embedding of `dom_new(a, 0)`: the root block, which is its own current block. -/
def dom_new (junk : Nat → Nat → Nat) (size : Nat) : List jsnpg_dom :=
  let r := dom_hdr_new junk [] size
  r.2.set r.1 { r.2.getD r.1 default with current := some r.1 }

/-- Embedding of `dom_generator` applied to a new generator. -/
def dom_generator (junk : Nat → Nat → Nat) (stack_size flags : Nat) :
    generator (List jsnpg_dom) :=
  generator_new stack_size flags (dom_new junk 0)

/-- Embedding of `dom_parse_next`, reading the event log `heap`. -/
def dom_parse_next (heap : List jsnpg_dom) (p : parser) : jsnpg_type × parser :=
  let hdr := p.dom_info.hdr.getD 0
  let offset := p.dom_info.offset
  let moved := decide (offset ≥ (heap.getD hdr default).count)
  let next := if moved then (heap.getD hdr default).next else some hdr
  match next with
  | none => (JSNPG_EOF, { p with result := { p.result with type := JSNPG_EOF } })
  | some hdr =>
    let offset := if moved then sizeof_dom else offset
    let code := le_value (dom_load heap hdr offset 4)
    let offset := offset + NODE_SIZE
    let count := le_value (dom_load heap hdr offset 8)
    let offset := offset + NODE_SIZE
    let r : Nat × result_union :=
      match json_type_of_code code with
      | some JSNPG_INTEGER =>
        (offset + NODE_SIZE,
         result_union.integer (long_of_bits (le_value (dom_load heap hdr offset 8))))
      | some JSNPG_REAL =>
        (offset + NODE_SIZE, result_union.real (le_value (dom_load heap hdr offset 8)))
      | some JSNPG_STRING =>
        ((offset + dom_size_align count) % 2 ^ 64,
         result_union.string (dom_load heap hdr offset count) count)
      | some JSNPG_KEY =>
        ((offset + dom_size_align count) % 2 ^ 64,
         result_union.string (dom_load heap hdr offset count) count)
      | _ => (offset, p.result.u)
    let type := (json_type_of_code code).getD JSNPG_NONE
    (type, { p with dom_info := { hdr := some hdr, offset := r.1 },
                    result := { p.result with type := type, u := r.2 } })

/-- One pass of the `while(hdr && ok)` loop of `dom_parse` at block `hdr`: the
new `hdr`, `offset`, `ok` and generator. -/
def dom_parse_step (cb : callbacks σ) (heap : List jsnpg_dom) (hdr offset : Nat)
    (g : generator σ) : Option Nat × Nat × Bool × generator σ :=
  let code := le_value (dom_load heap hdr offset 4)
  let offset := offset + NODE_SIZE
  let count := le_value (dom_load heap hdr offset 8)
  let offset := offset + NODE_SIZE
  let r : Nat × Bool × generator σ :=
    match json_type_of_code code with
    | some JSNPG_STRING =>
      ((offset + dom_size_align count) % 2 ^ 64,
       jsnpg_string cb g (dom_load heap hdr offset count) count)
    | some JSNPG_KEY =>
      ((offset + dom_size_align count) % 2 ^ 64,
       jsnpg_key cb g (dom_load heap hdr offset count) count)
    | some JSNPG_TRUE => (offset, jsnpg_boolean cb g true)
    | some JSNPG_FALSE => (offset, jsnpg_boolean cb g false)
    | some JSNPG_NULL => (offset, jsnpg_null cb g)
    | some JSNPG_START_OBJECT => (offset, jsnpg_start_object cb g)
    | some JSNPG_END_OBJECT => (offset, jsnpg_end_object cb g)
    | some JSNPG_START_ARRAY => (offset, jsnpg_start_array cb g)
    | some JSNPG_END_ARRAY => (offset, jsnpg_end_array cb g)
    | some JSNPG_INTEGER =>
      (offset + NODE_SIZE,
       jsnpg_integer cb g (long_of_bits (le_value (dom_load heap hdr offset 8))))
    | some JSNPG_REAL =>
      (offset + NODE_SIZE, jsnpg_real cb g (le_value (dom_load heap hdr offset 8)))
    | _ => (offset, false, g)
  if r.1 ≥ (heap.getD hdr default).count && r.2.1 then
    ((heap.getD hdr default).next, sizeof_dom, r.2.1, r.2.2)
  else (some hdr, r.1, r.2.1, r.2.2)

/-- The `while(hdr && ok)` loop of `dom_parse`; the first argument bounds the
passes, and the result is `none` when it does not suffice. -/
def dom_parse_loop (cb : callbacks σ) (heap : List jsnpg_dom) :
    Nat → Option Nat → Nat → Bool → generator σ → Option (Bool × generator σ)
  | _, none, _, ok, g => some (ok, g)
  | 0, some _, _, ok, g => if ok then none else some (ok, g)
  | k + 1, some hdr, offset, ok, g =>
    if !ok then some (ok, g)
    else
      let r := dom_parse_step cb heap hdr offset g
      dom_parse_loop cb heap k r.1 r.2.1 r.2.2.1 r.2.2.2

/-- Embedding of `dom_parse`, reading the event log `heap`.  Every pass moves on by at least
two slots or to the next block, so the total size of the blocks bounds the
passes. -/
def dom_parse (cb : callbacks σ) (heap : List jsnpg_dom) (p : parser) (g : generator σ) :
    Option (jsnpg_result × generator σ) :=
  match dom_parse_loop cb heap ((heap.map (fun d => d.size)).sum + 1) p.dom_info.hdr sizeof_dom
      true g with
  | none => none
  | some (ok, g) =>
    if !ok then some (make_pg_error_return p g, g)
    else some ({ type := JSNPG_EOF, position := 0, u := result_union.none }, g)

/-- Embedding of `parser_set_dom_info(p, dom_parser_info(opts.dom))` on a new parser: the input
stream has no buffer. -/
def jsnpg_parser_new_dom (max_nesting allow : Nat) (root : Nat) : parser :=
  { parser_new (get_stack_size max_nesting) allow with dom_info := dom_parser_info root }

/-! ## Observing the event log -/

/-- The call on the generator interface that an event stands for. -/
def send_event (cb : callbacks σ) (g : generator σ) : Event → Bool × generator σ
  | Event.null => jsnpg_null cb g
  | Event.boolean is_true => jsnpg_boolean cb g is_true
  | Event.integer integer => jsnpg_integer cb g integer
  | Event.real real => jsnpg_real cb g real
  | Event.string bytes => jsnpg_string cb g bytes bytes.length
  | Event.key bytes => jsnpg_key cb g bytes bytes.length
  | Event.start_array => jsnpg_start_array cb g
  | Event.end_array => jsnpg_end_array cb g
  | Event.start_object => jsnpg_start_object cb g
  | Event.end_object => jsnpg_end_object cb g

/-- The event log a new dom generator holds after it was sent the events in
order. -/
def dom_record (junk : Nat → Nat → Nat) (events : List Event) : List jsnpg_dom :=
  (events.foldl (fun g e => (send_event (dom_callbacks junk) g e).2) (dom_generator junk 0 0)).ctx

/-- Replaying an event log with `dom_parse` into a sink that lists what it is
handed: the result record and the events delivered. -/
def dom_replay (heap : List jsnpg_dom) : Option (jsnpg_result × List Event) :=
  match dom_parse record_callbacks heap (jsnpg_parser_new_dom 0 0 0) (generator_new 0 0 []) with
  | none => none
  | some r => some (r.1, r.2.ctx)

/-- Calling `dom_parse_next` until it returns something that is not an event:
that last type and the events returned before.  One call per unit of the
first argument. -/
def dom_pull_loop (heap : List jsnpg_dom) : Nat → parser → List Event →
    Option jsnpg_type × List Event
  | 0, _, acc => (none, acc)
  | k + 1, p, acc =>
    let r := dom_parse_next heap p
    match event_of_result r.2.result with
    | some e => dom_pull_loop heap k r.2 (acc ++ [e])
    | none => (some r.1, acc)

/-- Replaying an event log with `dom_parse_next`. -/
def dom_pull (heap : List jsnpg_dom) : Option jsnpg_type × List Event :=
  dom_pull_loop heap ((heap.map (fun d => d.size)).sum + 1) (jsnpg_parser_new_dom 0 0 0) []

end Jsnpg

namespace Jsnpg

open jsnpg_type jsnpg_error_code

variable {σ : Type}

/-! ## parser.c, parse.c: the option records

A pointer member is `none` when null.  `bytes` and `string` hold the memory
from the pointer onward, `dom` the index of the root block of an event log.
Allocation is taken to succeed. -/

/-- Embedding of `jsnpg_parser_opts`. -/
structure jsnpg_parser_opts where
  max_nesting : Nat
  allow : Nat
  bytes : Option (List Nat)
  count : Nat
  string : Option (List Nat)
  dom : Option Nat

/-- The C `strlen`: the number of bytes before the first NUL. -/
def strlen (s : List Nat) : Nat := (s.takeWhile (fun b => b != 0)).length

/-- The C truth value of `ptr != NULL` as an `int`. -/
def not_null {α : Type} (ptr : Option α) : Nat := if ptr.isSome then 1 else 0

/-- Embedding of `jsnpg_parser_new_opt`. -/
def jsnpg_parser_new_opt (opts : jsnpg_parser_opts) : parser :=
  let stack_size := get_stack_size opts.max_nesting
  let flags := opts.allow
  let p := parser_new stack_size flags
  if 1 ≠ not_null opts.bytes + not_null opts.string + not_null opts.dom then
    { p with result := make_error_return JSNPG_ERROR_OPT 0 }
  else
    match opts.bytes, opts.string, opts.dom with
    | some bytes, _, _ => parser_set_bytes p bytes opts.count
    | none, some string, _ => parser_set_bytes p string (strlen string)
    | none, none, some dom => { p with dom_info := dom_parser_info dom }
    | none, none, none => p

/-- Embedding of `jsnpg_parse_opts`.  A generator comes with the callback table its
`callbacks` member points to. -/
structure jsnpg_parse_opts (σ : Type) where
  max_nesting : Nat
  allow : Nat
  bytes : Option (List Nat)
  count : Nat
  string : Option (List Nat)
  dom : Option Nat
  callbacks : Option (callbacks σ)
  ctx : σ
  generator : Option (Jsnpg.callbacks σ × Jsnpg.generator σ)

/-- Embedding of `jsnpg_parse_opt`, with `heap` the blocks an event log may refer to.  The
result is the returned record and, when a parse was run, the generator as the
parse left it; `none` when `dom_parse` does not terminate. -/
def jsnpg_parse_opt (fp : FloatPrims) (heap : List jsnpg_dom) (opts : jsnpg_parse_opts σ) :
    Option (jsnpg_result × Option (generator σ)) :=
  let p := jsnpg_parser_new_opt
    { max_nesting := opts.max_nesting, allow := opts.allow, bytes := opts.bytes,
      count := opts.count, string := none, dom := opts.dom }
  if p.result.type = JSNPG_ERROR then some (p.result, none)
  else
    let run := fun (cb : Jsnpg.callbacks σ) (g : Jsnpg.generator σ) =>
      if opts.dom.isSome then
        (dom_parse cb heap p g).map (fun r => (r.1, some r.2))
      else
        let r := parse cb fp p g
        some (r.1, some r.2.2)
    match opts.callbacks, opts.generator with
    | some cb, none => run cb (generator_new 0 p.flags opts.ctx)
    | none, some cg => run cg.1 (generator_reset cg.2 p.flags)
    | _, _ => some (make_error_return JSNPG_ERROR_OPT 0, none)

end Jsnpg

namespace Jsnpg

open jsnpg_type jsnpg_error_code

variable {σ : Type}

/-! ## thirdparty/itoa.c -/

/-- The table `c_digits_lut`: the two decimal digits of 0..99. -/
def c_digits_lut : List Nat :=
  [
     0x30, 0x30, 0x30, 0x31, 0x30, 0x32, 0x30, 0x33, 0x30, 0x34, 0x30, 0x35, 0x30, 0x36, 0x30, 0x37, 0x30, 0x38, 0x30, 0x39,
     0x31, 0x30, 0x31, 0x31, 0x31, 0x32, 0x31, 0x33, 0x31, 0x34, 0x31, 0x35, 0x31, 0x36, 0x31, 0x37, 0x31, 0x38, 0x31, 0x39,
     0x32, 0x30, 0x32, 0x31, 0x32, 0x32, 0x32, 0x33, 0x32, 0x34, 0x32, 0x35, 0x32, 0x36, 0x32, 0x37, 0x32, 0x38, 0x32, 0x39,
     0x33, 0x30, 0x33, 0x31, 0x33, 0x32, 0x33, 0x33, 0x33, 0x34, 0x33, 0x35, 0x33, 0x36, 0x33, 0x37, 0x33, 0x38, 0x33, 0x39,
     0x34, 0x30, 0x34, 0x31, 0x34, 0x32, 0x34, 0x33, 0x34, 0x34, 0x34, 0x35, 0x34, 0x36, 0x34, 0x37, 0x34, 0x38, 0x34, 0x39,
     0x35, 0x30, 0x35, 0x31, 0x35, 0x32, 0x35, 0x33, 0x35, 0x34, 0x35, 0x35, 0x35, 0x36, 0x35, 0x37, 0x35, 0x38, 0x35, 0x39,
     0x36, 0x30, 0x36, 0x31, 0x36, 0x32, 0x36, 0x33, 0x36, 0x34, 0x36, 0x35, 0x36, 0x36, 0x36, 0x37, 0x36, 0x38, 0x36, 0x39,
     0x37, 0x30, 0x37, 0x31, 0x37, 0x32, 0x37, 0x33, 0x37, 0x34, 0x37, 0x35, 0x37, 0x36, 0x37, 0x37, 0x37, 0x38, 0x37, 0x39,
     0x38, 0x30, 0x38, 0x31, 0x38, 0x32, 0x38, 0x33, 0x38, 0x34, 0x38, 0x35, 0x38, 0x36, 0x38, 0x37, 0x38, 0x38, 0x38, 0x39,
     0x39, 0x30, 0x39, 0x31, 0x39, 0x32, 0x39, 0x33, 0x39, 0x34, 0x39, 0x35, 0x39, 0x36, 0x39, 0x37, 0x39, 0x38, 0x39, 0x39]

/-- Embedding of `u64toa`: the bytes written, in order.  `uint32_t` values are
reduced modulo 2^32 where the code casts or shifts. -/
def u64toa (value : Nat) : List Nat :=
  let k_ten8 : Nat := 100000000
  let k_ten9 : Nat := (k_ten8 * 10) % 2 ^ 64
  let k_ten10 : Nat := (k_ten8 * 100) % 2 ^ 64
  let k_ten11 : Nat := (k_ten8 * 1000) % 2 ^ 64
  let k_ten12 : Nat := (k_ten8 * 10000) % 2 ^ 64
  let k_ten13 : Nat := (k_ten8 * 100000) % 2 ^ 64
  let k_ten14 : Nat := (k_ten8 * 1000000) % 2 ^ 64
  let k_ten15 : Nat := (k_ten8 * 10000000) % 2 ^ 64
  let k_ten16 : Nat := (k_ten8 * k_ten8) % 2 ^ 64
  let lut := fun (i : Nat) => c_digits_lut.getD i 0
  if value < k_ten8 then
    let v := value % 2 ^ 32
    if v < 10000 then
      let d1 := ((v / 100) <<< 1) % 2 ^ 32
      let d2 := ((v % 100) <<< 1) % 2 ^ 32
      (if v ≥ 1000 then [lut d1] else []) ++
        ((if v ≥ 100 then [lut (d1 + 1)] else []) ++
          ((if v ≥ 10 then [lut d2] else []) ++ [lut (d2 + 1)]))
    else
      let b := v / 10000
      let c := v % 10000
      let d1 := ((b / 100) <<< 1) % 2 ^ 32
      let d2 := ((b % 100) <<< 1) % 2 ^ 32
      let d3 := ((c / 100) <<< 1) % 2 ^ 32
      let d4 := ((c % 100) <<< 1) % 2 ^ 32
      (if value ≥ 10000000 then [lut d1] else []) ++
        ((if value ≥ 1000000 then [lut (d1 + 1)] else []) ++
          ((if value ≥ 100000 then [lut d2] else []) ++
            [lut (d2 + 1), lut d3, lut (d3 + 1), lut d4, lut (d4 + 1)]))
  else if value < k_ten16 then
    let v0 := (value / k_ten8) % 2 ^ 32
    let v1 := (value % k_ten8) % 2 ^ 32
    let b0 := v0 / 10000
    let c0 := v0 % 10000
    let d1 := ((b0 / 100) <<< 1) % 2 ^ 32
    let d2 := ((b0 % 100) <<< 1) % 2 ^ 32
    let d3 := ((c0 / 100) <<< 1) % 2 ^ 32
    let d4 := ((c0 % 100) <<< 1) % 2 ^ 32
    let b1 := v1 / 10000
    let c1 := v1 % 10000
    let d5 := ((b1 / 100) <<< 1) % 2 ^ 32
    let d6 := ((b1 % 100) <<< 1) % 2 ^ 32
    let d7 := ((c1 / 100) <<< 1) % 2 ^ 32
    let d8 := ((c1 % 100) <<< 1) % 2 ^ 32
    (if value ≥ k_ten15 then [lut d1] else []) ++
      ((if value ≥ k_ten14 then [lut (d1 + 1)] else []) ++
        ((if value ≥ k_ten13 then [lut d2] else []) ++
          ((if value ≥ k_ten12 then [lut (d2 + 1)] else []) ++
            ((if value ≥ k_ten11 then [lut d3] else []) ++
              ((if value ≥ k_ten10 then [lut (d3 + 1)] else []) ++
                ((if value ≥ k_ten9 then [lut d4] else []) ++
                  [lut (d4 + 1), lut d5, lut (d5 + 1), lut d6, lut (d6 + 1), lut d7,
                    lut (d7 + 1), lut d8, lut (d8 + 1)]))))))
  else
    let a := (value / k_ten16) % 2 ^ 32
    let value := value % k_ten16
    let head :=
      if a < 10 then [(0x30 + a % 256) % 256]
      else if a < 100 then
        let i := (a <<< 1) % 2 ^ 32
        [lut i, lut (i + 1)]
      else if a < 1000 then
        let i := ((a % 100) <<< 1) % 2 ^ 32
        [(0x30 + (a / 100) % 256) % 256, lut i, lut (i + 1)]
      else
        let i := ((a / 100) <<< 1) % 2 ^ 32
        let j := ((a % 100) <<< 1) % 2 ^ 32
        [lut i, lut (i + 1), lut j, lut (j + 1)]
    let v0 := (value / k_ten8) % 2 ^ 32
    let v1 := (value % k_ten8) % 2 ^ 32
    let b0 := v0 / 10000
    let c0 := v0 % 10000
    let d1 := ((b0 / 100) <<< 1) % 2 ^ 32
    let d2 := ((b0 % 100) <<< 1) % 2 ^ 32
    let d3 := ((c0 / 100) <<< 1) % 2 ^ 32
    let d4 := ((c0 % 100) <<< 1) % 2 ^ 32
    let b1 := v1 / 10000
    let c1 := v1 % 10000
    let d5 := ((b1 / 100) <<< 1) % 2 ^ 32
    let d6 := ((b1 % 100) <<< 1) % 2 ^ 32
    let d7 := ((c1 / 100) <<< 1) % 2 ^ 32
    let d8 := ((c1 % 100) <<< 1) % 2 ^ 32
    head ++ [lut d1, lut (d1 + 1), lut d2, lut (d2 + 1), lut d3, lut (d3 + 1), lut d4,
      lut (d4 + 1), lut d5, lut (d5 + 1), lut d6, lut (d6 + 1), lut d7, lut (d7 + 1), lut d8,
      lut (d8 + 1)]

/-- Embedding of `i64toa`: `value` is an `int64_t`, `u` its conversion to
`uint64_t`, and `~u + 1` is taken modulo 2^64. -/
def i64toa (value : Int) : List Nat :=
  let u := (value % 2 ^ 64).toNat
  if value < 0 then 0x2D :: u64toa (((2 ^ 64 - 1 - u) + 1) % 2 ^ 64)
  else u64toa u

def i64toa_min_buffer_length : Nat := 22

/-! ## generate.c: the checks of the debug build -/

/-- Embedding of `can_value`. -/
def can_value (g : generator σ) : Bool × generator σ :=
  if g.stack.size ≠ 0 ∧ stack_peek g.stack = STACK_OBJECT then
    if g.key_next then (false, { g with error := JSNPG_ERROR_EXPECTED_KEY })
    else (true, { g with key_next := true })
  else (true, g)

/-- Embedding of `can_key`. -/
def can_key (g : generator σ) : Bool × generator σ :=
  if g.stack.size ≠ 0 ∧ g.key_next = false then
    (false, { g with error := JSNPG_ERROR_EXPECTED_VALUE })
  else (true, { g with key_next := false })

/-- Embedding of `can_push`. -/
def can_push (g : generator σ) (type : Int) : Bool × generator σ :=
  let r := can_value g
  if !r.1 then (false, r.2)
  else if r.2.stack.size ≠ 0 then
    let s := stack_push r.2.stack type
    if s.1 = -1 then (false, { r.2 with stack := s.2, error := JSNPG_ERROR_STACK_OVERFLOW })
    else (true, { r.2 with stack := s.2, key_next := decide (type = STACK_OBJECT) })
  else (true, r.2)

/-- Embedding of `can_pop`. -/
def can_pop (g : generator σ) (type : Int) : Bool × generator σ :=
  if g.stack.size ≠ 0 then
    let cur_type := stack_peek g.stack
    if cur_type = -1 then (false, { g with error := JSNPG_ERROR_STACK_UNDERFLOW })
    else if type ≠ cur_type then
      (false, { g with error :=
        if type = STACK_OBJECT then JSNPG_ERROR_NO_OBJECT else JSNPG_ERROR_NO_ARRAY })
    else if type = STACK_OBJECT ∧ g.key_next = false then
      (false, { g with error := JSNPG_ERROR_EXPECTED_VALUE })
    else
      let s := (stack_pop g.stack).2
      (true, { g with stack := s, key_next := decide (STACK_OBJECT = stack_peek s) })
  else (true, g)

/-- The check that the debug build asserts at the entry point of an event. -/
def debug_check (g : generator σ) : Event → Bool × generator σ
  | Event.key _ => can_key g
  | Event.start_array => can_push g STACK_ARRAY
  | Event.end_array => can_pop g STACK_ARRAY
  | Event.start_object => can_push g STACK_OBJECT
  | Event.end_object => can_pop g STACK_OBJECT
  | _ => can_value g

/-- The checks of the debug build along a sequence of event calls: whether
all of them pass, and the generator after the last check made. -/
def debug_checks (g : generator σ) : List Event → Bool × generator σ
  | [] => (true, g)
  | e :: es =>
    let r := debug_check g e
    if r.1 then debug_checks r.2 es else (false, r.2)

/-! ## output.c: the emitter -/

/-- Embedding of `mos_adjust`. -/
def mos_adjust (mos : memory_output_stream) (amount : Int) : memory_output_stream :=
  { mos with buffer := mos.buffer.take ((mos.buffer.length : Int) + amount).toNat }

/-- Embedding of `jos_puti`: `buf_len` bytes are reserved, `i64toa` writes into
them from their start, and `mos_adjust` gives back those it did not write (which
are taken as zero). -/
def jos_puti (g : jgen) (integer : Int) : Bool × jgen :=
  let buf_len := i64toa_min_buffer_length
  let text := i64toa integer
  let mos1 := mos_puts g.ctx.mos (text ++ List.replicate (buf_len - text.length) 0)
  let count : Int := text.length
  (true, { g with ctx := { g.ctx with mos := mos_adjust mos1 (count - buf_len) } })

/-- Embedding of `jos_putr`: what `dtoa` writes is appended. -/
def jos_putr (fp : FloatPrims) (g : jgen) (real : Nat) : Bool × jgen :=
  (true, jos_puts g (fp.dtoa real))

def jos_indent (g : jgen) : jgen :=
  let g1 : jgen := if g.ctx.nl then jos_put g 0x0A else { g with ctx := { g.ctx with nl := true } }
  { g1 with ctx := { g1.ctx with
      mos := mos_putn g1.ctx.mos 0x20 ((g1.ctx.indent * g1.ctx.level) % 2 ^ 32) } }

def jos_prefix (g : jgen) : jgen :=
  let g1 : jgen :=
    if !g.ctx.key then
      let g2 : jgen := if g.ctx.comma then jos_put g 0x2C else g
      if g2.ctx.indent ≠ 0 then jos_indent g2 else g2
    else g
  { g1 with ctx := { g1.ctx with comma := true, key := false } }

def jos_prefix_start (g : jgen) : jgen :=
  let g1 := jos_prefix g
  { g1 with ctx := { g1.ctx with comma := false, level := (g1.ctx.level + 1) % 2 ^ 32 } }

def jos_prefix_end (g : jgen) : jgen :=
  let g1 : jgen := { g with ctx := { g.ctx with level := (g.ctx.level + 2 ^ 32 - 1) % 2 ^ 32 } }
  let g2 : jgen :=
    if g1.ctx.comma then jos_prefix { g1 with ctx := { g1.ctx with comma := false } } else g1
  { g2 with ctx := { g2.ctx with comma := decide (g2.ctx.level > 0) } }

def jos_key_suffix (g : jgen) : jgen :=
  let g1 := jos_put g 0x3A
  let g2 : jgen := if g1.ctx.indent ≠ 0 then jos_put g1 0x20 else g1
  { g2 with ctx := { g2.ctx with key := true } }

def print_null (g : jgen) : Bool × jgen :=
  (true, jos_puts ( jos_prefix g) [0x6E, 0x75, 0x6C, 0x6C])

def print_boolean (g : jgen) (is_true : Bool) : Bool × jgen :=
  (true, if is_true then jos_puts ( jos_prefix g) [0x74, 0x72, 0x75, 0x65]
    else jos_puts ( jos_prefix g) [0x66, 0x61, 0x6C, 0x73, 0x65])

def print_string (g : jgen) (bytes : List Nat) (count : Nat) : Bool × jgen :=
  let r := jos_scan_escape (jos_put ( jos_prefix g) 0x22) bytes count
  if r.1 then (true, jos_put r.2 0x22) else (false, r.2)

def print_key (g : jgen) (bytes : List Nat) (count : Nat) : Bool × jgen :=
  let r := jos_scan_escape (jos_put ( jos_prefix g) 0x22) bytes count
  if r.1 then (true, jos_key_suffix (jos_put r.2 0x22)) else (false, r.2)

def print_integer (g : jgen) (integer : Int) : Bool × jgen :=
  jos_puti ( jos_prefix g) integer

def print_real (fp : FloatPrims) (g : jgen) (real : Nat) : Bool × jgen :=
  jos_putr fp ( jos_prefix g) real

def print_start_object (g : jgen) : Bool × jgen := (true, jos_put (jos_prefix_start g) 0x7B)

def print_end_object (g : jgen) : Bool × jgen := (true, jos_put (jos_prefix_end g) 0x7D)

def print_start_array (g : jgen) : Bool × jgen := (true, jos_put (jos_prefix_start g) 0x5B)

def print_end_array (g : jgen) : Bool × jgen := (true, jos_put (jos_prefix_end g) 0x5D)

def print_callbacks (fp : FloatPrims) : callbacks json_output_stream :=
  { boolean := some print_boolean,
    null := some print_null,
    integer := some print_integer,
    real := some (print_real fp),
    string := some print_string,
    key := some print_key,
    start_object := some print_start_object,
    end_object := some print_end_object,
    start_array := some print_start_array,
    end_array := some print_end_array }

/-- Embedding of `jsnpg_generator_new_opt` for the JSON emitter (neither `.dom`
nor `.callbacks` set). -/
def jsnpg_generator_new_json (indent max_nesting allow : Nat) : jgen :=
  let indent := if indent ≤ 8 then indent else 8
  generator_new (get_stack_size max_nesting) allow (jos_new indent)

/-- Embedding of `jsnpg_result_bytes`. -/
def jsnpg_result_bytes (g : jgen) : List Nat := g.ctx.mos.buffer

/-- The event calls `evs` made on a generator in turn, up to the first that
returns false. -/
def send_events (cb : callbacks σ) (g : generator σ) : List Event → Bool × generator σ
  | [] => (true, g)
  | e :: es =>
    let r := send_event cb g e
    if r.1 then send_events cb r.2 es else (false, r.2)

/-- The JSON emitter on a sequence of events: whether every call returned
true, and the bytes written. -/
def emit_events (fp : FloatPrims) (indent allow : Nat) (evs : List Event) : Bool × List Nat :=
  let r := send_events (print_callbacks fp) (jsnpg_generator_new_json indent 0 allow) evs
  (r.1, jsnpg_result_bytes r.2)

/-- Embedding of `jsnpg_result_string`: `jos_put(jos, 0)` appends a NUL to the
output stream, and the pointer returned is the buffer, whose bytes are given
here. -/
def jsnpg_result_string (g : jgen) : List Nat × jgen :=
  let g1 := jos_put g 0
  (g1.ctx.mos.buffer, g1)

/-! ## alloc.c -/

def ALLOCATOR_DEFAULT_ALLOCS : Nat := 1024

/-- The size of `void *`. -/
def POINTER_SIZE : Nat := 8

/-- Embedding of `struct allocator`: `allocs` is given by the size in bytes of
the block it points to. -/
structure allocator where
  used : Nat
  capacity : Nat
  allocs : Nat
  deriving DecidableEq

/-- Embedding of `allocator_new`; the low-level allocations are taken to
succeed. -/
def allocator_new : allocator :=
  { used := 0, capacity := ALLOCATOR_DEFAULT_ALLOCS,
    allocs := ALLOCATOR_DEFAULT_ALLOCS * POINTER_SIZE }

/-- The size that `allocator_alloc` passes to `pg_realloc` when the table is
full. -/
def allocator_grow_size (a : allocator) : Nat := (a.capacity <<< 1) % 2 ^ 64

/-- Embedding of `allocator_alloc`; the low-level allocations are taken to
succeed.  The pointer is stored in slot `used` of the table. -/
def allocator_alloc (a : allocator) : allocator :=
  let a1 : allocator :=
    if a.used = a.capacity then
      { a with capacity := (a.capacity <<< 1) % 2 ^ 64, allocs := allocator_grow_size a }
    else a
  { a1 with used := a1.used + 1 }

end Jsnpg

namespace Jsnpg

/-! ## Reference definitions taken from the specification's wording -/

/-- A Unicode scalar value: at most U+10FFFF and outside U+D800..U+DFFF. -/
def isScalarValue (cp : Nat) : Prop := cp ≤ 0x10FFFF ∧ ¬ (0xD800 ≤ cp ∧ cp ≤ 0xDFFF)
instance isScalarValue_decidable : DecidablePred isScalarValue := fun cp => by unfold isScalarValue; infer_instance
/-- The well-formed (shortest-form) UTF-8 encoding of a code point, as the
Unicode standard tabulates it: one to four bytes by code point range. -/
def utf8Encoding (cp : Nat) : List Nat :=
  if cp < 0x80 then [cp]
  else if cp < 0x800 then [0xC0 + cp / 64, 0x80 + cp % 64]
  else if cp < 0x10000 then [0xE0 + cp / 4096, 0x80 + cp / 64 % 64, 0x80 + cp % 64]
  else [0xF0 + cp / 262144, 0x80 + cp / 4096 % 64, 0x80 + cp / 64 % 64, 0x80 + cp % 64]


/-- The bytes of the buffer from the read position onward. -/
def ahead (mis : memory_input_stream) : List Nat := mis.start.drop mis.read

/-! ### Numerals (the JSON number grammar) -/

/-- An ASCII decimal digit. -/
def isDigit (b : Nat) : Prop := 0x30 ≤ b ∧ b ≤ 0x39

instance isDigit_decidable : DecidablePred isDigit := fun b => by unfold isDigit; infer_instance

/-- The number a string of decimal digits denotes. -/
def decimalValue (ds : List Nat) : Nat := ds.foldl (fun acc d => acc * 10 + (d - 0x30)) 0

/-- The integer part of a JSON number: `0` alone, or a non-zero digit followed
by digits. -/
def isIntegerPart (ip : List Nat) : Prop :=
  ip = [0x30] ∨ ∃ d t, ip = d :: t ∧ 0x31 ≤ d ∧ d ≤ 0x39 ∧ ∀ x ∈ t, isDigit x

/-- The introducer of an exponent: `e` or `E`, optionally followed by a sign. -/
def isExponentMark (ms : List Nat) : Prop :=
  ms = [0x65] ∨ ms = [0x45] ∨ ms = [0x65, 0x2B] ∨ ms = [0x45, 0x2B] ∨
    ms = [0x65, 0x2D] ∨ ms = [0x45, 0x2D]

/-- The text of a number: optional `-`, integer part, optional fraction
(`.` and its digits), optional exponent (its mark and its digits). -/
def numeralText (neg : Bool) (ip : List Nat) (frac : Option (List Nat))
    (exp : Option (List Nat × List Nat)) : List Nat :=
  (if neg then [0x2D] else []) ++ ip ++
    (match frac with
      | none => []
      | some ds => 0x2E :: ds) ++
    (match exp with
      | none => []
      | some (ms, ds) => ms ++ ds)

/-- The JSON number grammar on the parts of a numeral. -/
def isNumeral (ip : List Nat) (frac : Option (List Nat))
    (exp : Option (List Nat × List Nat)) : Prop :=
  isIntegerPart ip ∧
  (∀ ds, frac = some ds → ds ≠ [] ∧ ∀ x ∈ ds, isDigit x) ∧
  (∀ ms ds, exp = some (ms, ds) → isExponentMark ms ∧ ds ≠ [] ∧ ∀ x ∈ ds, isDigit x)

/-- The value of the exponent digits of a numeral, 0 when it has no exponent. -/
def exponentDigitsValue (exp : Option (List Nat × List Nat)) : Nat :=
  match exp with
  | none => 0
  | some (_, ds) => decimalValue ds

/-- The integer a numeral without fraction and exponent denotes. -/
def numeralInt (neg : Bool) (ip : List Nat) : Int :=
  if neg then -(decimalValue ip : Int) else (decimalValue ip : Int)

/-- A byte that cannot continue a numeral that has neither fraction nor
exponent: not a digit, not `.`, not `e` or `E`. -/
def endsInteger (b : Nat) : Prop := ¬ isDigit b ∧ b ≠ 0x2E ∧ b ≠ 0x65 ∧ b ≠ 0x45

/-- A stand-in for the numeric routines in which the fast conversion always
succeeds, with the bit pattern 0. -/
def any_float : FloatPrims :=
  { FASTFLOAT_SMALLEST_POWER := -325, FASTFLOAT_LARGEST_POWER := 308,
    compute_float_64 := fun _ _ _ => some 0,
    parse_float_strtod := fun _ => none,
    dtoa := fun _ => [] }

/-! ### String literals -/

/-- The value of an ASCII hexadecimal digit, either case. -/
def hexDigitValue (c : Nat) : Option Nat :=
  if 0x30 ≤ c ∧ c ≤ 0x39 then some (c - 0x30)
  else if 0x41 ≤ c ∧ c ≤ 0x46 then some (c - 0x41 + 10)
  else if 0x61 ≤ c ∧ c ≤ 0x66 then some (c - 0x61 + 10)
  else none

/-- The number four hexadecimal digits denote. -/
def hex4Value (h1 h2 h3 h4 : Nat) : Option Nat :=
  match hexDigitValue h1, hexDigitValue h2, hexDigitValue h3, hexDigitValue h4 with
  | some a, some b, some c, some d => some (((a * 16 + b) * 16 + c) * 16 + d)
  | _, _, _, _ => none

/-- The byte a two-character escape stands for: the quote, the solidus and the
backslash stand for themselves, `b f n r t` for the control bytes. -/
def escapeValue (e : Nat) : Option Nat :=
  if e = 0x22 then some 0x22
  else if e = 0x2F then some 0x2F
  else if e = 0x5C then some 0x5C
  else if e = 0x62 then some 0x08
  else if e = 0x66 then some 0x0C
  else if e = 0x6E then some 0x0A
  else if e = 0x72 then some 0x0D
  else if e = 0x74 then some 0x09
  else none

/-- One element of the content of a JSON string literal: a character written
directly in UTF-8, a two-character escape, a `\uXXXX` escape, or a pair of
`\uXXXX` escapes holding a high and a low surrogate. -/
inductive StrItem where
  | char (cp : Nat)
  | esc (e : Nat)
  | u4 (h1 h2 h3 h4 : Nat)
  | pair (h1 h2 h3 h4 l1 l2 l3 l4 : Nat)
  deriving DecidableEq

/-- The bytes of an element as written between the quotes. -/
def StrItem.text : StrItem → List Nat
  | StrItem.char cp => utf8Encoding cp
  | StrItem.esc e => [0x5C, e]
  | StrItem.u4 h1 h2 h3 h4 => [0x5C, 0x75, h1, h2, h3, h4]
  | StrItem.pair h1 h2 h3 h4 l1 l2 l3 l4 =>
    [0x5C, 0x75, h1, h2, h3, h4, 0x5C, 0x75, l1, l2, l3, l4]

/-- The code point an element denotes: for a surrogate pair
`((H - 0xD800) << 10 | (L - 0xDC00)) + 0x10000`. -/
def StrItem.codepoint : StrItem → Nat
  | StrItem.char cp => cp
  | StrItem.esc e => (escapeValue e).getD 0
  | StrItem.u4 h1 h2 h3 h4 => (hex4Value h1 h2 h3 h4).getD 0
  | StrItem.pair h1 h2 h3 h4 l1 l2 l3 l4 =>
    ((((hex4Value h1 h2 h3 h4).getD 0 - 0xD800) <<< 10) |||
      ((hex4Value l1 l2 l3 l4).getD 0 - 0xDC00)) + 0x10000

/-- Well-formed elements: a directly written character is a Unicode scalar
value, not a control character, not the quote and not the backslash; an escape
letter is one of the eight; a single `\u` escape is not a surrogate; a pair is
a high surrogate followed by a low one. -/
def StrItem.wf : StrItem → Prop
  | StrItem.char cp => isScalarValue cp ∧ 0x20 ≤ cp ∧ cp ≠ 0x22 ∧ cp ≠ 0x5C
  | StrItem.esc e => (escapeValue e).isSome
  | StrItem.u4 h1 h2 h3 h4 =>
    ∃ v, hex4Value h1 h2 h3 h4 = some v ∧ ¬ (0xD800 ≤ v ∧ v ≤ 0xDFFF)
  | StrItem.pair h1 h2 h3 h4 l1 l2 l3 l4 =>
    ∃ hi lo, hex4Value h1 h2 h3 h4 = some hi ∧ hex4Value l1 l2 l3 l4 = some lo ∧
      0xD800 ≤ hi ∧ hi ≤ 0xDBFF ∧ 0xDC00 ≤ lo ∧ lo ≤ 0xDFFF

/-- The bytes between the quotes of a literal made of the given elements. -/
def literalText : List StrItem → List Nat
  | [] => []
  | it :: items => it.text ++ literalText items

/-- The string a literal denotes: each element replaced by the UTF-8 encoding
of its code point. -/
def literalValue : List StrItem → List Nat
  | [] => []
  | it :: items => utf8Encoding it.codepoint ++ literalValue items

/-- Valid UTF-8: the concatenation of the encodings of a sequence of code
points (which are taken to be Unicode scalar values). -/
def utf8String : List Nat → List Nat
  | [] => []
  | cp :: cps => utf8Encoding cp ++ utf8String cps

/-- Whether an element is an escape. -/
def StrItem.isEscape : StrItem → Bool
  | StrItem.char _ => false
  | _ => true

/-! ### The JSON grammar -/

/-- JSON whitespace: space, horizontal tab, line feed, carriage return. -/
def isWs (b : Nat) : Prop := b = 0x20 ∨ b = 0x09 ∨ b = 0x0A ∨ b = 0x0D

instance isWs_decidable : DecidablePred isWs := fun b => by unfold isWs; infer_instance

/-- What a derivation of the grammar stands for: a value, the elements of a
non-empty array, or the members of a non-empty object. -/
inductive Kind where
  | value
  | elements
  | members
  deriving DecidableEq

/-- The JSON grammar of RFC 8259, as a relation between a text, the events it
stands for and its nesting depth.  Whitespace may surround the six structural
characters.  `N` says which texts are numbers and which event each stands
for; a string stands for the bytes its literal denotes. -/
inductive Json (N : List Nat → Event → Prop) : Kind → List Nat → List Event → Nat → Prop
  | null : Json N Kind.value [0x6E, 0x75, 0x6C, 0x6C] [Event.null] 0
  | true_ : Json N Kind.value [0x74, 0x72, 0x75, 0x65] [Event.boolean true] 0
  | false_ : Json N Kind.value [0x66, 0x61, 0x6C, 0x73, 0x65] [Event.boolean false] 0
  | number (text : List Nat) (e : Event) : N text e → Json N Kind.value text [e] 0
  | string (items : List StrItem) : (∀ it ∈ items, it.wf) →
      Json N Kind.value (0x22 :: (literalText items ++ [0x22]))
        [Event.string (literalValue items)] 0
  | empty_array (ws : List Nat) : (∀ b ∈ ws, isWs b) →
      Json N Kind.value (0x5B :: (ws ++ [0x5D])) [Event.start_array, Event.end_array] 1
  | array (ws1 t : List Nat) (evs : List Event) (d : Nat) (ws2 : List Nat) :
      (∀ b ∈ ws1, isWs b) → (∀ b ∈ ws2, isWs b) → Json N Kind.elements t evs d →
      Json N Kind.value (0x5B :: (ws1 ++ (t ++ (ws2 ++ [0x5D]))))
        (Event.start_array :: (evs ++ [Event.end_array])) (d + 1)
  | element (t : List Nat) (evs : List Event) (d : Nat) :
      Json N Kind.value t evs d → Json N Kind.elements t evs d
  | elements (t : List Nat) (evs : List Event) (d : Nat) (ws1 ws2 t1 : List Nat)
      (evs1 : List Event) (d1 : Nat) :
      Json N Kind.value t evs d → (∀ b ∈ ws1, isWs b) → (∀ b ∈ ws2, isWs b) →
      Json N Kind.elements t1 evs1 d1 →
      Json N Kind.elements (t ++ (ws1 ++ (0x2C :: (ws2 ++ t1)))) (evs ++ evs1) (max d d1)
  | empty_object (ws : List Nat) : (∀ b ∈ ws, isWs b) →
      Json N Kind.value (0x7B :: (ws ++ [0x7D])) [Event.start_object, Event.end_object] 1
  | object (ws1 t : List Nat) (evs : List Event) (d : Nat) (ws2 : List Nat) :
      (∀ b ∈ ws1, isWs b) → (∀ b ∈ ws2, isWs b) → Json N Kind.members t evs d →
      Json N Kind.value (0x7B :: (ws1 ++ (t ++ (ws2 ++ [0x7D]))))
        (Event.start_object :: (evs ++ [Event.end_object])) (d + 1)
  | member (key : List StrItem) (ws1 ws2 t : List Nat) (evs : List Event) (d : Nat) :
      (∀ it ∈ key, it.wf) → (∀ b ∈ ws1, isWs b) → (∀ b ∈ ws2, isWs b) →
      Json N Kind.value t evs d →
      Json N Kind.members
        (0x22 :: (literalText key ++ (0x22 :: (ws1 ++ (0x3A :: (ws2 ++ t))))))
        (Event.key (literalValue key) :: evs) d
  | members (key : List StrItem) (ws1 ws2 t : List Nat) (evs : List Event) (d : Nat)
      (ws3 ws4 t1 : List Nat) (evs1 : List Event) (d1 : Nat) :
      (∀ it ∈ key, it.wf) → (∀ b ∈ ws1, isWs b) → (∀ b ∈ ws2, isWs b) →
      Json N Kind.value t evs d → (∀ b ∈ ws3, isWs b) → (∀ b ∈ ws4, isWs b) →
      Json N Kind.members t1 evs1 d1 →
      Json N Kind.members
        (0x22 :: (literalText key ++ (0x22 :: (ws1 ++ (0x3A :: (ws2 ++
          (t ++ (ws3 ++ (0x2C :: (ws4 ++ t1))))))))))
        (Event.key (literalValue key) :: (evs ++ evs1)) (max d d1)

/-- A JSON text: one value with optional whitespace around it. -/
def JsonText (N : List Nat → Event → Prop) (text : List Nat) (evs : List Event) (d : Nat) :
    Prop :=
  ∃ ws1 t ws2, (∀ b ∈ ws1, isWs b) ∧ (∀ b ∈ ws2, isWs b) ∧ Json N Kind.value t evs d ∧
    text = ws1 ++ (t ++ ws2)

/-- The events of a text that are delivered before a container is opened at a
nesting depth beyond `room`: all of them when no container is. -/
def overflowPrefix : Nat → List Event → List Event
  | _, [] => []
  | room, Event.start_array :: es =>
    if room = 0 then [] else Event.start_array :: overflowPrefix (room - 1) es
  | room, Event.start_object :: es =>
    if room = 0 then [] else Event.start_object :: overflowPrefix (room - 1) es
  | room, Event.end_array :: es => Event.end_array :: overflowPrefix (room + 1) es
  | room, Event.end_object :: es => Event.end_object :: overflowPrefix (room + 1) es
  | room, e :: es => e :: overflowPrefix room es

/-! ### Auxiliary functions used in the proofs -/

/-- The integer-part loop of `parse_number` in terms of the digits it walks
over: the sum, the exponent and the count of significant digits after the
whole run. -/
def int_accum : Nat × Int × Int → List Nat → Nat × Int × Int
  | s, [] => s
  | (sum, e, sd), d :: ds =>
    int_accum (if sd < 19 then ((sum * 10 + (d - 0x30)) % 2 ^ 64, e, sd + 1)
      else (sum, e + 1, sd + 1)) ds

/-- The parser with its read position moved forward by `k` bytes and nothing
else changed. -/
def advance (p : parser) (k : Nat) : parser :=
  { p with mis := { p.mis with read := p.mis.read + k } }

/-- The element of a string literal that `jos_scan_escape` writes for a code
point: a two-character escape where `c_escapes` has one, a `\u00XX` escape for
the other control characters, the character itself otherwise. -/
def emitItem (cp : Nat) : StrItem :=
  if c_escapes cp ≠ 0 then StrItem.esc (c_escapes cp)
  else if cp < 0x20 then
    match s_escapes.getD cp none with
    | some (h, l) => StrItem.u4 0x30 0x30 h l
    | none => StrItem.char cp
  else StrItem.char cp

/-- The state of the in-place string rewriting between two iterations of the
loop of `parse_string_in_stream`: the buffer is `A ++ W ++ G ++ M ++ S`, where
`A` is what precedes the string, `W` the bytes already written at the write
head, `G` the gap left by the escapes decoded so far, `M` the pending run of
literal bytes from `mark` to `read`, and `S` the bytes still to be read.  `D`,
the string decoded so far, is `W ++ M`; before the first escape `W` and `G` are
empty. -/
def StrInv (mis : memory_input_stream) (s : Nat) (D S : List Nat) : Prop :=
  ∃ A W G M, mis.start = A ++ (W ++ (G ++ (M ++ S))) ∧ A.length = s ∧ mis.string = s ∧
    mis.write = s + W.length ∧ mis.mark = s + W.length + G.length ∧
    mis.read = s + W.length + G.length + M.length ∧ D = W ++ M ∧ (G = [] → W = [])

/-- The state right after `mis_string_update`: the decoded string `D` lies at
`string`, followed by a gap `G` up to the read position. -/
def StrUpd (mis : memory_input_stream) (s : Nat) (D S : List Nat) : Prop :=
  ∃ A G, mis.start = A ++ (D ++ (G ++ S)) ∧ A.length = s ∧ mis.string = s ∧
    mis.write = s + D.length ∧ mis.read = s + D.length + G.length

/-- A byte that may follow a value in a JSON text: whitespace, a comma, a
closing bracket or brace, or the sentinel at the end of the buffer. -/
def isDelim (b : Nat) : Prop := b = 0 ∨ isWs b ∨ b = 0x2C ∨ b = 0x5D ∨ b = 0x7D

/-- The bit of the parser's nesting stack at level `i`. -/
def stack_bit (s : stack) (i : Nat) : Nat := 0x01 &&& ((s.stack.getD (i >>> 3) 0) >>> (i &&& 0x07))

/-- The type of the innermost open container according to the nesting stack. -/
def stack_type_of (s : stack) : Int :=
  if s.ptr = 0 then STACK_NONE else (stack_bit s (s.ptr - 1) : Int)

/-- Two states of the nesting stack that agree on the open containers. -/
def StackSame (s s1 : stack) : Prop :=
  s1.ptr = s.ptr ∧ s1.size = s.size ∧ s1.stack.length = s.stack.length ∧
    ∀ i, i < s.ptr → stack_bit s1 i = stack_bit s i

/-- A nesting stack whose byte array holds `size` bits, `size` being small
enough for the byte index to fit the `byte` it is kept in. -/
def StackOk (s : stack) : Prop :=
  s.ptr ≤ s.size ∧ s.size ≤ 8 * s.stack.length ∧ s.size ≤ 2048

/-- The parser `p1` is `p` after `k` more bytes were read: the flags are the
same and the bytes ahead are those that were ahead, less the first `k`. -/
def Stepped (p p1 : parser) (k : Nat) : Prop :=
  p1.flags = p.flags ∧ p1.mis.read = p.mis.read + k ∧ p1.mis.count = p.mis.count ∧
    ahead p1.mis = (ahead p.mis).drop k

/-- What makes a text a number for the parser: it starts with `-` or a digit,
and wherever it is followed by a delimiter, `parse_number` reads exactly the
text and returns the value of the event, an integer or a real. -/
def NumParses (fp : FloatPrims) (text : List Nat) (e : Event) : Prop :=
  (text.headD 0 = 0x2D ∨ (0x30 ≤ text.headD 0 ∧ text.headD 0 ≤ 0x39)) ∧
  ((∃ l, e = Event.integer l ∧
      ∀ (p : parser) (rest : List Nat), ahead p.mis = text ++ rest → isDelim (rest.headD 0) →
        parse_number fp p =
          Res.ok (jsnpg_type.JSNPG_INTEGER, result_union.integer l) (advance p text.length)) ∨
   (∃ d, e = Event.real d ∧
      ∀ (p : parser) (rest : List Nat), ahead p.mis = text ++ rest → isDelim (rest.headD 0) →
        parse_number fp p =
          Res.ok (jsnpg_type.JSNPG_REAL, result_union.real d) (advance p text.length)))

/-- A byte a JSON value can start with. -/
def isValueStart (b : Nat) : Prop :=
  b = 0x6E ∨ b = 0x74 ∨ b = 0x66 ∨ b = 0x2D ∨ (0x30 ≤ b ∧ b ≤ 0x39) ∨ b = 0x22 ∨ b = 0x5B ∨
    b = 0x7B

/-- Where a run of the loop of `parse_generate` has got to: in the loop at a
control point, or out of it through `throw_parse_error`. -/
def run_to (fp : FloatPrims) (k : Nat) (o : Option pg_ctl) (p : parser)
    (g : generator (List Event)) : GRes (List Event) Unit :=
  match o with
  | some c => pg_loop record_callbacks fp k c p g
  | none => GRes.thrown p g

/-- The room left on the parser's nesting stack. -/
def stack_room (p : parser) : Nat := p.stack.size - p.stack.ptr

/-- The nesting stack `s1` is `s` with one more level, which holds `bit`. -/
def Pushed (s s1 : stack) (bit : Nat) : Prop :=
  s1.ptr = s.ptr + 1 ∧ s1.size = s.size ∧ s1.stack.length = s.stack.length ∧
    (∀ i, i < s.ptr → stack_bit s1 i = stack_bit s i) ∧ stack_bit s1 s.ptr = bit

/-- The sink that lists what it is handed, after it was handed `evs`. -/
def deliver (g : generator (List Event)) (evs : List Event) : generator (List Event) :=
  { g with ctx := g.ctx ++ evs }

/-- How a run over a text of depth `d` has left the parser: past the text with
the nesting stack as before when the depth fits the room, with the error
`stack overflow` otherwise. -/
def Landed (p p1 : parser) (len d : Nat) : Prop :=
  (d ≤ stack_room p → Stepped p p1 len ∧ StackSame p.stack p1.stack) ∧
  (stack_room p < d → p1.result.type = jsnpg_type.JSNPG_ERROR ∧
    p1.result.u = result_union.error jsnpg_error_code.JSNPG_ERROR_STACK_OVERFLOW)

/-- The run of the loop of `parse_generate` over a value, from the `switch` to
the inner loop. -/
def ValueRun (fp : FloatPrims) (text : List Nat) (evs : List Event) (d : Nat) (p : parser)
    (g : generator (List Event)) : Prop :=
  ∀ st, st = stack_type_of p.stack →
    ∃ n p1, n + 1 ≤ text.length ∧
      (∀ k, (pg_top_switch record_callbacks fp false false true (text.headD 0) st >>=
            pg_loop record_callbacks fp (k + n)) p g =
          run_to fp k (if d ≤ stack_room p then some (pg_ctl.inner st) else none) p1
            (deliver g (overflowPrefix (stack_room p) evs))) ∧
      Landed p p1 text.length d

/-- The run of the loop of `parse_generate` over the elements of an array or the
members of an object, from the top of the loop to the inner loop. -/
def ContainerRun (fp : FloatPrims) (c : Int) (text : List Nat) (evs : List Event) (d : Nat)
    (p : parser) (g : generator (List Event)) : Prop :=
  ∃ n p1, n ≤ text.length ∧
    (∀ k, pg_loop record_callbacks fp (k + n) (pg_ctl.top (text.headD 0) c) p g =
        run_to fp k (if d ≤ stack_room p then some (pg_ctl.inner c) else none) p1
          (deliver g (overflowPrefix (stack_room p) evs))) ∧
    Landed p p1 text.length d

/-- The parser in strict mode at the start of `text`, which is followed by
`rest`: every byte ahead is a byte, a delimiter follows the text, and the
nesting stack is in order. -/
def AtText (p : parser) (text rest : List Nat) : Prop :=
  ahead p.mis = text ++ rest ∧ (∀ b ∈ ahead p.mis, b < 256) ∧ isDelim (rest.headD 0) ∧
    p.flags = 0 ∧ StackOk p.stack

/-- A sink that lists what it is handed until it is handed `null`: there it
deposits `code` as the generator's error and returns false. -/
def refuse_null_callbacks (code : jsnpg_error_code) : callbacks (List Event) :=
  { record_callbacks with null := some (fun g => (false, { g with error := code })) }

/-- A step of the parser ends in the non-local exit with the error `code`
stored in the parser's result. -/
def Fails {α : Type} (r : Res α) (code : jsnpg_error_code) : Prop :=
  ∃ p1, r = Res.thrown p1 ∧ p1.result.type = jsnpg_type.JSNPG_ERROR ∧
    p1.result.u = result_union.error code

/-- The byte at offset `i` from the read position. -/
def byte_at (p : parser) (i : Nat) : Nat := p.mis.start.getD (p.mis.read + i) 0

/-! ### Numbers of strict JSON -/

/-- One digit of the fraction in the scan of `parse_number`: the sum, the
exponent and the count of significant digits after it. -/
def frac_step (s : Nat × Int × Int) (d : Nat) : Nat × Int × Int :=
  if s.2.2 < 19 then
    ((10 * s.1 + (d - 0x30)) % 2 ^ 64, s.2.1 - 1,
      s.2.2 + (if (10 * s.1 + (d - 0x30)) % 2 ^ 64 ≠ 0 then 1 else 0))
  else s

/-- The fraction loop of `parse_number` in terms of the digits it walks over. -/
def frac_accum (s : Nat × Int × Int) (ds : List Nat) : Nat × Int × Int := ds.foldl frac_step s

/-- The sign of the exponent that an exponent mark gives. -/
def exponent_sign (ms : List Nat) : Int := if ms.getD 1 0 = 0x2D then -1 else 1

/-- The integer part as the scan accumulates it. -/
def ip_accum (ip : List Nat) : Nat × Int × Int :=
  match ip with
  | [] => (0, 0, 0)
  | d :: t => int_accum (d - 0x30, 0, if d - 0x30 ≠ 0 then 1 else 0) t

/-- The sum, the exponent and the count of significant digits that the scan
of `parse_number` has accumulated at the end of a numeral. -/
def numeral_scan (ip : List Nat) (frac : Option (List Nat))
    (exp : Option (List Nat × List Nat)) : Nat × Int × Int :=
  let a := ip_accum ip
  let b := match frac with
    | none => a
    | some ds => frac_accum a ds
  match exp with
  | none => b
  | some (ms, ds) => (b.1, b.2.1 + exponent_sign ms * (decimalValue ds : Int), b.2.2)

/-- The fast conversion of `parse_number` on what the scan has accumulated. -/
def fast_double (fp : FloatPrims) (s : Nat × Int × Int) (neg : Bool) : Option Nat :=
  if s.2.1 ≥ fp.FASTFLOAT_SMALLEST_POWER ∨ s.2.1 ≤ fp.FASTFLOAT_LARGEST_POWER then
    fp.compute_float_64 s.2.1 s.1 neg
  else none

/-- The numeric routines convert a numeral to the double `d`: the fast path
does, or it declines and `parse_float_strtod` reads exactly the numeral
wherever a delimiter follows it. -/
def Converts (fp : FloatPrims) (neg : Bool) (ip : List Nat) (frac : Option (List Nat))
    (exp : Option (List Nat × List Nat)) (d : Nat) : Prop :=
  fast_double fp (numeral_scan ip frac exp) neg = some d ∨
  (fast_double fp (numeral_scan ip frac exp) neg = none ∧
    ∀ rest : List Nat, isDelim (rest.headD 0) →
      fp.parse_float_strtod (numeralText neg ip frac exp ++ rest) =
        some (d, (numeralText neg ip frac exp).length))

/-- The value of a numeral without fraction and exponent fits a `long`. -/
def inLongRange (neg : Bool) (ip : List Nat) : Prop :=
  if neg then decimalValue ip ≤ 2 ^ 63 else decimalValue ip ≤ 2 ^ 63 - 1

/-- The numbers of strict JSON that the parser takes: a numeral of the JSON
grammar that is an integer in the range of `long`, or else one whose exponent
digits are at most 1000 and that the numeric routines convert. -/
def StrictNumber (fp : FloatPrims) (text : List Nat) (e : Event) : Prop :=
  ∃ neg ip frac exp, isNumeral ip frac exp ∧ text = numeralText neg ip frac exp ∧
    ((frac = none ∧ exp = none ∧ inLongRange neg ip ∧ e = Event.integer (numeralInt neg ip)) ∨
     ((frac ≠ none ∨ exp ≠ none ∨ ¬ inLongRange neg ip) ∧ exponentDigitsValue exp ≤ 1000 ∧
        ∃ d, e = Event.real d ∧ Converts fp neg ip frac exp d))

/-! ### The pull parser call by call -/

/-- A step that, whenever it returns, has stored the read offset in the
position of the parser's result. -/
def EndsAtRead {α : Type} (m : PM α) : Prop :=
  ∀ p a p1, m p = Res.ok a p1 → p1.result.position = parse_position p1

/-- The result records of successive calls of `parser_parse_next`, up to and
including the first that is not an event.  One call per unit of the first
argument. -/
def pull_records (fp : FloatPrims) : Nat → parser → List jsnpg_result
  | 0, _ => []
  | k + 1, p =>
    match parser_parse_next fp p with
    | Res.ok _ p1 =>
      match event_of_result p1.result with
      | some _ => p1.result :: pull_records fp k p1
      | none => [p1.result]
    | _ => []

/-- The result records of `n` successive calls of `parser_parse_next`,
whatever they return. -/
def pull_calls (fp : FloatPrims) : Nat → parser → List jsnpg_result
  | 0, _ => []
  | k + 1, p =>
    match parser_parse_next fp p with
    | Res.ok _ p1 => p1.result :: pull_calls fp k p1
    | _ => []

/-- The types returned by `n` successive calls of `dom_parse_next` on the
event log `heap`. -/
def dom_calls (heap : List jsnpg_dom) : Nat → parser → List jsnpg_type
  | 0, _ => []
  | k + 1, p => (dom_parse_next heap p).1 :: dom_calls heap k (dom_parse_next heap p).2

/-! ### Decimal representation -/

/-- The canonical decimal representation of a natural number in ASCII: its
decimal digits, most significant first, without a leading zero; `0` for zero. -/
def decimalText (m : Nat) : List Nat :=
  if m = 0 then [0x30] else (Nat.digits 10 m).reverse.map (fun d => 0x30 + d)

/-- The canonical decimal representation of an integer: a `-` and the digits
of the absolute value when it is negative. -/
def canonicalInt (n : Int) : List Nat :=
  if n < 0 then 0x2D :: decimalText n.natAbs else decimalText n.natAbs

/-! ### The escapes of the emitter -/

/-- An uppercase hexadecimal digit in ASCII. -/
def hexUpper (d : Nat) : Nat := if d < 10 then 0x30 + d else 0x41 + (d - 10)

/-- What the emitter writes for a byte of a string that is not copied as part
of a validated UTF-8 sequence: a two-byte escape for the quote, the backslash
and the control bytes that have one, `\u00XX` with uppercase hex digits for
the other bytes below 0x20, the byte itself otherwise. -/
def escapeByte (b : Nat) : List Nat :=
  if b = 0x22 then [0x5C, 0x22]
  else if b = 0x5C then [0x5C, 0x5C]
  else if b = 0x08 then [0x5C, 0x62]
  else if b = 0x09 then [0x5C, 0x74]
  else if b = 0x0A then [0x5C, 0x6E]
  else if b = 0x0C then [0x5C, 0x66]
  else if b = 0x0D then [0x5C, 0x72]
  else if b < 0x20 then [0x5C, 0x75, 0x30, 0x30, hexUpper (b / 16), hexUpper (b % 16)]
  else [b]

/-- What the emitter writes for a string, byte by byte, and whether it
succeeds: with validation on, a byte of 0x80 or above must start a valid UTF-8
sequence, which is copied, and the emitter stops where there is none.  The
first argument bounds the steps (the length of the string suffices). -/
def escapeText (validate : Bool) : Nat → List Nat → Bool × List Nat
  | 0, _ => (true, [])
  | _ + 1, [] => (true, [])
  | k + 1, b :: t =>
    if validate ∧ b ≥ 0x80 then
      let len := utf8_validate_sequence (b :: t) (t.length + 1)
      if len = -1 then (false, [])
      else
        let r := escapeText validate k ((b :: t).drop len.toNat)
        (r.1, (b :: t).take len.toNat ++ r.2)
    else
      let r := escapeText validate k t
      (r.1, escapeByte b ++ r.2)

/-! ## Well-formed event streams -/

/-- The state of a well-formed event stream: the kinds of the open containers,
the innermost first (true for an array), and whether a key has been given
whose value is awaited. -/
structure StreamState where
  open_ : List Bool
  pending : Bool
  deriving DecidableEq

/-- A value may come here: not in an object, or after a key. -/
def StreamState.value_ok (st : StreamState) : Bool :=
  match st.open_ with
  | false :: _ => st.pending
  | _ => true

/-- One event of a well-formed stream with at most `N` containers open: the
state after it, `none` when the event is not allowed. -/
def stream_step (N : Nat) (st : StreamState) : Event → Option StreamState
  | Event.key _ =>
    match st.open_ with
    | false :: _ => if st.pending then none else some { st with pending := true }
    | _ => none
  | Event.start_array =>
    if st.value_ok && decide (st.open_.length < N) then
      some { open_ := true :: st.open_, pending := false }
    else none
  | Event.start_object =>
    if st.value_ok && decide (st.open_.length < N) then
      some { open_ := false :: st.open_, pending := false }
    else none
  | Event.end_array =>
    match st.open_ with
    | true :: rest => some { open_ := rest, pending := false }
    | _ => none
  | Event.end_object =>
    match st.open_ with
    | false :: rest => if st.pending then none else some { open_ := rest, pending := false }
    | _ => none
  | _ => if st.value_ok then some { st with pending := false } else none

/-- The events in turn from a state of the stream: the state after them,
`none` when one of them is not allowed. -/
def stream_run (N : Nat) : StreamState → List Event → Option StreamState
  | st, [] => some st
  | st, e :: es =>
    match stream_step N st e with
    | some st1 => stream_run N st1 es
    | none => none

/-- The events are a prefix of a well-formed event stream in which at most `N`
containers are open at a time: every end event closes an open container of
its kind, in an object keys and values alternate starting with a key, an
object is not closed right after a key, and no key comes outside an object. -/
def WellFormedPrefix (N : Nat) (evs : List Event) : Prop :=
  (stream_run N { open_ := [], pending := false } evs).isSome

/-- Nested objects, each entered after a key of the one around it: `n` times
start_object and a key. -/
def nested_keys : Nat → List Event
  | 0 => []
  | n + 1 => Event.start_object :: Event.key [0x6B] :: nested_keys n

/-- The bit kept for a container: 1 for an array. -/
def kind_bit (b : Bool) : Nat := if b then 1 else 0

/-- The key flag that goes with a state of the event stream: set in an
object that awaits a key. -/
def StreamState.key_flag (st : StreamState) : Bool :=
  match st.open_ with
  | false :: _ => !st.pending
  | _ => false

/-- The generator's nesting stack, of size `N`, and its key flag agree with
the state of the event stream. -/
def Mirrors {σ : Type} (N : Nat) (g : generator σ) (st : StreamState) : Prop :=
  StackOk g.stack ∧ g.stack.size = N ∧ N ≠ 0 ∧ g.stack.ptr = st.open_.length ∧
    (∀ i, i < st.open_.length →
      stack_bit g.stack i = kind_bit (st.open_.reverse.getD i false)) ∧
    g.key_next = st.key_flag

/-- The kind of the innermost open container as `stack_peek` reports it. -/
def peek_of : List Bool → Int
  | [] => -1
  | true :: _ => STACK_ARRAY
  | false :: _ => STACK_OBJECT

/-- The container type that goes with a kind. -/
def kind_type (b : Bool) : Int := if b then STACK_ARRAY else STACK_OBJECT

/-! ## The scan of numbers within 64 bits -/

/-- The accumulator of the scan holds at most as many decimal digits as were
counted significant, and these are at most 19 when a digit is added. -/
def ScanBound (n : number_scan) : Prop :=
  0 ≤ n.sig_digits ∧ n.sum < 10 ^ (min n.sig_digits.toNat 19)

/-- The loop over the digits of the integer part with the accumulator kept as
a natural number, without reduction modulo 2^64. -/
def integer_digits_exact : Nat → number_scan → memory_input_stream →
    number_scan × memory_input_stream
  | 0, n, mis => (n, mis)
  | k + 1, n, mis =>
    if n.c < 10 then
      let mis := (mis_take mis).2
      let n : number_scan :=
        if n.sig_digits < max_sig_digits then
          { n with sig_digits := n.sig_digits + 1, sum := n.sum * 10 + n.c }
        else { n with sig_digits := n.sig_digits + 1, exponent := n.exponent + 1 }
      integer_digits_exact k { n with c := sub_zero (mis_peek mis) } mis
    else (n, mis)

/-- The loop over the digits of the fraction with the accumulator kept as a
natural number, without reduction modulo 2^64. -/
def fraction_digits_exact : Nat → number_scan → memory_input_stream →
    number_scan × memory_input_stream
  | 0, n, mis => (n, mis)
  | k + 1, n, mis =>
    let mis := (mis_take mis).2
    let n : number_scan :=
      if n.sig_digits < max_sig_digits then
        let sum := 10 * n.sum + n.c
        { n with sum := sum, exponent := n.exponent - 1,
                 sig_digits := n.sig_digits + (if sum ≠ 0 then 1 else 0) }
      else n
    let n : number_scan := { n with c := sub_zero (mis_peek mis) }
    if n.c < 10 then fraction_digits_exact k n mis else (n, mis)

/-- One pass of the body of the fraction loop, as the code has it. -/
def fraction_pass (n : number_scan) (c1 : Nat) : number_scan :=
  { (if n.sig_digits < max_sig_digits then
      ({ n with sum := (10 * n.sum + n.c) % 2 ^ 64, exponent := n.exponent - 1,
                sig_digits := n.sig_digits +
                  (if (10 * n.sum + n.c) % 2 ^ 64 ≠ 0 then 1 else 0) } : number_scan)
    else n) with c := c1 }

/-- One pass of the body of the fraction loop without reduction modulo 2^64. -/
def fraction_pass_exact (n : number_scan) (c1 : Nat) : number_scan :=
  { (if n.sig_digits < max_sig_digits then
      ({ n with sum := 10 * n.sum + n.c, exponent := n.exponent - 1,
                sig_digits := n.sig_digits + (if 10 * n.sum + n.c ≠ 0 then 1 else 0) }
        : number_scan)
    else n) with c := c1 }

/-! ## The write head of the string parser -/

/-- The bounds on the write head while a string is parsed: it is not before
the start of the string and not after the read head. -/
def StrBounds (mis : memory_input_stream) : Prop :=
  mis.string ≤ mis.write ∧ mis.write ≤ mis.read

/-- The bounds at the head of the loop of `parse_string_in_stream`: the mark
of the pending run lies between the write head and the read head. -/
def StrLoop (mis : memory_input_stream) : Prop :=
  mis.string ≤ mis.write ∧ mis.write ≤ mis.mark ∧ mis.mark ≤ mis.read

/-- The stream `m1` is `m` read further by at least `k` bytes, with nothing
else changed. -/
def ReadOn (m m1 : memory_input_stream) (k : Nat) : Prop :=
  m.read + k ≤ m1.read ∧ m1 = { m with read := m1.read }

/-- The outcome of a parse step reads on by at least `k` bytes when it
returns, and reads on when it throws. -/
def StepReads {α : Type} (r : Res α) (m : memory_input_stream) (P : α → Nat → Prop) : Prop :=
  match r with
  | Res.ok a p1 => ∃ k, ReadOn m p1.mis k ∧ P a k
  | Res.thrown p1 => ReadOn m p1.mis 0
  | Res.aborted p1 => ReadOn m p1.mis 0

/-- The bounds hold in the state a parse step ends in, however it ends. -/
def EndsInBounds {α : Type} (r : Res α) : Prop :=
  match r with
  | Res.ok _ p1 => StrBounds p1.mis
  | Res.thrown p1 => StrBounds p1.mis
  | Res.aborted p1 => StrBounds p1.mis

/-! ## Results and allocations -/

/-- The C string at the start of a buffer: the bytes before the first NUL. -/
def c_string (buffer : List Nat) : List Nat := buffer.takeWhile (fun b => b ≠ 0)

/-- The slots of all recorded allocations lie within the table. -/
def allocator_fits (a : allocator) : Prop := a.used * POINTER_SIZE ≤ a.allocs

/-! ## The text of the emitter -/

/-- What `jos_prefix` writes in a state of the output stream. -/
def lead_text (s : json_output_stream) : List Nat :=
  if s.key then []
  else
    (if s.comma then [0x2C] else []) ++
      (if s.indent ≠ 0 then
        (if s.nl then [0x0A] else []) ++ List.replicate ((s.indent * s.level) % 2 ^ 32) 0x20
      else [])

/-- The flag `nl` after `jos_prefix`. -/
def lead_nl (s : json_output_stream) : Bool :=
  if s.key then s.nl else if s.indent ≠ 0 then true else s.nl

/-- The generator of the emitter with the output stream in a given state:
what was written, the level and the three flags. -/
def jos_at (g : jgen) (buffer : List Nat) (level : Nat) (nl comma key : Bool) : jgen :=
  { g with ctx := ⟨⟨buffer⟩, g.ctx.indent, level, nl, comma, key⟩ }

/-- A string literal as the emitter writes it: the escaped bytes in quotes. -/
def quotedText (validate : Bool) (s : List Nat) : List Nat :=
  0x22 :: ((escapeText validate s.length s).2 ++ [0x22])

/-- What the emitter writes for a scalar event after the separator. -/
def scalarText (fp : FloatPrims) (validate : Bool) : Event → List Nat
  | Event.null => [0x6E, 0x75, 0x6C, 0x6C]
  | Event.boolean true => [0x74, 0x72, 0x75, 0x65]
  | Event.boolean false => [0x66, 0x61, 0x6C, 0x73, 0x65]
  | Event.integer n => canonicalInt n
  | Event.real r => fp.dtoa r
  | Event.string s => quotedText validate s
  | _ => []

/-- The events that are values by themselves. -/
def Event.isScalar : Event → Bool
  | Event.null => true
  | Event.boolean _ => true
  | Event.integer _ => true
  | Event.real _ => true
  | Event.string _ => true
  | _ => false

/-- A string the emitter accepts: bytes, which with validation on are valid
UTF-8. -/
def StringOk (validate : Bool) (s : List Nat) : Prop :=
  (∀ b ∈ s, b < 256) ∧ (escapeText validate s.length s).1 = true

/-- A scalar event the emitter accepts: an integer is a `long`, a string is
accepted. -/
def ScalarOk (validate : Bool) : Event → Prop
  | Event.integer n => -2 ^ 63 ≤ n ∧ n < 2 ^ 63
  | Event.string s => StringOk validate s
  | _ => True

/-- What `jos_prefix_end` writes: the indentation of the closing bracket of a
container that is not empty. -/
def close_text (s : json_output_stream) : List Nat :=
  if s.comma then
    lead_text { s with level := (s.level + 2 ^ 32 - 1) % 2 ^ 32, comma := false }
  else []

/-! ## A text nested beyond 2048 levels -/

/-- The text `"k":{` repeated `n` times. -/
def deep_opens : Nat → List Nat
  | 0 => []
  | n + 1 => [0x22, 0x6B, 0x22, 0x3A, 0x7B] ++ deep_opens n

/-- The events of `deep_opens`: a key and the start of an object, `n` times. -/
def deep_open_events : Nat → List Event
  | 0 => []
  | n + 1 => Event.key [0x6B] :: Event.start_object :: deep_open_events n

/-- A text of `n + 1` objects nested through the key `k`, the innermost
holding an empty array, in which the outermost object is closed by `]`:
`{"k":{"k": ... {"k":[]}}...}]` with `n` closing braces. -/
def deep_text (n : Nat) : List Nat :=
  0x7B :: (deep_opens n ++ ([0x22, 0x6B, 0x22, 0x3A, 0x5B, 0x5D] ++
    (List.replicate n 0x7D ++ [0x5D])))

/-- The events the push parser delivers for `deep_text n` when its nesting
stack has room for more than 2048 levels. -/
def deep_events (n : Nat) : List Event :=
  Event.start_object :: (deep_open_events n ++ ([Event.key [0x6B], Event.start_array,
    Event.end_array] ++ (List.replicate n Event.end_object ++ [Event.end_array])))

/-! ## Well-formed event sequences and the layout of the emitter -/

/-- Valid UTF-8: the encodings of a sequence of Unicode scalar values. -/
def ValidString (s : List Nat) : Prop :=
  ∃ cps, (∀ cp ∈ cps, isScalarValue cp) ∧ s = utf8String cps

/-- An event whose payload the emitter with validation setting `validate`
accepts: an integer is a `long`, a string or a key is accepted by the scan for
escapes. -/
def EmitOk (validate : Bool) : Event → Prop
  | Event.integer n => -2 ^ 63 ≤ n ∧ n < 2 ^ 63
  | Event.string s => StringOk validate s
  | Event.key s => StringOk validate s
  | _ => True

/-- An event with a well-formed payload: an integer is a `long`, a string or
a key is valid UTF-8. -/
def EventOk : Event → Prop
  | Event.integer n => -2 ^ 63 ≤ n ∧ n < 2 ^ 63
  | Event.string s => ValidString s
  | Event.key s => ValidString s
  | _ => True

/-- The well-formed event sequences of one JSON value, of the elements of an
array that is not empty and of the members of an object that is not empty,
with the nesting depth; `P` holds of every scalar and every key. -/
inductive EventTree (P : Event → Prop) : Kind → List Event → Nat → Prop
  | scalar (e : Event) : e.isScalar = true → P e → EventTree P Kind.value [e] 0
  | empty_array : EventTree P Kind.value [Event.start_array, Event.end_array] 1
  | array (evs : List Event) (d : Nat) : EventTree P Kind.elements evs d →
      EventTree P Kind.value (Event.start_array :: (evs ++ [Event.end_array])) (d + 1)
  | element (evs : List Event) (d : Nat) : EventTree P Kind.value evs d →
      EventTree P Kind.elements evs d
  | elements (evs : List Event) (d : Nat) (evs1 : List Event) (d1 : Nat) :
      EventTree P Kind.value evs d → EventTree P Kind.elements evs1 d1 →
      EventTree P Kind.elements (evs ++ evs1) (max d d1)
  | empty_object : EventTree P Kind.value [Event.start_object, Event.end_object] 1
  | object (evs : List Event) (d : Nat) : EventTree P Kind.members evs d →
      EventTree P Kind.value (Event.start_object :: (evs ++ [Event.end_object])) (d + 1)
  | member (k : List Nat) (evs : List Event) (d : Nat) : P (Event.key k) →
      EventTree P Kind.value evs d → EventTree P Kind.members (Event.key k :: evs) d
  | members (k : List Nat) (evs : List Event) (d : Nat) (evs1 : List Event) (d1 : Nat) :
      P (Event.key k) → EventTree P Kind.value evs d → EventTree P Kind.members evs1 d1 →
      EventTree P Kind.members (Event.key k :: (evs ++ evs1)) (max d d1)

/-- The text of a value, of elements or of members as the emitter lays it
out: the texts of the scalars and keys, the six structural characters, and a
run of bytes for which `W` holds after an opening bracket, before a closing
bracket, after a comma and after a colon. -/
inductive Layout (P : Event → Prop) (W : List Nat → Prop) (fp : FloatPrims) (validate : Bool) :
    Kind → List Nat → List Event → Nat → Prop
  | scalar (e : Event) : e.isScalar = true → P e →
      Layout P W fp validate Kind.value (scalarText fp validate e) [e] 0
  | empty_array :
      Layout P W fp validate Kind.value [0x5B, 0x5D] [Event.start_array, Event.end_array] 1
  | array (w1 t : List Nat) (evs : List Event) (d : Nat) (w2 : List Nat) : W w1 → W w2 →
      Layout P W fp validate Kind.elements t evs d →
      Layout P W fp validate Kind.value (0x5B :: (w1 ++ (t ++ (w2 ++ [0x5D]))))
        (Event.start_array :: (evs ++ [Event.end_array])) (d + 1)
  | element (t : List Nat) (evs : List Event) (d : Nat) :
      Layout P W fp validate Kind.value t evs d → Layout P W fp validate Kind.elements t evs d
  | elements (t : List Nat) (evs : List Event) (d : Nat) (w t1 : List Nat) (evs1 : List Event)
      (d1 : Nat) : Layout P W fp validate Kind.value t evs d → W w →
      Layout P W fp validate Kind.elements t1 evs1 d1 →
      Layout P W fp validate Kind.elements (t ++ (0x2C :: (w ++ t1))) (evs ++ evs1) (max d d1)
  | empty_object :
      Layout P W fp validate Kind.value [0x7B, 0x7D] [Event.start_object, Event.end_object] 1
  | object (w1 t : List Nat) (evs : List Event) (d : Nat) (w2 : List Nat) : W w1 → W w2 →
      Layout P W fp validate Kind.members t evs d →
      Layout P W fp validate Kind.value (0x7B :: (w1 ++ (t ++ (w2 ++ [0x7D]))))
        (Event.start_object :: (evs ++ [Event.end_object])) (d + 1)
  | member (k w t : List Nat) (evs : List Event) (d : Nat) : P (Event.key k) → W w →
      Layout P W fp validate Kind.value t evs d →
      Layout P W fp validate Kind.members (quotedText validate k ++ (0x3A :: (w ++ t)))
        (Event.key k :: evs) d
  | members (k w t : List Nat) (evs : List Event) (d : Nat) (w1 t1 : List Nat)
      (evs1 : List Event) (d1 : Nat) : P (Event.key k) → W w →
      Layout P W fp validate Kind.value t evs d → W w1 →
      Layout P W fp validate Kind.members t1 evs1 d1 →
      Layout P W fp validate Kind.members
        (quotedText validate k ++ (0x3A :: (w ++ (t ++ (0x2C :: (w1 ++ t1))))))
        (Event.key k :: (evs ++ evs1)) (max d d1)

/-- The whitespace `jos_prefix` writes with indent `ind` at level `level`:
with an indent, a newline unless nothing was written yet, and the
indentation. -/
def indent_ws (ind level : Nat) (nl : Bool) : List Nat :=
  if ind ≠ 0 then
    (if nl then [0x0A] else []) ++ List.replicate ((ind * level) % 2 ^ 32) 0x20
  else []

/-- The flag `nl` once something was written with indent `ind`. -/
def nl_after (ind : Nat) (nl : Bool) : Bool := if ind ≠ 0 then true else nl

/-- The runs of bytes the emitter with indent `ind` puts between tokens:
whitespace, and nothing when the indent is 0. -/
def EmitWs (ind : Nat) (w : List Nat) : Prop := (∀ b ∈ w, isWs b) ∧ (ind = 0 → w = [])

/-- Whether a comma may come before an event in compact output: not before
the end of a container. -/
def Event.takesComma : Event → Bool
  | Event.end_array => false
  | Event.end_object => false
  | _ => true

/-- Whether a comma is due before what follows an event in compact output:
after a scalar and after the end of a container. -/
def Event.givesComma : Event → Bool
  | Event.start_array => false
  | Event.start_object => false
  | Event.key _ => false
  | _ => true

/-- What compact output holds for one event: the text of a scalar, the key in
quotes with its colon, or the bracket. -/
def compactItem (fp : FloatPrims) (validate : Bool) : Event → List Nat
  | Event.start_array => [0x5B]
  | Event.end_array => [0x5D]
  | Event.start_object => [0x7B]
  | Event.end_object => [0x7D]
  | Event.key k => quotedText validate k ++ [0x3A]
  | e => scalarText fp validate e

/-- Compact output according to the specification: the items in turn, with
one comma between sibling values and between members, none after an opening
bracket or before a closing one, and nothing else.  `c` says whether a comma
is due. -/
def compactText (fp : FloatPrims) (validate : Bool) : Bool → List Event → List Nat
  | _, [] => []
  | c, e :: es =>
    (if c && e.takesComma then [0x2C] else []) ++
      (compactItem fp validate e ++ compactText fp validate e.givesComma es)

/-- The numbers as the emitter writes them: an integer in canonical decimal
form, a real as the formatter gives it. -/
def EmitNum (fp : FloatPrims) (P : Event → Prop) (text : List Nat) (e : Event) : Prop :=
  P e ∧ ((∃ n, e = Event.integer n ∧ text = canonicalInt n) ∨
    (∃ r, e = Event.real r ∧ text = fp.dtoa r))

/-- The contract of the formatter for a double: the text it gives is made of
bytes and is read back by `parse_number` as the same double. -/
def RealOk (fp : FloatPrims) (r : Nat) : Prop :=
  NumParses fp (fp.dtoa r) (Event.real r) ∧ ∀ b ∈ fp.dtoa r, b < 256

/-- An event with a well-formed payload, for which the formatter keeps its
contract when it is a real. -/
def ValueOk (fp : FloatPrims) (e : Event) : Prop :=
  EventOk e ∧ ∀ r, e = Event.real r → RealOk fp r

end Jsnpg

namespace Jsnpg

open jsnpg_type jsnpg_error_code

/-! ## What the steps of the parser leave unchanged -/

/-- The sign of a numeral as text. -/
def signText (neg : Bool) : List Nat := if neg then [0x2D] else []

/-- The parser's result record does not hold the error `eof`. -/
def NoEof (p : parser) : Prop := p.result.u ≠ result_union.error JSNPG_ERROR_EOF

/-- The parser after `throw_parse_error` with a code other than `eof`: the
result is an error at the position of the read head. -/
def ThrownAt (p : parser) : Prop :=
  p.result.type = JSNPG_ERROR ∧ p.result.position = parse_position p ∧ NoEof p

/-- A parse step that keeps `has_start`, that does not store the error `eof`,
and that, when it throws, leaves an error at the position of the read head. -/
def Framed {α : Type} (m : PM α) : Prop :=
  ∀ p, match m p with
    | Res.ok _ p1 => p1.mis.has_start = p.mis.has_start ∧ (NoEof p → NoEof p1)
    | Res.thrown p1 => p1.mis.has_start = p.mis.has_start ∧ ThrownAt p1
    | Res.aborted p1 => p1.mis.has_start = p.mis.has_start ∧ (NoEof p → NoEof p1)

/-- The same for a step that also works on the generator of the recording
sink, whose `error` it keeps. -/
def FramedG {α : Type} (m : GM (List Event) α) : Prop :=
  ∀ p g, match m p g with
    | GRes.ok _ p1 g1 =>
      p1.mis.has_start = p.mis.has_start ∧ (NoEof p → NoEof p1) ∧ g1.error = g.error
    | GRes.thrown p1 g1 =>
      p1.mis.has_start = p.mis.has_start ∧ ThrownAt p1 ∧ g1.error = g.error
    | GRes.aborted p1 g1 =>
      p1.mis.has_start = p.mis.has_start ∧ (NoEof p → NoEof p1) ∧ g1.error = g.error

end Jsnpg

namespace Jsnpg

/-! ## UTF-8 validation -/

set_option maxRecDepth 100000 in
theorem utf8_lead_eq : ∀ b, b < 256 → utf8_lead b =
    if 192 ≤ b ∧ b < 224 then some (b % 32, 128, 1)
    else if 224 ≤ b ∧ b < 240 then some (b % 16, 2048, 2)
    else if 240 ≤ b ∧ b < 248 then some (b % 8, 65536, 3)
    else if b ≤ 127 then some (b, 0, 0) else none := by
  decide

set_option maxRecDepth 100000 in
theorem is_continuation_iff : ∀ b, b < 256 → (IS_CONTINUATION b = (decide (128 ≤ b ∧ b < 192))) := by
  decide

theorem lo_6_bits_eq (b : Nat) : LO_6_BITS b = b % 64 := Nat.and_pow_two_sub_one_eq_mod b 6

theorem shl6_or (a b : Nat) : (a <<< 6) ||| (b % 64) = a * 64 + b % 64 := by
  have h : b % 64 < 2 ^ 6 := by omega
  rw [Nat.shiftLeft_eq, Nat.mul_comm, ← Nat.mul_add_lt_is_or h]

theorem utf8_validate_loop_step (bytes : List Nat) (k length cp : Nat)
    (hb : bytes.getD length 0 < 256) :
    utf8_validate_loop bytes (k + 1) length cp =
      if 128 ≤ bytes.getD length 0 ∧ bytes.getD length 0 < 192 then
        utf8_validate_loop bytes k (length + 1) (cp * 64 + bytes.getD length 0 % 64)
      else none := by
  simp only [utf8_validate_loop, is_continuation_iff _ hb, lo_6_bits_eq, shl6_or]
  generalize bytes.getD length 0 = x
  by_cases h : 128 ≤ x ∧ x < 192 <;> simp [h]

theorem is_valid_codepoint_iff (cp : Nat) :
    (is_valid_codepoint cp = true) ↔ isScalarValue cp := by
  simp only [is_valid_codepoint, is_surrogate, isScalarValue, CODEPOINT_MAX, SURROGATE_MIN,
    SURROGATE_MAX, Bool.and_eq_true, decide_eq_true_eq, Bool.not_eq_true', Bool.and_eq_false_iff,
    decide_eq_false_iff_not, ge_iff_le]
  omega

/-- The validator as plain arithmetic on the first four bytes. -/
theorem utf8_validate_arith (bytes : List Nat) (count : Nat) (b0 b1 b2 b3 : Nat)
    (e0 : bytes.getD 0 0 = b0) (e1 : bytes.getD 1 0 = b1)
    (e2 : bytes.getD 2 0 = b2) (e3 : bytes.getD 3 0 = b3)
    (h0 : b0 < 256) (h1 : b1 < 256) (h2 : b2 < 256) (h3 : b3 < 256) :
    utf8_validate_sequence bytes count =
      if 192 ≤ b0 ∧ b0 < 224 then
        if count < 2 then -1 else if 128 ≤ b1 ∧ b1 < 192 then
          (if b0 % 32 * 64 + b1 % 64 < 128 then -1 else 2) else -1
      else if 224 ≤ b0 ∧ b0 < 240 then
        if count < 3 then -1 else if (128 ≤ b1 ∧ b1 < 192) ∧ (128 ≤ b2 ∧ b2 < 192) then
          (if (b0 % 16 * 64 + b1 % 64) * 64 + b2 % 64 < 2048
              ∨ ¬ isScalarValue ((b0 % 16 * 64 + b1 % 64) * 64 + b2 % 64) then -1 else 3) else -1
      else if 240 ≤ b0 ∧ b0 < 248 then
        if count < 4 then -1
        else if (128 ≤ b1 ∧ b1 < 192) ∧ (128 ≤ b2 ∧ b2 < 192) ∧ (128 ≤ b3 ∧ b3 < 192) then
          (if ((b0 % 8 * 64 + b1 % 64) * 64 + b2 % 64) * 64 + b3 % 64 < 65536
              ∨ ¬ isScalarValue (((b0 % 8 * 64 + b1 % 64) * 64 + b2 % 64) * 64 + b3 % 64)
            then -1 else 4) else -1
      else if b0 ≤ 127 then (if count < 1 then -1 else 1) else -1 := by
  unfold utf8_validate_sequence
  rw [e0, utf8_lead_eq b0 h0]
  by_cases c2 : 192 ≤ b0 ∧ b0 < 224
  · rw [if_pos c2, if_pos c2]
    simp only []
    rw [utf8_validate_loop_step _ _ _ _ (by rw [e1]; exact h1), e1]
    by_cases hc : count < 2
    · rw [if_pos (by omega : count < 1 + 1), if_pos hc]
    · rw [if_neg (by omega : ¬ count < 1 + 1), if_neg hc]
      by_cases k1 : 128 ≤ b1 ∧ b1 < 192
      · rw [if_pos k1, if_pos k1]
        simp only [utf8_validate_loop, _1_BYTE_MAX]
        have hv : is_valid_codepoint (b0 % 32 * 64 + b1 % 64) = true := by
          rw [is_valid_codepoint_iff]; unfold isScalarValue; omega
        simp [hv]
      · rw [if_neg k1, if_neg k1]
  rw [if_neg c2, if_neg c2]
  by_cases c3 : 224 ≤ b0 ∧ b0 < 240
  · rw [if_pos c3, if_pos c3]
    simp only []
    rw [utf8_validate_loop_step _ _ _ _ (by rw [e1]; exact h1), e1]
    by_cases hc : count < 3
    · rw [if_pos (by omega : count < 1 + 2), if_pos hc]
    · rw [if_neg (by omega : ¬ count < 1 + 2), if_neg hc]
      by_cases k1 : 128 ≤ b1 ∧ b1 < 192
      · rw [if_pos k1, utf8_validate_loop_step _ _ _ _ (by rw [e2]; exact h2), e2]
        by_cases k2 : 128 ≤ b2 ∧ b2 < 192
        · rw [if_pos k2, if_pos ⟨k1, k2⟩]
          simp only [utf8_validate_loop, _2_BYTE_MAX, Bool.or_eq_true, decide_eq_true_eq,
            Bool.not_eq_true', ← Bool.not_eq_true, is_valid_codepoint_iff]
          rfl
        · rw [if_neg k2, if_neg (fun h => k2 h.2)]
      · rw [if_neg k1, if_neg (fun h => k1 h.1)]
  rw [if_neg c3, if_neg c3]
  by_cases c4 : 240 ≤ b0 ∧ b0 < 248
  · rw [if_pos c4, if_pos c4]
    simp only []
    rw [utf8_validate_loop_step _ _ _ _ (by rw [e1]; exact h1), e1]
    by_cases hc : count < 4
    · rw [if_pos (by omega : count < 1 + 3), if_pos hc]
    · rw [if_neg (by omega : ¬ count < 1 + 3), if_neg hc]
      by_cases k1 : 128 ≤ b1 ∧ b1 < 192
      · rw [if_pos k1, utf8_validate_loop_step _ _ _ _ (by rw [e2]; exact h2), e2]
        by_cases k2 : 128 ≤ b2 ∧ b2 < 192
        · rw [if_pos k2, utf8_validate_loop_step _ _ _ _ (by rw [e3]; exact h3), e3]
          by_cases k3 : 128 ≤ b3 ∧ b3 < 192
          · rw [if_pos k3, if_pos ⟨k1, k2, k3⟩]
            simp only [utf8_validate_loop, _3_BYTE_MAX, Bool.or_eq_true, decide_eq_true_eq,
              Bool.not_eq_true', ← Bool.not_eq_true, is_valid_codepoint_iff]
            rfl
          · rw [if_neg k3, if_neg (fun h => k3 h.2.2)]
        · rw [if_neg k2, if_neg (fun h => k2 h.2.1)]
      · rw [if_neg k1, if_neg (fun h => k1 h.1)]
  rw [if_neg c4, if_neg c4]
  by_cases c1 : b0 ≤ 127
  · rw [if_pos c1, if_pos c1]
    simp only [utf8_validate_loop]
    by_cases hc : count < 1
    · rw [if_pos (by omega : count < 1 + 0), if_pos hc]
    · rw [if_neg (by omega : ¬ count < 1 + 0), if_neg hc]
      have hv : is_valid_codepoint b0 = true := by
        rw [is_valid_codepoint_iff]; unfold isScalarValue; omega
      simp [hv]
  · rw [if_neg c1, if_neg c1]

theorem getD_lt_of_bytes (bytes : List Nat) (hb : ∀ b ∈ bytes, b < 256) (i : Nat) :
    bytes.getD i 0 < 256 := by
  rw [List.getD_eq_getElem?_getD]
  rcases h : bytes[i]? with _ | v
  · simp
  · exact hb v (List.getElem?_mem h)

theorem getD_take_of_lt (bytes : List Nat) (L i : Nat) (h : i < L) :
    (bytes.take L).getD i 0 = bytes.getD i 0 := by
  simp [List.getD_eq_getElem?_getD, List.getElem?_take, h]

theorem utf8Encoding_length (cp : Nat) :
    1 ≤ (utf8Encoding cp).length ∧ (utf8Encoding cp).length ≤ 4 := by
  unfold utf8Encoding; split_ifs <;> simp

theorem utf8_validate_result (bytes : List Nat) (count : Nat) (hb : ∀ b ∈ bytes, b < 256) :
    utf8_validate_sequence bytes count = -1 ∨
      ∃ L : Nat, 1 ≤ L ∧ L ≤ 4 ∧ L ≤ count ∧ utf8_validate_sequence bytes count = (L : Int) := by
  rw [utf8_validate_arith bytes count _ _ _ _ rfl rfl rfl rfl (getD_lt_of_bytes _ hb 0)
    (getD_lt_of_bytes _ hb 1) (getD_lt_of_bytes _ hb 2) (getD_lt_of_bytes _ hb 3)]
  split_ifs
  all_goals first
    | exact Or.inl rfl
    | exact Or.inr ⟨1, by omega, by omega, by omega, rfl⟩
    | exact Or.inr ⟨2, by omega, by omega, by omega, rfl⟩
    | exact Or.inr ⟨3, by omega, by omega, by omega, rfl⟩
    | exact Or.inr ⟨4, by omega, by omega, by omega, rfl⟩

theorem utf8_validate_complete (bytes : List Nat) (count L cp : Nat)
    (hb : ∀ b ∈ bytes, b < 256) (hc : count ≤ bytes.length) (hL : L ≤ count)
    (hs : isScalarValue cp) (ht : bytes.take L = utf8Encoding cp) :
    utf8_validate_sequence bytes count = (L : Int) := by
  have hlen : L = (utf8Encoding cp).length := by
    rw [← ht, List.length_take]; omega
  have g : ∀ i, i < L → bytes.getD i 0 = (utf8Encoding cp).getD i 0 := by
    intro i hi; rw [← ht, getD_take_of_lt _ _ _ hi]
  rw [utf8_validate_arith bytes count _ _ _ _ rfl rfl rfl rfl (getD_lt_of_bytes _ hb 0)
    (getD_lt_of_bytes _ hb 1) (getD_lt_of_bytes _ hb 2) (getD_lt_of_bytes _ hb 3)]
  have h3 := getD_lt_of_bytes _ hb 3
  have h2 := getD_lt_of_bytes _ hb 2
  have h1 := getD_lt_of_bytes _ hb 1
  unfold isScalarValue at hs ⊢
  unfold utf8Encoding at hlen g
  by_cases c1 : cp < 0x80
  · simp only [c1, if_true, List.length_singleton] at hlen g
    have g0 := g 0 (by omega)
    simp only [List.getD_cons_zero] at g0
    rw [g0]; subst hlen
    split_ifs <;> first | rfl | omega
  by_cases c2 : cp < 0x800
  · simp only [c1, c2, if_true, if_false, List.length_cons, List.length_nil] at hlen g
    have g0 := g 0 (by omega)
    have g1 := g 1 (by omega)
    simp only [List.getD_cons_zero, List.getD_cons_succ] at g0 g1
    rw [g0, g1]; subst hlen
    split_ifs <;> first | rfl | omega
  by_cases c3 : cp < 0x10000
  · simp only [c1, c2, c3, if_true, if_false, List.length_cons, List.length_nil] at hlen g
    have g0 := g 0 (by omega)
    have g1 := g 1 (by omega)
    have g2 := g 2 (by omega)
    simp only [List.getD_cons_zero, List.getD_cons_succ] at g0 g1 g2
    rw [g0, g1, g2]; subst hlen
    split_ifs <;> first | rfl | omega
  · simp only [c1, c2, c3, if_true, if_false, List.length_cons, List.length_nil] at hlen g
    have g0 := g 0 (by omega)
    have g1 := g 1 (by omega)
    have g2 := g 2 (by omega)
    have g3 := g 3 (by omega)
    simp only [List.getD_cons_zero, List.getD_cons_succ] at g0 g1 g2 g3
    subst hlen
    generalize bytes.getD 0 0 = b0 at g0 ⊢
    generalize bytes.getD 1 0 = b1 at g1 ⊢
    generalize bytes.getD 2 0 = b2 at g2 ⊢
    generalize bytes.getD 3 0 = b3 at g3 ⊢
    have r0 : 240 ≤ b0 ∧ b0 < 248 := by omega
    have r1 : 128 ≤ b1 ∧ b1 < 192 := by omega
    have r2 : 128 ≤ b2 ∧ b2 < 192 := by omega
    have r3 : 128 ≤ b3 ∧ b3 < 192 := by omega
    have hcp : ((b0 % 8 * 64 + b1 % 64) * 64 + b2 % 64) * 64 + b3 % 64 = cp := by omega
    rw [if_neg (by omega), if_neg (by omega), if_pos r0, if_neg (by omega), if_pos ⟨r1, r2, r3⟩,
      hcp, if_neg (by omega)]
    rfl

theorem take_eq_map_getD (bytes : List Nat) (k : Nat) (h : k ≤ bytes.length) :
    bytes.take k = (List.range k).map (fun i => bytes.getD i 0) := by
  apply List.ext_getElem
  · simp; omega
  · intro i h1 h2
    simp at h1 h2
    simp [List.getD_eq_getElem?_getD, List.getElem?_eq_getElem (by omega : i < bytes.length)]

theorem utf8_validate_sound (bytes : List Nat) (count L : Nat)
    (hb : ∀ b ∈ bytes, b < 256) (hc : count ≤ bytes.length)
    (hv : utf8_validate_sequence bytes count = (L : Int)) :
    L ≤ count ∧ ∃ cp, isScalarValue cp ∧ bytes.take L = utf8Encoding cp := by
  rw [utf8_validate_arith bytes count _ _ _ _ rfl rfl rfl rfl (getD_lt_of_bytes _ hb 0)
    (getD_lt_of_bytes _ hb 1) (getD_lt_of_bytes _ hb 2) (getD_lt_of_bytes _ hb 3)] at hv
  have h0 := getD_lt_of_bytes _ hb 0
  have t1 := take_eq_map_getD bytes 1
  have t2 := take_eq_map_getD bytes 2
  have t3 := take_eq_map_getD bytes 3
  have t4 := take_eq_map_getD bytes 4
  simp only [List.range_succ, List.range_zero, List.nil_append, List.cons_append, List.map_cons,
    List.map_nil] at t1 t2 t3 t4
  generalize bytes.getD 0 0 = b0 at *
  generalize bytes.getD 1 0 = b1 at *
  generalize bytes.getD 2 0 = b2 at *
  generalize bytes.getD 3 0 = b3 at *
  by_cases c2 : 192 ≤ b0 ∧ b0 < 224
  · rw [if_pos c2] at hv
    by_cases hc2 : count < 2
    · rw [if_pos hc2] at hv; omega
    rw [if_neg hc2] at hv
    by_cases k1 : 128 ≤ b1 ∧ b1 < 192
    · rw [if_pos k1] at hv
      by_cases ov : b0 % 32 * 64 + b1 % 64 < 128
      · rw [if_pos ov] at hv; omega
      rw [if_neg ov] at hv
      have hL : L = 2 := by omega
      subst hL
      refine ⟨by omega, b0 % 32 * 64 + b1 % 64, by unfold isScalarValue; omega, ?_⟩
      rw [t2 (by omega)]
      unfold utf8Encoding
      rw [if_neg (by omega), if_pos (by omega)]
      simp only [List.cons.injEq, and_true]
      omega
    · rw [if_neg k1] at hv; omega
  rw [if_neg c2] at hv
  by_cases c3 : 224 ≤ b0 ∧ b0 < 240
  · rw [if_pos c3] at hv
    by_cases hc3 : count < 3
    · rw [if_pos hc3] at hv; omega
    rw [if_neg hc3] at hv
    by_cases k : (128 ≤ b1 ∧ b1 < 192) ∧ (128 ≤ b2 ∧ b2 < 192)
    · rw [if_pos k] at hv
      generalize hcp : (b0 % 16 * 64 + b1 % 64) * 64 + b2 % 64 = cp at hv
      by_cases ov : cp < 2048 ∨ ¬ isScalarValue cp
      · rw [if_pos ov] at hv; omega
      rw [if_neg ov] at hv
      have hL : L = 3 := by omega
      subst hL
      have hs : isScalarValue cp := by
        by_contra hn; exact ov (Or.inr hn)
      refine ⟨by omega, cp, hs, ?_⟩
      rw [t3 (by omega)]
      unfold utf8Encoding
      unfold isScalarValue at hs
      rw [if_neg (by omega), if_neg (by omega), if_pos (by omega)]
      simp only [List.cons.injEq, and_true]
      omega
    · rw [if_neg k] at hv; omega
  rw [if_neg c3] at hv
  by_cases c4 : 240 ≤ b0 ∧ b0 < 248
  · rw [if_pos c4] at hv
    by_cases hc4 : count < 4
    · rw [if_pos hc4] at hv; omega
    rw [if_neg hc4] at hv
    by_cases k : (128 ≤ b1 ∧ b1 < 192) ∧ (128 ≤ b2 ∧ b2 < 192) ∧ (128 ≤ b3 ∧ b3 < 192)
    · rw [if_pos k] at hv
      generalize hcp : ((b0 % 8 * 64 + b1 % 64) * 64 + b2 % 64) * 64 + b3 % 64 = cp at hv
      by_cases ov : cp < 65536 ∨ ¬ isScalarValue cp
      · rw [if_pos ov] at hv; omega
      rw [if_neg ov] at hv
      have hL : L = 4 := by omega
      subst hL
      have hs : isScalarValue cp := by
        by_contra hn; exact ov (Or.inr hn)
      refine ⟨by omega, cp, hs, ?_⟩
      rw [t4 (by omega)]
      unfold utf8Encoding
      unfold isScalarValue at hs
      rw [if_neg (by omega), if_neg (by omega), if_neg (by omega)]
      simp only [List.cons.injEq, and_true]
      omega
    · rw [if_neg k] at hv; omega
  rw [if_neg c4] at hv
  by_cases c1 : b0 ≤ 127
  · rw [if_pos c1] at hv
    by_cases hc1 : count < 1
    · rw [if_pos hc1] at hv; omega
    rw [if_neg hc1] at hv
    have hL : L = 1 := by omega
    subst hL
    refine ⟨by omega, b0, by unfold isScalarValue; omega, ?_⟩
    rw [t1 (by omega)]
    unfold utf8Encoding
    rw [if_pos (by omega)]
  · rw [if_neg c1] at hv; omega

end Jsnpg

namespace Jsnpg

open jsnpg_type jsnpg_error_code

/-! ## The parse monad and the input cursor -/

theorem PM_bind_apply {α β : Type} (m : PM α) (f : α → PM β) (p : parser) :
    (m >>= f) p = match m p with
      | Res.ok a p1 => f a p1
      | Res.thrown p1 => Res.thrown p1
      | Res.aborted p1 => Res.aborted p1 := rfl

theorem PM_pure_apply {α : Type} (a : α) (p : parser) : (pure a : PM α) p = Res.ok a p := rfl

theorem on_mis_apply {α : Type} (f : memory_input_stream → α × memory_input_stream)
    (p : parser) : on_mis f p = Res.ok (f p.mis).1 { p with mis := (f p.mis).2 } := rfl

theorem set_mis_apply (f : memory_input_stream → memory_input_stream) (p : parser) :
    set_mis f p = Res.ok () { p with mis := f p.mis } := rfl

theorem get_mis_apply {α : Type} (f : memory_input_stream → α) (p : parser) :
    get_mis f p = Res.ok (f p.mis) p := rfl

theorem mis_peek_eq (mis : memory_input_stream) : mis_peek mis = (ahead mis).headD 0 := by
  unfold mis_peek ahead
  rw [List.getD_eq_getElem?_getD]
  rcases h : mis.start.drop mis.read with _ | ⟨c, t⟩
  · have : mis.start.length ≤ mis.read := by
      have := congrArg List.length h; simp at this; omega
    simp [List.getElem?_eq_none this]
  · have h0 : (mis.start.drop mis.read)[0]? = some c := by rw [h]; simp
    rw [List.getElem?_drop] at h0
    simp at h0
    simp [h0]

theorem ahead_take (mis : memory_input_stream) :
    ahead (mis_take mis).2 = (ahead mis).tail := by
  unfold ahead mis_take
  simp [List.tail_drop]

theorem mis_take_fst (mis : memory_input_stream) : (mis_take mis).1 = (ahead mis).headD 0 :=
  mis_peek_eq mis

/-! ### The cursor as an index into the bytes ahead -/

theorem ahead_advance (p : parser) (k : Nat) : ahead (advance p k).mis = (ahead p.mis).drop k := by
  unfold ahead advance; simp [Nat.add_comm]

theorem advance_zero (p : parser) : advance p 0 = p := rfl

theorem advance_advance (p : parser) (a b : Nat) : advance (advance p a) b = advance p (a + b) := by
  unfold advance; simp [Nat.add_assoc]

theorem peek_advance (p : parser) (k : Nat) :
    mis_peek (advance p k).mis = (ahead p.mis).getD k 0 := by
  rw [mis_peek_eq, ahead_advance]
  rw [List.getD_eq_getElem?_getD, ← List.head?_drop]
  cases (List.drop k (ahead p.mis)) <;> rfl

theorem take_adv (p : parser) (k : Nat) :
    on_mis mis_take (advance p k) = Res.ok ((ahead p.mis).getD k 0) (advance p (k + 1)) := by
  rw [on_mis_apply, ← peek_advance]; rfl

theorem peek_adv (p : parser) (k : Nat) :
    get_mis mis_peek (advance p k) = Res.ok ((ahead p.mis).getD k 0) (advance p k) := by
  rw [get_mis_apply, peek_advance]

theorem consume_adv (p : parser) (k b : Nat) :
    on_mis (fun m => mis_consume m b) (advance p k) =
      if (ahead p.mis).getD k 0 = b then Res.ok true (advance p (k + 1))
      else Res.ok false (advance p k) := by
  rw [on_mis_apply, ← peek_advance]
  unfold mis_consume mis_peek
  by_cases h : (advance p k).mis.start.getD (advance p k).mis.read 0 = b
  · simp only [h, ne_eq, not_true_eq_false, if_false, if_true]; rfl
  · simp only [h, ne_eq, not_false_eq_true, if_true, if_false]

theorem ahead_length (mis : memory_input_stream) :
    (ahead mis).length = mis.start.length - mis.read := by
  unfold ahead; simp

theorem getD_append_left (l r : List Nat) (i : Nat) (h : i < l.length) :
    (l ++ r).getD i 0 = l.getD i 0 := by
  simp [List.getD_eq_getElem?_getD, List.getElem?_append_left h]

theorem getD_append_right (l r : List Nat) (i : Nat) :
    (l ++ r).getD (l.length + i) 0 = r.getD i 0 := by
  simp [List.getD_eq_getElem?_getD, List.getElem?_append_right]

theorem getD_zero_eq_headD (l : List Nat) : l.getD 0 0 = l.headD 0 := by
  cases l <;> rfl

end Jsnpg

namespace Jsnpg

open jsnpg_type jsnpg_error_code

/-! ## parse_number -/

theorem sub_zero_digit (b : Nat) (h : isDigit b) : sub_zero b = b - 0x30 ∧ sub_zero b < 10 := by
  unfold isDigit at h; unfold sub_zero; omega

theorem sub_zero_lt_iff (b : Nat) (hb : b < 256) : sub_zero b < 10 ↔ isDigit b := by
  unfold isDigit sub_zero; omega

theorem ahead_eq_cons (mis : memory_input_stream) (c : Nat) (t : List Nat)
    (h : ahead mis = c :: t) :
    mis_peek mis = c ∧ (mis_take mis).1 = c ∧ ahead (mis_take mis).2 = t ∧
      (mis_take mis).2 = { mis with read := mis.read + 1 } := by
  refine ⟨?_, ?_, ?_, rfl⟩
  · rw [mis_peek_eq, h]; rfl
  · rw [mis_take_fst, h]; rfl
  · rw [ahead_take, h]; rfl

theorem integer_digits_loop_spec (rest : List Nat) (hr : ¬ sub_zero (rest.headD 0) < 10) :
    ∀ (ds : List Nat), (∀ d ∈ ds, isDigit d) →
    ∀ (fuel : Nat) (n : number_scan) (mis : memory_input_stream),
      ahead mis = ds ++ rest → n.c = sub_zero ((ds ++ rest).headD 0) → ds.length < fuel →
      integer_digits_loop fuel n mis =
        ({ sum := (int_accum (n.sum, n.exponent, n.sig_digits) ds).1,
           exponent := (int_accum (n.sum, n.exponent, n.sig_digits) ds).2.1,
           sig_digits := (int_accum (n.sum, n.exponent, n.sig_digits) ds).2.2,
           c := sub_zero (rest.headD 0) },
         { mis with read := mis.read + ds.length }) := by
  intro ds
  induction ds with
  | nil =>
    intro _ fuel n mis _ hc hf
    obtain ⟨k, rfl⟩ : ∃ k, fuel = k + 1 := ⟨fuel - 1, by simp at hf; omega⟩
    simp only [List.nil_append] at hc
    rw [integer_digits_loop, if_neg (by rw [hc]; exact hr)]
    cases n
    simp only [int_accum, List.length_nil, Nat.add_zero] at hc ⊢
    rw [hc]
  | cons d ds ih =>
    intro hds fuel n mis ha hc hf
    obtain ⟨k, rfl⟩ : ∃ k, fuel = k + 1 := ⟨fuel - 1, by simp at hf; omega⟩
    have hd := sub_zero_digit d (hds d (List.mem_cons_self _ _))
    simp only [List.cons_append, List.headD_cons] at hc
    obtain ⟨_, _, hat, hmt⟩ := ahead_eq_cons mis d (ds ++ rest) ha
    rw [integer_digits_loop, if_pos (by rw [hc]; exact hd.2)]
    simp only []
    rw [ih (fun x hx => hds x (List.mem_cons_of_mem _ hx)) k _ _ hat
      (by simp only []; rw [mis_peek_eq, hat]) (by simp at hf; omega)]
    rw [hmt, hc, hd.1]
    simp only [List.length_cons, max_sig_digits]
    by_cases hs : n.sig_digits < 19
    · simp only [hs, if_true, int_accum]
      refine Prod.ext ?_ ?_ <;> simp <;> omega
    · simp only [hs, if_false, int_accum]
      refine Prod.ext ?_ ?_ <;> simp <;> omega

theorem decimal_foldl (ds : List Nat) (acc : Nat) :
    List.foldl (fun acc d => acc * 10 + (d - 0x30)) acc ds =
      acc * 10 ^ ds.length + decimalValue ds := by
  unfold decimalValue
  induction ds generalizing acc with
  | nil => simp
  | cons d ds ih =>
    simp only [List.foldl_cons, List.length_cons]
    rw [ih, ih (0 * 10 + (d - 48))]
    ring

theorem decimalValue_cons (d : Nat) (ds : List Nat) :
    decimalValue (d :: ds) = (d - 0x30) * 10 ^ ds.length + decimalValue ds := by
  conv_lhs => unfold decimalValue
  rw [List.foldl_cons, decimal_foldl]
  simp

theorem decimalValue_lt (ds : List Nat) (h : ∀ d ∈ ds, isDigit d) :
    decimalValue ds < 10 ^ ds.length := by
  induction ds with
  | nil => simp [decimalValue]
  | cons d ds ih =>
    rw [decimalValue_cons, List.length_cons, pow_succ]
    have hd := h d (List.mem_cons_self _ _)
    have := ih (fun x hx => h x (List.mem_cons_of_mem _ hx))
    unfold isDigit at hd
    have h9 : d - 0x30 ≤ 9 := by omega
    nlinarith [Nat.mul_le_mul_right (10 ^ ds.length) h9]

theorem int_accum_sig (ds : List Nat) : ∀ (sum : Nat) (e sd : Int),
    (int_accum (sum, e, sd) ds).2.2 = sd + ds.length := by
  induction ds with
  | nil => intro sum e sd; simp [int_accum]
  | cons d ds ih =>
    intro sum e sd
    rw [int_accum]
    by_cases hs : sd < 19
    · rw [if_pos hs, ih]; simp; omega
    · rw [if_neg hs, ih]; simp; omega

theorem int_accum_exact (ds : List Nat) (hds : ∀ d ∈ ds, isDigit d) :
    ∀ (sum : Nat) (e : Int) (k : Nat), k + ds.length ≤ 19 → sum < 10 ^ k →
    int_accum (sum, e, (k : Int)) ds =
      (sum * 10 ^ ds.length + decimalValue ds, e, ((k + ds.length : Nat) : Int)) := by
  induction ds with
  | nil => intro sum e k _ _; simp [int_accum, decimalValue]
  | cons d ds ih =>
    intro sum e k hk hsum
    have hd := hds d (List.mem_cons_self _ _)
    unfold isDigit at hd
    simp only [List.length_cons] at hk
    rw [int_accum, if_pos (by omega)]
    have hlt : sum * 10 + (d - 0x30) < 10 ^ (k + 1) := by
      rw [pow_succ]; omega
    have h19 : (10 : Nat) ^ (k + 1) ≤ 10 ^ 19 := Nat.pow_le_pow_right (by norm_num) (by omega)
    have hmod : (sum * 10 + (d - 0x30)) % 2 ^ 64 = sum * 10 + (d - 0x30) :=
      Nat.mod_eq_of_lt (by
        have : (10 : Nat) ^ 19 < 2 ^ 64 := by norm_num
        omega)
    rw [hmod]
    have e1 : ((k : Int) + 1) = ((k + 1 : Nat) : Int) := by push_cast; ring
    rw [e1, ih (fun x hx => hds x (List.mem_cons_of_mem _ hx)) _ e (k + 1) (by omega) hlt]
    rw [decimalValue_cons, List.length_cons]
    refine Prod.ext ?_ (Prod.ext rfl ?_)
    · simp only []; ring
    · simp only []; push_cast; ring

theorem parse_number_first_ok (p : parser) (neg : Bool) (d : Nat) (t : List Nat)
    (hd : isDigit d) (ha : ahead p.mis = (if neg then [0x2D] else []) ++ d :: t) :
    parse_number_first p =
      Res.ok (neg, { sum := d - 0x30, exponent := 0,
                     sig_digits := if d - 0x30 ≠ 0 then 1 else 0, c := d - 0x30 })
        (advance p (if neg then 2 else 1)) := by
  have hz := sub_zero_digit d hd
  have hlt : d - 0x30 < 10 := by omega
  have hne : d ≠ 0x2D := by unfold isDigit at hd; omega
  unfold parse_number_first
  rw [← advance_zero p]
  cases neg
  · simp only [Bool.false_eq_true, if_false, List.nil_append] at ha ⊢
    simp only [PM_bind_apply, take_adv, PM_pure_apply, ha, List.getD_cons_zero, hne, if_false,
      hz.1, hlt, if_true, decide_False, advance_advance]
  · simp only [if_true, List.singleton_append] at ha ⊢
    simp only [PM_bind_apply, take_adv, PM_pure_apply, ha, List.getD_cons_zero,
      List.getD_cons_succ, if_true, hz.1, hlt, decide_True, advance_advance]

/-- Running a digit loop from the parser advanced by `k`, when the bytes
ahead of `p` are `pre ++ ds ++ rest` and `pre` has length `k`. -/
theorem getD_append_length (l r : List Nat) : (l ++ r).getD l.length 0 = r.headD 0 := by
  have := getD_append_right l r 0
  rw [Nat.add_zero] at this
  rw [this, getD_zero_eq_headD]

theorem loop_fuel_ok (p : parser) (k : Nat) (pre mid : List Nat) (hk : pre.length = k)
    (hpos : 0 < k) (ha : ahead p.mis = pre ++ mid) :
    ahead (advance p k).mis = mid ∧
      mid.length < (advance p k).mis.start.length + 1 - (advance p k).mis.read := by
  have h1 : ahead (advance p k).mis = mid := by
    rw [ahead_advance, ha, ← hk]; simp
  refine ⟨h1, ?_⟩
  have h2 := ahead_length (advance p k).mis
  rw [h1] at h2
  have h3 := ahead_length p.mis
  rw [ha] at h3
  simp only [List.length_append] at h3
  have h4 : (advance p k).mis.read = p.mis.read + k := rfl
  have h5 : (advance p k).mis.start = p.mis.start := rfl
  rw [h4, h5] at h2 ⊢
  omega

theorem parse_number_integer_part_ok (p : parser) (k : Nat) (n : number_scan)
    (pre ds rest : List Nat) (hk : pre.length = k) (hpos : 0 < k)
    (ha : ahead p.mis = pre ++ (ds ++ rest))
    (hds : ∀ d ∈ ds, isDigit d) (hr : ¬ sub_zero (rest.headD 0) < 10) (hsum : n.sum ≠ 0) :
    parse_number_integer_part n (advance p k) =
      Res.ok { sum := (int_accum (n.sum, n.exponent, n.sig_digits) ds).1,
               exponent := (int_accum (n.sum, n.exponent, n.sig_digits) ds).2.1,
               sig_digits := (int_accum (n.sum, n.exponent, n.sig_digits) ds).2.2,
               c := sub_zero (rest.headD 0) }
        (advance p (k + ds.length)) := by
  obtain ⟨h1, h2⟩ := loop_fuel_ok p k pre (ds ++ rest) hk hpos ha
  have hl : ds.length < (advance p k).mis.start.length + 1 - (advance p k).mis.read := by
    simp only [List.length_append] at h2; omega
  unfold parse_number_integer_part
  simp only [PM_bind_apply, peek_adv, PM_pure_apply, hsum, ne_eq, not_false_eq_true, if_true,
    on_mis_apply]
  rw [integer_digits_loop_spec rest hr ds hds _ _ _ h1
    (by simp only []; rw [ha, ← hk, getD_append_length]) hl]
  simp only [advance, Nat.add_assoc]

theorem parse_number_integer_part_zero (p : parser) (k : Nat) (n : number_scan)
    (hsum : n.sum = 0) :
    parse_number_integer_part n (advance p k) =
      Res.ok { n with c := sub_zero ((ahead p.mis).getD k 0) } (advance p k) := by
  unfold parse_number_integer_part
  simp only [PM_bind_apply, peek_adv, PM_pure_apply, hsum, ne_eq, not_true_eq_false, if_false]

theorem fraction_digits_loop_spec (rest : List Nat) (hr : ¬ sub_zero (rest.headD 0) < 10) :
    ∀ (ds : List Nat), (∀ x ∈ ds, isDigit x) →
    ∀ (d fuel : Nat) (n : number_scan) (mis : memory_input_stream),
      isDigit d → ahead mis = d :: ds ++ rest → ds.length + 1 ≤ fuel →
      ∃ s e sd, fraction_digits_loop fuel n mis =
        ({ sum := s, exponent := e, sig_digits := sd, c := sub_zero (rest.headD 0) },
         { mis with read := mis.read + (ds.length + 1) }) := by
  intro ds
  induction ds with
  | nil =>
    intro _ d fuel n mis _ ha hf
    obtain ⟨k, rfl⟩ : ∃ k, fuel = k + 1 := ⟨fuel - 1, by omega⟩
    simp only [List.cons_append, List.nil_append] at ha
    obtain ⟨_, _, hat, hmt⟩ := ahead_eq_cons mis d rest ha
    rw [fraction_digits_loop]
    simp only []
    rw [mis_peek_eq, hat, if_neg hr, hmt]
    exact ⟨_, _, _, rfl⟩
  | cons d2 ds ih =>
    intro hds d fuel n mis _ ha hf
    obtain ⟨k, rfl⟩ : ∃ k, fuel = k + 1 := ⟨fuel - 1, by omega⟩
    simp only [List.cons_append] at ha
    obtain ⟨_, _, hat, hmt⟩ := ahead_eq_cons mis d (d2 :: (ds ++ rest)) ha
    have hd2 := hds d2 (List.mem_cons_self _ _)
    rw [fraction_digits_loop]
    simp only []
    rw [mis_peek_eq, hat]
    simp only [List.headD_cons]
    rw [if_pos (sub_zero_digit d2 hd2).2]
    obtain ⟨s, e, sd, h⟩ := ih (fun x hx => hds x (List.mem_cons_of_mem _ hx)) d2 k
      (if n.sig_digits < max_sig_digits then
        { sum := (10 * n.sum + n.c) % 2 ^ 64, exponent := n.exponent - 1,
          sig_digits := n.sig_digits + (if (10 * n.sum + n.c) % 2 ^ 64 ≠ 0 then 1 else 0),
          c := sub_zero d2 }
       else { n with c := sub_zero d2 }) (mis_take mis).2 hd2 (by rw [hat]; rfl)
      (by simp only [List.length_cons] at hf; omega)
    refine ⟨s, e, sd, ?_⟩
    have hn : (let n1 : number_scan := if n.sig_digits < max_sig_digits then
          { sum := (10 * n.sum + n.c) % 2 ^ 64, exponent := n.exponent - 1,
            sig_digits := n.sig_digits + (if (10 * n.sum + n.c) % 2 ^ 64 ≠ 0 then 1 else 0),
            c := n.c }
        else n
        ({ n1 with c := sub_zero d2 } : number_scan)) =
        (if n.sig_digits < max_sig_digits then
        { sum := (10 * n.sum + n.c) % 2 ^ 64, exponent := n.exponent - 1,
          sig_digits := n.sig_digits + (if (10 * n.sum + n.c) % 2 ^ 64 ≠ 0 then 1 else 0),
          c := sub_zero d2 }
       else { n with c := sub_zero d2 }) := by
      simp only []
      split <;> rfl
    simp only [] at hn
    rw [hn, h, hmt]
    simp only [List.length_cons, Nat.add_assoc, Nat.add_comm 1]


theorem exponent_digits_loop_spec (rest : List Nat) (hr : ¬ sub_zero (rest.headD 0) < 10) :
    ∀ (ds : List Nat), (∀ x ∈ ds, isDigit x) →
    ∀ (d fuel e0 : Nat) (mis : memory_input_stream),
      isDigit d → ahead mis = d :: (ds ++ rest) → ds.length + 1 ≤ fuel →
      e0 * 10 ^ (ds.length + 1) + decimalValue (d :: ds) ≤ 1000 →
      exponent_digits_loop fuel (e0 : Int) (sub_zero d) mis =
        (some (((e0 * 10 ^ (ds.length + 1) + decimalValue (d :: ds) : Nat) : Int),
            sub_zero (rest.headD 0)),
         { mis with read := mis.read + (ds.length + 1) }) := by
  intro ds
  induction ds with
  | nil =>
    intro _ d fuel e0 mis hd ha hf hv
    obtain ⟨k, rfl⟩ : ∃ k, fuel = k + 1 := ⟨fuel - 1, by omega⟩
    simp only [List.nil_append] at ha
    obtain ⟨_, _, hat, hmt⟩ := ahead_eq_cons mis d rest ha
    have hz := sub_zero_digit d hd
    have hv1 : decimalValue [d] = d - 0x30 := by simp [decimalValue]
    simp only [hv1, List.length_nil, Nat.zero_add, pow_one] at hv ⊢
    rw [exponent_digits_loop]
    simp only []
    rw [hz.1, if_neg (by omega), mis_peek_eq, hat, if_neg hr, hmt]
    congr 3
    push_cast; ring
  | cons d2 ds ih =>
    intro hds d fuel e0 mis hd ha hf hv
    obtain ⟨k, rfl⟩ : ∃ k, fuel = k + 1 := ⟨fuel - 1, by omega⟩
    simp only [List.cons_append] at ha
    obtain ⟨_, _, hat, hmt⟩ := ahead_eq_cons mis d (d2 :: (ds ++ rest)) ha
    have hd2 := hds d2 (List.mem_cons_self _ _)
    have hz := sub_zero_digit d hd
    have hpos : 0 < 10 ^ (ds.length + 1) := by positivity
    rw [decimalValue_cons] at hv
    simp only [List.length_cons] at hv hf
    have hstep : (e0 * 10 + (d - 0x30)) * 10 ^ (ds.length + 1) + decimalValue (d2 :: ds) =
        e0 * 10 ^ (ds.length + 1 + 1) + ((d - 0x30) * 10 ^ (ds.length + 1) +
          decimalValue (d2 :: ds)) := by
      rw [pow_succ _ (ds.length + 1)]; ring
    have hsmall : e0 * 10 + (d - 0x30) ≤ 1000 := by
      have := Nat.le_mul_of_pos_right (e0 * 10 + (d - 0x30)) hpos
      omega
    rw [exponent_digits_loop]
    simp only []
    rw [hz.1, if_neg (by omega), mis_peek_eq, hat]
    simp only [List.headD_cons]
    rw [if_pos (sub_zero_digit d2 hd2).2]
    have e1 : (10 * (e0 : Int) + ((d - 48 : Nat) : Int)) = ((e0 * 10 + (d - 0x30) : Nat) : Int) := by
      push_cast; ring
    rw [e1, ih (fun x hx => hds x (List.mem_cons_of_mem _ hx)) d2 k _ _ hd2
      (by rw [hat]) (by omega) (by rw [hstep]; exact hv), hmt]
    rw [hstep, decimalValue_cons d (d2 :: ds)]
    simp only [List.length_cons, Nat.add_assoc, Nat.add_comm 1]


theorem parse_number_fraction_absent (n : number_scan) (fd : Bool) (p : parser)
    (h : n.c ≠ sub_zero 0x2E) : parse_number_fraction n fd p = Res.ok (n, fd) p := by
  unfold parse_number_fraction
  simp only [h, if_false, PM_pure_apply]

theorem parse_number_exponent_absent (n : number_scan) (fd : Bool) (p : parser)
    (h : ¬ (n.c = sub_zero 0x65 ∨ n.c = sub_zero 0x45)) :
    parse_number_exponent n fd p = Res.ok (n, fd) p := by
  unfold parse_number_exponent
  simp only [h, if_false, PM_pure_apply]

theorem parse_number_fraction_present (p : parser) (k : Nat) (n : number_scan) (fd : Bool)
    (pre ds rest : List Nat) (d : Nat) (hk : pre.length = k)
    (ha : ahead p.mis = pre ++ (0x2E :: d :: (ds ++ rest)))
    (hd : isDigit d) (hds : ∀ x ∈ ds, isDigit x) (hr : ¬ sub_zero (rest.headD 0) < 10)
    (hc : n.c = sub_zero 0x2E) :
    ∃ s e sd, parse_number_fraction n fd (advance p k) =
      Res.ok ({ sum := s, exponent := e, sig_digits := sd, c := sub_zero (rest.headD 0) }, true)
        (advance p (k + (ds.length + 2))) := by
  have ha1 : ahead p.mis = (pre ++ [0x2E]) ++ (d :: (ds ++ rest)) := by rw [ha]; simp
  obtain ⟨h1, h2⟩ := loop_fuel_ok p (k + 1) (pre ++ [0x2E]) (d :: (ds ++ rest))
    (by simp [hk]) (by omega) ha1
  have hz := sub_zero_digit d hd
  have g0 : (ahead p.mis).getD k 0 = 0x2E := by
    rw [ha, ← hk, getD_append_length]; rfl
  have g1 : (ahead p.mis).getD (k + 1) 0 = d := by
    rw [ha1, show k + 1 = (pre ++ [0x2E]).length by simp [hk], getD_append_length]; rfl
  obtain ⟨s, e, sd, hl⟩ := fraction_digits_loop_spec rest hr ds hds d
    ((advance p (k + 1)).mis.start.length + 1 - (advance p (k + 1)).mis.read)
    { n with c := sub_zero d } (advance p (k + 1)).mis hd (by rw [h1]; rfl)
    (by simp only [List.length_cons, List.length_append] at h2; omega)
  refine ⟨s, e, sd, ?_⟩
  unfold parse_number_fraction
  simp only [hc, if_true, PM_bind_apply, take_adv, peek_adv, PM_pure_apply, g1, ge_iff_le]
  rw [if_neg (by omega)]
  simp only [PM_bind_apply, on_mis_apply, hl, PM_pure_apply]
  show Res.ok _ (advance (advance p (k + 1)) (ds.length + 1)) = _
  rw [advance_advance, show k + 1 + (ds.length + 1) = k + (ds.length + 2) by omega]

theorem parse_number_exponent_unsigned (p : parser) (k : Nat) (n : number_scan) (fd : Bool)
    (pre ds rest : List Nat) (m d : Nat) (hk : pre.length = k)
    (ha : ahead p.mis = pre ++ (m :: d :: (ds ++ rest)))
    (hd : isDigit d) (hds : ∀ x ∈ ds, isDigit x) (hr : ¬ sub_zero (rest.headD 0) < 10)
    (hc : n.c = sub_zero 0x65 ∨ n.c = sub_zero 0x45) (hv : decimalValue (d :: ds) ≤ 1000) :
    ∃ e, parse_number_exponent n fd (advance p k) =
      Res.ok ({ n with exponent := e, c := sub_zero (rest.headD 0) }, true)
        (advance p (k + (1 + (ds.length + 1)))) := by
  have ha1 : ahead p.mis = (pre ++ [m]) ++ (d :: (ds ++ rest)) := by rw [ha]; simp
  obtain ⟨h1, h2⟩ := loop_fuel_ok p (k + 1) (pre ++ [m]) (d :: (ds ++ rest))
    (by simp [hk]) (by omega) ha1
  have hz := sub_zero_digit d hd
  have hne : d ≠ 0x2D ∧ d ≠ 0x2B := by unfold isDigit at hd; omega
  have hl := exponent_digits_loop_spec rest hr ds hds d
    ((advance p (k + 1)).mis.start.length + 1 - (advance p (k + 1)).mis.read)
    0 (advance p (k + 1)).mis hd h1
    (by simp only [List.length_cons, List.length_append] at h2; omega)
    (by rw [Nat.zero_mul, Nat.zero_add]; exact hv)
  rw [Nat.zero_mul, Nat.zero_add, show ((0 : Nat) : Int) = 0 from rfl] at hl
  have gd : (ahead p.mis).getD (k + 1) 0 = d := by
    rw [ha1, show k + 1 = (pre ++ [m]).length by simp [hk], getD_append_length]; rfl
  unfold parse_number_exponent
  simp only [hc, if_true, PM_bind_apply, take_adv, peek_adv, PM_pure_apply,
    gd, hne.1, hne.2, or_self, if_false, ge_iff_le]
  rw [if_neg (by omega)]
  simp only [PM_bind_apply, on_mis_apply, hl, PM_pure_apply]
  refine ⟨_, congrArg (Res.ok _) ?_⟩
  show advance (advance p (k + 1)) (ds.length + 1) = _
  rw [advance_advance, Nat.add_assoc]

theorem parse_number_exponent_signed (p : parser) (k : Nat) (n : number_scan) (fd : Bool)
    (pre ds rest : List Nat) (m sg d : Nat) (hk : pre.length = k)
    (ha : ahead p.mis = pre ++ (m :: sg :: d :: (ds ++ rest)))
    (hsg : sg = 0x2B ∨ sg = 0x2D)
    (hd : isDigit d) (hds : ∀ x ∈ ds, isDigit x) (hr : ¬ sub_zero (rest.headD 0) < 10)
    (hc : n.c = sub_zero 0x65 ∨ n.c = sub_zero 0x45) (hv : decimalValue (d :: ds) ≤ 1000) :
    ∃ e, parse_number_exponent n fd (advance p k) =
      Res.ok ({ n with exponent := e, c := sub_zero (rest.headD 0) }, true)
        (advance p (k + (2 + (ds.length + 1)))) := by
  have ha1 : ahead p.mis = (pre ++ [m, sg]) ++ (d :: (ds ++ rest)) := by rw [ha]; simp
  have ha2 : ahead p.mis = (pre ++ [m]) ++ (sg :: d :: (ds ++ rest)) := by rw [ha]; simp
  obtain ⟨h1, h2⟩ := loop_fuel_ok p (k + 2) (pre ++ [m, sg]) (d :: (ds ++ rest))
    (by simp [hk]) (by omega) ha1
  have hz := sub_zero_digit d hd
  have hl := exponent_digits_loop_spec rest hr ds hds d
    ((advance p (k + 2)).mis.start.length + 1 - (advance p (k + 2)).mis.read)
    0 (advance p (k + 2)).mis hd h1
    (by simp only [List.length_cons, List.length_append] at h2; omega)
    (by rw [Nat.zero_mul, Nat.zero_add]; exact hv)
  rw [Nat.zero_mul, Nat.zero_add, show ((0 : Nat) : Int) = 0 from rfl] at hl
  have gs : (ahead p.mis).getD (k + 1) 0 = sg := by
    rw [ha2, show k + 1 = (pre ++ [m]).length by simp [hk], getD_append_length]; rfl
  have gd : (ahead p.mis).getD (k + 1 + 1) 0 = d := by
    rw [ha1, show k + 1 + 1 = (pre ++ [m, sg]).length by simp [hk], getD_append_length]; rfl
  have hsg' : sg = 45 ∨ sg = 43 := by omega
  unfold parse_number_exponent
  simp only [hc, if_true, PM_bind_apply, take_adv, peek_adv, PM_pure_apply,
    gs, hsg', gd, ge_iff_le]
  rw [if_neg (by omega)]
  simp only [PM_bind_apply, on_mis_apply, hl, PM_pure_apply]
  refine ⟨_, congrArg (Res.ok _) ?_⟩
  show advance (advance p (k + 2)) (ds.length + 1) = _
  rw [advance_advance, Nat.add_assoc]

theorem parse_number_exponent_present (p : parser) (k : Nat) (n : number_scan) (fd : Bool)
    (pre ms ds rest : List Nat) (d : Nat) (hk : pre.length = k) (hms : isExponentMark ms)
    (ha : ahead p.mis = pre ++ (ms ++ d :: (ds ++ rest)))
    (hd : isDigit d) (hds : ∀ x ∈ ds, isDigit x) (hr : ¬ sub_zero (rest.headD 0) < 10)
    (hc : n.c = sub_zero (ms.headD 0)) (hv : decimalValue (d :: ds) ≤ 1000) :
    ∃ e, parse_number_exponent n fd (advance p k) =
      Res.ok ({ n with exponent := e, c := sub_zero (rest.headD 0) }, true)
        (advance p (k + (ms.length + (ds.length + 1)))) := by
  rcases hms with h | h | h | h | h | h <;> subst h
  · exact parse_number_exponent_unsigned p k n fd pre ds rest _ d hk ha hd hds hr (Or.inl hc) hv
  · exact parse_number_exponent_unsigned p k n fd pre ds rest _ d hk ha hd hds hr (Or.inr hc) hv
  · exact parse_number_exponent_signed p k n fd pre ds rest _ _ d hk ha (Or.inl rfl) hd hds hr
      (Or.inl hc) hv
  · exact parse_number_exponent_signed p k n fd pre ds rest _ _ d hk ha (Or.inl rfl) hd hds hr
      (Or.inr hc) hv
  · exact parse_number_exponent_signed p k n fd pre ds rest _ _ d hk ha (Or.inr rfl) hd hds hr
      (Or.inl hc) hv
  · exact parse_number_exponent_signed p k n fd pre ds rest _ _ d hk ha (Or.inr rfl) hd hds hr
      (Or.inr hc) hv


theorem to_long_neg (s : Nat) (h : s ≤ 2 ^ 63) : to_long (2 ^ 64 - s) = -(s : Int) := by
  unfold to_long
  by_cases h0 : s = 0
  · subst h0; simp
  · have h1 : (2 ^ 64 - s) % 2 ^ 64 = 2 ^ 64 - s := Nat.mod_eq_of_lt (by omega)
    rw [h1, if_neg (by omega)]
    omega

theorem to_long_pos (s : Nat) (h : s ≤ 2 ^ 63 - 1) : to_long s = (s : Int) := by
  unfold to_long
  have h1 : s % 2 ^ 64 = s := Nat.mod_eq_of_lt (by omega)
  rw [h1, if_pos (by omega)]

theorem parse_number_finish_integer (fp : FloatPrims) (sp : Nat) (neg : Bool) (n : number_scan)
    (p : parser) (hs : n.sig_digits ≤ 19)
    (hr : if neg then n.sum ≤ 2 ^ 63 else n.sum ≤ 2 ^ 63 - 1) :
    parse_number_finish fp sp neg n false p =
      Res.ok (JSNPG_INTEGER,
        result_union.integer (if neg then -(n.sum : Int) else (n.sum : Int))) p := by
  unfold parse_number_finish
  cases neg
  · simp only [Bool.false_eq_true, if_false] at hr ⊢
    have h1 : ¬ n.sig_digits > max_sig_digits := by unfold max_sig_digits; omega
    have h2 : ¬ n.sum > LONG_MAX := by unfold LONG_MAX; omega
    simp only [h1, h2, decide_False, Bool.or_self, Bool.false_eq_true, if_false, PM_pure_apply,
      to_long_pos n.sum hr]
  · simp only [if_true] at hr ⊢
    have h1 : ¬ n.sig_digits > max_sig_digits := by unfold max_sig_digits; omega
    have h2 : ¬ n.sum > 1 + LONG_MAX := by unfold LONG_MAX; omega
    simp only [h1, h2, decide_False, Bool.or_self, Bool.false_eq_true, if_false, PM_pure_apply,
      to_long_neg n.sum hr]

theorem parse_number_finish_real (fp : FloatPrims) (sp : Nat) (neg : Bool) (n : number_scan)
    (fd : Bool) (p : parser)
    (h : fd = true ∨ n.sig_digits > 19 ∨ (if neg then n.sum > 2 ^ 63 else n.sum > 2 ^ 63 - 1)) :
    parse_number_finish fp sp neg n fd p = parse_number_real fp sp neg n p := by
  unfold parse_number_finish
  have hf : (fd || decide (n.sig_digits > max_sig_digits) ||
      (if neg then decide (n.sum > 1 + LONG_MAX) else decide (n.sum > LONG_MAX))) = true := by
    rcases h with h | h | h
    · simp [h]
    · have : n.sig_digits > max_sig_digits := h
      simp [this]
    · cases neg
      · simp only [Bool.false_eq_true, if_false] at h ⊢
        have : n.sum > LONG_MAX := by unfold LONG_MAX; omega
        simp [this]
      · simp only [if_true] at h ⊢
        have : n.sum > 1 + LONG_MAX := by unfold LONG_MAX; omega
        simp [this]
  simp only [hf, if_true]

/-- What the conversion to `double` can yield: a real, or the error `number`
when the fast path and `parse_float_strtod` both refuse. -/
theorem parse_number_real_cases (fp : FloatPrims) (sp : Nat) (neg : Bool) (n : number_scan)
    (p : parser) :
    (∃ d p1, parse_number_real fp sp neg n p = Res.ok (JSNPG_REAL, result_union.real d) p1) ∨
    (parse_number_real fp sp neg n p =
        Res.thrown { p with result := make_error_return JSNPG_ERROR_NUMBER (parse_position p) } ∧
      fp.parse_float_strtod (p.mis.start.drop sp) = none) := by
  unfold parse_number_real
  rcases hfast : (if n.exponent ≥ fp.FASTFLOAT_SMALLEST_POWER ∨
      n.exponent ≤ fp.FASTFLOAT_LARGEST_POWER then fp.compute_float_64 n.exponent n.sum neg
      else none) with _ | d
  · rcases hs : fp.parse_float_strtod (p.mis.start.drop sp) with _ | ⟨d, len⟩
    · right
      simp only [PM_bind_apply, get_mis_apply, hs]
      exact ⟨rfl, trivial⟩
    · left
      simp only [PM_bind_apply, get_mis_apply, hs, set_mis_apply, PM_pure_apply]
      exact ⟨_, _, rfl⟩
  · left
    simp only [PM_pure_apply]
    exact ⟨_, _, rfl⟩


theorem sign_length (neg : Bool) :
    (if neg then [0x2D] else ([] : List Nat)).length = if neg then 1 else 0 := by
  cases neg <;> rfl

theorem parse_number_scan_integer (p : parser) (neg : Bool) (ip tail : List Nat)
    (hip : isIntegerPart ip) (ht : ¬ sub_zero (tail.headD 0) < 10)
    (ha : ahead p.mis = (if neg then [0x2D] else []) ++ (ip ++ tail)) :
    ∃ n0 n1,
      parse_number_first p = Res.ok (neg, n0) (advance p ((if neg then 1 else 0) + 1)) ∧
      parse_number_integer_part n0 (advance p ((if neg then 1 else 0) + 1)) =
        Res.ok n1 (advance p ((if neg then 1 else 0) + ip.length)) ∧
      n1.c = sub_zero (tail.headD 0) ∧
      (19 < ip.length → n1.sig_digits > 19) ∧
      (ip.length ≤ 19 → n1.sig_digits ≤ 19 ∧ n1.sum = decimalValue ip) := by
  have hpos : ∀ neg : Bool, (if neg then 2 else 1) = (if neg then 1 else 0) + 1 := by
    intro b; cases b <;> rfl
  rcases hip with h0 | ⟨d, t, hdt, hd1, hd9, ht9⟩
  · subst h0
    have hd : isDigit 0x30 := by unfold isDigit; omega
    have h1 := parse_number_first_ok p neg 0x30 tail hd (by rw [ha]; simp)
    rw [hpos] at h1
    refine ⟨_, _, h1, parse_number_integer_part_zero p _ _ rfl, ?_, ?_, ?_⟩
    · simp only []
      rw [ha, ← sign_length neg, getD_append_right]
      simp only [List.singleton_append, List.getD_cons_succ, getD_zero_eq_headD]
    · intro h; simp at h
    · intro _; simp [decimalValue]
  · subst hdt
    have hd : isDigit d := by unfold isDigit; omega
    have h1 := parse_number_first_ok p neg d (t ++ tail) hd (by rw [ha]; simp)
    rw [hpos] at h1
    have hne : d - 0x30 ≠ 0 := by omega
    have h2 := parse_number_integer_part_ok p ((if neg then 1 else 0) + 1)
      { sum := d - 0x30, exponent := 0, sig_digits := if d - 0x30 ≠ 0 then 1 else 0,
        c := d - 0x30 }
      ((if neg then [0x2D] else []) ++ [d]) t tail (by simp [sign_length]) (by omega)
      (by rw [ha]; simp) ht9 ht hne
    simp only [List.length_cons]
    rw [show (if neg then 1 else 0) + (t.length + 1) = (if neg then 1 else 0) + 1 + t.length by
      omega]
    refine ⟨_, _, h1, h2, rfl, ?_, ?_⟩
    · intro h
      simp only [hne, ne_eq, not_false_eq_true, if_true]
      rw [int_accum_sig]; omega
    · intro h
      simp only [hne, ne_eq, not_false_eq_true, if_true]
      rw [show (1 : Int) = ((1 : Nat) : Int) from rfl,
        int_accum_exact t ht9 (d - 0x30) 0 1 (by omega) (by omega)]
      simp only []
      rw [decimalValue_cons]
      omega


theorem decimalValue_ge (d : Nat) (t : List Nat) (hd : 0x31 ≤ d) :
    10 ^ t.length ≤ decimalValue (d :: t) := by
  rw [decimalValue_cons]
  have : 1 ≤ d - 0x30 := by omega
  nlinarith [Nat.mul_le_mul_right (10 ^ t.length) this]

theorem integer_part_length (ip : List Nat) (hip : isIntegerPart ip)
    (h : decimalValue ip ≤ 2 ^ 63) : ip.length ≤ 19 := by
  rcases hip with h0 | ⟨d, t, hdt, hd1, _, _⟩
  · subst h0; simp
  · subst hdt
    have h1 := decimalValue_ge d t hd1
    by_contra hc
    simp only [List.length_cons, not_le] at hc
    have h2 : (10 : Nat) ^ 19 ≤ 10 ^ t.length := Nat.pow_le_pow_right (by norm_num) (by omega)
    have h3 : (2 : Nat) ^ 63 < 10 ^ 19 := by norm_num
    omega

theorem sub_zero_ne (b c : Nat) (hb : b < 256) (hc : c < 256) (h : b ≠ c) :
    sub_zero b ≠ sub_zero c := by
  unfold sub_zero; omega

/-- A numeral with neither fraction nor exponent whose value fits a `long`. -/
theorem parse_number_integer_ok (fp : FloatPrims) (p : parser) (neg : Bool)
    (ip rest : List Nat) (hip : isIntegerPart ip) (hb : rest.headD 0 < 256)
    (hend : endsInteger (rest.headD 0))
    (ha : ahead p.mis = (if neg then [0x2D] else []) ++ (ip ++ rest))
    (hrange : if neg then decimalValue ip ≤ 2 ^ 63 else decimalValue ip ≤ 2 ^ 63 - 1) :
    parse_number fp p =
      Res.ok (JSNPG_INTEGER, result_union.integer
          (if neg then -(decimalValue ip : Int) else (decimalValue ip : Int)))
        (advance p ((if neg then 1 else 0) + ip.length)) := by
  obtain ⟨hnd, h2e, h65, h45⟩ := hend
  have ht : ¬ sub_zero (rest.headD 0) < 10 := by rwa [sub_zero_lt_iff _ hb]
  obtain ⟨n0, n1, e1, e2, hc, _, hsmall⟩ := parse_number_scan_integer p neg ip rest hip ht ha
  have hlen : ip.length ≤ 19 := integer_part_length ip hip (by cases neg <;> simp at hrange <;> omega)
  obtain ⟨hsig, hsum⟩ := hsmall hlen
  have f1 : n1.c ≠ sub_zero 0x2E := by rw [hc]; exact sub_zero_ne _ _ hb (by norm_num) h2e
  have f2 : ¬ (n1.c = sub_zero 0x65 ∨ n1.c = sub_zero 0x45) := by
    rw [hc]; rintro (h | h)
    · exact sub_zero_ne _ _ hb (by norm_num) h65 h
    · exact sub_zero_ne _ _ hb (by norm_num) h45 h
  unfold parse_number
  simp only [PM_bind_apply, get_mis_apply, e1, e2, parse_number_fraction_absent n1 false _ f1,
    parse_number_exponent_absent n1 false _ f2]
  rw [parse_number_finish_integer fp _ neg n1 _ hsig (by rw [hsum]; exact hrange), hsum]


theorem exponent_mark_head (ms : List Nat) (h : isExponentMark ms) :
    (ms.headD 0 = 0x65 ∨ ms.headD 0 = 0x45) ∧ ∀ l : List Nat, (ms ++ l).headD 0 = ms.headD 0 := by
  rcases h with h | h | h | h | h | h <;> subst h <;> simp

/-- A grammatical numeral that has a fraction or an exponent (of digit value
at most 1000), or whose integer value is outside the range of `long`: the
scan reaches the conversion to `double` at the end of the numeral. -/
theorem parse_number_reaches_real (fp : FloatPrims) (p : parser) (neg : Bool)
    (ip : List Nat) (frac : Option (List Nat)) (exp : Option (List Nat × List Nat))
    (rest : List Nat) (hnum : isNumeral ip frac exp) (hb : rest.headD 0 < 256)
    (hnd : ¬ isDigit (rest.headD 0))
    (hne : exp = none → rest.headD 0 ≠ 0x65 ∧ rest.headD 0 ≠ 0x45)
    (hnf : frac = none → exp = none → rest.headD 0 ≠ 0x2E)
    (ha : ahead p.mis = numeralText neg ip frac exp ++ rest)
    (hexp : exponentDigitsValue exp ≤ 1000)
    (hreal : frac ≠ none ∨ exp ≠ none ∨
      (if neg then decimalValue ip > 2 ^ 63 else decimalValue ip > 2 ^ 63 - 1)) :
    ∃ n, parse_number fp p =
      parse_number_real fp p.mis.read neg n
        (advance p (numeralText neg ip frac exp).length) := by
  obtain ⟨hip, hfrac, hexpg⟩ := hnum
  have ht : ¬ sub_zero (rest.headD 0) < 10 := by rwa [sub_zero_lt_iff _ hb]
  have hsl := sign_length neg
  rcases frac with _ | fds <;> rcases exp with _ | ⟨ms, eds⟩
  · -- neither fraction nor exponent: the value is out of range
    have hr : if neg then decimalValue ip > 2 ^ 63 else decimalValue ip > 2 ^ 63 - 1 := by
      rcases hreal with h | h | h
      · exact absurd rfl h
      · exact absurd rfl h
      · exact h
    simp only [numeralText, List.append_nil] at ha ⊢
    rw [List.append_assoc] at ha
    obtain ⟨n0, n1, e1, e2, hc, hbig, hsmall⟩ :=
      parse_number_scan_integer p neg ip rest hip ht ha
    have f1 : n1.c ≠ sub_zero 0x2E := by
      rw [hc]; exact sub_zero_ne _ _ hb (by norm_num) (hnf rfl rfl)
    have f2 : ¬ (n1.c = sub_zero 0x65 ∨ n1.c = sub_zero 0x45) := by
      rw [hc]; rintro (h | h)
      · exact sub_zero_ne _ _ hb (by norm_num) (hne rfl).1 h
      · exact sub_zero_ne _ _ hb (by norm_num) (hne rfl).2 h
    refine ⟨n1, ?_⟩
    unfold parse_number
    simp only [PM_bind_apply, get_mis_apply, e1, e2, parse_number_fraction_absent n1 false _ f1,
      parse_number_exponent_absent n1 false _ f2, List.length_append, hsl, mis_tell]
    apply parse_number_finish_real
    by_cases hl : ip.length ≤ 19
    · right; right
      rw [(hsmall hl).2]; exact hr
    · right; left
      exact hbig (by omega)
  · -- exponent only
    obtain ⟨hms, hne0, hed⟩ := hexpg ms eds rfl
    obtain ⟨d, ds, rfl⟩ : ∃ d ds, eds = d :: ds := by
      cases eds with
      | nil => exact absurd rfl hne0
      | cons d ds => exact ⟨d, ds, rfl⟩
    obtain ⟨hmh, hmt⟩ := exponent_mark_head ms hms
    simp only [numeralText, List.append_nil] at ha ⊢
    have ha' : ahead p.mis = (if neg then [0x2D] else []) ++ (ip ++ (ms ++ d :: (ds ++ rest))) := by
      rw [ha]; simp
    have hth : ¬ sub_zero ((ms ++ d :: (ds ++ rest)).headD 0) < 10 := by
      rw [hmt]; rcases hmh with h | h <;> rw [h] <;> decide
    obtain ⟨n0, n1, e1, e2, hc, _, _⟩ :=
      parse_number_scan_integer p neg ip _ hip hth ha'
    rw [hmt] at hc
    have f1 : n1.c ≠ sub_zero 0x2E := by
      rw [hc]; rcases hmh with h | h <;> rw [h] <;> decide
    obtain ⟨e, he⟩ := parse_number_exponent_present p ((if neg then 1 else 0) + ip.length) n1
      false ((if neg then [0x2D] else []) ++ ip) ms ds rest d (by simp [hsl]) hms
      (by rw [ha]; simp) (hed d (List.mem_cons_self _ _))
      (fun x hx => hed x (List.mem_cons_of_mem _ hx)) ht hc hexp
    refine ⟨{ n1 with exponent := e, c := sub_zero (rest.headD 0) }, ?_⟩
    unfold parse_number
    simp only [PM_bind_apply, get_mis_apply, e1, e2, parse_number_fraction_absent n1 false _ f1,
      he, mis_tell]
    rw [parse_number_finish_real fp _ neg _ true _ (Or.inl rfl)]
    simp only [List.length_append, hsl, List.length_cons, Nat.add_assoc]
  · -- fraction only
    obtain ⟨hne0, hfd⟩ := hfrac fds rfl
    obtain ⟨d, ds, rfl⟩ : ∃ d ds, fds = d :: ds := by
      cases fds with
      | nil => exact absurd rfl hne0
      | cons d ds => exact ⟨d, ds, rfl⟩
    simp only [numeralText, List.append_nil] at ha ⊢
    have ha' : ahead p.mis =
        (if neg then [0x2D] else []) ++ (ip ++ (0x2E :: d :: (ds ++ rest))) := by
      rw [ha]; simp
    have hth : ¬ sub_zero ((0x2E :: d :: (ds ++ rest)).headD 0) < 10 := by
      simp only [List.headD_cons]; decide
    obtain ⟨n0, n1, e1, e2, hc, _, _⟩ :=
      parse_number_scan_integer p neg ip _ hip hth ha'
    obtain ⟨s, e, sd, hf⟩ := parse_number_fraction_present p ((if neg then 1 else 0) + ip.length)
      n1 false ((if neg then [0x2D] else []) ++ ip) ds rest d (by simp [hsl])
      (by rw [ha]; simp) (hfd d (List.mem_cons_self _ _))
      (fun x hx => hfd x (List.mem_cons_of_mem _ hx)) ht hc
    have f2 : ¬ ((sub_zero (rest.headD 0)) = sub_zero 0x65 ∨
        (sub_zero (rest.headD 0)) = sub_zero 0x45) := by
      rintro (h | h)
      · exact sub_zero_ne _ _ hb (by norm_num) (hne rfl).1 h
      · exact sub_zero_ne _ _ hb (by norm_num) (hne rfl).2 h
    refine ⟨{ sum := s, exponent := e, sig_digits := sd, c := sub_zero (rest.headD 0) }, ?_⟩
    unfold parse_number
    simp only [PM_bind_apply, get_mis_apply, e1, e2, hf, mis_tell]
    rw [parse_number_exponent_absent _ true _ f2]
    simp only []
    rw [parse_number_finish_real fp _ neg _ true _ (Or.inl rfl)]
    simp only [List.length_append, hsl, List.length_cons, Nat.add_assoc]
  · -- fraction and exponent
    obtain ⟨hne0, hfd⟩ := hfrac fds rfl
    obtain ⟨d, ds, rfl⟩ : ∃ d ds, fds = d :: ds := by
      cases fds with
      | nil => exact absurd rfl hne0
      | cons d ds => exact ⟨d, ds, rfl⟩
    obtain ⟨hms, hne1, hed⟩ := hexpg ms eds rfl
    obtain ⟨d2, ds2, rfl⟩ : ∃ d ds, eds = d :: ds := by
      cases eds with
      | nil => exact absurd rfl hne1
      | cons d ds => exact ⟨d, ds, rfl⟩
    obtain ⟨hmh, hmt⟩ := exponent_mark_head ms hms
    simp only [numeralText, List.append_nil] at ha ⊢
    have ha' : ahead p.mis = (if neg then [0x2D] else []) ++
        (ip ++ (0x2E :: d :: (ds ++ (ms ++ d2 :: (ds2 ++ rest))))) := by
      rw [ha]; simp
    have hth : ¬ sub_zero ((0x2E :: d :: (ds ++ (ms ++ d2 :: (ds2 ++ rest)))).headD 0) < 10 := by
      simp only [List.headD_cons]; decide
    have htm : ¬ sub_zero ((ms ++ d2 :: (ds2 ++ rest)).headD 0) < 10 := by
      rw [hmt]; rcases hmh with h | h <;> rw [h] <;> decide
    obtain ⟨n0, n1, e1, e2, hc, _, _⟩ :=
      parse_number_scan_integer p neg ip _ hip hth ha'
    obtain ⟨s, e, sd, hf⟩ := parse_number_fraction_present p ((if neg then 1 else 0) + ip.length)
      n1 false ((if neg then [0x2D] else []) ++ ip) ds (ms ++ d2 :: (ds2 ++ rest)) d
      (by simp [hsl]) (by rw [ha]; simp) (hfd d (List.mem_cons_self _ _))
      (fun x hx => hfd x (List.mem_cons_of_mem _ hx)) htm hc
    rw [hmt] at hf
    obtain ⟨e', he⟩ := parse_number_exponent_present p
      ((if neg then 1 else 0) + ip.length + (ds.length + 2))
      { sum := s, exponent := e, sig_digits := sd, c := sub_zero (ms.headD 0) }
      true ((if neg then [0x2D] else []) ++ ip ++ 0x2E :: d :: ds) ms ds2 rest d2
      (by simp [hsl]; omega) hms
      (by rw [ha]; simp) (hed d2 (List.mem_cons_self _ _))
      (fun x hx => hed x (List.mem_cons_of_mem _ hx)) ht rfl hexp
    refine ⟨{ sum := s, exponent := e', sig_digits := sd, c := sub_zero (rest.headD 0) }, ?_⟩
    unfold parse_number
    simp only [PM_bind_apply, get_mis_apply, e1, e2, hf, he, mis_tell]
    rw [parse_number_finish_real fp _ neg _ true _ (Or.inl rfl)]
    simp only [List.length_append, hsl, List.length_cons, Nat.add_assoc, Nat.reduceAdd]


end Jsnpg

namespace Jsnpg

open jsnpg_type jsnpg_error_code

/-! ## parse_string: in-place decoding -/

theorem or_low (m i v : Nat) (h : v < 2 ^ i) : (2 ^ i * m) ||| v = 2 ^ i * m + v :=
  (Nat.mul_add_lt_is_or h m).symm

theorem utf8_encode_eq (cp : Nat) (h : isScalarValue cp) : utf8_encode cp = utf8Encoding cp := by
  unfold isScalarValue at h
  unfold utf8_encode utf8Encoding
  simp only [_1_BYTE_MAX, _2_BYTE_MAX, _3_BYTE_MAX, CODEPOINT_MAX, is_surrogate, SURROGATE_MIN,
    SURROGATE_MAX, utf8_encode_cont, CONTINUATION_BYTE, _2_BYTE_LEADER, _3_BYTE_LEADER,
    _4_BYTE_LEADER, LO_3_BITS, LO_4_BITS, LO_5_BITS, LO_6_BITS]
  have m3 : ∀ x, x &&& 0x07 = x % 8 := fun x => Nat.and_pow_two_sub_one_eq_mod x 3
  have m4 : ∀ x, x &&& 0x0F = x % 16 := fun x => Nat.and_pow_two_sub_one_eq_mod x 4
  have m5 : ∀ x, x &&& 0x1F = x % 32 := fun x => Nat.and_pow_two_sub_one_eq_mod x 5
  have m6 : ∀ x, x &&& 0x3F = x % 64 := fun x => Nat.and_pow_two_sub_one_eq_mod x 6
  have o6 : ∀ x, 0x80 ||| (x % 64) = 0x80 + x % 64 := fun x =>
    or_low 2 6 (x % 64) (by omega)
  have o5 : ∀ x, 0xC0 ||| (x % 32) = 0xC0 + x % 32 := fun x =>
    or_low 6 5 (x % 32) (by omega)
  have o4 : ∀ x, 0xE0 ||| (x % 16) = 0xE0 + x % 16 := fun x =>
    or_low 14 4 (x % 16) (by omega)
  have o3 : ∀ x, 0xF0 ||| (x % 8) = 0xF0 + x % 8 := fun x =>
    or_low 30 3 (x % 8) (by omega)
  simp only [m3, m4, m5, m6, o3, o4, o5, o6, Nat.shiftRight_eq_div_pow]
  by_cases c1 : cp ≤ 127
  · rw [if_pos c1, if_pos (show cp < 128 by omega)]
    congr 1; omega
  rw [if_neg c1, if_neg (show ¬ cp < 128 by omega)]
  by_cases c2 : cp ≤ 2047
  · rw [if_pos c2, if_pos (show cp < 2048 by omega)]
    simp only [List.cons.injEq, and_true, true_and, Nat.reducePow, Nat.reduceMul, Nat.div_one]
    omega
  rw [if_neg c2, if_neg (show ¬ cp < 2048 by omega)]
  have hs : (decide (cp ≥ 55296) && decide (cp ≤ 57343)) = false := by
    simp only [Bool.and_eq_false_iff, decide_eq_false_iff_not]; omega
  simp only [hs, Bool.false_eq_true, if_false]
  by_cases c3 : cp ≤ 65535
  · rw [if_pos c3, if_pos (show cp < 65536 by omega)]
    simp only [List.cons.injEq, and_true, true_and, Nat.reducePow, Nat.reduceMul, Nat.div_one]
    omega
  rw [if_neg c3, if_neg (show ¬ cp < 65536 by omega), if_pos h.1]
  simp only [List.cons.injEq, and_true, true_and, Nat.reducePow, Nat.reduceMul, Nat.div_one]
  omega

theorem StrInv_ahead (mis : memory_input_stream) (s : Nat) (D S : List Nat)
    (h : StrInv mis s D S) : ahead mis = S := by
  obtain ⟨A, W, G, M, hs, hA, _, _, _, hr, _, _⟩ := h
  unfold ahead
  rw [hs, hr]
  rw [show A ++ (W ++ (G ++ (M ++ S))) = (A ++ W ++ G ++ M) ++ S by simp]
  exact List.drop_left' (by simp [hA]; omega)

theorem StrInv_start (mis : memory_input_stream) (S : List Nat) (h : ahead mis = S)
    (hne : S ≠ []) : StrInv (mis_string_start mis) mis.read [] S := by
  refine ⟨mis.start.take mis.read, [], [], [], ?_, ?_, rfl, rfl, rfl, rfl, rfl, fun _ => rfl⟩
  · unfold ahead at h
    show mis.start = _
    simp only [List.nil_append]
    rw [← h, List.take_append_drop]
  · have h1 := ahead_length mis
    rw [h] at h1
    have h2 : 0 < S.length := List.length_pos.mpr hne
    rw [List.length_take]
    omega

theorem StrInv_run (mis : memory_input_stream) (s : Nat) (D bs S : List Nat)
    (h : StrInv mis s D (bs ++ S)) :
    StrInv { mis with read := mis.read + bs.length } s (D ++ bs) S := by
  obtain ⟨A, W, G, M, hs, hA, hstr, hw, hm, hr, hD, hG⟩ := h
  refine ⟨A, W, G, M ++ bs, ?_, hA, hstr, hw, hm, ?_, ?_, hG⟩
  · show mis.start = _
    rw [hs]; simp
  · show mis.read + bs.length = _
    rw [hr]; simp; omega
  · rw [hD]; simp

theorem StrInv_update (mis : memory_input_stream) (s : Nat) (D S : List Nat)
    (h : StrInv mis s D S) : StrUpd (mis_string_update mis) s D S := by
  obtain ⟨A, W, G, M, hs, hA, hstr, hw, hm, hr, hD, hG⟩ := h
  unfold mis_string_update
  by_cases hg : G = []
  · have hW := hG hg
    subst hg hW
    simp only [List.length_nil, Nat.add_zero, List.nil_append] at hw hm hr hs hD
    rw [if_neg (by rw [hm, hw]; simp)]
    refine ⟨A, [], ?_, hA, hstr, ?_, ?_⟩
    · show mis.start = _
      rw [hs, hD]; simp
    · show mis.read = _
      rw [hr, hD]
    · show mis.read = _
      rw [hr, hD]; simp
  · have hgl : 0 < G.length := List.length_pos.mpr hg
    rw [if_pos (by rw [hm, hw]; omega)]
    have hamt : mis.read - mis.mark = M.length := by rw [hr, hm]; omega
    by_cases hM : M = []
    · subst hM
      simp only [List.length_nil, Nat.add_zero, List.nil_append, List.append_nil] at *
      rw [hamt]
      simp only [ne_eq, not_true_eq_false, if_false]
      exact ⟨A, G, by rw [hs, hD], hA, hstr, by rw [hw, hD], by rw [hr, hD]⟩
    · have hml : 0 < M.length := List.length_pos.mpr hM
      rw [hamt, if_pos (by omega)]
      have hchunk : (mis.start.drop mis.mark).take M.length = M := by
        rw [hs, hm, show A ++ (W ++ (G ++ (M ++ S))) = (A ++ W ++ G) ++ (M ++ S) by simp,
          List.drop_left' (by simp [hA]; omega)]
        exact List.take_left _ _
      refine ⟨A, (G ++ M).drop M.length, ?_, hA, hstr, ?_, ?_⟩
      · show memmove mis.start mis.write mis.mark M.length = _
        unfold memmove
        simp only [hchunk]
        rw [hs, hw, show A ++ (W ++ (G ++ (M ++ S))) = (A ++ W) ++ (G ++ M ++ S) by simp,
          List.take_left' (by simp [hA]), hD]
        have hd : List.drop (s + W.length + M.length) (A ++ W ++ (G ++ M ++ S)) =
            (G ++ M).drop M.length ++ S := by
          rw [show s + W.length + M.length = (A ++ W).length + M.length by simp [hA],
            List.drop_append, List.drop_append_of_le_length (by simp)]
        rw [hd]; simp
      · show mis.write + M.length = _
        rw [hw, hD]; simp; omega
      · show mis.read = _
        rw [hr, hD]; simp; omega

theorem StrUpd_ahead (mis : memory_input_stream) (s : Nat) (D S : List Nat)
    (h : StrUpd mis s D S) : ahead mis = S := by
  obtain ⟨A, G, hs, hA, _, _, hr⟩ := h
  unfold ahead
  rw [hs, hr, show A ++ (D ++ (G ++ S)) = (A ++ D ++ G) ++ S by simp]
  exact List.drop_left' (by simp [hA]; omega)

theorem StrUpd_escape (mis : memory_input_stream) (s : Nat) (D txt S enc : List Nat)
    (h : StrUpd mis s D (txt ++ S)) (hn : enc.length < txt.length) :
    StrInv (mis_string_restart (mis_write_bytes { mis with read := mis.read + txt.length } enc))
      s (D ++ enc) S := by
  obtain ⟨A, G, hs, hA, hstr, hw, hr⟩ := h
  refine ⟨A, D ++ enc, (G ++ txt).drop enc.length, [], ?_, hA, hstr, ?_, ?_, ?_, by simp, ?_⟩
  · show mis.start.take mis.write ++ enc ++ mis.start.drop (mis.write + enc.length) = _
    rw [hs, hw, show A ++ (D ++ (G ++ (txt ++ S))) = (A ++ D) ++ (G ++ txt ++ S) by simp,
      List.take_left' (by simp [hA]),
      show s + D.length + enc.length = (A ++ D).length + enc.length by simp [hA],
      List.drop_append, List.drop_append_of_le_length (by simp; omega)]
    simp
  · show mis.write + enc.length = _
    rw [hw]; simp; omega
  · show mis.read + txt.length = _
    rw [hr]; simp; omega
  · show mis.read + txt.length = _
    rw [hr]; simp; omega
  · intro hg
    have := congrArg List.length hg
    simp at this
    omega

theorem hex_step (p : parser) (k n c h v : Nat) (hb : (ahead p.mis).getD k 0 = h)
    (hv : hexDigitValue h = some v) (hc : c < 65536) :
    parse_hex4_loop (n + 1) c (advance p k) = parse_hex4_loop n (c * 16 + v) (advance p (k + 1)) := by
  have hv16 : v < 16 := by
    unfold hexDigitValue at hv
    split_ifs at hv <;> simp at hv <;> omega
  have e1 : (c <<< 4) % 2 ^ 32 = c * 16 := by
    rw [Nat.shiftLeft_eq]; exact Nat.mod_eq_of_lt (by omega)
  have e2 : (c * 16 + v) % 2 ^ 32 = c * 16 + v := Nat.mod_eq_of_lt (by omega)
  rw [parse_hex4_loop]
  simp only [PM_bind_apply, peek_adv, hb, e1]
  unfold hexDigitValue at hv
  by_cases h1 : 0x30 ≤ h ∧ h ≤ 0x39
  · rw [if_pos h1] at hv
    simp only [Option.some.injEq] at hv
    rw [if_pos (by omega)]
    simp only [PM_bind_apply, take_adv, hv, e2]
  rw [if_neg h1] at hv
  rw [if_neg (by omega)]
  by_cases h2 : 0x41 ≤ h ∧ h ≤ 0x46
  · rw [if_pos h2] at hv
    simp only [Option.some.injEq] at hv
    rw [if_pos (by omega)]
    simp only [PM_bind_apply, take_adv]
    rw [show 10 + (h - 0x41) = v by omega, e2]
  rw [if_neg h2] at hv
  rw [if_neg (by omega)]
  by_cases h3 : 0x61 ≤ h ∧ h ≤ 0x66
  · rw [if_pos h3] at hv
    simp only [Option.some.injEq] at hv
    rw [if_pos (by omega)]
    simp only [PM_bind_apply, take_adv]
    rw [show 10 + (h - 0x61) = v by omega, e2]
  · rw [if_neg h3] at hv
    exact absurd hv (by simp)


theorem hexDigitValue_lt (h v : Nat) (hv : hexDigitValue h = some v) : v < 16 := by
  unfold hexDigitValue at hv
  split_ifs at hv <;> simp at hv <;> omega

theorem hex4Value_some (h1 h2 h3 h4 v : Nat) (hv : hex4Value h1 h2 h3 h4 = some v) :
    ∃ a b c d, hexDigitValue h1 = some a ∧ hexDigitValue h2 = some b ∧
      hexDigitValue h3 = some c ∧ hexDigitValue h4 = some d ∧
      v = ((a * 16 + b) * 16 + c) * 16 + d ∧ v < 65536 := by
  unfold hex4Value at hv
  rcases ha : hexDigitValue h1 with _ | a
  · simp [ha] at hv
  rcases hb : hexDigitValue h2 with _ | b
  · simp [ha, hb] at hv
  rcases hc : hexDigitValue h3 with _ | c
  · simp [ha, hb, hc] at hv
  rcases hd : hexDigitValue h4 with _ | d
  · simp [ha, hb, hc, hd] at hv
  simp only [ha, hb, hc, hd, Option.some.injEq] at hv
  have := hexDigitValue_lt _ _ ha
  have := hexDigitValue_lt _ _ hb
  have := hexDigitValue_lt _ _ hc
  have := hexDigitValue_lt _ _ hd
  exact ⟨a, b, c, d, rfl, rfl, rfl, rfl, hv.symm, by omega⟩

theorem parse_hex4_ok (p : parser) (k h1 h2 h3 h4 v : Nat)
    (g1 : (ahead p.mis).getD k 0 = h1) (g2 : (ahead p.mis).getD (k + 1) 0 = h2)
    (g3 : (ahead p.mis).getD (k + 2) 0 = h3) (g4 : (ahead p.mis).getD (k + 3) 0 = h4)
    (hv : hex4Value h1 h2 h3 h4 = some v) :
    parse_hex4 (advance p k) = Res.ok v (advance p (k + 4)) := by
  obtain ⟨a, b, c, d, ha, hb, hc, hd, rfl, _⟩ := hex4Value_some _ _ _ _ _ hv
  have := hexDigitValue_lt _ _ ha
  have := hexDigitValue_lt _ _ hb
  have := hexDigitValue_lt _ _ hc
  have := hexDigitValue_lt _ _ hd
  unfold parse_hex4
  rw [hex_step p k 3 0 h1 a g1 ha (by omega),
    hex_step p (k + 1) 2 _ h2 b g2 hb (by omega),
    hex_step p (k + 1 + 1) 1 _ h3 c g3 hc (by omega),
    hex_step p (k + 1 + 1 + 1) 0 _ h4 d g4 hd (by omega)]
  simp only [parse_hex4_loop, PM_pure_apply, Nat.zero_mul, Nat.zero_add]

theorem escape_table_eq (e : Nat) : escape_table e = (escapeValue e).getD 0 := by
  unfold escape_table escapeValue
  split_ifs <;> rfl

theorem escapeValue_pos (e x : Nat) (h : escapeValue e = some x) : x ≠ 0 ∧ x < 0x80 := by
  unfold escapeValue at h
  split_ifs at h <;> simp at h <;> omega

theorem pair_value (hi lo : Nat) (h3 : 0xDC00 ≤ lo) (h4 : lo ≤ 0xDFFF) :
    (((hi - 0xD800) <<< 10) ||| (lo - 0xDC00)) + 0x10000 =
      (hi - 0xD800) * 1024 + (lo - 0xDC00) + 0x10000 := by
  rw [Nat.shiftLeft_eq, Nat.mul_comm, ← Nat.mul_add_lt_is_or (by omega : lo - 0xDC00 < 2 ^ 10)]


theorem parse_escape_ok (p : parser) (it : StrItem) (S : List Nat) (hwf : it.wf)
    (hesc : it.isEscape = true) (ha : ahead p.mis = it.text ++ S) :
    parse_escape p = Res.ok it.codepoint (advance p it.text.length) := by
  have g : ∀ i, i < it.text.length → (ahead p.mis).getD i 0 = it.text.getD i 0 := by
    intro i hi; rw [ha, getD_append_left _ _ _ hi]
  unfold parse_escape
  rw [← advance_zero p]
  cases it with
  | char cp => simp [StrItem.isEscape] at hesc
  | esc e =>
    simp only [StrItem.wf, Option.isSome_iff_exists] at hwf
    obtain ⟨x, hx⟩ := hwf
    have hx0 := escapeValue_pos e x hx
    have g1 := g 1 (by simp [StrItem.text])
    simp only [StrItem.text, List.getD_cons_succ, List.getD_cons_zero] at g1
    simp only [PM_bind_apply, take_adv, peek_adv, Nat.zero_add, g1, escape_table_eq, hx,
      Option.getD_some, ne_eq, hx0.1, not_false_eq_true, if_true, PM_pure_apply,
      StrItem.codepoint, StrItem.text, List.length_cons, List.length_nil, advance_advance]
  | u4 h1 h2 h3 h4 =>
    simp only [StrItem.wf] at hwf
    obtain ⟨v, hv, hns⟩ := hwf
    have g1 := g 1 (by simp [StrItem.text])
    have g2 := g 2 (by simp [StrItem.text])
    have g3 := g 3 (by simp [StrItem.text])
    have g4 := g 4 (by simp [StrItem.text])
    have g5 := g 5 (by simp [StrItem.text])
    simp only [StrItem.text, List.getD_cons_succ, List.getD_cons_zero] at g1 g2 g3 g4 g5
    have he : escape_table 0x75 = 0 := by decide
    simp only [PM_bind_apply, take_adv, peek_adv, Nat.zero_add, g1, he, ne_eq,
      not_true_eq_false, if_false, if_true]
    rw [parse_hex4_ok p 2 h1 h2 h3 h4 v g2 g3 g4 g5 hv]
    simp only [ge_iff_le, hns, if_false, PM_pure_apply, StrItem.codepoint, hv, Option.getD_some,
      StrItem.text, List.length_cons, List.length_nil, advance_advance]
  | pair h1 h2 h3 h4 l1 l2 l3 l4 =>
    simp only [StrItem.wf] at hwf
    obtain ⟨hi, lo, hhi, hlo, a1, a2, a3, a4⟩ := hwf
    have g1 := g 1 (by simp [StrItem.text])
    have g2 := g 2 (by simp [StrItem.text])
    have g3 := g 3 (by simp [StrItem.text])
    have g4 := g 4 (by simp [StrItem.text])
    have g5 := g 5 (by simp [StrItem.text])
    have g6 := g 6 (by simp [StrItem.text])
    have g7 := g 7 (by simp [StrItem.text])
    have g8 := g 8 (by simp [StrItem.text])
    have g9 : (ahead p.mis).getD 9 0 = l2 := by rw [ha]; rfl
    have g10 : (ahead p.mis).getD 10 0 = l3 := by rw [ha]; rfl
    have g11 : (ahead p.mis).getD 11 0 = l4 := by rw [ha]; rfl
    simp only [StrItem.text, List.getD_cons_succ, List.getD_cons_zero] at g1 g2 g3 g4 g5 g6 g7 g8
    have he : escape_table 0x75 = 0 := by decide
    simp only [PM_bind_apply, take_adv, peek_adv, Nat.zero_add, g1, he, ne_eq,
      not_true_eq_false, if_false, if_true]
    rw [parse_hex4_ok p 2 h1 h2 h3 h4 hi g2 g3 g4 g5 hhi]
    simp only [ge_iff_le, a1, (show hi ≤ 0xDFFF by omega), and_self, if_true, a2, PM_bind_apply,
      consume_adv, g6, g7, Nat.reduceAdd, Bool.and_self, Bool.not_true, Bool.false_eq_true,
      if_false]
    rw [parse_hex4_ok p 8 l1 l2 l3 l4 lo g8 g9 g10 g11 hlo]
    have hpv := pair_value hi lo a3 a4
    have hmod : ((((hi - 0xD800) <<< 10) ||| (lo - 0xDC00)) + 0x10000) % 2 ^ 32 =
        (((hi - 0xD800) <<< 10) ||| (lo - 0xDC00)) + 0x10000 := by
      rw [hpv]; exact Nat.mod_eq_of_lt (by omega)
    simp only [(show ¬ (lo < 0xDC00 ∨ lo > 0xDFFF) by omega), if_false, PM_pure_apply, hmod,
      StrItem.codepoint, hhi, hlo, Option.getD_some, StrItem.text, List.length_cons,
      List.length_nil, advance_advance]


theorem item_scalar (it : StrItem) (hwf : it.wf) : isScalarValue it.codepoint := by
  cases it with
  | char cp => exact hwf.1
  | esc e =>
    simp only [StrItem.wf, Option.isSome_iff_exists] at hwf
    obtain ⟨x, hx⟩ := hwf
    have := escapeValue_pos e x hx
    simp only [StrItem.codepoint, hx, Option.getD_some, isScalarValue]
    omega
  | u4 h1 h2 h3 h4 =>
    obtain ⟨v, hv, hns⟩ := hwf
    obtain ⟨_, _, _, _, _, _, _, _, _, hlt⟩ := hex4Value_some _ _ _ _ _ hv
    simp only [StrItem.codepoint, hv, Option.getD_some, isScalarValue]
    omega
  | pair h1 h2 h3 h4 l1 l2 l3 l4 =>
    obtain ⟨hi, lo, hhi, hlo, a1, a2, a3, a4⟩ := hwf
    simp only [StrItem.codepoint, hhi, hlo, Option.getD_some, isScalarValue]
    rw [pair_value hi lo a3 a4]
    omega

theorem item_shrinks (it : StrItem) (hwf : it.wf) (hesc : it.isEscape = true) :
    (utf8Encoding it.codepoint).length < it.text.length := by
  have h4 := (utf8Encoding_length it.codepoint).2
  cases it with
  | char cp => simp [StrItem.isEscape] at hesc
  | esc e =>
    simp only [StrItem.wf, Option.isSome_iff_exists] at hwf
    obtain ⟨x, hx⟩ := hwf
    have := escapeValue_pos e x hx
    simp only [StrItem.codepoint, hx, Option.getD_some, StrItem.text, utf8Encoding]
    rw [if_pos (by omega)]; simp
  | u4 h1 h2 h3 h4 => simp only [StrItem.text, List.length_cons, List.length_nil]; omega
  | pair h1 h2 h3 h4 l1 l2 l3 l4 =>
    simp only [StrItem.text, List.length_cons, List.length_nil]; omega

/-- A byte the string loop steps over with `mis_take`. -/
theorem loop_plain (v : Bool) (k : Nat) (p : parser) (b : Nat) (S : List Nat)
    (ha : ahead p.mis = b :: S) (h1 : 0x20 ≤ b) (h2 : b ≠ 0x22) (h3 : b ≠ 0x5C)
    (h4 : v = true → b < 0x80) :
    parse_string_loop v (k + 1) p = parse_string_loop v k (advance p 1) := by
  have hp : mis_peek p.mis = b := by rw [mis_peek_eq, ha]; rfl
  have hv : (v && decide (b ≥ 0x80)) = false := by
    cases v
    · rfl
    · have := h4 rfl
      simp only [Bool.true_and, decide_eq_false_iff_not, ge_iff_le]; omega
  show (do
    let c ← get_mis mis_peek
    if c = 0x22 then on_mis mis_string_complete
    else if c = 0x5C then
      set_mis mis_string_update
      let codepoint ← parse_escape
      set_mis (fun m => mis_write_bytes m (utf8_encode codepoint))
      set_mis mis_string_restart
      parse_string_loop v k
    else if v && decide (c ≥ 0x80) then
      if !(← on_mis mis_validate_utf8) then throw_parse_error JSNPG_ERROR_UTF8
      else parse_string_loop v k
    else if c < 0x20 then throw_parse_error JSNPG_ERROR_INVALID
    else
      let _ ← on_mis mis_take
      parse_string_loop v k : PM (List Nat × Nat)) p = _
  simp only [PM_bind_apply, get_mis_apply, hp, h2, h3, if_false, hv, Bool.false_eq_true,
    (show ¬ b < 0x20 by omega), on_mis_apply]
  rfl

theorem loop_run (v : Bool) (bs : List Nat) :
    ∀ (k : Nat) (p : parser) (S : List Nat), ahead p.mis = bs ++ S →
      (∀ b ∈ bs, 0x20 ≤ b ∧ b ≠ 0x22 ∧ b ≠ 0x5C ∧ (v = true → b < 0x80)) →
      parse_string_loop v (k + bs.length) p = parse_string_loop v k (advance p bs.length) := by
  induction bs with
  | nil => intro k p S _ _; rfl
  | cons b bs ih =>
    intro k p S ha hb
    obtain ⟨h1, h2, h3, h4⟩ := hb b (List.mem_cons_self _ _)
    rw [List.length_cons, ← Nat.add_assoc, loop_plain v (k + bs.length) p b (bs ++ S) ha h1 h2 h3 h4]
    have ha1 : ahead (advance p 1).mis = bs ++ S := by
      rw [ahead_advance, ha]; rfl
    rw [ih k (advance p 1) S ha1 (fun x hx => hb x (List.mem_cons_of_mem _ hx)), advance_advance,
      Nat.add_comm 1]

theorem utf8_validate_pad (bytes : List Nat) (count : Nat) (hb : ∀ b ∈ bytes, b < 256) :
    utf8_validate_sequence bytes count = utf8_validate_sequence (bytes ++ [0, 0, 0, 0]) count := by
  have hb2 : ∀ b ∈ bytes ++ [0, 0, 0, 0], b < 256 := by
    intro b h
    rcases List.mem_append.1 h with h | h
    · exact hb b h
    · simp at h; omega
  have g : ∀ i, (bytes ++ [0, 0, 0, 0]).getD i 0 = bytes.getD i 0 := by
    intro i
    by_cases h : i < bytes.length
    · exact getD_append_left _ _ _ h
    · obtain ⟨j, rfl⟩ : ∃ j, i = bytes.length + j := ⟨i - bytes.length, by omega⟩
      rw [getD_append_right]
      rw [List.getD_eq_getElem?_getD, List.getD_eq_getElem?_getD,
        List.getElem?_eq_none (by omega : bytes.length ≤ bytes.length + j)]
      rcases j with _ | _ | _ | _ | _ | j <;> rfl
  rw [utf8_validate_arith bytes count _ _ _ _ rfl rfl rfl rfl (getD_lt_of_bytes _ hb 0)
    (getD_lt_of_bytes _ hb 1) (getD_lt_of_bytes _ hb 2) (getD_lt_of_bytes _ hb 3),
    utf8_validate_arith (bytes ++ [0, 0, 0, 0]) count _ _ _ _ (g 0) (g 1) (g 2) (g 3)
    (getD_lt_of_bytes _ hb 0) (getD_lt_of_bytes _ hb 1) (getD_lt_of_bytes _ hb 2)
    (getD_lt_of_bytes _ hb 3)]

theorem utf8Encoding_bytes (cp : Nat) (h : isScalarValue cp) : ∀ b ∈ utf8Encoding cp, b < 256 := by
  unfold isScalarValue at h
  unfold utf8Encoding
  intro b hb
  split_ifs at hb <;> simp at hb <;> omega

theorem utf8Encoding_high (cp : Nat) (h : 0x80 ≤ cp) : ∀ b ∈ utf8Encoding cp, 0x80 ≤ b := by
  unfold utf8Encoding
  intro b hb
  split_ifs at hb <;> simp at hb <;> omega

/-- A multi-byte character the string loop steps over with `mis_validate_utf8`. -/
theorem loop_validated (k : Nat) (p : parser) (cp : Nat) (S : List Nat)
    (ha : ahead p.mis = utf8Encoding cp ++ S) (hs : isScalarValue cp) (hc : 0x80 ≤ cp)
    (hS : ∀ b ∈ S, b < 256) :
    parse_string_loop true (k + 1) p =
      parse_string_loop true k (advance p (utf8Encoding cp).length) := by
  have hL := utf8Encoding_length cp
  have hbytes : ∀ b ∈ utf8Encoding cp ++ S, b < 256 := by
    intro b h
    rcases List.mem_append.1 h with h | h
    · exact utf8Encoding_bytes cp hs b h
    · exact hS b h
  have hval : utf8_validate_sequence (p.mis.start.drop p.mis.read) 4 =
      ((utf8Encoding cp).length : Int) := by
    show utf8_validate_sequence (ahead p.mis) 4 = _
    rw [ha, utf8_validate_pad _ _ hbytes]
    apply utf8_validate_complete _ 4 _ cp _ _ hL.2 hs
    · rw [List.append_assoc, List.take_left' rfl]
    · intro b h
      rcases List.mem_append.1 h with h | h
      · exact hbytes b h
      · simp at h; omega
    · simp; omega
  obtain ⟨b, bs, hbs⟩ : ∃ b bs, utf8Encoding cp = b :: bs := by
    rcases h : utf8Encoding cp with _ | ⟨b, bs⟩
    · rw [h] at hL; simp at hL
    · exact ⟨b, bs, rfl⟩
  have hb80 : 0x80 ≤ b := utf8Encoding_high cp hc b (by rw [hbs]; exact List.mem_cons_self _ _)
  have hp : mis_peek p.mis = b := by rw [mis_peek_eq, ha, hbs]; rfl
  show (do
    let c ← get_mis mis_peek
    if c = 0x22 then on_mis mis_string_complete
    else if c = 0x5C then
      set_mis mis_string_update
      let codepoint ← parse_escape
      set_mis (fun m => mis_write_bytes m (utf8_encode codepoint))
      set_mis mis_string_restart
      parse_string_loop true k
    else if true && decide (c ≥ 0x80) then
      if !(← on_mis mis_validate_utf8) then throw_parse_error JSNPG_ERROR_UTF8
      else parse_string_loop true k
    else if c < 0x20 then throw_parse_error JSNPG_ERROR_INVALID
    else
      let _ ← on_mis mis_take
      parse_string_loop true k : PM (List Nat × Nat)) p = _
  have hne : ((utf8Encoding cp).length : Int) ≠ -1 := by omega
  simp only [PM_bind_apply, get_mis_apply, hp, (show b ≠ 0x22 by omega),
    (show b ≠ 0x5C by omega), if_false, Bool.true_and, ge_iff_le, hb80, decide_True, if_true,
    on_mis_apply, mis_validate_utf8, hval, hne, Bool.not_true, Bool.false_eq_true,
    Int.toNat_ofNat]
  rfl

theorem mis_string_update_frame (m : memory_input_stream) :
    (mis_string_update m).read = m.read ∧ (mis_string_update m).count = m.count := by
  unfold mis_string_update
  simp only []
  split_ifs <;> exact ⟨rfl, rfl⟩

/-- An escape in the string loop: the pending run is moved down, the escape is
decoded, and its UTF-8 encoding is written at the write head. -/
theorem loop_escape (v : Bool) (p : parser) (it : StrItem) (s : Nat) (D S : List Nat)
    (hwf : it.wf) (hesc : it.isEscape = true) (hi : StrInv p.mis s D (it.text ++ S)) :
    ∃ mis1, (∀ k, parse_string_loop v (k + 1) p = parse_string_loop v k { p with mis := mis1 }) ∧
      StrInv mis1 s (D ++ utf8Encoding it.codepoint) S ∧ mis1.mark ≠ mis1.string ∧
      mis1.read = p.mis.read + it.text.length ∧ mis1.count = p.mis.count := by
  have hu := StrInv_update _ _ _ _ hi
  have hua := StrUpd_ahead _ _ _ _ hu
  have ha := StrInv_ahead _ _ _ _ hi
  have hp : mis_peek p.mis = 0x5C := by
    rw [mis_peek_eq, ha]
    cases it with
    | char cp => simp [StrItem.isEscape] at hesc
    | esc e => rfl
    | u4 h1 h2 h3 h4 => rfl
    | pair h1 h2 h3 h4 l1 l2 l3 l4 => rfl
  have hpe := parse_escape_ok { p with mis := mis_string_update p.mis } it S hwf hesc hua
  have hinv := StrUpd_escape _ _ _ _ _ (utf8Encoding it.codepoint) hu (item_shrinks it hwf hesc)
  refine ⟨_, fun k => ?_, hinv, ?_, ?_, ?_⟩
  rotate_left
  · obtain ⟨A, G, _, _, hstr, _, hr⟩ := hu
    have hpos : 0 < it.text.length := by
      have := item_shrinks it hwf hesc; omega
    show (mis_string_update p.mis).read + it.text.length ≠ (mis_string_update p.mis).string
    rw [hr, hstr]; omega
  · show (mis_string_update p.mis).read + it.text.length = _
    rw [(mis_string_update_frame p.mis).1]
  · show (mis_string_update p.mis).count = _
    exact (mis_string_update_frame p.mis).2
  · show (do
      let c ← get_mis mis_peek
      if c = 0x22 then on_mis mis_string_complete
      else if c = 0x5C then
        set_mis mis_string_update
        let codepoint ← parse_escape
        set_mis (fun m => mis_write_bytes m (utf8_encode codepoint))
        set_mis mis_string_restart
        parse_string_loop v k
      else if v && decide (c ≥ 0x80) then
        if !(← on_mis mis_validate_utf8) then throw_parse_error JSNPG_ERROR_UTF8
        else parse_string_loop v k
      else if c < 0x20 then throw_parse_error JSNPG_ERROR_INVALID
      else
        let _ ← on_mis mis_take
        parse_string_loop v k : PM (List Nat × Nat)) p = _
    simp only [PM_bind_apply, get_mis_apply, hp, (show (0x5C : Nat) ≠ 0x22 by decide), if_false,
      if_true, set_mis_apply, hpe, utf8_encode_eq _ (item_scalar it hwf)]
    rfl

/-- The closing quote in the string loop. -/
theorem loop_quote (v : Bool) (p : parser) (s : Nat) (D S : List Nat)
    (hi : StrInv p.mis s D (0x22 :: S)) :
    ∃ mis1, (∀ k, parse_string_loop v (k + 1) p = Res.ok (D, D.length) { p with mis := mis1 }) ∧
      ahead mis1 = S ∧ mis1.string = s ∧ (mis1.start.drop s).take D.length = D ∧
      mis1.write = (if p.mis.mark = p.mis.string then p.mis.write else s + D.length) ∧
      mis1.read = p.mis.read + 1 ∧ mis1.count = p.mis.count := by
  have ha := StrInv_ahead _ _ _ _ hi
  have hp : mis_peek p.mis = 0x22 := by rw [mis_peek_eq, ha]; rfl
  have hstep : ∀ k, parse_string_loop v (k + 1) p = on_mis mis_string_complete p := by
    intro k
    show (do
      let c ← get_mis mis_peek
      if c = 0x22 then on_mis mis_string_complete
      else if c = 0x5C then
        set_mis mis_string_update
        let codepoint ← parse_escape
        set_mis (fun m => mis_write_bytes m (utf8_encode codepoint))
        set_mis mis_string_restart
        parse_string_loop v k
      else if v && decide (c ≥ 0x80) then
        if !(← on_mis mis_validate_utf8) then throw_parse_error JSNPG_ERROR_UTF8
        else parse_string_loop v k
      else if c < 0x20 then throw_parse_error JSNPG_ERROR_INVALID
      else
        let _ ← on_mis mis_take
        parse_string_loop v k : PM (List Nat × Nat)) p = _
    simp only [PM_bind_apply, get_mis_apply, hp, if_true]
  simp only [hstep, on_mis_apply]
  by_cases hm : p.mis.mark = p.mis.string
  · obtain ⟨A, W, G, M, hs, hA, hstr, hw, hmk, hr, hD, hG⟩ := hi
    have hWG : W = [] ∧ G = [] := by
      rw [hmk, hstr] at hm
      have hg : G = [] := List.length_eq_zero.1 (by omega)
      exact ⟨hG hg, hg⟩
    obtain ⟨rfl, rfl⟩ := hWG
    simp only [List.nil_append, List.length_nil, Nat.add_zero] at hs hw hmk hr hD
    subst hD
    have hlen : p.mis.read - p.mis.string = D.length := by rw [hr, hstr]; omega
    have hbytes : (p.mis.start.drop p.mis.string).take D.length = D := by
      rw [hs, hstr, List.drop_left' hA, List.take_left' rfl]
    refine ⟨{ p.mis with read := p.mis.read + 1 }, ?_, ?_, hstr, ?_, ?_, rfl, rfl⟩
    · intro _
      simp only [mis_string_complete, hm, if_true, hlen, hbytes]
    · show (p.mis.start.drop (p.mis.read + 1)) = S
      have : ahead p.mis = 0x22 :: S := ha
      unfold ahead at this
      rw [← List.drop_drop, this]; rfl
    · show (p.mis.start.drop s).take D.length = D
      rw [← hstr]; exact hbytes
    · rw [if_pos hm]
  · have hu := StrInv_update _ _ _ _ hi
    have hua := StrUpd_ahead _ _ _ _ hu
    obtain ⟨A, G, hs, hA, hstr, hw, hr⟩ := hu
    have hlen : (mis_string_update p.mis).write - (mis_string_update p.mis).string = D.length := by
      rw [hw, hstr]; omega
    have hbytes : ((mis_string_update p.mis).start.drop (mis_string_update p.mis).string).take
        D.length = D := by
      rw [hs, hstr, List.drop_left' hA, List.take_left' rfl]
    refine ⟨{ mis_string_update p.mis with read := (mis_string_update p.mis).read + 1 },
      ?_, ?_, hstr, ?_, ?_, ?_, (mis_string_update_frame p.mis).2⟩
    rotate_right
    · show (mis_string_update p.mis).read + 1 = _
      rw [(mis_string_update_frame p.mis).1]
    · intro _
      simp only [mis_string_complete, hm, if_false, hlen, hbytes]
    · show ((mis_string_update p.mis).start.drop ((mis_string_update p.mis).read + 1)) = S
      unfold ahead at hua
      rw [← List.drop_drop, hua]; rfl
    · show ((mis_string_update p.mis).start.drop s).take D.length = D
      rw [← hstr]; exact hbytes
    · rw [if_neg hm]; exact hw


/-- A directly written character in the string loop, with or without UTF-8
validation. -/
theorem loop_char (v : Bool) (p : parser) (cp : Nat) (S : List Nat)
    (hwf : (StrItem.char cp).wf) (ha : ahead p.mis = utf8Encoding cp ++ S)
    (hS : ∀ b ∈ S, b < 256) :
    ∃ n, n ≤ (utf8Encoding cp).length ∧ ∀ k, parse_string_loop v (k + n) p =
      parse_string_loop v k (advance p (utf8Encoding cp).length) := by
  obtain ⟨hs, h20, h22, h5c⟩ := hwf
  by_cases hc : cp < 0x80
  · have he : utf8Encoding cp = [cp] := by unfold utf8Encoding; rw [if_pos hc]
    refine ⟨1, by rw [he]; simp, fun k => ?_⟩
    rw [he] at ha ⊢
    exact loop_plain v k p cp S ha h20 h22 h5c (fun _ => hc)
  · have hh := utf8Encoding_high cp (by omega)
    cases v with
    | true => exact ⟨1, (utf8Encoding_length cp).1, fun k => loop_validated k p cp S ha hs (by omega) hS⟩
    | false =>
      refine ⟨_, le_refl _, fun k => loop_run false _ k p S ha ?_⟩
      intro b hb
      have := hh b hb
      refine ⟨by omega, by omega, by omega, fun h => by simp at h⟩

theorem escapeValue_byte (e x : Nat) (h : escapeValue e = some x) : e < 256 := by
  unfold escapeValue at h
  split_ifs at h <;> omega

theorem hexDigitValue_byte (c x : Nat) (h : hexDigitValue c = some x) : c < 256 := by
  unfold hexDigitValue at h
  split_ifs at h <;> omega

theorem item_bytes (it : StrItem) (hwf : it.wf) : ∀ b ∈ it.text, b < 256 := by
  cases it with
  | char cp => exact utf8Encoding_bytes cp hwf.1
  | esc e =>
    simp only [StrItem.wf, Option.isSome_iff_exists] at hwf
    obtain ⟨x, hx⟩ := hwf
    have := escapeValue_byte e x hx
    intro b hb
    simp [StrItem.text] at hb
    omega
  | u4 h1 h2 h3 h4 =>
    obtain ⟨v, hv, _⟩ := hwf
    obtain ⟨_, _, _, _, a1, a2, a3, a4, _, _⟩ := hex4Value_some _ _ _ _ _ hv
    have := hexDigitValue_byte _ _ a1
    have := hexDigitValue_byte _ _ a2
    have := hexDigitValue_byte _ _ a3
    have := hexDigitValue_byte _ _ a4
    intro b hb
    simp [StrItem.text] at hb
    omega
  | pair h1 h2 h3 h4 l1 l2 l3 l4 =>
    obtain ⟨hi, lo, hhi, hlo, _⟩ := hwf
    obtain ⟨_, _, _, _, a1, a2, a3, a4, _, _⟩ := hex4Value_some _ _ _ _ _ hhi
    obtain ⟨_, _, _, _, b1, b2, b3, b4, _, _⟩ := hex4Value_some _ _ _ _ _ hlo
    have := hexDigitValue_byte _ _ a1
    have := hexDigitValue_byte _ _ a2
    have := hexDigitValue_byte _ _ a3
    have := hexDigitValue_byte _ _ a4
    have := hexDigitValue_byte _ _ b1
    have := hexDigitValue_byte _ _ b2
    have := hexDigitValue_byte _ _ b3
    have := hexDigitValue_byte _ _ b4
    intro b hb
    simp [StrItem.text] at hb
    omega

theorem literalText_bytes (items : List StrItem) (hwf : ∀ it ∈ items, it.wf) :
    ∀ b ∈ literalText items, b < 256 := by
  induction items with
  | nil => intro b hb; simp [literalText] at hb
  | cons it items ih =>
    intro b hb
    simp only [literalText, List.mem_append] at hb
    rcases hb with hb | hb
    · exact item_bytes it (hwf it (List.mem_cons_self _ _)) b hb
    · exact ih (fun x hx => hwf x (List.mem_cons_of_mem _ hx)) b hb

/-- The loop of `parse_string_in_stream` over the elements of a well-formed
literal: it returns the decoded string, which lies in the buffer at `string`. -/
theorem parse_string_loop_ok (v : Bool) (items : List StrItem) :
    ∀ (p : parser) (s : Nat) (D rest : List Nat), (∀ it ∈ items, it.wf) →
      StrInv p.mis s D (literalText items ++ 0x22 :: rest) → (∀ b ∈ rest, b < 256) →
      ∃ n mis1, n ≤ (literalText items).length + 1 ∧
        (∀ k, parse_string_loop v (k + n) p =
          Res.ok (D ++ literalValue items, (D ++ literalValue items).length)
            { p with mis := mis1 }) ∧
        ahead mis1 = rest ∧ mis1.string = s ∧
        (mis1.start.drop s).take (D ++ literalValue items).length = D ++ literalValue items ∧
        mis1.write = (if p.mis.mark = p.mis.string ∧ items.any StrItem.isEscape = false
          then p.mis.write else s + (D ++ literalValue items).length) ∧
        mis1.read = p.mis.read + ((literalText items).length + 1) ∧
        mis1.count = p.mis.count := by
  induction items with
  | nil =>
    intro p s D rest _ hi _
    simp only [literalText, List.nil_append] at hi
    obtain ⟨mis1, h1, h2, h3, h4, h5, h6, h7⟩ := loop_quote v p s D rest hi
    refine ⟨1, mis1, by simp, ?_, h2, h3, ?_, ?_, ?_, h7⟩
    · simpa [literalValue] using h1
    · simpa [literalValue] using h4
    · simpa [literalValue] using h5
    · simpa [literalText] using h6
  | cons it items ih =>
    intro p s D rest hwf hi hr
    have hwf1 := hwf it (List.mem_cons_self _ _)
    have hwf2 : ∀ x ∈ items, x.wf := fun x hx => hwf x (List.mem_cons_of_mem _ hx)
    simp only [literalText, List.append_assoc] at hi
    have hS : ∀ b ∈ literalText items ++ 0x22 :: rest, b < 256 := by
      intro b hb
      rcases List.mem_append.1 hb with hb | hb
      · exact literalText_bytes items hwf2 b hb
      · rcases List.mem_cons.1 hb with hb | hb
        · omega
        · exact hr b hb
    by_cases hesc : it.isEscape = true
    · obtain ⟨mis1, e1, hi1, hm1, hr1, hc1⟩ := loop_escape v p it s D _ hwf1 hesc hi
      obtain ⟨n, mis2, hn, e2, h2, h3, h4, h5, h6, h7⟩ :=
        ih { p with mis := mis1 } s (D ++ utf8Encoding it.codepoint) rest hwf2 hi1 hr
      refine ⟨n + 1, mis2, ?_, ?_, h2, h3, ?_, ?_, ?_, h7.trans hc1⟩
      rotate_right
      · rw [h6]
        show mis1.read + _ = _
        rw [hr1]
        simp only [literalText, List.length_append]; omega
      · have := item_shrinks it hwf1 hesc
        simp only [literalText, List.length_append]; omega
      · intro k
        rw [← Nat.add_assoc, e1, e2]
        simp only [literalValue, List.append_assoc]
      · simpa only [literalValue, List.append_assoc] using h4
      · rw [h5, if_neg (fun h => hm1 h.1), if_neg (by simp [hesc])]
        simp only [literalValue, List.append_assoc]
    · cases it with
      | char cp =>
        have ha := StrInv_ahead _ _ _ _ hi
        simp only [StrItem.text] at hi ha
        obtain ⟨n1, hn1, e1⟩ := loop_char v p cp _ hwf1 ha hS
        have hi1 := StrInv_run _ _ _ _ _ hi
        obtain ⟨n, mis2, hn, e2, h2, h3, h4, h5, h6, h7⟩ :=
          ih (advance p (utf8Encoding cp).length) s (D ++ utf8Encoding cp) rest hwf2 hi1 hr
        refine ⟨n + n1, mis2, ?_, ?_, h2, h3, ?_, ?_, ?_, h7⟩
        rotate_right
        · rw [h6]
          show p.mis.read + _ + _ = _
          simp only [literalText, List.length_append, StrItem.text]; omega
        · simp only [literalText, List.length_append, StrItem.text]; omega
        · intro k
          rw [← Nat.add_assoc, e1, e2]
          simp only [literalValue, List.append_assoc, StrItem.codepoint]
          rfl
        · simpa only [literalValue, List.append_assoc, StrItem.codepoint] using h4
        · rw [h5]
          simp only [literalValue, List.append_assoc, StrItem.codepoint, List.any_cons,
            StrItem.isEscape, Bool.false_or]
          rfl
      | esc e => simp [StrItem.isEscape] at hesc
      | u4 h1 h2 h3 h4 => simp [StrItem.isEscape] at hesc
      | pair h1 h2 h3 h4 l1 l2 l3 l4 => simp [StrItem.isEscape] at hesc

/-- The function `parse_string` on a well-formed literal followed by any bytes: it returns
the decoded string and its length, the bytes lie in the buffer at `string`,
and `write` marks their end exactly when the literal holds an escape. -/
theorem parse_string_ok (v : Bool) (p : parser) (items : List StrItem) (rest : List Nat)
    (hwf : ∀ it ∈ items, it.wf)
    (ha : ahead p.mis = 0x22 :: (literalText items ++ 0x22 :: rest))
    (hr : ∀ b ∈ rest, b < 256) :
    ∃ mis1, parse_string v p =
        Res.ok (literalValue items, (literalValue items).length) { p with mis := mis1 } ∧
      ahead mis1 = rest ∧ mis1.string = p.mis.read + 1 ∧
      (mis1.start.drop mis1.string).take (literalValue items).length = literalValue items ∧
      mis1.write = (if items.any StrItem.isEscape = false then mis1.string
        else mis1.string + (literalValue items).length) ∧
      mis1.read = p.mis.read + ((literalText items).length + 2) ∧ mis1.count = p.mis.count := by
  have ha1 : ahead (advance p 1).mis = literalText items ++ 0x22 :: rest := by
    rw [ahead_advance, ha]; rfl
  have hi := StrInv_start (advance p 1).mis _ ha1 (by simp)
  obtain ⟨n, mis1, hn, e, h2, h3, h4, h5, h6, h7⟩ :=
    parse_string_loop_ok v items { advance p 1 with mis := mis_string_start (advance p 1).mis }
      (advance p 1).mis.read [] rest hwf hi hr
  have hlen := ahead_length p.mis
  rw [ha] at hlen
  simp only [List.length_cons, List.length_append] at hlen
  have hfuel : ∃ k, p.mis.start.length + 1 - (p.mis.read + 1) = k + n :=
    ⟨p.mis.start.length + 1 - (p.mis.read + 1) - n, by omega⟩
  obtain ⟨k, hk⟩ := hfuel
  simp only [List.nil_append] at e h4 h5
  refine ⟨mis1, ?_, h2, h3, ?_, ?_, ?_, h7⟩
  rotate_right
  · rw [h6]
    show p.mis.read + 1 + _ = _
    omega
  · unfold parse_string parse_string_in_stream
    rw [← advance_zero p]
    simp only [PM_bind_apply, take_adv, set_mis_apply, Nat.zero_add]
    show parse_string_loop v (p.mis.start.length + 1 - (p.mis.read + 1)) _ = _
    rw [hk]
    exact e k
  · rw [h3]; exact h4
  · rw [h5, h3]
    show (if (p.mis.read + 1 = p.mis.read + 1 ∧ _) then p.mis.read + 1 else _) = _
    simp only [true_and]
    rfl


theorem emitItem_control : ∀ cp, cp < 0x20 →
    (emitItem cp).wf ∧ (emitItem cp).codepoint = cp ∧ (emitItem cp).isEscape = true ∧
    (emitItem cp).text = (if c_escapes cp ≠ 0 then [0x5C, c_escapes cp]
      else match s_escapes.getD cp none with
        | some (h, l) => [0x5C, 0x75, 0x30, 0x30, h, l]
        | none => [0x5C, 0x75, 0x30, 0x30]) := by
  intro cp h
  interval_cases cp
  all_goals first
    | exact ⟨⟨_, rfl, by decide⟩, rfl, rfl, rfl⟩
    | exact ⟨rfl, rfl, rfl, rfl⟩

theorem emitItem_quote : (emitItem 0x22).wf ∧ (emitItem 0x22).codepoint = 0x22 ∧
    (emitItem 0x22).text = [0x5C, 0x22] := ⟨rfl, rfl, rfl⟩

theorem emitItem_backslash : (emitItem 0x5C).wf ∧ (emitItem 0x5C).codepoint = 0x5C ∧
    (emitItem 0x5C).text = [0x5C, 0x5C] := ⟨rfl, rfl, rfl⟩

theorem c_escapes_plain (cp : Nat) (h1 : 0x20 ≤ cp) (h2 : cp ≠ 0x22) (h3 : cp ≠ 0x5C) :
    c_escapes cp = 0 := by
  unfold c_escapes
  split_ifs <;> omega

theorem emitItem_plain (cp : Nat) (h1 : 0x20 ≤ cp) (h2 : cp ≠ 0x22) (h3 : cp ≠ 0x5C) :
    emitItem cp = StrItem.char cp := by
  unfold emitItem
  rw [c_escapes_plain cp h1 h2 h3]
  simp only [ne_eq, not_true_eq_false, if_false]
  rw [if_neg (by omega)]

theorem emitItem_ok (cp : Nat) (hs : isScalarValue cp) :
    (emitItem cp).wf ∧ (emitItem cp).codepoint = cp := by
  by_cases h : cp < 0x20
  · exact ⟨(emitItem_control cp h).1, (emitItem_control cp h).2.1⟩
  by_cases h2 : cp = 0x22
  · subst h2; exact ⟨emitItem_quote.1, emitItem_quote.2.1⟩
  by_cases h3 : cp = 0x5C
  · subst h3; exact ⟨emitItem_backslash.1, emitItem_backslash.2.1⟩
  rw [emitItem_plain cp (by omega) h2 h3]
  exact ⟨⟨hs, by omega, h2, h3⟩, rfl⟩

theorem emitItems_ok (cps : List Nat) (hs : ∀ cp ∈ cps, isScalarValue cp) :
    (∀ it ∈ cps.map emitItem, it.wf) ∧ literalValue (cps.map emitItem) = utf8String cps := by
  induction cps with
  | nil => exact ⟨by simp, rfl⟩
  | cons cp cps ih =>
    obtain ⟨h1, h2⟩ := ih (fun x hx => hs x (List.mem_cons_of_mem _ hx))
    obtain ⟨w, c⟩ := emitItem_ok cp (hs cp (List.mem_cons_self _ _))
    refine ⟨?_, ?_⟩
    · intro it hit
      simp only [List.map_cons, List.mem_cons] at hit
      rcases hit with rfl | hit
      · exact w
      · exact h1 it hit
    · simp only [List.map_cons, literalValue, utf8String, c, h2]

theorem find_next_special_skip (s : List Nat) (count : Nat) (v : Bool) :
    ∀ (n k i : Nat),
      (∀ j, i ≤ j → j < i + n →
        ¬ (s.getD j 0 = 0x22 ∨ s.getD j 0 = 0x5C ∨ s.getD j 0 < 0x20 ∨
          (v = true ∧ s.getD j 0 ≥ 0x80))) →
      i + n ≤ count →
      find_next_special_loop s count v (k + n) i = find_next_special_loop s count v k (i + n) := by
  intro n
  induction n with
  | zero => intro k i _ _; rfl
  | succ n ih =>
    intro k i hp hc
    have h0 := hp i (le_refl _) (by omega)
    rw [← Nat.add_assoc]
    show (if i < count then
        (if s.getD i 0 = 0x22 ∨ s.getD i 0 = 0x5C ∨ s.getD i 0 < 0x20 ∨
            (v = true ∧ s.getD i 0 ≥ 0x80) then i
          else find_next_special_loop s count v (k + n) (i + 1))
      else i) = _
    rw [if_pos (by omega), if_neg h0, ih k (i + 1) (fun j h1 h2 => hp j (by omega) (by omega))
      (by omega)]
    congr 1; omega

theorem find_next_special_stop (s : List Nat) (count : Nat) (v : Bool) (k i : Nat)
    (h : i < count → (s.getD i 0 = 0x22 ∨ s.getD i 0 = 0x5C ∨ s.getD i 0 < 0x20 ∨
      (v = true ∧ s.getD i 0 ≥ 0x80))) :
    find_next_special_loop s count v k i = i := by
  cases k with
  | zero => rfl
  | succ k =>
    show (if i < count then
        (if s.getD i 0 = 0x22 ∨ s.getD i 0 = 0x5C ∨ s.getD i 0 < 0x20 ∨
            (v = true ∧ s.getD i 0 ≥ 0x80) then i
          else find_next_special_loop s count v k (i + 1))
      else i) = _
    by_cases hi : i < count
    · rw [if_pos hi, if_pos (h hi)]
    · rw [if_neg hi]

theorem find_next_special_at (v : Bool) (pre run suf : List Nat)
    (hrun : ∀ b ∈ run, ¬ (b = 0x22 ∨ b = 0x5C ∨ b < 0x20 ∨ (v = true ∧ b ≥ 0x80)))
    (hsuf : suf ≠ [] → (suf.headD 0 = 0x22 ∨ suf.headD 0 = 0x5C ∨ suf.headD 0 < 0x20 ∨
      (v = true ∧ suf.headD 0 ≥ 0x80))) :
    find_next_special (pre ++ (run ++ suf)) (pre ++ (run ++ suf)).length pre.length v =
      pre.length + run.length := by
  unfold find_next_special
  have hlen : (pre ++ (run ++ suf)).length - pre.length = suf.length + run.length := by
    simp only [List.length_append]; omega
  rw [hlen, find_next_special_skip _ _ v run.length suf.length pre.length]
  · apply find_next_special_stop
    intro hi
    rw [getD_append_right, ← Nat.add_zero run.length, getD_append_right, getD_zero_eq_headD]
    apply hsuf
    intro h
    rw [h] at hi
    simp only [List.length_append, List.length_nil] at hi
    omega
  · intro j h1 h2
    obtain ⟨i, rfl⟩ : ∃ i, j = pre.length + i := ⟨j - pre.length, by omega⟩
    rw [getD_append_right, getD_append_left _ _ _ (by omega)]
    apply hrun
    rw [List.getD_eq_getElem?_getD, List.getElem?_eq_getElem (by omega : i < run.length)]
    exact List.getElem_mem _
  · simp only [List.length_append]; omega

theorem jos_puts_puts (g : jgen) (a b : List Nat) :
    jos_puts (jos_puts g a) b = jos_puts g (a ++ b) := by
  simp [jos_puts, mos_puts, List.append_assoc]

theorem jos_puts_nil (g : jgen) : jos_puts g [] = g := by
  simp [jos_puts, mos_puts]

theorem utf8String_bytes (cps : List Nat) (hs : ∀ cp ∈ cps, isScalarValue cp) :
    ∀ b ∈ utf8String cps, b < 256 := by
  induction cps with
  | nil => intro b hb; simp [utf8String] at hb
  | cons cp cps ih =>
    intro b hb
    simp only [utf8String, List.mem_append] at hb
    rcases hb with hb | hb
    · exact utf8Encoding_bytes cp (hs cp (List.mem_cons_self _ _)) b hb
    · exact ih (fun x hx => hs x (List.mem_cons_of_mem _ hx)) b hb

theorem scan_step_end (s : List Nat) (count k pmos1 pmos2 : Nat) (g : jgen)
    (h : find_next_special s count pmos1 g.validate_utf8 = pmos2) (hc : ¬ count > pmos2) :
    jos_scan_escape_loop s count (k + 1) pmos1 g =
      (true, jos_puts g ((s.drop pmos1).take (pmos2 - pmos1))) := by
  subst h
  rw [jos_scan_escape_loop]
  simp only [hc, if_false]

theorem scan_step_utf8 (s : List Nat) (count k pmos1 pmos2 L : Nat) (g : jgen)
    (h : find_next_special s count pmos1 g.validate_utf8 = pmos2) (hc : count > pmos2)
    (hv : g.validate_utf8 = true ∧ s.getD pmos2 0 ≥ 0x80)
    (hL : utf8_validate_sequence (s.drop pmos2) (count - pmos2) = (L : Int)) :
    jos_scan_escape_loop s count (k + 1) pmos1 g =
      jos_scan_escape_loop s count k (pmos2 + L)
        (jos_puts (jos_puts g ((s.drop pmos1).take (pmos2 - pmos1))) ((s.drop pmos2).take L)) := by
  rw [jos_scan_escape_loop]
  have hne : (L : Int) ≠ -1 := by omega
  simp only [h, hc, if_true, eq_true hv, hL, hne, if_false, Int.toNat_ofNat]

theorem scan_step_escape (s : List Nat) (count k pmos1 pmos2 : Nat) (g : jgen)
    (h : find_next_special s count pmos1 g.validate_utf8 = pmos2) (hc : count > pmos2)
    (hv : ¬ (g.validate_utf8 = true ∧ s.getD pmos2 0 ≥ 0x80)) :
    jos_scan_escape_loop s count (k + 1) pmos1 g =
      jos_scan_escape_loop s count k (pmos2 + 1)
        (jos_puts (jos_puts g ((s.drop pmos1).take (pmos2 - pmos1)))
          (if c_escapes (s.getD pmos2 0) ≠ 0 then [0x5C, c_escapes (s.getD pmos2 0)]
           else match s_escapes.getD (s.getD pmos2 0) none with
             | some (h, l) => [0x5C, 0x75, 0x30, 0x30, h, l]
             | none => [0x5C, 0x75, 0x30, 0x30])) := by
  rw [jos_scan_escape_loop]
  simp only [h, hc, if_true, eq_false hv, if_false]
  congr 1
  split_ifs
  · rfl
  · generalize s_escapes.getD (s.getD pmos2 0) none = o
    rcases o with _ | ⟨h, l⟩ <;> rfl

theorem emitItem_special_text (cp : Nat) (h : cp < 0x20 ∨ cp = 0x22 ∨ cp = 0x5C) :
    (emitItem cp).text = (if c_escapes cp ≠ 0 then [0x5C, c_escapes cp]
      else match s_escapes.getD cp none with
        | some (h, l) => [0x5C, 0x75, 0x30, 0x30, h, l]
        | none => [0x5C, 0x75, 0x30, 0x30]) := by
  rcases h with h | rfl | rfl
  · exact (emitItem_control cp h).2.2.2
  · rfl
  · rfl

theorem drop_take_mid (pre run suf : List Nat) :
    ((pre ++ (run ++ suf)).drop pre.length).take (pre.length + run.length - pre.length) = run := by
  rw [List.drop_left' rfl, Nat.add_sub_cancel_left, List.take_left' rfl]

/-- The loop of `jos_scan_escape` on valid UTF-8: what it writes is the text of
the elements `emitItem` gives for the code points. -/
theorem jos_scan_escape_loop_ok (cps : List Nat) :
    ∀ (pre run : List Nat) (g : jgen) (k : Nat), (∀ cp ∈ cps, isScalarValue cp) →
      (∀ b ∈ run, ¬ (b = 0x22 ∨ b = 0x5C ∨ b < 0x20 ∨ (g.validate_utf8 = true ∧ b ≥ 0x80))) →
      cps.length + 1 ≤ k →
      jos_scan_escape_loop (pre ++ (run ++ utf8String cps)) (pre ++ (run ++ utf8String cps)).length
          k pre.length g =
        (true, jos_puts g (run ++ literalText (cps.map emitItem))) := by
  induction cps with
  | nil =>
    intro pre run g k _ hrun hk
    obtain ⟨k, rfl⟩ : ∃ k1, k = k1 + 1 := ⟨k - 1, by omega⟩
    have hf := find_next_special_at g.validate_utf8 pre run [] hrun (fun h => absurd rfl h)
    simp only [utf8String] at hf ⊢
    rw [scan_step_end _ _ k _ _ g hf (by simp), drop_take_mid]
    simp [literalText]
  | cons cp cps ih =>
    intro pre run g k hs hrun hk
    have hs1 := hs cp (List.mem_cons_self _ _)
    have hs2 : ∀ x ∈ cps, isScalarValue x := fun x hx => hs x (List.mem_cons_of_mem _ hx)
    simp only [List.length_cons] at hk
    simp only [utf8String, List.map_cons, literalText]
    by_cases hplain : 0x20 ≤ cp ∧ cp ≠ 0x22 ∧ cp ≠ 0x5C ∧ (g.validate_utf8 = true → cp < 0x80)
    · obtain ⟨h1, h2, h3, h4⟩ := hplain
      have hrun1 : ∀ b ∈ run ++ utf8Encoding cp,
          ¬ (b = 0x22 ∨ b = 0x5C ∨ b < 0x20 ∨ (g.validate_utf8 = true ∧ b ≥ 0x80)) := by
        intro b hb
        rcases List.mem_append.1 hb with hb | hb
        · exact hrun b hb
        · by_cases hc : cp < 0x80
          · have he : utf8Encoding cp = [cp] := by unfold utf8Encoding; rw [if_pos hc]
            rw [he, List.mem_singleton] at hb
            subst hb
            omega
          · have := utf8Encoding_high cp (by omega) b hb
            have hv : ¬ g.validate_utf8 = true := fun h => hc (h4 h)
            intro hcon
            rcases hcon with h | h | h | h
            · omega
            · omega
            · omega
            · exact hv h.1
      have := ih pre (run ++ utf8Encoding cp) g k hs2 hrun1 (by omega)
      simp only [List.append_assoc] at this
      rw [this, emitItem_plain cp h1 h2 h3]
      rfl
    · obtain ⟨k, rfl⟩ : ∃ k1, k = k1 + 1 := ⟨k - 1, by omega⟩
      obtain ⟨b, bs, hbs⟩ : ∃ b bs, utf8Encoding cp = b :: bs := by
        rcases h : utf8Encoding cp with _ | ⟨b, bs⟩
        · have := (utf8Encoding_length cp).1
          rw [h] at this; simp at this
        · exact ⟨b, bs, rfl⟩
      by_cases hc : cp < 0x80
      · have he : utf8Encoding cp = [cp] := by unfold utf8Encoding; rw [if_pos hc]
        have hsp : cp < 0x20 ∨ cp = 0x22 ∨ cp = 0x5C := by
          by_contra hn
          exact hplain ⟨by omega, by omega, by omega, fun _ => hc⟩
        have hf := find_next_special_at g.validate_utf8 pre run (utf8Encoding cp ++ utf8String cps)
          hrun (fun _ => by rw [he]; simp only [List.singleton_append, List.headD_cons]; omega)
        have hget : (pre ++ (run ++ (utf8Encoding cp ++ utf8String cps))).getD
            (pre.length + run.length) 0 = cp := by
          rw [getD_append_right, ← Nat.add_zero run.length, getD_append_right, he]; rfl
        rw [scan_step_escape _ _ k _ _ g hf (by simp [he]) (by rw [hget]; omega), drop_take_mid,
          hget, ← emitItem_special_text cp hsp]
        have := ih (pre ++ (run ++ utf8Encoding cp)) [] (jos_puts (jos_puts g run) (emitItem cp).text)
          k hs2 (by simp) (by omega)
        simp only [List.append_assoc, List.nil_append, List.length_append, he,
          List.length_singleton, Nat.add_assoc] at this ⊢
        rw [this, jos_puts_puts, jos_puts_puts]
      · have hhigh := utf8Encoding_high cp (by omega)
        have hv : g.validate_utf8 = true := by
          by_contra hn
          exact hplain ⟨by omega, by omega, by omega, fun h => absurd h hn⟩
        have hb80 : 0x80 ≤ b := hhigh b (by rw [hbs]; exact List.mem_cons_self _ _)
        have hf := find_next_special_at g.validate_utf8 pre run (utf8Encoding cp ++ utf8String cps)
          hrun (fun _ => by
            rw [hbs]; simp only [List.cons_append, List.headD_cons]
            exact Or.inr (Or.inr (Or.inr ⟨hv, hb80⟩)))
        have hget : (pre ++ (run ++ (utf8Encoding cp ++ utf8String cps))).getD
            (pre.length + run.length) 0 = b := by
          rw [getD_append_right, ← Nat.add_zero run.length, getD_append_right, hbs]; rfl
        have hdrop : (pre ++ (run ++ (utf8Encoding cp ++ utf8String cps))).drop
            (pre.length + run.length) = utf8Encoding cp ++ utf8String cps := by
          rw [← List.append_assoc]
          exact List.drop_left' (by simp)
        have hval : utf8_validate_sequence
            ((pre ++ (run ++ (utf8Encoding cp ++ utf8String cps))).drop (pre.length + run.length))
            ((pre ++ (run ++ (utf8Encoding cp ++ utf8String cps))).length -
              (pre.length + run.length)) = ((utf8Encoding cp).length : Int) := by
          rw [hdrop]
          apply utf8_validate_complete _ _ _ cp _ _ _ hs1 (List.take_left' rfl)
          · intro x hx
            rcases List.mem_append.1 hx with hx | hx
            · exact utf8Encoding_bytes cp hs1 x hx
            · exact utf8String_bytes cps hs2 x hx
          · simp only [List.length_append]; omega
          · simp only [List.length_append]; omega
        rw [scan_step_utf8 _ _ k _ _ _ g hf (by simp [hbs]) ⟨hv, by rw [hget]; exact hb80⟩ hval,
          drop_take_mid, hdrop, List.take_left' rfl]
        have := ih (pre ++ (run ++ utf8Encoding cp)) []
          (jos_puts (jos_puts g run) (utf8Encoding cp)) k hs2 (by simp) (by omega)
        simp only [List.append_assoc, List.nil_append, List.length_append, Nat.add_assoc] at this ⊢
        rw [this, jos_puts_puts, jos_puts_puts,
          emitItem_plain cp (by omega) (by omega) (by omega)]
        simp only [List.append_assoc, StrItem.text]

theorem utf8String_length (cps : List Nat) : cps.length ≤ (utf8String cps).length := by
  induction cps with
  | nil => simp
  | cons cp cps ih =>
    have := (utf8Encoding_length cp).1
    simp only [utf8String, List.length_cons, List.length_append]; omega

/-- The function `jos_scan_escape` on valid UTF-8 succeeds and writes the text of a
well-formed literal that denotes the string. -/
theorem jos_scan_escape_ok (g : jgen) (cps : List Nat) (hs : ∀ cp ∈ cps, isScalarValue cp) :
    jos_scan_escape g (utf8String cps) (utf8String cps).length =
      (true, jos_puts g (literalText (cps.map emitItem))) := by
  have h := jos_scan_escape_loop_ok cps [] [] g ((utf8String cps).length + 1) hs (by simp)
    (by have := utf8String_length cps; omega)
  simpa only [List.nil_append, List.length_nil] using h


/-! ### Escapes that fail -/

theorem Fails_throw {α : Type} (code : jsnpg_error_code) (p : parser) :
    Fails (throw_parse_error code p : Res α) code :=
  ⟨_, rfl, rfl, rfl⟩

theorem byte_at_ahead (p : parser) (i : Nat) : (ahead p.mis).getD i 0 = byte_at p i := by
  unfold ahead byte_at
  rw [List.getD_eq_getElem?_getD, List.getD_eq_getElem?_getD, List.getElem?_drop]

theorem hex_fail (p : parser) (k n c h : Nat) (hb : (ahead p.mis).getD k 0 = h)
    (hv : hexDigitValue h = none) :
    parse_hex4_loop (n + 1) c (advance p k) = throw_parse_error JSNPG_ERROR_ESCAPE (advance p k) := by
  rw [parse_hex4_loop]
  simp only [PM_bind_apply, peek_adv, hb]
  unfold hexDigitValue at hv
  split_ifs at hv with h1 h2 h3
  rw [if_neg (by omega), if_neg (by omega), if_neg (by omega)]

theorem parse_hex4_fail (p : parser) (k h1 h2 h3 h4 : Nat)
    (g1 : (ahead p.mis).getD k 0 = h1) (g2 : (ahead p.mis).getD (k + 1) 0 = h2)
    (g3 : (ahead p.mis).getD (k + 1 + 1) 0 = h3) (g4 : (ahead p.mis).getD (k + 1 + 1 + 1) 0 = h4)
    (hv : hex4Value h1 h2 h3 h4 = none) :
    Fails (parse_hex4 (advance p k)) JSNPG_ERROR_ESCAPE := by
  unfold parse_hex4
  rcases ha : hexDigitValue h1 with _ | a
  · rw [hex_fail p k 3 0 h1 g1 ha]; exact Fails_throw _ _
  have := hexDigitValue_lt _ _ ha
  rw [hex_step p k 3 0 h1 a g1 ha (by omega)]
  rcases hb : hexDigitValue h2 with _ | b
  · rw [hex_fail p (k + 1) 2 _ h2 g2 hb]; exact Fails_throw _ _
  have := hexDigitValue_lt _ _ hb
  rw [hex_step p (k + 1) 2 _ h2 b g2 hb (by omega)]
  rcases hc : hexDigitValue h3 with _ | c
  · rw [hex_fail p (k + 1 + 1) 1 _ h3 g3 hc]; exact Fails_throw _ _
  have := hexDigitValue_lt _ _ hc
  rw [hex_step p (k + 1 + 1) 1 _ h3 c g3 hc (by omega)]
  rcases hd : hexDigitValue h4 with _ | d
  · rw [hex_fail p (k + 1 + 1 + 1) 0 _ h4 g4 hd]; exact Fails_throw _ _
  · unfold hex4Value at hv
    rw [ha, hb, hc, hd] at hv
    cases hv


theorem parse_escape_high (p : parser) (v : Nat) (g1 : byte_at p 1 = 0x75)
    (hv : hex4Value (byte_at p 2) (byte_at p 3) (byte_at p 4) (byte_at p 5) = some v)
    (hr : 0xD800 ≤ v ∧ v ≤ 0xDBFF) :
    parse_escape p =
      if byte_at p 6 = 0x5C then
        if byte_at p 7 = 0x75 then
          (parse_hex4 >>= fun codepoint2 =>
            if codepoint2 < 0xDC00 ∨ codepoint2 > 0xDFFF then
              throw_parse_error JSNPG_ERROR_SURROGATE
            else
              pure (((((v - 0xD800) <<< 10) ||| (codepoint2 - 0xDC00)) + 0x10000) % 2 ^ 32))
            (advance p 8)
        else throw_parse_error JSNPG_ERROR_SURROGATE (advance p 7)
      else throw_parse_error JSNPG_ERROR_SURROGATE (advance p 6) := by
  have he : escape_table 0x75 = 0 := by decide
  have b := byte_at_ahead p
  unfold parse_escape
  conv_lhs => rw [← advance_zero p]
  simp only [PM_bind_apply, take_adv, peek_adv, Nat.zero_add, b, g1, he, ne_eq,
    not_true_eq_false, if_false, if_true]
  rw [parse_hex4_ok p 2 _ _ _ _ v (b 2) (b 3) (b 4) (b 5) hv]
  simp only [ge_iff_le, hr.1, (show v ≤ 0xDFFF by omega), and_self, if_true, hr.2,
    PM_bind_apply, consume_adv, b, Nat.reduceAdd, advance_advance]
  by_cases h6 : byte_at p 6 = 0x5C
  · by_cases h7 : byte_at p 7 = 0x75
    · simp only [h6, h7, if_true, consume_adv, b, PM_bind_apply, Nat.reduceAdd, Bool.and_self,
        Bool.not_true, Bool.false_eq_true, if_false]
    · simp only [h6, h7, if_true, consume_adv, b, PM_bind_apply, Nat.reduceAdd,
        Bool.and_false, Bool.not_false, if_false]
  · simp only [h6, if_false, Bool.false_eq_true, PM_pure_apply, PM_bind_apply, Bool.false_and,
      Bool.not_false, if_true]


end Jsnpg

namespace Jsnpg
open jsnpg_type jsnpg_error_code

/-! ### Exponents above the bound -/

theorem exponent_digits_loop_over (rest : List Nat) :
    ∀ (ds : List Nat), (∀ x ∈ ds, isDigit x) →
    ∀ (d fuel e0 : Nat) (mis : memory_input_stream),
      isDigit d → ahead mis = d :: (ds ++ rest) → ds.length + 1 ≤ fuel →
      1000 < e0 * 10 ^ (ds.length + 1) + decimalValue (d :: ds) →
      (exponent_digits_loop fuel (e0 : Int) (sub_zero d) mis).1 = none := by
  intro ds
  induction ds with
  | nil =>
    intro _ d fuel e0 mis hd ha hf hv
    obtain ⟨k, rfl⟩ : ∃ k, fuel = k + 1 := ⟨fuel - 1, by omega⟩
    have hz := sub_zero_digit d hd
    have hv1 : decimalValue [d] = d - 0x30 := by simp [decimalValue]
    simp only [hv1, List.length_nil, Nat.zero_add, pow_one] at hv
    rw [exponent_digits_loop]
    simp only []
    rw [hz.1, if_pos (by omega)]
  | cons d2 ds ih =>
    intro hds d fuel e0 mis hd ha hf hv
    obtain ⟨k, rfl⟩ : ∃ k, fuel = k + 1 := ⟨fuel - 1, by omega⟩
    simp only [List.cons_append] at ha
    obtain ⟨_, _, hat, hmt⟩ := ahead_eq_cons mis d (d2 :: (ds ++ rest)) ha
    have hd2 := hds d2 (List.mem_cons_self _ _)
    have hz := sub_zero_digit d hd
    rw [decimalValue_cons] at hv
    simp only [List.length_cons] at hv hf
    have hstep : (e0 * 10 + (d - 0x30)) * 10 ^ (ds.length + 1) + decimalValue (d2 :: ds) =
        e0 * 10 ^ (ds.length + 1 + 1) + ((d - 0x30) * 10 ^ (ds.length + 1) +
          decimalValue (d2 :: ds)) := by
      rw [pow_succ _ (ds.length + 1)]; ring
    rw [exponent_digits_loop]
    simp only []
    rw [hz.1]
    by_cases hover : (10 * (e0 : Int) + ((d - 48 : Nat) : Int)) > 1000
    · rw [if_pos hover]
    · rw [if_neg hover, mis_peek_eq, hat]
      simp only [List.headD_cons]
      rw [if_pos (sub_zero_digit d2 hd2).2]
      have e1 : (10 * (e0 : Int) + ((d - 48 : Nat) : Int)) =
          ((e0 * 10 + (d - 0x30) : Nat) : Int) := by
        push_cast; ring
      rw [e1]
      exact ih (fun x hx => hds x (List.mem_cons_of_mem _ hx)) d2 k _ _ hd2
        (by rw [hat]) (by omega) (by rw [hstep]; exact hv)

theorem parse_number_exponent_unsigned_over (p : parser) (k : Nat) (n : number_scan)
    (fd : Bool) (pre ds rest : List Nat) (m d : Nat) (hk : pre.length = k)
    (ha : ahead p.mis = pre ++ (m :: d :: (ds ++ rest)))
    (hd : isDigit d) (hds : ∀ x ∈ ds, isDigit x)
    (hc : n.c = sub_zero 0x65 ∨ n.c = sub_zero 0x45) (hv : 1000 < decimalValue (d :: ds)) :
    Fails (parse_number_exponent n fd (advance p k)) JSNPG_ERROR_NUMBER := by
  have ha1 : ahead p.mis = (pre ++ [m]) ++ (d :: (ds ++ rest)) := by rw [ha]; simp
  obtain ⟨h1, h2⟩ := loop_fuel_ok p (k + 1) (pre ++ [m]) (d :: (ds ++ rest))
    (by simp [hk]) (by omega) ha1
  have hz := sub_zero_digit d hd
  have hne : d ≠ 0x2D ∧ d ≠ 0x2B := by unfold isDigit at hd; omega
  have hl := exponent_digits_loop_over rest ds hds d
    ((advance p (k + 1)).mis.start.length + 1 - (advance p (k + 1)).mis.read)
    0 (advance p (k + 1)).mis hd h1
    (by simp only [List.length_cons, List.length_append] at h2; omega)
    (by rw [Nat.zero_mul, Nat.zero_add]; exact hv)
  rw [show ((0 : Nat) : Int) = 0 from rfl] at hl
  have gd : (ahead p.mis).getD (k + 1) 0 = d := by
    rw [ha1, show k + 1 = (pre ++ [m]).length by simp [hk], getD_append_length]; rfl
  unfold parse_number_exponent
  simp only [hc, if_true, PM_bind_apply, take_adv, peek_adv, PM_pure_apply,
    gd, hne.1, hne.2, or_self, if_false, ge_iff_le]
  rw [if_neg (by omega)]
  simp only [PM_bind_apply, on_mis_apply]
  generalize exponent_digits_loop _ 0 (sub_zero d) (advance p (k + 1)).mis = r at hl
  obtain ⟨r1, r2⟩ := r
  simp only at hl
  subst hl
  exact Fails_throw _ _

theorem parse_number_exponent_signed_over (p : parser) (k : Nat) (n : number_scan) (fd : Bool)
    (pre ds rest : List Nat) (m sg d : Nat) (hk : pre.length = k)
    (ha : ahead p.mis = pre ++ (m :: sg :: d :: (ds ++ rest)))
    (hsg : sg = 0x2B ∨ sg = 0x2D)
    (hd : isDigit d) (hds : ∀ x ∈ ds, isDigit x)
    (hc : n.c = sub_zero 0x65 ∨ n.c = sub_zero 0x45) (hv : 1000 < decimalValue (d :: ds)) :
    Fails (parse_number_exponent n fd (advance p k)) JSNPG_ERROR_NUMBER := by
  have ha1 : ahead p.mis = (pre ++ [m, sg]) ++ (d :: (ds ++ rest)) := by rw [ha]; simp
  have ha2 : ahead p.mis = (pre ++ [m]) ++ (sg :: d :: (ds ++ rest)) := by rw [ha]; simp
  obtain ⟨h1, h2⟩ := loop_fuel_ok p (k + 2) (pre ++ [m, sg]) (d :: (ds ++ rest))
    (by simp [hk]) (by omega) ha1
  have hz := sub_zero_digit d hd
  have hl := exponent_digits_loop_over rest ds hds d
    ((advance p (k + 2)).mis.start.length + 1 - (advance p (k + 2)).mis.read)
    0 (advance p (k + 2)).mis hd h1
    (by simp only [List.length_cons, List.length_append] at h2; omega)
    (by rw [Nat.zero_mul, Nat.zero_add]; exact hv)
  rw [show ((0 : Nat) : Int) = 0 from rfl] at hl
  have gs : (ahead p.mis).getD (k + 1) 0 = sg := by
    rw [ha2, show k + 1 = (pre ++ [m]).length by simp [hk], getD_append_length]; rfl
  have gd : (ahead p.mis).getD (k + 1 + 1) 0 = d := by
    rw [ha1, show k + 1 + 1 = (pre ++ [m, sg]).length by simp [hk], getD_append_length]; rfl
  have hsg' : sg = 45 ∨ sg = 43 := by omega
  unfold parse_number_exponent
  simp only [hc, if_true, PM_bind_apply, take_adv, peek_adv, PM_pure_apply,
    gs, hsg', gd, ge_iff_le]
  rw [if_neg (by omega)]
  simp only [PM_bind_apply, on_mis_apply]
  generalize exponent_digits_loop _ 0 (sub_zero d) (advance p (k + 1 + 1)).mis = r at hl
  obtain ⟨r1, r2⟩ := r
  simp only at hl
  subst hl
  exact Fails_throw _ _

theorem parse_number_exponent_over (p : parser) (k : Nat) (n : number_scan) (fd : Bool)
    (pre ms ds rest : List Nat) (d : Nat) (hk : pre.length = k) (hms : isExponentMark ms)
    (ha : ahead p.mis = pre ++ (ms ++ d :: (ds ++ rest)))
    (hd : isDigit d) (hds : ∀ x ∈ ds, isDigit x)
    (hc : n.c = sub_zero (ms.headD 0)) (hv : 1000 < decimalValue (d :: ds)) :
    Fails (parse_number_exponent n fd (advance p k)) JSNPG_ERROR_NUMBER := by
  rcases hms with h | h | h | h | h | h <;> subst h
  · exact parse_number_exponent_unsigned_over p k n fd pre ds rest _ d hk ha hd hds (Or.inl hc) hv
  · exact parse_number_exponent_unsigned_over p k n fd pre ds rest _ d hk ha hd hds (Or.inr hc) hv
  · exact parse_number_exponent_signed_over p k n fd pre ds rest _ _ d hk ha (Or.inl rfl) hd hds
      (Or.inl hc) hv
  · exact parse_number_exponent_signed_over p k n fd pre ds rest _ _ d hk ha (Or.inl rfl) hd hds
      (Or.inr hc) hv
  · exact parse_number_exponent_signed_over p k n fd pre ds rest _ _ d hk ha (Or.inr rfl) hd hds
      (Or.inl hc) hv
  · exact parse_number_exponent_signed_over p k n fd pre ds rest _ _ d hk ha (Or.inr rfl) hd hds
      (Or.inr hc) hv

/-- A failure of the exponent part is the failure of `parse_number`. -/
theorem Fails_bind {α β : Type} (m : PM α) (f : α → PM β) (p : parser)
    (code : jsnpg_error_code) (h : Fails (m p) code) : Fails ((m >>= f) p) code := by
  obtain ⟨p1, e1, e2, e3⟩ := h
  refine ⟨p1, ?_, e2, e3⟩
  simp only [PM_bind_apply, e1]

theorem parse_number_exponent_above (fp : FloatPrims) (p : parser) (neg : Bool)
    (ip : List Nat) (frac : Option (List Nat)) (ms eds : List Nat)
    (rest : List Nat) (hnum : isNumeral ip frac (some (ms, eds)))
    (ha : ahead p.mis = numeralText neg ip frac (some (ms, eds)) ++ rest)
    (hexp : 1000 < decimalValue eds) :
    Fails (parse_number fp p) JSNPG_ERROR_NUMBER := by
  obtain ⟨hip, hfrac, hexpg⟩ := hnum
  have hsl := sign_length neg
  obtain ⟨hms, hne1, hed⟩ := hexpg ms eds rfl
  obtain ⟨d2, ds2, rfl⟩ : ∃ d ds, eds = d :: ds := by
    cases eds with
    | nil => exact absurd rfl hne1
    | cons d ds => exact ⟨d, ds, rfl⟩
  obtain ⟨hmh, hmt⟩ := exponent_mark_head ms hms
  have htm : ¬ sub_zero ((ms ++ d2 :: (ds2 ++ rest)).headD 0) < 10 := by
    rw [hmt]; rcases hmh with h | h <;> rw [h] <;> decide
  rcases frac with _ | fds
  · simp only [numeralText, List.append_nil] at ha
    have ha' : ahead p.mis =
        (if neg then [0x2D] else []) ++ (ip ++ (ms ++ d2 :: (ds2 ++ rest))) := by
      rw [ha]; simp
    obtain ⟨n0, n1, e1, e2, hc, _, _⟩ :=
      parse_number_scan_integer p neg ip _ hip htm ha'
    rw [hmt] at hc
    have f1 : n1.c ≠ sub_zero 0x2E := by
      rw [hc]; rcases hmh with h | h <;> rw [h] <;> decide
    have he := parse_number_exponent_over p ((if neg then 1 else 0) + ip.length) n1
      false ((if neg then [0x2D] else []) ++ ip) ms ds2 rest d2 (by simp [hsl]) hms
      (by rw [ha]; simp) (hed d2 (List.mem_cons_self _ _))
      (fun x hx => hed x (List.mem_cons_of_mem _ hx)) hc hexp
    obtain ⟨p1, q1, q2, q3⟩ := he
    refine ⟨p1, ?_, q2, q3⟩
    unfold parse_number
    simp only [PM_bind_apply, get_mis_apply, e1, e2, parse_number_fraction_absent n1 false _ f1,
      q1]
  · obtain ⟨hne0, hfd⟩ := hfrac fds rfl
    obtain ⟨d, ds, rfl⟩ : ∃ d ds, fds = d :: ds := by
      cases fds with
      | nil => exact absurd rfl hne0
      | cons d ds => exact ⟨d, ds, rfl⟩
    simp only [numeralText, List.append_nil] at ha
    have ha' : ahead p.mis = (if neg then [0x2D] else []) ++
        (ip ++ (0x2E :: d :: (ds ++ (ms ++ d2 :: (ds2 ++ rest))))) := by
      rw [ha]; simp
    have hth : ¬ sub_zero ((0x2E :: d :: (ds ++ (ms ++ d2 :: (ds2 ++ rest)))).headD 0) < 10 := by
      simp only [List.headD_cons]; decide
    obtain ⟨n0, n1, e1, e2, hc, _, _⟩ :=
      parse_number_scan_integer p neg ip _ hip hth ha'
    obtain ⟨s, e, sd, hf⟩ := parse_number_fraction_present p ((if neg then 1 else 0) + ip.length)
      n1 false ((if neg then [0x2D] else []) ++ ip) ds (ms ++ d2 :: (ds2 ++ rest)) d
      (by simp [hsl]) (by rw [ha]; simp) (hfd d (List.mem_cons_self _ _))
      (fun x hx => hfd x (List.mem_cons_of_mem _ hx)) htm hc
    rw [hmt] at hf
    have he := parse_number_exponent_over p
      ((if neg then 1 else 0) + ip.length + (ds.length + 2))
      { sum := s, exponent := e, sig_digits := sd, c := sub_zero (ms.headD 0) }
      true ((if neg then [0x2D] else []) ++ ip ++ 0x2E :: d :: ds) ms ds2 rest d2
      (by simp [hsl]; omega) hms
      (by rw [ha]; simp) (hed d2 (List.mem_cons_self _ _))
      (fun x hx => hed x (List.mem_cons_of_mem _ hx)) rfl hexp
    obtain ⟨p1, q1, q2, q3⟩ := he
    refine ⟨p1, ?_, q2, q3⟩
    unfold parse_number
    simp only [PM_bind_apply, get_mis_apply, e1, e2, hf, q1]

end Jsnpg

namespace Jsnpg
open jsnpg_type jsnpg_error_code

theorem dom_new_eq (junk : Nat → Nat → Nat) :
    dom_new junk 0 =
      [jsnpg_dom.mk none (some 0) 40 8192 ((List.range 8192).map (fun i => junk 0 i % 256))] := by
  have h : dom_alloc_size ((0 + 40) % 2 ^ 64) = 8192 := by decide
  unfold dom_new dom_hdr_new
  simp only [sizeof_dom, h, List.nil_append, List.length_nil, List.getD_cons_zero,
    List.set_cons_zero]

theorem dom_record_nil (junk : Nat → Nat → Nat) : dom_record junk [] = dom_new junk 0 := rfl

theorem dom_pull_empty (junk : Nat → Nat → Nat) :
    dom_pull (dom_record junk []) = (some JSNPG_EOF, []) := by
  rw [dom_record_nil, dom_new_eq]
  rfl

theorem dom_parse_loop_false {σ : Type} (cb : callbacks σ) (heap : List jsnpg_dom) (k : Nat)
    (hdr : Option Nat) (offset : Nat) (g : generator σ) :
    dom_parse_loop cb heap k hdr offset false g = some (false, g) := by
  cases hdr with
  | none => cases k <;> rfl
  | some h => cases k <;> rfl

theorem dom_parse_step_ctx (heap : List jsnpg_dom) (hdr offset : Nat)
    (g : generator (List Event)) :
    ((dom_parse_step record_callbacks heap hdr offset g).2.2.1 = false ∧
      (dom_parse_step record_callbacks heap hdr offset g).2.2.2 = g) ∨
    ((dom_parse_step record_callbacks heap hdr offset g).2.2.1 = true ∧
      ∃ e, (dom_parse_step record_callbacks heap hdr offset g).2.2.2.ctx = g.ctx ++ [e]) := by
  unfold dom_parse_step
  simp only []
  generalize json_type_of_code (le_value (dom_load heap hdr offset 4)) = t
  rcases t with _ | t
  · left; split_ifs <;> exact ⟨rfl, rfl⟩
  · cases t
    all_goals first
      | (left; split_ifs <;> exact ⟨rfl, rfl⟩)
      | (right; split_ifs <;> exact ⟨rfl, _, rfl⟩)

theorem dom_parse_loop_succ {σ : Type} (cb : callbacks σ) (heap : List jsnpg_dom) (k hdr : Nat)
    (offset : Nat) (g : generator σ) :
    dom_parse_loop cb heap (k + 1) (some hdr) offset true g =
      dom_parse_loop cb heap k (dom_parse_step cb heap hdr offset g).1
        (dom_parse_step cb heap hdr offset g).2.1 (dom_parse_step cb heap hdr offset g).2.2.1
        (dom_parse_step cb heap hdr offset g).2.2.2 := rfl

theorem dom_parse_loop_mono (heap : List jsnpg_dom) :
    ∀ (k : Nat) (hdr : Option Nat) (offset : Nat) (ok : Bool) (g : generator (List Event))
      (r : Bool × generator (List Event)),
      dom_parse_loop record_callbacks heap k hdr offset ok g = some r →
      g.ctx.length ≤ r.2.ctx.length := by
  intro k
  induction k with
  | zero =>
    intro hdr offset ok g r h
    cases hdr with
    | none => cases h; exact le_refl _
    | some hd =>
      cases ok with
      | false => cases h; exact le_refl _
      | true => cases h
  | succ k ih =>
    intro hdr offset ok g r h
    cases hdr with
    | none => cases h; exact le_refl _
    | some hd =>
      cases ok with
      | false => rw [dom_parse_loop_false] at h; cases h; exact le_refl _
      | true =>
        rw [dom_parse_loop_succ] at h
        have h1 := ih _ _ _ _ _ h
        rcases dom_parse_step_ctx heap hd offset g with ⟨_, h2⟩ | ⟨_, e, h2⟩
        · rw [h2] at h1; exact h1
        · rw [h2] at h1; simp at h1; omega

theorem dom_error_return {σ : Type} (g : generator σ) :
    make_pg_error_return (jsnpg_parser_new_dom 0 0 0) g =
      make_error_return JSNPG_ERROR_UNEXPECTED 0 := rfl

/-- Whatever an event log holds, `dom_parse` does not return `eof` without
having delivered an event: its loop decodes a record of the root block before
it looks at the block's `count`. -/
theorem dom_replay_not_silent (heap : List jsnpg_dom) :
    dom_replay heap ≠
      some ({ type := JSNPG_EOF, position := 0, u := result_union.none }, []) := by
  intro h
  unfold dom_replay dom_parse at h
  have hp : (jsnpg_parser_new_dom 0 0 0).dom_info.hdr = some 0 := rfl
  rw [hp, dom_parse_loop_succ] at h
  rcases dom_parse_step_ctx heap 0 sizeof_dom (generator_new 0 0 []) with ⟨h1, h2⟩ | ⟨_, e, h2⟩
  · rw [h1, h2, dom_parse_loop_false] at h
    simp only [Bool.not_false, if_true, Option.some.injEq, Prod.mk.injEq, dom_error_return] at h
    exact absurd (congrArg jsnpg_result.type h.1) (by decide)
  · rcases hl : dom_parse_loop record_callbacks heap (List.map (fun d => d.size) heap).sum
        (dom_parse_step record_callbacks heap 0 sizeof_dom (generator_new 0 0 [])).1
        (dom_parse_step record_callbacks heap 0 sizeof_dom (generator_new 0 0 [])).2.1
        (dom_parse_step record_callbacks heap 0 sizeof_dom (generator_new 0 0 [])).2.2.1
        (dom_parse_step record_callbacks heap 0 sizeof_dom (generator_new 0 0 [])).2.2.2
      with _ | ⟨ok, g⟩
    · rw [hl] at h; cases h
    · have hm := dom_parse_loop_mono heap _ _ _ _ _ _ hl
      rw [h2] at hm
      rw [hl] at h
      cases ok with
      | false =>
        simp only [Bool.not_false, if_true, Option.some.injEq, Prod.mk.injEq,
          dom_error_return] at h
        exact absurd (congrArg jsnpg_result.type h.1) (by decide)
      | true =>
        simp only [Bool.not_true, Bool.false_eq_true, if_false, Option.some.injEq,
          Prod.mk.injEq] at h
        rw [h.2] at hm
        simp at hm

theorem dom_size_align_ge (n : Nat) (h1 : 0 < n) (h2 : n < 2 ^ 63) :
    n ≤ dom_size_align n ∧ dom_size_align n < n + 8 ∧ dom_size_align n % 8 = 0 := by
  unfold dom_size_align NODE_SIZE
  have e1 : (n + 2 ^ 64 - 1) % 2 ^ 64 = n - 1 := by omega
  rw [e1]
  omega

theorem dom_node_next_large (junk : Nat → Nat → Nat) (count : Nat) (h1 : 8136 < count)
    (h2 : count < 2 ^ 62) :
    ∃ d, dom_node_next junk (dom_new junk 0) 0 count =
      ((1, 40),
       [jsnpg_dom.mk (some 1) (some 1) 40 8192 ((List.range 8192).map (fun i => junk 0 i % 256)),
        d]) := by
  have hr := dom_size_align_ge ((count + 2 * NODE_SIZE) % 2 ^ 64) (by unfold NODE_SIZE; omega)
    (by unfold NODE_SIZE; omega)
  have hm : (count + 2 * NODE_SIZE) % 2 ^ 64 = count + 16 := by unfold NODE_SIZE; omega
  rw [hm] at hr
  unfold dom_node_next
  rw [dom_new_eq, hm]
  generalize (List.range 8192).map (fun i => junk 0 i % 256) = blk
  simp only [List.getD_cons_zero, Option.getD_some]
  rw [if_pos (by omega)]
  unfold dom_hdr_new
  simp only [List.length_singleton, List.singleton_append, List.set_cons_zero,
    List.getD_cons_zero, List.getD_cons_succ, List.set_cons_succ]
  exact ⟨_, rfl⟩

theorem range_map_slice (f : Nat → Nat) (n off k : Nat) (h : off + k ≤ n) :
    (((List.range n).map f).drop off).take k = (List.range k).map (fun i => f (off + i)) := by
  apply List.ext_getElem
  · simp; omega
  · intro i h1 h2
    simp

theorem dom_store_second (a d : jsnpg_dom) (offset : Nat) (bytes : List Nat) :
    ∃ d1, dom_store [a, d] 1 offset bytes = [a, d1] := ⟨_, rfl⟩

/-- A first string too long for the root block is stored in a second block; the
root block is left without a record. -/
theorem dom_record_large (junk : Nat → Nat → Nat) (bytes : List Nat) (h1 : 8136 < bytes.length)
    (h2 : bytes.length < 2 ^ 62) :
    ∃ d, dom_record junk [Event.string bytes] =
      [jsnpg_dom.mk (some 1) (some 1) 40 8192 ((List.range 8192).map (fun i => junk 0 i % 256)),
       d] := by
  obtain ⟨d, hd⟩ := dom_node_next_large junk bytes.length h1 h2
  show ∃ d, (dom_add_bytes junk (dom_new junk 0) 0 JSNPG_STRING bytes bytes.length).2 = _
  unfold dom_add_bytes dom_add_type
  rw [hd]
  generalize (List.range 8192).map (fun i => junk 0 i % 256) = blk
  simp only []
  obtain ⟨d1, e1⟩ := dom_store_second (jsnpg_dom.mk (some 1) (some 1) 40 8192 blk) d 40
    (le_bytes 4 (json_type_code JSNPG_STRING))
  rw [e1]
  obtain ⟨d2, e2⟩ := dom_store_second (jsnpg_dom.mk (some 1) (some 1) 40 8192 blk) d1
    (40 + NODE_SIZE) (le_bytes 8 bytes.length)
  rw [e2]
  exact dom_store_second _ _ _ _

/-- An event log whose root block holds zero bytes where the type of its first
record would be: `dom_parse` decodes type 0 there and fails. -/
theorem dom_replay_zero_root (nx cur : Option Nat) (size : Nat) (blk : List Nat)
    (rest : List jsnpg_dom) (hblk : (blk.drop 40).take 4 = [0, 0, 0, 0]) :
    dom_replay (jsnpg_dom.mk nx cur 40 size blk :: rest) =
      some (make_error_return JSNPG_ERROR_UNEXPECTED 0, []) := by
  have hload : dom_load (jsnpg_dom.mk nx cur 40 size blk :: rest) 0 sizeof_dom 4 =
      [0, 0, 0, 0] := hblk
  have hstep : ∀ g : generator (List Event), dom_parse_step record_callbacks
      (jsnpg_dom.mk nx cur 40 size blk :: rest) 0
      sizeof_dom g = (some 0, sizeof_dom + NODE_SIZE + NODE_SIZE, false, g) := by
    intro g
    unfold dom_parse_step
    rw [hload]
    rfl
  unfold dom_replay dom_parse
  have hp : (jsnpg_parser_new_dom 0 0 0).dom_info.hdr = some 0 := rfl
  rw [hp, dom_parse_loop_succ, hstep, dom_parse_loop_false]
  rfl

theorem zero_block_slice :
    (((List.range 8192).map (fun i => (fun _ _ => 0 : Nat → Nat → Nat) 0 i % 256)).drop 40).take 4 =
      [0, 0, 0, 0] := by
  rw [range_map_slice _ 8192 40 4 (by omega)]
  rfl

/-! ### Stores and loads in a block -/

theorem store_length (blk bytes : List Nat) (off : Nat) (h : off + bytes.length ≤ blk.length) :
    (blk.take off ++ bytes ++ blk.drop (off + bytes.length)).length = blk.length := by
  simp; omega

theorem slice_store_same (blk bytes : List Nat) (off : Nat)
    (h : off + bytes.length ≤ blk.length) :
    ((blk.take off ++ bytes ++ blk.drop (off + bytes.length)).drop off).take bytes.length =
      bytes := by
  have h1 : (blk.take off).length = off := by simp; omega
  rw [List.append_assoc, List.drop_append_eq_append_drop, h1]
  have h2 : (List.take off blk).drop off = [] := by
    apply List.drop_eq_nil_of_le; omega
  rw [h2]
  simp

theorem slice_store_other (blk bytes : List Nat) (off off2 n : Nat)
    (h : off + bytes.length ≤ blk.length)
    (hd : off2 + n ≤ off ∨ off + bytes.length ≤ off2) :
    ((blk.take off ++ bytes ++ blk.drop (off + bytes.length)).drop off2).take n =
      (blk.drop off2).take n := by
  apply List.ext_getElem?
  intro i
  simp only [List.getElem?_take, List.getElem?_drop, List.getElem?_append, List.length_take,
    List.length_append]
  by_cases hi : i < n
  · simp only [hi, if_true]
    rcases hd with hd | hd
    · have : off2 + i < min off blk.length := by omega
      have h3 : off2 + i < off := by omega
      simp [this, h3, List.getElem?_take]
      intro h4; omega
    · have h1 : ¬ off2 + i < min off blk.length + bytes.length := by omega
      have h2 : ¬ off2 + i < min off blk.length := by omega
      simp only [h1, h2, if_false]
      congr 1
      omega
  · simp [hi]

/-- Storing bytes at an offset of a list of bytes. -/
theorem dom_store_root (nx cur : Option Nat) (c size : Nat) (blk : List Nat)
    (rest : List jsnpg_dom) (offset : Nat) (bytes : List Nat) :
    dom_store (jsnpg_dom.mk nx cur c size blk :: rest) 0 offset bytes =
      jsnpg_dom.mk nx cur c size
        (blk.take offset ++ bytes ++ blk.drop (offset + bytes.length)) :: rest := rfl

theorem dom_node_next_fits (junk : Nat → Nat → Nat) (nx : Option Nat) (c size : Nat)
    (blk : List Nat) (rest : List jsnpg_dom) (cnt : Nat)
    (hfit : ¬ dom_size_align ((cnt + 2 * NODE_SIZE) % 2 ^ 64) > (size + 2 ^ 64 - c) % 2 ^ 64) :
    dom_node_next junk (jsnpg_dom.mk nx (some 0) c size blk :: rest) 0 cnt =
      ((0, c), jsnpg_dom.mk nx (some 0)
        ((c + dom_size_align ((cnt + 2 * NODE_SIZE) % 2 ^ 64)) % 2 ^ 64) size blk :: rest) := by
  unfold dom_node_next
  simp only [List.getD_cons_zero, Option.getD_some]
  rw [if_neg hfit]
  rfl

theorem dom_add_type_fits (junk : Nat → Nat → Nat) (nx : Option Nat) (c size : Nat)
    (blk : List Nat) (rest : List jsnpg_dom) (type : jsnpg_type) (cnt : Nat)
    (hfit : ¬ dom_size_align ((cnt + 2 * NODE_SIZE) % 2 ^ 64) > (size + 2 ^ 64 - c) % 2 ^ 64) :
    ∃ blk1, dom_add_type junk (jsnpg_dom.mk nx (some 0) c size blk :: rest) 0 type cnt =
      ((0, c + NODE_SIZE), jsnpg_dom.mk nx (some 0)
        ((c + dom_size_align ((cnt + 2 * NODE_SIZE) % 2 ^ 64)) % 2 ^ 64) size blk1 :: rest) ∧
      blk1 = (blk.take c ++ le_bytes 4 (json_type_code type) ++ blk.drop (c + 4)).take (c + 8) ++
        le_bytes 8 cnt ++
        (blk.take c ++ le_bytes 4 (json_type_code type) ++ blk.drop (c + 4)).drop (c + 8 + 8) := by
  unfold dom_add_type
  rw [dom_node_next_fits junk nx c size blk rest cnt hfit]
  simp only [dom_store_root]
  exact ⟨_, rfl, rfl⟩

theorem dom_record_null (junk : Nat → Nat → Nat) :
    ∃ blk, dom_record junk [Event.null] = [jsnpg_dom.mk none (some 0) 56 8192 blk] ∧
      (blk.drop 40).take 4 = [2, 0, 0, 0] := by
  have hrec : dom_record junk [Event.null] =
      (dom_add_type junk (dom_new junk 0) 0 JSNPG_NULL 0).2 := by
    generalize hh : dom_new junk 0 = heap
    simp only [dom_record, List.foldl, send_event, jsnpg_null, dom_callbacks, dom_generator,
      generator_new, hh]
  have hlen : ((List.range 8192).map (fun i => junk 0 i % 256)).length = 8192 := by
    rw [List.length_map, List.length_range]
  rw [hrec, dom_new_eq]
  generalize (List.range 8192).map (fun i => junk 0 i % 256) = blk at hlen
  have hreq : dom_size_align ((0 + 2 * NODE_SIZE) % 2 ^ 64) = 16 := by
    unfold dom_size_align NODE_SIZE; norm_num
  obtain ⟨blk1, h1, h2⟩ := dom_add_type_fits junk none 40 8192 blk [] JSNPG_NULL 0
    (by rw [hreq]; norm_num)
  rw [h1, hreq]
  refine ⟨blk1, rfl, ?_⟩
  have e4 : (le_bytes 4 (json_type_code JSNPG_NULL)) = [2, 0, 0, 0] := by decide
  have e8 : (le_bytes 8 0).length = 8 := by decide
  rw [e4] at h2
  generalize le_bytes 8 0 = b8 at e8 h2
  have hl1 : (List.take 40 blk ++ [2, 0, 0, 0] ++ List.drop (40 + 4) blk).length = 8192 := by
    rw [← hlen]; exact store_length blk [2, 0, 0, 0] 40 (by simp; omega)
  have h3 := slice_store_other (List.take 40 blk ++ [2, 0, 0, 0] ++ List.drop (40 + 4) blk) b8
    (40 + 8) 40 4 (by rw [hl1, e8]; omega) (Or.inl (by omega))
  rw [e8] at h3
  rw [h2, h3]
  exact slice_store_same blk [2, 0, 0, 0] 40 (by simp; omega)

/-- On an event log whose root block starts with a `null` record, a sink that
refuses `null` makes `dom_parse` return `unexpected` at position 0, whatever
the sink deposits in the generator. -/
theorem dom_parse_refused (code : jsnpg_error_code) (nx cur : Option Nat) (count size : Nat)
    (blk : List Nat) (rest : List jsnpg_dom) (hblk : (blk.drop 40).take 4 = [2, 0, 0, 0])
    (max_nesting allow : Nat) (g : generator (List Event)) :
    dom_parse (refuse_null_callbacks code) (jsnpg_dom.mk nx cur count size blk :: rest)
        (jsnpg_parser_new_dom max_nesting allow 0) g =
      some (make_error_return JSNPG_ERROR_UNEXPECTED 0, { g with error := code }) := by
  have hload : dom_load (jsnpg_dom.mk nx cur count size blk :: rest) 0 sizeof_dom 4 =
      [2, 0, 0, 0] := hblk
  have hstep : dom_parse_step (refuse_null_callbacks code)
      (jsnpg_dom.mk nx cur count size blk :: rest) 0
      sizeof_dom g = (some 0, sizeof_dom + NODE_SIZE + NODE_SIZE, false,
        { g with error := code }) := by
    have hcode : json_type_of_code (le_value [2, 0, 0, 0]) = some JSNPG_NULL := by decide
    have hnull : jsnpg_null (refuse_null_callbacks code) g = (false, { g with error := code }) :=
      rfl
    unfold dom_parse_step
    rw [hload]
    simp only [hcode, hnull, Bool.and_false, Bool.false_eq_true, if_false]
  unfold dom_parse
  have hp : (jsnpg_parser_new_dom max_nesting allow 0).dom_info.hdr = some 0 := rfl
  rw [hp, dom_parse_loop_succ, hstep, dom_parse_loop_false]
  rfl

/-- A parse of an event log that ends in an error ends in `unexpected` at
position 0: `dom_parse` never stores an error in the parser. -/
theorem dom_parse_error {σ : Type} (cb : callbacks σ) (heap : List jsnpg_dom)
    (max_nesting allow root : Nat) (g g1 : generator σ) (r : jsnpg_result)
    (h : dom_parse cb heap (jsnpg_parser_new_dom max_nesting allow root) g = some (r, g1))
    (hr : r.type = JSNPG_ERROR) : r = make_error_return JSNPG_ERROR_UNEXPECTED 0 := by
  unfold dom_parse at h
  generalize dom_parse_loop cb heap _ _ _ _ g = o at h
  rcases o with _ | ⟨ok, g2⟩
  · cases h
  · cases ok with
    | false =>
      simp only [Bool.not_false, if_true, Option.some.injEq, Prod.mk.injEq] at h
      rw [← h.1]; rfl
    | true =>
      simp only [Bool.not_true, Bool.false_eq_true, if_false, Option.some.injEq,
        Prod.mk.injEq] at h
      rw [← h.1] at hr
      cases hr


end Jsnpg

namespace Jsnpg

open jsnpg_type jsnpg_error_code

/-! ### Steps on a parser and a generator -/

theorem GM_bind_apply {σ α β : Type} (m : GM σ α) (f : α → GM σ β) (p : parser)
    (g : generator σ) :
    (m >>= f) p g = match m p g with
      | GRes.ok a p1 g1 => f a p1 g1
      | GRes.thrown p1 g1 => GRes.thrown p1 g1
      | GRes.aborted p1 g1 => GRes.aborted p1 g1 := rfl

theorem GM_pure_apply {σ α : Type} (a : α) (p : parser) (g : generator σ) :
    (pure a : GM σ α) p g = GRes.ok a p g := rfl

theorem liftP_apply {σ α : Type} (m : PM α) (p : parser) (g : generator σ) :
    (liftP m : GM σ α) p g = match m p with
      | Res.ok a p1 => GRes.ok a p1 g
      | Res.thrown p1 => GRes.thrown p1 g
      | Res.aborted p1 => GRes.aborted p1 g := rfl

theorem liftP_ok {σ α : Type} (m : PM α) (p p1 : parser) (a : α) (g : generator σ)
    (h : m p = Res.ok a p1) : (liftP m : GM σ α) p g = GRes.ok a p1 g := by
  rw [liftP_apply, h]

theorem emit_ok {σ : Type} (call : generator σ → Bool × generator σ) (p : parser)
    (g : generator σ) (h : (call g).1 = true) :
    emit_or_terminate call p g = GRes.ok () p (call g).2 := by
  unfold emit_or_terminate
  simp only [h, Bool.not_true, Bool.false_eq_true, if_false]

/-! ### Whitespace -/

theorem isWs_lt (b : Nat) (h : isWs b) : 0 < b ∧ b < 256 := by
  unfold isWs at h; omega

theorem ws_loop_ok (ws : List Nat) (hws : ∀ b ∈ ws, isWs b) :
    ∀ (rest : List Nat) (k : Nat) (mis : memory_input_stream), ahead mis = ws ++ rest →
      ¬ isWs (rest.headD 0) → ws.length ≤ k →
      mis_consume_whitespace_loop k mis =
        (rest.headD 0, { mis with read := mis.read + ws.length }) := by
  induction ws with
  | nil =>
    intro rest k mis ha hr _
    have hp : mis_peek mis = rest.headD 0 := by rw [mis_peek_eq, ha]; rfl
    have hc : ¬ (rest.headD 0 = 0x20 ∨ rest.headD 0 = 0x0A ∨ rest.headD 0 = 0x0D ∨
        rest.headD 0 = 0x09) := by
      unfold isWs at hr; omega
    cases k with
    | zero => simp only [mis_consume_whitespace_loop, hp]; rfl
    | succ k => simp only [mis_consume_whitespace_loop, hp, hc, if_false]; rfl
  | cons b ws ih =>
    intro rest k mis ha hr hk
    obtain ⟨k, rfl⟩ : ∃ k1, k = k1 + 1 := ⟨k - 1, by simp at hk; omega⟩
    have hb := hws b (List.mem_cons_self _ _)
    have hp : mis_peek mis = b := by rw [mis_peek_eq, ha]; rfl
    have hc : b = 0x20 ∨ b = 0x0A ∨ b = 0x0D ∨ b = 0x09 := by
      unfold isWs at hb; omega
    have ha1 : ahead (mis_take mis).2 = ws ++ rest := by rw [ahead_take, ha]; rfl
    simp only [mis_consume_whitespace_loop, hp, hc, if_true]
    rw [ih (fun x hx => hws x (List.mem_cons_of_mem _ hx)) rest k _ ha1 hr
      (by simp at hk; omega)]
    simp only [mis_take, List.length_cons, Nat.add_assoc, Nat.add_comm 1]

/-- Strict whitespace skipping over a run of whitespace: the byte that follows
is returned and left unread. -/
theorem consume_whitespace_ok (p : parser) (ws rest : List Nat) (hws : ∀ b ∈ ws, isWs b)
    (ha : ahead p.mis = ws ++ rest) (hr : ¬ isWs (rest.headD 0)) :
    consume_whitespace false p = Res.ok (rest.headD 0) (advance p ws.length) := by
  have hl := ahead_length p.mis
  rw [ha] at hl
  simp only [List.length_append] at hl
  show on_mis mis_consume_whitespace p = _
  rw [on_mis_apply]
  unfold mis_consume_whitespace
  rw [ws_loop_ok ws hws rest _ p.mis ha hr (by omega)]
  rfl

theorem consume_fails_ok (cs : List Nat) : ∀ (p : parser) (k : Nat) (rest : List Nat),
    (ahead p.mis).drop k = cs ++ rest →
    consume_fails cs (advance p k) = Res.ok false (advance p (k + cs.length)) := by
  induction cs with
  | nil => intro p k rest _; rfl
  | cons c cs ih =>
    intro p k rest ha
    have hg : (ahead p.mis).getD k 0 = c := by
      rw [List.getD_eq_getElem?_getD, ← List.head?_drop, ha]; rfl
    have ha1 : (ahead p.mis).drop (k + 1) = cs ++ rest := by
      rw [← List.drop_drop, ha]; rfl
    unfold consume_fails
    simp only [PM_bind_apply, consume_adv, hg, if_true, Bool.not_true, Bool.false_eq_true,
      if_false]
    rw [ih p (k + 1) rest ha1]
    simp only [List.length_cons, Nat.add_assoc, Nat.add_comm 1]

theorem parse_true_ok (p : parser) (rest : List Nat)
    (ha : ahead p.mis = [0x74, 0x72, 0x75, 0x65] ++ rest) :
    parse_true p = Res.ok () (advance p 4) := by
  unfold parse_true
  rw [← advance_zero p]
  simp only [PM_bind_apply, take_adv]
  rw [consume_fails_ok [0x72, 0x75, 0x65] p (0 + 1) rest (by rw [ha]; rfl)]
  rfl

theorem parse_false_ok (p : parser) (rest : List Nat)
    (ha : ahead p.mis = [0x66, 0x61, 0x6C, 0x73, 0x65] ++ rest) :
    parse_false p = Res.ok () (advance p 5) := by
  unfold parse_false
  rw [← advance_zero p]
  simp only [PM_bind_apply, take_adv]
  rw [consume_fails_ok [0x61, 0x6C, 0x73, 0x65] p (0 + 1) rest (by rw [ha]; rfl)]
  rfl

theorem parse_null_ok (p : parser) (rest : List Nat)
    (ha : ahead p.mis = [0x6E, 0x75, 0x6C, 0x6C] ++ rest) :
    parse_null p = Res.ok () (advance p 4) := by
  unfold parse_null
  rw [← advance_zero p]
  simp only [PM_bind_apply, take_adv]
  rw [consume_fails_ok [0x75, 0x6C, 0x6C] p (0 + 1) rest (by rw [ha]; rfl)]
  rfl

/-! ### The nesting stack -/

theorem one_and_shift (x j : Nat) : 1 &&& (x >>> j) = if x.testBit j then 1 else 0 := by
  rw [Nat.one_and_eq_mod_two, Nat.testBit_to_div_mod, Nat.shiftRight_eq_div_pow]
  by_cases h : x / 2 ^ j % 2 = 1
  · simp [h]
  · simp only [h, decide_False, Bool.false_eq_true, if_false]; omega

theorem byte_index (i : Nat) : i >>> 3 = i / 8 ∧ i &&& 0x07 = i % 8 :=
  ⟨Nat.shiftRight_eq_div_pow i 3, Nat.and_pow_two_sub_one_eq_mod i 3⟩

theorem stack_bit_le (s : stack) (i : Nat) : stack_bit s i = 0 ∨ stack_bit s i = 1 := by
  unfold stack_bit
  rw [one_and_shift]
  split_ifs
  · right; rfl
  · left; rfl

theorem testBit_lt_8 (j : Nat) (h : j < 8) : (0xFF : Nat).testBit j = true := by
  interval_cases j <;> rfl

/-- A push on a stack with room: the new level holds the type pushed and the
levels below are as before. -/
theorem stack_push_ok (s : stack) (t : Int) (hok : StackOk s) (hroom : s.ptr < s.size) :
    ∃ s1, stack_push s t = (0, s1) ∧ s1.ptr = s.ptr + 1 ∧ s1.size = s.size ∧
      s1.stack.length = s.stack.length ∧ (∀ i, i < s.ptr → stack_bit s1 i = stack_bit s i) ∧
      stack_bit s1 s.ptr = (if t = STACK_ARRAY then 1 else 0) := by
  obtain ⟨_, h8, h2048⟩ := hok
  have hoff : (s.ptr >>> 3) % 256 = s.ptr / 8 := by
    rw [(byte_index s.ptr).1]; omega
  have hj : s.ptr % 8 < 8 := Nat.mod_lt _ (by norm_num)
  have hmask : (1 <<< (s.ptr &&& 0x07)) % 256 = 2 ^ (s.ptr % 8) := by
    rw [(byte_index s.ptr).2, Nat.one_shiftLeft]
    apply Nat.mod_eq_of_lt
    calc 2 ^ (s.ptr % 8) < 2 ^ 8 := Nat.pow_lt_pow_right (by norm_num) hj
      _ = 256 := by norm_num
  have hlen : s.ptr / 8 < s.stack.length := by omega
  have hoff1 : s.ptr / 8 % 256 = s.ptr / 8 := by omega
  have hmask1 : (1 <<< (s.ptr % 8)) % 256 = 2 ^ (s.ptr % 8) := by
    rw [(byte_index s.ptr).2] at hmask; exact hmask
  refine ⟨{ s with
      stack := s.stack.set ((s.ptr >>> 3) % 256)
        (if t = STACK_ARRAY then
          s.stack.getD ((s.ptr >>> 3) % 256) 0 ||| (1 <<< (s.ptr &&& 0x07)) % 256
         else s.stack.getD ((s.ptr >>> 3) % 256) 0 &&&
          (0xFF ^^^ (1 <<< (s.ptr &&& 0x07)) % 256)),
      ptr := s.ptr + 1 }, ?_, rfl, rfl, ?_, ?_, ?_⟩
  · unfold stack_push
    simp only [ge_iff_le, not_le.2 hroom, if_false]
  · simp only [List.length_set]
  · intro i hi
    unfold stack_bit
    simp only [(byte_index i).1, (byte_index i).2, (byte_index s.ptr).1, (byte_index s.ptr).2,
      hoff1, hmask1]
    by_cases hb : i / 8 = s.ptr / 8
    · rw [hb, List.getD_eq_getElem?_getD, List.getD_eq_getElem?_getD,
        List.getElem?_set_self hlen, List.getElem?_eq_getElem hlen]
      simp only [Option.getD_some]
      have hne : s.ptr % 8 ≠ i % 8 := by omega
      rw [one_and_shift, one_and_shift]
      congr 1
      split_ifs
      · rw [Nat.testBit_or, Nat.testBit_two_pow]
        simp [hne]
      · rw [Nat.testBit_and, Nat.testBit_xor, Nat.testBit_two_pow,
          testBit_lt_8 _ (Nat.mod_lt _ (by norm_num))]
        simp [hne]
    · rw [List.getD_eq_getElem?_getD, List.getD_eq_getElem?_getD,
        List.getElem?_set_ne (fun h => hb h.symm), ← List.getD_eq_getElem?_getD]
  · unfold stack_bit
    simp only [(byte_index s.ptr).1, (byte_index s.ptr).2, hoff1, hmask1]
    rw [List.getD_eq_getElem?_getD, List.getElem?_set_self hlen]
    simp only [Option.getD_some]
    rw [one_and_shift]
    split_ifs with h1 h2 h2
    · rfl
    · rw [Nat.testBit_or, Nat.testBit_two_pow] at h2; simp at h2
    · rw [Nat.testBit_and, Nat.testBit_xor, Nat.testBit_two_pow, testBit_lt_8 _ hj] at h2
      simp at h2
    · rfl

/-- A pop of a stack that is not empty yields the type of the level below. -/
theorem stack_pop_ok (s : stack) (h : 0 < s.ptr) :
    stack_pop s = (stack_type_of { s with ptr := s.ptr - 1 }, { s with ptr := s.ptr - 1 }) ∧
      stack_type_of { s with ptr := s.ptr - 1 } ≠ -1 := by
  unfold stack_pop stack_type_of
  rw [if_neg (by omega)]
  by_cases h1 : s.ptr = 1
  · rw [if_pos h1]
    simp only [h1, Nat.sub_self, if_true]
    exact ⟨trivial, by decide⟩
  · rw [if_neg h1]
    simp only [show s.ptr - 1 ≠ 0 by omega, if_false]
    refine ⟨rfl, ?_⟩
    have := stack_bit_le { s with ptr := s.ptr - 1 } (s.ptr - 1 - 1)
    show ((stack_bit { s with ptr := s.ptr - 1 } (s.ptr - 1 - 1) : Nat) : Int) ≠ -1
    omega


/-! ### The steps of `parse_generate` in strict mode -/

theorem flag_set_zero (mask : Nat) : flag_set 0 mask = false := by
  unfold flag_set; simp

theorem pg_top_value (fp : FloatPrims) (b : Nat) (st : Int) (p : parser)
    (g : generator (List Event)) (hf : p.flags = 0) (hst : st ≠ STACK_OBJECT) :
    pg_top record_callbacks fp b st p g =
      pg_top_switch record_callbacks fp false false true b st p g := by
  unfold pg_top
  simp only [GM_bind_apply, liftP_apply, hf, flag_set_zero, Bool.not_false, hst, if_false]
  rfl

theorem pg_top_member (fp : FloatPrims) (b : Nat) (p : parser)
    (g : generator (List Event)) (hf : p.flags = 0) :
    pg_top record_callbacks fp b STACK_OBJECT p g =
      (pg_top_key record_callbacks false true b >>= fun y =>
        pg_top_switch record_callbacks fp false false true y STACK_OBJECT) p g := by
  unfold pg_top
  simp only [GM_bind_apply, liftP_apply, hf, flag_set_zero, Bool.not_false, if_true]

theorem pg_loop_top (fp : FloatPrims) (k b : Nat) (st : Int) (p : parser)
    (g : generator (List Event)) :
    pg_loop record_callbacks fp (k + 1) (pg_ctl.top b st) p g =
      (pg_top record_callbacks fp b st >>= pg_loop record_callbacks fp k) p g := rfl

theorem pg_loop_inner (fp : FloatPrims) (k : Nat) (st : Int) (p : parser)
    (g : generator (List Event)) :
    pg_loop record_callbacks fp (k + 1) (pg_ctl.inner st) p g =
      (pg_inner record_callbacks st >>= pg_loop record_callbacks fp k) p g := rfl

/-- A pass through the top of the loop outside an object is the `switch`. -/
theorem pg_loop_top_value (fp : FloatPrims) (k b : Nat) (st : Int) (p : parser)
    (g : generator (List Event)) (hf : p.flags = 0) (hst : st ≠ STACK_OBJECT) :
    pg_loop record_callbacks fp (k + 1) (pg_ctl.top b st) p g =
      (pg_top_switch record_callbacks fp false false true b st >>=
        pg_loop record_callbacks fp k) p g := by
  rw [pg_loop_top, GM_bind_apply, GM_bind_apply, pg_top_value fp b st p g hf hst]

theorem switch_null (fp : FloatPrims) (st : Int) (p : parser) (g : generator (List Event))
    (rest : List Nat) (ha : ahead p.mis = [0x6E, 0x75, 0x6C, 0x6C] ++ rest) :
    pg_top_switch record_callbacks fp false false true 0x6E st p g =
      GRes.ok (pg_ctl.inner st) (advance p 4) { g with ctx := g.ctx ++ [Event.null] } := by
  unfold pg_top_switch
  simp only [Nat.reduceEqDiff, if_false, if_true, GM_bind_apply, liftP_apply,
    parse_null_ok p rest ha]
  rfl

theorem switch_true (fp : FloatPrims) (st : Int) (p : parser) (g : generator (List Event))
    (rest : List Nat) (ha : ahead p.mis = [0x74, 0x72, 0x75, 0x65] ++ rest) :
    pg_top_switch record_callbacks fp false false true 0x74 st p g =
      GRes.ok (pg_ctl.inner st) (advance p 4)
        { g with ctx := g.ctx ++ [Event.boolean true] } := by
  unfold pg_top_switch
  simp only [Nat.reduceEqDiff, if_false, if_true, GM_bind_apply, liftP_apply,
    parse_true_ok p rest ha]
  rfl

theorem switch_false (fp : FloatPrims) (st : Int) (p : parser) (g : generator (List Event))
    (rest : List Nat) (ha : ahead p.mis = [0x66, 0x61, 0x6C, 0x73, 0x65] ++ rest) :
    pg_top_switch record_callbacks fp false false true 0x66 st p g =
      GRes.ok (pg_ctl.inner st) (advance p 5)
        { g with ctx := g.ctx ++ [Event.boolean false] } := by
  unfold pg_top_switch
  simp only [Nat.reduceEqDiff, if_false, if_true, GM_bind_apply, liftP_apply,
    parse_false_ok p rest ha]
  rfl

theorem switch_string (fp : FloatPrims) (st : Int) (p : parser) (g : generator (List Event))
    (items : List StrItem) (rest : List Nat) (hwf : ∀ it ∈ items, it.wf)
    (ha : ahead p.mis = 0x22 :: (literalText items ++ 0x22 :: rest))
    (hr : ∀ b ∈ rest, b < 256) :
    ∃ mis1, pg_top_switch record_callbacks fp false false true 0x22 st p g =
        GRes.ok (pg_ctl.inner st) { p with mis := mis1 }
          { g with ctx := g.ctx ++ [Event.string (literalValue items)] } ∧
      ahead mis1 = rest ∧ mis1.read = p.mis.read + ((literalText items).length + 2) ∧
      mis1.count = p.mis.count := by
  obtain ⟨mis1, h1, h2, _, _, _, h6, h7⟩ := parse_string_ok true p items rest hwf ha hr
  refine ⟨mis1, ?_, h2, h6, h7⟩
  unfold pg_top_switch
  simp only [Nat.reduceEqDiff, if_false, if_true, GM_bind_apply, liftP_apply, h1]
  rfl

theorem switch_number (fp : FloatPrims) (st : Int) (p : parser) (g : generator (List Event))
    (text : List Nat) (e : Event) (rest : List Nat) (hn : NumParses fp text e)
    (ha : ahead p.mis = text ++ rest) (hd : isDelim (rest.headD 0)) :
    pg_top_switch record_callbacks fp false false true (text.headD 0) st p g =
      GRes.ok (pg_ctl.inner st) (advance p text.length) { g with ctx := g.ctx ++ [e] } := by
  obtain ⟨hhead, hp⟩ := hn
  have hb : text.headD 0 ≠ 0x5B ∧ text.headD 0 ≠ 0x7B ∧ text.headD 0 ≠ 0x22 ∧
      text.headD 0 ≠ 0x74 ∧ text.headD 0 ≠ 0x66 ∧ text.headD 0 ≠ 0x6E := by omega
  obtain ⟨b1, b2, b3, b4, b5, b6⟩ := hb
  unfold pg_top_switch
  simp only [b1, b2, b3, b4, b5, b6, if_false, hhead, if_true, GM_bind_apply, liftP_apply]
  rcases hp with ⟨l, rfl, h⟩ | ⟨d, rfl, h⟩
  · rw [h p rest ha hd]; rfl
  · rw [h p rest ha hd]; rfl


/-! ### Parsers along a run -/

theorem Stepped_refl (p : parser) : Stepped p p 0 := ⟨rfl, rfl, rfl, rfl⟩

theorem Stepped_advance (p : parser) (k : Nat) : Stepped p (advance p k) k :=
  ⟨rfl, rfl, rfl, ahead_advance p k⟩

theorem Stepped_trans (p p1 p2 : parser) (a b : Nat) (h1 : Stepped p p1 a)
    (h2 : Stepped p1 p2 b) : Stepped p p2 (a + b) := by
  obtain ⟨f1, r1, c1, a1⟩ := h1
  obtain ⟨f2, r2, c2, a2⟩ := h2
  refine ⟨f2.trans f1, ?_, c2.trans c1, ?_⟩
  · rw [r2, r1]; omega
  · rw [a2, a1, List.drop_drop, Nat.add_comm]

theorem Stepped_stack (p p1 : parser) (k : Nat) (s : stack) (h : Stepped p p1 k) :
    Stepped p { p1 with stack := s } k := h

theorem Stepped_mis (p : parser) (mis1 : memory_input_stream) (k : Nat) (rest : List Nat)
    (ha : ahead mis1 = (ahead p.mis).drop k) (hr : mis1.read = p.mis.read + k)
    (hc : mis1.count = p.mis.count) : Stepped p { p with mis := mis1 } k :=
  ⟨rfl, hr, hc, ha⟩

theorem Stepped_ahead (p p1 : parser) (k : Nat) (pre rest : List Nat) (h : Stepped p p1 k)
    (ha : ahead p.mis = pre ++ rest) (hk : pre.length = k) : ahead p1.mis = rest := by
  rw [h.2.2.2, ha, ← hk]; simp

theorem StackSame_refl (s : stack) : StackSame s s := ⟨rfl, rfl, rfl, fun _ _ => rfl⟩

theorem StackOk_same (s s1 : stack) (h : StackSame s s1) (hok : StackOk s) : StackOk s1 := by
  obtain ⟨h1, h2, h3, _⟩ := h
  unfold StackOk at *
  rw [h1, h2, h3]; exact hok

theorem stack_type_same (s s1 : stack) (h : StackSame s s1) :
    stack_type_of s1 = stack_type_of s := by
  obtain ⟨h1, _, _, h4⟩ := h
  unfold stack_type_of
  rw [h1]
  by_cases h0 : s.ptr = 0
  · rw [if_pos h0, if_pos h0]
  · rw [if_neg h0, if_neg h0, h4 _ (by omega)]

theorem StackSame_trans (s s1 s2 : stack) (h1 : StackSame s s1) (h2 : StackSame s1 s2) :
    StackSame s s2 := by
  obtain ⟨a1, a2, a3, a4⟩ := h1
  obtain ⟨b1, b2, b3, b4⟩ := h2
  refine ⟨b1.trans a1, b2.trans a2, b3.trans a3, fun i hi => ?_⟩
  rw [b4 i (by rw [a1]; exact hi), a4 i hi]

/-- Opening an array when the nesting stack has room. -/
theorem parse_start_array_ok (p : parser) (hok : StackOk p.stack)
    (hroom : p.stack.ptr < p.stack.size) :
    ∃ s1, parse_start_array p = Res.ok STACK_ARRAY { advance p 1 with stack := s1 } ∧
      s1.ptr = p.stack.ptr + 1 ∧ s1.size = p.stack.size ∧
      s1.stack.length = p.stack.stack.length ∧
      (∀ i, i < p.stack.ptr → stack_bit s1 i = stack_bit p.stack i) ∧
      stack_bit s1 p.stack.ptr = 1 := by
  obtain ⟨s1, h1, h2, h3, h4, h5, h6⟩ := stack_push_ok p.stack STACK_ARRAY hok hroom
  refine ⟨s1, ?_, h2, h3, h4, h5, by rw [h6, if_pos rfl]⟩
  unfold parse_start_array
  simp only [PM_bind_apply, on_mis_apply]
  show (if (stack_push p.stack STACK_ARRAY).1 = -1 then _ else _) = _
  rw [h1]
  simp only [show (0 : Int) ≠ -1 by decide, if_false]
  rfl

/-- Opening an object when the nesting stack has room. -/
theorem parse_start_object_ok (p : parser) (hok : StackOk p.stack)
    (hroom : p.stack.ptr < p.stack.size) :
    ∃ s1, parse_start_object p = Res.ok STACK_OBJECT { advance p 1 with stack := s1 } ∧
      s1.ptr = p.stack.ptr + 1 ∧ s1.size = p.stack.size ∧
      s1.stack.length = p.stack.stack.length ∧
      (∀ i, i < p.stack.ptr → stack_bit s1 i = stack_bit p.stack i) ∧
      stack_bit s1 p.stack.ptr = 0 := by
  obtain ⟨s1, h1, h2, h3, h4, h5, h6⟩ := stack_push_ok p.stack STACK_OBJECT hok hroom
  refine ⟨s1, ?_, h2, h3, h4, h5, by rw [h6, if_neg (by decide)]⟩
  unfold parse_start_object
  simp only [PM_bind_apply, on_mis_apply]
  show (if (stack_push p.stack STACK_OBJECT).1 = -1 then _ else _) = _
  rw [h1]
  simp only [show (0 : Int) ≠ -1 by decide, if_false]
  rfl

theorem stack_push_full (s : stack) (t : Int) (h : ¬ s.ptr < s.size) :
    stack_push s t = (-1, s) := by
  unfold stack_push
  simp only [ge_iff_le, not_lt.1 h, if_true]

/-- Opening an array when the nesting stack is full. -/
theorem parse_start_array_full (p : parser) (h : ¬ p.stack.ptr < p.stack.size) :
    parse_start_array p =
      Res.thrown { advance p 1 with
        result := make_error_return JSNPG_ERROR_STACK_OVERFLOW (parse_position (advance p 1)) } := by
  unfold parse_start_array
  simp only [PM_bind_apply, on_mis_apply]
  show (if (stack_push p.stack STACK_ARRAY).1 = -1 then _ else _) = _
  rw [stack_push_full _ _ h]
  simp only [if_true]
  rfl

/-- Opening an object when the nesting stack is full. -/
theorem parse_start_object_full (p : parser) (h : ¬ p.stack.ptr < p.stack.size) :
    parse_start_object p =
      Res.thrown { advance p 1 with
        result := make_error_return JSNPG_ERROR_STACK_OVERFLOW (parse_position (advance p 1)) } := by
  unfold parse_start_object
  simp only [PM_bind_apply, on_mis_apply]
  show (if (stack_push p.stack STACK_OBJECT).1 = -1 then _ else _) = _
  rw [stack_push_full _ _ h]
  simp only [if_true]
  rfl

/-- Closing an array: the type of the enclosing container is returned. -/
theorem parse_end_array_ok (p : parser) (h : 0 < p.stack.ptr) :
    parse_end_array p =
      Res.ok (stack_type_of { p.stack with ptr := p.stack.ptr - 1 })
        { advance p 1 with stack := { p.stack with ptr := p.stack.ptr - 1 } } := by
  obtain ⟨h1, h2⟩ := stack_pop_ok p.stack h
  unfold parse_end_array
  simp only [PM_bind_apply, on_mis_apply]
  show (if (stack_pop p.stack).1 = -1 then _ else _) = _
  rw [h1]
  simp only [h2, if_false]
  rfl

/-- Closing an object: the type of the enclosing container is returned. -/
theorem parse_end_object_ok (p : parser) (h : 0 < p.stack.ptr) :
    parse_end_object p =
      Res.ok (stack_type_of { p.stack with ptr := p.stack.ptr - 1 })
        { advance p 1 with stack := { p.stack with ptr := p.stack.ptr - 1 } } := by
  obtain ⟨h1, h2⟩ := stack_pop_ok p.stack h
  unfold parse_end_object
  simp only [PM_bind_apply, on_mis_apply]
  show (if (stack_pop p.stack).1 = -1 then _ else _) = _
  rw [h1]
  simp only [h2, if_false]
  rfl

theorem GM_bind_ok {σ α β : Type} (m : GM σ α) (f : α → GM σ β) (p p1 : parser)
    (g g1 : generator σ) (a : α) (h : m p g = GRes.ok a p1 g1) : (m >>= f) p g = f a p1 g1 := by
  rw [GM_bind_apply, h]

theorem GM_bind_thrown {σ α β : Type} (m : GM σ α) (f : α → GM σ β) (p p1 : parser)
    (g g1 : generator σ) (h : m p g = GRes.thrown p1 g1) :
    (m >>= f) p g = GRes.thrown p1 g1 := by
  rw [GM_bind_apply, h]

theorem emit_start_array (p : parser) (g : generator (List Event)) :
    emit_or_terminate (jsnpg_start_array record_callbacks) p g =
      GRes.ok () p { g with ctx := g.ctx ++ [Event.start_array] } := rfl

theorem emit_end_array (p : parser) (g : generator (List Event)) :
    emit_or_terminate (jsnpg_end_array record_callbacks) p g =
      GRes.ok () p { g with ctx := g.ctx ++ [Event.end_array] } := rfl

theorem emit_start_object (p : parser) (g : generator (List Event)) :
    emit_or_terminate (jsnpg_start_object record_callbacks) p g =
      GRes.ok () p { g with ctx := g.ctx ++ [Event.start_object] } := rfl

theorem emit_end_object (p : parser) (g : generator (List Event)) :
    emit_or_terminate (jsnpg_end_object record_callbacks) p g =
      GRes.ok () p { g with ctx := g.ctx ++ [Event.end_object] } := rfl

theorem emit_key (p : parser) (g : generator (List Event)) (bytes : List Nat) (count : Nat) :
    emit_or_terminate (fun g => jsnpg_key record_callbacks g bytes count) p g =
      GRes.ok () p { g with ctx := g.ctx ++ [Event.key bytes] } := rfl

/-- Whitespace skipping as a step of `parse_generate`. -/
theorem ws_step (p : parser) (g : generator (List Event)) (ws rest : List Nat)
    (hws : ∀ b ∈ ws, isWs b) (ha : ahead p.mis = ws ++ rest) (hr : ¬ isWs (rest.headD 0)) :
    (liftP (consume_whitespace false) : GM (List Event) Nat) p g =
      GRes.ok (rest.headD 0) (advance p ws.length) g :=
  liftP_ok _ _ _ _ _ (consume_whitespace_ok p ws rest hws ha hr)

/-- Whitespace skipping where there is no whitespace. -/
theorem ws_step_none (p : parser) (g : generator (List Event)) (rest : List Nat)
    (ha : ahead p.mis = rest) (hr : ¬ isWs (rest.headD 0)) :
    (liftP (consume_whitespace false) : GM (List Event) Nat) p g =
      GRes.ok (rest.headD 0) p g :=
  ws_step p g [] rest (by simp) ha hr

theorem Pushed_ok (s s1 : stack) (bit : Nat) (h : Pushed s s1 bit) (hok : StackOk s)
    (hroom : s.ptr < s.size) : StackOk s1 := by
  obtain ⟨h1, h2, h3, _, _⟩ := h
  obtain ⟨_, a2, a3⟩ := hok
  exact ⟨by omega, by omega, by omega⟩

theorem Pushed_type (s s1 : stack) (bit : Nat) (h : Pushed s s1 bit) :
    stack_type_of s1 = (bit : Int) := by
  obtain ⟨h1, _, _, _, h5⟩ := h
  unfold stack_type_of
  rw [if_neg (by omega), h1, Nat.add_sub_cancel, h5]

/-- Popping what was pushed gives back the stack as it was. -/
theorem Pushed_pop (s s1 s2 : stack) (bit : Nat) (h : Pushed s s1 bit) (h2 : StackSame s1 s2) :
    StackSame s { s2 with ptr := s2.ptr - 1 } ∧ 0 < s2.ptr := by
  obtain ⟨a1, a2, a3, a4, _⟩ := h
  obtain ⟨b1, b2, b3, b4⟩ := h2
  refine ⟨⟨?_, ?_, ?_, ?_⟩, by omega⟩
  · show s2.ptr - 1 = s.ptr; omega
  · show s2.size = s.size; omega
  · show s2.stack.length = s.stack.length; omega
  · intro i hi
    show stack_bit s2 i = stack_bit s i
    rw [← a4 i hi]
    exact b4 i (by omega)

/-- The `switch` at `[` when the array is not empty and the stack has room. -/
theorem switch_array_open (fp : FloatPrims) (st : Int) (p : parser) (g : generator (List Event))
    (ws rest : List Nat) (ha : ahead p.mis = 0x5B :: (ws ++ rest)) (hws : ∀ b ∈ ws, isWs b)
    (hr : ¬ isWs (rest.headD 0)) (hne : rest.headD 0 ≠ 0x5D) (hok : StackOk p.stack)
    (hroom : p.stack.ptr < p.stack.size) :
    ∃ p1, pg_top_switch record_callbacks fp false false true 0x5B st p g =
        GRes.ok (pg_ctl.top (rest.headD 0) STACK_ARRAY) p1
          { g with ctx := g.ctx ++ [Event.start_array] } ∧
      Stepped p p1 (1 + ws.length) ∧ Pushed p.stack p1.stack 1 := by
  obtain ⟨s1, h1, hpush⟩ := parse_start_array_ok p hok hroom
  generalize hp1 : ({ advance p 1 with stack := s1 } : parser) = p1 at h1
  have hs1 : Stepped p p1 1 := by rw [← hp1]; exact Stepped_advance p 1
  have hst1 : p1.stack = s1 := by rw [← hp1]
  have ha1 : ahead p1.mis = ws ++ rest := Stepped_ahead p p1 1 [0x5B] _ hs1 ha rfl
  have ha2 : ahead (advance p1 ws.length).mis = rest := by
    rw [ahead_advance, ha1]; simp
  refine ⟨advance p1 ws.length, ?_,
    Stepped_trans _ _ _ _ _ hs1 (Stepped_advance _ ws.length), ?_⟩
  · unfold pg_top_switch
    rw [if_pos rfl, GM_bind_ok _ _ _ _ _ _ _ (liftP_ok _ _ _ _ _ h1),
      GM_bind_ok _ _ _ _ _ _ _ (emit_start_array _ _),
      GM_bind_ok _ _ _ _ _ _ _ (ws_step _ _ ws rest hws ha1 hr)]
    simp only [Bool.false_and, Bool.false_eq_true, if_false]
    rw [GM_bind_ok _ _ _ _ _ _ _ (GM_pure_apply _ _ _), if_neg hne,
      GM_bind_ok _ _ _ _ _ _ _ (ws_step_none _ _ rest ha2 hr)]
    rfl
  · show Pushed p.stack p1.stack 1
    rw [hst1]; exact hpush

/-- The `switch` at `[` of an empty array when the stack has room. -/
theorem switch_array_empty (fp : FloatPrims) (st : Int) (p : parser)
    (g : generator (List Event)) (ws rest : List Nat)
    (ha : ahead p.mis = 0x5B :: (ws ++ 0x5D :: rest)) (hws : ∀ b ∈ ws, isWs b)
    (hok : StackOk p.stack) (hroom : p.stack.ptr < p.stack.size) :
    ∃ p1, pg_top_switch record_callbacks fp false false true 0x5B st p g =
        GRes.ok (pg_ctl.inner (stack_type_of p.stack)) p1
          { g with ctx := g.ctx ++ [Event.start_array, Event.end_array] } ∧
      Stepped p p1 (ws.length + 2) ∧ StackSame p.stack p1.stack := by
  obtain ⟨s1, h1, hpush⟩ := parse_start_array_ok p hok hroom
  generalize hp1 : ({ advance p 1 with stack := s1 } : parser) = p1 at h1
  have hs1 : Stepped p p1 1 := by rw [← hp1]; exact Stepped_advance p 1
  have hst1 : p1.stack = s1 := by rw [← hp1]
  have ha1 : ahead p1.mis = ws ++ 0x5D :: rest := Stepped_ahead p p1 1 [0x5B] _ hs1 ha rfl
  have hr : ¬ isWs ((0x5D :: rest).headD 0) := by unfold isWs; simp
  have hpop := Pushed_pop p.stack s1 s1 1 hpush (StackSame_refl s1)
  have hptr : 0 < (advance p1 ws.length).stack.ptr := by
    show 0 < p1.stack.ptr; rw [hst1]; exact hpop.2
  have h2 := parse_end_array_ok (advance p1 ws.length) hptr
  generalize hp2 : ({ advance (advance p1 ws.length) 1 with
    stack := { (advance p1 ws.length).stack with ptr := (advance p1 ws.length).stack.ptr - 1 } }
      : parser) = p2 at h2
  have hst2 : p2.stack = { s1 with ptr := s1.ptr - 1 } := by rw [← hp2, ← hst1]; rfl
  have hs2 : Stepped (advance p1 ws.length) p2 1 := by
    rw [← hp2]; exact Stepped_stack _ _ _ _ (Stepped_advance _ 1)
  have hty : stack_type_of { (advance p1 ws.length).stack with
      ptr := (advance p1 ws.length).stack.ptr - 1 } = stack_type_of p.stack := by
    show stack_type_of { p1.stack with ptr := p1.stack.ptr - 1 } = _
    rw [hst1]; exact stack_type_same _ _ hpop.1
  rw [hty] at h2
  refine ⟨p2, ?_, ?_, ?_⟩
  · unfold pg_top_switch
    rw [if_pos rfl, GM_bind_ok _ _ _ _ _ _ _ (liftP_ok _ _ _ _ _ h1),
      GM_bind_ok _ _ _ _ _ _ _ (emit_start_array _ _),
      GM_bind_ok _ _ _ _ _ _ _ (ws_step _ _ ws _ hws ha1 hr)]
    simp only [Bool.false_and, Bool.false_eq_true, if_false, List.headD_cons]
    rw [GM_bind_ok _ _ _ _ _ _ _ (GM_pure_apply _ _ _), if_pos rfl,
      GM_bind_ok _ _ _ _ _ _ _ (liftP_ok _ _ _ _ _ h2),
      GM_bind_ok _ _ _ _ _ _ _ (emit_end_array _ _)]
    simp only [GM_pure_apply, List.append_assoc, List.singleton_append]
  · have := Stepped_trans _ _ _ _ _ (Stepped_trans _ _ _ _ _ hs1 (Stepped_advance _ ws.length)) hs2
    rw [show ws.length + 2 = 1 + ws.length + 1 by omega]
    exact this
  · rw [hst2]; exact hpop.1

/-- The `switch` at `[` when the nesting stack is full: the parse ends with the
error `stack overflow` and nothing is delivered. -/
theorem switch_array_full (fp : FloatPrims) (st : Int) (p : parser)
    (g : generator (List Event)) (hroom : ¬ p.stack.ptr < p.stack.size) :
    ∃ p1, pg_top_switch record_callbacks fp false false true 0x5B st p g = GRes.thrown p1 g ∧
      p1.result.type = JSNPG_ERROR ∧
      p1.result.u = result_union.error JSNPG_ERROR_STACK_OVERFLOW := by
  refine ⟨{ advance p 1 with
    result := make_error_return JSNPG_ERROR_STACK_OVERFLOW (parse_position (advance p 1)) },
    ?_, rfl, rfl⟩
  unfold pg_top_switch
  rw [if_pos rfl, GM_bind_thrown _ _ _ _ _ _
    (by rw [liftP_apply, parse_start_array_full p hroom])]

/-- The `switch` at `{` when the object is not empty and the stack has room. -/
theorem switch_object_open (fp : FloatPrims) (st : Int) (p : parser) (g : generator (List Event))
    (ws rest : List Nat) (ha : ahead p.mis = 0x7B :: (ws ++ rest)) (hws : ∀ b ∈ ws, isWs b)
    (hr : ¬ isWs (rest.headD 0)) (hne : rest.headD 0 ≠ 0x7D) (hok : StackOk p.stack)
    (hroom : p.stack.ptr < p.stack.size) :
    ∃ p1, pg_top_switch record_callbacks fp false false true 0x7B st p g =
        GRes.ok (pg_ctl.top (rest.headD 0) STACK_OBJECT) p1
          { g with ctx := g.ctx ++ [Event.start_object] } ∧
      Stepped p p1 (1 + ws.length) ∧ Pushed p.stack p1.stack 0 := by
  obtain ⟨s1, h1, hpush⟩ := parse_start_object_ok p hok hroom
  generalize hp1 : ({ advance p 1 with stack := s1 } : parser) = p1 at h1
  have hs1 : Stepped p p1 1 := by rw [← hp1]; exact Stepped_advance p 1
  have hst1 : p1.stack = s1 := by rw [← hp1]
  have ha1 : ahead p1.mis = ws ++ rest := Stepped_ahead p p1 1 [0x7B] _ hs1 ha rfl
  have ha2 : ahead (advance p1 ws.length).mis = rest := by
    rw [ahead_advance, ha1]; simp
  refine ⟨advance p1 ws.length, ?_,
    Stepped_trans _ _ _ _ _ hs1 (Stepped_advance _ ws.length), ?_⟩
  · unfold pg_top_switch
    rw [if_neg (by decide), if_pos rfl, GM_bind_ok _ _ _ _ _ _ _ (liftP_ok _ _ _ _ _ h1),
      GM_bind_ok _ _ _ _ _ _ _ (emit_start_object _ _),
      GM_bind_ok _ _ _ _ _ _ _ (ws_step _ _ ws rest hws ha1 hr)]
    simp only [Bool.false_and, Bool.false_eq_true, if_false]
    rw [GM_bind_ok _ _ _ _ _ _ _ (GM_pure_apply _ _ _), if_neg hne,
      GM_bind_ok _ _ _ _ _ _ _ (ws_step_none _ _ rest ha2 hr)]
    rfl
  · show Pushed p.stack p1.stack 0
    rw [hst1]; exact hpush

/-- The `switch` at `{` of an empty object when the stack has room. -/
theorem switch_object_empty (fp : FloatPrims) (st : Int) (p : parser)
    (g : generator (List Event)) (ws rest : List Nat)
    (ha : ahead p.mis = 0x7B :: (ws ++ 0x7D :: rest)) (hws : ∀ b ∈ ws, isWs b)
    (hok : StackOk p.stack) (hroom : p.stack.ptr < p.stack.size) :
    ∃ p1, pg_top_switch record_callbacks fp false false true 0x7B st p g =
        GRes.ok (pg_ctl.inner (stack_type_of p.stack)) p1
          { g with ctx := g.ctx ++ [Event.start_object, Event.end_object] } ∧
      Stepped p p1 (ws.length + 2) ∧ StackSame p.stack p1.stack := by
  obtain ⟨s1, h1, hpush⟩ := parse_start_object_ok p hok hroom
  generalize hp1 : ({ advance p 1 with stack := s1 } : parser) = p1 at h1
  have hs1 : Stepped p p1 1 := by rw [← hp1]; exact Stepped_advance p 1
  have hst1 : p1.stack = s1 := by rw [← hp1]
  have ha1 : ahead p1.mis = ws ++ 0x7D :: rest := Stepped_ahead p p1 1 [0x7B] _ hs1 ha rfl
  have hr : ¬ isWs ((0x7D :: rest).headD 0) := by unfold isWs; simp
  have hpop := Pushed_pop p.stack s1 s1 0 hpush (StackSame_refl s1)
  have hptr : 0 < (advance p1 ws.length).stack.ptr := by
    show 0 < p1.stack.ptr; rw [hst1]; exact hpop.2
  have h2 := parse_end_object_ok (advance p1 ws.length) hptr
  generalize hp2 : ({ advance (advance p1 ws.length) 1 with
    stack := { (advance p1 ws.length).stack with ptr := (advance p1 ws.length).stack.ptr - 1 } }
      : parser) = p2 at h2
  have hst2 : p2.stack = { s1 with ptr := s1.ptr - 1 } := by rw [← hp2, ← hst1]; rfl
  have hs2 : Stepped (advance p1 ws.length) p2 1 := by
    rw [← hp2]; exact Stepped_stack _ _ _ _ (Stepped_advance _ 1)
  have hty : stack_type_of { (advance p1 ws.length).stack with
      ptr := (advance p1 ws.length).stack.ptr - 1 } = stack_type_of p.stack := by
    show stack_type_of { p1.stack with ptr := p1.stack.ptr - 1 } = _
    rw [hst1]; exact stack_type_same _ _ hpop.1
  rw [hty] at h2
  refine ⟨p2, ?_, ?_, ?_⟩
  · unfold pg_top_switch
    rw [if_neg (by decide), if_pos rfl, GM_bind_ok _ _ _ _ _ _ _ (liftP_ok _ _ _ _ _ h1),
      GM_bind_ok _ _ _ _ _ _ _ (emit_start_object _ _),
      GM_bind_ok _ _ _ _ _ _ _ (ws_step _ _ ws _ hws ha1 hr)]
    simp only [Bool.false_and, Bool.false_eq_true, if_false, List.headD_cons]
    rw [GM_bind_ok _ _ _ _ _ _ _ (GM_pure_apply _ _ _), if_pos rfl,
      GM_bind_ok _ _ _ _ _ _ _ (liftP_ok _ _ _ _ _ h2),
      GM_bind_ok _ _ _ _ _ _ _ (emit_end_object _ _)]
    simp only [GM_pure_apply, List.append_assoc, List.singleton_append]
  · have := Stepped_trans _ _ _ _ _ (Stepped_trans _ _ _ _ _ hs1 (Stepped_advance _ ws.length)) hs2
    rw [show ws.length + 2 = 1 + ws.length + 1 by omega]
    exact this
  · rw [hst2]; exact hpop.1

/-- The `switch` at `{` when the nesting stack is full: the parse ends with the
error `stack overflow` and nothing is delivered. -/
theorem switch_object_full (fp : FloatPrims) (st : Int) (p : parser)
    (g : generator (List Event)) (hroom : ¬ p.stack.ptr < p.stack.size) :
    ∃ p1, pg_top_switch record_callbacks fp false false true 0x7B st p g = GRes.thrown p1 g ∧
      p1.result.type = JSNPG_ERROR ∧
      p1.result.u = result_union.error JSNPG_ERROR_STACK_OVERFLOW := by
  refine ⟨{ advance p 1 with
    result := make_error_return JSNPG_ERROR_STACK_OVERFLOW (parse_position (advance p 1)) },
    ?_, rfl, rfl⟩
  unfold pg_top_switch
  rw [if_neg (by decide), if_pos rfl, GM_bind_thrown _ _ _ _ _ _
    (by rw [liftP_apply, parse_start_object_full p hroom])]


theorem take_step (p : parser) (g : generator (List Event)) :
    (liftP (on_mis mis_take) : GM (List Event) Nat) p g =
      GRes.ok (mis_take p.mis).1 (advance p 1) g := rfl

/-- The inner loop at a comma: on to the next value. -/
theorem inner_comma (st : Int) (p : parser) (g : generator (List Event))
    (ws1 ws2 rest : List Nat) (hf : p.flags = 0)
    (ha : ahead p.mis = ws1 ++ 0x2C :: (ws2 ++ rest)) (hws1 : ∀ b ∈ ws1, isWs b)
    (hws2 : ∀ b ∈ ws2, isWs b) (hr : ¬ isWs (rest.headD 0)) :
    ∃ p1, pg_inner record_callbacks st p g = GRes.ok (pg_ctl.top (rest.headD 0) st) p1 g ∧
      Stepped p p1 (ws1.length + 1 + ws2.length) ∧ p1.stack = p.stack := by
  have hc : ¬ isWs ((0x2C :: (ws2 ++ rest)).headD 0) := by unfold isWs; simp
  have ha1 : ahead (advance p ws1.length).mis = 0x2C :: (ws2 ++ rest) := by
    rw [ahead_advance, ha]; simp
  have ha2 : ahead (advance (advance p ws1.length) 1).mis = ws2 ++ rest := by
    rw [ahead_advance, ha1]; rfl
  refine ⟨advance (advance (advance p ws1.length) 1) ws2.length, ?_,
    Stepped_trans _ _ _ _ _ (Stepped_trans _ _ _ _ _ (Stepped_advance _ _) (Stepped_advance _ _))
      (Stepped_advance _ _), rfl⟩
  unfold pg_inner
  rw [GM_bind_ok _ _ _ _ _ _ _ (liftP_ok (fun p => Res.ok p.flags p) p p p.flags g rfl), hf]
  simp only [flag_set_zero]
  rw [GM_bind_ok _ _ _ _ _ _ _ (ws_step _ _ ws1 _ hws1 ha hc)]
  simp only [List.headD_cons, if_true]
  rw [GM_bind_ok _ _ _ _ _ _ _ (take_step _ _),
    GM_bind_ok _ _ _ _ _ _ _ (ws_step _ _ ws2 rest hws2 ha2 hr)]
  simp only [Bool.false_and, Bool.not_false, GM_bind_apply, GM_pure_apply, if_true]

/-- The inner loop at the `]` that closes the array. -/
theorem inner_close_array (p : parser) (g : generator (List Event))
    (ws rest : List Nat) (hf : p.flags = 0)
    (ha : ahead p.mis = ws ++ 0x5D :: rest) (hws : ∀ b ∈ ws, isWs b) (hptr : 0 < p.stack.ptr) :
    ∃ p1, pg_inner record_callbacks STACK_ARRAY p g =
        GRes.ok (pg_ctl.inner (stack_type_of { p.stack with ptr := p.stack.ptr - 1 })) p1
          { g with ctx := g.ctx ++ [Event.end_array] } ∧
      Stepped p p1 (ws.length + 1) ∧ p1.stack = { p.stack with ptr := p.stack.ptr - 1 } := by
  have hc : ¬ isWs ((0x5D :: rest).headD 0) := by unfold isWs; simp
  have h2 := parse_end_array_ok (advance p ws.length) hptr
  generalize hp2 : ({ advance (advance p ws.length) 1 with
    stack := { (advance p ws.length).stack with ptr := (advance p ws.length).stack.ptr - 1 } }
      : parser) = p2 at h2
  have hs2 : Stepped (advance p ws.length) p2 1 := by
    rw [← hp2]; exact Stepped_stack _ _ _ _ (Stepped_advance _ 1)
  refine ⟨p2, ?_, Stepped_trans _ _ _ _ _ (Stepped_advance _ _) hs2, by rw [← hp2]; rfl⟩
  unfold pg_inner
  rw [GM_bind_ok _ _ _ _ _ _ _ (liftP_ok (fun p => Res.ok p.flags p) p p p.flags g rfl), hf]
  simp only [flag_set_zero]
  rw [GM_bind_ok _ _ _ _ _ _ _ (ws_step _ _ ws _ hws ha hc)]
  simp only [List.headD_cons, Nat.reduceEqDiff, if_false, GM_bind_apply, GM_pure_apply,
    Bool.false_eq_true, false_and, true_and, if_true, liftP_apply, h2]
  rfl

/-- The inner loop at the `}` that closes the object. -/
theorem inner_close_object (p : parser) (g : generator (List Event))
    (ws rest : List Nat) (hf : p.flags = 0)
    (ha : ahead p.mis = ws ++ 0x7D :: rest) (hws : ∀ b ∈ ws, isWs b) (hptr : 0 < p.stack.ptr) :
    ∃ p1, pg_inner record_callbacks STACK_OBJECT p g =
        GRes.ok (pg_ctl.inner (stack_type_of { p.stack with ptr := p.stack.ptr - 1 })) p1
          { g with ctx := g.ctx ++ [Event.end_object] } ∧
      Stepped p p1 (ws.length + 1) ∧ p1.stack = { p.stack with ptr := p.stack.ptr - 1 } := by
  have hc : ¬ isWs ((0x7D :: rest).headD 0) := by unfold isWs; simp
  have h2 := parse_end_object_ok (advance p ws.length) hptr
  generalize hp2 : ({ advance (advance p ws.length) 1 with
    stack := { (advance p ws.length).stack with ptr := (advance p ws.length).stack.ptr - 1 } }
      : parser) = p2 at h2
  have hs2 : Stepped (advance p ws.length) p2 1 := by
    rw [← hp2]; exact Stepped_stack _ _ _ _ (Stepped_advance _ 1)
  refine ⟨p2, ?_, Stepped_trans _ _ _ _ _ (Stepped_advance _ _) hs2, by rw [← hp2]; rfl⟩
  unfold pg_inner
  rw [GM_bind_ok _ _ _ _ _ _ _ (liftP_ok (fun p => Res.ok p.flags p) p p p.flags g rfl), hf]
  simp only [flag_set_zero]
  rw [GM_bind_ok _ _ _ _ _ _ _ (ws_step _ _ ws _ hws ha hc)]
  simp only [List.headD_cons, Nat.reduceEqDiff, if_false, GM_bind_apply, GM_pure_apply,
    Bool.false_eq_true, false_and, true_and, and_self, if_true, liftP_apply, h2]
  rfl

/-- The inner loop after the top-level value: the loop is left at the first
byte that is not whitespace, unless that is a comma. -/
theorem inner_finish (p : parser) (g : generator (List Event)) (ws rest : List Nat)
    (hf : p.flags = 0) (ha : ahead p.mis = ws ++ rest) (hws : ∀ b ∈ ws, isWs b)
    (hr : ¬ isWs (rest.headD 0)) (hc : rest.headD 0 ≠ 0x2C) :
    pg_inner record_callbacks STACK_NONE p g =
      GRes.ok pg_ctl.finished (advance p ws.length) g := by
  unfold pg_inner
  rw [GM_bind_ok _ _ _ _ _ _ _ (liftP_ok (fun p => Res.ok p.flags p) p p p.flags g rfl), hf]
  simp only [flag_set_zero]
  rw [GM_bind_ok _ _ _ _ _ _ _ (ws_step _ _ ws _ hws ha hr)]
  simp only [hc, if_false, GM_bind_apply, GM_pure_apply, Bool.false_eq_true,
    show STACK_NONE ≠ STACK_OBJECT by decide, show STACK_NONE ≠ STACK_ARRAY by decide,
    and_false, if_true]

/-- The key of a member and the colon after it. -/
theorem key_step (p : parser) (g : generator (List Event)) (key : List StrItem)
    (ws1 ws2 rest : List Nat) (hwf : ∀ it ∈ key, it.wf) (hws1 : ∀ b ∈ ws1, isWs b)
    (hws2 : ∀ b ∈ ws2, isWs b) (hr : ¬ isWs (rest.headD 0))
    (ha : ahead p.mis = 0x22 :: (literalText key ++ 0x22 :: (ws1 ++ 0x3A :: (ws2 ++ rest))))
    (hb : ∀ b ∈ rest, b < 256) :
    ∃ p1, pg_top_key record_callbacks false true 0x22 p g =
        GRes.ok (rest.headD 0) p1 { g with ctx := g.ctx ++ [Event.key (literalValue key)] } ∧
      Stepped p p1 ((literalText key).length + 2 + ws1.length + 1 + ws2.length) ∧
      p1.stack = p.stack := by
  have hb1 : ∀ b ∈ ws1 ++ 0x3A :: (ws2 ++ rest), b < 256 := by
    intro b h
    simp only [List.mem_append, List.mem_cons] at h
    rcases h with h | h | h | h
    · exact (isWs_lt b (hws1 b h)).2
    · omega
    · exact (isWs_lt b (hws2 b h)).2
    · exact hb b h
  obtain ⟨mis1, h1, h2, _, _, _, h6, h7⟩ := parse_string_ok true p key _ hwf ha hb1
  generalize hp1 : ({ p with mis := mis1 } : parser) = p1 at h1
  have hs1 : Stepped p p1 ((literalText key).length + 2) := by
    rw [← hp1]
    refine ⟨rfl, h6, h7, ?_⟩
    show ahead mis1 = _
    rw [h2, ha, show 0x22 :: (literalText key ++ 0x22 :: (ws1 ++ 0x3A :: (ws2 ++ rest))) =
      (0x22 :: (literalText key ++ [0x22])) ++ (ws1 ++ 0x3A :: (ws2 ++ rest)) by simp]
    rw [List.drop_left' (by simp)]
  have ha1 : ahead p1.mis = ws1 ++ 0x3A :: (ws2 ++ rest) := by rw [← hp1]; exact h2
  have hc : ¬ isWs ((0x3A :: (ws2 ++ rest)).headD 0) := by unfold isWs; simp
  have ha2 : ahead (advance (advance p1 ws1.length) 1).mis = ws2 ++ rest := by
    rw [ahead_advance, ahead_advance, ha1]; simp
  refine ⟨advance (advance (advance p1 ws1.length) 1) ws2.length, ?_, ?_, by rw [← hp1]; rfl⟩
  · unfold pg_top_key
    rw [if_neg (by simp), GM_bind_ok _ _ _ _ _ _ _ (liftP_ok _ _ _ _ _ h1),
      GM_bind_ok _ _ _ _ _ _ _ (ws_step _ _ ws1 _ hws1 ha1 hc)]
    simp only [List.headD_cons, ne_eq, not_true_eq_false, if_false]
    rw [GM_bind_ok _ _ _ _ _ _ _ (emit_key _ _ _ _),
      GM_bind_ok _ _ _ _ _ _ _ (take_step _ _)]
    exact ws_step _ _ ws2 rest hws2 ha2 hr
  · have := Stepped_trans _ _ _ _ _ (Stepped_trans _ _ _ _ _ (Stepped_trans _ _ _ _ _ hs1
      (Stepped_advance p1 ws1.length)) (Stepped_advance _ 1)) (Stepped_advance _ ws2.length)
    exact this


/-! ### Texts of the grammar -/

theorem headD_append_of_start (t x : List Nat) (h : isValueStart (t.headD 0)) :
    (t ++ x).headD 0 = t.headD 0 := by
  cases t with
  | nil => unfold isValueStart at h; simp at h
  | cons a t => rfl

theorem json_head (N : List Nat → Event → Prop) (fp : FloatPrims)
    (hN : ∀ text e, N text e → NumParses fp text e) :
    ∀ kind text evs d, Json N kind text evs d →
      isValueStart (text.headD 0) ∧ (kind = Kind.members → text.headD 0 = 0x22) := by
  intro kind text evs d h
  induction h with
  | null => exact ⟨by unfold isValueStart; simp, fun h => by cases h⟩
  | true_ => exact ⟨by unfold isValueStart; simp, fun h => by cases h⟩
  | false_ => exact ⟨by unfold isValueStart; simp, fun h => by cases h⟩
  | number text e hn =>
    have := (hN text e hn).1
    exact ⟨by unfold isValueStart; omega, fun h => by cases h⟩
  | string items _ => exact ⟨by unfold isValueStart; simp, fun h => by cases h⟩
  | empty_array ws _ => exact ⟨by unfold isValueStart; simp, fun h => by cases h⟩
  | array ws1 t evs d ws2 _ _ _ _ => exact ⟨by unfold isValueStart; simp, fun h => by cases h⟩
  | element t evs d _ ih => exact ⟨ih.1, fun h => by cases h⟩
  | elements t evs d ws1 ws2 t1 evs1 d1 _ _ _ _ ih _ =>
    exact ⟨by rw [headD_append_of_start _ _ ih.1]; exact ih.1, fun h => by cases h⟩
  | empty_object ws _ => exact ⟨by unfold isValueStart; simp, fun h => by cases h⟩
  | object ws1 t evs d ws2 _ _ _ _ => exact ⟨by unfold isValueStart; simp, fun h => by cases h⟩
  | member key ws1 ws2 t evs d _ _ _ _ _ =>
    exact ⟨by unfold isValueStart; simp, fun _ => rfl⟩
  | members key ws1 ws2 t evs d ws3 ws4 t1 evs1 d1 _ _ _ _ _ _ _ _ _ =>
    exact ⟨by unfold isValueStart; simp, fun _ => rfl⟩

theorem start_not_ws (b : Nat) (h : isValueStart b) :
    ¬ isWs b ∧ b ≠ 0x5D ∧ b ≠ 0x7D ∧ b ≠ 0x2C ∧ b ≠ 0x3A ∧ b ≠ 0 := by
  unfold isValueStart at h
  unfold isWs
  omega

theorem delim_cases (b : Nat) (h : isDelim b) : b < 256 ∧ ¬ isValueStart b ∧ b ≠ 0x3A ∧
    ¬ (0x30 ≤ b ∧ b ≤ 0x39) ∧ b ≠ 0x2E ∧ b ≠ 0x65 ∧ b ≠ 0x45 := by
  unfold isDelim isWs at h
  unfold isValueStart
  omega

/-! ### Events of the grammar and the room on the stack -/

theorem num_event (fp : FloatPrims) (text : List Nat) (e : Event) (h : NumParses fp text e)
    (room : Nat) (tail : List Event) :
    overflowPrefix room (e :: tail) = e :: overflowPrefix room tail := by
  rcases h.2 with ⟨l, rfl, _⟩ | ⟨d, rfl, _⟩ <;> rfl

theorem op_start_array (room : Nat) (es : List Event) :
    overflowPrefix (room + 1) (Event.start_array :: es) =
      Event.start_array :: overflowPrefix room es := by
  simp [overflowPrefix]

theorem op_start_object (room : Nat) (es : List Event) :
    overflowPrefix (room + 1) (Event.start_object :: es) =
      Event.start_object :: overflowPrefix room es := by
  simp [overflowPrefix]

theorem op_end_array (room : Nat) (es : List Event) :
    overflowPrefix room (Event.end_array :: es) = Event.end_array :: overflowPrefix (room + 1) es :=
  rfl

theorem op_end_object (room : Nat) (es : List Event) :
    overflowPrefix room (Event.end_object :: es) =
      Event.end_object :: overflowPrefix (room + 1) es := rfl

theorem op_key (room : Nat) (bytes : List Nat) (es : List Event) :
    overflowPrefix room (Event.key bytes :: es) = Event.key bytes :: overflowPrefix room es := rfl

theorem op_nil (room : Nat) : overflowPrefix room [] = [] := by
  cases room <;> rfl

/-- Events of a text that fits the room are all delivered, and what follows
them is treated with the same room. -/
theorem overflow_fits (N : List Nat → Event → Prop) (fp : FloatPrims)
    (hN : ∀ text e, N text e → NumParses fp text e) :
    ∀ kind text evs d, Json N kind text evs d → ∀ room tail, d ≤ room →
      overflowPrefix room (evs ++ tail) = evs ++ overflowPrefix room tail := by
  intro kind text evs d h
  induction h with
  | null => intro room tail _; rfl
  | true_ => intro room tail _; rfl
  | false_ => intro room tail _; rfl
  | number text e hn => intro room tail _; exact num_event fp text e (hN text e hn) room tail
  | string items _ => intro room tail _; rfl
  | empty_array ws _ =>
    intro room tail hd
    obtain ⟨r, rfl⟩ : ∃ r, room = r + 1 := ⟨room - 1, by omega⟩
    simp [overflowPrefix]
  | array ws1 t evs d ws2 _ _ _ ih =>
    intro room tail hd
    obtain ⟨r, rfl⟩ : ∃ r, room = r + 1 := ⟨room - 1, by omega⟩
    simp only [List.cons_append, List.append_assoc, List.singleton_append]
    rw [op_start_array, ih r _ (by omega), op_end_array]
    rfl
  | element t evs d _ ih => exact ih
  | elements t evs d ws1 ws2 t1 evs1 d1 _ _ _ _ ih ih1 =>
    intro room tail hd
    have h1 : d ≤ room := le_trans (le_max_left _ _) hd
    have h2 : d1 ≤ room := le_trans (le_max_right _ _) hd
    rw [List.append_assoc, ih room _ h1, ih1 room _ h2, List.append_assoc]
  | empty_object ws _ =>
    intro room tail hd
    obtain ⟨r, rfl⟩ : ∃ r, room = r + 1 := ⟨room - 1, by omega⟩
    simp [overflowPrefix]
  | object ws1 t evs d ws2 _ _ _ ih =>
    intro room tail hd
    obtain ⟨r, rfl⟩ : ∃ r, room = r + 1 := ⟨room - 1, by omega⟩
    simp only [List.cons_append, List.append_assoc, List.singleton_append]
    rw [op_start_object, ih r _ (by omega), op_end_object]
    rfl
  | member key ws1 ws2 t evs d _ _ _ _ ih =>
    intro room tail hd
    simp only [List.cons_append, op_key]
    rw [ih room _ hd]
  | members key ws1 ws2 t evs d ws3 ws4 t1 evs1 d1 _ _ _ _ _ _ _ ih ih1 =>
    intro room tail hd
    have h1 : d ≤ room := le_trans (le_max_left _ _) hd
    have h2 : d1 ≤ room := le_trans (le_max_right _ _) hd
    simp only [List.cons_append, List.append_assoc, op_key]
    rw [ih room _ h1, ih1 room _ h2]

/-- Events of a text that does not fit the room: what follows them is not
reached. -/
theorem overflow_cut (N : List Nat → Event → Prop) (fp : FloatPrims)
    (hN : ∀ text e, N text e → NumParses fp text e) :
    ∀ kind text evs d, Json N kind text evs d → ∀ room tail, room < d →
      overflowPrefix room (evs ++ tail) = overflowPrefix room evs := by
  intro kind text evs d h
  induction h with
  | null => intro room tail hd; omega
  | true_ => intro room tail hd; omega
  | false_ => intro room tail hd; omega
  | number text e hn => intro room tail hd; omega
  | string items _ => intro room tail hd; omega
  | empty_array ws _ =>
    intro room tail hd
    obtain rfl : room = 0 := by omega
    rfl
  | array ws1 t evs d ws2 _ _ hj ih =>
    intro room tail hd
    rcases room with _ | r
    · rfl
    · simp only [List.cons_append, List.append_assoc, List.singleton_append]
      rw [op_start_array, op_start_array, ih r _ (by omega), ih r _ (by omega)]
  | element t evs d _ ih => exact ih
  | elements t evs d ws1 ws2 t1 evs1 d1 hv _ _ he ih ih1 =>
    intro room tail hd
    by_cases h1 : room < d
    · rw [List.append_assoc, ih room _ h1, ih room _ h1]
    · have h2 : room < d1 := by
        rcases lt_max_iff.1 hd with h | h
        · exact absurd h h1
        · exact h
      rw [List.append_assoc, overflow_fits N fp hN _ _ _ _ hv room _ (by omega),
        overflow_fits N fp hN _ _ _ _ hv room _ (by omega), ih1 room _ h2]
  | empty_object ws _ =>
    intro room tail hd
    obtain rfl : room = 0 := by omega
    rfl
  | object ws1 t evs d ws2 _ _ hj ih =>
    intro room tail hd
    rcases room with _ | r
    · rfl
    · simp only [List.cons_append, List.append_assoc, List.singleton_append]
      rw [op_start_object, op_start_object, ih r _ (by omega), ih r _ (by omega)]
  | member key ws1 ws2 t evs d _ _ _ _ ih =>
    intro room tail hd
    simp only [List.cons_append, op_key]
    rw [ih room _ hd]
  | members key ws1 ws2 t evs d ws3 ws4 t1 evs1 d1 _ _ _ hv _ _ hm ih ih1 =>
    intro room tail hd
    simp only [List.cons_append, List.append_assoc, op_key]
    by_cases h1 : room < d
    · rw [ih room _ h1, ih room _ h1]
    · have h2 : room < d1 := by
        rcases lt_max_iff.1 hd with h | h
        · exact absurd h h1
        · exact h
      rw [overflow_fits N fp hN _ _ _ _ hv room _ (by omega),
        overflow_fits N fp hN _ _ _ _ hv room _ (by omega), ih1 room _ h2]


end Jsnpg

namespace Jsnpg
open jsnpg_type jsnpg_error_code parse_state

/-! ### A comma before a closing bracket -/

/-- The inner loop of the push parser at a comma, whatever follows it: the
comma and the whitespace around it are consumed. -/
theorem inner_comma_any (st : Int) (p : parser) (g : generator (List Event))
    (ws1 ws2 rest : List Nat) (hc : flag_set p.flags JSNPG_ALLOW_COMMENTS = false)
    (ha : ahead p.mis = ws1 ++ 0x2C :: (ws2 ++ rest)) (hws1 : ∀ b ∈ ws1, isWs b)
    (hws2 : ∀ b ∈ ws2, isWs b) (hr : ¬ isWs (rest.headD 0)) :
    pg_inner record_callbacks st p g =
      (if !(flag_set p.flags JSNPG_ALLOW_TRAILING_COMMAS &&
            (decide (rest.headD 0 = 0x7D) || decide (rest.headD 0 = 0x5D))) then
          (pure (pg_ctl.top (rest.headD 0) st) : GM (List Event) pg_ctl)
        else if rest.headD 0 = 0x7D ∧ st = STACK_OBJECT then do
          let stack_type ← liftP parse_end_object
          emit_or_terminate (jsnpg_end_object record_callbacks)
          pure (pg_ctl.inner stack_type)
        else if rest.headD 0 = 0x5D ∧ st = STACK_ARRAY then do
          let stack_type ← liftP parse_end_array
          emit_or_terminate (jsnpg_end_array record_callbacks)
          pure (pg_ctl.inner stack_type)
        else if st = STACK_NONE then pure pg_ctl.finished
        else liftP (throw_parse_error JSNPG_ERROR_UNEXPECTED))
        (advance p (ws1.length + 1 + ws2.length)) g := by
  have hcm : ¬ isWs ((0x2C :: (ws2 ++ rest)).headD 0) := by unfold isWs; simp
  have ha1 : ahead (advance p ws1.length).mis = 0x2C :: (ws2 ++ rest) := by
    rw [ahead_advance, ha]; simp
  have ha2 : ahead (advance (advance p ws1.length) 1).mis = ws2 ++ rest := by
    rw [ahead_advance, ha1]; rfl
  unfold pg_inner
  rw [GM_bind_ok _ _ _ _ _ _ _ (liftP_ok (fun p => Res.ok p.flags p) p p p.flags g rfl)]
  simp only [hc]
  rw [GM_bind_ok _ _ _ _ _ _ _ (ws_step _ _ ws1 _ hws1 ha hcm)]
  simp only [List.headD_cons, if_true]
  rw [GM_bind_ok _ _ _ _ _ _ _ (take_step _ _),
    GM_bind_ok _ _ _ _ _ _ _ (ws_step _ _ ws2 rest hws2 ha2 hr)]
  simp only [advance_advance]
  rfl

/-- The top of the push parser's loop at `]` outside an object: `unexpected`. -/
theorem top_close_array (fp : FloatPrims) (st : Int) (p : parser) (g : generator (List Event))
    (hst : st ≠ STACK_OBJECT) :
    pg_top record_callbacks fp 0x5D st p g =
      GRes.thrown
        { p with result := make_error_return JSNPG_ERROR_UNEXPECTED (parse_position p) } g := by
  unfold pg_top pg_top_switch
  simp only [GM_bind_apply, liftP_apply, hst, if_false, GM_pure_apply, Nat.reduceEqDiff,
    Nat.reduceLeDiff, false_and, or_self]
  rfl

/-- The top of the push parser's loop at `}` inside an object: `expected_key`. -/
theorem top_close_object (fp : FloatPrims) (p : parser) (g : generator (List Event)) :
    pg_top record_callbacks fp 0x7D STACK_OBJECT p g =
      GRes.thrown
        { p with result := make_error_return JSNPG_ERROR_EXPECTED_KEY (parse_position p) } g := by
  unfold pg_top pg_top_key
  simp only [GM_bind_apply, liftP_apply, if_true, ne_eq, Nat.reduceEqDiff, not_false_eq_true]
  rfl

/-- The pull parser after an element of an array, at a comma: the comma and
the whitespace around it are consumed. -/
theorem pull_array_comma (fp : FloatPrims) (p : parser) (ws1 ws2 rest : List Nat)
    (hc : flag_set p.flags JSNPG_ALLOW_COMMENTS = false) (hs : p.state = STATE_ARRAY_VALUE)
    (ha : ahead p.mis = ws1 ++ 0x2C :: (ws2 ++ rest)) (hws1 : ∀ b ∈ ws1, isWs b)
    (hws2 : ∀ b ∈ ws2, isWs b) (hr : ¬ isWs (rest.headD 0)) :
    parse_next fp p =
      (if !flag_set p.flags JSNPG_ALLOW_TRAILING_COMMAS then
          parse_next_value fp (!flag_set p.flags JSNPG_ALLOW_INVALID_UTF8_IN) (rest.headD 0)
        else parse_next_array fp (!flag_set p.flags JSNPG_ALLOW_INVALID_UTF8_IN) (rest.headD 0))
        (advance p (ws1.length + 1 + ws2.length)) := by
  have hcm : ¬ isWs ((0x2C :: (ws2 ++ rest)).headD 0) := by unfold isWs; simp
  have ha1 : ahead (advance p ws1.length).mis = 0x2C :: (ws2 ++ rest) := by
    rw [ahead_advance, ha]; simp
  have ha2 : ahead (advance (advance p ws1.length) 1).mis = ws2 ++ rest := by
    rw [ahead_advance, ha1]; rfl
  have hf1 : (advance p ws1.length).flags = p.flags := rfl
  unfold parse_next
  simp only [PM_bind_apply, hc, hs, consume_whitespace_ok p ws1 _ hws1 ha hcm,
    List.headD_cons]
  rw [if_neg (by decide)]
  unfold parse_next_switch
  simp only [PM_bind_apply, hf1, hc, Nat.reduceEqDiff, if_false, if_true]
  rw [show on_mis mis_take (advance p ws1.length) =
    Res.ok (mis_take (advance p ws1.length).mis).1 (advance (advance p ws1.length) 1) from rfl]
  simp only [advance_advance] at ha2 ⊢
  simp only [consume_whitespace_ok _ ws2 rest hws2 ha2 hr, advance_advance]

/-- The pull parser after a member of an object, at a comma. -/
theorem pull_object_comma (fp : FloatPrims) (p : parser) (ws1 ws2 rest : List Nat)
    (hc : flag_set p.flags JSNPG_ALLOW_COMMENTS = false) (hs : p.state = STATE_KEY_VALUE)
    (ha : ahead p.mis = ws1 ++ 0x2C :: (ws2 ++ rest)) (hws1 : ∀ b ∈ ws1, isWs b)
    (hws2 : ∀ b ∈ ws2, isWs b) (hr : ¬ isWs (rest.headD 0)) :
    parse_next fp p =
      (if !flag_set p.flags JSNPG_ALLOW_TRAILING_COMMAS then
          parse_next_object_comma false (!flag_set p.flags JSNPG_ALLOW_INVALID_UTF8_IN)
            (rest.headD 0)
        else parse_next_object false (!flag_set p.flags JSNPG_ALLOW_INVALID_UTF8_IN)
          (rest.headD 0))
        (advance p (ws1.length + 1 + ws2.length)) := by
  have hcm : ¬ isWs ((0x2C :: (ws2 ++ rest)).headD 0) := by unfold isWs; simp
  have ha1 : ahead (advance p ws1.length).mis = 0x2C :: (ws2 ++ rest) := by
    rw [ahead_advance, ha]; simp
  have ha2 : ahead (advance (advance p ws1.length) 1).mis = ws2 ++ rest := by
    rw [ahead_advance, ha1]; rfl
  have hf1 : (advance p ws1.length).flags = p.flags := rfl
  unfold parse_next
  simp only [PM_bind_apply, hc, hs, consume_whitespace_ok p ws1 _ hws1 ha hcm,
    List.headD_cons]
  rw [if_neg (by decide)]
  unfold parse_next_switch
  simp only [PM_bind_apply, hf1, hc, Nat.reduceEqDiff, if_false, if_true]
  rw [show on_mis mis_take (advance p ws1.length) =
    Res.ok (mis_take (advance p ws1.length).mis).1 (advance (advance p ws1.length) 1) from rfl]
  simp only [advance_advance] at ha2 ⊢
  simp only [consume_whitespace_ok _ ws2 rest hws2 ha2 hr, advance_advance]

/-- With `trailing_commas` set, the push parser's inner loop takes a comma
before the `]` that closes the array and closes the array. -/
theorem push_trailing_array (p : parser) (g : generator (List Event))
    (ws1 ws2 rest : List Nat) (hc : flag_set p.flags JSNPG_ALLOW_COMMENTS = false)
    (ht : flag_set p.flags JSNPG_ALLOW_TRAILING_COMMAS = true)
    (ha : ahead p.mis = ws1 ++ 0x2C :: (ws2 ++ 0x5D :: rest)) (hws1 : ∀ b ∈ ws1, isWs b)
    (hws2 : ∀ b ∈ ws2, isWs b) (hptr : 0 < p.stack.ptr) :
    ∃ p1, pg_inner record_callbacks STACK_ARRAY p g =
        GRes.ok (pg_ctl.inner (stack_type_of { p.stack with ptr := p.stack.ptr - 1 })) p1
          (deliver g [Event.end_array]) ∧
      Stepped p p1 (ws1.length + 1 + ws2.length + 1) ∧
      p1.stack = { p.stack with ptr := p.stack.ptr - 1 } := by
  have hr : ¬ isWs ((0x5D :: rest).headD 0) := by unfold isWs; simp
  have h2 := parse_end_array_ok (advance p (ws1.length + 1 + ws2.length)) hptr
  generalize hp2 : ({ advance (advance p (ws1.length + 1 + ws2.length)) 1 with
    stack := { (advance p (ws1.length + 1 + ws2.length)).stack with
      ptr := (advance p (ws1.length + 1 + ws2.length)).stack.ptr - 1 } } : parser) = p2 at h2
  have hs2 : Stepped (advance p (ws1.length + 1 + ws2.length)) p2 1 := by
    rw [← hp2]; exact Stepped_stack _ _ _ _ (Stepped_advance _ 1)
  refine ⟨p2, ?_, Stepped_trans _ _ _ _ _ (Stepped_advance _ _) hs2, by rw [← hp2]; rfl⟩
  rw [inner_comma_any STACK_ARRAY p g ws1 ws2 _ hc ha hws1 hws2 hr]
  simp only [ht, List.headD_cons, Nat.reduceEqDiff, decide_False, decide_True, Bool.false_or,
    Bool.and_self, Bool.not_true, Bool.false_eq_true, if_false, false_and, true_and, if_true,
    GM_bind_apply, liftP_apply, h2]
  rfl

/-- With `trailing_commas` set, the push parser's inner loop takes a comma
before the `}` that closes the object and closes the object. -/
theorem push_trailing_object (p : parser) (g : generator (List Event))
    (ws1 ws2 rest : List Nat) (hc : flag_set p.flags JSNPG_ALLOW_COMMENTS = false)
    (ht : flag_set p.flags JSNPG_ALLOW_TRAILING_COMMAS = true)
    (ha : ahead p.mis = ws1 ++ 0x2C :: (ws2 ++ 0x7D :: rest)) (hws1 : ∀ b ∈ ws1, isWs b)
    (hws2 : ∀ b ∈ ws2, isWs b) (hptr : 0 < p.stack.ptr) :
    ∃ p1, pg_inner record_callbacks STACK_OBJECT p g =
        GRes.ok (pg_ctl.inner (stack_type_of { p.stack with ptr := p.stack.ptr - 1 })) p1
          (deliver g [Event.end_object]) ∧
      Stepped p p1 (ws1.length + 1 + ws2.length + 1) ∧
      p1.stack = { p.stack with ptr := p.stack.ptr - 1 } := by
  have hr : ¬ isWs ((0x7D :: rest).headD 0) := by unfold isWs; simp
  have h2 := parse_end_object_ok (advance p (ws1.length + 1 + ws2.length)) hptr
  generalize hp2 : ({ advance (advance p (ws1.length + 1 + ws2.length)) 1 with
    stack := { (advance p (ws1.length + 1 + ws2.length)).stack with
      ptr := (advance p (ws1.length + 1 + ws2.length)).stack.ptr - 1 } } : parser) = p2 at h2
  have hs2 : Stepped (advance p (ws1.length + 1 + ws2.length)) p2 1 := by
    rw [← hp2]; exact Stepped_stack _ _ _ _ (Stepped_advance _ 1)
  refine ⟨p2, ?_, Stepped_trans _ _ _ _ _ (Stepped_advance _ _) hs2, by rw [← hp2]; rfl⟩
  rw [inner_comma_any STACK_OBJECT p g ws1 ws2 _ hc ha hws1 hws2 hr]
  simp only [ht, List.headD_cons, decide_True, Bool.true_or,
    Bool.and_self, Bool.not_true, Bool.false_eq_true, if_false, true_and, if_true,
    GM_bind_apply, liftP_apply, h2]
  rfl

/-- With `trailing_commas` cleared, the push parser fails with `unexpected` at a
`]` that follows a comma. -/
theorem push_strict_array (fp : FloatPrims) (p : parser) (g : generator (List Event))
    (ws1 ws2 rest : List Nat) (hc : flag_set p.flags JSNPG_ALLOW_COMMENTS = false)
    (ht : flag_set p.flags JSNPG_ALLOW_TRAILING_COMMAS = false)
    (ha : ahead p.mis = ws1 ++ 0x2C :: (ws2 ++ 0x5D :: rest)) (hws1 : ∀ b ∈ ws1, isWs b)
    (hws2 : ∀ b ∈ ws2, isWs b) (k : Nat) :
    ∃ p1, pg_loop record_callbacks fp (k + 2) (pg_ctl.inner STACK_ARRAY) p g =
        GRes.thrown p1 g ∧ p1.result.type = JSNPG_ERROR ∧
      p1.result.u = result_union.error JSNPG_ERROR_UNEXPECTED := by
  have hr : ¬ isWs ((0x5D :: rest).headD 0) := by unfold isWs; simp
  generalize hq : advance p (ws1.length + 1 + ws2.length) = q
  refine ⟨{ q with result := make_error_return JSNPG_ERROR_UNEXPECTED (parse_position q) },
    ?_, rfl, rfl⟩
  subst hq
  rw [pg_loop_inner, GM_bind_apply, inner_comma_any STACK_ARRAY p g ws1 ws2 _ hc ha hws1 hws2 hr]
  simp only [ht, Bool.false_and, Bool.not_false, if_true, GM_pure_apply, List.headD_cons]
  rw [pg_loop_top, GM_bind_apply, top_close_array fp STACK_ARRAY _ g (by decide)]

/-- With `trailing_commas` cleared, the push parser fails with `expected_key`
at a `}` that follows a comma. -/
theorem push_strict_object (fp : FloatPrims) (p : parser) (g : generator (List Event))
    (ws1 ws2 rest : List Nat) (hc : flag_set p.flags JSNPG_ALLOW_COMMENTS = false)
    (ht : flag_set p.flags JSNPG_ALLOW_TRAILING_COMMAS = false)
    (ha : ahead p.mis = ws1 ++ 0x2C :: (ws2 ++ 0x7D :: rest)) (hws1 : ∀ b ∈ ws1, isWs b)
    (hws2 : ∀ b ∈ ws2, isWs b) (k : Nat) :
    ∃ p1, pg_loop record_callbacks fp (k + 2) (pg_ctl.inner STACK_OBJECT) p g =
        GRes.thrown p1 g ∧ p1.result.type = JSNPG_ERROR ∧
      p1.result.u = result_union.error JSNPG_ERROR_EXPECTED_KEY := by
  have hr : ¬ isWs ((0x7D :: rest).headD 0) := by unfold isWs; simp
  generalize hq : advance p (ws1.length + 1 + ws2.length) = q
  refine ⟨{ q with result := make_error_return JSNPG_ERROR_EXPECTED_KEY (parse_position q) },
    ?_, rfl, rfl⟩
  subst hq
  rw [pg_loop_inner, GM_bind_apply, inner_comma_any STACK_OBJECT p g ws1 ws2 _ hc ha hws1 hws2 hr]
  simp only [ht, Bool.false_and, Bool.not_false, if_true, GM_pure_apply, List.headD_cons]
  rw [pg_loop_top, GM_bind_apply, top_close_object fp _ g]

/-- With `trailing_commas` set, the pull parser after an element takes a comma
before the `]` that closes the array and returns `end_array`. -/
theorem pull_trailing_array (fp : FloatPrims) (p : parser) (ws1 ws2 rest : List Nat)
    (hc : flag_set p.flags JSNPG_ALLOW_COMMENTS = false)
    (ht : flag_set p.flags JSNPG_ALLOW_TRAILING_COMMAS = true)
    (hs : p.state = STATE_ARRAY_VALUE)
    (ha : ahead p.mis = ws1 ++ 0x2C :: (ws2 ++ 0x5D :: rest)) (hws1 : ∀ b ∈ ws1, isWs b)
    (hws2 : ∀ b ∈ ws2, isWs b) (hptr : 0 < p.stack.ptr) :
    ∃ p1, parse_next fp p = Res.ok JSNPG_END_ARRAY p1 ∧ p1.result.type = JSNPG_END_ARRAY ∧
      Stepped p p1 (ws1.length + 1 + ws2.length + 1) ∧
      p1.stack = { p.stack with ptr := p.stack.ptr - 1 } := by
  have hr : ¬ isWs ((0x5D :: rest).headD 0) := by unfold isWs; simp
  have h2 := parse_end_array_ok (advance p (ws1.length + 1 + ws2.length)) hptr
  rw [pull_array_comma fp p ws1 ws2 _ hc hs ha hws1 hws2 hr]
  simp only [ht, Bool.not_true, Bool.false_eq_true, if_false, List.headD_cons]
  unfold parse_next_array
  simp only [if_true, PM_bind_apply, h2]
  have hst : Stepped p (advance (advance p (ws1.length + 1 + ws2.length)) 1)
      (ws1.length + 1 + ws2.length + 1) :=
    Stepped_trans _ _ _ _ _ (Stepped_advance p (ws1.length + 1 + ws2.length))
      (Stepped_advance _ 1)
  refine ⟨_, rfl, rfl, ?_, rfl⟩
  exact hst

/-- With `trailing_commas` set, the pull parser after a member takes a comma
before the `}` that closes the object and returns `end_object`. -/
theorem pull_trailing_object (fp : FloatPrims) (p : parser) (ws1 ws2 rest : List Nat)
    (hc : flag_set p.flags JSNPG_ALLOW_COMMENTS = false)
    (ht : flag_set p.flags JSNPG_ALLOW_TRAILING_COMMAS = true)
    (hs : p.state = STATE_KEY_VALUE)
    (ha : ahead p.mis = ws1 ++ 0x2C :: (ws2 ++ 0x7D :: rest)) (hws1 : ∀ b ∈ ws1, isWs b)
    (hws2 : ∀ b ∈ ws2, isWs b) (hptr : 0 < p.stack.ptr) :
    ∃ p1, parse_next fp p = Res.ok JSNPG_END_OBJECT p1 ∧ p1.result.type = JSNPG_END_OBJECT ∧
      Stepped p p1 (ws1.length + 1 + ws2.length + 1) ∧
      p1.stack = { p.stack with ptr := p.stack.ptr - 1 } := by
  have hr : ¬ isWs ((0x7D :: rest).headD 0) := by unfold isWs; simp
  have h2 := parse_end_object_ok (advance p (ws1.length + 1 + ws2.length)) hptr
  rw [pull_object_comma fp p ws1 ws2 _ hc hs ha hws1 hws2 hr]
  simp only [ht, Bool.not_true, Bool.false_eq_true, if_false, List.headD_cons]
  unfold parse_next_object
  simp only [if_true, PM_bind_apply, h2]
  have hst : Stepped p (advance (advance p (ws1.length + 1 + ws2.length)) 1)
      (ws1.length + 1 + ws2.length + 1) :=
    Stepped_trans _ _ _ _ _ (Stepped_advance p (ws1.length + 1 + ws2.length))
      (Stepped_advance _ 1)
  refine ⟨_, rfl, rfl, ?_, rfl⟩
  exact hst

/-- With `trailing_commas` cleared, the pull parser fails with `unexpected` at
a `]` that follows a comma. -/
theorem pull_strict_array (fp : FloatPrims) (p : parser) (ws1 ws2 rest : List Nat)
    (hc : flag_set p.flags JSNPG_ALLOW_COMMENTS = false)
    (ht : flag_set p.flags JSNPG_ALLOW_TRAILING_COMMAS = false)
    (hs : p.state = STATE_ARRAY_VALUE)
    (ha : ahead p.mis = ws1 ++ 0x2C :: (ws2 ++ 0x5D :: rest)) (hws1 : ∀ b ∈ ws1, isWs b)
    (hws2 : ∀ b ∈ ws2, isWs b) :
    Fails (parse_next fp p) JSNPG_ERROR_UNEXPECTED := by
  have hr : ¬ isWs ((0x5D :: rest).headD 0) := by unfold isWs; simp
  rw [pull_array_comma fp p ws1 ws2 _ hc hs ha hws1 hws2 hr]
  simp only [ht, Bool.not_false, if_true, List.headD_cons]
  unfold parse_next_value
  simp only [Nat.reduceEqDiff, if_false, Nat.reduceLeDiff, false_and, or_self]
  exact Fails_throw _ _

/-- With `trailing_commas` cleared, the pull parser fails with `expected_key` at
a `}` that follows a comma. -/
theorem pull_strict_object (fp : FloatPrims) (p : parser) (ws1 ws2 rest : List Nat)
    (hc : flag_set p.flags JSNPG_ALLOW_COMMENTS = false)
    (ht : flag_set p.flags JSNPG_ALLOW_TRAILING_COMMAS = false)
    (hs : p.state = STATE_KEY_VALUE)
    (ha : ahead p.mis = ws1 ++ 0x2C :: (ws2 ++ 0x7D :: rest)) (hws1 : ∀ b ∈ ws1, isWs b)
    (hws2 : ∀ b ∈ ws2, isWs b) :
    Fails (parse_next fp p) JSNPG_ERROR_EXPECTED_KEY := by
  have hr : ¬ isWs ((0x7D :: rest).headD 0) := by unfold isWs; simp
  rw [pull_object_comma fp p ws1 ws2 _ hc hs ha hws1 hws2 hr]
  simp only [ht, Bool.not_false, if_true, List.headD_cons]
  unfold parse_next_object_comma
  simp only [ne_eq, Nat.reduceEqDiff, not_false_eq_true, if_true]
  exact Fails_throw _ _

end Jsnpg

namespace Jsnpg
open jsnpg_type jsnpg_error_code

/-! ### The run over a text of the grammar -/

theorem deliver_deliver (g : generator (List Event)) (a b : List Event) :
    deliver (deliver g a) b = deliver g (a ++ b) := by
  simp [deliver, List.append_assoc]

theorem deliver_nil (g : generator (List Event)) : deliver g [] = g := by
  simp [deliver]

theorem Landed_fit (p p1 : parser) (len d : Nat) (hd : d ≤ stack_room p)
    (h1 : Stepped p p1 len) (h2 : StackSame p.stack p1.stack) : Landed p p1 len d :=
  ⟨fun _ => ⟨h1, h2⟩, fun h => absurd hd (by omega)⟩

theorem Landed_over (p p1 : parser) (len d : Nat) (hd : stack_room p < d)
    (h1 : p1.result.type = JSNPG_ERROR)
    (h2 : p1.result.u = result_union.error JSNPG_ERROR_STACK_OVERFLOW) : Landed p p1 len d :=
  ⟨fun h => absurd h (by omega), fun _ => ⟨h1, h2⟩⟩

/-- A value that the `switch` handles alone, without opening a container. -/
theorem ValueRun_scalar (fp : FloatPrims) (text : List Nat) (e : Event) (p p1 : parser)
    (g : generator (List Event)) (hlen : 1 ≤ text.length)
    (he : ∀ room, overflowPrefix room [e] = [e])
    (hsw : ∀ st, pg_top_switch record_callbacks fp false false true (text.headD 0) st p g =
      GRes.ok (pg_ctl.inner st) p1 { g with ctx := g.ctx ++ [e] })
    (hs : Stepped p p1 text.length) (hk : p1.stack = p.stack) :
    ValueRun fp text [e] 0 p g := by
  intro st _
  refine ⟨0, p1, hlen, fun k => ?_,
    Landed_fit _ _ _ _ (Nat.zero_le _) hs (by rw [hk]; exact StackSame_refl _)⟩
  rw [GM_bind_ok _ _ _ _ _ _ _ (hsw st), if_pos (Nat.zero_le _), he]
  rfl

theorem AtText_drop (p p1 : parser) (pre text rest rest0 : List Nat) (k : Nat)
    (h : AtText p (pre ++ (text ++ rest)) rest0) (hs : Stepped p p1 k) (hk : pre.length = k)
    (hd : isDelim ((rest ++ rest0).headD 0)) (hok : StackOk p1.stack) :
    AtText p1 text (rest ++ rest0) := by
  obtain ⟨ha, hb, _, hf, _⟩ := h
  have ha1 : ahead p1.mis = text ++ (rest ++ rest0) := by
    rw [hs.2.2.2, ha, ← hk]; simp
  refine ⟨ha1, ?_, hd, hs.1.trans hf, hok⟩
  intro b hb1
  rw [hs.2.2.2] at hb1
  exact hb b (List.mem_of_mem_drop hb1)

theorem op_pair_array (room : Nat) (h : 1 ≤ room) :
    overflowPrefix room [Event.start_array, Event.end_array] =
      [Event.start_array, Event.end_array] := by
  obtain ⟨r, rfl⟩ : ∃ r, room = r + 1 := ⟨room - 1, by omega⟩
  simp [overflowPrefix]

theorem op_pair_object (room : Nat) (h : 1 ≤ room) :
    overflowPrefix room [Event.start_object, Event.end_object] =
      [Event.start_object, Event.end_object] := by
  obtain ⟨r, rfl⟩ : ∃ r, room = r + 1 := ⟨room - 1, by omega⟩
  simp [overflowPrefix]

theorem op_zero_array (es : List Event) : overflowPrefix 0 (Event.start_array :: es) = [] := by
  simp [overflowPrefix]

theorem op_zero_object (es : List Event) : overflowPrefix 0 (Event.start_object :: es) = [] := by
  simp [overflowPrefix]

theorem room_pos (p : parser) (h : p.stack.ptr < p.stack.size) : 1 ≤ stack_room p := by
  unfold stack_room; omega

theorem room_zero (p : parser) (h : ¬ p.stack.ptr < p.stack.size) : stack_room p = 0 := by
  unfold stack_room; omega

/-- An empty array. -/
theorem ValueRun_empty_array (fp : FloatPrims) (p : parser) (g : generator (List Event))
    (ws rest : List Nat) (hws : ∀ b ∈ ws, isWs b) (h : AtText p (0x5B :: (ws ++ [0x5D])) rest) :
    ValueRun fp (0x5B :: (ws ++ [0x5D])) [Event.start_array, Event.end_array] 1 p g := by
  obtain ⟨ha, _, _, _, hok⟩ := h
  have ha' : ahead p.mis = 0x5B :: (ws ++ 0x5D :: rest) := by rw [ha]; simp
  intro st hst
  by_cases hroom : p.stack.ptr < p.stack.size
  · obtain ⟨p1, h1, hs, hsame⟩ := switch_array_empty fp st p g ws rest ha' hws hok hroom
    refine ⟨0, p1, by simp, fun k => ?_, Landed_fit _ _ _ _ (room_pos p hroom)
      (by rw [show (0x5B :: (ws ++ [0x5D])).length = ws.length + 2 by simp]; exact hs) hsame⟩
    rw [List.headD_cons, GM_bind_ok _ _ _ _ _ _ _ h1, if_pos (room_pos p hroom),
      op_pair_array _ (room_pos p hroom), hst]
    rfl
  · obtain ⟨p1, h1, he1, he2⟩ := switch_array_full fp st p g hroom
    refine ⟨0, p1, by simp, fun k => ?_, Landed_over _ _ _ _ (by rw [room_zero p hroom]; omega)
      he1 he2⟩
    rw [List.headD_cons, GM_bind_thrown _ _ _ _ _ _ h1, room_zero p hroom, if_neg (by omega),
      op_zero_array, deliver_nil]
    rfl

/-- An empty object. -/
theorem ValueRun_empty_object (fp : FloatPrims) (p : parser) (g : generator (List Event))
    (ws rest : List Nat) (hws : ∀ b ∈ ws, isWs b) (h : AtText p (0x7B :: (ws ++ [0x7D])) rest) :
    ValueRun fp (0x7B :: (ws ++ [0x7D])) [Event.start_object, Event.end_object] 1 p g := by
  obtain ⟨ha, _, _, _, hok⟩ := h
  have ha' : ahead p.mis = 0x7B :: (ws ++ 0x7D :: rest) := by rw [ha]; simp
  intro st hst
  by_cases hroom : p.stack.ptr < p.stack.size
  · obtain ⟨p1, h1, hs, hsame⟩ := switch_object_empty fp st p g ws rest ha' hws hok hroom
    refine ⟨0, p1, by simp, fun k => ?_, Landed_fit _ _ _ _ (room_pos p hroom)
      (by rw [show (0x7B :: (ws ++ [0x7D])).length = ws.length + 2 by simp]; exact hs) hsame⟩
    rw [List.headD_cons, GM_bind_ok _ _ _ _ _ _ _ h1, if_pos (room_pos p hroom),
      op_pair_object _ (room_pos p hroom), hst]
    rfl
  · obtain ⟨p1, h1, he1, he2⟩ := switch_object_full fp st p g hroom
    refine ⟨0, p1, by simp, fun k => ?_, Landed_over _ _ _ _ (by rw [room_zero p hroom]; omega)
      he1 he2⟩
    rw [List.headD_cons, GM_bind_thrown _ _ _ _ _ _ h1, room_zero p hroom, if_neg (by omega),
      op_zero_object, deliver_nil]
    rfl

/-- A value as the last element of an array. -/
theorem ContainerRun_element (fp : FloatPrims) (p : parser) (g : generator (List Event))
    (t : List Nat) (evs : List Event) (d : Nat) (hf : p.flags = 0)
    (hst : stack_type_of p.stack = STACK_ARRAY) (h : ValueRun fp t evs d p g) :
    ContainerRun fp STACK_ARRAY t evs d p g := by
  obtain ⟨n, p1, hn, hrun, hl⟩ := h STACK_ARRAY hst.symm
  refine ⟨n + 1, p1, hn, fun k => ?_, hl⟩
  rw [← hrun k, ← Nat.add_assoc, pg_loop_top_value fp _ _ _ p g hf (by decide)]

theorem delim_after_ws (ws : List Nat) (c : Nat) (x : List Nat) (hws : ∀ b ∈ ws, isWs b)
    (hc : isDelim c) : isDelim ((ws ++ c :: x).headD 0) := by
  cases ws with
  | nil => exact hc
  | cons a ws => exact Or.inr (Or.inl (hws a (List.mem_cons_self _ _)))

theorem room_pushed (p p1 : parser) (bit : Nat) (h : Pushed p.stack p1.stack bit)
    (hroom : p.stack.ptr < p.stack.size) : stack_room p = stack_room p1 + 1 := by
  obtain ⟨h1, h2, _⟩ := h
  unfold stack_room; omega

/-- An array with elements. -/
theorem ValueRun_array (N : List Nat → Event → Prop) (fp : FloatPrims)
    (hN : ∀ text e, N text e → NumParses fp text e) (p : parser) (g : generator (List Event))
    (ws1 t : List Nat) (evs : List Event) (d : Nat) (ws2 rest : List Nat)
    (hws1 : ∀ b ∈ ws1, isWs b) (hws2 : ∀ b ∈ ws2, isWs b) (hj : Json N Kind.elements t evs d)
    (h : AtText p (0x5B :: (ws1 ++ (t ++ (ws2 ++ [0x5D])))) rest)
    (ih : ∀ (p1 : parser) (g1 : generator (List Event)) (rest1 : List Nat), AtText p1 t rest1 →
      stack_type_of p1.stack = STACK_ARRAY → ContainerRun fp STACK_ARRAY t evs d p1 g1) :
    ValueRun fp (0x5B :: (ws1 ++ (t ++ (ws2 ++ [0x5D]))))
      (Event.start_array :: (evs ++ [Event.end_array])) (d + 1) p g := by
  have hhead := (json_head N fp hN _ _ _ _ hj).1
  have hnw := start_not_ws _ hhead
  obtain ⟨ha, hb, hdl, hf, hok⟩ := h
  intro st hst
  by_cases hroom : p.stack.ptr < p.stack.size
  swap
  · obtain ⟨p1, h1, he1, he2⟩ := switch_array_full fp st p g hroom
    refine ⟨0, p1, by simp, fun k => ?_, Landed_over _ _ _ _ (by rw [room_zero p hroom]; omega)
      he1 he2⟩
    rw [List.headD_cons, GM_bind_thrown _ _ _ _ _ _ h1, room_zero p hroom, if_neg (by omega),
      op_zero_array, deliver_nil]
    rfl
  have ha' : ahead p.mis = 0x5B :: (ws1 ++ (t ++ (ws2 ++ 0x5D :: rest))) := by rw [ha]; simp
  have hh : (t ++ (ws2 ++ 0x5D :: rest)).headD 0 = t.headD 0 := headD_append_of_start _ _ hhead
  obtain ⟨p1, h1, hs1, hpush⟩ := switch_array_open fp st p g ws1 (t ++ (ws2 ++ 0x5D :: rest)) ha'
    hws1 (by rw [hh]; exact hnw.1) (by rw [hh]; exact hnw.2.1) hok hroom
  rw [hh] at h1
  have h1' : pg_top_switch record_callbacks fp false false true 0x5B st p g =
      GRes.ok (pg_ctl.top (t.headD 0) STACK_ARRAY) p1 (deliver g [Event.start_array]) := h1
  have hok1 := Pushed_ok _ _ _ hpush hok hroom
  have hdl1 : isDelim ((ws2 ++ [0x5D] ++ rest).headD 0) := by
    rw [List.append_assoc]
    exact delim_after_ws ws2 0x5D _ hws2 (Or.inr (Or.inr (Or.inr (Or.inl rfl))))
  have hat1 : AtText p1 t ((ws2 ++ [0x5D]) ++ rest) :=
    AtText_drop p p1 (0x5B :: ws1) t (ws2 ++ [0x5D]) rest (1 + ws1.length)
      ⟨by rw [ha]; simp, hb, hdl, hf, hok⟩ hs1 (by simp [Nat.add_comm]) hdl1 hok1
  have hroom1 := room_pushed p p1 1 hpush hroom
  obtain ⟨n, p2, hn, hrun, hland⟩ := ih p1 (deliver g [Event.start_array]) _ hat1
    (Pushed_type _ _ _ hpush)
  by_cases hd : d ≤ stack_room p1
  · obtain ⟨hs2, hsame2⟩ := hland.1 hd
    have ha2 : ahead p2.mis = ws2 ++ 0x5D :: rest := by
      have := Stepped_ahead p1 p2 t.length t _ hs2 hat1.1 rfl
      rw [this]; simp
    have hpop := Pushed_pop p.stack p1.stack p2.stack 1 hpush hsame2
    obtain ⟨p3, h3, hs3, hst3⟩ := inner_close_array p2
      (deliver (deliver g [Event.start_array]) (overflowPrefix (stack_room p1) evs)) ws2 rest
      (hs2.1.trans (hs1.1.trans hf)) ha2 hws2 hpop.2
    have hty : stack_type_of { p2.stack with ptr := p2.stack.ptr - 1 } = st := by
      rw [hst]; exact stack_type_same _ _ hpop.1
    rw [hty] at h3
    have h3' : pg_inner record_callbacks STACK_ARRAY p2
        (deliver (deliver g [Event.start_array]) (overflowPrefix (stack_room p1) evs)) =
        GRes.ok (pg_ctl.inner st) p3
          (deliver (deliver (deliver g [Event.start_array]) (overflowPrefix (stack_room p1) evs))
            [Event.end_array]) := h3
    refine ⟨n + 1, p3, by simp; omega, fun k => ?_, Landed_fit _ _ _ _ (by omega) ?_ ?_⟩
    · rw [List.headD_cons, GM_bind_ok _ _ _ _ _ _ _ h1',
        show k + (n + 1) = (k + 1) + n by omega, hrun (k + 1), if_pos hd, if_pos (by omega)]
      show pg_loop record_callbacks fp (k + 1) (pg_ctl.inner STACK_ARRAY) p2 _ =
        pg_loop record_callbacks fp k (pg_ctl.inner st) p3 _
      have e1 := overflow_fits N fp hN _ _ _ _ hj (stack_room p1) [] hd
      rw [List.append_nil, op_nil, List.append_nil] at e1
      rw [pg_loop_inner, GM_bind_ok _ _ _ _ _ _ _ h3', hroom1, op_start_array,
        overflow_fits N fp hN _ _ _ _ hj _ _ hd, op_end_array, op_nil, e1, deliver_deliver,
        deliver_deliver]
      rfl
    · have := Stepped_trans _ _ _ _ _ (Stepped_trans _ _ _ _ _ hs1 hs2) hs3
      rw [show (0x5B :: (ws1 ++ (t ++ (ws2 ++ [0x5D])))).length =
        1 + ws1.length + t.length + (ws2.length + 1) by simp; omega]
      exact this
    · rw [hst3]; exact hpop.1
  · obtain ⟨he1, he2⟩ := hland.2 (by omega)
    refine ⟨n + 1, p2, by simp; omega, fun k => ?_, Landed_over _ _ _ _ (by omega) he1 he2⟩
    rw [List.headD_cons, GM_bind_ok _ _ _ _ _ _ _ h1',
      show k + (n + 1) = (k + 1) + n by omega, hrun (k + 1), if_neg hd, if_neg (by omega),
      hroom1, op_start_array, overflow_cut N fp hN _ _ _ _ hj _ _ (by omega), deliver_deliver]
    rfl

/-- An object with members. -/
theorem ValueRun_object (N : List Nat → Event → Prop) (fp : FloatPrims)
    (hN : ∀ text e, N text e → NumParses fp text e) (p : parser) (g : generator (List Event))
    (ws1 t : List Nat) (evs : List Event) (d : Nat) (ws2 rest : List Nat)
    (hws1 : ∀ b ∈ ws1, isWs b) (hws2 : ∀ b ∈ ws2, isWs b) (hj : Json N Kind.members t evs d)
    (h : AtText p (0x7B :: (ws1 ++ (t ++ (ws2 ++ [0x7D])))) rest)
    (ih : ∀ (p1 : parser) (g1 : generator (List Event)) (rest1 : List Nat), AtText p1 t rest1 →
      stack_type_of p1.stack = STACK_OBJECT → ContainerRun fp STACK_OBJECT t evs d p1 g1) :
    ValueRun fp (0x7B :: (ws1 ++ (t ++ (ws2 ++ [0x7D]))))
      (Event.start_object :: (evs ++ [Event.end_object])) (d + 1) p g := by
  have hhead := (json_head N fp hN _ _ _ _ hj).1
  have hnw := start_not_ws _ hhead
  obtain ⟨ha, hb, hdl, hf, hok⟩ := h
  intro st hst
  by_cases hroom : p.stack.ptr < p.stack.size
  swap
  · obtain ⟨p1, h1, he1, he2⟩ := switch_object_full fp st p g hroom
    refine ⟨0, p1, by simp, fun k => ?_, Landed_over _ _ _ _ (by rw [room_zero p hroom]; omega)
      he1 he2⟩
    rw [List.headD_cons, GM_bind_thrown _ _ _ _ _ _ h1, room_zero p hroom, if_neg (by omega),
      op_zero_object, deliver_nil]
    rfl
  have ha' : ahead p.mis = 0x7B :: (ws1 ++ (t ++ (ws2 ++ 0x7D :: rest))) := by rw [ha]; simp
  have hh : (t ++ (ws2 ++ 0x7D :: rest)).headD 0 = t.headD 0 := headD_append_of_start _ _ hhead
  obtain ⟨p1, h1, hs1, hpush⟩ := switch_object_open fp st p g ws1 (t ++ (ws2 ++ 0x7D :: rest)) ha'
    hws1 (by rw [hh]; exact hnw.1) (by rw [hh]; exact hnw.2.2.1) hok hroom
  rw [hh] at h1
  have h1' : pg_top_switch record_callbacks fp false false true 0x7B st p g =
      GRes.ok (pg_ctl.top (t.headD 0) STACK_OBJECT) p1 (deliver g [Event.start_object]) := h1
  have hok1 := Pushed_ok _ _ _ hpush hok hroom
  have hdl1 : isDelim ((ws2 ++ [0x7D] ++ rest).headD 0) := by
    rw [List.append_assoc]
    exact delim_after_ws ws2 0x7D _ hws2 (Or.inr (Or.inr (Or.inr (Or.inr rfl))))
  have hat1 : AtText p1 t ((ws2 ++ [0x7D]) ++ rest) :=
    AtText_drop p p1 (0x7B :: ws1) t (ws2 ++ [0x7D]) rest (1 + ws1.length)
      ⟨by rw [ha]; simp, hb, hdl, hf, hok⟩ hs1 (by simp [Nat.add_comm]) hdl1 hok1
  have hroom1 := room_pushed p p1 0 hpush hroom
  obtain ⟨n, p2, hn, hrun, hland⟩ := ih p1 (deliver g [Event.start_object]) _ hat1
    (Pushed_type _ _ _ hpush)
  by_cases hd : d ≤ stack_room p1
  · obtain ⟨hs2, hsame2⟩ := hland.1 hd
    have ha2 : ahead p2.mis = ws2 ++ 0x7D :: rest := by
      have := Stepped_ahead p1 p2 t.length t _ hs2 hat1.1 rfl
      rw [this]; simp
    have hpop := Pushed_pop p.stack p1.stack p2.stack 0 hpush hsame2
    obtain ⟨p3, h3, hs3, hst3⟩ := inner_close_object p2
      (deliver (deliver g [Event.start_object]) (overflowPrefix (stack_room p1) evs)) ws2 rest
      (hs2.1.trans (hs1.1.trans hf)) ha2 hws2 hpop.2
    have hty : stack_type_of { p2.stack with ptr := p2.stack.ptr - 1 } = st := by
      rw [hst]; exact stack_type_same _ _ hpop.1
    rw [hty] at h3
    have h3' : pg_inner record_callbacks STACK_OBJECT p2
        (deliver (deliver g [Event.start_object]) (overflowPrefix (stack_room p1) evs)) =
        GRes.ok (pg_ctl.inner st) p3
          (deliver (deliver (deliver g [Event.start_object]) (overflowPrefix (stack_room p1) evs))
            [Event.end_object]) := h3
    refine ⟨n + 1, p3, by simp; omega, fun k => ?_, Landed_fit _ _ _ _ (by omega) ?_ ?_⟩
    · rw [List.headD_cons, GM_bind_ok _ _ _ _ _ _ _ h1',
        show k + (n + 1) = (k + 1) + n by omega, hrun (k + 1), if_pos hd, if_pos (by omega)]
      show pg_loop record_callbacks fp (k + 1) (pg_ctl.inner STACK_OBJECT) p2 _ =
        pg_loop record_callbacks fp k (pg_ctl.inner st) p3 _
      have e1 := overflow_fits N fp hN _ _ _ _ hj (stack_room p1) [] hd
      rw [List.append_nil, op_nil, List.append_nil] at e1
      rw [pg_loop_inner, GM_bind_ok _ _ _ _ _ _ _ h3', hroom1, op_start_object,
        overflow_fits N fp hN _ _ _ _ hj _ _ hd, op_end_object, op_nil, e1, deliver_deliver,
        deliver_deliver]
      rfl
    · have := Stepped_trans _ _ _ _ _ (Stepped_trans _ _ _ _ _ hs1 hs2) hs3
      rw [show (0x7B :: (ws1 ++ (t ++ (ws2 ++ [0x7D])))).length =
        1 + ws1.length + t.length + (ws2.length + 1) by simp; omega]
      exact this
    · rw [hst3]; exact hpop.1
  · obtain ⟨he1, he2⟩ := hland.2 (by omega)
    refine ⟨n + 1, p2, by simp; omega, fun k => ?_, Landed_over _ _ _ _ (by omega) he1 he2⟩
    rw [List.headD_cons, GM_bind_ok _ _ _ _ _ _ _ h1',
      show k + (n + 1) = (k + 1) + n by omega, hrun (k + 1), if_neg hd, if_neg (by omega),
      hroom1, op_start_object, overflow_cut N fp hN _ _ _ _ hj _ _ (by omega), deliver_deliver]
    rfl

theorem room_same (p p1 : parser) (h : StackSame p.stack p1.stack) :
    stack_room p1 = stack_room p := by
  obtain ⟨h1, h2, _⟩ := h
  unfold stack_room; rw [h1, h2]

/-- One more item of a container, a comma, and the items after it. -/
theorem ContainerRun_more (fp : FloatPrims) (c : Int) (p : parser)
    (g : generator (List Event)) (it : List Nat) (evs : List Event) (d : Nat)
    (ws1 ws2 t1 : List Nat) (evs1 : List Event) (d1 : Nat) (rest : List Nat)
    (hws1 : ∀ b ∈ ws1, isWs b) (hws2 : ∀ b ∈ ws2, isWs b)
    (hit : isValueStart (it.headD 0)) (ht1 : isValueStart (t1.headD 0))
    (hfits : ∀ room tail, d ≤ room →
      overflowPrefix room (evs ++ tail) = evs ++ overflowPrefix room tail)
    (hcut : ∀ room tail, room < d → overflowPrefix room (evs ++ tail) = overflowPrefix room evs)
    (h : AtText p (it ++ (ws1 ++ (0x2C :: (ws2 ++ t1)))) rest)
    (hst : stack_type_of p.stack = c)
    (first : ContainerRun fp c it evs d p g)
    (ihe : ∀ (p1 : parser) (g1 : generator (List Event)) (rest1 : List Nat),
      AtText p1 t1 rest1 → stack_type_of p1.stack = c → ContainerRun fp c t1 evs1 d1 p1 g1) :
    ContainerRun fp c (it ++ (ws1 ++ (0x2C :: (ws2 ++ t1)))) (evs ++ evs1) (max d d1) p g := by
  obtain ⟨ha, hb, hdl, hf, hok⟩ := h
  obtain ⟨n, p1, hn, hrun, hland⟩ := first
  have hh : (it ++ (ws1 ++ (0x2C :: (ws2 ++ t1)))).headD 0 = it.headD 0 :=
    headD_append_of_start _ _ hit
  have hlen : (it ++ (ws1 ++ (0x2C :: (ws2 ++ t1)))).length =
      it.length + (ws1.length + 1 + ws2.length) + t1.length := by simp; omega
  by_cases hd : d ≤ stack_room p
  · obtain ⟨hs1, hsame1⟩ := hland.1 hd
    have ha1 : ahead p1.mis = ws1 ++ 0x2C :: (ws2 ++ (t1 ++ rest)) := by
      have := Stepped_ahead p p1 it.length it _ hs1 (by rw [ha, List.append_assoc]) rfl
      rw [this]; simp
    have hh1 : (t1 ++ rest).headD 0 = t1.headD 0 := headD_append_of_start _ _ ht1
    obtain ⟨p2, h2, hs2, hst2⟩ := inner_comma c p1 (deliver g (overflowPrefix (stack_room p) evs))
      ws1 ws2 (t1 ++ rest) (hs1.1.trans hf) ha1 hws1 hws2
      (by rw [hh1]; exact (start_not_ws _ ht1).1)
    rw [hh1] at h2
    have hsame2 : StackSame p.stack p2.stack := by rw [hst2]; exact hsame1
    have hs12 := Stepped_trans _ _ _ _ _ hs1 hs2
    have hat2 : AtText p2 t1 rest := by
      refine ⟨?_, ?_, hdl, hs12.1.trans hf, StackOk_same _ _ hsame2 hok⟩
      · exact Stepped_ahead p1 p2 (ws1.length + 1 + ws2.length) (ws1 ++ 0x2C :: ws2)
          (t1 ++ rest) hs2 (by rw [ha1]; simp) (by simp; omega)
      · intro b hb1
        rw [hs12.2.2.2] at hb1
        exact hb b (List.mem_of_mem_drop hb1)
    obtain ⟨n2, p3, hn2, hrun2, hland2⟩ := ihe p2
      (deliver g (overflowPrefix (stack_room p) evs)) rest hat2
      ((stack_type_same _ _ hsame2).trans hst)
    have hroom2 := room_same p p2 hsame2
    unfold Landed at hland2
    rw [hroom2] at hrun2 hland2
    refine ⟨n2 + 1 + n, p3, by rw [hlen]; omega, fun k => ?_, ?_, ?_⟩
    · rw [hh, show k + (n2 + 1 + n) = (k + n2 + 1) + n by omega, hrun (k + n2 + 1), if_pos hd]
      show pg_loop record_callbacks fp (k + n2 + 1) (pg_ctl.inner c) p1 _ = _
      have hev : overflowPrefix (stack_room p) evs = evs := by
        have := hfits (stack_room p) [] hd
        rwa [List.append_nil, op_nil, List.append_nil] at this
      rw [pg_loop_inner, GM_bind_ok _ _ _ _ _ _ _ h2, hrun2 k, hfits _ _ hd, deliver_deliver,
        hev]
      by_cases hd1 : d1 ≤ stack_room p
      · rw [if_pos hd1, if_pos (max_le hd hd1)]
      · rw [if_neg hd1, if_neg (fun h => hd1 (le_trans (le_max_right d d1) h))]
    · intro hfit
      have hd1 : d1 ≤ stack_room p := le_trans (le_max_right d d1) hfit
      obtain ⟨hs3, hsame3⟩ := hland2.1 hd1
      refine ⟨?_, StackSame_trans _ _ _ hsame2 hsame3⟩
      rw [hlen]
      exact Stepped_trans _ _ _ _ _ hs12 hs3
    · intro hov
      have hd1 : stack_room p < d1 := by
        rcases lt_max_iff.mp hov with h | h
        · omega
        · exact h
      exact hland2.2 hd1
  · obtain ⟨he1, he2⟩ := hland.2 (by omega)
    refine ⟨n, p1, by rw [hlen]; omega, fun k => ?_,
      Landed_over _ _ _ _ (lt_max_iff.mpr (Or.inl (by omega))) he1 he2⟩
    rw [hh, hrun k, if_neg hd, if_neg (fun h => hd (le_trans (le_max_left d d1) h)),
      hcut _ _ (by omega)]

/-- A member of an object: the key, the colon and the value. -/
theorem ContainerRun_member (fp : FloatPrims) (p : parser) (g : generator (List Event))
    (key : List StrItem) (ws1 ws2 t : List Nat) (evs : List Event) (d : Nat) (rest : List Nat)
    (hwf : ∀ it ∈ key, it.wf) (hws1 : ∀ b ∈ ws1, isWs b) (hws2 : ∀ b ∈ ws2, isWs b)
    (ht : isValueStart (t.headD 0))
    (h : AtText p (0x22 :: (literalText key ++ (0x22 :: (ws1 ++ (0x3A :: (ws2 ++ t)))))) rest)
    (hst : stack_type_of p.stack = STACK_OBJECT)
    (ihv : ∀ (p1 : parser) (g1 : generator (List Event)) (rest1 : List Nat),
      AtText p1 t rest1 → ValueRun fp t evs d p1 g1) :
    ContainerRun fp STACK_OBJECT
      (0x22 :: (literalText key ++ (0x22 :: (ws1 ++ (0x3A :: (ws2 ++ t))))))
      (Event.key (literalValue key) :: evs) d p g := by
  obtain ⟨ha, hb, hdl, hf, hok⟩ := h
  have ha' : ahead p.mis =
      0x22 :: (literalText key ++ 0x22 :: (ws1 ++ 0x3A :: (ws2 ++ (t ++ rest)))) := by
    rw [ha]; simp
  have hbr : ∀ b ∈ t ++ rest, b < 256 := by
    intro b hb1
    apply hb b
    rw [ha']
    simp only [List.mem_cons, List.mem_append] at hb1 ⊢
    tauto
  have hh : (t ++ rest).headD 0 = t.headD 0 := headD_append_of_start _ _ ht
  obtain ⟨p1, h1, hs1, hst1⟩ := key_step p g key ws1 ws2 (t ++ rest) hwf hws1 hws2
    (by rw [hh]; exact (start_not_ws _ ht).1) ha' hbr
  rw [hh] at h1
  have h1' : pg_top_key record_callbacks false true 0x22 p g =
      GRes.ok (t.headD 0) p1 (deliver g [Event.key (literalValue key)]) := h1
  have hsame1 : StackSame p.stack p1.stack := by rw [hst1]; exact StackSame_refl _
  have hat1 : AtText p1 t rest := by
    refine ⟨?_, ?_, hdl, hs1.1.trans hf, StackOk_same _ _ hsame1 hok⟩
    · exact Stepped_ahead p p1 _
        (0x22 :: (literalText key ++ 0x22 :: (ws1 ++ 0x3A :: ws2))) (t ++ rest) hs1
        (by rw [ha']; simp) (by simp; omega)
    · intro b hb1
      rw [hs1.2.2.2] at hb1
      exact hb b (List.mem_of_mem_drop hb1)
  obtain ⟨n, p2, hn, hrun, hland⟩ := ihv p1 (deliver g [Event.key (literalValue key)]) rest hat1
    STACK_OBJECT (by rw [hst1]; exact hst.symm)
  have hroom1 := room_same p p1 hsame1
  unfold Landed at hland
  rw [hroom1] at hrun hland
  have hlen : (0x22 :: (literalText key ++ (0x22 :: (ws1 ++ (0x3A :: (ws2 ++ t)))))).length =
      (literalText key).length + 2 + ws1.length + 1 + ws2.length + t.length := by
    simp; omega
  refine ⟨n + 1, p2, by rw [hlen]; omega, fun k => ?_, ?_, hland.2⟩
  · rw [List.headD_cons, ← Nat.add_assoc, pg_loop_top, GM_bind_apply, pg_top_member fp _ p g hf,
      GM_bind_ok _ _ _ _ _ _ _ h1', ← GM_bind_apply, hrun k, op_key, deliver_deliver]
    rfl
  · intro hfit
    obtain ⟨hs2, hsame2⟩ := hland.1 hfit
    refine ⟨?_, StackSame_trans _ _ _ hsame1 hsame2⟩
    rw [hlen]
    exact Stepped_trans _ _ _ _ _ hs1 hs2

theorem switch_string_all (fp : FloatPrims) (p : parser) (g : generator (List Event))
    (items : List StrItem) (rest : List Nat) (hwf : ∀ it ∈ items, it.wf)
    (ha : ahead p.mis = 0x22 :: (literalText items ++ 0x22 :: rest))
    (hr : ∀ b ∈ rest, b < 256) :
    ∃ mis1, (∀ st, pg_top_switch record_callbacks fp false false true 0x22 st p g =
        GRes.ok (pg_ctl.inner st) { p with mis := mis1 }
          { g with ctx := g.ctx ++ [Event.string (literalValue items)] }) ∧
      ahead mis1 = rest ∧ mis1.read = p.mis.read + ((literalText items).length + 2) ∧
      mis1.count = p.mis.count := by
  obtain ⟨mis1, h1, h2, _, _, _, h6, h7⟩ := parse_string_ok true p items rest hwf ha hr
  refine ⟨mis1, fun st => ?_, h2, h6, h7⟩
  unfold pg_top_switch
  simp only [Nat.reduceEqDiff, if_false, if_true, GM_bind_apply, liftP_apply, h1]
  rfl

theorem op_single (e : Event)
    (h : ∀ room tail, overflowPrefix room (e :: tail) = e :: overflowPrefix room tail) :
    ∀ room, overflowPrefix room [e] = [e] := by
  intro room; rw [h, op_nil]

theorem key_fits (bytes : List Nat) (evs : List Event) (d : Nat)
    (h : ∀ room tail, d ≤ room →
      overflowPrefix room (evs ++ tail) = evs ++ overflowPrefix room tail) :
    ∀ room tail, d ≤ room → overflowPrefix room ((Event.key bytes :: evs) ++ tail) =
      (Event.key bytes :: evs) ++ overflowPrefix room tail := by
  intro room tail hd
  rw [List.cons_append, op_key, h room tail hd]; rfl

theorem key_cut (bytes : List Nat) (evs : List Event) (d : Nat)
    (h : ∀ room tail, room < d → overflowPrefix room (evs ++ tail) = overflowPrefix room evs) :
    ∀ room tail, room < d → overflowPrefix room ((Event.key bytes :: evs) ++ tail) =
      overflowPrefix room (Event.key bytes :: evs) := by
  intro room tail hd
  rw [List.cons_append, op_key, h room tail hd, op_key]

/-- The run of the push parser's loop over a text of the grammar: it delivers
the events of the text and comes out at the inner loop right after the text,
or, when the text nests deeper than the stack has room, it delivers the events
up to the container that does not fit and fails with `stack overflow`. -/
theorem pg_run (N : List Nat → Event → Prop) (fp : FloatPrims)
    (hN : ∀ text e, N text e → NumParses fp text e) :
    ∀ kind text evs d, Json N kind text evs d →
      ∀ (p : parser) (g : generator (List Event)) (rest : List Nat), AtText p text rest →
        (kind = Kind.value → ValueRun fp text evs d p g) ∧
        (kind = Kind.elements → stack_type_of p.stack = STACK_ARRAY →
          ContainerRun fp STACK_ARRAY text evs d p g) ∧
        (kind = Kind.members → stack_type_of p.stack = STACK_OBJECT →
          ContainerRun fp STACK_OBJECT text evs d p g) := by
  intro kind text evs d h
  induction h with
  | null =>
    intro p g rest hat
    refine ⟨fun _ => ?_, (fun h => nomatch h), (fun h => nomatch h)⟩
    exact ValueRun_scalar fp _ Event.null p (advance p 4) g (by simp) (op_single _ (fun _ _ => rfl))
      (fun st => switch_null fp st p g rest hat.1) (Stepped_advance p 4) rfl
  | true_ =>
    intro p g rest hat
    refine ⟨fun _ => ?_, (fun h => nomatch h), (fun h => nomatch h)⟩
    exact ValueRun_scalar fp _ (Event.boolean true) p (advance p 4) g (by simp)
      (op_single _ (fun _ _ => rfl))
      (fun st => switch_true fp st p g rest hat.1) (Stepped_advance p 4) rfl
  | false_ =>
    intro p g rest hat
    refine ⟨fun _ => ?_, (fun h => nomatch h), (fun h => nomatch h)⟩
    exact ValueRun_scalar fp _ (Event.boolean false) p (advance p 5) g (by simp)
      (op_single _ (fun _ _ => rfl))
      (fun st => switch_false fp st p g rest hat.1) (Stepped_advance p 5) rfl
  | number text e hn =>
    intro p g rest hat
    refine ⟨fun _ => ?_, (fun h => nomatch h), (fun h => nomatch h)⟩
    have hnp := hN text e hn
    have hlen : 1 ≤ text.length := by
      have := hnp.1
      cases text with
      | nil => simp at this
      | cons a t => simp
    exact ValueRun_scalar fp text e p (advance p text.length) g hlen
      (op_single _ (num_event fp text e hnp))
      (fun st => switch_number fp st p g text e rest hnp hat.1 hat.2.2.1)
      (Stepped_advance p _) rfl
  | string items hwf =>
    intro p g rest hat
    refine ⟨fun _ => ?_, (fun h => nomatch h), (fun h => nomatch h)⟩
    obtain ⟨ha, hb, hdl, hf, hok⟩ := hat
    have ha' : ahead p.mis = 0x22 :: (literalText items ++ 0x22 :: rest) := by rw [ha]; simp
    have hbr : ∀ b ∈ rest, b < 256 := by
      intro b hb1; apply hb b; rw [ha]; simp [hb1]
    obtain ⟨mis1, h1, h2, h3, h4⟩ := switch_string_all fp p g items rest hwf ha' hbr
    have hlen : (0x22 :: (literalText items ++ [0x22])).length = (literalText items).length + 2 := by
      simp
    refine ValueRun_scalar fp _ _ p { p with mis := mis1 } g (by simp)
      (op_single _ (fun _ _ => rfl)) h1 ?_ rfl
    rw [hlen]
    exact Stepped_mis p mis1 _ rest (by rw [h2, ha']; simp) h3 h4
  | empty_array ws hws =>
    intro p g rest hat
    exact ⟨fun _ => ValueRun_empty_array fp p g ws rest hws hat, (fun h => nomatch h),
      (fun h => nomatch h)⟩
  | array ws1 t evs d ws2 hws1 hws2 hj ih =>
    intro p g rest hat
    refine ⟨fun _ => ?_, (fun h => nomatch h), (fun h => nomatch h)⟩
    exact ValueRun_array N fp hN p g ws1 t evs d ws2 rest hws1 hws2 hj hat
      (fun p1 g1 rest1 h1 hst => (ih p1 g1 rest1 h1).2.1 rfl hst)
  | element t evs d hj ih =>
    intro p g rest hat
    refine ⟨(fun h => nomatch h), fun _ hst => ?_, (fun h => nomatch h)⟩
    exact ContainerRun_element fp p g t evs d hat.2.2.2.1 hst ((ih p g rest hat).1 rfl)
  | elements t evs d ws1 ws2 t1 evs1 d1 hj hws1 hws2 hj1 ih ih1 =>
    intro p g rest hat
    refine ⟨(fun h => nomatch h), fun _ hst => ?_, (fun h => nomatch h)⟩
    have hatv : AtText p t ((ws1 ++ (0x2C :: (ws2 ++ t1))) ++ rest) := by
      obtain ⟨ha, hb, hdl, hf, hok⟩ := hat
      refine ⟨by rw [ha]; simp, hb, ?_, hf, hok⟩
      rw [List.append_assoc]
      exact delim_after_ws ws1 0x2C _ hws1 (Or.inr (Or.inr (Or.inl rfl)))
    exact ContainerRun_more fp STACK_ARRAY p g t evs d ws1 ws2 t1 evs1 d1 rest hws1 hws2
      (json_head N fp hN _ _ _ _ hj).1 (json_head N fp hN _ _ _ _ hj1).1
      (overflow_fits N fp hN _ _ _ _ hj) (overflow_cut N fp hN _ _ _ _ hj) hat hst
      (ContainerRun_element fp p g t evs d hat.2.2.2.1 hst ((ih p g _ hatv).1 rfl))
      (fun p1 g1 rest1 h1 hst1 => (ih1 p1 g1 rest1 h1).2.1 rfl hst1)
  | empty_object ws hws =>
    intro p g rest hat
    exact ⟨fun _ => ValueRun_empty_object fp p g ws rest hws hat, (fun h => nomatch h),
      (fun h => nomatch h)⟩
  | object ws1 t evs d ws2 hws1 hws2 hj ih =>
    intro p g rest hat
    refine ⟨fun _ => ?_, (fun h => nomatch h), (fun h => nomatch h)⟩
    exact ValueRun_object N fp hN p g ws1 t evs d ws2 rest hws1 hws2 hj hat
      (fun p1 g1 rest1 h1 hst => (ih p1 g1 rest1 h1).2.2 rfl hst)
  | member key ws1 ws2 t evs d hwf hws1 hws2 hj ih =>
    intro p g rest hat
    refine ⟨(fun h => nomatch h), (fun h => nomatch h), fun _ hst => ?_⟩
    exact ContainerRun_member fp p g key ws1 ws2 t evs d rest hwf hws1 hws2
      (json_head N fp hN _ _ _ _ hj).1 hat hst (fun p1 g1 rest1 h1 => (ih p1 g1 rest1 h1).1 rfl)
  | members key ws1 ws2 t evs d ws3 ws4 t1 evs1 d1 hwf hws1 hws2 hj hws3 hws4 hj1 ih ih1 =>
    intro p g rest hat
    refine ⟨(fun h => nomatch h), (fun h => nomatch h), fun _ hst => ?_⟩
    have he : (0x22 :: (literalText key ++ (0x22 :: (ws1 ++ (0x3A :: (ws2 ++
        (t ++ (ws3 ++ (0x2C :: (ws4 ++ t1)))))))))) =
        (0x22 :: (literalText key ++ (0x22 :: (ws1 ++ (0x3A :: (ws2 ++ t)))))) ++
          (ws3 ++ (0x2C :: (ws4 ++ t1))) := by simp
    have hat' := hat
    rw [he] at hat' ⊢
    show ContainerRun fp STACK_OBJECT _ ((Event.key (literalValue key) :: evs) ++ evs1) _ p g
    have hatm : AtText p (0x22 :: (literalText key ++ (0x22 :: (ws1 ++ (0x3A :: (ws2 ++ t))))))
        ((ws3 ++ (0x2C :: (ws4 ++ t1))) ++ rest) := by
      obtain ⟨ha, hb, hdl, hf, hok⟩ := hat
      refine ⟨by rw [ha]; simp, hb, ?_, hf, hok⟩
      rw [List.append_assoc]
      exact delim_after_ws ws3 0x2C _ hws3 (Or.inr (Or.inr (Or.inl rfl)))
    exact ContainerRun_more fp STACK_OBJECT p g _ _ d ws3 ws4 t1 evs1 d1 rest hws3 hws4
      (by unfold isValueStart; simp) (json_head N fp hN _ _ _ _ hj1).1
      (key_fits _ _ _ (overflow_fits N fp hN _ _ _ _ hj))
      (key_cut _ _ _ (overflow_cut N fp hN _ _ _ _ hj)) hat' hst
      (ContainerRun_member fp p g key ws1 ws2 t evs d _ hwf hws1 hws2
        (json_head N fp hN _ _ _ _ hj).1 hatm hst
        (fun p1 g1 rest1 h1 => (ih p1 g1 rest1 h1).1 rfl))
      (fun p1 g1 rest1 h1 hst1 => (ih1 p1 g1 rest1 h1).2.2 rfl hst1)

/-! ### From a JSON text to the result of the push parser -/

theorem bom_none (text : List Nat) (n : Nat) (h : text.headD 0 ≠ 0xEF) :
    utf8_bom_bytes text n = 0 := by
  unfold utf8_bom_bytes
  have h0 : ¬ (0xEF = text.getD 0 0) := by
    rw [getD_zero_eq_headD]; exact fun e => h e.symm
  have h1 : ((List.range 4).all
      (fun i => (BYTE_ORDER_MARK ++ [0]).getD i 0 == text.getD i 0)) = false := by
    rw [List.all_eq_false]
    refine ⟨0, by simp, ?_⟩
    simpa [BYTE_ORDER_MARK] using h0
  simp only [h1, Bool.and_false, Bool.false_eq_true, if_false]

theorem new_bytes_facts (text : List Nat) (h : text.headD 0 ≠ 0xEF) :
    (jsnpg_parser_new_bytes 0 0 text text.length).flags = 0 ∧
    (jsnpg_parser_new_bytes 0 0 text text.length).mis.start = text ++ [0] ∧
    (jsnpg_parser_new_bytes 0 0 text text.length).mis.read = 0 ∧
    (jsnpg_parser_new_bytes 0 0 text text.length).mis.count = text.length ∧
    (jsnpg_parser_new_bytes 0 0 text text.length).stack =
      { ptr := 0, size := 1024, stack := List.replicate 128 0 } := by
  unfold jsnpg_parser_new_bytes parser_set_bytes
  simp only [bom_none text _ h, List.drop_zero, Nat.sub_zero, List.take_length]
  exact ⟨rfl, rfl, rfl, rfl, rfl⟩

theorem run_to_some (fp : FloatPrims) (k : Nat) (c : pg_ctl) (p : parser)
    (g : generator (List Event)) :
    run_to fp k (some c) p g = pg_loop record_callbacks fp k c p g := rfl

theorem run_to_none (fp : FloatPrims) (k : Nat) (p : parser) (g : generator (List Event)) :
    run_to fp k none p g = GRes.thrown p g := rfl

/-- The whole of `parse_generate` over a JSON text that is followed by the
sentinel. -/
theorem parse_generate_json (N : List Nat → Event → Prop) (fp : FloatPrims)
    (hN : ∀ text e, N text e → NumParses fp text e)
    (ws1 t ws2 : List Nat) (evs : List Event) (d : Nat) (p : parser)
    (g : generator (List Event))
    (hws1 : ∀ b ∈ ws1, isWs b) (hws2 : ∀ b ∈ ws2, isWs b) (hj : Json N Kind.value t evs d)
    (ha : ahead p.mis = ws1 ++ (t ++ (ws2 ++ [0]))) (hb : ∀ b ∈ ahead p.mis, b < 256)
    (hf : p.flags = 0) (hok : StackOk p.stack) (hst : stack_type_of p.stack = STACK_NONE)
    (hlen : t.length ≤ p.mis.start.length) :
    (d ≤ stack_room p → ∃ p2, parse_generate record_callbacks fp p g =
        GRes.ok () p2 (deliver g evs) ∧
        Stepped p p2 (ws1.length + (t.length + ws2.length))) ∧
    (stack_room p < d → ∃ p1, parse_generate record_callbacks fp p g =
        GRes.thrown p1 (deliver g (overflowPrefix (stack_room p) evs)) ∧
        p1.result.type = JSNPG_ERROR ∧
        p1.result.u = result_union.error JSNPG_ERROR_STACK_OVERFLOW) := by
  obtain ⟨hstart, _⟩ := json_head N fp hN _ _ _ _ hj
  have hhead : (t ++ (ws2 ++ [0])).headD 0 = t.headD 0 :=
    headD_append_of_start t _ hstart
  have hnws : ¬ isWs ((t ++ (ws2 ++ [0])).headD 0) := by
    rw [hhead]; exact (start_not_ws _ hstart).1
  have hq : ahead (advance p ws1.length).mis = t ++ (ws2 ++ [0]) := by
    rw [ahead_advance, ha, List.drop_left]
  have hat : AtText (advance p ws1.length) t (ws2 ++ [0]) := by
    refine ⟨hq, ?_, delim_after_ws ws2 0 [] hws2 (Or.inl rfl), hf, hok⟩
    intro b hbm
    rw [ahead_advance] at hbm
    exact hb b (List.mem_of_mem_drop hbm)
  obtain ⟨hv, _, _⟩ := pg_run N fp hN Kind.value t evs d hj (advance p ws1.length) g
    (ws2 ++ [0]) hat
  obtain ⟨n, p1, hn, hrun, hland⟩ := hv rfl STACK_NONE hst.symm
  have hroom : stack_room (advance p ws1.length) = stack_room p := rfl
  rw [hroom] at hrun
  have hfuel : 2 * p.mis.start.length + 3 = ((2 * p.mis.start.length - n) + 2 + n) + 1 := by
    omega
  have hloop : pg_loop record_callbacks fp (2 * p.mis.start.length + 3)
      (pg_ctl.top (t.headD 0) STACK_NONE) (advance p ws1.length) g =
      run_to fp ((2 * p.mis.start.length - n) + 2)
        (if d ≤ stack_room p then some (pg_ctl.inner STACK_NONE) else none) p1
        (deliver g (overflowPrefix (stack_room p) evs)) := by
    rw [hfuel, pg_loop_top_value fp _ (t.headD 0) STACK_NONE (advance p ws1.length) g hf
      (by decide), hrun]
  have hpre : parse_generate record_callbacks fp p g =
      (pg_loop record_callbacks fp (2 * p.mis.start.length + 3)
          (pg_ctl.top (t.headD 0) STACK_NONE) >>= fun _ =>
        (liftP (consume_whitespace false) : GM (List Event) Nat) >>= fun _ => pure ())
        (advance p ws1.length) g := by
    unfold parse_generate
    rw [GM_bind_ok _ _ _ _ _ _ _ (liftP_ok (fun p => Res.ok p.flags p) p p p.flags g rfl), hf]
    simp only [flag_set_zero]
    rw [GM_bind_ok _ _ _ _ _ _ _ (ws_step p g ws1 _ hws1 ha hnws), hhead]
    rfl
  rw [hpre, GM_bind_apply, hloop]
  constructor
  · intro hd
    obtain ⟨hstep, hsame⟩ := hland.1 (by rw [hroom]; exact hd)
    have ha1 : ahead p1.mis = ws2 ++ [0] := Stepped_ahead _ _ _ t _ hstep hq rfl
    have hev : overflowPrefix (stack_room p) evs = evs := by
      have := overflow_fits N fp hN _ _ _ _ hj (stack_room p) [] hd
      simpa [overflowPrefix] using this
    have hfin := inner_finish p1 (deliver g evs) ws2 [0] (hstep.1.trans hf) ha1 hws2
      (by decide) (by decide)
    refine ⟨advance p1 ws2.length, ?_, ?_⟩
    · rw [if_pos hd, run_to_some, hev, pg_loop_inner, GM_bind_ok _ _ _ _ _ _ _ hfin]
      have hl : pg_loop record_callbacks fp ((2 * p.mis.start.length - n) + 1)
          pg_ctl.finished = pure () := rfl
      have ha2 : ahead (advance p1 ws2.length).mis = [0] := by
        rw [ahead_advance, ha1, List.drop_left]
      rw [hl]
      simp only [GM_pure_apply]
      rw [GM_bind_ok _ _ _ _ _ _ _ (ws_step_none _ _ [0] ha2 (by decide))]
      rfl
    · have h1 := Stepped_trans _ _ _ _ _ (Stepped_advance p ws1.length) hstep
      have h2 := Stepped_trans _ _ _ _ _ h1 (Stepped_advance p1 ws2.length)
      rw [Nat.add_assoc] at h2
      exact h2
  · intro hd
    obtain ⟨hty, hu⟩ := hland.2 (by rw [hroom]; exact hd)
    refine ⟨p1, ?_, hty, hu⟩
    rw [if_neg (by omega), run_to_none]

theorem parse_loop_succ (fp : FloatPrims) (k : Nat) :
    parse_loop record_callbacks fp (k + 1) = (do
      parse_generate record_callbacks fp
      let flags ← liftP (fun p => Res.ok p.flags p)
      let multiple_values := flag_set flags JSNPG_ALLOW_MULTIPLE_VALUES
      let trailing_chars := flag_set flags JSNPG_ALLOW_TRAILING_CHARS
      if !(← liftP (get_mis mis_eof)) then
        if multiple_values then parse_loop record_callbacks fp k
        else if !trailing_chars then liftP (throw_parse_error JSNPG_ERROR_UNEXPECTED)
        else pure ()
      else pure ()) := rfl

/-- The push parser in strict mode on a JSON text: the events of the text up
to the first container beyond depth 1024, with the result `eof` when there is
none and the error `stack overflow` otherwise. -/
theorem push_events_json (N : List Nat → Event → Prop) (fp : FloatPrims)
    (hN : ∀ text e, N text e → NumParses fp text e)
    (text : List Nat) (evs : List Event) (d : Nat) (hj : JsonText N text evs d)
    (hb : ∀ b ∈ text, b < 256) :
    (push_events fp 0 text).2 = overflowPrefix 1024 evs ∧
    (d ≤ 1024 → (push_events fp 0 text).1.type = JSNPG_EOF ∧ (push_events fp 0 text).2 = evs) ∧
    (1024 < d → (push_events fp 0 text).1.type = JSNPG_ERROR ∧
      (push_events fp 0 text).1.u = result_union.error JSNPG_ERROR_STACK_OVERFLOW) := by
  obtain ⟨ws1, t, ws2, hws1, hws2, hjv, htext⟩ := hj
  obtain ⟨hstart, _⟩ := json_head N fp hN _ _ _ _ hjv
  have hhead : text.headD 0 ≠ 0xEF := by
    rw [htext]
    cases ws1 with
    | nil =>
      rw [List.nil_append, headD_append_of_start t _ hstart]
      intro h; rw [h] at hstart; revert hstart; unfold isValueStart; decide
    | cons a ws =>
      have := hws1 a (List.mem_cons_self _ _)
      intro h; simp only [List.cons_append, List.headD_cons] at h
      rw [h] at this; revert this; unfold isWs; decide
  obtain ⟨f1, f2, f3, f4, f5⟩ := new_bytes_facts text hhead
  unfold push_events jsnpg_parse_bytes_callbacks
  generalize jsnpg_parser_new_bytes 0 0 text text.length = p0 at f1 f2 f3 f4 f5
  have ha : ahead p0.mis = ws1 ++ (t ++ (ws2 ++ [0])) := by
    unfold ahead; rw [f2, f3, htext]; simp
  have hb0 : ∀ b ∈ ahead p0.mis, b < 256 := by
    intro b hm
    unfold ahead at hm; rw [f2, f3, List.drop_zero, List.mem_append] at hm
    rcases hm with hm | hm
    · exact hb b hm
    · rw [List.mem_singleton] at hm; omega
  have hok : StackOk p0.stack := by rw [f5]; unfold StackOk; simp
  have hst : stack_type_of p0.stack = STACK_NONE := by rw [f5]; rfl
  have hroom : stack_room p0 = 1024 := by unfold stack_room; rw [f5]; rfl
  have hlen : t.length ≤ p0.mis.start.length := by
    rw [f2, htext]; simp; omega
  obtain ⟨hfit, hover⟩ := parse_generate_json N fp hN ws1 t ws2 evs d p0
    (generator_new 0 p0.flags []) hws1 hws2 hjv ha hb0 f1 hok hst hlen
  rw [hroom] at hfit hover
  have hfuel : p0.mis.start.length + 2 = (p0.mis.start.length + 1) + 1 := rfl
  have hg : (generator_new 0 p0.flags ([] : List Event)).ctx = [] := rfl
  by_cases hd : d ≤ 1024
  · obtain ⟨p2, hpg, hstep⟩ := hfit hd
    have hev : overflowPrefix 1024 evs = evs := by
      have := overflow_fits N fp hN _ _ _ _ hjv 1024 [] hd
      simpa [overflowPrefix] using this
    have heof : mis_eof p2.mis = true := by
      unfold mis_eof mis_tell
      rw [hstep.2.1, hstep.2.2.1, f3, f4, htext]; simp
    have hres : parse record_callbacks fp p0 (generator_new 0 p0.flags []) =
        (make_parse_result p2 JSNPG_EOF result_union.none, p2,
          deliver (generator_new 0 p0.flags []) evs) := by
      unfold parse
      rw [hfuel, parse_loop_succ, GM_bind_ok _ _ _ _ _ _ _ hpg,
        GM_bind_ok _ _ _ _ _ _ _ (liftP_ok (fun p => Res.ok p.flags p) p2 p2 p2.flags _ rfl),
        GM_bind_ok _ _ _ _ _ _ _ (liftP_ok (get_mis mis_eof) p2 p2 (mis_eof p2.mis) _ rfl), heof]
      rfl
    rw [hres]
    refine ⟨?_, fun _ => ⟨rfl, ?_⟩, fun h => absurd h (by omega)⟩
    · show (deliver _ evs).ctx = _
      rw [hev]; simp [deliver, hg]
    · show (deliver _ evs).ctx = _
      simp [deliver, hg]
  · obtain ⟨p1, hpg, hty, hu⟩ := hover (by omega)
    have hres : parse record_callbacks fp p0 (generator_new 0 p0.flags []) =
        (make_pg_error_return p1 (deliver (generator_new 0 p0.flags []) (overflowPrefix 1024 evs)),
          p1, deliver (generator_new 0 p0.flags []) (overflowPrefix 1024 evs)) := by
      unfold parse
      rw [hfuel, parse_loop_succ, GM_bind_thrown _ _ _ _ _ _ hpg]
    have hret : ∀ g : generator (List Event), make_pg_error_return p1 g = p1.result := by
      intro g
      unfold make_pg_error_return
      simp [hty, hu]
    rw [hres, hret]
    refine ⟨?_, fun h => absurd h hd, fun _ => ⟨hty, hu⟩⟩
    show (deliver _ _).ctx = _
    simp [deliver, hg]

end Jsnpg

namespace Jsnpg
open jsnpg_type jsnpg_error_code

/-! ### The scan of a numeral in explicit form -/

theorem fraction_digits_loop_exact (rest : List Nat) (hr : ¬ sub_zero (rest.headD 0) < 10) :
    ∀ (ds : List Nat), (∀ x ∈ ds, isDigit x) →
    ∀ (d fuel : Nat) (n : number_scan) (mis : memory_input_stream),
      isDigit d → ahead mis = d :: ds ++ rest → ds.length + 1 ≤ fuel → n.c = sub_zero d →
      fraction_digits_loop fuel n mis =
        ({ sum := (frac_accum (n.sum, n.exponent, n.sig_digits) (d :: ds)).1,
           exponent := (frac_accum (n.sum, n.exponent, n.sig_digits) (d :: ds)).2.1,
           sig_digits := (frac_accum (n.sum, n.exponent, n.sig_digits) (d :: ds)).2.2,
           c := sub_zero (rest.headD 0) },
         { mis with read := mis.read + (ds.length + 1) }) := by
  intro ds
  induction ds with
  | nil =>
    intro _ d fuel n mis hd ha hf hc
    obtain ⟨k, rfl⟩ : ∃ k, fuel = k + 1 := ⟨fuel - 1, by omega⟩
    simp only [List.cons_append, List.nil_append] at ha
    obtain ⟨_, _, hat, hmt⟩ := ahead_eq_cons mis d rest ha
    have hz := sub_zero_digit d hd
    rw [fraction_digits_loop]
    simp only []
    rw [mis_peek_eq, hat, if_neg hr, hmt, hc, hz.1]
    simp only [frac_accum, List.foldl, frac_step, max_sig_digits, List.length_nil, Nat.zero_add]
    by_cases hs : n.sig_digits < 19
    · simp only [hs, if_true]
    · simp only [hs, if_false]
  | cons d2 ds ih =>
    intro hds d fuel n mis hd ha hf hc
    obtain ⟨k, rfl⟩ : ∃ k, fuel = k + 1 := ⟨fuel - 1, by omega⟩
    simp only [List.cons_append] at ha
    obtain ⟨_, _, hat, hmt⟩ := ahead_eq_cons mis d (d2 :: (ds ++ rest)) ha
    have hd2 := hds d2 (List.mem_cons_self _ _)
    have hz := sub_zero_digit d hd
    rw [fraction_digits_loop]
    simp only []
    rw [mis_peek_eq, hat]
    simp only [List.headD_cons]
    rw [if_pos (sub_zero_digit d2 hd2).2]
    have hn : (let n1 : number_scan := if n.sig_digits < max_sig_digits then
          { sum := (10 * n.sum + n.c) % 2 ^ 64, exponent := n.exponent - 1,
            sig_digits := n.sig_digits + (if (10 * n.sum + n.c) % 2 ^ 64 ≠ 0 then 1 else 0),
            c := n.c }
        else n
        ({ n1 with c := sub_zero d2 } : number_scan)) =
        (if n.sig_digits < max_sig_digits then
        { sum := (10 * n.sum + n.c) % 2 ^ 64, exponent := n.exponent - 1,
          sig_digits := n.sig_digits + (if (10 * n.sum + n.c) % 2 ^ 64 ≠ 0 then 1 else 0),
          c := sub_zero d2 }
       else { n with c := sub_zero d2 }) := by
      simp only []
      split <;> rfl
    simp only [] at hn
    rw [hn, ih (fun x hx => hds x (List.mem_cons_of_mem _ hx)) d2 k _ (mis_take mis).2 hd2
      (by rw [hat]; rfl) (by simp only [List.length_cons] at hf; omega)
      (by split <;> rfl), hmt]
    rw [hc, hz.1]
    have hfold : frac_accum (n.sum, n.exponent, n.sig_digits) (d :: d2 :: ds) =
        frac_accum (frac_step (n.sum, n.exponent, n.sig_digits) d) (d2 :: ds) := rfl
    rw [hfold]
    simp only [max_sig_digits, List.length_cons, frac_step]
    by_cases hs : n.sig_digits < 19
    · simp only [hs, if_true]
      refine Prod.ext ?_ ?_ <;> simp <;> omega
    · simp only [hs, if_false]
      refine Prod.ext ?_ ?_ <;> simp <;> omega

theorem parse_number_fraction_exact (p : parser) (k : Nat) (n : number_scan) (fd : Bool)
    (pre ds rest : List Nat) (d : Nat) (hk : pre.length = k)
    (ha : ahead p.mis = pre ++ (0x2E :: d :: (ds ++ rest)))
    (hd : isDigit d) (hds : ∀ x ∈ ds, isDigit x) (hr : ¬ sub_zero (rest.headD 0) < 10)
    (hc : n.c = sub_zero 0x2E) :
    parse_number_fraction n fd (advance p k) =
      Res.ok ({ sum := (frac_accum (n.sum, n.exponent, n.sig_digits) (d :: ds)).1,
                exponent := (frac_accum (n.sum, n.exponent, n.sig_digits) (d :: ds)).2.1,
                sig_digits := (frac_accum (n.sum, n.exponent, n.sig_digits) (d :: ds)).2.2,
                c := sub_zero (rest.headD 0) }, true)
        (advance p (k + (ds.length + 2))) := by
  have ha1 : ahead p.mis = (pre ++ [0x2E]) ++ (d :: (ds ++ rest)) := by rw [ha]; simp
  obtain ⟨h1, h2⟩ := loop_fuel_ok p (k + 1) (pre ++ [0x2E]) (d :: (ds ++ rest))
    (by simp [hk]) (by omega) ha1
  have hz := sub_zero_digit d hd
  have g0 : (ahead p.mis).getD k 0 = 0x2E := by
    rw [ha, ← hk, getD_append_length]; rfl
  have g1 : (ahead p.mis).getD (k + 1) 0 = d := by
    rw [ha1, show k + 1 = (pre ++ [0x2E]).length by simp [hk], getD_append_length]; rfl
  have hl := fraction_digits_loop_exact rest hr ds hds d
    ((advance p (k + 1)).mis.start.length + 1 - (advance p (k + 1)).mis.read)
    { n with c := sub_zero d } (advance p (k + 1)).mis hd (by rw [h1]; rfl)
    (by simp only [List.length_cons, List.length_append] at h2; omega) rfl
  unfold parse_number_fraction
  simp only [hc, if_true, PM_bind_apply, take_adv, peek_adv, PM_pure_apply, g1, ge_iff_le]
  rw [if_neg (by omega)]
  simp only [PM_bind_apply, on_mis_apply, hl, PM_pure_apply]
  show Res.ok _ (advance (advance p (k + 1)) (ds.length + 1)) = _
  rw [advance_advance, show k + 1 + (ds.length + 1) = k + (ds.length + 2) by omega]

theorem parse_number_exponent_unsigned_exact (p : parser) (k : Nat) (n : number_scan) (fd : Bool)
    (pre ds rest : List Nat) (m d : Nat) (hk : pre.length = k)
    (ha : ahead p.mis = pre ++ (m :: d :: (ds ++ rest)))
    (hd : isDigit d) (hds : ∀ x ∈ ds, isDigit x) (hr : ¬ sub_zero (rest.headD 0) < 10)
    (hc : n.c = sub_zero 0x65 ∨ n.c = sub_zero 0x45) (hv : decimalValue (d :: ds) ≤ 1000) :
    parse_number_exponent n fd (advance p k) =
      Res.ok ({ n with exponent := n.exponent + 1 * (decimalValue (d :: ds) : Int),
                       c := sub_zero (rest.headD 0) }, true)
        (advance p (k + (1 + (ds.length + 1)))) := by
  have ha1 : ahead p.mis = (pre ++ [m]) ++ (d :: (ds ++ rest)) := by rw [ha]; simp
  obtain ⟨h1, h2⟩ := loop_fuel_ok p (k + 1) (pre ++ [m]) (d :: (ds ++ rest))
    (by simp [hk]) (by omega) ha1
  have hz := sub_zero_digit d hd
  have hne : d ≠ 0x2D ∧ d ≠ 0x2B := by unfold isDigit at hd; omega
  have hl := exponent_digits_loop_spec rest hr ds hds d
    ((advance p (k + 1)).mis.start.length + 1 - (advance p (k + 1)).mis.read)
    0 (advance p (k + 1)).mis hd h1
    (by simp only [List.length_cons, List.length_append] at h2; omega)
    (by rw [Nat.zero_mul, Nat.zero_add]; exact hv)
  rw [Nat.zero_mul, Nat.zero_add, show ((0 : Nat) : Int) = 0 from rfl] at hl
  have gd : (ahead p.mis).getD (k + 1) 0 = d := by
    rw [ha1, show k + 1 = (pre ++ [m]).length by simp [hk], getD_append_length]; rfl
  unfold parse_number_exponent
  simp only [hc, if_true, PM_bind_apply, take_adv, peek_adv, PM_pure_apply,
    gd, hne.1, hne.2, or_self, if_false, ge_iff_le]
  rw [if_neg (by omega)]
  simp only [PM_bind_apply, on_mis_apply, hl, PM_pure_apply]
  refine congrArg (Res.ok _) ?_
  show advance (advance p (k + 1)) (ds.length + 1) = _
  rw [advance_advance, Nat.add_assoc]

theorem parse_number_exponent_signed_exact (p : parser) (k : Nat) (n : number_scan) (fd : Bool)
    (pre ds rest : List Nat) (m sg d : Nat) (hk : pre.length = k)
    (ha : ahead p.mis = pre ++ (m :: sg :: d :: (ds ++ rest)))
    (hsg : sg = 0x2B ∨ sg = 0x2D)
    (hd : isDigit d) (hds : ∀ x ∈ ds, isDigit x) (hr : ¬ sub_zero (rest.headD 0) < 10)
    (hc : n.c = sub_zero 0x65 ∨ n.c = sub_zero 0x45) (hv : decimalValue (d :: ds) ≤ 1000) :
    parse_number_exponent n fd (advance p k) =
      Res.ok ({ n with exponent := n.exponent +
                         (if sg = 0x2D then -1 else 1) * (decimalValue (d :: ds) : Int),
                       c := sub_zero (rest.headD 0) }, true)
        (advance p (k + (2 + (ds.length + 1)))) := by
  have ha1 : ahead p.mis = (pre ++ [m, sg]) ++ (d :: (ds ++ rest)) := by rw [ha]; simp
  have ha2 : ahead p.mis = (pre ++ [m]) ++ (sg :: d :: (ds ++ rest)) := by rw [ha]; simp
  obtain ⟨h1, h2⟩ := loop_fuel_ok p (k + 2) (pre ++ [m, sg]) (d :: (ds ++ rest))
    (by simp [hk]) (by omega) ha1
  have hz := sub_zero_digit d hd
  have hl := exponent_digits_loop_spec rest hr ds hds d
    ((advance p (k + 2)).mis.start.length + 1 - (advance p (k + 2)).mis.read)
    0 (advance p (k + 2)).mis hd h1
    (by simp only [List.length_cons, List.length_append] at h2; omega)
    (by rw [Nat.zero_mul, Nat.zero_add]; exact hv)
  rw [Nat.zero_mul, Nat.zero_add, show ((0 : Nat) : Int) = 0 from rfl] at hl
  have gs : (ahead p.mis).getD (k + 1) 0 = sg := by
    rw [ha2, show k + 1 = (pre ++ [m]).length by simp [hk], getD_append_length]; rfl
  have gd : (ahead p.mis).getD (k + 1 + 1) 0 = d := by
    rw [ha1, show k + 1 + 1 = (pre ++ [m, sg]).length by simp [hk], getD_append_length]; rfl
  have hsg' : sg = 45 ∨ sg = 43 := by omega
  unfold parse_number_exponent
  simp only [hc, if_true, PM_bind_apply, take_adv, peek_adv, PM_pure_apply,
    gs, hsg', gd, ge_iff_le]
  rw [if_neg (by omega)]
  simp only [PM_bind_apply, on_mis_apply, hl, PM_pure_apply]
  refine congrArg (Res.ok _) ?_
  show advance (advance p (k + 2)) (ds.length + 1) = _
  rw [advance_advance, Nat.add_assoc]

theorem parse_number_exponent_exact (p : parser) (k : Nat) (n : number_scan) (fd : Bool)
    (pre ms ds rest : List Nat) (d : Nat) (hk : pre.length = k) (hms : isExponentMark ms)
    (ha : ahead p.mis = pre ++ (ms ++ d :: (ds ++ rest)))
    (hd : isDigit d) (hds : ∀ x ∈ ds, isDigit x) (hr : ¬ sub_zero (rest.headD 0) < 10)
    (hc : n.c = sub_zero (ms.headD 0)) (hv : decimalValue (d :: ds) ≤ 1000) :
    parse_number_exponent n fd (advance p k) =
      Res.ok ({ n with exponent := n.exponent + exponent_sign ms * (decimalValue (d :: ds) : Int),
                       c := sub_zero (rest.headD 0) }, true)
        (advance p (k + (ms.length + (ds.length + 1)))) := by
  rcases hms with h | h | h | h | h | h <;> subst h
  · exact parse_number_exponent_unsigned_exact p k n fd pre ds rest _ d hk ha hd hds hr
      (Or.inl hc) hv
  · exact parse_number_exponent_unsigned_exact p k n fd pre ds rest _ d hk ha hd hds hr
      (Or.inr hc) hv
  · exact parse_number_exponent_signed_exact p k n fd pre ds rest _ _ d hk ha (Or.inl rfl) hd hds
      hr (Or.inl hc) hv
  · exact parse_number_exponent_signed_exact p k n fd pre ds rest _ _ d hk ha (Or.inl rfl) hd hds
      hr (Or.inr hc) hv
  · exact parse_number_exponent_signed_exact p k n fd pre ds rest _ _ d hk ha (Or.inr rfl) hd hds
      hr (Or.inl hc) hv
  · exact parse_number_exponent_signed_exact p k n fd pre ds rest _ _ d hk ha (Or.inr rfl) hd hds
      hr (Or.inr hc) hv

theorem parse_number_scan_exact (p : parser) (neg : Bool) (ip tail : List Nat)
    (hip : isIntegerPart ip) (ht : ¬ sub_zero (tail.headD 0) < 10)
    (ha : ahead p.mis = (if neg then [0x2D] else []) ++ (ip ++ tail)) :
    ∃ n0,
      parse_number_first p = Res.ok (neg, n0) (advance p ((if neg then 1 else 0) + 1)) ∧
      parse_number_integer_part n0 (advance p ((if neg then 1 else 0) + 1)) =
        Res.ok { sum := (ip_accum ip).1, exponent := (ip_accum ip).2.1,
                 sig_digits := (ip_accum ip).2.2, c := sub_zero (tail.headD 0) }
          (advance p ((if neg then 1 else 0) + ip.length)) := by
  have hpos : ∀ neg : Bool, (if neg then 2 else 1) = (if neg then 1 else 0) + 1 := by
    intro b; cases b <;> rfl
  rcases hip with h0 | ⟨d, t, hdt, hd1, hd9, ht9⟩
  · subst h0
    have hd : isDigit 0x30 := by unfold isDigit; omega
    have h1 := parse_number_first_ok p neg 0x30 tail hd (by rw [ha]; simp)
    rw [hpos] at h1
    refine ⟨_, h1, ?_⟩
    rw [parse_number_integer_part_zero p _ _ rfl]
    have hg : (ahead p.mis).getD ((if neg then 1 else 0) + 1) 0 = tail.headD 0 := by
      rw [ha, ← sign_length neg, getD_append_right]
      simp only [List.singleton_append, List.getD_cons_succ, getD_zero_eq_headD]
    rw [hg]
    rfl
  · subst hdt
    have hd : isDigit d := by unfold isDigit; omega
    have h1 := parse_number_first_ok p neg d (t ++ tail) hd (by rw [ha]; simp)
    rw [hpos] at h1
    have hne : d - 0x30 ≠ 0 := by omega
    have h2 := parse_number_integer_part_ok p ((if neg then 1 else 0) + 1)
      { sum := d - 0x30, exponent := 0, sig_digits := if d - 0x30 ≠ 0 then 1 else 0,
        c := d - 0x30 }
      ((if neg then [0x2D] else []) ++ [d]) t tail (by simp [sign_length]) (by omega)
      (by rw [ha]; simp) ht9 ht hne
    simp only [List.length_cons]
    rw [show (if neg then 1 else 0) + (t.length + 1) = (if neg then 1 else 0) + 1 + t.length by
      omega]
    exact ⟨_, h1, h2⟩

/-- The scan of a grammatical numeral that is converted to `double`, with what
it has accumulated. -/
theorem parse_number_scans (fp : FloatPrims) (p : parser) (neg : Bool)
    (ip : List Nat) (frac : Option (List Nat)) (exp : Option (List Nat × List Nat))
    (rest : List Nat) (hnum : isNumeral ip frac exp) (hb : rest.headD 0 < 256)
    (hnd : ¬ isDigit (rest.headD 0))
    (hne : exp = none → rest.headD 0 ≠ 0x65 ∧ rest.headD 0 ≠ 0x45)
    (hnf : frac = none → exp = none → rest.headD 0 ≠ 0x2E)
    (ha : ahead p.mis = numeralText neg ip frac exp ++ rest)
    (hexp : exponentDigitsValue exp ≤ 1000)
    (hreal : frac ≠ none ∨ exp ≠ none ∨
      (if neg then decimalValue ip > 2 ^ 63 else decimalValue ip > 2 ^ 63 - 1)) :
    parse_number fp p =
      parse_number_real fp p.mis.read neg
        { sum := (numeral_scan ip frac exp).1, exponent := (numeral_scan ip frac exp).2.1,
          sig_digits := (numeral_scan ip frac exp).2.2, c := sub_zero (rest.headD 0) }
        (advance p (numeralText neg ip frac exp).length) := by
  obtain ⟨hip, hfrac, hexpg⟩ := hnum
  have ht : ¬ sub_zero (rest.headD 0) < 10 := by rwa [sub_zero_lt_iff _ hb]
  have hsl := sign_length neg
  rcases frac with _ | fds <;> rcases exp with _ | ⟨ms, eds⟩
  · -- neither fraction nor exponent: the value is out of range
    have hr : if neg then decimalValue ip > 2 ^ 63 else decimalValue ip > 2 ^ 63 - 1 := by
      rcases hreal with h | h | h
      · exact absurd rfl h
      · exact absurd rfl h
      · exact h
    simp only [numeralText, List.append_nil] at ha ⊢
    rw [List.append_assoc] at ha
    obtain ⟨n0, n1, e1, e2, hc, hbig, hsmall⟩ :=
      parse_number_scan_integer p neg ip rest hip ht ha
    obtain ⟨n0', e1', e2'⟩ := parse_number_scan_exact p neg ip rest hip ht ha
    have hn0 : n0' = n0 := by
      have := e1'.symm.trans e1
      injection this with h _
      exact (Prod.mk.inj h).2
    rw [hn0, e2] at e2'
    have hn1 : n1 = ⟨(ip_accum ip).1, (ip_accum ip).2.1, (ip_accum ip).2.2,
        sub_zero (rest.headD 0)⟩ := by
      injection e2'
    have f1 : n1.c ≠ sub_zero 0x2E := by
      rw [hc]; exact sub_zero_ne _ _ hb (by norm_num) (hnf rfl rfl)
    have f2 : ¬ (n1.c = sub_zero 0x65 ∨ n1.c = sub_zero 0x45) := by
      rw [hc]; rintro (h | h)
      · exact sub_zero_ne _ _ hb (by norm_num) (hne rfl).1 h
      · exact sub_zero_ne _ _ hb (by norm_num) (hne rfl).2 h
    unfold parse_number
    simp only [PM_bind_apply, get_mis_apply, e1, e2, parse_number_fraction_absent n1 false _ f1,
      parse_number_exponent_absent n1 false _ f2, List.length_append, hsl, mis_tell]
    rw [parse_number_finish_real fp _ neg n1 false _ (by
      by_cases hl : ip.length ≤ 19
      · right; right
        rw [(hsmall hl).2]; exact hr
      · right; left
        exact hbig (by omega)), hn1]
    rfl
  · -- exponent only
    obtain ⟨hms, hne0, hed⟩ := hexpg ms eds rfl
    obtain ⟨d, ds, rfl⟩ : ∃ d ds, eds = d :: ds := by
      cases eds with
      | nil => exact absurd rfl hne0
      | cons d ds => exact ⟨d, ds, rfl⟩
    obtain ⟨hmh, hmt⟩ := exponent_mark_head ms hms
    simp only [numeralText, List.append_nil] at ha ⊢
    have ha' : ahead p.mis = (if neg then [0x2D] else []) ++ (ip ++ (ms ++ d :: (ds ++ rest))) := by
      rw [ha]; simp
    have hth : ¬ sub_zero ((ms ++ d :: (ds ++ rest)).headD 0) < 10 := by
      rw [hmt]; rcases hmh with h | h <;> rw [h] <;> decide
    obtain ⟨n0, e1, e2⟩ := parse_number_scan_exact p neg ip _ hip hth ha'
    rw [hmt] at e2
    have f1 : sub_zero (ms.headD 0) ≠ sub_zero 0x2E := by
      rcases hmh with h | h <;> rw [h] <;> decide
    have he := parse_number_exponent_exact p ((if neg then 1 else 0) + ip.length)
      { sum := (ip_accum ip).1, exponent := (ip_accum ip).2.1,
        sig_digits := (ip_accum ip).2.2, c := sub_zero (ms.headD 0) }
      false ((if neg then [0x2D] else []) ++ ip) ms ds rest d (by simp [hsl]) hms
      (by rw [ha]; simp) (hed d (List.mem_cons_self _ _))
      (fun x hx => hed x (List.mem_cons_of_mem _ hx)) ht rfl hexp
    unfold parse_number
    simp only [PM_bind_apply, get_mis_apply, e1, e2,
      parse_number_fraction_absent ⟨(ip_accum ip).1, (ip_accum ip).2.1, (ip_accum ip).2.2,
        sub_zero (ms.headD 0)⟩ false _ f1, he, mis_tell]
    rw [parse_number_finish_real fp _ neg _ true _ (Or.inl rfl)]
    simp only [List.length_append, hsl, List.length_cons, Nat.add_assoc]
    rfl
  · -- fraction only
    obtain ⟨hne0, hfd⟩ := hfrac fds rfl
    obtain ⟨d, ds, rfl⟩ : ∃ d ds, fds = d :: ds := by
      cases fds with
      | nil => exact absurd rfl hne0
      | cons d ds => exact ⟨d, ds, rfl⟩
    simp only [numeralText, List.append_nil] at ha ⊢
    have ha' : ahead p.mis =
        (if neg then [0x2D] else []) ++ (ip ++ (0x2E :: d :: (ds ++ rest))) := by
      rw [ha]; simp
    have hth : ¬ sub_zero ((0x2E :: d :: (ds ++ rest)).headD 0) < 10 := by
      simp only [List.headD_cons]; decide
    obtain ⟨n0, e1, e2⟩ := parse_number_scan_exact p neg ip _ hip hth ha'
    simp only [List.headD_cons] at e2
    have hf := parse_number_fraction_exact p ((if neg then 1 else 0) + ip.length)
      { sum := (ip_accum ip).1, exponent := (ip_accum ip).2.1,
        sig_digits := (ip_accum ip).2.2, c := sub_zero 0x2E }
      false ((if neg then [0x2D] else []) ++ ip) ds rest d (by simp [hsl])
      (by rw [ha]; simp) (hfd d (List.mem_cons_self _ _))
      (fun x hx => hfd x (List.mem_cons_of_mem _ hx)) ht rfl
    have f2 : ¬ ((sub_zero (rest.headD 0)) = sub_zero 0x65 ∨
        (sub_zero (rest.headD 0)) = sub_zero 0x45) := by
      rintro (h | h)
      · exact sub_zero_ne _ _ hb (by norm_num) (hne rfl).1 h
      · exact sub_zero_ne _ _ hb (by norm_num) (hne rfl).2 h
    unfold parse_number
    simp only [PM_bind_apply, get_mis_apply, e1, e2, hf, mis_tell]
    rw [parse_number_exponent_absent _ true _ f2]
    simp only []
    rw [parse_number_finish_real fp _ neg _ true _ (Or.inl rfl)]
    simp only [List.length_append, hsl, List.length_cons, Nat.add_assoc]
    rfl
  · -- fraction and exponent
    obtain ⟨hne0, hfd⟩ := hfrac fds rfl
    obtain ⟨d, ds, rfl⟩ : ∃ d ds, fds = d :: ds := by
      cases fds with
      | nil => exact absurd rfl hne0
      | cons d ds => exact ⟨d, ds, rfl⟩
    obtain ⟨hms, hne1, hed⟩ := hexpg ms eds rfl
    obtain ⟨d2, ds2, rfl⟩ : ∃ d ds, eds = d :: ds := by
      cases eds with
      | nil => exact absurd rfl hne1
      | cons d ds => exact ⟨d, ds, rfl⟩
    obtain ⟨hmh, hmt⟩ := exponent_mark_head ms hms
    simp only [numeralText, List.append_nil] at ha ⊢
    have ha' : ahead p.mis = (if neg then [0x2D] else []) ++
        (ip ++ (0x2E :: d :: (ds ++ (ms ++ d2 :: (ds2 ++ rest))))) := by
      rw [ha]; simp
    have hth : ¬ sub_zero ((0x2E :: d :: (ds ++ (ms ++ d2 :: (ds2 ++ rest)))).headD 0) < 10 := by
      simp only [List.headD_cons]; decide
    have htm : ¬ sub_zero ((ms ++ d2 :: (ds2 ++ rest)).headD 0) < 10 := by
      rw [hmt]; rcases hmh with h | h <;> rw [h] <;> decide
    obtain ⟨n0, e1, e2⟩ := parse_number_scan_exact p neg ip _ hip hth ha'
    simp only [List.headD_cons] at e2
    have hf := parse_number_fraction_exact p ((if neg then 1 else 0) + ip.length)
      { sum := (ip_accum ip).1, exponent := (ip_accum ip).2.1,
        sig_digits := (ip_accum ip).2.2, c := sub_zero 0x2E }
      false ((if neg then [0x2D] else []) ++ ip) ds (ms ++ d2 :: (ds2 ++ rest)) d
      (by simp [hsl]) (by rw [ha]; simp) (hfd d (List.mem_cons_self _ _))
      (fun x hx => hfd x (List.mem_cons_of_mem _ hx)) htm rfl
    rw [hmt] at hf
    have he := parse_number_exponent_exact p
      ((if neg then 1 else 0) + ip.length + (ds.length + 2))
      { sum := (frac_accum (ip_accum ip) (d :: ds)).1,
        exponent := (frac_accum (ip_accum ip) (d :: ds)).2.1,
        sig_digits := (frac_accum (ip_accum ip) (d :: ds)).2.2, c := sub_zero (ms.headD 0) }
      true ((if neg then [0x2D] else []) ++ ip ++ 0x2E :: d :: ds) ms ds2 rest d2
      (by simp [hsl]; omega) hms
      (by rw [ha]; simp) (hed d2 (List.mem_cons_self _ _))
      (fun x hx => hed x (List.mem_cons_of_mem _ hx)) ht rfl hexp
    unfold parse_number
    simp only [PM_bind_apply, get_mis_apply, e1, e2, hf, he, mis_tell]
    rw [parse_number_finish_real fp _ neg _ true _ (Or.inl rfl)]
    simp only [List.length_append, hsl, List.length_cons, Nat.add_assoc, Nat.reduceAdd]
    rfl

theorem numeral_head (neg : Bool) (ip : List Nat) (frac : Option (List Nat))
    (exp : Option (List Nat × List Nat)) (hip : isIntegerPart ip) :
    (numeralText neg ip frac exp).headD 0 = 0x2D ∨
      (0x30 ≤ (numeralText neg ip frac exp).headD 0 ∧
        (numeralText neg ip frac exp).headD 0 ≤ 0x39) := by
  unfold numeralText
  cases neg
  · right
    rcases hip with h | ⟨d, t, h, h1, h2, _⟩
    · subst h; simp
    · subst h; simp; omega
  · left; simp

theorem parse_number_real_converts (fp : FloatPrims) (p : parser) (neg : Bool)
    (ip : List Nat) (frac : Option (List Nat)) (exp : Option (List Nat × List Nat))
    (rest : List Nat) (d c : Nat) (hdl : isDelim (rest.headD 0))
    (ha : ahead p.mis = numeralText neg ip frac exp ++ rest)
    (hcv : Converts fp neg ip frac exp d) :
    parse_number_real fp p.mis.read neg
        { sum := (numeral_scan ip frac exp).1, exponent := (numeral_scan ip frac exp).2.1,
          sig_digits := (numeral_scan ip frac exp).2.2, c := c }
        (advance p (numeralText neg ip frac exp).length) =
      Res.ok (JSNPG_REAL, result_union.real d)
        (advance p (numeralText neg ip frac exp).length) := by
  unfold parse_number_real
  rcases hcv with h | ⟨h, hs⟩
  · unfold fast_double at h
    simp only [h, PM_pure_apply]
  · unfold fast_double at h
    have hst : (advance p (numeralText neg ip frac exp).length).mis.start.drop p.mis.read =
        numeralText neg ip frac exp ++ rest := ha
    simp only [h, PM_bind_apply, get_mis_apply, hst, hs rest hdl, set_mis_apply, PM_pure_apply]
    rfl

theorem delim_ends (b : Nat) (h : isDelim b) :
    b < 256 ∧ ¬ isDigit b ∧ b ≠ 0x2E ∧ b ≠ 0x65 ∧ b ≠ 0x45 := by
  unfold isDelim isWs at h
  unfold isDigit
  omega

/-- A number of strict JSON is read by `parse_number` wherever a delimiter
follows it. -/
theorem strict_number_parses (fp : FloatPrims) (text : List Nat) (e : Event)
    (h : StrictNumber fp text e) : NumParses fp text e := by
  obtain ⟨neg, ip, frac, exp, hnum, htext, hcase⟩ := h
  refine ⟨by rw [htext]; exact numeral_head neg ip frac exp hnum.1, ?_⟩
  rcases hcase with ⟨hf, he, hrange, hev⟩ | ⟨hreal, hexp, d, hev, hcv⟩
  · left
    refine ⟨numeralInt neg ip, hev, ?_⟩
    intro p rest ha hdl
    obtain ⟨hb, hnd, h2e, h65, h45⟩ := delim_ends _ hdl
    subst hf he
    have htl : text = (if neg then [0x2D] else []) ++ ip := by
      rw [htext]; simp [numeralText]
    have := parse_number_integer_ok fp p neg ip rest hnum.1 hb ⟨hnd, h2e, h65, h45⟩
      (by rw [ha, htl, List.append_assoc]) hrange
    rw [this, htl, List.length_append, sign_length]
    rfl
  · right
    refine ⟨d, hev, ?_⟩
    intro p rest ha hdl
    obtain ⟨hb, hnd, h2e, h65, h45⟩ := delim_ends _ hdl
    rw [htext] at ha ⊢
    have hreal2 : frac ≠ none ∨ exp ≠ none ∨
        (if neg then decimalValue ip > 2 ^ 63 else decimalValue ip > 2 ^ 63 - 1) := by
      rcases hreal with h | h | h
      · exact Or.inl h
      · exact Or.inr (Or.inl h)
      · right; right
        unfold inLongRange at h
        cases neg
        · simp only [Bool.false_eq_true, if_false] at h ⊢; omega
        · simp only [if_true] at h ⊢; omega
    rw [parse_number_scans fp p neg ip frac exp rest hnum hb hnd (fun _ => ⟨h65, h45⟩)
      (fun _ _ => h2e) ha hexp hreal2]
    exact parse_number_real_converts fp p neg ip frac exp rest d _ hdl ha hcv

end Jsnpg

namespace Jsnpg
open jsnpg_type jsnpg_error_code parse_state

/-! ### The position stored by the pull parser -/

theorem EndsAtRead_bind {α β : Type} (m : PM α) (f : α → PM β) (h : ∀ a, EndsAtRead (f a)) :
    EndsAtRead (m >>= f) := by
  intro p b p1 hr
  rw [PM_bind_apply] at hr
  rcases hm : m p with ⟨a, q⟩ | q | q
  · rw [hm] at hr; exact h a q b p1 hr
  · rw [hm] at hr; cases hr
  · rw [hm] at hr; cases hr

theorem EndsAtRead_throw {α : Type} (code : jsnpg_error_code) :
    EndsAtRead (throw_parse_error code : PM α) := by
  intro p a p1 h; cases h

theorem EndsAtRead_aborted {α : Type} : EndsAtRead (fun p => Res.aborted p : PM α) := by
  intro p a p1 h; cases h

theorem EndsAtRead_ite {α : Type} (c : Prop) [Decidable c] (a b : PM α) (ha : EndsAtRead a)
    (hb : EndsAtRead b) : EndsAtRead (if c then a else b) := by
  split
  · exact ha
  · exact hb

theorem EndsAtRead_accept_value (type : jsnpg_type) (u : result_union) :
    EndsAtRead (accept_value type u) := by
  intro p a p1 h
  unfold accept_value at h
  rcases hs : state_change_value p.state with _ | st
  · rw [hs] at h; cases h
  · rw [hs] at h
    injection h with _ h2
    rw [← h2]
    rfl

theorem EndsAtRead_accept_with (st : parser → parse_state) (type : jsnpg_type)
    (u : result_union) : EndsAtRead (accept_with st type u) := by
  intro p a p1 h
  unfold accept_with at h
  injection h with _ h2
  rw [← h2]
  rfl

theorem EndsAtRead_accept_eof : EndsAtRead accept_eof := by
  intro p a p1 h
  unfold accept_eof at h
  injection h with _ h2
  rw [← h2]
  rfl

theorem EndsAtRead_number (r : jsnpg_type × result_union) :
    EndsAtRead (match r.2 with
      | result_union.real d => accept_real d
      | result_union.integer l => accept_integer l
      | _ => fun p => Res.aborted p) := by
  split
  · exact EndsAtRead_accept_value _ _
  · exact EndsAtRead_accept_value _ _
  · exact EndsAtRead_aborted

theorem EndsAtRead_value (fp : FloatPrims) (v : Bool) (b : Nat) :
    EndsAtRead (parse_next_value fp v b) := by
  unfold parse_next_value
  repeat' first
    | apply EndsAtRead_number
    | apply EndsAtRead_throw
    | apply EndsAtRead_accept_value
    | apply EndsAtRead_accept_with
    | apply EndsAtRead_ite
    | (apply EndsAtRead_bind; intro _)

theorem EndsAtRead_object_comma (c v : Bool) (b : Nat) :
    EndsAtRead (parse_next_object_comma c v b) := by
  unfold parse_next_object_comma
  repeat' first
    | apply EndsAtRead_throw
    | apply EndsAtRead_accept_with
    | apply EndsAtRead_ite
    | (apply EndsAtRead_bind; intro _)

theorem EndsAtRead_object (c v : Bool) (b : Nat) : EndsAtRead (parse_next_object c v b) := by
  unfold parse_next_object
  repeat' first
    | apply EndsAtRead_object_comma
    | apply EndsAtRead_accept_with
    | apply EndsAtRead_ite
    | (apply EndsAtRead_bind; intro _)

theorem EndsAtRead_array (fp : FloatPrims) (v : Bool) (b : Nat) :
    EndsAtRead (parse_next_array fp v b) := by
  unfold parse_next_array
  repeat' first
    | apply EndsAtRead_value
    | apply EndsAtRead_accept_with
    | apply EndsAtRead_ite
    | (apply EndsAtRead_bind; intro _)

theorem EndsAtRead_switch (fp : FloatPrims) (state : parse_state) (b : Nat) :
    EndsAtRead (parse_next_switch fp state b) := by
  unfold parse_next_switch
  apply EndsAtRead_bind
  intro flags
  cases state <;> simp only [] <;>
  repeat' first
    | apply EndsAtRead_throw
    | apply EndsAtRead_value
    | apply EndsAtRead_array
    | apply EndsAtRead_object
    | apply EndsAtRead_object_comma
    | apply EndsAtRead_accept_with
    | apply EndsAtRead_accept_eof
    | apply EndsAtRead_ite
    | (apply EndsAtRead_bind; intro _)

theorem EndsAtRead_parse_next (fp : FloatPrims) : EndsAtRead (parse_next fp) := by
  unfold parse_next
  repeat' first
    | apply EndsAtRead_throw
    | apply EndsAtRead_switch
    | apply EndsAtRead_ite
    | (apply EndsAtRead_bind; intro _)

end Jsnpg

namespace Jsnpg
open jsnpg_type jsnpg_error_code

theorem lut_pair : ∀ x, x < 100 →
    c_digits_lut.getD (2 * x) 0 = 0x30 + x / 10 ∧ c_digits_lut.getD (2 * x + 1) 0 = 0x30 + x % 10 := by
  decide

theorem digits_range : ∀ (k n : Nat), 10 ^ k ≤ n → n < 10 ^ (k + 1) →
    Nat.digits 10 n = (List.range (k + 1)).map (fun i => n / 10 ^ i % 10) := by
  intro k
  induction k with
  | zero =>
    intro n h1 h2
    simp only [pow_zero, zero_add, pow_one] at h1 h2
    rw [Nat.digits_of_lt 10 n (by omega) h2]
    simp [List.range_succ]
    omega
  | succ k ih =>
    intro n h1 h2
    have hpos : 0 < 10 ^ (k + 1) := Nat.pow_pos (by norm_num)
    have hn : 0 < n := by omega
    rw [Nat.digits_def' (by norm_num) hn]
    have h3 : 10 ^ k ≤ n / 10 := by
      rw [Nat.le_div_iff_mul_le (by norm_num)]; rw [pow_succ] at h1; exact h1
    have h4 : n / 10 < 10 ^ (k + 1) := by
      rw [Nat.div_lt_iff_lt_mul (by norm_num)]; rw [pow_succ] at h2; exact h2
    rw [ih (n / 10) h3 h4, List.range_succ_eq_map (k + 1), List.map_cons, List.map_map]
    congr 1
    · simp
    · apply List.map_congr_left
      intro i _
      simp only [Function.comp, pow_succ, Nat.div_div_eq_div_mul]
      rw [Nat.mul_comm]

theorem lut_even (x : Nat) (h : x < 100) :
    c_digits_lut.getD ((x <<< 1) % 4294967296) 0 = 0x30 + x / 10 := by
  have e : (x <<< 1) % 4294967296 = 2 * x := by
    rw [Nat.shiftLeft_eq]; omega
  rw [e]; exact (lut_pair x h).1

theorem lut_odd (x : Nat) (h : x < 100) :
    c_digits_lut.getD ((x <<< 1) % 4294967296 + 1) 0 = 0x30 + x % 10 := by
  have e : (x <<< 1) % 4294967296 = 2 * x := by
    rw [Nat.shiftLeft_eq]; omega
  rw [e]; exact (lut_pair x h).2

theorem u64toa_1 (v : Nat) (h1 : 1 ≤ v) (h2 : v < 10) : u64toa v = decimalText v := by
  have hd := digits_range 0 v (by norm_num; exact h1) (by norm_num; exact h2)
  unfold decimalText
  rw [if_neg (by omega), hd]
  unfold u64toa
  simp only [Nat.reduceMul, Nat.reducePow, Nat.reduceMod, ge_iff_le]
  have hm : v % 4294967296 = v := Nat.mod_eq_of_lt (by omega)
  have c8 : (v < 100000000) = True := eq_true (by omega)
  have c4 : (v < 10000) = True := eq_true (by omega)
  have g3 : (1000 ≤ v) = False := eq_false (by omega)
  have g2 : (100 ≤ v) = False := eq_false (by omega)
  have g1 : (10 ≤ v) = False := eq_false (by omega)
  simp only [hm, c8, c4, g3, g2, g1, if_true, if_false]
  repeat (first | rw [lut_odd _ (by omega)] | rw [lut_even _ (by omega)])
  simp only [List.range_succ, List.range_zero, List.nil_append, List.map_append, List.map_cons,
    List.map_nil, List.reverse_append, List.reverse_cons, List.reverse_nil, List.cons_append,
    List.singleton_append, pow_zero, Nat.div_one]
  simp only [List.cons.injEq, and_true, Nat.reducePow, pow_one]
  repeat' apply And.intro
  all_goals first | trivial | omega

theorem u64toa_2 (v : Nat) (h1 : 10 ≤ v) (h2 : v < 100) : u64toa v = decimalText v := by
  have hd := digits_range 1 v (by norm_num; exact h1) (by norm_num; exact h2)
  unfold decimalText
  rw [if_neg (by omega), hd]
  unfold u64toa
  simp only [Nat.reduceMul, Nat.reducePow, Nat.reduceMod, ge_iff_le]
  have hm : v % 4294967296 = v := Nat.mod_eq_of_lt (by omega)
  have c8 : (v < 100000000) = True := eq_true (by omega)
  have c4 : (v < 10000) = True := eq_true (by omega)
  have g3 : (1000 ≤ v) = False := eq_false (by omega)
  have g2 : (100 ≤ v) = False := eq_false (by omega)
  have g1 : (10 ≤ v) = True := eq_true (by omega)
  simp only [hm, c8, c4, g3, g2, g1, if_true, if_false]
  repeat (first | rw [lut_odd _ (by omega)] | rw [lut_even _ (by omega)])
  simp only [List.range_succ, List.range_zero, List.nil_append, List.map_append, List.map_cons,
    List.map_nil, List.reverse_append, List.reverse_cons, List.reverse_nil, List.cons_append,
    List.singleton_append, pow_zero, Nat.div_one]
  simp only [List.cons.injEq, and_true, Nat.reducePow, pow_one]
  repeat' apply And.intro
  all_goals first | trivial | omega

theorem u64toa_3 (v : Nat) (h1 : 100 ≤ v) (h2 : v < 1000) : u64toa v = decimalText v := by
  have hd := digits_range 2 v (by norm_num; exact h1) (by norm_num; exact h2)
  unfold decimalText
  rw [if_neg (by omega), hd]
  unfold u64toa
  simp only [Nat.reduceMul, Nat.reducePow, Nat.reduceMod, ge_iff_le]
  have hm : v % 4294967296 = v := Nat.mod_eq_of_lt (by omega)
  have c8 : (v < 100000000) = True := eq_true (by omega)
  have c4 : (v < 10000) = True := eq_true (by omega)
  have g3 : (1000 ≤ v) = False := eq_false (by omega)
  have g2 : (100 ≤ v) = True := eq_true (by omega)
  have g1 : (10 ≤ v) = True := eq_true (by omega)
  simp only [hm, c8, c4, g3, g2, g1, if_true, if_false]
  repeat (first | rw [lut_odd _ (by omega)] | rw [lut_even _ (by omega)])
  simp only [List.range_succ, List.range_zero, List.nil_append, List.map_append, List.map_cons,
    List.map_nil, List.reverse_append, List.reverse_cons, List.reverse_nil, List.cons_append,
    List.singleton_append, pow_zero, Nat.div_one]
  simp only [List.cons.injEq, and_true, Nat.reducePow, pow_one]
  repeat' apply And.intro
  all_goals first | trivial | omega

theorem u64toa_4 (v : Nat) (h1 : 1000 ≤ v) (h2 : v < 10000) : u64toa v = decimalText v := by
  have hd := digits_range 3 v (by norm_num; exact h1) (by norm_num; exact h2)
  unfold decimalText
  rw [if_neg (by omega), hd]
  unfold u64toa
  simp only [Nat.reduceMul, Nat.reducePow, Nat.reduceMod, ge_iff_le]
  have hm : v % 4294967296 = v := Nat.mod_eq_of_lt (by omega)
  have c8 : (v < 100000000) = True := eq_true (by omega)
  have c4 : (v < 10000) = True := eq_true (by omega)
  have g3 : (1000 ≤ v) = True := eq_true (by omega)
  have g2 : (100 ≤ v) = True := eq_true (by omega)
  have g1 : (10 ≤ v) = True := eq_true (by omega)
  simp only [hm, c8, c4, g3, g2, g1, if_true, if_false]
  repeat (first | rw [lut_odd _ (by omega)] | rw [lut_even _ (by omega)])
  simp only [List.range_succ, List.range_zero, List.nil_append, List.map_append, List.map_cons,
    List.map_nil, List.reverse_append, List.reverse_cons, List.reverse_nil, List.cons_append,
    List.singleton_append, pow_zero, Nat.div_one]
  simp only [List.cons.injEq, and_true, Nat.reducePow, pow_one]
  repeat' apply And.intro
  all_goals first | trivial | omega

theorem u64toa_5 (v : Nat) (h1 : 10000 ≤ v) (h2 : v < 100000) : u64toa v = decimalText v := by
  have hd := digits_range 4 v (by norm_num; exact h1) (by norm_num; exact h2)
  unfold decimalText
  rw [if_neg (by omega), hd]
  unfold u64toa
  simp only [Nat.reduceMul, Nat.reducePow, Nat.reduceMod, ge_iff_le]
  have hm : v % 4294967296 = v := Nat.mod_eq_of_lt (by omega)
  have c8 : (v < 100000000) = True := eq_true (by omega)
  have c4 : (v < 10000) = False := eq_false (by omega)
  have g7 : (10000000 ≤ v) = False := eq_false (by omega)
  have g6 : (1000000 ≤ v) = False := eq_false (by omega)
  have g5 : (100000 ≤ v) = False := eq_false (by omega)
  simp only [hm, c8, c4, g7, g6, g5, if_true, if_false]
  repeat (first | rw [lut_odd _ (by omega)] | rw [lut_even _ (by omega)])
  simp only [List.range_succ, List.range_zero, List.nil_append, List.map_append, List.map_cons,
    List.map_nil, List.reverse_append, List.reverse_cons, List.reverse_nil, List.cons_append,
    List.singleton_append, pow_zero, Nat.div_one]
  simp only [List.cons.injEq, and_true, Nat.reducePow, pow_one]
  repeat' apply And.intro
  all_goals first | trivial | omega

theorem u64toa_6 (v : Nat) (h1 : 100000 ≤ v) (h2 : v < 1000000) : u64toa v = decimalText v := by
  have hd := digits_range 5 v (by norm_num; exact h1) (by norm_num; exact h2)
  unfold decimalText
  rw [if_neg (by omega), hd]
  unfold u64toa
  simp only [Nat.reduceMul, Nat.reducePow, Nat.reduceMod, ge_iff_le]
  have hm : v % 4294967296 = v := Nat.mod_eq_of_lt (by omega)
  have c8 : (v < 100000000) = True := eq_true (by omega)
  have c4 : (v < 10000) = False := eq_false (by omega)
  have g7 : (10000000 ≤ v) = False := eq_false (by omega)
  have g6 : (1000000 ≤ v) = False := eq_false (by omega)
  have g5 : (100000 ≤ v) = True := eq_true (by omega)
  simp only [hm, c8, c4, g7, g6, g5, if_true, if_false]
  repeat (first | rw [lut_odd _ (by omega)] | rw [lut_even _ (by omega)])
  simp only [List.range_succ, List.range_zero, List.nil_append, List.map_append, List.map_cons,
    List.map_nil, List.reverse_append, List.reverse_cons, List.reverse_nil, List.cons_append,
    List.singleton_append, pow_zero, Nat.div_one]
  simp only [List.cons.injEq, and_true, Nat.reducePow, pow_one]
  repeat' apply And.intro
  all_goals first | trivial | omega

theorem u64toa_7 (v : Nat) (h1 : 1000000 ≤ v) (h2 : v < 10000000) : u64toa v = decimalText v := by
  have hd := digits_range 6 v (by norm_num; exact h1) (by norm_num; exact h2)
  unfold decimalText
  rw [if_neg (by omega), hd]
  unfold u64toa
  simp only [Nat.reduceMul, Nat.reducePow, Nat.reduceMod, ge_iff_le]
  have hm : v % 4294967296 = v := Nat.mod_eq_of_lt (by omega)
  have c8 : (v < 100000000) = True := eq_true (by omega)
  have c4 : (v < 10000) = False := eq_false (by omega)
  have g7 : (10000000 ≤ v) = False := eq_false (by omega)
  have g6 : (1000000 ≤ v) = True := eq_true (by omega)
  have g5 : (100000 ≤ v) = True := eq_true (by omega)
  simp only [hm, c8, c4, g7, g6, g5, if_true, if_false]
  repeat (first | rw [lut_odd _ (by omega)] | rw [lut_even _ (by omega)])
  simp only [List.range_succ, List.range_zero, List.nil_append, List.map_append, List.map_cons,
    List.map_nil, List.reverse_append, List.reverse_cons, List.reverse_nil, List.cons_append,
    List.singleton_append, pow_zero, Nat.div_one]
  simp only [List.cons.injEq, and_true, Nat.reducePow, pow_one]
  repeat' apply And.intro
  all_goals first | trivial | omega

theorem u64toa_8 (v : Nat) (h1 : 10000000 ≤ v) (h2 : v < 100000000) : u64toa v = decimalText v := by
  have hd := digits_range 7 v (by norm_num; exact h1) (by norm_num; exact h2)
  unfold decimalText
  rw [if_neg (by omega), hd]
  unfold u64toa
  simp only [Nat.reduceMul, Nat.reducePow, Nat.reduceMod, ge_iff_le]
  have hm : v % 4294967296 = v := Nat.mod_eq_of_lt (by omega)
  have c8 : (v < 100000000) = True := eq_true (by omega)
  have c4 : (v < 10000) = False := eq_false (by omega)
  have g7 : (10000000 ≤ v) = True := eq_true (by omega)
  have g6 : (1000000 ≤ v) = True := eq_true (by omega)
  have g5 : (100000 ≤ v) = True := eq_true (by omega)
  simp only [hm, c8, c4, g7, g6, g5, if_true, if_false]
  repeat (first | rw [lut_odd _ (by omega)] | rw [lut_even _ (by omega)])
  simp only [List.range_succ, List.range_zero, List.nil_append, List.map_append, List.map_cons,
    List.map_nil, List.reverse_append, List.reverse_cons, List.reverse_nil, List.cons_append,
    List.singleton_append, pow_zero, Nat.div_one]
  simp only [List.cons.injEq, and_true, Nat.reducePow, pow_one]
  repeat' apply And.intro
  all_goals first | trivial | omega

theorem u64toa_9 (v : Nat) (h1 : 100000000 ≤ v) (h2 : v < 1000000000) : u64toa v = decimalText v := by
  have hd := digits_range 8 v (by norm_num; exact h1) (by norm_num; exact h2)
  unfold decimalText
  rw [if_neg (by omega), hd]
  unfold u64toa
  simp only [Nat.reduceMul, Nat.reducePow, Nat.reduceMod, ge_iff_le]
  have c8 : (v < 100000000) = False := eq_false (by omega)
  have c16 : (v < 10000000000000000) = True := eq_true (by omega)
  have g15 : (1000000000000000 ≤ v) = False := eq_false (by omega)
  have g14 : (100000000000000 ≤ v) = False := eq_false (by omega)
  have g13 : (10000000000000 ≤ v) = False := eq_false (by omega)
  have g12 : (1000000000000 ≤ v) = False := eq_false (by omega)
  have g11 : (100000000000 ≤ v) = False := eq_false (by omega)
  have g10 : (10000000000 ≤ v) = False := eq_false (by omega)
  have g9 : (1000000000 ≤ v) = False := eq_false (by omega)
  simp only [c8, c16, g15, g14, g13, g12, g11, g10, g9, if_true, if_false]
  repeat (first | rw [lut_odd _ (by omega)] | rw [lut_even _ (by omega)])
  simp only [List.range_succ, List.range_zero, List.nil_append, List.map_append, List.map_cons,
    List.map_nil, List.reverse_append, List.reverse_cons, List.reverse_nil, List.cons_append,
    List.singleton_append, pow_zero, Nat.div_one]
  simp only [List.cons.injEq, and_true, Nat.reducePow, pow_one]
  repeat' apply And.intro
  all_goals first | trivial | omega

theorem u64toa_10 (v : Nat) (h1 : 1000000000 ≤ v) (h2 : v < 10000000000) : u64toa v = decimalText v := by
  have hd := digits_range 9 v (by norm_num; exact h1) (by norm_num; exact h2)
  unfold decimalText
  rw [if_neg (by omega), hd]
  unfold u64toa
  simp only [Nat.reduceMul, Nat.reducePow, Nat.reduceMod, ge_iff_le]
  have c8 : (v < 100000000) = False := eq_false (by omega)
  have c16 : (v < 10000000000000000) = True := eq_true (by omega)
  have g15 : (1000000000000000 ≤ v) = False := eq_false (by omega)
  have g14 : (100000000000000 ≤ v) = False := eq_false (by omega)
  have g13 : (10000000000000 ≤ v) = False := eq_false (by omega)
  have g12 : (1000000000000 ≤ v) = False := eq_false (by omega)
  have g11 : (100000000000 ≤ v) = False := eq_false (by omega)
  have g10 : (10000000000 ≤ v) = False := eq_false (by omega)
  have g9 : (1000000000 ≤ v) = True := eq_true (by omega)
  simp only [c8, c16, g15, g14, g13, g12, g11, g10, g9, if_true, if_false]
  repeat (first | rw [lut_odd _ (by omega)] | rw [lut_even _ (by omega)])
  simp only [List.range_succ, List.range_zero, List.nil_append, List.map_append, List.map_cons,
    List.map_nil, List.reverse_append, List.reverse_cons, List.reverse_nil, List.cons_append,
    List.singleton_append, pow_zero, Nat.div_one]
  simp only [List.cons.injEq, and_true, Nat.reducePow, pow_one]
  repeat' apply And.intro
  all_goals first | trivial | omega

theorem u64toa_11 (v : Nat) (h1 : 10000000000 ≤ v) (h2 : v < 100000000000) : u64toa v = decimalText v := by
  have hd := digits_range 10 v (by norm_num; exact h1) (by norm_num; exact h2)
  unfold decimalText
  rw [if_neg (by omega), hd]
  unfold u64toa
  simp only [Nat.reduceMul, Nat.reducePow, Nat.reduceMod, ge_iff_le]
  have c8 : (v < 100000000) = False := eq_false (by omega)
  have c16 : (v < 10000000000000000) = True := eq_true (by omega)
  have g15 : (1000000000000000 ≤ v) = False := eq_false (by omega)
  have g14 : (100000000000000 ≤ v) = False := eq_false (by omega)
  have g13 : (10000000000000 ≤ v) = False := eq_false (by omega)
  have g12 : (1000000000000 ≤ v) = False := eq_false (by omega)
  have g11 : (100000000000 ≤ v) = False := eq_false (by omega)
  have g10 : (10000000000 ≤ v) = True := eq_true (by omega)
  have g9 : (1000000000 ≤ v) = True := eq_true (by omega)
  simp only [c8, c16, g15, g14, g13, g12, g11, g10, g9, if_true, if_false]
  repeat (first | rw [lut_odd _ (by omega)] | rw [lut_even _ (by omega)])
  simp only [List.range_succ, List.range_zero, List.nil_append, List.map_append, List.map_cons,
    List.map_nil, List.reverse_append, List.reverse_cons, List.reverse_nil, List.cons_append,
    List.singleton_append, pow_zero, Nat.div_one]
  simp only [List.cons.injEq, and_true, Nat.reducePow, pow_one]
  repeat' apply And.intro
  all_goals first | trivial | omega

theorem u64toa_12 (v : Nat) (h1 : 100000000000 ≤ v) (h2 : v < 1000000000000) : u64toa v = decimalText v := by
  have hd := digits_range 11 v (by norm_num; exact h1) (by norm_num; exact h2)
  unfold decimalText
  rw [if_neg (by omega), hd]
  unfold u64toa
  simp only [Nat.reduceMul, Nat.reducePow, Nat.reduceMod, ge_iff_le]
  have c8 : (v < 100000000) = False := eq_false (by omega)
  have c16 : (v < 10000000000000000) = True := eq_true (by omega)
  have g15 : (1000000000000000 ≤ v) = False := eq_false (by omega)
  have g14 : (100000000000000 ≤ v) = False := eq_false (by omega)
  have g13 : (10000000000000 ≤ v) = False := eq_false (by omega)
  have g12 : (1000000000000 ≤ v) = False := eq_false (by omega)
  have g11 : (100000000000 ≤ v) = True := eq_true (by omega)
  have g10 : (10000000000 ≤ v) = True := eq_true (by omega)
  have g9 : (1000000000 ≤ v) = True := eq_true (by omega)
  simp only [c8, c16, g15, g14, g13, g12, g11, g10, g9, if_true, if_false]
  repeat (first | rw [lut_odd _ (by omega)] | rw [lut_even _ (by omega)])
  simp only [List.range_succ, List.range_zero, List.nil_append, List.map_append, List.map_cons,
    List.map_nil, List.reverse_append, List.reverse_cons, List.reverse_nil, List.cons_append,
    List.singleton_append, pow_zero, Nat.div_one]
  simp only [List.cons.injEq, and_true, Nat.reducePow, pow_one]
  repeat' apply And.intro
  all_goals first | trivial | omega

theorem u64toa_13 (v : Nat) (h1 : 1000000000000 ≤ v) (h2 : v < 10000000000000) : u64toa v = decimalText v := by
  have hd := digits_range 12 v (by norm_num; exact h1) (by norm_num; exact h2)
  unfold decimalText
  rw [if_neg (by omega), hd]
  unfold u64toa
  simp only [Nat.reduceMul, Nat.reducePow, Nat.reduceMod, ge_iff_le]
  have c8 : (v < 100000000) = False := eq_false (by omega)
  have c16 : (v < 10000000000000000) = True := eq_true (by omega)
  have g15 : (1000000000000000 ≤ v) = False := eq_false (by omega)
  have g14 : (100000000000000 ≤ v) = False := eq_false (by omega)
  have g13 : (10000000000000 ≤ v) = False := eq_false (by omega)
  have g12 : (1000000000000 ≤ v) = True := eq_true (by omega)
  have g11 : (100000000000 ≤ v) = True := eq_true (by omega)
  have g10 : (10000000000 ≤ v) = True := eq_true (by omega)
  have g9 : (1000000000 ≤ v) = True := eq_true (by omega)
  simp only [c8, c16, g15, g14, g13, g12, g11, g10, g9, if_true, if_false]
  repeat (first | rw [lut_odd _ (by omega)] | rw [lut_even _ (by omega)])
  simp only [List.range_succ, List.range_zero, List.nil_append, List.map_append, List.map_cons,
    List.map_nil, List.reverse_append, List.reverse_cons, List.reverse_nil, List.cons_append,
    List.singleton_append, pow_zero, Nat.div_one]
  simp only [List.cons.injEq, and_true, Nat.reducePow, pow_one]
  repeat' apply And.intro
  all_goals first | trivial | omega

theorem u64toa_14 (v : Nat) (h1 : 10000000000000 ≤ v) (h2 : v < 100000000000000) : u64toa v = decimalText v := by
  have hd := digits_range 13 v (by norm_num; exact h1) (by norm_num; exact h2)
  unfold decimalText
  rw [if_neg (by omega), hd]
  unfold u64toa
  simp only [Nat.reduceMul, Nat.reducePow, Nat.reduceMod, ge_iff_le]
  have c8 : (v < 100000000) = False := eq_false (by omega)
  have c16 : (v < 10000000000000000) = True := eq_true (by omega)
  have g15 : (1000000000000000 ≤ v) = False := eq_false (by omega)
  have g14 : (100000000000000 ≤ v) = False := eq_false (by omega)
  have g13 : (10000000000000 ≤ v) = True := eq_true (by omega)
  have g12 : (1000000000000 ≤ v) = True := eq_true (by omega)
  have g11 : (100000000000 ≤ v) = True := eq_true (by omega)
  have g10 : (10000000000 ≤ v) = True := eq_true (by omega)
  have g9 : (1000000000 ≤ v) = True := eq_true (by omega)
  simp only [c8, c16, g15, g14, g13, g12, g11, g10, g9, if_true, if_false]
  repeat (first | rw [lut_odd _ (by omega)] | rw [lut_even _ (by omega)])
  simp only [List.range_succ, List.range_zero, List.nil_append, List.map_append, List.map_cons,
    List.map_nil, List.reverse_append, List.reverse_cons, List.reverse_nil, List.cons_append,
    List.singleton_append, pow_zero, Nat.div_one]
  simp only [List.cons.injEq, and_true, Nat.reducePow, pow_one]
  repeat' apply And.intro
  all_goals first | trivial | omega

theorem u64toa_15 (v : Nat) (h1 : 100000000000000 ≤ v) (h2 : v < 1000000000000000) : u64toa v = decimalText v := by
  have hd := digits_range 14 v (by norm_num; exact h1) (by norm_num; exact h2)
  unfold decimalText
  rw [if_neg (by omega), hd]
  unfold u64toa
  simp only [Nat.reduceMul, Nat.reducePow, Nat.reduceMod, ge_iff_le]
  have c8 : (v < 100000000) = False := eq_false (by omega)
  have c16 : (v < 10000000000000000) = True := eq_true (by omega)
  have g15 : (1000000000000000 ≤ v) = False := eq_false (by omega)
  have g14 : (100000000000000 ≤ v) = True := eq_true (by omega)
  have g13 : (10000000000000 ≤ v) = True := eq_true (by omega)
  have g12 : (1000000000000 ≤ v) = True := eq_true (by omega)
  have g11 : (100000000000 ≤ v) = True := eq_true (by omega)
  have g10 : (10000000000 ≤ v) = True := eq_true (by omega)
  have g9 : (1000000000 ≤ v) = True := eq_true (by omega)
  simp only [c8, c16, g15, g14, g13, g12, g11, g10, g9, if_true, if_false]
  repeat (first | rw [lut_odd _ (by omega)] | rw [lut_even _ (by omega)])
  simp only [List.range_succ, List.range_zero, List.nil_append, List.map_append, List.map_cons,
    List.map_nil, List.reverse_append, List.reverse_cons, List.reverse_nil, List.cons_append,
    List.singleton_append, pow_zero, Nat.div_one]
  simp only [List.cons.injEq, and_true, Nat.reducePow, pow_one]
  repeat' apply And.intro
  all_goals first | trivial | omega

theorem u64toa_16 (v : Nat) (h1 : 1000000000000000 ≤ v) (h2 : v < 10000000000000000) : u64toa v = decimalText v := by
  have hd := digits_range 15 v (by norm_num; exact h1) (by norm_num; exact h2)
  unfold decimalText
  rw [if_neg (by omega), hd]
  unfold u64toa
  simp only [Nat.reduceMul, Nat.reducePow, Nat.reduceMod, ge_iff_le]
  have c8 : (v < 100000000) = False := eq_false (by omega)
  have c16 : (v < 10000000000000000) = True := eq_true (by omega)
  have g15 : (1000000000000000 ≤ v) = True := eq_true (by omega)
  have g14 : (100000000000000 ≤ v) = True := eq_true (by omega)
  have g13 : (10000000000000 ≤ v) = True := eq_true (by omega)
  have g12 : (1000000000000 ≤ v) = True := eq_true (by omega)
  have g11 : (100000000000 ≤ v) = True := eq_true (by omega)
  have g10 : (10000000000 ≤ v) = True := eq_true (by omega)
  have g9 : (1000000000 ≤ v) = True := eq_true (by omega)
  simp only [c8, c16, g15, g14, g13, g12, g11, g10, g9, if_true, if_false]
  repeat (first | rw [lut_odd _ (by omega)] | rw [lut_even _ (by omega)])
  simp only [List.range_succ, List.range_zero, List.nil_append, List.map_append, List.map_cons,
    List.map_nil, List.reverse_append, List.reverse_cons, List.reverse_nil, List.cons_append,
    List.singleton_append, pow_zero, Nat.div_one]
  simp only [List.cons.injEq, and_true, Nat.reducePow, pow_one]
  repeat' apply And.intro
  all_goals first | trivial | omega

theorem u64toa_17 (v : Nat) (h1 : 10000000000000000 ≤ v) (h2 : v < 100000000000000000) : u64toa v = decimalText v := by
  have hd := digits_range 16 v (by norm_num; exact h1) (by norm_num; exact h2)
  unfold decimalText
  rw [if_neg (by omega), hd]
  unfold u64toa
  simp only [Nat.reduceMul, Nat.reducePow, Nat.reduceMod, ge_iff_le]
  have c8 : (v < 100000000) = False := eq_false (by omega)
  have c16 : (v < 10000000000000000) = False := eq_false (by omega)
  have a10 : (v / 10000000000000000 % 4294967296 < 10) = True := eq_true (by omega)
  have a100 : (v / 10000000000000000 % 4294967296 < 100) = True := eq_true (by omega)
  have a1000 : (v / 10000000000000000 % 4294967296 < 1000) = True := eq_true (by omega)
  simp only [c8, c16, a10, a100, a1000, if_true, if_false]
  repeat (first | rw [lut_odd _ (by omega)] | rw [lut_even _ (by omega)])
  simp only [List.range_succ, List.range_zero, List.nil_append, List.map_append, List.map_cons,
    List.map_nil, List.reverse_append, List.reverse_cons, List.reverse_nil, List.cons_append,
    List.singleton_append, pow_zero, Nat.div_one]
  simp only [List.cons.injEq, and_true, Nat.reducePow, pow_one]
  repeat' apply And.intro
  all_goals first | trivial | omega

theorem u64toa_18 (v : Nat) (h1 : 100000000000000000 ≤ v) (h2 : v < 1000000000000000000) : u64toa v = decimalText v := by
  have hd := digits_range 17 v (by norm_num; exact h1) (by norm_num; exact h2)
  unfold decimalText
  rw [if_neg (by omega), hd]
  unfold u64toa
  simp only [Nat.reduceMul, Nat.reducePow, Nat.reduceMod, ge_iff_le]
  have c8 : (v < 100000000) = False := eq_false (by omega)
  have c16 : (v < 10000000000000000) = False := eq_false (by omega)
  have a10 : (v / 10000000000000000 % 4294967296 < 10) = False := eq_false (by omega)
  have a100 : (v / 10000000000000000 % 4294967296 < 100) = True := eq_true (by omega)
  have a1000 : (v / 10000000000000000 % 4294967296 < 1000) = True := eq_true (by omega)
  simp only [c8, c16, a10, a100, a1000, if_true, if_false]
  repeat (first | rw [lut_odd _ (by omega)] | rw [lut_even _ (by omega)])
  simp only [List.range_succ, List.range_zero, List.nil_append, List.map_append, List.map_cons,
    List.map_nil, List.reverse_append, List.reverse_cons, List.reverse_nil, List.cons_append,
    List.singleton_append, pow_zero, Nat.div_one]
  simp only [List.cons.injEq, and_true, Nat.reducePow, pow_one]
  repeat' apply And.intro
  all_goals first | trivial | omega

theorem u64toa_19 (v : Nat) (h1 : 1000000000000000000 ≤ v) (h2 : v < 10000000000000000000) : u64toa v = decimalText v := by
  have hd := digits_range 18 v (by norm_num; exact h1) (by norm_num; exact h2)
  unfold decimalText
  rw [if_neg (by omega), hd]
  unfold u64toa
  simp only [Nat.reduceMul, Nat.reducePow, Nat.reduceMod, ge_iff_le]
  have c8 : (v < 100000000) = False := eq_false (by omega)
  have c16 : (v < 10000000000000000) = False := eq_false (by omega)
  have a10 : (v / 10000000000000000 % 4294967296 < 10) = False := eq_false (by omega)
  have a100 : (v / 10000000000000000 % 4294967296 < 100) = False := eq_false (by omega)
  have a1000 : (v / 10000000000000000 % 4294967296 < 1000) = True := eq_true (by omega)
  simp only [c8, c16, a10, a100, a1000, if_true, if_false]
  repeat (first | rw [lut_odd _ (by omega)] | rw [lut_even _ (by omega)])
  simp only [List.range_succ, List.range_zero, List.nil_append, List.map_append, List.map_cons,
    List.map_nil, List.reverse_append, List.reverse_cons, List.reverse_nil, List.cons_append,
    List.singleton_append, pow_zero, Nat.div_one]
  simp only [List.cons.injEq, and_true, Nat.reducePow, pow_one]
  repeat' apply And.intro
  all_goals first | trivial | omega

theorem u64toa_20 (v : Nat) (h1 : 10000000000000000000 ≤ v) (h2 : v < 2 ^ 64) : u64toa v = decimalText v := by
  have hd := digits_range 19 v (by norm_num; exact h1) (by norm_num; omega)
  unfold decimalText
  rw [if_neg (by omega), hd]
  unfold u64toa
  simp only [Nat.reduceMul, Nat.reducePow, Nat.reduceMod, ge_iff_le]
  have c8 : (v < 100000000) = False := eq_false (by omega)
  have c16 : (v < 10000000000000000) = False := eq_false (by omega)
  have a10 : (v / 10000000000000000 % 4294967296 < 10) = False := eq_false (by omega)
  have a100 : (v / 10000000000000000 % 4294967296 < 100) = False := eq_false (by omega)
  have a1000 : (v / 10000000000000000 % 4294967296 < 1000) = False := eq_false (by omega)
  simp only [c8, c16, a10, a100, a1000, if_true, if_false]
  repeat (first | rw [lut_odd _ (by omega)] | rw [lut_even _ (by omega)])
  simp only [List.range_succ, List.range_zero, List.nil_append, List.map_append, List.map_cons,
    List.map_nil, List.reverse_append, List.reverse_cons, List.reverse_nil, List.cons_append,
    List.singleton_append, pow_zero, Nat.div_one]
  simp only [List.cons.injEq, and_true, Nat.reducePow, pow_one]
  repeat' apply And.intro
  all_goals first | trivial | omega


/-- The function `u64toa` writes the canonical decimal representation. -/
theorem u64toa_eq (v : Nat) (hv : v < 2 ^ 64) : u64toa v = decimalText v := by
  by_cases h0 : v = 0
  · subst h0; decide
  by_cases h1 : v < 10
  · exact u64toa_1 v (by omega) h1
  by_cases h2 : v < 100
  · exact u64toa_2 v (by omega) h2
  by_cases h3 : v < 1000
  · exact u64toa_3 v (by omega) h3
  by_cases h4 : v < 10000
  · exact u64toa_4 v (by omega) h4
  by_cases h5 : v < 100000
  · exact u64toa_5 v (by omega) h5
  by_cases h6 : v < 1000000
  · exact u64toa_6 v (by omega) h6
  by_cases h7 : v < 10000000
  · exact u64toa_7 v (by omega) h7
  by_cases h8 : v < 100000000
  · exact u64toa_8 v (by omega) h8
  by_cases h9 : v < 1000000000
  · exact u64toa_9 v (by omega) h9
  by_cases h10 : v < 10000000000
  · exact u64toa_10 v (by omega) h10
  by_cases h11 : v < 100000000000
  · exact u64toa_11 v (by omega) h11
  by_cases h12 : v < 1000000000000
  · exact u64toa_12 v (by omega) h12
  by_cases h13 : v < 10000000000000
  · exact u64toa_13 v (by omega) h13
  by_cases h14 : v < 100000000000000
  · exact u64toa_14 v (by omega) h14
  by_cases h15 : v < 1000000000000000
  · exact u64toa_15 v (by omega) h15
  by_cases h16 : v < 10000000000000000
  · exact u64toa_16 v (by omega) h16
  by_cases h17 : v < 100000000000000000
  · exact u64toa_17 v (by omega) h17
  by_cases h18 : v < 1000000000000000000
  · exact u64toa_18 v (by omega) h18
  by_cases h19 : v < 10000000000000000000
  · exact u64toa_19 v (by omega) h19
  exact u64toa_20 v (by omega) hv

theorem i64toa_eq (n : Int) (hlo : -2 ^ 63 ≤ n) (hhi : n < 2 ^ 63) : i64toa n = canonicalInt n := by
  unfold i64toa canonicalInt
  by_cases hn : n < 0
  · rw [if_pos hn, if_pos hn]
    have e : ((2 ^ 64 - 1 - (n % 2 ^ 64).toNat) + 1) % 2 ^ 64 = n.natAbs := by omega
    rw [e, u64toa_eq _ (by omega)]
  · rw [if_neg hn, if_neg hn]
    have e : (n % 2 ^ 64).toNat = n.natAbs := by omega
    rw [e, u64toa_eq _ (by omega)]

theorem decimalValue_append_one (xs : List Nat) (c : Nat) :
    decimalValue (xs ++ [c]) = decimalValue xs * 10 + (c - 0x30) := by
  unfold decimalValue
  rw [List.foldl_append]
  rfl

theorem decimalValue_digits (L : List Nat) :
    decimalValue (L.reverse.map (fun d => 0x30 + d)) = Nat.ofDigits 10 L := by
  induction L with
  | nil => rfl
  | cons d L ih =>
    rw [List.reverse_cons, List.map_append, List.map_cons, List.map_nil,
      decimalValue_append_one, ih, Nat.ofDigits_cons]
    omega

theorem decimalValue_decimalText (m : Nat) : decimalValue (decimalText m) = m := by
  unfold decimalText
  by_cases h : m = 0
  · subst h; rfl
  · rw [if_neg h, decimalValue_digits, Nat.ofDigits_digits]

/-- The canonical representation has no leading zero: it is the JSON integer
part. -/
theorem decimalText_integer_part (m : Nat) : isIntegerPart (decimalText m) := by
  unfold decimalText isIntegerPart
  by_cases h : m = 0
  · left; rw [if_pos h]
  · right
    rw [if_neg h]
    have hne : Nat.digits 10 m ≠ [] := Nat.digits_ne_nil_iff_ne_zero.mpr h
    have hlast := Nat.getLast_digit_ne_zero 10 h
    have hlt : ∀ d ∈ Nat.digits 10 m, d < 10 := fun d hd => Nat.digits_lt_base (by norm_num) hd
    obtain ⟨init, l, hil⟩ : ∃ init l, Nat.digits 10 m = init ++ [l] :=
      ⟨_, _, (List.dropLast_append_getLast hne).symm⟩
    have hl : l = (Nat.digits 10 m).getLast hne := by
      simp only [hil, List.getLast_append_singleton]
    have hl0 : l ≠ 0 := by rw [hl]; exact hlast
    have hl10 : l < 10 := hlt l (by rw [hil]; simp)
    refine ⟨0x30 + l, init.reverse.map (fun d => 0x30 + d), ?_, by omega, by omega, ?_⟩
    · rw [hil, List.reverse_append]; rfl
    · intro x hx
      rw [List.mem_map] at hx
      obtain ⟨d, hd, rfl⟩ := hx
      have : d < 10 := hlt d (by rw [hil]; simp; left; exact List.mem_reverse.1 hd)
      unfold isDigit; omega

theorem decimalText_length (m : Nat) (h : m < 10 ^ 19) : (decimalText m).length ≤ 19 := by
  unfold decimalText
  by_cases h0 : m = 0
  · rw [if_pos h0]; simp
  · rw [if_neg h0, List.length_map, List.length_reverse]
    have h1 := Nat.base_pow_length_digits_le 10 m (by norm_num) h0
    have h2 : 10 ^ (Nat.digits 10 m).length < 10 ^ 20 := by omega
    have h3 := (Nat.pow_lt_pow_iff_right (by norm_num : 1 < 10)).1 h2
    omega

theorem i64toa_length (n : Int) (hlo : -2 ^ 63 ≤ n) (hhi : n < 2 ^ 63) :
    (i64toa n).length ≤ 20 := by
  rw [i64toa_eq n hlo hhi]
  unfold canonicalInt
  have h := decimalText_length n.natAbs (by omega)
  split
  · simp only [List.length_cons]; omega
  · omega

/-- The function `jos_puti` appends what `i64toa` writes. -/
theorem jos_puti_eq (g : jgen) (n : Int) (hlo : -2 ^ 63 ≤ n) (hhi : n < 2 ^ 63) :
    jos_puti g n = (true, jos_puts g (i64toa n)) := by
  have hl := i64toa_length n hlo hhi
  unfold jos_puti jos_puts mos_adjust mos_puts i64toa_min_buffer_length
  simp only []
  congr 3
  have e : ((((g.ctx.mos.buffer ++ (i64toa n ++ List.replicate (22 - (i64toa n).length) 0)).length
      : Nat) : Int) + (((i64toa n).length : Int) - ((22 : Nat) : Int))).toNat =
      (g.ctx.mos.buffer ++ i64toa n).length := by
    simp only [List.length_append, List.length_replicate]
    omega
  rw [e, ← List.append_assoc, List.take_left' rfl]

/-- The text `i64toa` writes is read back by `parse_number` as the integer. -/
theorem i64toa_parses (fp : FloatPrims) (n : Int) (hlo : -2 ^ 63 ≤ n) (hhi : n < 2 ^ 63)
    (p : parser) (rest : List Nat) (ha : ahead p.mis = i64toa n ++ rest)
    (hdl : isDelim (rest.headD 0)) :
    parse_number fp p =
      Res.ok (JSNPG_INTEGER, result_union.integer n) (advance p (i64toa n).length) := by
  obtain ⟨hb, hnd, h2e, h65, h45⟩ := delim_ends _ hdl
  have htext : i64toa n = (if decide (n < 0) then [0x2D] else []) ++ decimalText n.natAbs := by
    rw [i64toa_eq n hlo hhi]
    unfold canonicalInt
    by_cases hn : n < 0
    · simp [hn]
    · simp [hn]
  have hr := parse_number_integer_ok fp p (decide (n < 0)) (decimalText n.natAbs) rest
    (decimalText_integer_part _) hb ⟨hnd, h2e, h65, h45⟩
    (by rw [ha, htext, List.append_assoc])
    (by
      rw [decimalValue_decimalText]
      by_cases hn : n < 0
      · simp only [hn, decide_True, if_true]; omega
      · simp only [hn, decide_False, Bool.false_eq_true, if_false]; omega)
  rw [hr, decimalValue_decimalText, htext, List.length_append, sign_length]
  have hv : (if decide (n < 0) = true then -((n.natAbs : Nat) : Int) else ((n.natAbs : Nat) : Int)) = n := by
    by_cases hn : n < 0
    · simp only [hn, decide_True, if_true]; omega
    · simp only [hn, decide_False, Bool.false_eq_true, if_false]; omega
  rw [hv]

end Jsnpg

namespace Jsnpg
open jsnpg_type jsnpg_error_code

/-! ### The emitter on the bytes of a string -/

theorem escape_bytes_table (b : Nat) (h : b < 0x20 ∨ b = 0x22 ∨ b = 0x5C) :
    (if c_escapes b ≠ 0 then [0x5C, c_escapes b]
      else match s_escapes.getD b none with
        | some (h, l) => [0x5C, 0x75, 0x30, 0x30, h, l]
        | none => [0x5C, 0x75, 0x30, 0x30]) = escapeByte b := by
  have h32 : ∀ x, x < 0x20 →
      (if c_escapes x ≠ 0 then [0x5C, c_escapes x]
        else match s_escapes.getD x none with
          | some (h, l) => [0x5C, 0x75, 0x30, 0x30, h, l]
          | none => [0x5C, 0x75, 0x30, 0x30]) = escapeByte x := by decide
  rcases h with h | rfl | rfl
  · exact h32 b h
  · rfl
  · rfl

theorem escapeByte_plain (b : Nat) (h : ¬ (b = 0x22 ∨ b = 0x5C ∨ b < 0x20)) :
    escapeByte b = [b] := by
  unfold escapeByte
  have h1 : b ≠ 0x22 := fun e => h (Or.inl e)
  have h2 : b ≠ 0x5C := fun e => h (Or.inr (Or.inl e))
  have h3 : ¬ b < 0x20 := fun e => h (Or.inr (Or.inr e))
  rw [if_neg h1, if_neg h2, if_neg (by omega), if_neg (by omega), if_neg (by omega),
    if_neg (by omega), if_neg (by omega), if_neg h3]

theorem scan_step_fail (s : List Nat) (count k pmos1 pmos2 : Nat) (g : jgen)
    (h : find_next_special s count pmos1 g.validate_utf8 = pmos2) (hc : count > pmos2)
    (hv : g.validate_utf8 = true ∧ s.getD pmos2 0 ≥ 0x80)
    (hL : utf8_validate_sequence (s.drop pmos2) (count - pmos2) = -1) :
    jos_scan_escape_loop s count (k + 1) pmos1 g =
      (false, { jos_puts g ((s.drop pmos1).take (pmos2 - pmos1)) with
        error := JSNPG_ERROR_UTF8 }) := by
  rw [jos_scan_escape_loop]
  simp only [h, hc, if_true, eq_true hv, hL]

/-- The loop of `jos_scan_escape` on any bytes. -/
theorem jos_scan_escape_loop_bytes : ∀ (n : Nat) (s pre run : List Nat) (g : jgen) (k : Nat),
    s.length ≤ n → (∀ b ∈ s, b < 256) →
    (∀ b ∈ run, ¬ (b = 0x22 ∨ b = 0x5C ∨ b < 0x20 ∨ (g.validate_utf8 = true ∧ b ≥ 0x80))) →
    s.length + 1 ≤ k →
    jos_scan_escape_loop (pre ++ (run ++ s)) (pre ++ (run ++ s)).length k pre.length g =
      ((escapeText g.validate_utf8 n s).1,
        if (escapeText g.validate_utf8 n s).1 then
          jos_puts g (run ++ (escapeText g.validate_utf8 n s).2)
        else { jos_puts g (run ++ (escapeText g.validate_utf8 n s).2) with
          error := JSNPG_ERROR_UTF8 }) := by
  intro n
  induction n with
  | zero =>
    intro s pre run g k hn _ hrun hk
    have hs : s = [] := List.length_eq_zero.1 (by omega)
    subst hs
    obtain ⟨k, rfl⟩ : ∃ k1, k = k1 + 1 := ⟨k - 1, by omega⟩
    have hf := find_next_special_at g.validate_utf8 pre run [] hrun (fun h => absurd rfl h)
    rw [scan_step_end _ _ k _ _ g hf (by simp), drop_take_mid]
    simp [escapeText]
  | succ n ih =>
    intro s pre run g k hn hb hrun hk
    rcases s with _ | ⟨b, t⟩
    · obtain ⟨k, rfl⟩ : ∃ k1, k = k1 + 1 := ⟨k - 1, by omega⟩
      have hf := find_next_special_at g.validate_utf8 pre run [] hrun (fun h => absurd rfl h)
      rw [scan_step_end _ _ k _ _ g hf (by simp), drop_take_mid]
      simp [escapeText]
    · have hbt : ∀ x ∈ t, x < 256 := fun x hx => hb x (List.mem_cons_of_mem _ hx)
      simp only [List.length_cons] at hn hk
      by_cases hsp : b = 0x22 ∨ b = 0x5C ∨ b < 0x20 ∨ (g.validate_utf8 = true ∧ b ≥ 0x80)
      · obtain ⟨k, rfl⟩ : ∃ k1, k = k1 + 1 := ⟨k - 1, by omega⟩
        have hf := find_next_special_at g.validate_utf8 pre run (b :: t) hrun (fun _ => hsp)
        have hcnt : (pre ++ (run ++ b :: t)).length > pre.length + run.length := by
          simp only [List.length_append, List.length_cons]; omega
        have hget : (pre ++ (run ++ b :: t)).getD (pre.length + run.length) 0 = b := by
          rw [getD_append_right, ← Nat.add_zero run.length, getD_append_right]
          rfl
        have hdrop : (pre ++ (run ++ b :: t)).drop (pre.length + run.length) = b :: t := by
          rw [← List.append_assoc, ← List.length_append, List.drop_left]
        have hsub : (pre ++ (run ++ b :: t)).length - (pre.length + run.length) = t.length + 1 := by
          simp only [List.length_append, List.length_cons]; omega
        by_cases hv : g.validate_utf8 = true ∧ b ≥ 0x80
        · have hesc : escapeText g.validate_utf8 (n + 1) (b :: t) =
              (if utf8_validate_sequence (b :: t) (t.length + 1) = -1 then (false, [])
               else ((escapeText g.validate_utf8 n
                     ((b :: t).drop (utf8_validate_sequence (b :: t) (t.length + 1)).toNat)).1,
                 (b :: t).take (utf8_validate_sequence (b :: t) (t.length + 1)).toNat ++
                   (escapeText g.validate_utf8 n
                     ((b :: t).drop (utf8_validate_sequence (b :: t) (t.length + 1)).toNat)).2)) := by
            rw [escapeText]
            simp only [hv.1, hv.2, and_self, if_true]
          rcases utf8_validate_result (b :: t) (t.length + 1) hb with hL | ⟨L, hL1, _, hL3, hL⟩
          · rw [scan_step_fail _ _ k _ _ g hf hcnt (by rw [hget]; exact hv)
              (by rw [hdrop, hsub]; exact hL), drop_take_mid, hesc, hL]
            simp
          · rw [scan_step_utf8 _ _ k _ _ L g hf hcnt (by rw [hget]; exact hv)
              (by rw [hdrop, hsub]; exact hL), drop_take_mid, hdrop, jos_puts_puts, hesc, hL]
            have hne : ((L : Int) = -1) = False := eq_false (by omega)
            simp only [hne, if_false, Int.toNat_ofNat]
            have hstr : pre ++ (run ++ b :: t) =
                (pre ++ (run ++ (b :: t).take L)) ++ ([] ++ (b :: t).drop L) := by
              simp
            have hlen : (pre ++ (run ++ (b :: t).take L)).length = pre.length + run.length + L := by
              simp only [List.length_append, List.length_take, List.length_cons]
              omega
            have hih := ih ((b :: t).drop L) (pre ++ (run ++ (b :: t).take L)) []
              (jos_puts g (run ++ (b :: t).take L)) k
              (by simp only [List.length_drop, List.length_cons]; omega)
              (fun x hx => hb x (List.mem_of_mem_drop hx)) (by simp)
              (by simp only [List.length_drop, List.length_cons]; omega)
            rw [← hstr, hlen] at hih
            rw [hih]
            have hval : (jos_puts g (run ++ (b :: t).take L)).validate_utf8 = g.validate_utf8 := rfl
            simp only [hval, List.nil_append, jos_puts_puts, List.append_assoc]
        · have hsp2 : b < 0x20 ∨ b = 0x22 ∨ b = 0x5C := by
            rcases hsp with h | h | h | h
            · exact Or.inr (Or.inl h)
            · exact Or.inr (Or.inr h)
            · exact Or.inl h
            · exact absurd h hv
          have hesc : escapeText g.validate_utf8 (n + 1) (b :: t) =
              ((escapeText g.validate_utf8 n t).1,
                escapeByte b ++ (escapeText g.validate_utf8 n t).2) := by
            rw [escapeText]
            simp only [hv, if_false]
          rw [scan_step_escape _ _ k _ _ g hf hcnt (by rw [hget]; exact hv), drop_take_mid, hget]
          refine Eq.trans (congrArg (fun x => jos_scan_escape_loop (pre ++ (run ++ b :: t))
            (pre ++ (run ++ b :: t)).length k (pre.length + run.length + 1)
            (jos_puts (jos_puts g run) x)) (escape_bytes_table b hsp2)) ?_
          simp only []
          rw [jos_puts_puts, hesc]
          have hstr : pre ++ (run ++ b :: t) = (pre ++ (run ++ [b])) ++ ([] ++ t) := by simp
          have hlen : (pre ++ (run ++ [b])).length = pre.length + run.length + 1 := by
            simp only [List.length_append, List.length_cons, List.length_nil]
            omega
          have hih := ih t (pre ++ (run ++ [b])) [] (jos_puts g (run ++ escapeByte b)) k
            (by omega) hbt (by simp) (by omega)
          rw [← hstr, hlen] at hih
          rw [hih]
          have hval : (jos_puts g (run ++ escapeByte b)).validate_utf8 = g.validate_utf8 := rfl
          simp only [hval, List.nil_append, jos_puts_puts, List.append_assoc]
      · have hesc : escapeText g.validate_utf8 (n + 1) (b :: t) =
            ((escapeText g.validate_utf8 n t).1, [b] ++ (escapeText g.validate_utf8 n t).2) := by
          rw [escapeText]
          have hv : ¬ (g.validate_utf8 = true ∧ b ≥ 0x80) := fun h => hsp (Or.inr (Or.inr (Or.inr h)))
          simp only [hv, if_false]
          rw [escapeByte_plain b (fun h => hsp (by
            rcases h with h | h | h
            · exact Or.inl h
            · exact Or.inr (Or.inl h)
            · exact Or.inr (Or.inr (Or.inl h))))]
        have hrun1 : ∀ x ∈ run ++ [b],
            ¬ (x = 0x22 ∨ x = 0x5C ∨ x < 0x20 ∨ (g.validate_utf8 = true ∧ x ≥ 0x80)) := by
          intro x hx
          rcases List.mem_append.1 hx with hx | hx
          · exact hrun x hx
          · rw [List.mem_singleton] at hx; subst hx; exact hsp
        have hstr : pre ++ (run ++ b :: t) = pre ++ ((run ++ [b]) ++ t) := by simp
        have hih := ih t pre (run ++ [b]) g k (by omega) hbt hrun1 (by omega)
        rw [← hstr] at hih
        rw [hih, hesc]
        simp only [List.append_assoc]

/-- The function `jos_scan_escape` on any bytes: it writes what `escapeText`
says and fails with `utf8` where that stops. -/
theorem jos_scan_escape_bytes (g : jgen) (s : List Nat) (hb : ∀ b ∈ s, b < 256) :
    jos_scan_escape g s s.length =
      ((escapeText g.validate_utf8 s.length s).1,
        if (escapeText g.validate_utf8 s.length s).1 then
          jos_puts g (escapeText g.validate_utf8 s.length s).2
        else { jos_puts g (escapeText g.validate_utf8 s.length s).2 with
          error := JSNPG_ERROR_UTF8 }) := by
  have h := jos_scan_escape_loop_bytes s.length s [] [] g (s.length + 1) (le_refl _) hb
    (by simp) (le_refl _)
  simpa only [List.nil_append, List.length_nil] using h

/-- Without validation every byte is written by itself: escaped or copied. -/
theorem escapeText_raw : ∀ (n : Nat) (s : List Nat), s.length ≤ n →
    escapeText false n s = (true, s.flatMap escapeByte) := by
  intro n
  induction n with
  | zero =>
    intro s hn
    have hs : s = [] := List.length_eq_zero.1 (by omega)
    subst hs; rfl
  | succ n ih =>
    intro s hn
    rcases s with _ | ⟨b, t⟩
    · rfl
    · simp only [List.length_cons] at hn
      rw [escapeText]
      simp only [Bool.false_eq_true, false_and, if_false, ih t (by omega), List.flatMap_cons]

theorem jos_scan_escape_raw (g : jgen) (s : List Nat) (hb : ∀ b ∈ s, b < 256)
    (hv : g.validate_utf8 = false) :
    jos_scan_escape g s s.length = (true, jos_puts g (s.flatMap escapeByte)) := by
  rw [jos_scan_escape_bytes g s hb, hv, escapeText_raw s.length s (le_refl _)]
  rfl


/-- The function `jos_prefix` changes the output stream only. -/
theorem jos_prefix_frame (g : jgen) :
    ( jos_prefix g).validate_utf8 = g.validate_utf8 ∧ ( jos_prefix g).error = g.error := by
  unfold jos_prefix jos_indent jos_put
  simp only []
  split_ifs <;> exact ⟨rfl, rfl⟩

end Jsnpg

namespace Jsnpg
open jsnpg_type jsnpg_error_code

theorem stream_run_nested (N : Nat) : ∀ (n : Nat) (st : StreamState) (tail : List Event),
    st.value_ok = true → st.open_.length + n ≤ N →
    stream_run N st (nested_keys n ++ tail) =
      stream_run N (if n = 0 then st
        else { open_ := List.replicate n false ++ st.open_, pending := true }) tail := by
  intro n
  induction n with
  | zero => intro st tail _ _; rfl
  | succ n ih =>
    intro st tail hv hlen
    have h1 : stream_step N st Event.start_object =
        some { open_ := false :: st.open_, pending := false } := by
      unfold stream_step
      simp only [hv, Bool.true_and, decide_eq_true_eq]
      rw [if_pos (by omega)]
    have h2 : stream_step N { open_ := false :: st.open_, pending := false } (Event.key [0x6B]) =
        some { open_ := false :: st.open_, pending := true } := rfl
    show (match stream_step N st Event.start_object with
      | some st1 => stream_run N st1 (Event.key [0x6B] :: (nested_keys n ++ tail))
      | none => none) = _
    rw [h1]
    show (match stream_step N { open_ := false :: st.open_, pending := false }
        (Event.key [0x6B]) with
      | some st1 => stream_run N st1 (nested_keys n ++ tail)
      | none => none) = _
    rw [h2]
    simp only []
    rw [ih { open_ := false :: st.open_, pending := true } tail rfl
      (by simp only [List.length_cons]; omega)]
    rw [if_neg (Nat.succ_ne_zero n)]
    by_cases hn : n = 0
    · subst hn; rfl
    · rw [if_neg hn]
      congr 2
      rw [List.replicate_succ', List.append_assoc]
      rfl

theorem replicate_set_zero (m i : Nat) :
    (List.replicate m 0).set i 0 = List.replicate m (0 : Nat) := by
  apply List.ext_getElem
  · simp
  · intro k h1 h2
    simp only [List.getElem_set, List.getElem_replicate]
    split <;> rfl

theorem replicate_getD_zero (m i : Nat) : (List.replicate m (0 : Nat)).getD i 0 = 0 := by
  rw [List.getD_eq_getElem?_getD]
  by_cases h : i < m
  · rw [List.getElem?_eq_getElem (by simpa using h)]; simp
  · rw [List.getElem?_eq_none (by simpa using h)]; rfl

theorem stack_peek_zero (j size m : Nat) :
    stack_peek ⟨j, size, List.replicate m 0⟩ = if j = 0 then -1 else STACK_OBJECT := by
  unfold stack_peek
  by_cases h : j = 0
  · simp only [h, if_true]
  · simp only [h, if_false, replicate_getD_zero, Nat.zero_shiftRight, Nat.and_zero]
    rfl

theorem stack_push_zero (j size m : Nat) (hj : j < size) :
    stack_push ⟨j, size, List.replicate m 0⟩ STACK_OBJECT =
      (0, ⟨j + 1, size, List.replicate m 0⟩) := by
  unfold stack_push
  simp only [ge_iff_le, not_le.2 hj, if_false, replicate_getD_zero,
    show ¬ (STACK_OBJECT = STACK_ARRAY) by decide, Nat.zero_and, replicate_set_zero]

theorem can_key_true {σ : Type} (g : generator σ) (hk : g.key_next = true) :
    can_key g = (true, { g with key_next := false }) := by
  unfold can_key
  rw [if_neg]
  intro h
  rw [hk] at h
  exact absurd h.2 (by decide)

theorem can_push_object_zero {σ : Type} (g : generator σ) (j size m : Nat)
    (hs : g.stack = ⟨j, size, List.replicate m 0⟩) (hne : size ≠ 0) (hj : j < size)
    (hk : g.key_next = false) :
    can_push g STACK_OBJECT =
      (true, { g with stack := ⟨j + 1, size, List.replicate m 0⟩, key_next := true }) := by
  have hcv : can_value g = (true, if j = 0 then g else { g with key_next := true }) := by
    unfold can_value
    rw [hs, stack_peek_zero]
    by_cases h0 : j = 0
    · simp only [h0, if_true]
      rw [if_neg]
      intro h
      exact absurd h.2 (by decide)
    · simp only [h0, if_false, hk, Bool.false_eq_true]
      rw [if_pos ⟨hne, trivial⟩]
  have hst : (if j = 0 then g else { g with key_next := true }).stack =
      ⟨j, size, List.replicate m 0⟩ := by split <;> exact hs
  unfold can_push
  rw [hcv]
  simp only [Bool.not_true, Bool.false_eq_true, if_false, hst, hne, ne_eq,
    not_false_eq_true, if_true, stack_push_zero j size m hj,
    show ¬ ((0 : Int) = -1) by decide, decide_True]
  split <;> rfl

theorem debug_checks_cons {σ : Type} (g : generator σ) (e : Event) (es : List Event) :
    debug_checks g (e :: es) =
      if (debug_check g e).1 then debug_checks (debug_check g e).2 es
      else (false, (debug_check g e).2) := rfl

theorem debug_checks_nested {σ : Type} : ∀ (n : Nat) (g : generator σ) (j size m : Nat)
    (tail : List Event), g.stack = ⟨j, size, List.replicate m 0⟩ → size ≠ 0 → j + n ≤ size →
    g.key_next = false →
    debug_checks g (nested_keys n ++ tail) =
      debug_checks { g with stack := ⟨j + n, size, List.replicate m 0⟩, key_next := false }
        tail := by
  intro n
  induction n with
  | zero =>
    intro g j size m tail hs _ _ hk
    have : g = { g with stack := ⟨j + 0, size, List.replicate m 0⟩, key_next := false } := by
      cases g; simp only [] at hs hk; subst hs hk; rfl
    rw [← this]; rfl
  | succ n ih =>
    intro g j size m tail hs hne hlen hk
    have hnk : nested_keys (n + 1) ++ tail =
        Event.start_object :: Event.key [0x6B] :: (nested_keys n ++ tail) := rfl
    rw [hnk, debug_checks_cons,
      show debug_check g Event.start_object = can_push g STACK_OBJECT from rfl,
      can_push_object_zero g j size m hs hne (by omega) hk]
    simp only [if_true]
    rw [debug_checks_cons]
    rw [show ∀ h : generator σ, debug_check h (Event.key [0x6B]) = can_key h from fun _ => rfl,
      can_key_true _ rfl]
    simp only [if_true]
    rw [ih _ (j + 1) size m tail rfl hne (by omega) rfl]
    rw [show j + 1 + n = j + (n + 1) by omega]

theorem stack_peek_eq (s : stack) :
    stack_peek s = if s.ptr = 0 then -1 else ((stack_bit s (s.ptr - 1) : Nat) : Int) := rfl

theorem stack_bits_peek (s : stack) (l : List Bool) (hp : s.ptr = l.length)
    (hb : ∀ i, i < l.length → stack_bit s i = kind_bit (l.reverse.getD i false)) :
    stack_peek s = peek_of l := by
  rw [stack_peek_eq, hp]
  cases l with
  | nil => rfl
  | cons b rest =>
    have := hb rest.length (by simp)
    simp only [List.length_cons, Nat.succ_ne_zero, if_false, Nat.add_sub_cancel]
    rw [this, List.reverse_cons, List.getD_append_right _ _ _ _ (by simp)]
    simp only [List.length_reverse, Nat.sub_self]
    cases b <;> rfl

theorem Mirrors_peek {σ : Type} (N : Nat) (g : generator σ) (st : StreamState)
    (h : Mirrors N g st) : stack_peek g.stack = peek_of st.open_ :=
  stack_bits_peek _ _ h.2.2.2.1 h.2.2.2.2.1

/-- The check `can_value` on a generator that mirrors a stream state. -/
theorem can_value_mirrors {σ : Type} (N : Nat) (g : generator σ) (st : StreamState)
    (h : Mirrors N g st) :
    (st.value_ok = true → (can_value g).1 = true ∧
      Mirrors N (can_value g).2 { st with pending := false }) ∧
    (st.value_ok = false → (can_value g).1 = false) := by
  have hpk := Mirrors_peek N g st h
  obtain ⟨hok, hsz, hN, hp, hb, hk⟩ := h
  obtain ⟨o, pend⟩ := st
  unfold can_value
  rw [hpk, hsz]
  simp only [StreamState.key_flag] at hk
  simp only [StreamState.value_ok]
  cases o with
  | nil =>
    rw [if_neg (fun h => absurd (h.2 : (-1 : Int) = 0) (by decide))]
    exact ⟨fun _ => ⟨rfl, hok, hsz, hN, hp, hb, hk⟩, fun h => Bool.noConfusion (h : true = false)⟩
  | cons b rest =>
    cases b with
    | true =>
      rw [if_neg (fun h => absurd (h.2 : (1 : Int) = 0) (by decide))]
      exact ⟨fun _ => ⟨rfl, hok, hsz, hN, hp, hb, hk⟩,
        fun h => Bool.noConfusion (h : true = false)⟩
    | false =>
      rw [if_pos ⟨hN, rfl⟩, hk]
      cases pend with
      | true =>
        exact ⟨fun _ => ⟨rfl, hok, hsz, hN, hp, hb, rfl⟩,
          fun h => Bool.noConfusion (h : true = false)⟩
      | false =>
        exact ⟨fun h => Bool.noConfusion (h : false = true), fun _ => rfl⟩

/-- The check `can_key` on a generator that mirrors a stream state. -/
theorem can_key_mirrors {σ : Type} (N : Nat) (g : generator σ) (st : StreamState)
    (h : Mirrors N g st) :
    (st.key_flag = true → (can_key g).1 = true ∧
      Mirrors N (can_key g).2 { st with pending := true }) ∧
    (st.key_flag = false → (can_key g).1 = false) := by
  obtain ⟨hok, hsz, hN, hp, hb, hk⟩ := h
  unfold can_key
  rw [hk, hsz]
  constructor
  · intro hf
    rw [hf, if_neg (by intro h; exact absurd h.2 (by decide))]
    refine ⟨rfl, hok, hsz, hN, hp, hb, ?_⟩
    obtain ⟨o, pend⟩ := st
    simp only [StreamState.key_flag] at hf ⊢
    cases o with
    | nil => rfl
    | cons b rest =>
      cases b with
      | true => rfl
      | false => rfl
  · intro hf
    rw [hf, if_pos ⟨hN, rfl⟩]

/-- The check `can_push` on a generator that mirrors a stream state. -/
theorem can_push_mirrors {σ : Type} (N : Nat) (g : generator σ) (st : StreamState) (b : Bool)
    (h : Mirrors N g st) :
    (st.value_ok = true → st.open_.length < N → (can_push g (kind_type b)).1 = true ∧
      Mirrors N (can_push g (kind_type b)).2 { open_ := b :: st.open_, pending := false }) ∧
    (st.value_ok = false ∨ ¬ st.open_.length < N → (can_push g (kind_type b)).1 = false) := by
  obtain ⟨hv1, hv2⟩ := can_value_mirrors N g st h
  cases hv : st.value_ok with
  | false =>
    refine ⟨fun h => Bool.noConfusion h, fun _ => ?_⟩
    unfold can_push
    simp only [hv2 hv, Bool.not_false, if_true]
  | true =>
    obtain ⟨hr1, hok, hsz, hN, hp, hb, hk⟩ := hv1 hv
    have hsz' : (can_value g).2.stack.size ≠ 0 := by rw [hsz]; exact hN
    have hcp : can_push g (kind_type b) =
        if (stack_push (can_value g).2.stack (kind_type b)).1 = -1 then
          (false, { (can_value g).2 with
            stack := (stack_push (can_value g).2.stack (kind_type b)).2,
            error := JSNPG_ERROR_STACK_OVERFLOW })
        else (true, { (can_value g).2 with
            stack := (stack_push (can_value g).2.stack (kind_type b)).2,
            key_next := decide (kind_type b = STACK_OBJECT) }) := by
      unfold can_push
      simp only [hr1, Bool.not_true, Bool.false_eq_true, if_false, hsz', ne_eq,
        not_false_eq_true, if_true]
    rw [hcp]
    by_cases hroom : st.open_.length < N
    · refine ⟨fun _ _ => ?_, fun h => ?_⟩
      · obtain ⟨s1, h1, h2, h3, h4, h5, h6⟩ :=
          stack_push_ok (can_value g).2.stack (kind_type b) hok (by rw [hp, hsz]; exact hroom)
        rw [h1]
        rw [if_neg (show ¬ ((0 : Int) = -1) by decide)]
        refine ⟨rfl, ⟨?_, ?_, ?_⟩, h3.trans hsz, hN, ?_, ?_, ?_⟩
        · show s1.ptr ≤ s1.size
          rw [h2, h3, hp, hsz]; exact hroom
        · show s1.size ≤ 8 * s1.stack.length
          rw [h3, h4]; exact hok.2.1
        · show s1.size ≤ 2048
          rw [h3]; exact hok.2.2
        · show s1.ptr = (b :: st.open_).length
          rw [h2, hp]; rfl
        · intro i hi
          show stack_bit s1 i = kind_bit ((b :: st.open_).reverse.getD i false)
          rw [List.reverse_cons]
          by_cases hlt : i < st.open_.length
          · rw [h5 i (by rw [hp]; exact hlt), hb i hlt,
              List.getD_append _ _ _ _ (by simpa using hlt)]
          · have hi' : i = st.open_.length := by
              simp only [List.length_cons] at hi; omega
            rw [List.getD_append_right _ _ _ _ (by simp [hi'])]
            rw [hi', ← hp, h6]
            simp only [List.length_reverse, hp, Nat.sub_self]
            cases b <;> rfl
        · show decide (kind_type b = STACK_OBJECT) = _
          cases b <;> rfl
      · rcases h with h | h
        · exact Bool.noConfusion h
        · exact absurd hroom h
    · refine ⟨fun _ h => absurd h hroom, fun _ => ?_⟩
      rw [stack_push_full _ _ (by rw [hp, hsz]; exact hroom)]
      rfl

theorem can_pop_eq {σ : Type} (g : generator σ) (type : Int) (hs : g.stack.size ≠ 0) :
    can_pop g type =
      if stack_peek g.stack = -1 then (false, { g with error := JSNPG_ERROR_STACK_UNDERFLOW })
      else if type ≠ stack_peek g.stack then
        (false, { g with error :=
          if type = STACK_OBJECT then JSNPG_ERROR_NO_OBJECT else JSNPG_ERROR_NO_ARRAY })
      else if type = STACK_OBJECT ∧ g.key_next = false then
        (false, { g with error := JSNPG_ERROR_EXPECTED_VALUE })
      else
        (true, { g with stack := (stack_pop g.stack).2,
                        key_next := decide (STACK_OBJECT = stack_peek (stack_pop g.stack).2) }) := by
  unfold can_pop
  rw [if_pos hs]

/-- A passing `can_pop` on a generator that mirrors a stream state. -/
theorem can_pop_mirrors_pass {σ : Type} (N : Nat) (g : generator σ) (b : Bool)
    (rest : List Bool) (pend : Bool) (h : Mirrors N g ⟨b :: rest, pend⟩)
    (hpend : b = false → pend = false) :
    (can_pop g (kind_type b)).1 = true ∧
      Mirrors N (can_pop g (kind_type b)).2 ⟨rest, false⟩ := by
  have hpk := Mirrors_peek N g _ h
  obtain ⟨hok, hsz, hN, hp, hb, hk⟩ := h
  have hpk' : stack_peek g.stack = kind_type b := by
    rw [hpk]; cases b <;> rfl
  have hp' : g.stack.ptr = rest.length + 1 := hp
  rw [can_pop_eq g _ (by rw [hsz]; exact hN), hpk']
  rw [if_neg (by cases b <;> decide), if_neg (by simp)]
  have hkn : ¬ (kind_type b = STACK_OBJECT ∧ g.key_next = false) := by
    rw [hk]
    cases b with
    | true => exact fun h => absurd h.1 (by decide)
    | false =>
      rw [hpend rfl]
      exact fun h => Bool.noConfusion (h.2 : true = false)
  rw [if_neg hkn]
  have hpop := (stack_pop_ok g.stack (by omega)).1
  have hpop2 : (stack_pop g.stack).2 = { g.stack with ptr := g.stack.ptr - 1 } := by
    rw [hpop]
  refine ⟨rfl, ?_⟩
  have hbits : ∀ i, i < rest.length →
      stack_bit { g.stack with ptr := g.stack.ptr - 1 } i =
        kind_bit (rest.reverse.getD i false) := by
    intro i hi
    have := hb i (by simp only [List.length_cons]; omega)
    rw [List.reverse_cons, List.getD_append _ _ _ _ (by simpa using hi)] at this
    exact this
  have hptr : ({ g.stack with ptr := g.stack.ptr - 1 } : stack).ptr = rest.length := by
    show g.stack.ptr - 1 = rest.length
    omega
  refine ⟨?_, ?_, hN, ?_, ?_, ?_⟩
  · show StackOk (stack_pop g.stack).2
    rw [hpop2]
    refine ⟨?_, hok.2.1, hok.2.2⟩
    show g.stack.ptr - 1 ≤ g.stack.size
    have := hok.1
    omega
  · show (stack_pop g.stack).2.size = N
    rw [hpop2]; exact hsz
  · show (stack_pop g.stack).2.ptr = rest.length
    rw [hpop2]; exact hptr
  · intro i hi
    show stack_bit (stack_pop g.stack).2 i = _
    rw [hpop2]; exact hbits i hi
  · show decide (STACK_OBJECT = stack_peek (stack_pop g.stack).2) = _
    rw [hpop2, stack_bits_peek _ rest hptr hbits]
    cases rest with
    | nil => rfl
    | cons c r => cases c <;> rfl

/-- A failing `can_pop` on a generator that mirrors a stream state. -/
theorem can_pop_mirrors_fail {σ : Type} (N : Nat) (g : generator σ) (st : StreamState)
    (b : Bool) (h : Mirrors N g st)
    (hbad : (∀ rest, st.open_ ≠ b :: rest) ∨ (b = false ∧ st.pending = true)) :
    (can_pop g (kind_type b)).1 = false := by
  have hpk := Mirrors_peek N g _ h
  obtain ⟨hok, hsz, hN, hp, hb, hk⟩ := h
  obtain ⟨o, pend⟩ := st
  rw [can_pop_eq g _ (by rw [hsz]; exact hN), hpk]
  cases o with
  | nil => rfl
  | cons c rest =>
    have hc : peek_of (c :: rest) = kind_type c := by cases c <;> rfl
    rw [hc, if_neg (by cases c <;> decide)]
    by_cases hbc : b = c
    · subst hbc
      rcases hbad with h1 | ⟨h1, h2⟩
      · exact absurd rfl (h1 rest)
      · subst h1
        simp only [] at h2
        subst h2
        rw [if_neg (by simp), if_pos ⟨rfl, hk⟩]
    · rw [if_pos (by cases b <;> cases c <;> first | exact absurd rfl hbc | decide)]

/-- One event on a generator that mirrors a stream state: the check passes
exactly when the stream allows the event, and the generator then mirrors the
state after it. -/
theorem debug_check_mirrors {σ : Type} (N : Nat) (g : generator σ) (st : StreamState)
    (e : Event) (h : Mirrors N g st) :
    (∀ st1, stream_step N st e = some st1 →
      (debug_check g e).1 = true ∧ Mirrors N (debug_check g e).2 st1) ∧
    (stream_step N st e = none → (debug_check g e).1 = false) := by
  have hval : ∀ e1 : Event, debug_check g e1 = can_value g →
      stream_step N st e1 =
        (if st.value_ok then some { st with pending := false } else none) →
      (∀ st1, stream_step N st e1 = some st1 →
        (debug_check g e1).1 = true ∧ Mirrors N (debug_check g e1).2 st1) ∧
      (stream_step N st e1 = none → (debug_check g e1).1 = false) := by
    intro e1 h1 h2
    rw [h1, h2]
    obtain ⟨hv1, hv2⟩ := can_value_mirrors N g st h
    cases hv : st.value_ok with
    | true =>
      simp only [if_true]
      refine ⟨fun st1 hst => ?_, fun hn => Option.noConfusion hn⟩
      cases hst
      exact hv1 hv
    | false =>
      simp only [Bool.false_eq_true, if_false]
      exact ⟨fun st1 hst => Option.noConfusion hst, fun _ => hv2 hv⟩
  have hpush : ∀ (e1 : Event) (b : Bool), debug_check g e1 = can_push g (kind_type b) →
      stream_step N st e1 =
        (if st.value_ok && decide (st.open_.length < N) then
          some { open_ := b :: st.open_, pending := false }
        else none) →
      (∀ st1, stream_step N st e1 = some st1 →
        (debug_check g e1).1 = true ∧ Mirrors N (debug_check g e1).2 st1) ∧
      (stream_step N st e1 = none → (debug_check g e1).1 = false) := by
    intro e1 b h1 h2
    rw [h1, h2]
    obtain ⟨hp1, hp2⟩ := can_push_mirrors N g st b h
    by_cases hc : st.value_ok = true ∧ st.open_.length < N
    · have : (st.value_ok && decide (st.open_.length < N)) = true := by
        simp only [hc.1, hc.2, decide_True, Bool.and_self]
      rw [this]
      simp only [if_true]
      refine ⟨fun st1 hst => ?_, fun hn => Option.noConfusion hn⟩
      cases hst
      exact hp1 hc.1 hc.2
    · have : (st.value_ok && decide (st.open_.length < N)) = false := by
        cases hv : st.value_ok with
        | false => rfl
        | true =>
          have : ¬ st.open_.length < N := fun hl => hc ⟨hv, hl⟩
          simp only [this, decide_False, Bool.and_false]
      rw [this]
      simp only [Bool.false_eq_true, if_false]
      refine ⟨fun st1 hst => Option.noConfusion hst, fun _ => hp2 ?_⟩
      cases hv : st.value_ok with
      | false => exact Or.inl rfl
      | true => exact Or.inr (fun hl => hc ⟨hv, hl⟩)
  cases e with
  | null => exact hval _ rfl rfl
  | boolean b => exact hval _ rfl rfl
  | integer i => exact hval _ rfl rfl
  | real r => exact hval _ rfl rfl
  | string bs => exact hval _ rfl rfl
  | start_array => exact hpush _ true rfl rfl
  | start_object => exact hpush _ false rfl rfl
  | key bs =>
    obtain ⟨hk1, hk2⟩ := can_key_mirrors N g st h
    show (∀ st1, stream_step N st (Event.key bs) = some st1 →
      (can_key g).1 = true ∧ Mirrors N (can_key g).2 st1) ∧
      (stream_step N st (Event.key bs) = none → (can_key g).1 = false)
    obtain ⟨o, pend⟩ := st
    cases o with
    | nil => exact ⟨fun st1 hst => Option.noConfusion hst, fun _ => hk2 rfl⟩
    | cons c rest =>
      cases c with
      | true => exact ⟨fun st1 hst => Option.noConfusion hst, fun _ => hk2 rfl⟩
      | false =>
        cases pend with
        | true => exact ⟨fun st1 hst => Option.noConfusion hst, fun _ => hk2 rfl⟩
        | false =>
          refine ⟨fun st1 hst => ?_, fun hn => Option.noConfusion hn⟩
          cases hst
          exact hk1 rfl
  | end_array =>
    show (∀ st1, stream_step N st Event.end_array = some st1 →
      (can_pop g (kind_type true)).1 = true ∧ Mirrors N (can_pop g (kind_type true)).2 st1) ∧
      (stream_step N st Event.end_array = none → (can_pop g (kind_type true)).1 = false)
    obtain ⟨o, pend⟩ := st
    cases o with
    | nil =>
      exact ⟨fun st1 hst => Option.noConfusion hst,
        fun _ => can_pop_mirrors_fail N g _ true h (Or.inl (fun rest hr => List.noConfusion hr))⟩
    | cons c rest =>
      cases c with
      | true =>
        refine ⟨fun st1 hst => ?_, fun hn => Option.noConfusion hn⟩
        cases hst
        exact can_pop_mirrors_pass N g true rest pend h (fun hb => Bool.noConfusion hb)
      | false =>
        exact ⟨fun st1 hst => Option.noConfusion hst,
          fun _ => can_pop_mirrors_fail N g _ true h
            (Or.inl (fun r hr => Bool.noConfusion (List.cons.inj hr).1))⟩
  | end_object =>
    show (∀ st1, stream_step N st Event.end_object = some st1 →
      (can_pop g (kind_type false)).1 = true ∧ Mirrors N (can_pop g (kind_type false)).2 st1) ∧
      (stream_step N st Event.end_object = none → (can_pop g (kind_type false)).1 = false)
    obtain ⟨o, pend⟩ := st
    cases o with
    | nil =>
      exact ⟨fun st1 hst => Option.noConfusion hst,
        fun _ => can_pop_mirrors_fail N g _ false h (Or.inl (fun rest hr => List.noConfusion hr))⟩
    | cons c rest =>
      cases c with
      | false =>
        cases pend with
        | false =>
          refine ⟨fun st1 hst => ?_, fun hn => Option.noConfusion hn⟩
          cases hst
          exact can_pop_mirrors_pass N g false rest false h (fun _ => rfl)
        | true =>
          exact ⟨fun st1 hst => Option.noConfusion hst,
            fun _ => can_pop_mirrors_fail N g _ false h (Or.inr ⟨rfl, rfl⟩)⟩
      | true =>
        exact ⟨fun st1 hst => Option.noConfusion hst,
          fun _ => can_pop_mirrors_fail N g _ false h
            (Or.inl (fun r hr => Bool.noConfusion (List.cons.inj hr).1))⟩

/-- The checks along a sequence of events pass exactly when the sequence is
allowed from the stream state that the generator mirrors. -/
theorem debug_checks_mirrors {σ : Type} (N : Nat) : ∀ (evs : List Event) (g : generator σ)
    (st : StreamState), Mirrors N g st →
    (debug_checks g evs).1 = (stream_run N st evs).isSome := by
  intro evs
  induction evs with
  | nil => intro g st _; rfl
  | cons e es ih =>
    intro g st h
    obtain ⟨h1, h2⟩ := debug_check_mirrors N g st e h
    rw [debug_checks_cons]
    show _ = (match stream_step N st e with
      | some st1 => stream_run N st1 es
      | none => none).isSome
    cases hs : stream_step N st e with
    | none =>
      rw [h2 hs]
      rfl
    | some st1 =>
      obtain ⟨h3, h4⟩ := h1 st1 hs
      rw [h3]
      simp only [if_true]
      exact ih _ st1 h4

/-- A new generator mirrors the empty stream when its stack size is a
multiple of 8, at most 2048 and not 0. -/
theorem generator_new_mirrors {σ : Type} (N flags : Nat) (ctx : σ) (h0 : N ≠ 0)
    (h8 : N % 8 = 0) (hN : N ≤ 2048) : Mirrors N (generator_new N flags ctx) ⟨[], false⟩ := by
  refine ⟨⟨Nat.zero_le _, ?_, hN⟩, rfl, h0, rfl, fun i hi => absurd hi (Nat.not_lt_zero _), rfl⟩
  show N ≤ 8 * (List.replicate (N >>> 3) 0).length
  rw [List.length_replicate, Nat.shiftRight_eq_div_pow]
  have : (2 : Nat) ^ 3 = 8 := rfl
  rw [this]
  omega

end Jsnpg

namespace Jsnpg
open jsnpg_type jsnpg_error_code parse_state

theorem pow_min_succ (sd : Int) (h0 : 0 ≤ sd) (h : sd < 19) :
    10 ^ (min (sd + 1).toNat 19) = 10 * 10 ^ (min sd.toNat 19) := by
  have h1 : min (sd + 1).toNat 19 = sd.toNat + 1 := by omega
  have h2 : min sd.toNat 19 = sd.toNat := by omega
  rw [h1, h2, pow_succ, Nat.mul_comm]

theorem ten19_lt : (10 : Nat) ^ 19 < 2 ^ 64 := by norm_num

theorem ScanBound_lt (n : number_scan) (h : ScanBound n) : n.sum < 10 ^ 19 := by
  have : (10 : Nat) ^ (min n.sig_digits.toNat 19) ≤ 10 ^ 19 :=
    Nat.pow_le_pow_right (by norm_num) (Nat.min_le_right _ _)
  exact lt_of_lt_of_le h.2 this

/-- One step of the integer loop: no wrap, and the bound is kept. -/
theorem integer_step_bound (n : number_scan) (c1 : Nat) (h : ScanBound n) (hc : n.c < 10) :
    ((if n.sig_digits < max_sig_digits then
        { n with sig_digits := n.sig_digits + 1, sum := (n.sum * 10 + n.c) % 2 ^ 64, c := c1 }
      else { n with sig_digits := n.sig_digits + 1, exponent := n.exponent + 1, c := c1 })
        : number_scan) =
      (if n.sig_digits < max_sig_digits then
        { n with sig_digits := n.sig_digits + 1, sum := n.sum * 10 + n.c, c := c1 }
      else { n with sig_digits := n.sig_digits + 1, exponent := n.exponent + 1, c := c1 }) ∧
    ScanBound (if n.sig_digits < max_sig_digits then
        { n with sig_digits := n.sig_digits + 1, sum := n.sum * 10 + n.c, c := c1 }
      else { n with sig_digits := n.sig_digits + 1, exponent := n.exponent + 1, c := c1 }) := by
  obtain ⟨h0, hs⟩ := h
  unfold max_sig_digits
  by_cases hd : n.sig_digits < 19
  · simp only [hd, if_true]
    have hp := pow_min_succ n.sig_digits h0 hd
    have hlt : n.sum * 10 + n.c < 10 ^ (min (n.sig_digits + 1).toNat 19) := by
      rw [hp]; omega
    have h19 : (10 : Nat) ^ (min (n.sig_digits + 1).toNat 19) ≤ 10 ^ 19 :=
      Nat.pow_le_pow_right (by norm_num) (Nat.min_le_right _ _)
    have hw : n.sum * 10 + n.c < 2 ^ 64 := by
      have := ten19_lt; omega
    refine ⟨?_, ?_, hlt⟩
    · rw [Nat.mod_eq_of_lt hw]
    · show 0 ≤ n.sig_digits + 1
      omega
  · simp only [hd, if_false]
    refine ⟨trivial, ?_, ?_⟩
    · show 0 ≤ n.sig_digits + 1
      omega
    · show n.sum < 10 ^ (min (n.sig_digits + 1).toNat 19)
      have e1 : min (n.sig_digits + 1).toNat 19 = 19 := by omega
      have e2 : min n.sig_digits.toNat 19 = 19 := by omega
      rw [e1]; rw [e2] at hs; exact hs

/-- The integer loop never wraps and keeps the bound. -/
theorem integer_digits_loop_bound : ∀ (k : Nat) (n : number_scan) (mis : memory_input_stream),
    ScanBound n →
    integer_digits_loop k n mis = integer_digits_exact k n mis ∧
      ScanBound (integer_digits_loop k n mis).1 := by
  intro k
  induction k with
  | zero => intro n mis h; exact ⟨rfl, h⟩
  | succ k ih =>
    intro n mis h
    rw [integer_digits_loop, integer_digits_exact]
    by_cases hc : n.c < 10
    · simp only [hc, if_true]
      obtain ⟨e, hb⟩ := integer_step_bound n (sub_zero (mis_peek (mis_take mis).2)) h hc
      have e1 : ({ (if n.sig_digits < max_sig_digits then
            ({ n with sig_digits := n.sig_digits + 1, sum := (n.sum * 10 + n.c) % 2 ^ 64 }
              : number_scan)
          else { n with sig_digits := n.sig_digits + 1, exponent := n.exponent + 1 }) with
            c := sub_zero (mis_peek (mis_take mis).2) } : number_scan) =
          (if n.sig_digits < max_sig_digits then
            { n with sig_digits := n.sig_digits + 1, sum := n.sum * 10 + n.c,
                     c := sub_zero (mis_peek (mis_take mis).2) }
          else { n with sig_digits := n.sig_digits + 1, exponent := n.exponent + 1,
                        c := sub_zero (mis_peek (mis_take mis).2) }) := by
        rw [← e]; split <;> rfl
      have e2 : ({ (if n.sig_digits < max_sig_digits then
            ({ n with sig_digits := n.sig_digits + 1, sum := n.sum * 10 + n.c } : number_scan)
          else { n with sig_digits := n.sig_digits + 1, exponent := n.exponent + 1 }) with
            c := sub_zero (mis_peek (mis_take mis).2) } : number_scan) =
          (if n.sig_digits < max_sig_digits then
            { n with sig_digits := n.sig_digits + 1, sum := n.sum * 10 + n.c,
                     c := sub_zero (mis_peek (mis_take mis).2) }
          else { n with sig_digits := n.sig_digits + 1, exponent := n.exponent + 1,
                        c := sub_zero (mis_peek (mis_take mis).2) }) := by
        split <;> rfl
      rw [e1, e2]
      exact ih _ _ hb
    · simp only [hc, if_false]
      exact ⟨trivial, h⟩

/-- From 19 significant digits on, the integer loop leaves the accumulator
alone and counts each digit in the exponent. -/
theorem integer_digits_loop_excess : ∀ (k : Nat) (n : number_scan) (mis : memory_input_stream),
    max_sig_digits ≤ n.sig_digits →
    (integer_digits_loop k n mis).1.sum = n.sum ∧
      (integer_digits_loop k n mis).1.exponent - n.exponent =
        (integer_digits_loop k n mis).1.sig_digits - n.sig_digits := by
  intro k
  induction k with
  | zero => intro n mis _; exact ⟨rfl, by simp [integer_digits_loop]⟩
  | succ k ih =>
    intro n mis h
    rw [integer_digits_loop]
    by_cases hc : n.c < 10
    · simp only [hc, if_true, not_lt.2 h, if_false]
      obtain ⟨h1, h2⟩ := ih (⟨n.sum, n.exponent + 1, n.sig_digits + 1,
        sub_zero (mis_peek (mis_take mis).2)⟩ : number_scan) (mis_take mis).2
        (by show max_sig_digits ≤ n.sig_digits + 1; omega)
      refine ⟨h1, ?_⟩
      have h3 : (integer_digits_loop k (⟨n.sum, n.exponent + 1, n.sig_digits + 1,
          sub_zero (mis_peek (mis_take mis).2)⟩ : number_scan) (mis_take mis).2).1.exponent -
            (n.exponent + 1) =
          (integer_digits_loop k (⟨n.sum, n.exponent + 1, n.sig_digits + 1,
            sub_zero (mis_peek (mis_take mis).2)⟩ : number_scan) (mis_take mis).2).1.sig_digits -
            (n.sig_digits + 1) := h2
      show (integer_digits_loop k (⟨n.sum, n.exponent + 1, n.sig_digits + 1,
          sub_zero (mis_peek (mis_take mis).2)⟩ : number_scan) (mis_take mis).2).1.exponent -
            n.exponent =
          (integer_digits_loop k (⟨n.sum, n.exponent + 1, n.sig_digits + 1,
            sub_zero (mis_peek (mis_take mis).2)⟩ : number_scan) (mis_take mis).2).1.sig_digits -
            n.sig_digits
      omega
    · simp only [hc, if_false]
      exact ⟨trivial, by omega⟩

/-- One step of the fraction loop: no wrap, and the bound is kept. -/
theorem fraction_step_bound (n : number_scan) (h : ScanBound n) (hc : n.c < 10) :
    ((if n.sig_digits < max_sig_digits then
        { n with sum := (10 * n.sum + n.c) % 2 ^ 64, exponent := n.exponent - 1,
                 sig_digits := n.sig_digits +
                   (if (10 * n.sum + n.c) % 2 ^ 64 ≠ 0 then 1 else 0) }
      else n) : number_scan) =
      (if n.sig_digits < max_sig_digits then
        { n with sum := 10 * n.sum + n.c, exponent := n.exponent - 1,
                 sig_digits := n.sig_digits + (if 10 * n.sum + n.c ≠ 0 then 1 else 0) }
      else n) ∧
    ScanBound (if n.sig_digits < max_sig_digits then
        { n with sum := 10 * n.sum + n.c, exponent := n.exponent - 1,
                 sig_digits := n.sig_digits + (if 10 * n.sum + n.c ≠ 0 then 1 else 0) }
      else n) := by
  obtain ⟨h0, hs⟩ := h
  unfold max_sig_digits
  by_cases hd : n.sig_digits < 19
  · simp only [hd, if_true]
    have hp := pow_min_succ n.sig_digits h0 hd
    have hlt : 10 * n.sum + n.c < 10 ^ (min (n.sig_digits + 1).toNat 19) := by
      rw [hp]; omega
    have h19 : (10 : Nat) ^ (min (n.sig_digits + 1).toNat 19) ≤ 10 ^ 19 :=
      Nat.pow_le_pow_right (by norm_num) (Nat.min_le_right _ _)
    have hw : 10 * n.sum + n.c < 2 ^ 64 := by
      have := ten19_lt; omega
    rw [Nat.mod_eq_of_lt hw]
    refine ⟨rfl, ?_, ?_⟩
    · show 0 ≤ n.sig_digits + (if 10 * n.sum + n.c ≠ 0 then 1 else 0)
      split <;> omega
    · show 10 * n.sum + n.c <
        10 ^ (min (n.sig_digits + (if 10 * n.sum + n.c ≠ 0 then 1 else 0)).toNat 19)
      by_cases hz : 10 * n.sum + n.c = 0
      · rw [hz]; exact Nat.pow_pos (by norm_num)
      · simp only [ne_eq, hz, not_false_eq_true, if_true]
        exact hlt
  · simp only [hd, if_false]
    exact ⟨trivial, h0, hs⟩

theorem ScanBound_c (n : number_scan) (c1 : Nat) (h : ScanBound n) :
    ScanBound { n with c := c1 } := h

theorem fraction_digits_loop_succ (k : Nat) (n : number_scan) (mis : memory_input_stream) :
    fraction_digits_loop (k + 1) n mis =
      if sub_zero (mis_peek (mis_take mis).2) < 10 then
        fraction_digits_loop k (fraction_pass n (sub_zero (mis_peek (mis_take mis).2)))
          (mis_take mis).2
      else (fraction_pass n (sub_zero (mis_peek (mis_take mis).2)), (mis_take mis).2) := rfl

theorem fraction_digits_exact_succ (k : Nat) (n : number_scan) (mis : memory_input_stream) :
    fraction_digits_exact (k + 1) n mis =
      if sub_zero (mis_peek (mis_take mis).2) < 10 then
        fraction_digits_exact k (fraction_pass_exact n (sub_zero (mis_peek (mis_take mis).2)))
          (mis_take mis).2
      else (fraction_pass_exact n (sub_zero (mis_peek (mis_take mis).2)), (mis_take mis).2) :=
  rfl

theorem fraction_pass_bound (n : number_scan) (c1 : Nat) (h : ScanBound n) (hc : n.c < 10) :
    fraction_pass n c1 = fraction_pass_exact n c1 ∧ ScanBound (fraction_pass_exact n c1) := by
  obtain ⟨e, hb⟩ := fraction_step_bound n h hc
  unfold fraction_pass fraction_pass_exact
  rw [e]
  exact ⟨rfl, ScanBound_c _ c1 hb⟩

/-- The fraction loop never wraps and keeps the bound. -/
theorem fraction_digits_loop_bound : ∀ (k : Nat) (n : number_scan)
    (mis : memory_input_stream), ScanBound n → n.c < 10 →
    fraction_digits_loop k n mis = fraction_digits_exact k n mis ∧
      ScanBound (fraction_digits_loop k n mis).1 := by
  intro k
  induction k with
  | zero => intro n mis h _; exact ⟨rfl, h⟩
  | succ k ih =>
    intro n mis h hc
    rw [fraction_digits_loop_succ, fraction_digits_exact_succ]
    obtain ⟨e, hb⟩ := fraction_pass_bound n (sub_zero (mis_peek (mis_take mis).2)) h hc
    rw [e]
    by_cases hc2 : sub_zero (mis_peek (mis_take mis).2) < 10
    · rw [if_pos hc2, if_pos hc2]
      exact ih _ _ hb hc2
    · rw [if_neg hc2, if_neg hc2]
      exact ⟨rfl, hb⟩

theorem first_digit_bound (c : Nat) (h : c < 10) :
    ScanBound ⟨c, 0, if c ≠ 0 then 1 else 0, c⟩ := by
  by_cases h0 : c = 0
  · subst h0
    exact ⟨by decide, by decide⟩
  · refine ⟨?_, ?_⟩
    · show (0 : Int) ≤ (if c ≠ 0 then 1 else 0)
      rw [if_pos h0]; decide
    · show c < 10 ^ (min (Int.toNat (if c ≠ 0 then 1 else 0)) 19)
      rw [if_pos h0]
      exact h

/-- The first digit leaves the scan within the bound. -/
theorem parse_number_first_bound (p p1 : parser) (neg : Bool) (n : number_scan)
    (h : parse_number_first p = Res.ok (neg, n) p1) : ScanBound n := by
  unfold parse_number_first at h
  simp only [PM_bind_apply, on_mis_apply] at h
  split at h
  · simp only [PM_bind_apply, on_mis_apply] at h
    split at h
    · rename_i hc
      cases h
      exact first_digit_bound _ hc
    · cases h
  · simp only [PM_bind_apply, PM_pure_apply] at h
    split at h
    · rename_i hc
      cases h
      exact first_digit_bound _ hc
    · cases h

/-- The digits of the integer part leave the scan within the bound. -/
theorem parse_number_integer_part_bound (p p1 : parser) (n n1 : number_scan)
    (hb : ScanBound n) (h : parse_number_integer_part n p = Res.ok n1 p1) : ScanBound n1 := by
  have hl := (integer_digits_loop_bound (p.mis.start.length + 1 - p.mis.read)
    { n with c := sub_zero (mis_peek p.mis) } p.mis (ScanBound_c n _ hb)).2
  unfold parse_number_integer_part at h
  simp only [PM_bind_apply, get_mis_apply] at h
  split at h
  · simp only [on_mis_apply] at h
    cases h
    exact hl
  · cases h
    exact ScanBound_c n _ hb

/-- The digits of the fraction leave the scan within the bound. -/
theorem parse_number_fraction_bound (p p1 : parser) (n n1 : number_scan) (f f1 : Bool)
    (hb : ScanBound n) (h : parse_number_fraction n f p = Res.ok (n1, f1) p1) :
    ScanBound n1 := by
  unfold parse_number_fraction at h
  simp only [] at h
  split at h
  · simp only [PM_bind_apply, on_mis_apply, get_mis_apply] at h
    split at h
    · cases h
    · rename_i hc
      have hl := (fraction_digits_loop_bound
        ((mis_take p.mis).2.start.length + 1 - (mis_take p.mis).2.read)
        { n with c := sub_zero (mis_peek (mis_take p.mis).2) } (mis_take p.mis).2
        (ScanBound_c n _ hb) (by simpa using hc)).2
      simp only [PM_bind_apply, on_mis_apply, PM_pure_apply] at h
      cases h
      exact hl
  · cases h
    exact hb

theorem dom_size_align_pos (c : Nat) (hc : 0 < c) (h : c + 16 < 2 ^ 64) :
    dom_size_align c = 8 * (1 + (c - 1) / 8) := by
  unfold dom_size_align NODE_SIZE
  have p64 : (2 : Nat) ^ 64 = 18446744073709551616 := by norm_num
  rw [p64] at h ⊢
  have e1 : (c + 18446744073709551616 - 1) % 18446744073709551616 = c - 1 := by
    have : c + 18446744073709551616 - 1 = (c - 1) + 18446744073709551616 := by omega
    rw [this, Nat.add_mod_right]
    exact Nat.mod_eq_of_lt (by omega)
  rw [e1]
  exact Nat.mod_eq_of_lt (by omega)

end Jsnpg

namespace Jsnpg
open jsnpg_type jsnpg_error_code parse_state

theorem ReadOn_refl (m : memory_input_stream) : ReadOn m m 0 := ⟨le_refl _, rfl⟩

theorem ReadOn_trans (m m1 m2 : memory_input_stream) (j k : Nat) (h1 : ReadOn m m1 j)
    (h2 : ReadOn m1 m2 k) : ReadOn m m2 (j + k) := by
  obtain ⟨a1, a2⟩ := h1
  obtain ⟨b1, b2⟩ := h2
  refine ⟨by omega, ?_⟩
  rw [b2, a2]

theorem ReadOn_take (m : memory_input_stream) : ReadOn m (mis_take m).2 1 :=
  ⟨le_refl _, rfl⟩

theorem ReadOn_weaken (m m1 : memory_input_stream) (j k : Nat) (h : ReadOn m m1 j)
    (hk : k ≤ j) : ReadOn m m1 k := ⟨by have := h.1; omega, h.2⟩

theorem throw_reads {α : Type} (code : jsnpg_error_code) (p : parser) (m : memory_input_stream)
    (P : α → Nat → Prop) (h : ReadOn m p.mis 0) :
    StepReads (throw_parse_error code p : Res α) m P := h

/-- The loop of `parse_hex4` reads one byte per digit and yields a value
below `16 ^ k` times the bound on what it started with. -/
theorem parse_hex4_loop_reads : ∀ (k : Nat) (cp j : Nat) (p : parser) (m : memory_input_stream)
    (b : Nat), ReadOn m p.mis j → cp < b → b * 16 ^ k ≤ 2 ^ 32 →
    StepReads (parse_hex4_loop k cp p) m (fun c n => n = j + k ∧ c < b * 16 ^ k) := by
  intro k
  induction k with
  | zero =>
    intro cp j p m b h hb _
    exact ⟨j, h, rfl, by simpa using hb⟩
  | succ k ih =>
    intro cp j p m b h hb hle
    have hsh : (cp <<< 4) % 2 ^ 32 = cp * 16 := by
      rw [Nat.shiftLeft_eq]
      apply Nat.mod_eq_of_lt
      have : b * 16 ^ (k + 1) = b * 16 * 16 ^ k := by rw [pow_succ]; ring
      have h1 : 1 ≤ 16 ^ k := Nat.one_le_pow _ _ (by norm_num)
      have : b * 16 ≤ b * 16 * 16 ^ k := Nat.le_mul_of_pos_right _ (by omega)
      have e : (2 : Nat) ^ 4 = 16 := by norm_num
      rw [e]
      omega
    have hstep : ∀ d, d < 16 →
        StepReads (parse_hex4_loop k ((cp * 16 + d) % 2 ^ 32)
          { p with mis := (mis_take p.mis).2 }) m
          (fun c n => n = j + (k + 1) ∧ c < b * 16 ^ (k + 1)) := by
      intro d hd
      have hb16 : b * 16 * 16 ^ k ≤ 2 ^ 32 := by
        have : b * 16 ^ (k + 1) = b * 16 * 16 ^ k := by rw [pow_succ]; ring
        omega
      have h1 : 1 ≤ 16 ^ k := Nat.one_le_pow _ _ (by norm_num)
      have hlt : cp * 16 + d < b * 16 := by omega
      have hmod : (cp * 16 + d) % 2 ^ 32 = cp * 16 + d := by
        apply Nat.mod_eq_of_lt
        have : b * 16 ≤ b * 16 * 16 ^ k := Nat.le_mul_of_pos_right _ (by omega)
        omega
      rw [hmod]
      have := ih (cp * 16 + d) (j + 1) { p with mis := (mis_take p.mis).2 } m (b * 16)
        (ReadOn_trans _ _ _ _ _ h (ReadOn_take p.mis)) hlt hb16
      have e2 : b * 16 * 16 ^ k = b * 16 ^ (k + 1) := by rw [pow_succ]; ring
      rw [e2] at this
      have e3 : j + 1 + k = j + (k + 1) := by omega
      rw [e3] at this
      exact this
    rw [parse_hex4_loop]
    simp only [PM_bind_apply, get_mis_apply, hsh]
    split
    · exact hstep _ (by omega)
    · split
      · exact hstep _ (by omega)
      · split
        · exact hstep _ (by omega)
        · exact throw_reads _ _ _ _ (ReadOn_weaken _ _ _ _ h (Nat.zero_le _))

theorem StepReads_bind {α β : Type} (m : PM α) (f : α → PM β) (p : parser)
    (m0 : memory_input_stream) (P : α → Nat → Prop) (Q : β → Nat → Prop)
    (h : StepReads (m p) m0 P)
    (hf : ∀ a p1 k, ReadOn m0 p1.mis k → P a k → StepReads (f a p1) m0 Q) :
    StepReads ((m >>= f) p) m0 Q := by
  rw [PM_bind_apply]
  cases hm : m p with
  | ok a p1 =>
    rw [hm] at h
    obtain ⟨k, h1, h2⟩ := h
    exact hf a p1 k h1 h2
  | thrown p1 => rw [hm] at h; exact h
  | aborted p1 => rw [hm] at h; exact h

theorem take_reads (p : parser) (m0 : memory_input_stream) (j : Nat) (h : ReadOn m0 p.mis j) :
    StepReads (on_mis mis_take p) m0 (fun _ n => n = j + 1) :=
  ⟨j + 1, ReadOn_trans _ _ _ _ _ h (ReadOn_take p.mis), rfl⟩

theorem peek_reads (p : parser) (m0 : memory_input_stream) (j : Nat) (h : ReadOn m0 p.mis j) :
    StepReads (get_mis mis_peek p) m0 (fun _ n => n = j) :=
  ⟨j, h, rfl⟩

theorem consume_reads (p : parser) (m0 : memory_input_stream) (j b : Nat)
    (h : ReadOn m0 p.mis j) :
    StepReads (on_mis (fun m => mis_consume m b) p) m0
      (fun c n => (c = true → n = j + 1) ∧ (c = false → n = j)) := by
  rw [on_mis_apply]
  unfold mis_consume
  by_cases hb : p.mis.start.getD p.mis.read 0 ≠ b
  · simp only [hb, ne_eq, not_false_eq_true, if_true]
    exact ⟨j, h, fun h => Bool.noConfusion h, fun _ => rfl⟩
  · simp only [hb, if_false]
    exact ⟨j + 1, ReadOn_trans _ _ _ _ _ h ⟨le_refl _, rfl⟩, fun _ => rfl,
      fun h => Bool.noConfusion h⟩

theorem utf8_encode_cont_length (cp k : Nat) : (utf8_encode_cont cp k).length = k := by
  induction k with
  | zero => rfl
  | succ k ih => simp [utf8_encode_cont, ih]

theorem utf8_encode_length (cp : Nat) :
    (utf8_encode cp).length ≤ 4 ∧ (cp < 0x10000 → (utf8_encode cp).length ≤ 3) ∧
      (cp ≤ 0x7F → (utf8_encode cp).length = 1) := by
  unfold utf8_encode _1_BYTE_MAX _2_BYTE_MAX _3_BYTE_MAX CODEPOINT_MAX
  split_ifs <;> simp [utf8_encode_cont_length] <;> omega

theorem escape_table_le (e : Nat) : escape_table e ≤ 0x7F := by
  unfold escape_table
  split_ifs <;> omega

/-- The function `parse_escape` reads more bytes than the encoding of the
code point it returns has, and changes nothing but the read head. -/
theorem parse_escape_reads (p : parser) :
    StepReads (parse_escape p) p.mis (fun cp n => (utf8_encode cp).length + 1 ≤ n) := by
  unfold parse_escape
  refine StepReads_bind _ _ _ _ _ _ (take_reads p p.mis 0 (ReadOn_refl _)) ?_
  intro _ p1 k1 h1 e1
  refine StepReads_bind _ _ _ _ _ _ (peek_reads p1 p.mis k1 h1) ?_
  intro e p2 k2 h2 e2
  subst e1 e2
  split
  · refine StepReads_bind _ _ _ _ _ _ (take_reads p2 p.mis _ h2) ?_
    intro _ p3 k3 h3 e3
    subst e3
    refine ⟨_, h3, ?_⟩
    show (utf8_encode (escape_table e)).length + 1 ≤ 0 + 1 + 1
    rw [(utf8_encode_length _).2.2 (escape_table_le e)]
  · split
    · refine StepReads_bind _ _ _ _ _ _ (take_reads p2 p.mis _ h2) ?_
      intro _ p3 k3 h3 e3
      subst e3
      refine StepReads_bind _ _ _ _ _ _
        (parse_hex4_loop_reads 4 0 _ p3 p.mis 1 h3 (by decide) (by norm_num)) ?_
      intro cp p4 k4 h4 e4
      obtain ⟨e4, hcp⟩ := e4
      subst e4
      split
      · split
        · refine StepReads_bind _ _ _ _ _ _ (consume_reads p4 p.mis _ 0x5C h4) ?_
          intro c1 p5 k5 h5 e5
          cases c1
          · exact throw_reads _ _ _ _ (ReadOn_weaken _ _ _ _ h5 (Nat.zero_le _))
          · have hk5 : k5 = 0 + 1 + 1 + 4 + 1 := e5.1 rfl
            subst hk5
            simp only [if_true]
            refine StepReads_bind _ _ _ _ _ _ (consume_reads p5 p.mis _ 0x75 h5) ?_
            intro c2 p6 k6 h6 e6
            cases c2
            · exact throw_reads _ _ _ _ (ReadOn_weaken _ _ _ _ h6 (Nat.zero_le _))
            · have hk6 := e6.1 rfl
              subst hk6
              simp only [Bool.and_self, Bool.not_true, Bool.false_eq_true, if_false]
              refine StepReads_bind _ _ _ _ _ _
                (parse_hex4_loop_reads 4 0 _ p6 p.mis 1 h6 (by decide) (by norm_num)) ?_
              intro cp2 p7 k7 h7 e7
              obtain ⟨e7, _⟩ := e7
              subst e7
              split
              · exact throw_reads _ _ _ _ (ReadOn_weaken _ _ _ _ h7 (Nat.zero_le _))
              · refine ⟨_, h7, ?_⟩
                have := (utf8_encode_length
                  ((((cp - 0xD800) <<< 10 ||| (cp2 - 0xDC00)) + 0x10000) % 2 ^ 32)).1
                show (utf8_encode ((((cp - 0xD800) <<< 10 ||| (cp2 - 0xDC00)) + 0x10000)
                  % 2 ^ 32)).length + 1 ≤ 0 + 1 + 1 + 4 + 1 + 1 + 4
                omega
        · exact throw_reads _ _ _ _ (ReadOn_weaken _ _ _ _ h4 (Nat.zero_le _))
      · refine ⟨_, h4, ?_⟩
        have := (utf8_encode_length cp).2.1 (by simpa using hcp)
        show (utf8_encode cp).length + 1 ≤ 0 + 1 + 1 + 4
        omega
    · exact throw_reads _ _ _ _ (ReadOn_weaken _ _ _ _ h2 (Nat.zero_le _))

theorem StrLoop_bounds (mis : memory_input_stream) (h : StrLoop mis) : StrBounds mis :=
  ⟨h.1, le_trans h.2.1 h.2.2⟩

theorem mis_string_start_loop (mis : memory_input_stream) : StrLoop (mis_string_start mis) :=
  ⟨le_refl _, le_refl _, le_refl _⟩

/-- The function `mis_string_update` moves the write head up to the read head
at most; the block it moves ends at the new write head. -/
theorem mis_string_update_bounds (mis : memory_input_stream) (h : StrLoop mis) :
    StrBounds (mis_string_update mis) ∧ (mis_string_update mis).string = mis.string ∧
      (mis_string_update mis).read = mis.read ∧ mis.write ≤ (mis_string_update mis).write := by
  obtain ⟨h1, h2, h3⟩ := h
  unfold mis_string_update
  by_cases hm : mis.mark ≠ mis.write
  · rw [if_pos hm]
    by_cases ha : mis.read - mis.mark ≠ 0
    · simp only [ha, ne_eq, not_false_eq_true, if_true]
      refine ⟨⟨?_, ?_⟩, trivial, trivial, ?_⟩
      · show mis.string ≤ mis.write + (mis.read - mis.mark); omega
      · show mis.write + (mis.read - mis.mark) ≤ mis.read; omega
      · show mis.write ≤ mis.write + (mis.read - mis.mark); omega
    · simp only [ha, if_false]
      exact ⟨⟨h1, by omega⟩, trivial, trivial, le_refl _⟩
  · rw [if_neg hm]
    refine ⟨⟨?_, le_refl _⟩, rfl, rfl, ?_⟩
    · show mis.string ≤ mis.read; omega
    · show mis.write ≤ mis.read; omega

/-- Storing bytes at the write head keeps the bounds when there are no more of
them than bytes were read since. -/
theorem mis_write_bytes_bounds (mis : memory_input_stream) (bytes : List Nat)
    (h1 : mis.string ≤ mis.write) (h2 : mis.write + bytes.length ≤ mis.read) :
    StrBounds (mis_write_bytes mis bytes) ∧
      StrLoop (mis_string_restart (mis_write_bytes mis bytes)) := by
  refine ⟨⟨?_, h2⟩, ?_, h2, le_refl _⟩
  · show mis.string ≤ mis.write + bytes.length; omega
  · show mis.string ≤ mis.write + bytes.length; omega

theorem mis_string_complete_bounds (mis : memory_input_stream) (h : StrLoop mis) :
    StrBounds (mis_string_complete mis).2 := by
  unfold mis_string_complete
  by_cases hm : mis.mark = mis.string
  · rw [if_pos hm]
    obtain ⟨h1, h2, h3⟩ := h
    exact ⟨h1, by show mis.write ≤ mis.read + 1; omega⟩
  · rw [if_neg hm]
    obtain ⟨⟨a1, a2⟩, a3, a4, _⟩ := mis_string_update_bounds mis h
    exact ⟨a1, by show (mis_string_update mis).write ≤ (mis_string_update mis).read + 1; omega⟩

/-- The loop of `parse_string_in_stream` from a state within the bounds of the
loop head ends within the bounds. -/
theorem parse_string_loop_bounds (v : Bool) : ∀ (k : Nat) (p : parser), StrLoop p.mis →
    EndsInBounds (parse_string_loop v k p) := by
  intro k
  induction k with
  | zero => intro p h; exact StrLoop_bounds _ h
  | succ k ih =>
    intro p h
    rw [parse_string_loop]
    simp only [PM_bind_apply, get_mis_apply]
    split
    · exact mis_string_complete_bounds p.mis h
    · split
      · obtain ⟨⟨a1, a2⟩, a3, a4, _⟩ := mis_string_update_bounds p.mis h
        have hr := parse_escape_reads { p with mis := mis_string_update p.mis }
        cases he : parse_escape { p with mis := mis_string_update p.mis } with
        | ok cp p1 =>
          rw [he] at hr
          obtain ⟨n, ⟨r1, r2⟩, hn⟩ := hr
          simp only [PM_bind_apply, set_mis_apply, he]
          apply ih
          have e1 : p1.mis.write = (mis_string_update p.mis).write := by rw [r2]
          have e2 : p1.mis.string = (mis_string_update p.mis).string := by rw [r2]
          have r1' : (mis_string_update p.mis).read + n ≤ p1.mis.read := r1
          exact (mis_write_bytes_bounds p1.mis (utf8_encode cp) (by rw [e1, e2]; exact a1)
            (by rw [e1]; omega)).2
        | thrown p1 =>
          rw [he] at hr
          obtain ⟨r1, r2⟩ := hr
          have r1' : (mis_string_update p.mis).read + 0 ≤ p1.mis.read := r1
          simp only [PM_bind_apply, set_mis_apply, he]
          refine ⟨?_, ?_⟩
          · show p1.mis.string ≤ p1.mis.write
            rw [r2]; exact a1
          · show p1.mis.write ≤ p1.mis.read
            have e1 : p1.mis.write = (mis_string_update p.mis).write := by rw [r2]
            rw [e1]; omega
        | aborted p1 =>
          rw [he] at hr
          obtain ⟨r1, r2⟩ := hr
          have r1' : (mis_string_update p.mis).read + 0 ≤ p1.mis.read := r1
          simp only [PM_bind_apply, set_mis_apply, he]
          refine ⟨?_, ?_⟩
          · show p1.mis.string ≤ p1.mis.write
            rw [r2]; exact a1
          · show p1.mis.write ≤ p1.mis.read
            have e1 : p1.mis.write = (mis_string_update p.mis).write := by rw [r2]
            rw [e1]; omega
      · split
        · simp only [PM_bind_apply, on_mis_apply]
          unfold mis_validate_utf8
          simp only []
          split
          · exact StrLoop_bounds _ h
          · apply ih
            obtain ⟨h1, h2, h3⟩ := h
            exact ⟨h1, h2, by
              show p.mis.mark ≤ p.mis.read + _
              omega⟩
        · split
          · exact StrLoop_bounds _ h
          · simp only [PM_bind_apply, on_mis_apply]
            apply ih
            obtain ⟨h1, h2, h3⟩ := h
            exact ⟨h1, h2, by show p.mis.mark ≤ p.mis.read + 1; omega⟩

/-- The function `parse_string` on any parser ends within the bounds. -/
theorem parse_string_bounds (v : Bool) (p : parser) : EndsInBounds (parse_string v p) := by
  unfold parse_string parse_string_in_stream
  simp only [PM_bind_apply, on_mis_apply, set_mis_apply]
  exact parse_string_loop_bounds v _ _ (mis_string_start_loop _)

/-- The byte `mis_consume_whitespace` returns is the byte at the read head it
leaves. -/
theorem mis_consume_whitespace_peek : ∀ (k : Nat) (mis : memory_input_stream),
    (mis_consume_whitespace_loop k mis).1 = mis_peek (mis_consume_whitespace_loop k mis).2 := by
  intro k
  induction k with
  | zero => intro mis; rfl
  | succ k ih =>
    intro mis
    rw [mis_consume_whitespace_loop]
    split
    · exact ih _
    · rfl

end Jsnpg

namespace Jsnpg
open jsnpg_type jsnpg_error_code parse_state

theorem jos_prefix_eq (g : jgen) :
    ( jos_prefix g) = jos_at g (g.ctx.mos.buffer ++ lead_text g.ctx) g.ctx.level
      (lead_nl g.ctx) true false := by
  obtain ⟨⟨⟨buf⟩, k, L, nl, cm, ky⟩, v, kn, er, ct, st⟩ := g
  unfold jos_prefix jos_indent jos_put mos_put mos_putn lead_text lead_nl jos_at
  cases ky <;> cases cm <;> cases nl <;> by_cases hk : k = 0 <;>
    simp [hk, List.append_assoc]

theorem jos_puts_at (g : jgen) (b : List Nat) (L : Nat) (nl cm ky : Bool) (t : List Nat) :
    jos_puts (jos_at g b L nl cm ky) t = jos_at g (b ++ t) L nl cm ky := rfl

theorem jos_put_at (g : jgen) (b : List Nat) (L : Nat) (nl cm ky : Bool) (c : Nat) :
    jos_put (jos_at g b L nl cm ky) c = jos_at g (b ++ [c]) L nl cm ky := rfl

/-- A scalar event on the emitter: the separator and the text of the scalar
are written. -/
theorem print_scalar (fp : FloatPrims) (g : jgen) (e : Event) (hs : e.isScalar = true)
    (hok : ScalarOk g.validate_utf8 e) :
    send_event (print_callbacks fp) g e =
      (true, jos_at g (g.ctx.mos.buffer ++ (lead_text g.ctx ++ scalarText fp g.validate_utf8 e))
        g.ctx.level (lead_nl g.ctx) true false) := by
  cases e with
  | null =>
    show (true, jos_puts ( jos_prefix g) _) = _
    rw [jos_prefix_eq, jos_puts_at, List.append_assoc]; rfl
  | boolean b =>
    show (true, if b then jos_puts ( jos_prefix g) _ else jos_puts ( jos_prefix g) _) = _
    cases b
    · rw [if_neg (by decide), jos_prefix_eq, jos_puts_at, List.append_assoc]; rfl
    · rw [if_pos rfl, jos_prefix_eq, jos_puts_at, List.append_assoc]; rfl
  | integer n =>
    show jos_puti ( jos_prefix g) n = _
    rw [jos_puti_eq _ n hok.1 hok.2, jos_prefix_eq, jos_puts_at, List.append_assoc,
      i64toa_eq n hok.1 hok.2]
    rfl
  | real r =>
    show (true, jos_puts ( jos_prefix g) (fp.dtoa r)) = _
    rw [jos_prefix_eq, jos_puts_at, List.append_assoc]; rfl
  | string s =>
    have hb : ∀ b ∈ s, b < 256 := hok.1
    have he : (escapeText g.validate_utf8 s.length s).1 = true := hok.2
    show (if (jos_scan_escape (jos_put ( jos_prefix g) 0x22) s s.length).1 then
        (true, jos_put (jos_scan_escape (jos_put ( jos_prefix g) 0x22) s s.length).2 0x22)
      else (false, (jos_scan_escape (jos_put ( jos_prefix g) 0x22) s s.length).2)) = _
    rw [jos_scan_escape_bytes _ s hb]
    have hv : (jos_put ( jos_prefix g) 0x22).validate_utf8 = g.validate_utf8 :=
      (jos_prefix_frame g).1
    rw [hv, he]
    simp only [if_true]
    rw [jos_prefix_eq, jos_put_at, jos_puts_at, jos_put_at]
    simp only [scalarText, quotedText, List.append_assoc, List.singleton_append, List.cons_append,
      List.nil_append]
  | key k => exact Bool.noConfusion hs
  | start_array => exact Bool.noConfusion hs
  | end_array => exact Bool.noConfusion hs
  | start_object => exact Bool.noConfusion hs
  | end_object => exact Bool.noConfusion hs

theorem jos_key_suffix_at (g : jgen) (b : List Nat) (L : Nat) (nl cm ky : Bool) :
    jos_key_suffix (jos_at g b L nl cm ky) =
      jos_at g (b ++ 0x3A :: (if g.ctx.indent ≠ 0 then [0x20] else [])) L nl cm true := by
  unfold jos_key_suffix jos_put mos_put jos_at
  by_cases hk : g.ctx.indent = 0 <;> simp [hk]

/-- A key on the emitter: the separator, the key in quotes and the colon are
written, and a space after it when the output is indented. -/
theorem print_key_eq (fp : FloatPrims) (g : jgen) (k : List Nat)
    (hok : StringOk g.validate_utf8 k) :
    send_event (print_callbacks fp) g (Event.key k) =
      (true, jos_at g (g.ctx.mos.buffer ++ (lead_text g.ctx ++ (quotedText g.validate_utf8 k ++
          (0x3A :: (if g.ctx.indent ≠ 0 then [0x20] else [])))))
        g.ctx.level (lead_nl g.ctx) true true) := by
  have hb : ∀ b ∈ k, b < 256 := hok.1
  have he : (escapeText g.validate_utf8 k.length k).1 = true := hok.2
  show (if (jos_scan_escape (jos_put ( jos_prefix g) 0x22) k k.length).1 then
      (true, jos_key_suffix
        (jos_put (jos_scan_escape (jos_put ( jos_prefix g) 0x22) k k.length).2 0x22))
    else (false, (jos_scan_escape (jos_put ( jos_prefix g) 0x22) k k.length).2)) = _
  rw [jos_scan_escape_bytes _ k hb]
  have hv : (jos_put ( jos_prefix g) 0x22).validate_utf8 = g.validate_utf8 :=
    (jos_prefix_frame g).1
  rw [hv, he]
  simp only [if_true]
  rw [jos_prefix_eq, jos_put_at, jos_puts_at, jos_put_at, jos_key_suffix_at]
  simp only [quotedText, List.append_assoc, List.singleton_append, List.cons_append,
    List.nil_append]

/-- The opening of a container on the emitter. -/
theorem print_start_eq (fp : FloatPrims) (g : jgen) (e : Event) (c : Nat)
    (he : (e = Event.start_array ∧ c = 0x5B) ∨ (e = Event.start_object ∧ c = 0x7B)) :
    send_event (print_callbacks fp) g e =
      (true, jos_at g (g.ctx.mos.buffer ++ (lead_text g.ctx ++ [c]))
        ((g.ctx.level + 1) % 2 ^ 32) (lead_nl g.ctx) false false) := by
  rcases he with ⟨rfl, rfl⟩ | ⟨rfl, rfl⟩
  · show (true, jos_put (jos_prefix_start g) 0x5B) = _
    unfold jos_prefix_start
    rw [jos_prefix_eq]
    simp only [jos_at, jos_put, mos_put, List.append_assoc]
  · show (true, jos_put (jos_prefix_start g) 0x7B) = _
    unfold jos_prefix_start
    rw [jos_prefix_eq]
    simp only [jos_at, jos_put, mos_put, List.append_assoc]

theorem jos_prefix_end_eq (g : jgen) :
    jos_prefix_end g = jos_at g (g.ctx.mos.buffer ++ close_text g.ctx)
      ((g.ctx.level + 2 ^ 32 - 1) % 2 ^ 32)
      (if g.ctx.comma then
        lead_nl { g.ctx with level := (g.ctx.level + 2 ^ 32 - 1) % 2 ^ 32, comma := false }
       else g.ctx.nl)
      (decide ((g.ctx.level + 2 ^ 32 - 1) % 2 ^ 32 > 0))
      (if g.ctx.comma then false else g.ctx.key) := by
  obtain ⟨⟨⟨buf⟩, k, L, nl, cm, ky⟩, v, kn, er, ct, st⟩ := g
  unfold jos_prefix_end
  simp only []
  generalize hL : (L + 2 ^ 32 - 1) % 2 ^ 32 = L1
  cases cm
  · simp only [Bool.false_eq_true, if_false, close_text, List.append_nil, jos_at]
  · simp only [if_true]
    rw [jos_prefix_eq]
    simp only [jos_at, close_text, if_true, hL]

/-- The closing of a container on the emitter. -/
theorem print_end_eq (fp : FloatPrims) (g : jgen) (e : Event) (c : Nat)
    (he : (e = Event.end_array ∧ c = 0x5D) ∨ (e = Event.end_object ∧ c = 0x7D)) :
    send_event (print_callbacks fp) g e =
      (true, jos_at g (g.ctx.mos.buffer ++ (close_text g.ctx ++ [c]))
        ((g.ctx.level + 2 ^ 32 - 1) % 2 ^ 32)
        (if g.ctx.comma then
          lead_nl { g.ctx with level := (g.ctx.level + 2 ^ 32 - 1) % 2 ^ 32, comma := false }
         else g.ctx.nl)
        (decide ((g.ctx.level + 2 ^ 32 - 1) % 2 ^ 32 > 0))
        (if g.ctx.comma then false else g.ctx.key)) := by
  rcases he with ⟨rfl, rfl⟩ | ⟨rfl, rfl⟩
  · show (true, jos_put (jos_prefix_end g) 0x5D) = _
    rw [jos_prefix_end_eq, jos_put_at, List.append_assoc]
  · show (true, jos_put (jos_prefix_end g) 0x7D) = _
    rw [jos_prefix_end_eq, jos_put_at, List.append_assoc]

end Jsnpg

namespace Jsnpg
open jsnpg_type jsnpg_error_code parse_state

theorem parse_start_object_room (p : parser) (hroom : p.stack.ptr < p.stack.size) :
    parse_start_object p =
      Res.ok STACK_OBJECT { advance p 1 with stack := (stack_push p.stack STACK_OBJECT).2 } := by
  have h1 : (stack_push p.stack STACK_OBJECT).1 = 0 := by
    unfold stack_push
    simp only [ge_iff_le, not_le.2 hroom, if_false]
  unfold parse_start_object
  simp only [PM_bind_apply, on_mis_apply]
  show (if (stack_push p.stack STACK_OBJECT).1 = -1 then _ else _) = _
  rw [h1]
  simp only [show (0 : Int) ≠ -1 by decide, if_false]
  rfl

theorem parse_start_array_room (p : parser) (hroom : p.stack.ptr < p.stack.size) :
    parse_start_array p =
      Res.ok STACK_ARRAY { advance p 1 with stack := (stack_push p.stack STACK_ARRAY).2 } := by
  have h1 : (stack_push p.stack STACK_ARRAY).1 = 0 := by
    unfold stack_push
    simp only [ge_iff_le, not_le.2 hroom, if_false]
  unfold parse_start_array
  simp only [PM_bind_apply, on_mis_apply]
  show (if (stack_push p.stack STACK_ARRAY).1 = -1 then _ else _) = _
  rw [h1]
  simp only [show (0 : Int) ≠ -1 by decide, if_false]
  rfl

/-- The `switch` at `{` when the object is not empty and the stack has room,
whatever the size of the stack. -/
theorem switch_object_open_room (fp : FloatPrims) (st : Int) (p : parser)
    (g : generator (List Event)) (rest : List Nat) (ha : ahead p.mis = 0x7B :: rest)
    (hr : ¬ isWs (rest.headD 0)) (hne : rest.headD 0 ≠ 0x7D)
    (hroom : p.stack.ptr < p.stack.size) :
    ∃ p1, pg_top_switch record_callbacks fp false false true 0x7B st p g =
        GRes.ok (pg_ctl.top (rest.headD 0) STACK_OBJECT) p1
          { g with ctx := g.ctx ++ [Event.start_object] } ∧
      Stepped p p1 1 ∧ p1.stack = (stack_push p.stack STACK_OBJECT).2 := by
  have h1 := parse_start_object_room p hroom
  generalize hp1 : ({ advance p 1 with stack := (stack_push p.stack STACK_OBJECT).2 }
    : parser) = p1 at h1
  have hs1 : Stepped p p1 1 := by rw [← hp1]; exact Stepped_stack _ _ _ _ (Stepped_advance p 1)
  have hst1 : p1.stack = (stack_push p.stack STACK_OBJECT).2 := by rw [← hp1]
  have ha1 : ahead p1.mis = rest := Stepped_ahead p p1 1 [0x7B] _ hs1 ha rfl
  refine ⟨p1, ?_, hs1, hst1⟩
  unfold pg_top_switch
  rw [if_neg (by decide), if_pos rfl, GM_bind_ok _ _ _ _ _ _ _ (liftP_ok _ _ _ _ _ h1),
    GM_bind_ok _ _ _ _ _ _ _ (emit_start_object _ _),
    GM_bind_ok _ _ _ _ _ _ _ (ws_step_none _ _ rest ha1 hr)]
  simp only [Bool.false_and, Bool.false_eq_true, if_false]
  rw [GM_bind_ok _ _ _ _ _ _ _ (GM_pure_apply _ _ _), if_neg hne,
    GM_bind_ok _ _ _ _ _ _ _ (ws_step_none _ _ rest ha1 hr)]
  rfl

/-- The `switch` at `[` of an empty array when the stack has room, whatever
the size of the stack: the type returned is the one `stack_pop` reads. -/
theorem switch_array_empty_room (fp : FloatPrims) (st : Int) (p : parser)
    (g : generator (List Event)) (rest : List Nat)
    (ha : ahead p.mis = 0x5B :: 0x5D :: rest) (hroom : p.stack.ptr < p.stack.size) :
    ∃ p1, pg_top_switch record_callbacks fp false false true 0x5B st p g =
        GRes.ok (pg_ctl.inner (stack_type_of
            { (stack_push p.stack STACK_ARRAY).2 with ptr := p.stack.ptr })) p1
          { g with ctx := g.ctx ++ [Event.start_array, Event.end_array] } ∧
      Stepped p p1 2 ∧
      p1.stack = { (stack_push p.stack STACK_ARRAY).2 with ptr := p.stack.ptr } := by
  have h1 := parse_start_array_room p hroom
  generalize hp1 : ({ advance p 1 with stack := (stack_push p.stack STACK_ARRAY).2 }
    : parser) = p1 at h1
  have hs1 : Stepped p p1 1 := by rw [← hp1]; exact Stepped_stack _ _ _ _ (Stepped_advance p 1)
  have hst1 : p1.stack = (stack_push p.stack STACK_ARRAY).2 := by rw [← hp1]
  have hptr1 : p1.stack.ptr = p.stack.ptr + 1 := by
    rw [hst1]
    unfold stack_push
    simp only [ge_iff_le, not_le.2 hroom, if_false]
  have ha1 : ahead p1.mis = 0x5D :: rest := Stepped_ahead p p1 1 [0x5B] _ hs1 ha rfl
  have hr : ¬ isWs ((0x5D :: rest).headD 0) := by unfold isWs; simp
  have h2 := parse_end_array_ok p1 (by omega)
  have hpt : p1.stack.ptr - 1 = p.stack.ptr := by omega
  rw [hpt, hst1] at h2
  generalize hp2 : ({ advance p1 1 with
    stack := { (stack_push p.stack STACK_ARRAY).2 with ptr := p.stack.ptr } } : parser) = p2
    at h2
  have hs2 : Stepped p1 p2 1 := by
    rw [← hp2]; exact Stepped_stack _ _ _ _ (Stepped_advance _ 1)
  refine ⟨p2, ?_, Stepped_trans _ _ _ _ _ hs1 hs2, by rw [← hp2]⟩
  unfold pg_top_switch
  rw [if_pos rfl, GM_bind_ok _ _ _ _ _ _ _ (liftP_ok _ _ _ _ _ h1),
    GM_bind_ok _ _ _ _ _ _ _ (emit_start_array _ _),
    GM_bind_ok _ _ _ _ _ _ _ (ws_step_none _ _ _ ha1 hr)]
  simp only [Bool.false_and, Bool.false_eq_true, if_false, List.headD_cons]
  rw [GM_bind_ok _ _ _ _ _ _ _ (GM_pure_apply _ _ _), if_pos rfl,
    GM_bind_ok _ _ _ _ _ _ _ (liftP_ok _ _ _ _ _ h2),
    GM_bind_ok _ _ _ _ _ _ _ (emit_end_array _ _)]
  simp only [GM_pure_apply, List.append_assoc, List.singleton_append]

theorem key_k_wf : ∀ it ∈ [StrItem.char 0x6B], it.wf := by
  intro it h
  rw [List.mem_singleton] at h
  subst h
  exact ⟨by decide, by decide, by decide, by decide⟩

/-- A member `"k":{` of an object: the key and the start of the object that
is its value are delivered. -/
theorem member_open (fp : FloatPrims) (p : parser) (g : generator (List Event))
    (rest : List Nat) (hf : p.flags = 0)
    (ha : ahead p.mis = [0x22, 0x6B, 0x22, 0x3A, 0x7B] ++ rest) (hh : rest.headD 0 = 0x22)
    (hb : ∀ b ∈ rest, b < 256) (hroom : p.stack.ptr < p.stack.size) :
    ∃ p1, pg_top record_callbacks fp 0x22 STACK_OBJECT p g =
        GRes.ok (pg_ctl.top 0x22 STACK_OBJECT) p1
          (deliver g [Event.key [0x6B], Event.start_object]) ∧
      Stepped p p1 5 ∧ p1.stack = (stack_push p.stack STACK_OBJECT).2 := by
  have hr : ¬ isWs ((0x7B :: rest).headD 0) := by unfold isWs; simp
  obtain ⟨p1, hk, hs1, hst1⟩ := key_step p g [StrItem.char 0x6B] [] [] (0x7B :: rest) key_k_wf
    (by simp) (by simp) hr ha
    (by intro b hm; rw [List.mem_cons] at hm; rcases hm with rfl | hm
        · norm_num
        · exact hb b hm)
  have hs1' : Stepped p p1 4 := hs1
  have ha1 : ahead p1.mis = 0x7B :: rest :=
    Stepped_ahead p p1 4 [0x22, 0x6B, 0x22, 0x3A] _ hs1' ha rfl
  have hr2 : ¬ isWs (rest.headD 0) := by rw [hh]; unfold isWs; simp
  obtain ⟨p2, hsw, hs2, hst2⟩ := switch_object_open_room fp STACK_OBJECT p1
    { g with ctx := g.ctx ++ [Event.key (literalValue [StrItem.char 0x6B])] } rest ha1 hr2
    (by rw [hh]; decide) (by rw [hst1]; exact hroom)
  refine ⟨p2, ?_, Stepped_trans _ _ _ _ _ hs1' hs2, by rw [hst2, hst1]⟩
  rw [pg_top_member fp 0x22 p g hf, GM_bind_ok _ _ _ _ _ _ _ hk]
  have e : (0x7B :: rest).headD 0 = 0x7B := rfl
  rw [e, hsw, hh]
  simp only [deliver, List.append_assoc, List.singleton_append]
  rfl

/-- The member `"k":[]` of an object: the key and the start and the end of
the array are delivered. -/
theorem member_array (fp : FloatPrims) (p : parser) (g : generator (List Event))
    (rest : List Nat) (hf : p.flags = 0)
    (ha : ahead p.mis = [0x22, 0x6B, 0x22, 0x3A, 0x5B, 0x5D] ++ rest)
    (hb : ∀ b ∈ rest, b < 256) (hroom : p.stack.ptr < p.stack.size) :
    ∃ p1, pg_top record_callbacks fp 0x22 STACK_OBJECT p g =
        GRes.ok (pg_ctl.inner (stack_type_of
            { (stack_push p.stack STACK_ARRAY).2 with ptr := p.stack.ptr })) p1
          (deliver g [Event.key [0x6B], Event.start_array, Event.end_array]) ∧
      Stepped p p1 6 ∧
      p1.stack = { (stack_push p.stack STACK_ARRAY).2 with ptr := p.stack.ptr } := by
  have hr : ¬ isWs ((0x5B :: 0x5D :: rest).headD 0) := by unfold isWs; simp
  obtain ⟨p1, hk, hs1, hst1⟩ := key_step p g [StrItem.char 0x6B] [] [] (0x5B :: 0x5D :: rest)
    key_k_wf (by simp) (by simp) hr ha
    (by intro b hm; rw [List.mem_cons, List.mem_cons] at hm; rcases hm with rfl | rfl | hm
        · norm_num
        · norm_num
        · exact hb b hm)
  have hs1' : Stepped p p1 4 := hs1
  have ha1 : ahead p1.mis = 0x5B :: 0x5D :: rest :=
    Stepped_ahead p p1 4 [0x22, 0x6B, 0x22, 0x3A] _ hs1' ha rfl
  obtain ⟨p2, hsw, hs2, hst2⟩ := switch_array_empty_room fp STACK_OBJECT p1
    { g with ctx := g.ctx ++ [Event.key (literalValue [StrItem.char 0x6B])] } rest ha1
    (by rw [hst1]; exact hroom)
  refine ⟨p2, ?_, Stepped_trans _ _ _ _ _ hs1' hs2, by rw [hst2, hst1]⟩
  rw [pg_top_member fp 0x22 p g hf, GM_bind_ok _ _ _ _ _ _ _ hk]
  have e : (0x5B :: 0x5D :: rest).headD 0 = 0x5B := rfl
  rw [e, hsw, hst1]
  simp only [deliver, List.append_assoc, List.singleton_append]
  rfl

theorem deep_opens_head : ∀ (n : Nat) (rest : List Nat), rest.headD 0 = 0x22 →
    (deep_opens n ++ rest).headD 0 = 0x22 := by
  intro n rest h
  cases n with
  | zero => exact h
  | succ n => rfl

theorem deep_opens_lt : ∀ (n : Nat) (rest : List Nat), (∀ b ∈ rest, b < 256) →
    ∀ b ∈ deep_opens n ++ rest, b < 256 := by
  intro n
  induction n with
  | zero => intro rest h; exact h
  | succ n ih =>
    intro rest h b hm
    unfold deep_opens at hm
    rw [List.append_assoc] at hm
    simp only [List.cons_append, List.nil_append, List.mem_cons] at hm
    rcases hm with rfl | rfl | rfl | rfl | rfl | hm
    · norm_num
    · norm_num
    · norm_num
    · norm_num
    · norm_num
    · exact ih rest h b hm

theorem deep_opens_length : ∀ n : Nat, (deep_opens n).length = 5 * n := by
  intro n
  induction n with
  | zero => rfl
  | succ n ih =>
    unfold deep_opens
    rw [List.length_append, ih]
    simp only [List.length_cons, List.length_nil]
    omega

/-- The members `"k":{` in a row: each delivers its key and the start of its
object, and the nesting stack, which holds zeros, gets one level deeper. -/
theorem deep_open_run (fp : FloatPrims) (size m : Nat) : ∀ (n : Nat) (p : parser)
    (g : generator (List Event)) (rest : List Nat) (k j : Nat), p.flags = 0 →
    p.stack = ⟨j, size, List.replicate m 0⟩ → j + n ≤ size →
    ahead p.mis = deep_opens n ++ rest → rest.headD 0 = 0x22 → (∀ b ∈ rest, b < 256) →
    ∃ p1, pg_loop record_callbacks fp (k + n) (pg_ctl.top 0x22 STACK_OBJECT) p g =
        pg_loop record_callbacks fp k (pg_ctl.top 0x22 STACK_OBJECT) p1
          (deliver g (deep_open_events n)) ∧
      Stepped p p1 (5 * n) ∧ p1.stack = ⟨j + n, size, List.replicate m 0⟩ := by
  intro n
  induction n with
  | zero =>
    intro p g rest k j hf hs _ _ _ _
    exact ⟨p, by rw [deep_open_events, deliver_nil]; rfl, ⟨rfl, rfl, rfl, rfl⟩, hs⟩
  | succ n ih =>
    intro p g rest k j hf hs hj ha hh hb
    have ha1 : ahead p.mis = [0x22, 0x6B, 0x22, 0x3A, 0x7B] ++ (deep_opens n ++ rest) := by
      rw [ha, deep_opens, List.append_assoc]
    obtain ⟨p1, hrun, hst1, hs1⟩ := member_open fp p g (deep_opens n ++ rest) hf ha1
      (deep_opens_head n rest hh) (deep_opens_lt n rest hb) (by rw [hs]; show j < size; omega)
    rw [hs, stack_push_zero j size m (by omega)] at hs1
    have ha2 : ahead p1.mis = deep_opens n ++ rest :=
      Stepped_ahead p p1 5 [0x22, 0x6B, 0x22, 0x3A, 0x7B] _ hst1 ha1 rfl
    obtain ⟨p2, hrun2, hst2, hs2⟩ := ih p1 (deliver g [Event.key [0x6B], Event.start_object])
      rest k (j + 1) (hst1.1.trans hf) hs1 (by omega) ha2 hh hb
    refine ⟨p2, ?_, ?_, by rw [hs2]; congr 1; omega⟩
    · have hk : k + (n + 1) = (k + n) + 1 := rfl
      rw [hk, pg_loop_top, GM_bind_ok _ _ _ _ _ _ _ hrun, hrun2, deliver_deliver]
      rfl
    · have := Stepped_trans _ _ _ _ _ hst1 hst2
      have e : 5 + 5 * n = 5 * (n + 1) := by omega
      rw [e] at this
      exact this

theorem stack_bit_low (size : Nat) (c : Nat) (l : List Nat) (j i : Nat) (h : 8 ≤ i)
    (hl : ∀ x ∈ l, x = 0) : stack_bit ⟨j, size, c :: l⟩ i = 0 := by
  unfold stack_bit
  obtain ⟨q, hq⟩ : ∃ q, i >>> 3 = q + 1 := by
    refine ⟨i >>> 3 - 1, ?_⟩
    have : 1 ≤ i >>> 3 := by rw [Nat.shiftRight_eq_div_pow]; omega
    omega
  simp only [hq, List.getD_cons_succ]
  have : l.getD q 0 = 0 := by
    by_cases hql : q < l.length
    · rw [List.getD_eq_getElem l 0 hql]
      exact hl _ (List.getElem_mem _)
    · rw [List.getD_eq_default _ _ (by omega)]
  rw [this]
  simp

theorem stack_bit_one (size : Nat) (l : List Nat) (j i : Nat) (hl : ∀ x ∈ l, x = 0) :
    stack_bit ⟨j, size, 1 :: l⟩ i = if i = 0 then 1 else 0 := by
  by_cases h : 8 ≤ i
  · rw [stack_bit_low size 1 l j i h hl, if_neg (by omega)]
  · have h8 : i < 8 := by omega
    unfold stack_bit
    have e : i >>> 3 = 0 := by
      rw [Nat.shiftRight_eq_div_pow]; exact Nat.div_eq_of_lt (by norm_num; omega)
    rw [e, List.getD_cons_zero]
    interval_cases i <;> decide

theorem stack_type_one (size : Nat) (l : List Nat) (j : Nat) (hl : ∀ x ∈ l, x = 0) :
    stack_type_of ⟨j + 1, size, 1 :: l⟩ = if j = 0 then STACK_ARRAY else STACK_OBJECT := by
  unfold stack_type_of
  simp only [Nat.add_one_ne_zero, if_false, Nat.add_sub_cancel, stack_bit_one size l _ j hl]
  by_cases h : j = 0
  · simp only [h, if_true]; rfl
  · simp only [h, if_false]; rfl

/-- The closing braces in a row, on a nesting stack whose entry 0 says
`array` and whose other entries say `object`: each delivers the end of an
object, and the last leaves the loop inside an array. -/
theorem deep_close_run (fp : FloatPrims) (size : Nat) (l : List Nat) (hl : ∀ x ∈ l, x = 0) :
    ∀ (n : Nat) (p : parser) (g : generator (List Event)) (rest : List Nat) (k : Nat),
    p.flags = 0 → p.stack = ⟨n + 2, size, 1 :: l⟩ →
    ahead p.mis = List.replicate (n + 1) 0x7D ++ rest →
    ∃ p1, pg_loop record_callbacks fp (k + (n + 1)) (pg_ctl.inner STACK_OBJECT) p g =
        pg_loop record_callbacks fp k (pg_ctl.inner STACK_ARRAY) p1
          (deliver g (List.replicate (n + 1) Event.end_object)) ∧
      Stepped p p1 (n + 1) ∧ p1.stack = ⟨1, size, 1 :: l⟩ := by
  intro n
  induction n with
  | zero =>
    intro p g rest k hf hs ha
    obtain ⟨p1, hrun, hst1, hs1⟩ := inner_close_object p g [] rest hf ha (by simp)
      (by rw [hs]; show 0 < 2; omega)
    rw [hs] at hs1 hrun
    have ht : stack_type_of ⟨0 + 1, size, 1 :: l⟩ = STACK_ARRAY := by
      rw [stack_type_one size l 0 hl, if_pos rfl]
    refine ⟨p1, ?_, hst1, hs1⟩
    have hk : k + (0 + 1) = k + 1 := rfl
    rw [hk, pg_loop_inner, GM_bind_ok _ _ _ _ _ _ _ hrun]
    show pg_loop record_callbacks fp k (pg_ctl.inner (stack_type_of ⟨0 + 1, size, 1 :: l⟩)) _ _ = _
    rw [ht]
    rfl
  | succ n ih =>
    intro p g rest k hf hs ha
    have ha1 : ahead p.mis = [] ++ 0x7D :: (List.replicate (n + 1) 0x7D ++ rest) := by
      rw [ha, List.replicate_succ]; rfl
    obtain ⟨p1, hrun, hst1, hs1⟩ := inner_close_object p g [] _ hf ha1 (by simp)
      (by rw [hs]; show 0 < n + 1 + 2; omega)
    rw [hs] at hs1 hrun
    have hs1' : p1.stack = ⟨n + 2, size, 1 :: l⟩ := hs1
    have ht : stack_type_of ⟨(n + 1) + 1, size, 1 :: l⟩ = STACK_OBJECT := by
      rw [stack_type_one size l (n + 1) hl, if_neg (by omega)]
    have ha2 : ahead p1.mis = List.replicate (n + 1) 0x7D ++ rest :=
      Stepped_ahead p p1 1 [0x7D] _ hst1 ha1 rfl
    obtain ⟨p2, hrun2, hst2, hs2⟩ := ih p1 { g with ctx := g.ctx ++ [Event.end_object] } rest k
      (hst1.1.trans hf) hs1' ha2
    refine ⟨p2, ?_, ?_, hs2⟩
    · have hk : k + (n + 1 + 1) = (k + (n + 1)) + 1 := rfl
      rw [hk, pg_loop_inner, GM_bind_ok _ _ _ _ _ _ _ hrun]
      show pg_loop record_callbacks fp (k + (n + 1))
        (pg_ctl.inner (stack_type_of ⟨(n + 1) + 1, size, 1 :: l⟩)) _ _ = _
      rw [ht, hrun2]
      have hd : ({ g with ctx := g.ctx ++ [Event.end_object] } : generator (List Event)) =
          deliver g [Event.end_object] := rfl
      rw [hd, deliver_deliver]
      rfl
    · have hst1' : Stepped p p1 1 := hst1
      have := Stepped_trans _ _ _ _ _ hst1' hst2
      have e : 1 + (n + 1) = n + 1 + 1 := by omega
      rw [e] at this
      exact this

theorem deep_text_ahead (n : Nat) : deep_text n ++ [0] =
    0x7B :: (deep_opens n ++ ([0x22, 0x6B, 0x22, 0x3A, 0x5B, 0x5D] ++
      (List.replicate n 0x7D ++ [0x5D, 0]))) := by
  simp [deep_text, List.append_assoc]

theorem deep_text_length (n : Nat) : (deep_text n).length = 6 * n + 8 := by
  simp only [deep_text, List.length_cons, List.length_append, deep_opens_length,
    List.length_replicate, List.length_nil]
  omega

theorem replicate_lt (n c : Nat) (rest : List Nat) (hc : c < 256) (h : ∀ b ∈ rest, b < 256) :
    ∀ b ∈ List.replicate n c ++ rest, b < 256 := by
  intro b hm
  rw [List.mem_append] at hm
  rcases hm with hm | hm
  · rw [List.eq_of_mem_replicate hm]; exact hc
  · exact h b hm

/-- The loop of `parse_generate` over `deep_text (n + 1)` on a nesting stack
of zeros, when the push at level `n + 2` writes the entry of level 0: all the
events of `deep_events (n + 1)` are delivered and the loop is left without an
error. -/
theorem deep_run (fp : FloatPrims) (size m : Nat) (l : List Nat) (n : Nat)
    (hl : ∀ x ∈ l, x = 0) (hsize : n + 2 < size)
    (hpush : stack_push ⟨n + 2, size, List.replicate m 0⟩ STACK_ARRAY =
      (0, ⟨n + 3, size, 1 :: l⟩))
    (p : parser) (g : generator (List Event)) (k : Nat) (hf : p.flags = 0)
    (hs : p.stack = ⟨0, size, List.replicate m 0⟩)
    (ha : ahead p.mis = deep_text (n + 1) ++ [0]) :
    ∃ p1, pg_loop record_callbacks fp (((((((k + 1) + 1) + 1) + (n + 1)) + 1) + (n + 1)) + 1)
        (pg_ctl.top 0x7B STACK_NONE) p g = GRes.ok () p1 (deliver g (deep_events (n + 1))) ∧
      Stepped p p1 (6 * (n + 1) + 8) ∧ p1.stack.ptr = 0 := by
  rw [deep_text_ahead] at ha
  have hb5 : ∀ b ∈ [0x5D, 0], b < 256 := by
    intro b hm
    simp only [List.mem_cons, List.mem_singleton, List.not_mem_nil, or_false] at hm
    rcases hm with rfl | rfl <;> norm_num
  have hbc : ∀ b ∈ List.replicate (n + 1) 0x7D ++ [0x5D, 0], b < 256 :=
    replicate_lt _ _ _ (by norm_num) hb5
  have hba : ∀ b ∈ [0x22, 0x6B, 0x22, 0x3A, 0x5B, 0x5D] ++
      (List.replicate (n + 1) 0x7D ++ [0x5D, 0]), b < 256 := by
    intro b hm
    simp only [List.cons_append, List.nil_append, List.mem_cons] at hm
    rcases hm with rfl | rfl | rfl | rfl | rfl | rfl | hm
    · norm_num
    · norm_num
    · norm_num
    · norm_num
    · norm_num
    · norm_num
    · exact hbc b hm
  have hh1 : (deep_opens (n + 1) ++ ([0x22, 0x6B, 0x22, 0x3A, 0x5B, 0x5D] ++
      (List.replicate (n + 1) 0x7D ++ [0x5D, 0]))).headD 0 = 0x22 := rfl
  -- the opening brace
  obtain ⟨p1, hrun1, hst1, hs1⟩ := switch_object_open_room fp STACK_NONE p g _ ha
    (by rw [hh1]; unfold isWs; simp) (by rw [hh1]; decide) (by rw [hs]; show 0 < size; omega)
  rw [hs, stack_push_zero 0 size m (by omega)] at hs1
  rw [hh1] at hrun1
  have ha1 := Stepped_ahead p p1 1 [0x7B] _ hst1 ha rfl
  -- the members that open an object
  obtain ⟨p2, hrun2, hst2, hs2⟩ := deep_open_run fp size m (n + 1) p1
    { g with ctx := g.ctx ++ [Event.start_object] } _ (((((k + 1) + 1) + 1) + (n + 1)) + 1)
    (0 + 1) (hst1.1.trans hf) hs1 (by omega) ha1 rfl hba
  have ha2 := Stepped_ahead p1 p2 (5 * (n + 1)) (deep_opens (n + 1)) _ hst2 ha1
    (deep_opens_length _)
  have hs2' : p2.stack = ⟨n + 2, size, List.replicate m 0⟩ := by
    rw [hs2]; congr 1; omega
  -- the member that holds the array
  obtain ⟨p3, hrun3, hst3, hs3⟩ := member_array fp p2
    (deliver { g with ctx := g.ctx ++ [Event.start_object] } (deep_open_events (n + 1)))
    _ (hst2.1.trans (hst1.1.trans hf)) ha2 hbc (by rw [hs2']; exact hsize)
  rw [hs2', hpush] at hs3 hrun3
  have hs3' : p3.stack = ⟨n + 2, size, 1 :: l⟩ := hs3
  have ht3 : stack_type_of ⟨(n + 1) + 1, size, 1 :: l⟩ = STACK_OBJECT := by
    rw [stack_type_one size l (n + 1) hl, if_neg (by omega)]
  have ha3 := Stepped_ahead p2 p3 6 [0x22, 0x6B, 0x22, 0x3A, 0x5B, 0x5D] _ hst3 ha2 rfl
  have hf3 : p3.flags = 0 := hst3.1.trans (hst2.1.trans (hst1.1.trans hf))
  -- the closing braces
  obtain ⟨p4, hrun4, hst4, hs4⟩ := deep_close_run fp size l hl n p3
    (deliver (deliver { g with ctx := g.ctx ++ [Event.start_object] }
      (deep_open_events (n + 1))) [Event.key [0x6B], Event.start_array, Event.end_array])
    [0x5D, 0] ((k + 1) + 1 + 1) hf3 hs3' ha3
  have ha4 := Stepped_ahead p3 p4 (n + 1) (List.replicate (n + 1) 0x7D) _ hst4 ha3
    (List.length_replicate _ _)
  have hf4 : p4.flags = 0 := hst4.1.trans hf3
  -- the closing bracket
  obtain ⟨p5, hrun5, hst5, hs5⟩ := inner_close_array p4
    (deliver (deliver (deliver { g with ctx := g.ctx ++ [Event.start_object] }
      (deep_open_events (n + 1))) [Event.key [0x6B], Event.start_array, Event.end_array])
      (List.replicate (n + 1) Event.end_object))
    [] [0] hf4 ha4 (by simp) (by rw [hs4]; show 0 < 1; omega)
  rw [hs4] at hs5 hrun5
  have hst5' : Stepped p4 p5 1 := hst5
  have ha5 := Stepped_ahead p4 p5 1 [0x5D] _ hst5' ha4 rfl
  have hf5 : p5.flags = 0 := hst5.1.trans hf4
  have hfin := fun g5 : generator (List Event) =>
    inner_finish p5 g5 [] [0] hf5 ha5 (by simp) (by decide) (by decide)
  have ht5 : stack_type_of { (⟨1, size, 1 :: l⟩ : stack) with ptr := 1 - 1 } = STACK_NONE := rfl
  rw [ht5] at hrun5
  refine ⟨advance p5 0, ?_, ?_, Eq.trans (congrArg stack.ptr hs5) rfl⟩
  · rw [pg_loop_top_value fp _ 0x7B STACK_NONE p g hf (by decide),
      GM_bind_ok _ _ _ _ _ _ _ hrun1, hrun2, pg_loop_top, GM_bind_ok _ _ _ _ _ _ _ hrun3]
    show pg_loop record_callbacks fp _
      (pg_ctl.inner (stack_type_of ⟨(n + 1) + 1, size, 1 :: l⟩)) _ _ = _
    rw [ht3, hrun4, pg_loop_inner, GM_bind_ok _ _ _ _ _ _ _ hrun5, pg_loop_inner,
      GM_bind_ok _ _ _ _ _ _ _ (hfin _)]
    show GRes.ok () _ _ = _
    congr 1
    simp only [deliver, deep_events, List.append_assoc, List.singleton_append, List.cons_append,
      List.nil_append]
  · have h1 := Stepped_trans _ _ _ _ _ hst1 hst2
    have h2 := Stepped_trans _ _ _ _ _ h1 hst3
    have h3 := Stepped_trans _ _ _ _ _ h2 hst4
    have h4 := Stepped_trans _ _ _ _ _ h3 hst5'
    have h5 := Stepped_trans _ _ _ _ _ h4 (Stepped_advance p5 0)
    have e : 1 + 5 * (n + 1) + 6 + (n + 1) + 1 + 0 = 6 * (n + 1) + 8 := by omega
    rw [e] at h5
    exact h5

theorem stack_push_wraps : stack_push ⟨2046 + 2, 4096, List.replicate 512 0⟩ STACK_ARRAY =
    (0, ⟨2046 + 3, 4096, 1 :: List.replicate 511 0⟩) := by
  unfold stack_push
  simp only [ge_iff_le, show ¬ (4096 ≤ 2046 + 2) by omega, if_false, replicate_getD_zero,
    if_true]
  rfl

theorem new_bytes_facts_deep (text : List Nat) (h : text.headD 0 ≠ 0xEF) :
    (jsnpg_parser_new_bytes 4096 0 text text.length).flags = 0 ∧
    (jsnpg_parser_new_bytes 4096 0 text text.length).mis.start = text ++ [0] ∧
    (jsnpg_parser_new_bytes 4096 0 text text.length).mis.read = 0 ∧
    (jsnpg_parser_new_bytes 4096 0 text text.length).mis.count = text.length ∧
    (jsnpg_parser_new_bytes 4096 0 text text.length).stack =
      { ptr := 0, size := 4096, stack := List.replicate 512 0 } := by
  unfold jsnpg_parser_new_bytes parser_set_bytes
  simp only [bom_none text _ h, List.drop_zero, Nat.sub_zero, List.take_length]
  exact ⟨rfl, rfl, rfl, rfl, rfl⟩

theorem deep_text_head (n : Nat) : (deep_text n).headD 0 = 0x7B := rfl

theorem deep_parse_of (fp : FloatPrims) (n : Nat) (hn : n = 2046) (text : List Nat)
    (htext : text = deep_text (n + 1)) :
    (jsnpg_parse_bytes_callbacks record_callbacks fp [] 4096 0 text text.length).1.type =
      JSNPG_EOF ∧
    (jsnpg_parse_bytes_callbacks record_callbacks fp [] 4096 0 text text.length).2.2.ctx =
      deep_events (n + 1) ∧
    (jsnpg_parse_bytes_callbacks record_callbacks fp [] 4096 0 text text.length).2.1.stack.ptr =
      0 := by
  have hhead : text.headD 0 ≠ 0xEF := by
    rw [htext, deep_text_head]
    decide
  obtain ⟨f1, f2, f3, f4, f5⟩ := new_bytes_facts_deep text hhead
  unfold jsnpg_parse_bytes_callbacks
  generalize jsnpg_parser_new_bytes 4096 0 text text.length = p0 at f1 f2 f3 f4 f5
  have hlen : text.length = 6 * (n + 1) + 8 := by rw [htext, deep_text_length]
  have ha : ahead p0.mis = deep_text (n + 1) ++ [0] := by
    unfold ahead; rw [f2, f3, htext, List.drop_zero]
  have hfuel : 2 * p0.mis.start.length + 3 =
      (((((((20486 + 1) + 1) + 1) + (n + 1)) + 1) + (n + 1)) + 1) := by
    rw [f2, List.length_append, hlen, List.length_singleton]
    omega
  have hpush : stack_push ⟨n + 2, 4096, List.replicate 512 0⟩ STACK_ARRAY =
      (0, ⟨n + 3, 4096, 1 :: List.replicate 511 0⟩) := by
    rw [hn]; exact stack_push_wraps
  obtain ⟨p1, hrun, hstep, hptr⟩ := deep_run fp 4096 512 (List.replicate 511 0) n
    (fun x hx => List.eq_of_mem_replicate hx) (by omega) hpush p0
    (generator_new 0 p0.flags []) 20486 f1 f5 ha
  have ha1 : ahead p1.mis = [0] :=
    Stepped_ahead p0 p1 _ text [0] hstep (by rw [ha, htext]) hlen
  have hpg : parse_generate record_callbacks fp p0 (generator_new 0 p0.flags []) =
      GRes.ok () p1 (deliver (generator_new 0 p0.flags []) (deep_events (n + 1))) := by
    unfold parse_generate
    rw [GM_bind_ok _ _ _ _ _ _ _ (liftP_ok (fun p => Res.ok p.flags p) p0 p0 p0.flags _ rfl), f1]
    simp only [flag_set_zero]
    rw [GM_bind_ok _ _ _ _ _ _ _ (ws_step_none p0 _ (deep_text (n + 1) ++ [0]) ha
      (by show ¬ isWs 0x7B; unfold isWs; simp))]
    rw [GM_bind_ok _ _ _ _ _ _ _
      (liftP_ok (fun p => Res.ok (2 * p.mis.start.length + 3) p) p0 p0 _ _ rfl), hfuel]
    have hh : (deep_text (n + 1) ++ [0]).headD 0 = 0x7B := rfl
    rw [f1] at hrun
    rw [hh, GM_bind_ok _ _ _ _ _ _ _ hrun,
      GM_bind_ok _ _ _ _ _ _ _ (ws_step_none p1 _ [0] ha1 (by decide))]
    rfl
  have heof : mis_eof p1.mis = true := by
    unfold mis_eof mis_tell
    rw [hstep.2.1, hstep.2.2.1, f3, f4, hlen]; simp
  have hfuel2 : p0.mis.start.length + 2 = (p0.mis.start.length + 1) + 1 := rfl
  have hres : parse record_callbacks fp p0 (generator_new 0 p0.flags []) =
      (make_parse_result p1 JSNPG_EOF result_union.none, p1,
        deliver (generator_new 0 p0.flags []) (deep_events (n + 1))) := by
    unfold parse
    rw [hfuel2, parse_loop_succ, GM_bind_ok _ _ _ _ _ _ _ hpg,
      GM_bind_ok _ _ _ _ _ _ _ (liftP_ok (fun p => Res.ok p.flags p) p1 p1 p1.flags _ rfl),
      GM_bind_ok _ _ _ _ _ _ _ (liftP_ok (get_mis mis_eof) p1 p1 (mis_eof p1.mis) _ rfl), heof]
    rfl
  rw [hres]
  refine ⟨rfl, ?_, hptr⟩
  show (generator_new 0 p0.flags ([] : List Event)).ctx ++ _ = _
  exact List.nil_append _

/-- The push parser with a nesting limit of 4096 on `deep_text 2047`: the
parse ends with `eof`, the events delivered are `deep_events 2047` and the
nesting stack is left empty. -/
theorem deep_parse (fp : FloatPrims) :
    (jsnpg_parse_bytes_callbacks record_callbacks fp [] 4096 0 (deep_text 2047)
      (deep_text 2047).length).1.type = JSNPG_EOF ∧
    (jsnpg_parse_bytes_callbacks record_callbacks fp [] 4096 0 (deep_text 2047)
      (deep_text 2047).length).2.2.ctx = deep_events 2047 ∧
    (jsnpg_parse_bytes_callbacks record_callbacks fp [] 4096 0 (deep_text 2047)
      (deep_text 2047).length).2.1.stack.ptr = 0 :=
  deep_parse_of fp 2046 rfl (deep_text 2047) rfl

theorem deep_events_nested : ∀ (n : Nat) (tail : List Event),
    Event.start_object :: (deep_open_events n ++ (Event.key [0x6B] :: tail)) =
      nested_keys (n + 1) ++ tail := by
  intro n
  induction n with
  | zero => intro tail; rfl
  | succ n ih =>
    intro tail
    show Event.start_object :: Event.key [0x6B] ::
      (Event.start_object :: (deep_open_events n ++ (Event.key [0x6B] :: tail))) = _
    rw [ih tail]
    rfl

theorem stream_run_closes (N : Nat) : ∀ (n : Nat) (rest : List Bool) (tail : List Event),
    stream_run N ⟨List.replicate n false ++ rest, false⟩
        (List.replicate n Event.end_object ++ tail) =
      stream_run N ⟨rest, false⟩ tail := by
  intro n
  induction n with
  | zero => intro rest tail; rfl
  | succ n ih =>
    intro rest tail
    rw [List.replicate_succ, List.replicate_succ]
    exact ih rest tail

/-- The events of `deep_text n` as a stream: before the last event the one
container that is open is the object the first event opened, so the
`end_array` that comes last does not close an array. -/
theorem deep_events_stream (N n : Nat) (hn : n + 2 ≤ N) (tail : List Event) :
    stream_run N ⟨[], false⟩ (Event.start_object :: (deep_open_events n ++
      ([Event.key [0x6B], Event.start_array, Event.end_array] ++
        (List.replicate n Event.end_object ++ tail)))) =
      stream_run N ⟨[false], false⟩ tail := by
  have e := deep_events_nested n (Event.start_array :: Event.end_array ::
    (List.replicate n Event.end_object ++ tail))
  have e2 : Event.start_object :: (deep_open_events n ++
      ([Event.key [0x6B], Event.start_array, Event.end_array] ++
        (List.replicate n Event.end_object ++ tail))) =
      Event.start_object :: (deep_open_events n ++ (Event.key [0x6B] ::
        Event.start_array :: Event.end_array ::
        (List.replicate n Event.end_object ++ tail))) := rfl
  rw [e2, e, stream_run_nested N (n + 1) ⟨[], false⟩ _ rfl
    (by show 0 + (n + 1) ≤ N; omega), if_neg (Nat.succ_ne_zero n)]
  have h1 : stream_run N ⟨List.replicate (n + 1) false ++ [], true⟩
      (Event.start_array :: Event.end_array :: (List.replicate n Event.end_object ++ tail)) =
      stream_run N ⟨List.replicate (n + 1) false ++ [], false⟩
        (List.replicate n Event.end_object ++ tail) := by
    have hl : (List.replicate (n + 1) false ++ ([] : List Bool)).length < N := by
      rw [List.append_nil, List.length_replicate]; omega
    have hv : (⟨List.replicate (n + 1) false ++ [], true⟩ : StreamState).value_ok = true := rfl
    have hs : stream_step N ⟨List.replicate (n + 1) false ++ [], true⟩ Event.start_array =
        some ⟨true :: (List.replicate (n + 1) false ++ []), false⟩ := by
      unfold stream_step
      simp only [hv, Bool.true_and, decide_eq_true_eq, hl, if_true]
    show (match stream_step N ⟨List.replicate (n + 1) false ++ [], true⟩ Event.start_array with
      | some st1 => stream_run N st1 _
      | none => none) = _
    rw [hs]
    rfl
  rw [h1]
  have h2 : List.replicate (n + 1) false ++ ([] : List Bool) = List.replicate n false ++ [false] := by
    rw [List.append_nil, List.replicate_succ']
  rw [h2, stream_run_closes]

theorem deep_events_not_well_formed (N n : Nat) (hn : n + 2 ≤ N) :
    ¬ WellFormedPrefix N (deep_events n) := by
  unfold WellFormedPrefix deep_events
  rw [deep_events_stream N n hn [Event.end_array]]
  exact fun h => Bool.noConfusion (h : false = true)

/-- The checks of the debug build on the events of `deep_text 2047` in a
generator with room for 4096 levels: the check of the first `end_array` fails
with `no_array`. -/
theorem deep_events_checks :
    (debug_checks (jsnpg_generator_new_json 0 4096 0) (deep_events 2047)).1 = false ∧
    (debug_checks (jsnpg_generator_new_json 0 4096 0) (deep_events 2047)).2.error =
      JSNPG_ERROR_NO_ARRAY := by
  have e : deep_events 2047 = nested_keys (2047 + 1) ++ (Event.start_array ::
      Event.end_array :: (List.replicate 2047 Event.end_object ++ [Event.end_array])) :=
    deep_events_nested 2047 _
  have hs : (jsnpg_generator_new_json 0 4096 0).stack = ⟨0, 4096, List.replicate 512 0⟩ := rfl
  rw [e, debug_checks_nested (2047 + 1) (jsnpg_generator_new_json 0 4096 0) 0 4096 512 _ hs
    (by decide) (by decide) rfl]
  exact ⟨by decide!, by decide!⟩

end Jsnpg

namespace Jsnpg
open jsnpg_type jsnpg_error_code parse_state

theorem lead_text_at (g : jgen) (b : List Nat) (L : Nat) (nl cm ky : Bool) :
    lead_text (jos_at g b L nl cm ky).ctx = if ky then []
      else (if cm then [0x2C] else []) ++ indent_ws g.ctx.indent L nl := rfl

theorem indent_ws_ok (ind L : Nat) (nl : Bool) : EmitWs ind (indent_ws ind L nl) := by
  unfold EmitWs indent_ws
  constructor
  · intro b hb
    by_cases hi : ind = 0
    · simp [hi] at hb
    · simp only [ne_eq, hi, not_false_eq_true, if_true, List.mem_append] at hb
      rcases hb with hb | hb
      · cases nl
        · simp at hb
        · simp only [if_true, List.mem_singleton] at hb
          subst hb; unfold isWs; simp
      · rw [List.eq_of_mem_replicate hb]; unfold isWs; simp
  · intro hi
    simp [hi]

theorem lead_nl_at (g : jgen) (b : List Nat) (L : Nat) (nl cm ky : Bool)
    (hinv : g.ctx.indent ≠ 0 → ky = true → nl = true) :
    lead_nl (jos_at g b L nl cm ky).ctx = nl_after g.ctx.indent nl := by
  unfold lead_nl nl_after jos_at
  simp only []
  cases ky
  · simp
  · by_cases hi : g.ctx.indent = 0
    · simp [hi]
    · simp [hi, hinv hi rfl]

theorem nl_after_idem (ind : Nat) (nl : Bool) :
    nl_after ind (nl_after ind nl) = nl_after ind nl := by
  unfold nl_after
  by_cases hi : ind = 0 <;> simp [hi]

theorem nl_after_inv (ind : Nat) (nl : Bool) (h : ind ≠ 0) : nl_after ind nl = true := by
  unfold nl_after
  simp [h]

theorem level_up (L : Nat) (h : L + 1 < 2 ^ 32) : (L + 1) % 2 ^ 32 = L + 1 :=
  Nat.mod_eq_of_lt h

theorem level_down (L : Nat) (h : L + 1 < 2 ^ 32) : (L + 1 + 2 ^ 32 - 1) % 2 ^ 32 = L := by
  have e : L + 1 + 2 ^ 32 - 1 = L + 2 ^ 32 := by omega
  rw [e, Nat.add_mod_right]
  exact Nat.mod_eq_of_lt (by omega)

theorem scalarOk_of_emitOk (v : Bool) (e : Event) (hs : e.isScalar = true) (h : EmitOk v e) :
    ScalarOk v e := by
  cases e <;> first | exact h | trivial

/-- A scalar on the emitter in a given state. -/
theorem scalar_at (fp : FloatPrims) (g : jgen) (b : List Nat) (L : Nat) (nl cm ky : Bool)
    (e : Event) (hs : e.isScalar = true) (hok : ScalarOk g.validate_utf8 e)
    (hinv : g.ctx.indent ≠ 0 → ky = true → nl = true) :
    send_event (print_callbacks fp) (jos_at g b L nl cm ky) e =
      (true, jos_at g (b ++ (lead_text (jos_at g b L nl cm ky).ctx ++
        scalarText fp g.validate_utf8 e)) L (nl_after g.ctx.indent nl) true false) := by
  rw [← lead_nl_at g b L nl cm ky hinv]
  exact print_scalar fp (jos_at g b L nl cm ky) e hs hok

/-- A key on the emitter in a given state. -/
theorem key_at (fp : FloatPrims) (g : jgen) (b : List Nat) (L : Nat) (nl cm ky : Bool)
    (k : List Nat) (hok : StringOk g.validate_utf8 k)
    (hinv : g.ctx.indent ≠ 0 → ky = true → nl = true) :
    send_event (print_callbacks fp) (jos_at g b L nl cm ky) (Event.key k) =
      (true, jos_at g (b ++ (lead_text (jos_at g b L nl cm ky).ctx ++
        (quotedText g.validate_utf8 k ++
          (0x3A :: (if g.ctx.indent ≠ 0 then [0x20] else [])))))
        L (nl_after g.ctx.indent nl) true true) := by
  rw [← lead_nl_at g b L nl cm ky hinv]
  exact print_key_eq fp (jos_at g b L nl cm ky) k hok

/-- The opening of a container on the emitter in a given state. -/
theorem start_at (fp : FloatPrims) (g : jgen) (b : List Nat) (L : Nat) (nl cm ky : Bool)
    (e : Event) (c : Nat)
    (he : (e = Event.start_array ∧ c = 0x5B) ∨ (e = Event.start_object ∧ c = 0x7B))
    (hL : L + 1 < 2 ^ 32) (hinv : g.ctx.indent ≠ 0 → ky = true → nl = true) :
    send_event (print_callbacks fp) (jos_at g b L nl cm ky) e =
      (true, jos_at g (b ++ (lead_text (jos_at g b L nl cm ky).ctx ++ [c]))
        (L + 1) (nl_after g.ctx.indent nl) false false) := by
  rw [← lead_nl_at g b L nl cm ky hinv, ← level_up L hL]
  exact print_start_eq fp (jos_at g b L nl cm ky) e c he

/-- The closing of an empty container on the emitter. -/
theorem end_empty_at (fp : FloatPrims) (g : jgen) (b : List Nat) (L : Nat) (nl : Bool)
    (e : Event) (c : Nat)
    (he : (e = Event.end_array ∧ c = 0x5D) ∨ (e = Event.end_object ∧ c = 0x7D))
    (hL : L + 1 < 2 ^ 32) :
    send_event (print_callbacks fp) (jos_at g b (L + 1) nl false false) e =
      (true, jos_at g (b ++ [c]) L nl (decide (L > 0)) false) := by
  have h := print_end_eq fp (jos_at g b (L + 1) nl false false) e c he
  rw [h]
  show (true, jos_at g (b ++ ([] ++ [c])) ((L + 1 + 2 ^ 32 - 1) % 2 ^ 32) nl
    (decide ((L + 1 + 2 ^ 32 - 1) % 2 ^ 32 > 0)) false) = _
  rw [level_down L hL]
  rfl

/-- The closing of a container that is not empty on the emitter. -/
theorem end_full_at (fp : FloatPrims) (g : jgen) (b : List Nat) (L : Nat) (nl : Bool)
    (e : Event) (c : Nat)
    (he : (e = Event.end_array ∧ c = 0x5D) ∨ (e = Event.end_object ∧ c = 0x7D))
    (hL : L + 1 < 2 ^ 32) :
    send_event (print_callbacks fp) (jos_at g b (L + 1) nl true false) e =
      (true, jos_at g (b ++ (indent_ws g.ctx.indent L nl ++ [c])) L
        (nl_after g.ctx.indent nl) (decide (L > 0)) false) := by
  have h := print_end_eq fp (jos_at g b (L + 1) nl true false) e c he
  rw [h]
  show (true, jos_at g (b ++ (([] ++ indent_ws g.ctx.indent ((L + 1 + 2 ^ 32 - 1) % 2 ^ 32) nl)
      ++ [c])) ((L + 1 + 2 ^ 32 - 1) % 2 ^ 32)
    (if g.ctx.indent ≠ 0 then true else nl)
    (decide ((L + 1 + 2 ^ 32 - 1) % 2 ^ 32 > 0)) false) = _
  rw [level_down L hL]
  rfl

theorem jos_at_at (g : jgen) (b : List Nat) (L : Nat) (nl cm ky : Bool) (b1 : List Nat)
    (L1 : Nat) (nl1 cm1 ky1 : Bool) :
    jos_at (jos_at g b L nl cm ky) b1 L1 nl1 cm1 ky1 = jos_at g b1 L1 nl1 cm1 ky1 := rfl

theorem send_events_append (cb : callbacks json_output_stream) :
    ∀ (a b : List Event) (g g1 : jgen), send_events cb g a = (true, g1) →
      send_events cb g (a ++ b) = send_events cb g1 b := by
  intro a
  induction a with
  | nil =>
    intro b g g1 h
    have : g = g1 := (Prod.mk.inj h).2
    rw [this]; rfl
  | cons e es ih =>
    intro b g g1 h
    show (if (send_event cb g e).1 then send_events cb (send_event cb g e).2 (es ++ b)
      else (false, (send_event cb g e).2)) = _
    have h' : (if (send_event cb g e).1 then send_events cb (send_event cb g e).2 es
      else (false, (send_event cb g e).2)) = (true, g1) := h
    cases hr : (send_event cb g e).1
    · rw [hr] at h'
      exact absurd (Prod.mk.inj h').1 (by decide)
    · rw [hr] at h'
      simp only [if_true] at h' ⊢
      exact ih b _ g1 h'

theorem send_events_one (cb : callbacks json_output_stream) (g g1 : jgen) (e : Event)
    (h : send_event cb g e = (true, g1)) : send_events cb g [e] = (true, g1) := by
  show (if (send_event cb g e).1 then send_events cb (send_event cb g e).2 []
      else (false, (send_event cb g e).2)) = _
  rw [h]
  rfl

theorem send_events_cons (cb : callbacks json_output_stream) (g g1 : jgen) (e : Event)
    (es : List Event) (h : send_event cb g e = (true, g1)) :
    send_events cb g (e :: es) = send_events cb g1 es := by
  show (if (send_event cb g e).1 then send_events cb (send_event cb g e).2 es
      else (false, (send_event cb g e).2)) = _
  rw [h]
  rfl

/-- A container on the emitter, given what the emitter does with its
contents: the brackets around the text of the contents, each on a line of its
own when the output is indented. -/
theorem container_at (fp : FloatPrims) (g : jgen) (b : List Nat) (L : Nat) (nl cm ky : Bool)
    (e1 e2 : Event) (c1 c2 : Nat) (evs : List Event) (t : List Nat)
    (h1 : (e1 = Event.start_array ∧ c1 = 0x5B) ∨ (e1 = Event.start_object ∧ c1 = 0x7B))
    (h2 : (e2 = Event.end_array ∧ c2 = 0x5D) ∨ (e2 = Event.end_object ∧ c2 = 0x7D))
    (hL : L + 1 < 2 ^ 32) (hinv : g.ctx.indent ≠ 0 → ky = true → nl = true)
    (hrun : ∀ b1, send_events (print_callbacks fp)
        (jos_at g b1 (L + 1) (nl_after g.ctx.indent nl) false false) evs =
      (true, jos_at g (b1 ++ (lead_text (jos_at g b1 (L + 1) (nl_after g.ctx.indent nl)
          false false).ctx ++ t)) (L + 1)
        (nl_after g.ctx.indent (nl_after g.ctx.indent nl)) true false)) :
    send_events (print_callbacks fp) (jos_at g b L nl cm ky) (e1 :: (evs ++ [e2])) =
      (true, jos_at g (b ++ (lead_text (jos_at g b L nl cm ky).ctx ++
          (c1 :: (indent_ws g.ctx.indent (L + 1) (nl_after g.ctx.indent nl) ++
            (t ++ (indent_ws g.ctx.indent L (nl_after g.ctx.indent nl) ++ [c2]))))))
        L (nl_after g.ctx.indent nl) (decide (L > 0)) false) := by
  rw [send_events_cons _ _ _ _ _ (start_at fp g b L nl cm ky e1 c1 h1 hL hinv),
    send_events_append _ evs [e2] _ _ (hrun _), nl_after_idem,
    send_events_one _ _ _ _ (end_full_at fp g _ L _ e2 c2 h2 hL), nl_after_idem]
  congr 2
  simp only [lead_text_at, Bool.false_eq_true, if_false, List.nil_append, List.append_assoc,
    List.singleton_append, List.cons_append]

/-- An empty container on the emitter: the two brackets. -/
theorem empty_container_at (fp : FloatPrims) (g : jgen) (b : List Nat) (L : Nat)
    (nl cm ky : Bool) (e1 e2 : Event) (c1 c2 : Nat)
    (h1 : (e1 = Event.start_array ∧ c1 = 0x5B) ∨ (e1 = Event.start_object ∧ c1 = 0x7B))
    (h2 : (e2 = Event.end_array ∧ c2 = 0x5D) ∨ (e2 = Event.end_object ∧ c2 = 0x7D))
    (hL : L + 1 < 2 ^ 32) (hinv : g.ctx.indent ≠ 0 → ky = true → nl = true) :
    send_events (print_callbacks fp) (jos_at g b L nl cm ky) [e1, e2] =
      (true, jos_at g (b ++ (lead_text (jos_at g b L nl cm ky).ctx ++ [c1, c2]))
        L (nl_after g.ctx.indent nl) (decide (L > 0)) false) := by
  rw [send_events_cons _ _ _ _ _ (start_at fp g b L nl cm ky e1 c1 h1 hL hinv),
    send_events_one _ _ _ _ (end_empty_at fp g _ L _ e2 c2 h2 hL)]
  congr 2
  simp only [List.append_assoc, List.singleton_append]

theorem key_ws_ok (ind : Nat) : EmitWs ind (if ind ≠ 0 then [0x20] else []) := by
  unfold EmitWs
  by_cases hi : ind = 0
  · simp [hi]
  · simp only [ne_eq, hi, not_false_eq_true, if_true, List.mem_singleton, forall_eq,
      false_implies, and_true]
    unfold isWs; simp

/-- The emitter on a well-formed sequence of events, from any state of its
output stream: every call returns true, and what is written is the separator
that is due and a text laid out as `Layout` says, with the whitespace of the
indentation and none when the indent is 0. -/
theorem emit_layout (fp : FloatPrims) (P : Event → Prop) (g : jgen)
    (hP : ∀ e, P e → EmitOk g.validate_utf8 e) (k : Kind) (evs : List Event) (d : Nat)
    (h : EventTree P k evs d) :
    ∀ (L : Nat) (nl cm ky : Bool), L + d < 2 ^ 32 →
      (g.ctx.indent ≠ 0 → ky = true → nl = true) → (k ≠ Kind.value → ky = false ∧ 0 < L) →
      ∃ t cm1, Layout P (EmitWs g.ctx.indent) fp g.validate_utf8 k t evs d ∧
        (0 < L → cm1 = true) ∧
        ∀ b, send_events (print_callbacks fp) (jos_at g b L nl cm ky) evs =
          (true, jos_at g (b ++ (lead_text (jos_at g b L nl cm ky).ctx ++ t)) L
            (nl_after g.ctx.indent nl) cm1 false) := by
  induction h with
  | scalar e hs hp =>
    intro L nl cm ky _ hinv _
    exact ⟨scalarText fp g.validate_utf8 e, true, Layout.scalar e hs hp, fun _ => rfl, fun b =>
      send_events_one _ _ _ _ (scalar_at fp g b L nl cm ky e hs
        (scalarOk_of_emitOk _ e hs (hP e hp)) hinv)⟩
  | empty_array =>
    intro L nl cm ky hL hinv _
    exact ⟨[0x5B, 0x5D], decide (L > 0), Layout.empty_array,
      fun h => decide_eq_true h, fun b =>
      empty_container_at fp g b L nl cm ky _ _ 0x5B 0x5D (Or.inl ⟨rfl, rfl⟩)
        (Or.inl ⟨rfl, rfl⟩) (by omega) hinv⟩
  | empty_object =>
    intro L nl cm ky hL hinv _
    exact ⟨[0x7B, 0x7D], decide (L > 0), Layout.empty_object,
      fun h => decide_eq_true h, fun b =>
      empty_container_at fp g b L nl cm ky _ _ 0x7B 0x7D (Or.inr ⟨rfl, rfl⟩)
        (Or.inr ⟨rfl, rfl⟩) (by omega) hinv⟩
  | array evs d _ ih =>
    intro L nl cm ky hL hinv _
    obtain ⟨t, cm1, hlay, hcm, hrun⟩ := ih (L + 1) (nl_after g.ctx.indent nl) false false
      (by omega) (fun _ h => Bool.noConfusion h) (fun _ => ⟨rfl, by omega⟩)
    have hc : cm1 = true := hcm (by omega)
    subst hc
    exact ⟨_, decide (L > 0), Layout.array _ t evs d _ (indent_ws_ok _ _ _) (indent_ws_ok _ _ _)
      hlay, fun h => decide_eq_true h, fun b =>
      container_at fp g b L nl cm ky _ _ 0x5B 0x5D evs t (Or.inl ⟨rfl, rfl⟩)
        (Or.inl ⟨rfl, rfl⟩) (by omega) hinv hrun⟩
  | object evs d _ ih =>
    intro L nl cm ky hL hinv _
    obtain ⟨t, cm1, hlay, hcm, hrun⟩ := ih (L + 1) (nl_after g.ctx.indent nl) false false
      (by omega) (fun _ h => Bool.noConfusion h) (fun _ => ⟨rfl, by omega⟩)
    have hc : cm1 = true := hcm (by omega)
    subst hc
    exact ⟨_, decide (L > 0), Layout.object _ t evs d _ (indent_ws_ok _ _ _) (indent_ws_ok _ _ _)
      hlay, fun h => decide_eq_true h, fun b =>
      container_at fp g b L nl cm ky _ _ 0x7B 0x7D evs t (Or.inr ⟨rfl, rfl⟩)
        (Or.inr ⟨rfl, rfl⟩) (by omega) hinv hrun⟩
  | element evs d _ ih =>
    intro L nl cm ky hL hinv hk
    obtain ⟨t, cm1, hlay, hcm, hrun⟩ := ih L nl cm ky hL hinv (fun h => absurd rfl h)
    exact ⟨t, cm1, Layout.element t evs d hlay, hcm, hrun⟩
  | elements evs d evs1 d1 _ _ ih ih1 =>
    intro L nl cm ky hL hinv hk
    obtain ⟨hky, hpos⟩ := hk (by decide)
    subst hky
    obtain ⟨t, cm1, hlay, hcm, hrun⟩ := ih L nl cm false (by omega) hinv (fun h => absurd rfl h)
    have hc : cm1 = true := hcm hpos
    subst hc
    obtain ⟨t1, cm2, hlay1, hcm1, hrun1⟩ := ih1 L (nl_after g.ctx.indent nl) true false
      (by omega) (fun _ h => Bool.noConfusion h) (fun _ => ⟨rfl, hpos⟩)
    refine ⟨t ++ (0x2C :: (indent_ws g.ctx.indent L (nl_after g.ctx.indent nl) ++ t1)), cm2,
      Layout.elements t evs d _ t1 evs1 d1 hlay (indent_ws_ok _ _ _) hlay1, hcm1, fun b => ?_⟩
    rw [send_events_append _ evs evs1 _ _ (hrun b), hrun1, nl_after_idem]
    congr 2
    simp only [lead_text_at, Bool.false_eq_true, if_false, if_true, List.append_assoc,
      List.singleton_append, List.cons_append, List.nil_append]
  | member k evs d hp _ ih =>
    intro L nl cm ky hL hinv hk
    obtain ⟨hky, hpos⟩ := hk (by decide)
    subst hky
    obtain ⟨t, cm1, hlay, hcm, hrun⟩ := ih L (nl_after g.ctx.indent nl) true true hL
      (fun hi _ => nl_after_inv _ _ hi) (fun h => absurd rfl h)
    refine ⟨quotedText g.validate_utf8 k ++
      (0x3A :: ((if g.ctx.indent ≠ 0 then [0x20] else []) ++ t)), cm1,
      Layout.member k _ t evs d hp (key_ws_ok _) hlay, hcm, fun b => ?_⟩
    rw [send_events_cons _ _ _ _ _ (key_at fp g b L nl cm false k (hP _ hp) hinv), hrun,
      nl_after_idem]
    congr 2
    simp only [lead_text_at, if_true, List.append_assoc, List.cons_append, List.nil_append,
      List.append_nil]
  | members k evs d evs1 d1 hp _ _ ih ih1 =>
    intro L nl cm ky hL hinv hk
    obtain ⟨hky, hpos⟩ := hk (by decide)
    subst hky
    obtain ⟨t, cm1, hlay, hcm, hrun⟩ := ih L (nl_after g.ctx.indent nl) true true (by omega)
      (fun hi _ => nl_after_inv _ _ hi) (fun h => absurd rfl h)
    have hc : cm1 = true := hcm hpos
    subst hc
    obtain ⟨t1, cm2, hlay1, hcm1, hrun1⟩ := ih1 L (nl_after g.ctx.indent nl) true false
      (by omega) (fun _ h => Bool.noConfusion h) (fun _ => ⟨rfl, hpos⟩)
    refine ⟨quotedText g.validate_utf8 k ++
      (0x3A :: ((if g.ctx.indent ≠ 0 then [0x20] else []) ++ (t ++
        (0x2C :: (indent_ws g.ctx.indent L (nl_after g.ctx.indent nl) ++ t1))))), cm2,
      Layout.members k _ t evs d _ t1 evs1 d1 hp (key_ws_ok _) hlay (indent_ws_ok _ _ _) hlay1,
      hcm1, fun b => ?_⟩
    rw [send_events_cons _ _ _ _ _ (key_at fp g b L nl cm false k (hP _ hp) hinv),
      send_events_append _ evs evs1 _ _ (hrun _), nl_after_idem, hrun1, nl_after_idem]
    congr 2
    simp only [lead_text_at, if_true, Bool.false_eq_true, if_false, List.append_assoc,
      List.cons_append, List.nil_append, List.append_nil, List.singleton_append]

theorem scalar_item (fp : FloatPrims) (v : Bool) (e : Event) (hs : e.isScalar = true) :
    e.takesComma = true ∧ e.givesComma = true ∧ compactItem fp v e = scalarText fp v e := by
  cases e <;> first | exact ⟨rfl, rfl, rfl⟩ | exact Bool.noConfusion hs

theorem compactText_cons (fp : FloatPrims) (v c : Bool) (e : Event) (es : List Event) :
    compactText fp v c (e :: es) =
      (if c && e.takesComma then [0x2C] else []) ++
        (compactItem fp v e ++ compactText fp v e.givesComma es) := rfl

/-- A text laid out without whitespace is the compact text of its events. -/
theorem layout_compact (fp : FloatPrims) (P : Event → Prop) (W : List Nat → Prop) (v : Bool)
    (hW : ∀ w, W w → w = []) (k : Kind) (t : List Nat) (evs : List Event) (d : Nat)
    (h : Layout P W fp v k t evs d) :
    ∀ (c : Bool) (rest : List Event), compactText fp v c (evs ++ rest) =
      (if c then [0x2C] else []) ++ (t ++ compactText fp v true rest) := by
  induction h with
  | scalar e hs _ =>
    intro c rest
    obtain ⟨h1, h2, h3⟩ := scalar_item fp v e hs
    rw [List.singleton_append, compactText_cons, h1, h2, h3, Bool.and_true]
  | empty_array =>
    intro c rest
    show compactText fp v c (Event.start_array :: Event.end_array :: rest) = _
    rw [compactText_cons, compactText_cons]
    simp [Event.takesComma, Event.givesComma, compactItem]
  | empty_object =>
    intro c rest
    show compactText fp v c (Event.start_object :: Event.end_object :: rest) = _
    rw [compactText_cons, compactText_cons]
    simp [Event.takesComma, Event.givesComma, compactItem]
  | array w1 t evs d w2 h1 h2 _ ih =>
    intro c rest
    rw [hW w1 h1, hW w2 h2]
    show compactText fp v c (Event.start_array :: ((evs ++ [Event.end_array]) ++ rest)) = _
    rw [compactText_cons, List.append_assoc, ih, List.singleton_append, compactText_cons]
    simp [Event.takesComma, Event.givesComma, compactItem]
  | object w1 t evs d w2 h1 h2 _ ih =>
    intro c rest
    rw [hW w1 h1, hW w2 h2]
    show compactText fp v c (Event.start_object :: ((evs ++ [Event.end_object]) ++ rest)) = _
    rw [compactText_cons, List.append_assoc, ih, List.singleton_append, compactText_cons]
    simp [Event.takesComma, Event.givesComma, compactItem]
  | element t evs d _ ih => exact ih
  | elements t evs d w t1 evs1 d1 _ hw _ ih ih1 =>
    intro c rest
    rw [hW w hw, List.append_assoc, ih, ih1]
    simp
  | member k w t evs d _ hw _ ih =>
    intro c rest
    rw [hW w hw]
    show compactText fp v c (Event.key k :: (evs ++ rest)) = _
    rw [compactText_cons, ih]
    simp [Event.takesComma, Event.givesComma, compactItem]
  | members k w t evs d w1 t1 evs1 d1 _ hw _ hw1 _ ih ih1 =>
    intro c rest
    rw [hW w hw, hW w1 hw1]
    show compactText fp v c (Event.key k :: ((evs ++ evs1) ++ rest)) = _
    rw [compactText_cons, List.append_assoc, ih, ih1]
    simp [Event.takesComma, Event.givesComma, compactItem]

theorem jos_puts_cancel (g : jgen) (x y : List Nat) (h : jos_puts g x = jos_puts g y) :
    x = y := by
  have h1 : (jos_puts g x).ctx.mos.buffer = (jos_puts g y).ctx.mos.buffer := by rw [h]
  exact List.append_cancel_left h1

/-- The scan for escapes on valid UTF-8, with or without validation: it
succeeds, and what it writes is a well-formed literal for the string. -/
theorem escapeText_valid (v : Bool) (cps : List Nat) (hs : ∀ cp ∈ cps, isScalarValue cp) :
    escapeText v (utf8String cps).length (utf8String cps) =
      (true, literalText (cps.map emitItem)) := by
  have h1 := jos_scan_escape_ok ({ generator_new 0 0 (jos_new 0) with validate_utf8 := v }) cps hs
  have h2 := jos_scan_escape_bytes ({ generator_new 0 0 (jos_new 0) with validate_utf8 := v })
    (utf8String cps) (utf8String_bytes cps hs)
  rw [h1] at h2
  have e1 : (escapeText v (utf8String cps).length (utf8String cps)).1 = true :=
    (Prod.mk.inj h2).1.symm
  have h3 := (Prod.mk.inj h2).2
  have e1' : (escapeText ({ generator_new 0 0 (jos_new 0) with
      validate_utf8 := v } : jgen).validate_utf8 (utf8String cps).length (utf8String cps)).1 =
      true := e1
  rw [e1', if_pos rfl] at h3
  have e2 := jos_puts_cancel _ _ _ h3
  exact Prod.ext e1 e2.symm

theorem valid_string_ok (v : Bool) (s : List Nat) (h : ValidString s) : StringOk v s := by
  obtain ⟨cps, hs, rfl⟩ := h
  exact ⟨utf8String_bytes cps hs, by rw [escapeText_valid v cps hs]⟩

theorem event_ok_emit (v : Bool) (e : Event) (h : EventOk e) : EmitOk v e := by
  cases e <;> first | exact h | exact valid_string_ok v _ h

/-- The quoted text the emitter writes for a valid string is a JSON string
literal that denotes the string. -/
theorem quoted_literal (v : Bool) (s : List Nat) (h : ValidString s) :
    ∃ items, (∀ it ∈ items, it.wf) ∧ literalValue items = s ∧
      quotedText v s = 0x22 :: (literalText items ++ [0x22]) := by
  obtain ⟨cps, hs, rfl⟩ := h
  obtain ⟨hwf, hval⟩ := emitItems_ok cps hs
  refine ⟨cps.map emitItem, hwf, hval, ?_⟩
  unfold quotedText
  rw [escapeText_valid v cps hs]

/-- A text laid out with whitespace between its tokens is a JSON text for its
events, with the numbers as the emitter writes them. -/
theorem layout_json (fp : FloatPrims) (P : Event → Prop) (W : List Nat → Prop) (v : Bool)
    (hW : ∀ w, W w → ∀ b ∈ w, isWs b) (hP : ∀ e, P e → EventOk e) (k : Kind) (t : List Nat)
    (evs : List Event) (d : Nat) (h : Layout P W fp v k t evs d) :
    Json (EmitNum fp P) k t evs d := by
  have hnil : ∀ b ∈ ([] : List Nat), isWs b := fun b hb => absurd hb (List.not_mem_nil b)
  induction h with
  | scalar e hs hp =>
    cases e with
    | null => exact Json.null
    | boolean b =>
      cases b
      · exact Json.false_
      · exact Json.true_
    | integer n => exact Json.number _ _ ⟨hp, Or.inl ⟨n, rfl, rfl⟩⟩
    | real r => exact Json.number _ _ ⟨hp, Or.inr ⟨r, rfl, rfl⟩⟩
    | string s =>
      obtain ⟨items, hwf, hval, htxt⟩ := quoted_literal v s (hP _ hp)
      show Json _ Kind.value (quotedText v s) [Event.string s] 0
      rw [htxt, ← hval]
      exact Json.string items hwf
    | key k => exact Bool.noConfusion hs
    | start_array => exact Bool.noConfusion hs
    | end_array => exact Bool.noConfusion hs
    | start_object => exact Bool.noConfusion hs
    | end_object => exact Bool.noConfusion hs
  | empty_array => exact Json.empty_array [] hnil
  | empty_object => exact Json.empty_object [] hnil
  | array w1 t evs d w2 h1 h2 _ ih => exact Json.array w1 t evs d w2 (hW _ h1) (hW _ h2) ih
  | object w1 t evs d w2 h1 h2 _ ih => exact Json.object w1 t evs d w2 (hW _ h1) (hW _ h2) ih
  | element t evs d _ ih => exact Json.element t evs d ih
  | elements t evs d w t1 evs1 d1 _ hw _ ih ih1 =>
    exact Json.elements t evs d [] w t1 evs1 d1 ih hnil (hW _ hw) ih1
  | member k w t evs d hp hw _ ih =>
    obtain ⟨items, hwf, hval, htxt⟩ := quoted_literal v k (hP _ hp)
    have := Json.member items [] w t evs d hwf hnil (hW _ hw) ih
    rw [hval] at this
    rw [htxt]
    simpa only [List.cons_append, List.append_assoc, List.singleton_append, List.nil_append]
      using this
  | members k w t evs d w1 t1 evs1 d1 hp hw _ hw1 _ ih ih1 =>
    obtain ⟨items, hwf, hval, htxt⟩ := quoted_literal v k (hP _ hp)
    have := Json.members items [] w t evs d [] w1 t1 evs1 d1 hwf hnil (hW _ hw) ih hnil
      (hW _ hw1) ih1
    rw [hval] at this
    rw [htxt]
    simpa only [List.cons_append, List.append_assoc, List.singleton_append, List.nil_append]
      using this

theorem indent_ws_zero (ind : Nat) : indent_ws ind 0 false = [] := by
  unfold indent_ws
  by_cases hi : ind = 0 <;> simp [hi]

/-- The emitter on a well-formed sequence of events for one value: every call
returns true and the bytes written are a text laid out as `Layout` says. -/
theorem emit_events_layout (fp : FloatPrims) (ind allow : Nat) (P : Event → Prop)
    (hP : ∀ e, P e → EmitOk (!flag_set allow JSNPG_ALLOW_INVALID_UTF8_OUT) e)
    (v : List Event) (d : Nat) (ht : EventTree P Kind.value v d) (hd : d < 2 ^ 32) :
    ∃ t, Layout P (EmitWs (if ind ≤ 8 then ind else 8)) fp
        (!flag_set allow JSNPG_ALLOW_INVALID_UTF8_OUT) Kind.value t v d ∧
      emit_events fp ind allow v = (true, t) := by
  obtain ⟨t, cm1, hlay, _, hrun⟩ := emit_layout fp P (jsnpg_generator_new_json ind 0 allow) hP
    Kind.value v d ht 0 false false false (by omega) (fun _ h => Bool.noConfusion h)
    (fun h => absurd rfl h)
  refine ⟨t, hlay, ?_⟩
  have h0 : jsnpg_generator_new_json ind 0 allow =
      jos_at (jsnpg_generator_new_json ind 0 allow) [] 0 false false false := rfl
  unfold emit_events
  simp only []
  rw [h0, hrun []]
  show (true, [] ++ (lead_text (jos_at _ [] 0 false false false).ctx ++ t)) = _
  rw [lead_text_at]
  simp only [Bool.false_eq_true, if_false, List.nil_append, indent_ws_zero]

theorem decimalText_digits (m : Nat) : ∀ b ∈ decimalText m, isDigit b := by
  intro b hb
  rcases decimalText_integer_part m with h | ⟨d, t, h, h1, h2, h3⟩
  · rw [h, List.mem_singleton] at hb
    subst hb; unfold isDigit; omega
  · rw [h, List.mem_cons] at hb
    rcases hb with rfl | hb
    · unfold isDigit; omega
    · exact h3 b hb

theorem canonicalInt_bytes (n : Int) : ∀ b ∈ canonicalInt n, b < 256 := by
  intro b hb
  unfold canonicalInt at hb
  have hd : ∀ b ∈ decimalText n.natAbs, b < 256 := by
    intro b hb
    have := decimalText_digits _ b hb
    unfold isDigit at this; omega
  split_ifs at hb
  · rw [List.mem_cons] at hb
    rcases hb with rfl | hb
    · norm_num
    · exact hd b hb
  · exact hd b hb

theorem canonicalInt_head (n : Int) :
    (canonicalInt n).headD 0 = 0x2D ∨
      (0x30 ≤ (canonicalInt n).headD 0 ∧ (canonicalInt n).headD 0 ≤ 0x39) := by
  unfold canonicalInt
  split_ifs
  · left; rfl
  · right
    rcases decimalText_integer_part n.natAbs with h | ⟨d, t, h, h1, h2, _⟩
    · rw [h]; exact ⟨by decide, by decide⟩
    · rw [h]; exact ⟨by show 0x30 ≤ d; omega, h2⟩

/-- The canonical decimal text of a `long` is read back by `parse_number` as
that integer. -/
theorem canonicalInt_parses (fp : FloatPrims) (n : Int) (hlo : -2 ^ 63 ≤ n) (hhi : n < 2 ^ 63) :
    NumParses fp (canonicalInt n) (Event.integer n) := by
  refine ⟨canonicalInt_head n, Or.inl ⟨n, rfl, fun p rest ha hdl => ?_⟩⟩
  have h := i64toa_parses fp n hlo hhi p rest (by rw [i64toa_eq n hlo hhi]; exact ha) hdl
  rw [i64toa_eq n hlo hhi] at h
  exact h

theorem emit_num_parses (fp : FloatPrims) (text : List Nat) (e : Event)
    (h : EmitNum fp (ValueOk fp) text e) : NumParses fp text e := by
  obtain ⟨hp, ⟨n, rfl, rfl⟩ | ⟨r, rfl, rfl⟩⟩ := h
  · exact canonicalInt_parses fp n hp.1.1 hp.1.2
  · exact (hp.2 r rfl).1

/-- The bytes of a text the emitter lays out are bytes. -/
theorem layout_bytes (fp : FloatPrims) (W : List Nat → Prop) (v : Bool)
    (hW : ∀ w, W w → ∀ b ∈ w, isWs b) (k : Kind) (t : List Nat) (evs : List Event) (d : Nat)
    (h : Layout (ValueOk fp) W fp v k t evs d) : ∀ b ∈ t, b < 256 := by
  have hw : ∀ w, W w → ∀ b ∈ w, b < 256 := fun w h b hb => (isWs_lt b (hW w h b hb)).2
  have hq : ∀ s, ValidString s → ∀ b ∈ quotedText v s, b < 256 := by
    intro s hs b hb
    obtain ⟨items, hwf, _, htxt⟩ := quoted_literal v s hs
    rw [htxt, List.mem_cons, List.mem_append, List.mem_singleton] at hb
    rcases hb with rfl | hb | rfl
    · norm_num
    · exact literalText_bytes items hwf b hb
    · norm_num
  induction h with
  | scalar e hs hp =>
    intro b hb
    cases e with
    | null =>
      have h4 : ∀ b ∈ [0x6E, 0x75, 0x6C, 0x6C], b < 256 := by decide
      exact h4 b hb
    | boolean x =>
      cases x
      · have h5 : ∀ b ∈ [0x66, 0x61, 0x6C, 0x73, 0x65], b < 256 := by decide
        exact h5 b hb
      · have h4 : ∀ b ∈ [0x74, 0x72, 0x75, 0x65], b < 256 := by decide
        exact h4 b hb
    | integer n => exact canonicalInt_bytes n b hb
    | real r => exact (hp.2 r rfl).2 b hb
    | string s => exact hq s hp.1 b hb
    | key k => exact Bool.noConfusion hs
    | start_array => exact Bool.noConfusion hs
    | end_array => exact Bool.noConfusion hs
    | start_object => exact Bool.noConfusion hs
    | end_object => exact Bool.noConfusion hs
  | empty_array => decide
  | empty_object => decide
  | array w1 t evs d w2 h1 h2 _ ih =>
    intro b hb
    simp only [List.mem_cons, List.mem_append, List.mem_singleton, List.not_mem_nil,
      or_false] at hb
    rcases hb with rfl | hb | hb | hb | rfl
    · norm_num
    · exact hw _ h1 b hb
    · exact ih b hb
    · exact hw _ h2 b hb
    · norm_num
  | object w1 t evs d w2 h1 h2 _ ih =>
    intro b hb
    simp only [List.mem_cons, List.mem_append, List.mem_singleton, List.not_mem_nil,
      or_false] at hb
    rcases hb with rfl | hb | hb | hb | rfl
    · norm_num
    · exact hw _ h1 b hb
    · exact ih b hb
    · exact hw _ h2 b hb
    · norm_num
  | element t evs d _ ih => exact ih
  | elements t evs d w t1 evs1 d1 _ h1 _ ih ih1 =>
    intro b hb
    simp only [List.mem_cons, List.mem_append] at hb
    rcases hb with hb | rfl | hb | hb
    · exact ih b hb
    · norm_num
    · exact hw _ h1 b hb
    · exact ih1 b hb
  | member k w t evs d hp h1 _ ih =>
    intro b hb
    simp only [List.mem_cons, List.mem_append] at hb
    rcases hb with hb | rfl | hb | hb
    · exact hq k hp.1 b hb
    · norm_num
    · exact hw _ h1 b hb
    · exact ih b hb
  | members k w t evs d w1 t1 evs1 d1 hp h1 _ h2 _ ih ih1 =>
    intro b hb
    simp only [List.mem_cons, List.mem_append] at hb
    rcases hb with hb | rfl | hb | hb | rfl | hb | hb
    · exact hq k hp.1 b hb
    · norm_num
    · exact hw _ h1 b hb
    · exact ih b hb
    · norm_num
    · exact hw _ h2 b hb
    · exact ih1 b hb

/-- The output of the emitter for a well-formed sequence of events of one
value, at any indent, read by the strict push parser: the parser is handed
the events again, all of them when the depth is within its 1024 levels and
else those before the container that is too deep. -/
theorem emit_parse (fp : FloatPrims) (ind : Nat) (v : List Event) (d : Nat)
    (ht : EventTree (ValueOk fp) Kind.value v d) (hd : d < 2 ^ 32) :
    (emit_events fp ind 0 v).1 = true ∧
    (push_events fp 0 (emit_events fp ind 0 v).2).2 = overflowPrefix 1024 v ∧
    (d ≤ 1024 → (push_events fp 0 (emit_events fp ind 0 v).2).1.type = JSNPG_EOF ∧
      (push_events fp 0 (emit_events fp ind 0 v).2).2 = v) := by
  obtain ⟨t, hlay, hrun⟩ := emit_events_layout fp ind 0 (ValueOk fp)
    (fun e h => event_ok_emit _ e h.1) v d ht hd
  have hws : ∀ w, EmitWs (if ind ≤ 8 then ind else 8) w → ∀ b ∈ w, isWs b := fun w h => h.1
  have hj : JsonText (EmitNum fp (ValueOk fp)) t v d :=
    ⟨[], t, [], by simp, by simp, layout_json fp _ _ _ hws (fun e h => h.1) _ t v d hlay,
      by simp⟩
  have hb := layout_bytes fp _ _ hws _ t v d hlay
  have h := push_events_json (EmitNum fp (ValueOk fp)) fp (emit_num_parses fp) t v d hj hb
  rw [hrun]
  exact ⟨rfl, h.1, h.2.1⟩

theorem literalValue_utf8 (items : List StrItem) :
    literalValue items = utf8String (items.map StrItem.codepoint) := by
  induction items with
  | nil => rfl
  | cons it items ih =>
    show utf8Encoding it.codepoint ++ literalValue items = _
    rw [ih]; rfl

theorem literal_valid (items : List StrItem) (hwf : ∀ it ∈ items, it.wf) :
    ValidString (literalValue items) := by
  refine ⟨items.map StrItem.codepoint, ?_, literalValue_utf8 items⟩
  intro cp hcp
  rw [List.mem_map] at hcp
  obtain ⟨it, hit, rfl⟩ := hcp
  exact item_scalar it (hwf it hit)

theorem strict_number_ok (fp : FloatPrims) (text : List Nat) (e : Event)
    (h : StrictNumber fp text e) : e.isScalar = true ∧ EventOk e := by
  obtain ⟨neg, ip, frac, exp, _, _, hcase⟩ := h
  rcases hcase with ⟨_, _, hrange, rfl⟩ | ⟨_, _, r, rfl, _⟩
  · refine ⟨rfl, ?_⟩
    show -2 ^ 63 ≤ numeralInt neg ip ∧ numeralInt neg ip < 2 ^ 63
    unfold inLongRange at hrange
    unfold numeralInt
    cases neg
    · simp only [Bool.false_eq_true, if_false] at hrange ⊢
      omega
    · simp only [if_true] at hrange ⊢
      omega
  · exact ⟨rfl, trivial⟩

/-- The events of a JSON text are a well-formed sequence of events. -/
theorem json_tree (N : List Nat → Event → Prop) (Q : Event → Prop)
    (hN : ∀ text e, N text e → e.isScalar = true ∧ EventOk e) (k : Kind) (t : List Nat)
    (evs : List Event) (d : Nat) (h : Json N k t evs d) :
    (∀ e ∈ evs, Q e) → EventTree (fun e => EventOk e ∧ Q e) k evs d := by
  induction h with
  | null => intro hq; exact EventTree.scalar _ rfl ⟨trivial, hq _ (List.mem_singleton.2 rfl)⟩
  | true_ => intro hq; exact EventTree.scalar _ rfl ⟨trivial, hq _ (List.mem_singleton.2 rfl)⟩
  | false_ => intro hq; exact EventTree.scalar _ rfl ⟨trivial, hq _ (List.mem_singleton.2 rfl)⟩
  | number text e hn =>
    intro hq
    exact EventTree.scalar e (hN text e hn).1 ⟨(hN text e hn).2, hq _ (List.mem_singleton.2 rfl)⟩
  | string items hwf =>
    intro hq
    exact EventTree.scalar _ rfl ⟨literal_valid items hwf, hq _ (List.mem_singleton.2 rfl)⟩
  | empty_array ws _ => intro _; exact EventTree.empty_array
  | empty_object ws _ => intro _; exact EventTree.empty_object
  | array ws1 t evs d ws2 _ _ _ ih =>
    intro hq
    exact EventTree.array evs d (ih (fun e he => hq e
      (List.mem_cons_of_mem _ (List.mem_append_left _ he))))
  | object ws1 t evs d ws2 _ _ _ ih =>
    intro hq
    exact EventTree.object evs d (ih (fun e he => hq e
      (List.mem_cons_of_mem _ (List.mem_append_left _ he))))
  | element t evs d _ ih => intro hq; exact EventTree.element evs d (ih hq)
  | elements t evs d ws1 ws2 t1 evs1 d1 _ _ _ _ ih ih1 =>
    intro hq
    exact EventTree.elements evs d evs1 d1 (ih (fun e he => hq e (List.mem_append_left _ he)))
      (ih1 (fun e he => hq e (List.mem_append_right _ he)))
  | member key ws1 ws2 t evs d hwf _ _ _ ih =>
    intro hq
    exact EventTree.member _ evs d ⟨literal_valid key hwf, hq _ (List.mem_cons_self _ _)⟩
      (ih (fun e he => hq e (List.mem_cons_of_mem _ he)))
  | members key ws1 ws2 t evs d ws3 ws4 t1 evs1 d1 hwf _ _ _ _ _ _ ih ih1 =>
    intro hq
    exact EventTree.members _ evs d evs1 d1 ⟨literal_valid key hwf, hq _ (List.mem_cons_self _ _)⟩
      (ih (fun e he => hq e (List.mem_cons_of_mem _ (List.mem_append_left _ he))))
      (ih1 (fun e he => hq e (List.mem_cons_of_mem _ (List.mem_append_right _ he))))

end Jsnpg

namespace Jsnpg

open jsnpg_type jsnpg_error_code parse_state

/-! ### What the steps of the parser leave unchanged -/

theorem Framed_pure {α : Type} (a : α) : Framed (pure a : PM α) := by
  intro p
  exact ⟨rfl, fun h => h⟩

theorem Framed_bind {α β : Type} (m : PM α) (f : α → PM β) (hf : ∀ a, Framed (f a))
    (hm : Framed m) : Framed (m >>= f) := by
  intro p
  rw [PM_bind_apply]
  have h1 := hm p
  rcases hmp : m p with ⟨a, q⟩ | q | q
  · rw [hmp] at h1
    have h2 := hf a q
    simp only []
    rcases hfq : f a q with ⟨b, r⟩ | r | r
    · rw [hfq] at h2
      exact ⟨h2.1.trans h1.1, fun h => h2.2 (h1.2 h)⟩
    · rw [hfq] at h2
      exact ⟨h2.1.trans h1.1, h2.2⟩
    · rw [hfq] at h2
      exact ⟨h2.1.trans h1.1, fun h => h2.2 (h1.2 h)⟩
  · rw [hmp] at h1; exact h1
  · rw [hmp] at h1; exact h1

theorem Framed_throw {α : Type} (code : jsnpg_error_code) (h : code ≠ JSNPG_ERROR_EOF) :
    Framed (throw_parse_error code : PM α) := by
  intro p
  refine ⟨rfl, rfl, rfl, ?_⟩
  intro hh
  exact h (by injection hh)

theorem Framed_aborted {α : Type} : Framed (fun p => Res.aborted p : PM α) := by
  intro p
  exact ⟨rfl, fun h => h⟩

theorem Framed_ite {α : Type} (c : Prop) [Decidable c] (a b : PM α) (ha : Framed a)
    (hb : Framed b) : Framed (if c then a else b) := by
  split
  · exact ha
  · exact hb

theorem Framed_on_mis {α : Type} (f : memory_input_stream → α × memory_input_stream)
    (h : ∀ m, (f m).2.has_start = m.has_start) : Framed (on_mis f) := by
  intro p
  exact ⟨h p.mis, fun hh => hh⟩

theorem Framed_set_mis (f : memory_input_stream → memory_input_stream)
    (h : ∀ m, (f m).has_start = m.has_start) : Framed (set_mis f) := by
  intro p
  exact ⟨h p.mis, fun hh => hh⟩

theorem Framed_get_mis {α : Type} (f : memory_input_stream → α) : Framed (get_mis f) := by
  intro p
  exact ⟨rfl, fun hh => hh⟩

theorem Framed_read {α : Type} (f : parser → α) : Framed (fun p => Res.ok (f p) p : PM α) := by
  intro p
  exact ⟨rfl, fun hh => hh⟩

theorem Framed_fuel {α : Type} (L : Nat → PM α) (k : parser → Nat) (h : ∀ n, Framed (L n)) :
    Framed (fun p => L (k p) p) := by
  intro p
  exact h (k p) p

/-! #### The stream primitives keep `has_start` -/

theorem mis_take_start (m : memory_input_stream) : (mis_take m).2.has_start = m.has_start := rfl

theorem mis_consume_start (m : memory_input_stream) (b : Nat) :
    (mis_consume m b).2.has_start = m.has_start := by
  unfold mis_consume; split <;> rfl

theorem mis_find_start (m : memory_input_stream) (c : Nat) :
    (mis_find m c).2.has_start = m.has_start := by
  unfold mis_find; split <;> rfl

theorem mis_validate_utf8_start (m : memory_input_stream) :
    (mis_validate_utf8 m).2.has_start = m.has_start := by
  unfold mis_validate_utf8; simp only []; split <;> rfl

theorem mis_string_update_start (m : memory_input_stream) :
    (mis_string_update m).has_start = m.has_start := by
  unfold mis_string_update; split
  · simp only []; split <;> rfl
  · rfl

theorem mis_string_complete_start (m : memory_input_stream) :
    (mis_string_complete m).2.has_start = m.has_start := by
  unfold mis_string_complete; split
  · rfl
  · exact mis_string_update_start m

theorem mis_consume_whitespace_loop_start : ∀ (k : Nat) (m : memory_input_stream),
    (mis_consume_whitespace_loop k m).2.has_start = m.has_start
  | 0, _ => rfl
  | k + 1, m => by
    unfold mis_consume_whitespace_loop
    simp only []
    split
    · exact (mis_consume_whitespace_loop_start k _).trans rfl
    · rfl

theorem mis_consume_whitespace_start (m : memory_input_stream) :
    (mis_consume_whitespace m).2.has_start = m.has_start :=
  mis_consume_whitespace_loop_start _ m

theorem block_comment_loop_start : ∀ (k : Nat) (m : memory_input_stream),
    (block_comment_loop k m).2.has_start = m.has_start
  | 0, _ => rfl
  | k + 1, m => by
    unfold block_comment_loop
    simp only []
    have h1 := mis_find_start m 0x2A
    have h2 := mis_consume_start (mis_take (mis_find m 0x2A).2).2 0x2F
    have h3 : (mis_take (mis_find m 0x2A).2).2.has_start = m.has_start := h1
    split
    · split
      · exact h2.trans h3
      · split
        · exact h2.trans h3
        · exact (block_comment_loop_start k _).trans (h2.trans h3)
    · split
      · exact h1
      · exact (block_comment_loop_start k _).trans h1

theorem integer_digits_loop_start : ∀ (k : Nat) (n : number_scan) (m : memory_input_stream),
    (integer_digits_loop k n m).2.has_start = m.has_start
  | 0, _, _ => rfl
  | k + 1, n, m => by
    unfold integer_digits_loop
    split
    · exact (integer_digits_loop_start k _ _).trans rfl
    · rfl

theorem fraction_digits_loop_start : ∀ (k : Nat) (n : number_scan) (m : memory_input_stream),
    (fraction_digits_loop k n m).2.has_start = m.has_start
  | 0, _, _ => rfl
  | k + 1, n, m => by
    unfold fraction_digits_loop
    simp only []
    split
    · exact (fraction_digits_loop_start k _ _).trans rfl
    · rfl

theorem exponent_digits_loop_start : ∀ (k : Nat) (e : Int) (c : Nat) (m : memory_input_stream),
    (exponent_digits_loop k e c m).2.has_start = m.has_start
  | 0, _, _, _ => rfl
  | k + 1, e, c, m => by
    unfold exponent_digits_loop
    simp only []
    split
    · rfl
    · split
      · exact (exponent_digits_loop_start k _ _ _).trans rfl
      · rfl

/-! #### The parse helpers -/

theorem Framed_push (t : Int) :
    Framed (fun p =>
      if (stack_push p.stack t).1 = -1 then
        throw_parse_error JSNPG_ERROR_STACK_OVERFLOW { p with stack := (stack_push p.stack t).2 }
      else Res.ok t { p with stack := (stack_push p.stack t).2 } : PM Int) := by
  intro p
  simp only []
  by_cases h : (stack_push p.stack t).1 = -1
  · rw [if_pos h]
    refine ⟨rfl, rfl, rfl, ?_⟩
    intro hh; injection hh with hh; cases hh
  · rw [if_neg h]
    exact ⟨rfl, fun h => h⟩

theorem Framed_pop :
    Framed (fun p =>
      if (stack_pop p.stack).1 = -1 then
        throw_parse_error JSNPG_ERROR_STACK_UNDERFLOW { p with stack := (stack_pop p.stack).2 }
      else Res.ok (stack_pop p.stack).1 { p with stack := (stack_pop p.stack).2 } : PM Int) := by
  intro p
  simp only []
  by_cases h : (stack_pop p.stack).1 = -1
  · rw [if_pos h]
    refine ⟨rfl, rfl, rfl, ?_⟩
    intro hh; injection hh with hh; cases hh
  · rw [if_neg h]
    exact ⟨rfl, fun h => h⟩

theorem Framed_take : Framed (on_mis mis_take) := Framed_on_mis _ mis_take_start

theorem Framed_string_start : Framed (set_mis mis_string_start) :=
  Framed_set_mis _ (fun _ => rfl)

theorem Framed_string_restart : Framed (set_mis mis_string_restart) :=
  Framed_set_mis _ (fun _ => rfl)

theorem Framed_write_bytes (bytes : List Nat) :
    Framed (set_mis (fun m => mis_write_bytes m bytes)) :=
  Framed_set_mis _ (fun _ => rfl)

theorem Framed_adjust (n : Nat) : Framed (set_mis (fun m => mis_adjust m n)) :=
  Framed_set_mis _ (fun _ => rfl)

theorem Framed_parse_start_object : Framed parse_start_object :=
  Framed_bind _ _ (fun _ => Framed_push STACK_OBJECT) Framed_take

theorem Framed_parse_start_array : Framed parse_start_array :=
  Framed_bind _ _ (fun _ => Framed_push STACK_ARRAY) Framed_take

theorem Framed_parse_end_object : Framed parse_end_object :=
  Framed_bind _ _ (fun _ => Framed_pop) Framed_take

theorem Framed_parse_end_array : Framed parse_end_array :=
  Framed_bind _ _ (fun _ => Framed_pop) Framed_take

theorem Framed_consume (c : Nat) : Framed (on_mis (fun m => mis_consume m c)) :=
  Framed_on_mis _ (fun m => mis_consume_start m c)

theorem Framed_consume_fails : ∀ cs : List Nat, Framed (consume_fails cs)
  | [] => Framed_pure false
  | c :: cs => by
    unfold consume_fails
    refine Framed_bind _ _ (fun ok => ?_) (Framed_consume c)
    exact Framed_ite _ _ _ (Framed_pure true) (Framed_consume_fails cs)

theorem Framed_parse_true : Framed parse_true := by
  unfold parse_true
  refine Framed_bind _ _ (fun _ => Framed_bind _ _ (fun _ => ?_) (Framed_consume_fails _))
    Framed_take
  exact Framed_ite _ _ _ (Framed_throw _ (by decide)) (Framed_pure ())

theorem Framed_parse_false : Framed parse_false := by
  unfold parse_false
  refine Framed_bind _ _ (fun _ => Framed_bind _ _ (fun _ => ?_) (Framed_consume_fails _))
    Framed_take
  exact Framed_ite _ _ _ (Framed_throw _ (by decide)) (Framed_pure ())

theorem Framed_parse_null : Framed parse_null := by
  unfold parse_null
  refine Framed_bind _ _ (fun _ => Framed_bind _ _ (fun _ => ?_) (Framed_consume_fails _))
    Framed_take
  exact Framed_ite _ _ _ (Framed_throw _ (by decide)) (Framed_pure ())

theorem Framed_parse_hex4_loop : ∀ (k cp : Nat), Framed (parse_hex4_loop k cp)
  | 0, cp => Framed_pure cp
  | k + 1, cp => by
    unfold parse_hex4_loop
    refine Framed_bind _ _ (fun c => ?_) (Framed_get_mis _)
    simp only []
    refine Framed_ite _ _ _ (Framed_bind _ _ (fun _ => Framed_parse_hex4_loop k _) Framed_take)
      (Framed_ite _ _ _ (Framed_bind _ _ (fun _ => Framed_parse_hex4_loop k _) Framed_take)
        (Framed_ite _ _ _ (Framed_bind _ _ (fun _ => Framed_parse_hex4_loop k _) Framed_take)
          (Framed_throw _ (by decide))))

theorem Framed_parse_hex4 : Framed parse_hex4 := Framed_parse_hex4_loop 4 0

theorem Framed_parse_escape : Framed parse_escape := by
  unfold parse_escape
  repeat' first
    | with_reducible exact Framed_take
    | with_reducible exact Framed_parse_hex4
    | with_reducible exact Framed_consume _
    | with_reducible exact Framed_pure _
    | with_reducible exact Framed_get_mis _
    | with_reducible exact Framed_throw _ (by decide)
    | with_reducible apply Framed_ite
    | (with_reducible apply Framed_bind; intro _)

theorem Framed_consume_whitespace_loop : ∀ k : Nat, Framed (consume_whitespace_loop k)
  | 0 => Framed_get_mis _
  | k + 1 => by
    unfold consume_whitespace_loop
    have hk := Framed_consume_whitespace_loop k
    repeat' first
      | with_reducible exact hk
      | with_reducible exact Framed_take
      | with_reducible exact Framed_pure _
      | with_reducible exact Framed_get_mis _
      | with_reducible exact Framed_throw _ (by decide)
      | with_reducible exact Framed_on_mis _ mis_consume_whitespace_start
      | with_reducible exact Framed_on_mis _ (fun m => block_comment_loop_start _ m)
      | with_reducible exact Framed_on_mis _ (fun m => mis_find_start m _)
      | with_reducible apply Framed_ite
      | (with_reducible apply Framed_bind; intro _)

theorem Framed_consume_whitespace (c : Bool) : Framed (consume_whitespace c) := by
  unfold consume_whitespace
  refine Framed_ite _ _ _ (Framed_on_mis _ mis_consume_whitespace_start) ?_
  exact Framed_fuel consume_whitespace_loop _ Framed_consume_whitespace_loop

theorem Framed_parse_string_loop (v : Bool) : ∀ k : Nat, Framed (parse_string_loop v k)
  | 0 => Framed_aborted
  | k + 1 => by
    unfold parse_string_loop
    have hk := Framed_parse_string_loop v k
    repeat' first
      | with_reducible exact hk
      | with_reducible exact Framed_take
      | with_reducible exact Framed_pure _
      | with_reducible exact Framed_get_mis _
      | with_reducible exact Framed_parse_escape
      | with_reducible exact Framed_throw _ (by decide)
      | with_reducible exact Framed_on_mis _ mis_string_complete_start
      | with_reducible exact Framed_on_mis _ mis_validate_utf8_start
      | with_reducible exact Framed_set_mis _ mis_string_update_start
      | with_reducible exact Framed_string_restart
      | with_reducible exact Framed_write_bytes _
      | with_reducible apply Framed_ite
      | (with_reducible apply Framed_bind; intro _)

theorem Framed_parse_string (v : Bool) : Framed (parse_string v) := by
  unfold parse_string parse_string_in_stream
  refine Framed_bind _ _ (fun _ => Framed_bind _ _ (fun _ => ?_) Framed_string_start)
    Framed_take
  exact Framed_fuel (parse_string_loop v) _ (Framed_parse_string_loop v)

theorem Framed_parse_number_first : Framed parse_number_first := by
  unfold parse_number_first
  repeat' first
    | with_reducible exact Framed_take
    | with_reducible exact Framed_pure _
    | with_reducible exact Framed_throw _ (by decide)
    | with_reducible apply Framed_ite
    | (with_reducible apply Framed_bind; intro _)

theorem Framed_parse_number_integer_part (n : number_scan) :
    Framed (parse_number_integer_part n) := by
  unfold parse_number_integer_part
  repeat' first
    | with_reducible exact Framed_pure _
    | with_reducible exact Framed_get_mis _
    | with_reducible exact Framed_on_mis _ (fun m => integer_digits_loop_start _ _ m)
    | with_reducible apply Framed_ite
    | (with_reducible apply Framed_bind; intro _)

theorem Framed_parse_number_fraction (n : number_scan) (f : Bool) :
    Framed (parse_number_fraction n f) := by
  unfold parse_number_fraction
  repeat' first
    | with_reducible exact Framed_take
    | with_reducible exact Framed_pure _
    | with_reducible exact Framed_get_mis _
    | with_reducible exact Framed_throw _ (by decide)
    | with_reducible exact Framed_on_mis _ (fun m => fraction_digits_loop_start _ _ m)
    | with_reducible apply Framed_ite
    | (with_reducible apply Framed_bind; intro _)

theorem Framed_parse_number_exponent (n : number_scan) (f : Bool) :
    Framed (parse_number_exponent n f) := by
  unfold parse_number_exponent
  repeat' first
    | with_reducible exact Framed_take
    | with_reducible exact Framed_pure _
    | with_reducible exact Framed_get_mis _
    | with_reducible exact Framed_throw _ (by decide)
    | with_reducible exact Framed_on_mis _ (fun m => exponent_digits_loop_start _ _ _ m)
    | with_reducible apply Framed_ite
    | (with_reducible apply Framed_bind; intro _)
    | simp only []
    | split

theorem Framed_parse_number_real (fp : FloatPrims) (s : Nat) (neg : Bool) (n : number_scan) :
    Framed (parse_number_real fp s neg n) := by
  unfold parse_number_real
  repeat' first
    | with_reducible exact Framed_pure _
    | with_reducible exact Framed_get_mis _
    | with_reducible exact Framed_throw _ (by decide)
    | with_reducible exact Framed_adjust _
    | with_reducible apply Framed_ite
    | (with_reducible apply Framed_bind; intro _)
    | simp only []
    | split

theorem Framed_parse_number_finish (fp : FloatPrims) (s : Nat) (neg : Bool) (n : number_scan)
    (f : Bool) : Framed (parse_number_finish fp s neg n f) := by
  unfold parse_number_finish
  exact Framed_ite _ _ _ (Framed_parse_number_real fp s neg n) (Framed_pure _)

theorem Framed_parse_number (fp : FloatPrims) : Framed (parse_number fp) := by
  unfold parse_number
  repeat' first
    | with_reducible exact Framed_get_mis _
    | with_reducible exact Framed_parse_number_first
    | with_reducible exact Framed_parse_number_integer_part _
    | with_reducible exact Framed_parse_number_fraction _ _
    | with_reducible exact Framed_parse_number_exponent _ _
    | with_reducible exact Framed_parse_number_finish _ _ _ _ _
    | (with_reducible apply Framed_bind; intro _)

/-! #### The steps of `parse_next` -/

theorem Framed_accept_value (type : jsnpg_type) (u : result_union)
    (hu : u ≠ result_union.error JSNPG_ERROR_EOF) : Framed (accept_value type u) := by
  intro p
  unfold accept_value
  rcases state_change_value p.state with _ | st
  · exact ⟨rfl, fun h => h⟩
  · exact ⟨rfl, fun _ => hu⟩

theorem Framed_accept_with (st : parser → parse_state) (type : jsnpg_type) (u : result_union)
    (hu : u ≠ result_union.error JSNPG_ERROR_EOF) : Framed (accept_with st type u) := by
  intro p
  exact ⟨rfl, fun _ => hu⟩

theorem Framed_accept_eof : Framed accept_eof := by
  intro p
  refine ⟨rfl, fun _ => ?_⟩
  intro hh; cases hh

theorem Framed_set_state (st : parse_state) :
    Framed (fun p => Res.ok () { p with state := st } : PM Unit) := by
  intro p
  exact ⟨rfl, fun h => h⟩

theorem Framed_accept_number (r : jsnpg_type × result_union) :
    Framed (match r.2 with
      | result_union.real d => accept_real d
      | result_union.integer l => accept_integer l
      | _ => fun p => Res.aborted p) := by
  split
  · exact Framed_accept_value _ _ (fun h => by cases h)
  · exact Framed_accept_value _ _ (fun h => by cases h)
  · exact Framed_aborted

theorem Framed_parse_next_value (fp : FloatPrims) (v : Bool) (b : Nat) :
    Framed (parse_next_value fp v b) := by
  unfold parse_next_value
  repeat' first
    | with_reducible exact Framed_parse_string _
    | with_reducible exact Framed_parse_start_object
    | with_reducible exact Framed_parse_start_array
    | with_reducible exact Framed_parse_true
    | with_reducible exact Framed_parse_false
    | with_reducible exact Framed_parse_null
    | with_reducible exact Framed_parse_number _
    | exact Framed_accept_number _
    | with_reducible exact Framed_throw _ (by decide)
    | exact Framed_accept_value _ _ (fun h => by cases h)
    | exact Framed_accept_with _ _ _ (fun h => by cases h)
    | with_reducible apply Framed_ite
    | (with_reducible apply Framed_bind; intro _)

theorem Framed_parse_next_object_comma (c v : Bool) (b : Nat) :
    Framed (parse_next_object_comma c v b) := by
  unfold parse_next_object_comma
  repeat' first
    | with_reducible exact Framed_parse_string _
    | with_reducible exact Framed_consume_whitespace _
    | with_reducible exact Framed_take
    | with_reducible exact Framed_throw _ (by decide)
    | exact Framed_accept_with _ _ _ (fun h => by cases h)
    | with_reducible apply Framed_ite
    | (with_reducible apply Framed_bind; intro _)

theorem Framed_parse_next_object (c v : Bool) (b : Nat) :
    Framed (parse_next_object c v b) := by
  unfold parse_next_object
  repeat' first
    | with_reducible exact Framed_parse_next_object_comma _ _ _
    | with_reducible exact Framed_parse_end_object
    | exact Framed_accept_with _ _ _ (fun h => by cases h)
    | with_reducible apply Framed_ite
    | (with_reducible apply Framed_bind; intro _)

theorem Framed_parse_next_array (fp : FloatPrims) (v : Bool) (b : Nat) :
    Framed (parse_next_array fp v b) := by
  unfold parse_next_array
  repeat' first
    | with_reducible exact Framed_parse_next_value _ _ _
    | with_reducible exact Framed_parse_end_array
    | exact Framed_accept_with _ _ _ (fun h => by cases h)
    | with_reducible apply Framed_ite
    | (with_reducible apply Framed_bind; intro _)

theorem Framed_parse_next_switch (fp : FloatPrims) (state : parse_state) (b : Nat) :
    Framed (parse_next_switch fp state b) := by
  unfold parse_next_switch
  apply Framed_bind
  · intro flags
    cases state <;> simp only [] <;>
    repeat' first
      | with_reducible exact Framed_parse_next_value _ _ _
      | with_reducible exact Framed_parse_next_array _ _ _
      | with_reducible exact Framed_parse_next_object _ _ _
      | with_reducible exact Framed_parse_next_object_comma _ _ _
      | with_reducible exact Framed_parse_end_object
      | with_reducible exact Framed_parse_end_array
      | with_reducible exact Framed_consume_whitespace _
      | with_reducible exact Framed_take
      | with_reducible exact Framed_pure _
      | with_reducible exact Framed_get_mis _
      | with_reducible exact Framed_accept_eof
      | with_reducible exact Framed_set_state _
      | with_reducible exact Framed_throw _ (by decide)
      | exact Framed_accept_with _ _ _ (fun h => by cases h)
      | with_reducible apply Framed_ite
      | (with_reducible apply Framed_bind; intro _)
  · exact Framed_read _

/-- A call of `parse_next` outside the state `STATE_EOF` that throws leaves an
error other than `eof` at the position of the read head. -/
theorem parse_next_thrown (fp : FloatPrims) (p p1 : parser) (h : p.state ≠ STATE_EOF)
    (ht : parse_next fp p = Res.thrown p1) :
    p1.mis.has_start = p.mis.has_start ∧ ThrownAt p1 := by
  have hf : Framed (consume_whitespace (flag_set p.flags JSNPG_ALLOW_COMMENTS) >>= fun b =>
      parse_next_switch fp p.state b) :=
    Framed_bind _ _ (fun b => Framed_parse_next_switch fp p.state b)
      (Framed_consume_whitespace _)
  have e : parse_next fp p = (consume_whitespace (flag_set p.flags JSNPG_ALLOW_COMMENTS) >>=
      fun b => parse_next_switch fp p.state b) p := by
    unfold parse_next
    simp only [PM_bind_apply, h, if_false]
  have h1 := hf p
  rw [← e, ht] at h1
  exact h1

/-! #### The steps of `parse_generate` with the recording sink -/

theorem FramedG_pure {α : Type} (a : α) : FramedG (pure a : GM (List Event) α) := by
  intro p g
  exact ⟨rfl, fun h => h, rfl⟩

theorem FramedG_bind {α β : Type} (m : GM (List Event) α) (f : α → GM (List Event) β)
    (hf : ∀ a, FramedG (f a)) (hm : FramedG m) : FramedG (m >>= f) := by
  intro p g
  rw [GM_bind_apply]
  have h1 := hm p g
  rcases hmp : m p g with ⟨a, q, gq⟩ | ⟨q, gq⟩ | ⟨q, gq⟩
  · rw [hmp] at h1
    have h2 := hf a q gq
    simp only []
    rcases hfq : f a q gq with ⟨b, r, gr⟩ | ⟨r, gr⟩ | ⟨r, gr⟩
    · rw [hfq] at h2
      exact ⟨h2.1.trans h1.1, fun h => h2.2.1 (h1.2.1 h), h2.2.2.trans h1.2.2⟩
    · rw [hfq] at h2
      exact ⟨h2.1.trans h1.1, h2.2.1, h2.2.2.trans h1.2.2⟩
    · rw [hfq] at h2
      exact ⟨h2.1.trans h1.1, fun h => h2.2.1 (h1.2.1 h), h2.2.2.trans h1.2.2⟩
  · rw [hmp] at h1; exact h1
  · rw [hmp] at h1; exact h1

theorem FramedG_liftP {α : Type} (m : PM α) (h : Framed m) :
    FramedG (liftP m : GM (List Event) α) := by
  intro p g
  have h1 := h p
  unfold liftP
  rcases hmp : m p with ⟨a, q⟩ | q | q
  · rw [hmp] at h1; exact ⟨h1.1, h1.2, rfl⟩
  · rw [hmp] at h1; exact ⟨h1.1, h1.2, rfl⟩
  · rw [hmp] at h1; exact ⟨h1.1, h1.2, rfl⟩

theorem FramedG_ite {α : Type} (c : Prop) [Decidable c] (a b : GM (List Event) α)
    (ha : FramedG a) (hb : FramedG b) : FramedG (if c then a else b) := by
  split
  · exact ha
  · exact hb

theorem FramedG_emit (call : generator (List Event) → Bool × generator (List Event))
    (h : ∀ g, (call g).2.error = g.error) : FramedG (emit_or_terminate call) := by
  intro p g
  unfold emit_or_terminate
  simp only []
  have hg := h g
  revert hg
  rcases call g with ⟨ok, g1⟩
  intro hg
  cases ok
  · refine ⟨rfl, ⟨rfl, rfl, ?_⟩, hg⟩
    intro hh; injection hh with hh; cases hh
  · exact ⟨rfl, fun hh => hh, hg⟩

theorem FramedG_throw {α : Type} (code : jsnpg_error_code) (h : code ≠ JSNPG_ERROR_EOF) :
    FramedG (liftP (throw_parse_error code) : GM (List Event) α) :=
  FramedG_liftP _ (Framed_throw code h)

theorem FramedG_pg_top_key (c v : Bool) (b : Nat) :
    FramedG (pg_top_key record_callbacks c v b) := by
  unfold pg_top_key
  repeat' first
    | with_reducible exact FramedG_throw _ (by decide)
    | with_reducible exact FramedG_liftP _ (Framed_parse_string _)
    | with_reducible exact FramedG_liftP _ (Framed_consume_whitespace _)
    | with_reducible exact FramedG_liftP _ Framed_take
    | exact FramedG_emit _ (fun _ => rfl)
    | with_reducible apply FramedG_ite
    | (with_reducible apply FramedG_bind; intro _)

theorem FramedG_number (st : Int) (r : jsnpg_type × result_union) :
    FramedG (match r.2 with
      | result_union.real d => do
        emit_or_terminate (fun g => jsnpg_real record_callbacks g d)
        pure (pg_ctl.inner st)
      | result_union.integer l => do
        emit_or_terminate (fun g => jsnpg_integer record_callbacks g l)
        pure (pg_ctl.inner st)
      | _ => pure (pg_ctl.inner st)) := by
  split
  · exact FramedG_bind _ _ (fun _ => FramedG_pure _) (FramedG_emit _ (fun _ => rfl))
  · exact FramedG_bind _ _ (fun _ => FramedG_pure _) (FramedG_emit _ (fun _ => rfl))
  · exact FramedG_pure _

theorem FramedG_pg_top_switch (fp : FloatPrims) (c t v : Bool) (b : Nat) (st : Int) :
    FramedG (pg_top_switch record_callbacks fp c t v b st) := by
  unfold pg_top_switch
  repeat' first
    | with_reducible exact FramedG_throw _ (by decide)
    | with_reducible exact FramedG_pure _
    | exact FramedG_number _ _
    | with_reducible exact FramedG_liftP _ (Framed_parse_string _)
    | with_reducible exact FramedG_liftP _ (Framed_parse_number _)
    | with_reducible exact FramedG_liftP _ Framed_parse_true
    | with_reducible exact FramedG_liftP _ Framed_parse_false
    | with_reducible exact FramedG_liftP _ Framed_parse_null
    | with_reducible exact FramedG_liftP _ Framed_parse_start_array
    | with_reducible exact FramedG_liftP _ Framed_parse_start_object
    | with_reducible exact FramedG_liftP _ Framed_parse_end_array
    | with_reducible exact FramedG_liftP _ Framed_parse_end_object
    | with_reducible exact FramedG_liftP _ (Framed_consume_whitespace _)
    | with_reducible exact FramedG_liftP _ Framed_take
    | exact FramedG_emit _ (fun _ => rfl)
    | with_reducible apply FramedG_ite
    | (with_reducible apply FramedG_bind; intro _)

theorem FramedG_pg_top (fp : FloatPrims) (b : Nat) (st : Int) :
    FramedG (pg_top record_callbacks fp b st) := by
  unfold pg_top
  repeat' first
    | with_reducible exact FramedG_pure _
    | with_reducible exact FramedG_pg_top_switch _ _ _ _ _ _
    | with_reducible exact FramedG_pg_top_key _ _ _
    | with_reducible exact FramedG_liftP _ (Framed_read _)
    | with_reducible apply FramedG_ite
    | (with_reducible apply FramedG_bind; intro _)

theorem FramedG_pg_inner (st : Int) : FramedG (pg_inner record_callbacks st) := by
  unfold pg_inner
  repeat' first
    | with_reducible exact FramedG_throw _ (by decide)
    | with_reducible exact FramedG_pure _
    | with_reducible exact FramedG_liftP _ (Framed_read _)
    | with_reducible exact FramedG_liftP _ Framed_parse_end_array
    | with_reducible exact FramedG_liftP _ Framed_parse_end_object
    | with_reducible exact FramedG_liftP _ (Framed_consume_whitespace _)
    | with_reducible exact FramedG_liftP _ Framed_take
    | exact FramedG_emit _ (fun _ => rfl)
    | with_reducible apply FramedG_ite
    | (with_reducible apply FramedG_bind; intro _)

theorem FramedG_aborted {α : Type} :
    FramedG (fun p g => GRes.aborted p g : GM (List Event) α) := by
  intro p g
  exact ⟨rfl, fun h => h, rfl⟩

theorem FramedG_pg_loop (fp : FloatPrims) : ∀ (k : Nat) (c : pg_ctl),
    FramedG (pg_loop record_callbacks fp k c)
  | 0, _ => FramedG_aborted
  | _ + 1, pg_ctl.finished => FramedG_pure ()
  | k + 1, pg_ctl.top b st =>
    FramedG_bind _ _ (fun c => FramedG_pg_loop fp k c) (FramedG_pg_top fp b st)
  | k + 1, pg_ctl.inner st =>
    FramedG_bind _ _ (fun c => FramedG_pg_loop fp k c) (FramedG_pg_inner st)

theorem FramedG_parse_generate (fp : FloatPrims) :
    FramedG (parse_generate record_callbacks fp) := by
  unfold parse_generate
  repeat' first
    | with_reducible exact FramedG_pure _
    | with_reducible exact FramedG_pg_loop _ _ _
    | with_reducible exact FramedG_liftP _ (Framed_read _)
    | with_reducible exact FramedG_liftP _ (Framed_consume_whitespace _)
    | (with_reducible apply FramedG_bind; intro _)

theorem FramedG_parse_loop (fp : FloatPrims) : ∀ k : Nat,
    FramedG (parse_loop record_callbacks fp k)
  | 0 => FramedG_aborted
  | k + 1 => by
    rw [parse_loop_succ]
    have hk := FramedG_parse_loop fp k
    repeat' first
      | with_reducible exact hk
      | with_reducible exact FramedG_pure _
      | with_reducible exact FramedG_throw _ (by decide)
      | with_reducible exact FramedG_parse_generate _
      | with_reducible exact FramedG_liftP _ (Framed_read _)
      | with_reducible exact FramedG_liftP _ (Framed_get_mis _)
      | with_reducible apply FramedG_ite
      | (with_reducible apply FramedG_bind; intro _)

end Jsnpg

namespace Jsnpg

open jsnpg_type jsnpg_error_code parse_state

/-! ## Runs that end in an error -/

theorem signText_length (neg : Bool) : (signText neg).length = if neg then 1 else 0 := by
  cases neg <;> rfl

/-- A zero that is followed by a digit: `parse_number` stops after the zero and
returns the integer 0. -/
theorem parse_number_zero (fp : FloatPrims) (p : parser) (neg : Bool) (d : Nat)
    (rest : List Nat) (hd : isDigit d)
    (ha : ahead p.mis = signText neg ++ 0x30 :: d :: rest) :
    parse_number fp p =
      Res.ok (JSNPG_INTEGER, result_union.integer 0) (advance p ((signText neg).length + 1)) := by
  have hfirst := parse_number_first_ok p neg 0x30 (d :: rest) (by unfold isDigit; omega) ha
  have hz := sub_zero_digit d hd
  have hk : (ahead p.mis).getD (if neg then 2 else 1) 0 = d := by
    rw [ha]
    cases neg <;> rfl
  have hp := parse_number_integer_part_zero p (if neg then 2 else 1)
    { sum := 0x30 - 0x30, exponent := 0, sig_digits := if 0x30 - 0x30 ≠ 0 then 1 else 0,
      c := 0x30 - 0x30 } rfl
  rw [hk] at hp
  have f1 : sub_zero d ≠ sub_zero 0x2E := by
    have : sub_zero 0x2E = 254 := by decide
    omega
  have f2 : ¬ (sub_zero d = sub_zero 0x65 ∨ sub_zero d = sub_zero 0x45) := by
    have e1 : sub_zero 0x65 = 53 := by decide
    have e2 : sub_zero 0x45 = 21 := by decide
    omega
  unfold parse_number
  simp only [PM_bind_apply, get_mis_apply, hfirst, hp]
  rw [parse_number_fraction_absent _ false _ f1]
  simp only []
  rw [parse_number_exponent_absent _ false _ f2]
  simp only []
  rw [parse_number_finish_integer fp _ neg _ _ (by simp) (by cases neg <;> simp)]
  rw [signText_length]
  cases neg <;> rfl

theorem zero_head (neg : Bool) (d : Nat) (rest : List Nat) :
    (signText neg ++ 0x30 :: d :: rest).headD 0 = 0x2D ∨
      (signText neg ++ 0x30 :: d :: rest).headD 0 = 0x30 := by
  cases neg
  · right; rfl
  · left; rfl

/-- The `switch` of `parse_generate` at a zero that is followed by a digit:
the integer 0 is delivered and the loop goes on after the zero. -/
theorem switch_zero (fp : FloatPrims) (st : Int) (p : parser) (g : generator (List Event))
    (neg : Bool) (d : Nat) (rest : List Nat) (hd : isDigit d)
    (ha : ahead p.mis = signText neg ++ 0x30 :: d :: rest) :
    pg_top_switch record_callbacks fp false false true
        ((signText neg ++ 0x30 :: d :: rest).headD 0) st p g =
      GRes.ok (pg_ctl.inner st) (advance p ((signText neg).length + 1))
        { g with ctx := g.ctx ++ [Event.integer 0] } := by
  have hh := zero_head neg d rest
  have hb : (signText neg ++ 0x30 :: d :: rest).headD 0 ≠ 0x5B ∧
      (signText neg ++ 0x30 :: d :: rest).headD 0 ≠ 0x7B ∧
      (signText neg ++ 0x30 :: d :: rest).headD 0 ≠ 0x22 ∧
      (signText neg ++ 0x30 :: d :: rest).headD 0 ≠ 0x74 ∧
      (signText neg ++ 0x30 :: d :: rest).headD 0 ≠ 0x66 ∧
      (signText neg ++ 0x30 :: d :: rest).headD 0 ≠ 0x6E := by omega
  have hnum : (signText neg ++ 0x30 :: d :: rest).headD 0 = 0x2D ∨
      (0x30 ≤ (signText neg ++ 0x30 :: d :: rest).headD 0 ∧
        (signText neg ++ 0x30 :: d :: rest).headD 0 ≤ 0x39) := by omega
  obtain ⟨b1, b2, b3, b4, b5, b6⟩ := hb
  unfold pg_top_switch
  simp only [b1, b2, b3, b4, b5, b6, if_false, hnum, if_true, GM_bind_apply, liftP_apply,
    parse_number_zero fp p neg d rest hd ha]
  rfl

/-- The inner loop of `parse_generate` inside a container, at a byte that is
neither a comma nor the closing bracket or brace of the container: the error
`unexpected` at that byte. -/
theorem inner_unexpected (st : Int) (p : parser) (g : generator (List Event))
    (ws rest : List Nat) (hst : st ≠ STACK_NONE) (hf : p.flags = 0)
    (ha : ahead p.mis = ws ++ rest) (hws : ∀ b ∈ ws, isWs b) (hr : ¬ isWs (rest.headD 0))
    (hc : rest.headD 0 ≠ 0x2C) (ho : ¬ (rest.headD 0 = 0x7D ∧ st = STACK_OBJECT))
    (hq : ¬ (rest.headD 0 = 0x5D ∧ st = STACK_ARRAY)) :
    pg_inner record_callbacks st p g =
      GRes.thrown
        { advance p ws.length with
          result := make_error_return JSNPG_ERROR_UNEXPECTED
            (parse_position (advance p ws.length)) } g := by
  unfold pg_inner
  rw [GM_bind_ok _ _ _ _ _ _ _ (liftP_ok (fun p => Res.ok p.flags p) p p p.flags g rfl), hf]
  simp only [flag_set_zero]
  rw [GM_bind_ok _ _ _ _ _ _ _ (ws_step _ _ ws _ hws ha hr)]
  simp only [hc, if_false, GM_bind_apply, GM_pure_apply, Bool.false_eq_true, ho, hq, hst]
  rfl

/-- The same, with the parser it throws from. -/
theorem inner_unexpected_at (st : Int) (p : parser) (g : generator (List Event))
    (ws rest : List Nat) (hst : st ≠ STACK_NONE) (hf : p.flags = 0)
    (ha : ahead p.mis = ws ++ rest) (hws : ∀ b ∈ ws, isWs b) (hr : ¬ isWs (rest.headD 0))
    (hc : rest.headD 0 ≠ 0x2C) (ho : ¬ (rest.headD 0 = 0x7D ∧ st = STACK_OBJECT))
    (hq : ¬ (rest.headD 0 = 0x5D ∧ st = STACK_ARRAY)) :
    ∃ p1, pg_inner record_callbacks st p g = GRes.thrown p1 g ∧
      p1.mis.read = p.mis.read + ws.length ∧
      p1.result.u = result_union.error JSNPG_ERROR_UNEXPECTED :=
  ⟨_, inner_unexpected st p g ws rest hst hf ha hws hr hc ho hq, rfl, rfl⟩

/-! ### The push parser from the start of a text -/

/-- The parser that `push_events` makes for a text in strict mode. -/
theorem strict_start_facts (text : List Nat) (h : text.headD 0 ≠ 0xEF) :
    (jsnpg_parser_new_bytes 0 0 text text.length).flags = 0 ∧
    ahead (jsnpg_parser_new_bytes 0 0 text text.length).mis = text ++ [0] ∧
    (jsnpg_parser_new_bytes 0 0 text text.length).mis.read = 0 ∧
    (jsnpg_parser_new_bytes 0 0 text text.length).mis.count = text.length ∧
    (jsnpg_parser_new_bytes 0 0 text text.length).mis.has_start = true ∧
    (jsnpg_parser_new_bytes 0 0 text text.length).mis.start.length = text.length + 1 ∧
    (jsnpg_parser_new_bytes 0 0 text text.length).state = STATE_START ∧
    (jsnpg_parser_new_bytes 0 0 text text.length).stack =
      { ptr := 0, size := 1024, stack := List.replicate 128 0 } := by
  obtain ⟨f1, f2, f3, f4, f5⟩ := new_bytes_facts text h
  refine ⟨f1, ?_, f3, f4, ?_, ?_, ?_, f5⟩
  · unfold ahead; rw [f2, f3]; rfl
  · unfold jsnpg_parser_new_bytes parser_set_bytes; rfl
  · rw [f2]; simp
  · unfold jsnpg_parser_new_bytes parser_set_bytes; rfl

/-- The result of the push parser when `parse_generate` leaves through
`throw_parse_error`. -/
theorem push_events_thrown (fp : FloatPrims) (text : List Nat) (p1 : parser)
    (g1 : generator (List Event)) (code : jsnpg_error_code) (pos : Nat)
    (h : parse_generate record_callbacks fp (jsnpg_parser_new_bytes 0 0 text text.length)
      (generator_new 0 0 []) = GRes.thrown p1 g1)
    (hres : p1.result = make_error_return code pos) (hcode : code ≠ JSNPG_ERROR_TERMINATED) :
    push_events fp 0 text = (make_error_return code pos, g1.ctx) := by
  have hflags : (jsnpg_parser_new_bytes 0 0 text text.length).flags = 0 := by
    unfold jsnpg_parser_new_bytes parser_set_bytes; rfl
  unfold push_events jsnpg_parse_bytes_callbacks
  simp only []
  rw [hflags]
  unfold parse
  have hfuel : (jsnpg_parser_new_bytes 0 0 text text.length).mis.start.length + 2 =
      ((jsnpg_parser_new_bytes 0 0 text text.length).mis.start.length + 1) + 1 := rfl
  rw [hfuel, parse_loop_succ, GM_bind_thrown _ _ _ _ _ _ h]
  simp only []
  unfold make_pg_error_return
  rw [hres]
  have hne : ¬ (result_union.error code = result_union.error JSNPG_ERROR_TERMINATED ∧
      g1.error ≠ JSNPG_ERROR_NONE) := by
    intro hh
    exact hcode (by injection hh.1)
  simp only [make_error_return, if_true, hne, if_false]

/-- The result of the push parser in strict mode when `parse_generate` returns
before the end of the input: the error `unexpected` where it stopped. -/
theorem push_events_trailing (fp : FloatPrims) (text : List Nat) (p2 : parser)
    (g2 : generator (List Event))
    (h : parse_generate record_callbacks fp (jsnpg_parser_new_bytes 0 0 text text.length)
      (generator_new 0 0 []) = GRes.ok () p2 g2)
    (hf : p2.flags = 0) (hs : p2.mis.has_start = true) (hne : p2.mis.read ≠ p2.mis.count) :
    push_events fp 0 text = (make_error_return JSNPG_ERROR_UNEXPECTED p2.mis.read, g2.ctx) := by
  have hflags : (jsnpg_parser_new_bytes 0 0 text text.length).flags = 0 := by
    unfold jsnpg_parser_new_bytes parser_set_bytes; rfl
  have heof : mis_eof p2.mis = false := by
    unfold mis_eof mis_tell
    simp only [beq_eq_false_iff_ne, ne_eq]
    exact hne
  unfold push_events jsnpg_parse_bytes_callbacks
  simp only []
  rw [hflags]
  unfold parse
  have hfuel : (jsnpg_parser_new_bytes 0 0 text text.length).mis.start.length + 2 =
      ((jsnpg_parser_new_bytes 0 0 text text.length).mis.start.length + 1) + 1 := rfl
  rw [hfuel, parse_loop_succ, GM_bind_ok _ _ _ _ _ _ _ h,
    GM_bind_ok _ _ _ _ _ _ _ (liftP_ok (fun p => Res.ok p.flags p) p2 p2 p2.flags _ rfl),
    GM_bind_ok _ _ _ _ _ _ _ (liftP_ok (get_mis mis_eof) p2 p2 (mis_eof p2.mis) _ rfl), heof, hf]
  simp only [flag_set_zero, Bool.not_false, if_true, Bool.false_eq_true, if_false, liftP_apply]
  unfold throw_parse_error throw_parse_error_at make_pg_error_return parse_position
  simp only [hs, if_true, make_error_return, mis_tell]
  rfl

/-- The result of the push parser in strict mode when `parse_generate` leaves
through `throw_parse_error`: the error thrown, at the offset of the read
head. -/
theorem push_events_thrown_at (fp : FloatPrims) (text : List Nat) (p1 : parser)
    (g1 : generator (List Event)) (code : jsnpg_error_code)
    (h : parse_generate record_callbacks fp (jsnpg_parser_new_bytes 0 0 text text.length)
      (generator_new 0 0 []) = GRes.thrown p1 g1)
    (hu : p1.result.u = result_union.error code) (hcode : code ≠ JSNPG_ERROR_TERMINATED) :
    push_events fp 0 text = (make_error_return code p1.mis.read, g1.ctx) := by
  have hf := FramedG_parse_generate fp (jsnpg_parser_new_bytes 0 0 text text.length)
    (generator_new 0 0 [])
  rw [h] at hf
  obtain ⟨hs, ⟨hty, hpos, _⟩, _⟩ := hf
  have hs1 : p1.mis.has_start = true := by
    rw [hs]; unfold jsnpg_parser_new_bytes parser_set_bytes; rfl
  have hres : p1.result = make_error_return code p1.mis.read := by
    have hp : p1.result.position = p1.mis.read := by
      rw [hpos]; unfold parse_position mis_tell; rw [if_pos hs1]
    rcases hr : p1.result with ⟨ty, pos, u⟩
    rw [hr] at hty hu hp
    simp only [] at hty hu hp
    rw [hty, hu, hp]
    rfl
  exact push_events_thrown fp text p1 g1 code _ h hres hcode

/-- The push parser never reports the error `eof`, whatever the options and
the input. -/
theorem push_events_no_eof (fp : FloatPrims) (allow : Nat) (text : List Nat) :
    (push_events fp allow text).1.u ≠ result_union.error JSNPG_ERROR_EOF := by
  unfold push_events jsnpg_parse_bytes_callbacks parse
  simp only []
  generalize hp0 : jsnpg_parser_new_bytes 0 allow text text.length = p0
  have h0 : NoEof p0 := by
    rw [← hp0]
    intro hh
    unfold jsnpg_parser_new_bytes parser_set_bytes parser_new at hh
    cases hh
  generalize hg0 : generator_new 0 p0.flags ([] : List Event) = g0
  have he : g0.error = JSNPG_ERROR_NONE := by rw [← hg0]; rfl
  have hf := FramedG_parse_loop fp (p0.mis.start.length + 2) p0 g0
  have hpg : ∀ (p1 : parser) (g1 : generator (List Event)), NoEof p1 →
      g1.error = JSNPG_ERROR_NONE →
      (make_pg_error_return p1 g1).u ≠ result_union.error JSNPG_ERROR_EOF := by
    intro p1 g1 h1 hg1
    unfold make_pg_error_return
    simp only [hg1, ne_eq, not_true_eq_false, and_false, if_false]
    split
    · exact h1
    · intro hh; cases hh
  rcases hr : parse_loop record_callbacks fp (p0.mis.start.length + 2) p0 g0 with
    ⟨a, p1, g1⟩ | ⟨p1, g1⟩ | ⟨p1, g1⟩
  · simp only []
    intro hh; cases hh
  · rw [hr] at hf
    exact hpg p1 g1 hf.2.1.2.2 (hf.2.2.trans he)
  · rw [hr] at hf
    exact hpg p1 g1 (hf.2.1 h0) (hf.2.2.trans he)

/-! ### A zero before a digit -/

theorem digit_not_ws (d : Nat) (rest : List Nat) (hd : isDigit d) :
    ¬ isWs ((d :: rest).headD 0) ∧ (d :: rest).headD 0 ≠ 0x2C ∧ (d :: rest).headD 0 ≠ 0x7D ∧
      (d :: rest).headD 0 ≠ 0x5D := by
  unfold isDigit at hd
  unfold isWs
  simp only [List.headD_cons]
  omega

theorem zero_not_ws (neg : Bool) (d : Nat) (rest : List Nat) :
    ¬ isWs ((signText neg ++ 0x30 :: d :: rest).headD 0) ∧
      (signText neg ++ 0x30 :: d :: rest).headD 0 ≠ 0x5D := by
  have h := zero_head neg d rest
  unfold isWs
  omega

/-- The loop of `parse_generate` in strict mode at a top-level zero that is
followed by a digit: the integer 0 is delivered and the loop is left after the
zero. -/
theorem parse_generate_zero (fp : FloatPrims) (p : parser) (g : generator (List Event))
    (neg : Bool) (d : Nat) (rest : List Nat) (hd : isDigit d) (hf : p.flags = 0)
    (ha : ahead p.mis = signText neg ++ 0x30 :: d :: rest) :
    parse_generate record_callbacks fp p g =
      GRes.ok () (advance p ((signText neg).length + 1))
        { g with ctx := g.ctx ++ [Event.integer 0] } := by
  obtain ⟨h1, h2, _, _⟩ := digit_not_ws d rest hd
  have ha1 : ahead (advance p ((signText neg).length + 1)).mis = [] ++ d :: rest := by
    rw [ahead_advance, ha, List.drop_append_eq_append_drop]
    simp
  have hloop : pg_loop record_callbacks fp (2 * p.mis.start.length + 3)
      (pg_ctl.top ((signText neg ++ 0x30 :: d :: rest).headD 0) STACK_NONE) p g =
      GRes.ok () (advance p ((signText neg).length + 1))
        { g with ctx := g.ctx ++ [Event.integer 0] } := by
    have hfuel : 2 * p.mis.start.length + 3 = ((2 * p.mis.start.length) + 1) + 1 + 1 := rfl
    rw [hfuel, pg_loop_top_value fp _ _ STACK_NONE p g hf (by decide),
      GM_bind_ok _ _ _ _ _ _ _ (switch_zero fp STACK_NONE p g neg d rest hd ha), pg_loop_inner,
      GM_bind_ok _ _ _ _ _ _ _ (inner_finish (advance p ((signText neg).length + 1)) _ []
        (d :: rest) hf ha1 (by simp) h1 h2)]
    rfl
  unfold parse_generate
  rw [GM_bind_ok _ _ _ _ _ _ _ (liftP_ok (fun p => Res.ok p.flags p) p p p.flags g rfl), hf]
  simp only [flag_set_zero]
  rw [GM_bind_ok _ _ _ _ _ _ _ (ws_step_none p g _ ha (zero_not_ws neg d rest).1),
    GM_bind_ok _ _ _ _ _ _ _
      (liftP_ok (fun p => Res.ok (2 * p.mis.start.length + 3) p) p p _ g rfl),
    GM_bind_ok _ _ _ _ _ _ _ hloop,
    GM_bind_ok _ _ _ _ _ _ _ (ws_step_none _ _ (d :: rest) ha1 h1)]
  rfl

/-- The loop of `parse_generate` in strict mode at an array whose first
element is a zero that is followed by a digit: `start_array` and the integer 0
are delivered, and the digit is met where a comma or `]` is expected. -/
theorem parse_generate_array_zero (fp : FloatPrims) (p : parser) (g : generator (List Event))
    (neg : Bool) (d : Nat) (rest : List Nat) (hd : isDigit d) (hf : p.flags = 0)
    (hok : StackOk p.stack) (hroom : p.stack.ptr < p.stack.size)
    (ha : ahead p.mis = 0x5B :: (signText neg ++ 0x30 :: d :: rest)) :
    ∃ p1, parse_generate record_callbacks fp p g =
        GRes.thrown p1 { g with ctx := g.ctx ++ [Event.start_array, Event.integer 0] } ∧
      p1.mis.read = p.mis.read + ((signText neg).length + 2) ∧
      p1.result.u = result_union.error JSNPG_ERROR_UNEXPECTED := by
  obtain ⟨h1, h2, h3, h4⟩ := digit_not_ws d rest hd
  obtain ⟨z1, z2⟩ := zero_not_ws neg d rest
  obtain ⟨q, hq, hstep, hpush⟩ := switch_array_open fp STACK_NONE p g []
    (signText neg ++ 0x30 :: d :: rest) ha (by simp) z1 z2 hok hroom
  have hfq : q.flags = 0 := hstep.1.trans hf
  have haq : ahead q.mis = signText neg ++ 0x30 :: d :: rest := by
    rw [hstep.2.2.2, ha]; rfl
  have ha1 : ahead (advance q ((signText neg).length + 1)).mis = [] ++ d :: rest := by
    rw [ahead_advance, haq, List.drop_append_eq_append_drop]
    simp
  obtain ⟨p1, hin, hread, hu⟩ := inner_unexpected_at STACK_ARRAY
    (advance q ((signText neg).length + 1))
    { g with ctx := g.ctx ++ [Event.start_array] ++ [Event.integer 0] } [] (d :: rest)
    (by decide) hfq ha1 (by simp) h1 h2 (fun hh => h3 hh.1) (fun hh => h4 hh.1)
  refine ⟨p1, ?_, ?_, hu⟩
  rotate_left
  · rw [hread]
    show q.mis.read + ((signText neg).length + 1) + 0 = _
    rw [hstep.2.1]
    simp only [List.length_nil]
    omega
  · have hloop : pg_loop record_callbacks fp (2 * p.mis.start.length + 3)
        (pg_ctl.top 0x5B STACK_NONE) p g = GRes.thrown p1
          { g with ctx := g.ctx ++ [Event.start_array] ++ [Event.integer 0] } := by
      have hfuel : 2 * p.mis.start.length + 3 = ((2 * p.mis.start.length) + 1) + 1 + 1 := rfl
      rw [hfuel, pg_loop_top_value fp _ _ STACK_NONE p g hf (by decide),
        GM_bind_ok _ _ _ _ _ _ _ hq,
        pg_loop_top_value fp _ _ STACK_ARRAY q _ hfq (by decide),
        GM_bind_ok _ _ _ _ _ _ _ (switch_zero fp STACK_ARRAY q _ neg d rest hd haq),
        pg_loop_inner, GM_bind_thrown _ _ _ _ _ _ hin]
    unfold parse_generate
    rw [GM_bind_ok _ _ _ _ _ _ _ (liftP_ok (fun p => Res.ok p.flags p) p p p.flags g rfl), hf]
    simp only [flag_set_zero]
    rw [GM_bind_ok _ _ _ _ _ _ _ (ws_step_none p g _ ha
        (show ¬ isWs ((0x5B :: (signText neg ++ 0x30 :: d :: rest)).headD 0) by
          unfold isWs; simp)),
      GM_bind_ok _ _ _ _ _ _ _
        (liftP_ok (fun p => Res.ok (2 * p.mis.start.length + 3) p) p p _ g rfl)]
    simp only [List.headD_cons]
    rw [GM_bind_thrown _ _ _ _ _ _ hloop]
    simp only [List.append_assoc, List.singleton_append]

/-! ### The pull parser -/

theorem pull_loop_succ (fp : FloatPrims) (k : Nat) (p : parser) (acc : List Event) :
    pull_loop fp (k + 1) p acc =
      match parser_parse_next fp p with
      | Res.ok _ p1 =>
        match event_of_result p1.result with
        | some e => pull_loop fp k p1 (acc ++ [e])
        | none => (some p1.result, acc)
      | Res.thrown _ => (none, acc)
      | Res.aborted _ => (none, acc) := rfl

/-- A call of `parser_parse_next` that returns an event. -/
theorem pull_loop_event (fp : FloatPrims) (k : Nat) (p p1 : parser) (acc : List Event)
    (t : jsnpg_type) (e : Event) (h : parse_next fp p = Res.ok t p1)
    (he : event_of_result p1.result = some e) :
    pull_loop fp (k + 1) p acc = pull_loop fp k p1 (acc ++ [e]) := by
  rw [pull_loop_succ]
  unfold parser_parse_next
  rw [h]
  simp only [he]

/-- A call of `parser_parse_next` that ends in `throw_parse_error`. -/
theorem pull_loop_thrown (fp : FloatPrims) (k : Nat) (p p1 : parser) (acc : List Event)
    (h : parse_next fp p = Res.thrown p1) (hty : p1.result.type = JSNPG_ERROR) :
    pull_loop fp (k + 1) p acc = (some p1.result, acc) := by
  have he : event_of_result p1.result = none := by
    unfold event_of_result
    rw [hty]
  rw [pull_loop_succ]
  unfold parser_parse_next
  rw [h]
  simp only [he]

/-- The first call of `parse_next` in strict mode at a zero that is followed by
a digit returns the integer 0 and leaves the parser after the zero, in the
state `STATE_DONE`. -/
theorem parse_next_zero (fp : FloatPrims) (p : parser) (neg : Bool) (d : Nat) (rest : List Nat)
    (hd : isDigit d) (hf : p.flags = 0) (hs : p.state = STATE_START)
    (ha : ahead p.mis = signText neg ++ 0x30 :: d :: rest) :
    ∃ p1, parse_next fp p = Res.ok JSNPG_INTEGER p1 ∧
      p1.result.type = JSNPG_INTEGER ∧ p1.result.u = result_union.integer 0 ∧
      p1.state = STATE_DONE ∧ p1.flags = 0 ∧
      p1.mis = (advance p ((signText neg).length + 1)).mis := by
  have hh := zero_head neg d rest
  have hb : (signText neg ++ 0x30 :: d :: rest).headD 0 ≠ 0x5B ∧
      (signText neg ++ 0x30 :: d :: rest).headD 0 ≠ 0x7B ∧
      (signText neg ++ 0x30 :: d :: rest).headD 0 ≠ 0x22 ∧
      (signText neg ++ 0x30 :: d :: rest).headD 0 ≠ 0x74 ∧
      (signText neg ++ 0x30 :: d :: rest).headD 0 ≠ 0x66 ∧
      (signText neg ++ 0x30 :: d :: rest).headD 0 ≠ 0x6E := by omega
  have hnum : (signText neg ++ 0x30 :: d :: rest).headD 0 = 0x2D ∨
      (0x30 ≤ (signText neg ++ 0x30 :: d :: rest).headD 0 ∧
        (signText neg ++ 0x30 :: d :: rest).headD 0 ≤ 0x39) := by omega
  obtain ⟨b1, b2, b3, b4, b5, b6⟩ := hb
  have hw := consume_whitespace_ok p [] (signText neg ++ 0x30 :: d :: rest) (by simp) ha
    (zero_not_ws neg d rest).1
  refine ⟨{ advance p ((signText neg).length + 1) with
      state := STATE_DONE,
      result := make_parse_result
        { advance p ((signText neg).length + 1) with state := STATE_DONE }
        JSNPG_INTEGER (result_union.integer 0) }, ?_, ?_, ?_, ?_, ?_, ?_⟩
  · unfold parse_next
    simp only [PM_bind_apply, hf, flag_set_zero, hs, hw]
    simp only [show STATE_START ≠ STATE_EOF by decide, if_false]
    unfold parse_next_switch
    simp only [PM_bind_apply]
    unfold parse_next_value
    simp only [b1, b2, b3, b4, b5, b6, if_false, hnum, if_true, PM_bind_apply]
    have hn := parse_number_zero fp (advance p ([] : List Nat).length) neg d rest hd ha
    rw [hn]
    simp only []
    unfold accept_integer accept_value state_change_value
    simp only [show (advance (advance p ([] : List Nat).length)
      ((signText neg).length + 1)).state = STATE_START from hs, if_true]
    rfl
  · rfl
  · rfl
  · rfl
  · exact hf
  · rfl

/-- A call of `parse_next` in strict mode after the top-level value, at a byte
that is not whitespace and not the end of the input, throws `unexpected`
there. -/
theorem parse_next_trailing (fp : FloatPrims) (p : parser) (rest : List Nat)
    (hf : p.flags = 0) (hs : p.state = STATE_DONE) (ha : ahead p.mis = rest)
    (hr : ¬ isWs (rest.headD 0)) (hne : p.mis.read ≠ p.mis.count) :
    parse_next fp p = Res.thrown
      { p with result := make_error_return JSNPG_ERROR_UNEXPECTED (parse_position p) } := by
  have hw := consume_whitespace_ok p [] rest (by simp) ha hr
  have heof : mis_eof p.mis = false := by
    unfold mis_eof mis_tell
    simp only [beq_eq_false_iff_ne, ne_eq]
    exact hne
  have hp : advance p ([] : List Nat).length = p := rfl
  rw [hp] at hw
  have e1 : parse_next fp p = parse_next_switch fp STATE_DONE (rest.headD 0) p := by
    unfold parse_next
    simp only [PM_bind_apply, hf, flag_set_zero, hw]
    rw [hs]
    simp only [show STATE_DONE ≠ STATE_EOF by decide, if_false]
  have e2 : parse_next_switch fp STATE_DONE (rest.headD 0) p =
      throw_parse_error JSNPG_ERROR_UNEXPECTED p := by
    unfold parse_next_switch
    simp only [PM_bind_apply, hf, flag_set_zero, hw, get_mis_apply, heof]
    simp only [Bool.not_false, if_true, Bool.false_eq_true, if_false]
  rw [e1, e2]
  rfl

/-- The pull parser in strict mode on a top-level zero that is followed by a
digit: the integer 0, then the error `unexpected` at the digit. -/
theorem pull_events_zero (fp : FloatPrims) (neg : Bool) (d : Nat) (rest : List Nat)
    (hd : isDigit d) :
    pull_events fp 0 (signText neg ++ 0x30 :: d :: rest) =
      (some (make_error_return JSNPG_ERROR_UNEXPECTED ((signText neg).length + 1)),
        [Event.integer 0]) := by
  have hhead : (signText neg ++ 0x30 :: d :: rest).headD 0 ≠ 0xEF := by
    have := zero_head neg d rest; omega
  obtain ⟨f1, f2, f3, f4, f5, f6, f7, _⟩ := strict_start_facts _ hhead
  generalize hp0 : jsnpg_parser_new_bytes 0 0 (signText neg ++ 0x30 :: d :: rest)
    (signText neg ++ 0x30 :: d :: rest).length = p0 at f1 f2 f3 f4 f5 f6 f7
  have ha0 : ahead p0.mis = signText neg ++ 0x30 :: (d :: (rest ++ [0])) := by
    rw [f2]; simp
  obtain ⟨p1, h1, hty, hu, hst, hfl, hmis⟩ := parse_next_zero fp p0 neg d (rest ++ [0]) hd f1 f7 ha0
  have he : event_of_result p1.result = some (Event.integer 0) := by
    unfold event_of_result
    rw [hty, hu]
  have ha1 : ahead p1.mis = d :: (rest ++ [0]) := by
    rw [hmis, ahead_advance, ha0, List.drop_append_eq_append_drop]
    simp
  have hread : p1.mis.read = (signText neg).length + 1 := by
    rw [hmis]
    show p0.mis.read + _ = _
    rw [f3]; omega
  have hstart : p1.mis.has_start = true := by rw [hmis]; exact f5
  have hne : p1.mis.read ≠ p1.mis.count := by
    rw [hread, hmis]
    show _ ≠ p0.mis.count
    rw [f4]
    simp only [List.length_append, List.length_cons]
    omega
  have h2 := parse_next_trailing fp p1 _ hfl hst ha1 (digit_not_ws d _ hd).1 hne
  unfold pull_events
  simp only []
  rw [hp0, f6]
  have hfuel : (signText neg ++ 0x30 :: d :: rest).length + 1 + 1 =
      ((signText neg ++ 0x30 :: d :: rest).length) + 1 + 1 := rfl
  rw [hfuel, pull_loop_event fp _ p0 p1 [] _ _ h1 he, pull_loop_thrown fp _ p1 _ _ h2 rfl]
  simp only [List.nil_append, Prod.mk.injEq, and_true, Option.some.injEq]
  unfold parse_position mis_tell
  rw [if_pos hstart, hread]

/-! ### A string that is not closed -/

/-- The string loop at the sentinel: the error `invalid`. -/
theorem loop_nul (v : Bool) (k : Nat) (p : parser) (S : List Nat) (ha : ahead p.mis = 0 :: S) :
    parse_string_loop v (k + 1) p = throw_parse_error JSNPG_ERROR_INVALID p := by
  have hp : mis_peek p.mis = 0 := by rw [mis_peek_eq, ha]; rfl
  have hv : (v && decide ((0 : Nat) ≥ 0x80)) = false := by
    cases v <;> rfl
  show (do
    let c ← get_mis mis_peek
    if c = 0x22 then on_mis mis_string_complete
    else if c = 0x5C then
      set_mis mis_string_update
      let codepoint ← parse_escape
      set_mis (fun m => mis_write_bytes m (utf8_encode codepoint))
      set_mis mis_string_restart
      parse_string_loop v k
    else if v && decide (c ≥ 0x80) then
      if !(← on_mis mis_validate_utf8) then throw_parse_error JSNPG_ERROR_UTF8
      else parse_string_loop v k
    else if c < 0x20 then throw_parse_error JSNPG_ERROR_INVALID
    else
      let _ ← on_mis mis_take
      parse_string_loop v k : PM (List Nat × Nat)) p = _
  simp only [PM_bind_apply, get_mis_apply, hp, (show (0 : Nat) ≠ 0x22 by decide),
    (show (0 : Nat) ≠ 0x5C by decide), if_false, hv, Bool.false_eq_true,
    (show (0 : Nat) < 0x20 by decide), if_true]

/-- The loop of `parse_string_in_stream` over the elements of a well-formed
literal that the sentinel follows instead of the closing quote: the error
`invalid` at the sentinel. -/
theorem parse_string_loop_open (v : Bool) (items : List StrItem) :
    ∀ (p : parser) (s : Nat) (D : List Nat), (∀ it ∈ items, it.wf) →
      StrInv p.mis s D (literalText items ++ [0]) →
      ∃ n p1, n ≤ (literalText items).length + 1 ∧
        (∀ k, parse_string_loop v (k + n) p = Res.thrown p1) ∧
        p1.mis.read = p.mis.read + (literalText items).length ∧
        p1.result.u = result_union.error JSNPG_ERROR_INVALID := by
  induction items with
  | nil =>
    intro p s D _ hi
    simp only [literalText, List.nil_append] at hi
    have ha := StrInv_ahead _ _ _ _ hi
    exact ⟨1, _, by simp, fun k => loop_nul v k p [] ha, rfl, rfl⟩
  | cons it items ih =>
    intro p s D hwf hi
    have hwf1 := hwf it (List.mem_cons_self _ _)
    have hwf2 : ∀ x ∈ items, x.wf := fun x hx => hwf x (List.mem_cons_of_mem _ hx)
    simp only [literalText, List.append_assoc] at hi
    have hS : ∀ b ∈ literalText items ++ [0], b < 256 := by
      intro b hb
      rcases List.mem_append.1 hb with hb | hb
      · exact literalText_bytes items hwf2 b hb
      · rw [List.mem_singleton.1 hb]; norm_num
    by_cases hesc : it.isEscape = true
    · obtain ⟨mis1, e1, hi1, _, hr1, _⟩ := loop_escape v p it s D _ hwf1 hesc hi
      obtain ⟨n, p1, hn, e2, h2, h3⟩ :=
        ih { p with mis := mis1 } s (D ++ utf8Encoding it.codepoint) hwf2 hi1
      refine ⟨n + 1, p1, ?_, ?_, ?_, h3⟩
      · have := item_shrinks it hwf1 hesc
        simp only [literalText, List.length_append]; omega
      · intro k
        rw [← Nat.add_assoc, e1, e2]
      · rw [h2]
        show mis1.read + _ = _
        rw [hr1]
        simp only [literalText, List.length_append]; omega
    · cases it with
      | char cp =>
        have ha := StrInv_ahead _ _ _ _ hi
        simp only [StrItem.text] at hi ha
        obtain ⟨n1, hn1, e1⟩ := loop_char v p cp _ hwf1 ha hS
        have hi1 := StrInv_run _ _ _ _ _ hi
        obtain ⟨n, p1, hn, e2, h2, h3⟩ :=
          ih (advance p (utf8Encoding cp).length) s (D ++ utf8Encoding cp) hwf2 hi1
        refine ⟨n + n1, p1, ?_, ?_, ?_, h3⟩
        · simp only [literalText, List.length_append, StrItem.text]; omega
        · intro k
          rw [← Nat.add_assoc, e1, e2]
        · rw [h2]
          show p.mis.read + _ + _ = _
          simp only [literalText, List.length_append, StrItem.text]; omega
      | esc e => simp [StrItem.isEscape] at hesc
      | u4 h1 h2 h3 h4 => simp [StrItem.isEscape] at hesc
      | pair h1 h2 h3 h4 l1 l2 l3 l4 => simp [StrItem.isEscape] at hesc

/-- The function `parse_string` on a well-formed literal that the sentinel
follows instead of the closing quote: the error `invalid` at the sentinel. -/
theorem parse_string_open (v : Bool) (p : parser) (items : List StrItem)
    (hwf : ∀ it ∈ items, it.wf) (ha : ahead p.mis = 0x22 :: (literalText items ++ [0])) :
    ∃ p1, parse_string v p = Res.thrown p1 ∧
      p1.mis.read = p.mis.read + ((literalText items).length + 1) ∧
      p1.result.u = result_union.error JSNPG_ERROR_INVALID := by
  have ha1 : ahead (advance p 1).mis = literalText items ++ [0] := by
    rw [ahead_advance, ha]; rfl
  have hi := StrInv_start (advance p 1).mis _ ha1 (by simp)
  obtain ⟨n, p1, hn, e, h2, h3⟩ :=
    parse_string_loop_open v items { advance p 1 with mis := mis_string_start (advance p 1).mis }
      (advance p 1).mis.read [] hwf hi
  have hlen := ahead_length p.mis
  rw [ha] at hlen
  simp only [List.length_cons, List.length_append] at hlen
  have hfuel : ∃ k, p.mis.start.length + 1 - (p.mis.read + 1) = k + n :=
    ⟨p.mis.start.length + 1 - (p.mis.read + 1) - n, by omega⟩
  obtain ⟨k, hk⟩ := hfuel
  refine ⟨p1, ?_, ?_, h3⟩
  · unfold parse_string parse_string_in_stream
    rw [← advance_zero p]
    simp only [PM_bind_apply, take_adv, set_mis_apply, Nat.zero_add]
    show parse_string_loop v (p.mis.start.length + 1 - (p.mis.read + 1)) _ = _
    rw [hk]
    exact e k
  · rw [h2]
    show p.mis.read + 1 + _ = _
    omega

/-- The push parser in strict mode on a string that is not closed: no event,
the error `invalid` at the end of the input. -/
theorem push_events_open_string (fp : FloatPrims) (items : List StrItem)
    (hwf : ∀ it ∈ items, it.wf) :
    push_events fp 0 (0x22 :: literalText items) =
      (make_error_return JSNPG_ERROR_INVALID ((literalText items).length + 1), []) := by
  obtain ⟨f1, f2, f3, _, _, _, _, _⟩ := strict_start_facts (0x22 :: literalText items)
    (by rw [List.headD_cons]; norm_num)
  obtain ⟨p0, hp0⟩ : ∃ p0, p0 = jsnpg_parser_new_bytes 0 0 (0x22 :: literalText items)
    (0x22 :: literalText items).length := ⟨_, rfl⟩
  rw [← hp0] at f1 f2 f3
  have ha0 : ahead p0.mis = 0x22 :: (literalText items ++ [0]) := by rw [f2]; rfl
  obtain ⟨p1, h1, hread, hu⟩ := parse_string_open true p0 items hwf ha0
  have hpg : parse_generate record_callbacks fp p0 (generator_new 0 0 []) =
      GRes.thrown p1 (generator_new 0 0 []) := by
    have hloop : pg_loop record_callbacks fp (2 * p0.mis.start.length + 3)
        (pg_ctl.top 0x22 STACK_NONE) p0 (generator_new 0 0 []) =
        GRes.thrown p1 (generator_new 0 0 []) := by
      have hfuel : 2 * p0.mis.start.length + 3 = (2 * p0.mis.start.length + 2) + 1 := rfl
      rw [hfuel, pg_loop_top_value fp _ _ STACK_NONE p0 _ f1 (by decide)]
      have hsw : pg_top_switch record_callbacks fp false false true 0x22 STACK_NONE p0
          (generator_new 0 0 []) = GRes.thrown p1 (generator_new 0 0 []) := by
        unfold pg_top_switch
        simp only [Nat.reduceEqDiff, if_false, if_true, GM_bind_apply, liftP_apply, h1]
      rw [GM_bind_thrown _ _ _ _ _ _ hsw]
    unfold parse_generate
    rw [GM_bind_ok _ _ _ _ _ _ _ (liftP_ok (fun p => Res.ok p.flags p) p0 p0 p0.flags _ rfl), f1]
    simp only [flag_set_zero]
    rw [GM_bind_ok _ _ _ _ _ _ _ (ws_step_none p0 _ _ ha0
        (show ¬ isWs ((0x22 :: (literalText items ++ [0])).headD 0) by unfold isWs; simp)),
      GM_bind_ok _ _ _ _ _ _ _
        (liftP_ok (fun p => Res.ok (2 * p.mis.start.length + 3) p) p0 p0 _ _ rfl)]
    simp only [List.headD_cons]
    rw [GM_bind_thrown _ _ _ _ _ _ hloop]
  subst hp0
  rw [push_events_thrown_at fp _ p1 _ _ hpg hu (by decide), hread, f3, Nat.zero_add]
  rfl

/-- The pull parser in strict mode on a string that is not closed: no event,
the error `invalid` at the end of the input. -/
theorem pull_events_open_string (fp : FloatPrims) (items : List StrItem)
    (hwf : ∀ it ∈ items, it.wf) :
    pull_events fp 0 (0x22 :: literalText items) =
      (some (make_error_return JSNPG_ERROR_INVALID ((literalText items).length + 1)), []) := by
  obtain ⟨f1, f2, f3, _, f5, f6, f7, _⟩ := strict_start_facts (0x22 :: literalText items)
    (by rw [List.headD_cons]; norm_num)
  obtain ⟨p0, hp0⟩ : ∃ p0, p0 = jsnpg_parser_new_bytes 0 0 (0x22 :: literalText items)
    (0x22 :: literalText items).length := ⟨_, rfl⟩
  rw [← hp0] at f1 f2 f3 f5 f6 f7
  have ha0 : ahead p0.mis = 0x22 :: (literalText items ++ [0]) := by rw [f2]; rfl
  obtain ⟨p1, h1, hread, hu⟩ := parse_string_open true p0 items hwf ha0
  have hw := consume_whitespace_ok p0 [] (0x22 :: (literalText items ++ [0])) (by simp) ha0
    (by unfold isWs; simp)
  have hp : advance p0 ([] : List Nat).length = p0 := rfl
  rw [hp] at hw
  have hnext : parse_next fp p0 = Res.thrown p1 := by
    have e1 : parse_next fp p0 = parse_next_switch fp STATE_START 0x22 p0 := by
      unfold parse_next
      simp only [PM_bind_apply, f1, flag_set_zero, hw]
      rw [f7]
      simp only [show STATE_START ≠ STATE_EOF by decide, if_false, List.headD_cons]
    rw [e1]
    unfold parse_next_switch
    simp only [PM_bind_apply, f1, flag_set_zero]
    unfold parse_next_value
    simp only [if_true, PM_bind_apply, Bool.not_false, h1]
  obtain ⟨hs, hty, hpos, _⟩ := parse_next_thrown fp p0 p1 (by rw [f7]; decide) hnext
  have hres : p1.result = make_error_return JSNPG_ERROR_INVALID
      ((literalText items).length + 1) := by
    have hp : p1.result.position = (literalText items).length + 1 := by
      rw [hpos]; unfold parse_position mis_tell
      rw [if_pos (hs.trans f5), hread, f3, Nat.zero_add]
    rcases hr : p1.result with ⟨ty, pos, u⟩
    rw [hr] at hty hu hp
    simp only [] at hty hu hp
    rw [hty, hu, hp]
    rfl
  unfold pull_events
  simp only []
  rw [← hp0, f6]
  have hfuel : (0x22 :: literalText items).length + 1 + 1 =
      ((0x22 :: literalText items).length + 1) + 1 := rfl
  rw [hfuel, pull_loop_thrown fp _ p0 p1 _ hnext hty, hres]

/-! ### An array or object that is not closed -/

/-- The whole of `parse_generate` in strict mode when its loop throws. -/
theorem parse_generate_thrown (fp : FloatPrims) (p p1 : parser)
    (g g1 : generator (List Event)) (rest : List Nat) (hf : p.flags = 0)
    (ha : ahead p.mis = rest) (hr : ¬ isWs (rest.headD 0))
    (hloop : pg_loop record_callbacks fp (2 * p.mis.start.length + 3)
      (pg_ctl.top (rest.headD 0) STACK_NONE) p g = GRes.thrown p1 g1) :
    parse_generate record_callbacks fp p g = GRes.thrown p1 g1 := by
  unfold parse_generate
  rw [GM_bind_ok _ _ _ _ _ _ _ (liftP_ok (fun p => Res.ok p.flags p) p p p.flags g rfl), hf]
  simp only [flag_set_zero]
  rw [GM_bind_ok _ _ _ _ _ _ _ (ws_step_none p g rest ha hr),
    GM_bind_ok _ _ _ _ _ _ _
      (liftP_ok (fun p => Res.ok (2 * p.mis.start.length + 3) p) p p _ g rfl),
    GM_bind_thrown _ _ _ _ _ _ hloop]

/-- The loop of `parse_generate` over the elements of an array or the members
of an object that the sentinel follows instead of the closing bracket or
brace: the events of the elements or members are delivered, and the error is
`unexpected` at the sentinel. -/
theorem container_open_run (fp : FloatPrims) (c : Int) (t : List Nat) (evs : List Event)
    (d : Nat) (q : parser) (g : generator (List Event)) (ws2 : List Nat) (k : Nat)
    (hc : c ≠ STACK_NONE) (hrun : ContainerRun fp c t evs d q g) (hd : d ≤ stack_room q)
    (hov : overflowPrefix (stack_room q) evs = evs) (ha : ahead q.mis = t ++ (ws2 ++ [0]))
    (hf : q.flags = 0) (hws2 : ∀ b ∈ ws2, isWs b) (hk : t.length + 1 ≤ k) :
    ∃ p1, pg_loop record_callbacks fp k (pg_ctl.top (t.headD 0) c) q g =
        GRes.thrown p1 (deliver g evs) ∧
      p1.mis.read = q.mis.read + (t.length + ws2.length) ∧
      p1.result.u = result_union.error JSNPG_ERROR_UNEXPECTED := by
  obtain ⟨n, q1, hn, hr, hland⟩ := hrun
  obtain ⟨hstep, _⟩ := hland.1 hd
  have ha1 : ahead q1.mis = ws2 ++ [0] := Stepped_ahead _ _ _ t _ hstep ha rfl
  obtain ⟨p1, hin, hread, hu⟩ := inner_unexpected_at c q1 (deliver g evs) ws2 [0] hc
    (hstep.1.trans hf) ha1 hws2 (by decide) (by decide) (fun h => by cases h.1)
    (fun h => by cases h.1)
  refine ⟨p1, ?_, ?_, hu⟩
  · have hfuel : k = ((k - n - 1) + 1) + n := by omega
    rw [hfuel, hr, if_pos hd, run_to_some, hov, pg_loop_inner, GM_bind_thrown _ _ _ _ _ _ hin]
  · rw [hread, hstep.2.1]; omega

theorem bytes_ahead (text : List Nat) (hb : ∀ b ∈ text, b < 256) :
    ∀ b ∈ text ++ [0], b < 256 := by
  intro b h
  rcases List.mem_append.1 h with h | h
  · exact hb b h
  · rw [List.mem_singleton.1 h]; norm_num

/-- The push parser in strict mode on an array that the input ends in, after
an element and before a comma or `]`: `start_array` and the events of the
elements, then the error `unexpected` at the end of the input. -/
theorem push_events_open_array (N : List Nat → Event → Prop) (fp : FloatPrims)
    (hN : ∀ text e, N text e → NumParses fp text e)
    (ws1 t ws2 : List Nat) (evs : List Event) (d : Nat)
    (hws1 : ∀ b ∈ ws1, isWs b) (hws2 : ∀ b ∈ ws2, isWs b)
    (hj : Json N Kind.elements t evs d) (hd : d < 1024)
    (hb : ∀ b ∈ 0x5B :: (ws1 ++ (t ++ ws2)), b < 256) :
    push_events fp 0 (0x5B :: (ws1 ++ (t ++ ws2))) =
      (make_error_return JSNPG_ERROR_UNEXPECTED (0x5B :: (ws1 ++ (t ++ ws2))).length,
        Event.start_array :: evs) := by
  obtain ⟨hstart, _⟩ := json_head N fp hN _ _ _ _ hj
  obtain ⟨n1, n2, _, _, _, _⟩ := start_not_ws _ hstart
  have hhead : (t ++ (ws2 ++ [0])).headD 0 = t.headD 0 := headD_append_of_start t _ hstart
  obtain ⟨f1, f2, f3, _, _, f6, _, f8⟩ := strict_start_facts (0x5B :: (ws1 ++ (t ++ ws2)))
    (by rw [List.headD_cons]; norm_num)
  obtain ⟨p0, hp0⟩ : ∃ p0, p0 = jsnpg_parser_new_bytes 0 0 (0x5B :: (ws1 ++ (t ++ ws2)))
    (0x5B :: (ws1 ++ (t ++ ws2))).length := ⟨_, rfl⟩
  rw [← hp0] at f1 f2 f3 f6 f8
  have ha0 : ahead p0.mis = 0x5B :: (ws1 ++ (t ++ (ws2 ++ [0]))) := by
    rw [f2]; simp
  have hb0 : ∀ b ∈ ahead p0.mis, b < 256 := by
    rw [f2]; exact bytes_ahead _ hb
  have hok : StackOk p0.stack := by rw [f8]; unfold StackOk; simp
  have hroom : p0.stack.ptr < p0.stack.size := by rw [f8]; norm_num
  obtain ⟨q, hq, hstep, hpush⟩ := switch_array_open fp STACK_NONE p0 (generator_new 0 0 []) ws1
    (t ++ (ws2 ++ [0])) ha0 hws1 (by rw [hhead]; exact n1) (by rw [hhead]; exact n2) hok hroom
  rw [hhead] at hq
  have hfq : q.flags = 0 := hstep.1.trans f1
  have haq : ahead q.mis = t ++ (ws2 ++ [0]) := by
    rw [hstep.2.2.2, ha0]
    show List.drop (1 + ws1.length) (0x5B :: (ws1 ++ (t ++ (ws2 ++ [0])))) = _
    rw [Nat.add_comm, List.drop_succ_cons, List.drop_left]
  have hat : AtText q t (ws2 ++ [0]) := by
    refine ⟨haq, ?_, delim_after_ws ws2 0 [] hws2 (Or.inl rfl), hfq,
      Pushed_ok _ _ _ hpush hok hroom⟩
    intro b hbm
    rw [hstep.2.2.2] at hbm
    exact hb0 b (List.mem_of_mem_drop hbm)
  obtain ⟨_, he, _⟩ := pg_run N fp hN Kind.elements t evs d hj q
    { generator_new 0 0 [] with ctx := (generator_new 0 0 []).ctx ++ [Event.start_array] }
    (ws2 ++ [0]) hat
  have hrq : stack_room q = 1023 := by
    unfold stack_room
    rw [hpush.1, hpush.2.1, f8]
    rfl
  have hov : overflowPrefix (stack_room q) evs = evs := by
    have := overflow_fits N fp hN _ _ _ _ hj (stack_room q) [] (by rw [hrq]; omega)
    simpa [overflowPrefix] using this
  obtain ⟨p1, hloop, hread, hu⟩ := container_open_run fp STACK_ARRAY t evs d q _ ws2
    (2 * p0.mis.start.length + 2) (by decide) (he rfl (Pushed_type _ _ _ hpush))
    (by rw [hrq]; omega) hov haq hfq hws2
    (by rw [f6]; simp only [List.length_cons, List.length_append]; omega)
  have hpg := parse_generate_thrown fp p0 p1 (generator_new 0 0 []) _ _ f1 ha0
    (by rw [List.headD_cons]; unfold isWs; norm_num)
    (by
      have hfuel : 2 * p0.mis.start.length + 3 = (2 * p0.mis.start.length + 2) + 1 := rfl
      rw [hfuel, List.headD_cons, pg_loop_top_value fp _ _ STACK_NONE p0 _ f1 (by decide),
        GM_bind_ok _ _ _ _ _ _ _ hq]
      exact hloop)
  subst hp0
  rw [push_events_thrown_at fp _ p1 _ _ hpg hu (by decide), hread, hstep.2.1, f3]
  simp only [deliver, List.length_cons, List.length_append, Prod.mk.injEq]
  refine ⟨?_, rfl⟩
  congr 1
  omega

/-- The push parser in strict mode on an object that the input ends in, after
a member and before a comma or `}`: `start_object` and the events of the
members, then the error `unexpected` at the end of the input. -/
theorem push_events_open_object (N : List Nat → Event → Prop) (fp : FloatPrims)
    (hN : ∀ text e, N text e → NumParses fp text e)
    (ws1 t ws2 : List Nat) (evs : List Event) (d : Nat)
    (hws1 : ∀ b ∈ ws1, isWs b) (hws2 : ∀ b ∈ ws2, isWs b)
    (hj : Json N Kind.members t evs d) (hd : d < 1024)
    (hb : ∀ b ∈ 0x7B :: (ws1 ++ (t ++ ws2)), b < 256) :
    push_events fp 0 (0x7B :: (ws1 ++ (t ++ ws2))) =
      (make_error_return JSNPG_ERROR_UNEXPECTED (0x7B :: (ws1 ++ (t ++ ws2))).length,
        Event.start_object :: evs) := by
  obtain ⟨hstart, _⟩ := json_head N fp hN _ _ _ _ hj
  obtain ⟨n1, _, n2, _, _, _⟩ := start_not_ws _ hstart
  have hhead : (t ++ (ws2 ++ [0])).headD 0 = t.headD 0 := headD_append_of_start t _ hstart
  obtain ⟨f1, f2, f3, _, _, f6, _, f8⟩ := strict_start_facts (0x7B :: (ws1 ++ (t ++ ws2)))
    (by rw [List.headD_cons]; norm_num)
  obtain ⟨p0, hp0⟩ : ∃ p0, p0 = jsnpg_parser_new_bytes 0 0 (0x7B :: (ws1 ++ (t ++ ws2)))
    (0x7B :: (ws1 ++ (t ++ ws2))).length := ⟨_, rfl⟩
  rw [← hp0] at f1 f2 f3 f6 f8
  have ha0 : ahead p0.mis = 0x7B :: (ws1 ++ (t ++ (ws2 ++ [0]))) := by
    rw [f2]; simp
  have hb0 : ∀ b ∈ ahead p0.mis, b < 256 := by
    rw [f2]; exact bytes_ahead _ hb
  have hok : StackOk p0.stack := by rw [f8]; unfold StackOk; simp
  have hroom : p0.stack.ptr < p0.stack.size := by rw [f8]; norm_num
  obtain ⟨q, hq, hstep, hpush⟩ := switch_object_open fp STACK_NONE p0 (generator_new 0 0 []) ws1
    (t ++ (ws2 ++ [0])) ha0 hws1 (by rw [hhead]; exact n1) (by rw [hhead]; exact n2) hok hroom
  rw [hhead] at hq
  have hfq : q.flags = 0 := hstep.1.trans f1
  have haq : ahead q.mis = t ++ (ws2 ++ [0]) := by
    rw [hstep.2.2.2, ha0]
    show List.drop (1 + ws1.length) (0x7B :: (ws1 ++ (t ++ (ws2 ++ [0])))) = _
    rw [Nat.add_comm, List.drop_succ_cons, List.drop_left]
  have hat : AtText q t (ws2 ++ [0]) := by
    refine ⟨haq, ?_, delim_after_ws ws2 0 [] hws2 (Or.inl rfl), hfq,
      Pushed_ok _ _ _ hpush hok hroom⟩
    intro b hbm
    rw [hstep.2.2.2] at hbm
    exact hb0 b (List.mem_of_mem_drop hbm)
  obtain ⟨_, _, he⟩ := pg_run N fp hN Kind.members t evs d hj q
    { generator_new 0 0 [] with ctx := (generator_new 0 0 []).ctx ++ [Event.start_object] }
    (ws2 ++ [0]) hat
  have hrq : stack_room q = 1023 := by
    unfold stack_room
    rw [hpush.1, hpush.2.1, f8]
    rfl
  have hov : overflowPrefix (stack_room q) evs = evs := by
    have := overflow_fits N fp hN _ _ _ _ hj (stack_room q) [] (by rw [hrq]; omega)
    simpa [overflowPrefix] using this
  obtain ⟨p1, hloop, hread, hu⟩ := container_open_run fp STACK_OBJECT t evs d q _ ws2
    (2 * p0.mis.start.length + 2) (by decide) (he rfl (Pushed_type _ _ _ hpush))
    (by rw [hrq]; omega) hov haq hfq hws2
    (by rw [f6]; simp only [List.length_cons, List.length_append]; omega)
  have hpg := parse_generate_thrown fp p0 p1 (generator_new 0 0 []) _ _ f1 ha0
    (by rw [List.headD_cons]; unfold isWs; norm_num)
    (by
      have hfuel : 2 * p0.mis.start.length + 3 = (2 * p0.mis.start.length + 2) + 1 := rfl
      rw [hfuel, List.headD_cons, pg_loop_top_value fp _ _ STACK_NONE p0 _ f1 (by decide),
        GM_bind_ok _ _ _ _ _ _ _ hq]
      exact hloop)
  subst hp0
  rw [push_events_thrown_at fp _ p1 _ _ hpg hu (by decide), hread, hstep.2.1, f3]
  simp only [deliver, List.length_cons, List.length_append, Prod.mk.injEq]
  refine ⟨?_, rfl⟩
  congr 1
  omega

/-! ### The error `eof` -/

/-- A call of `parse_next` in the state `STATE_EOF`, which the parser is in
after it has returned `eof`, throws the error `eof`. -/
theorem parse_next_after_eof (fp : FloatPrims) (p : parser) (hs : p.state = STATE_EOF)
    (hc : flag_set p.flags JSNPG_ALLOW_COMMENTS = false) :
    ∃ p1, parse_next fp p = Res.thrown p1 ∧ p1.result.type = JSNPG_ERROR ∧
      p1.result.u = result_union.error JSNPG_ERROR_EOF := by
  refine ⟨{ p with mis := (mis_consume_whitespace p.mis).2,
                   result := make_error_return JSNPG_ERROR_EOF
                     (parse_position { p with mis := (mis_consume_whitespace p.mis).2 }) },
    ?_, rfl, rfl⟩
  unfold parse_next consume_whitespace
  simp only [PM_bind_apply, hc, Bool.not_false, if_true, on_mis_apply]
  rw [if_pos hs]
  rfl

end Jsnpg

namespace Jsnpg

open jsnpg_type jsnpg_error_code

/-- C1 fails on the code at two inputs, with every option cleared.  On `1,2`
the push parser hands its sink two integers and returns eof, while the pull
parser returns the first integer and then the error `unexpected`.  On
`{"a":1 "b":2}` the pull parser returns all six events and then eof, while the
push parser stops with `unexpected` after the first three. -/
theorem C1_pull_and_push_disagree :
    (push_events no_float 0 [0x31, 0x2C, 0x32] =
        ({ type := JSNPG_EOF, position := 3, u := result_union.none },
          [Event.integer 1, Event.integer 2]) ∧
      pull_events no_float 0 [0x31, 0x2C, 0x32] =
        (some { type := JSNPG_ERROR, position := 1,
                u := result_union.error JSNPG_ERROR_UNEXPECTED },
          [Event.integer 1])) ∧
    (push_events no_float 0
          [0x7B, 0x22, 0x61, 0x22, 0x3A, 0x31, 0x20, 0x22, 0x62, 0x22, 0x3A, 0x32, 0x7D] =
        ({ type := JSNPG_ERROR, position := 7,
           u := result_union.error JSNPG_ERROR_UNEXPECTED },
          [Event.start_object, Event.key [0x61], Event.integer 1]) ∧
      pull_events no_float 0
          [0x7B, 0x22, 0x61, 0x22, 0x3A, 0x31, 0x20, 0x22, 0x62, 0x22, 0x3A, 0x32, 0x7D] =
        (some { type := JSNPG_EOF, position := 13, u := result_union.none },
          [Event.start_object, Event.key [0x61], Event.integer 1, Event.key [0x62],
            Event.integer 2, Event.end_object])) := by
  decide!

end Jsnpg

namespace Jsnpg
open jsnpg_type jsnpg_error_code parse_state

/-- C2: for every input that holds one JSON value of the strict grammar, nested
at most 1024 deep (so that the strict push parser succeeds on it and hands
over the events `v` of the text), with the formatter keeping its contract on
the reals among `v` (the text it gives for a double is read back by
`parse_number` as that double): the JSON emitter with indent 0 accepts every
event of `v`, and the push parser on the bytes it wrote succeeds and hands
over exactly `v` again. -/
theorem C2_emit_parse_round_trip (fp : FloatPrims) (text : List Nat) (v : List Event) (d : Nat)
    (hj : JsonText (StrictNumber fp) text v d) (hb : ∀ b ∈ text, b < 256) (hd : d ≤ 1024)
    (hreal : ∀ r, Event.real r ∈ v → RealOk fp r) :
    (push_events fp 0 text).1.type = JSNPG_EOF ∧ (push_events fp 0 text).2 = v ∧
    (emit_events fp 0 0 v).1 = true ∧
    (push_events fp 0 (emit_events fp 0 0 v).2).1.type = JSNPG_EOF ∧
    (push_events fp 0 (emit_events fp 0 0 v).2).2 = v := by
  have h1 := (push_events_json (StrictNumber fp) fp (strict_number_parses fp) text v d hj
    hb).2.1 hd
  obtain ⟨ws1, t, ws2, _, _, hjv, _⟩ := hj
  have ht : EventTree (ValueOk fp) Kind.value v d :=
    json_tree (StrictNumber fp) (fun e => ∀ r, e = Event.real r → RealOk fp r)
      (strict_number_ok fp) Kind.value t v d hjv
      (fun e he r hr => hreal r (hr ▸ he))
  obtain ⟨h2, _, h3⟩ := emit_parse fp 0 v d ht (by omega)
  exact ⟨h1.1, h1.2, h2, (h3 hd).1, (h3 hd).2⟩

theorem C2_emit_parse_round_trip_witness :
    JsonText (StrictNumber any_float)
        [0x20, 0x5B, 0x74, 0x72, 0x75, 0x65, 0x2C, 0x20, 0x2D, 0x31, 0x32, 0x5D, 0x0A]
        [Event.start_array, Event.boolean true, Event.integer (-12), Event.end_array] 1 ∧
      (emit_events any_float 0 0
        [Event.start_array, Event.boolean true, Event.integer (-12), Event.end_array]).2 =
          [0x5B, 0x74, 0x72, 0x75, 0x65, 0x2C, 0x2D, 0x31, 0x32, 0x5D] ∧
      (push_events any_float 0 (emit_events any_float 0 0
        [Event.start_array, Event.boolean true, Event.integer (-12), Event.end_array]).2).2 =
          [Event.start_array, Event.boolean true, Event.integer (-12), Event.end_array] := by
  have hn : StrictNumber any_float [0x2D, 0x31, 0x32] (Event.integer (-12)) :=
    ⟨true, [0x31, 0x32], none, none,
      ⟨Or.inr ⟨0x31, [0x32], rfl, by decide, by decide, by simp [isDigit]⟩,
        (fun _ h => nomatch h), (fun _ _ h => nomatch h)⟩,
      rfl, Or.inl ⟨rfl, rfl, by unfold inLongRange; decide, by decide⟩⟩
  have hj : JsonText (StrictNumber any_float)
      [0x20, 0x5B, 0x74, 0x72, 0x75, 0x65, 0x2C, 0x20, 0x2D, 0x31, 0x32, 0x5D, 0x0A]
      [Event.start_array, Event.boolean true, Event.integer (-12), Event.end_array] 1 :=
    ⟨[0x20], _, [0x0A], by simp [isWs], by simp [isWs],
      Json.array [] _ _ _ [] (by simp) (by simp)
        (Json.elements _ _ _ [] [0x20] _ _ _ Json.true_ (by simp) (by simp [isWs])
          (Json.element _ _ _ (Json.number _ _ hn))),
      rfl⟩
  exact ⟨hj, by decide!, (C2_emit_parse_round_trip any_float _ _ 1 hj (by decide) (by decide)
    (fun r h => by simp at h)).2.2.2.2⟩

end Jsnpg

namespace Jsnpg

open jsnpg_type jsnpg_error_code

/-- The text of `n + 1` nested arrays, the innermost empty, is a JSON value of
depth `n + 1`. -/
theorem nested_arrays_json (N : List Nat → Event → Prop) : ∀ n : Nat,
    Json N Kind.value (List.replicate (n + 1) 0x5B ++ List.replicate (n + 1) 0x5D)
      (List.replicate (n + 1) Event.start_array ++ List.replicate (n + 1) Event.end_array)
      (n + 1) := by
  intro n
  induction n with
  | zero => exact Json.empty_array [] (by simp)
  | succ n ih =>
    have h := Json.array [] _ _ _ [] (by simp) (by simp) (Json.element _ _ _ ih)
    have e1 : List.replicate (n + 1 + 1) 0x5B ++ List.replicate (n + 1 + 1) 0x5D =
        0x5B :: ([] ++ ((List.replicate (n + 1) 0x5B ++ List.replicate (n + 1) 0x5D) ++
          ([] ++ [0x5D]))) := by
      rw [List.replicate_succ, List.replicate_succ' (n + 1) 0x5D]
      simp
    have e2 : List.replicate (n + 1 + 1) Event.start_array ++
          List.replicate (n + 1 + 1) Event.end_array =
        Event.start_array :: ((List.replicate (n + 1) Event.start_array ++
          List.replicate (n + 1) Event.end_array) ++ [Event.end_array]) := by
      rw [List.replicate_succ, List.replicate_succ' (n + 1) Event.end_array]
      simp
    rw [e1, e2]
    exact h

/-- C3 as stated fails: texts of the strict JSON grammar that the push parser
rejects with every relaxation flag cleared.  The number `1e1001` fails with
`number` (while `1e1000` is accepted) even where the conversion to double
always succeeds; the string `"\uD800"`, whose escape is a lone surrogate,
fails with `surrogate`; and 1025 nested arrays fail with `stack overflow`. -/
theorem C3_valid_json_rejected :
    (isNumeral [0x31] none (some ([0x65], [0x31, 0x30, 0x30, 0x31])) ∧
      numeralText false [0x31] none (some ([0x65], [0x31, 0x30, 0x30, 0x31])) =
        [0x31, 0x65, 0x31, 0x30, 0x30, 0x31] ∧
      push_events any_float 0 [0x31, 0x65, 0x31, 0x30, 0x30, 0x31] =
        ({ type := JSNPG_ERROR, position := 6, u := result_union.error JSNPG_ERROR_NUMBER },
          []) ∧
      push_events any_float 0 [0x31, 0x65, 0x31, 0x30, 0x30, 0x30] =
        ({ type := JSNPG_EOF, position := 6, u := result_union.none }, [Event.real 0])) ∧
    push_events any_float 0 [0x22, 0x5C, 0x75, 0x44, 0x38, 0x30, 0x30, 0x22] =
        ({ type := JSNPG_ERROR, position := 7,
           u := result_union.error JSNPG_ERROR_SURROGATE }, []) ∧
    (JsonText (fun _ _ => False) (List.replicate 1025 0x5B ++ List.replicate 1025 0x5D)
        (List.replicate 1025 Event.start_array ++ List.replicate 1025 Event.end_array) 1025 ∧
      (push_events any_float 0
        (List.replicate 1025 0x5B ++ List.replicate 1025 0x5D)).1.type = JSNPG_ERROR ∧
      (push_events any_float 0
        (List.replicate 1025 0x5B ++ List.replicate 1025 0x5D)).1.u =
          result_union.error JSNPG_ERROR_STACK_OVERFLOW) := by
  have hj : JsonText (fun _ _ => False) (List.replicate 1025 0x5B ++ List.replicate 1025 0x5D)
      (List.replicate 1025 Event.start_array ++ List.replicate 1025 Event.end_array) 1025 :=
    ⟨[], _, [], by simp, by simp, nested_arrays_json _ 1024, (List.append_nil _).symm⟩
  have hb : ∀ b ∈ List.replicate 1025 0x5B ++ List.replicate 1025 0x5D, b < 256 := by
    intro b hm
    rw [List.mem_append] at hm
    rcases hm with hm | hm
    · rw [List.eq_of_mem_replicate hm]; norm_num
    · rw [List.eq_of_mem_replicate hm]; norm_num
  have h := (push_events_json (fun _ _ => False) any_float (fun _ _ h => h.elim) _ _ _ hj hb).2.2
    (by norm_num)
  refine ⟨⟨?_, by decide, by decide!, by decide!⟩, by decide!, hj, h⟩
  refine ⟨Or.inr ⟨0x31, [], rfl, by decide, by decide, by simp⟩, (fun _ h => nomatch h), ?_⟩
  intro ms ds h
  injection h with h
  injection h with h1 h2
  subst h1 h2
  exact ⟨Or.inl rfl, by simp, by simp [isDigit]⟩

/-- C3, amended: with every relaxation flag cleared, every byte text of the
strict JSON grammar (one value with optional whitespace around it) is accepted
by the push parser, which returns `eof` and hands the sink the events of the
text, provided that the text is nested at most 1024 deep, every `\u` escape
outside a surrogate pair is not a surrogate, and every number is an integer in
the range of `long` or has exponent digits of at most 1000 and is converted by
the numeric routines. -/
theorem C3_strict_json_accepted (fp : FloatPrims) (text : List Nat) (evs : List Event)
    (d : Nat) (hj : JsonText (StrictNumber fp) text evs d) (hb : ∀ b ∈ text, b < 256)
    (hd : d ≤ 1024) :
    (push_events fp 0 text).1.type = JSNPG_EOF ∧ (push_events fp 0 text).2 = evs :=
  (push_events_json (StrictNumber fp) fp (strict_number_parses fp) text evs d hj hb).2.1 hd

theorem C3_strict_json_accepted_witness :
    JsonText (StrictNumber any_float)
        [0x20, 0x5B, 0x74, 0x72, 0x75, 0x65, 0x2C, 0x20, 0x2D, 0x31, 0x32, 0x5D, 0x0A]
        [Event.start_array, Event.boolean true, Event.integer (-12), Event.end_array] 1 ∧
      (push_events any_float 0
        [0x20, 0x5B, 0x74, 0x72, 0x75, 0x65, 0x2C, 0x20, 0x2D, 0x31, 0x32, 0x5D, 0x0A]).1.type =
          JSNPG_EOF ∧
      (push_events any_float 0
        [0x20, 0x5B, 0x74, 0x72, 0x75, 0x65, 0x2C, 0x20, 0x2D, 0x31, 0x32, 0x5D, 0x0A]).2 =
          [Event.start_array, Event.boolean true, Event.integer (-12), Event.end_array] := by
  have hn : StrictNumber any_float [0x2D, 0x31, 0x32] (Event.integer (-12)) :=
    ⟨true, [0x31, 0x32], none, none,
      ⟨Or.inr ⟨0x31, [0x32], rfl, by decide, by decide, by simp [isDigit]⟩,
        (fun _ h => nomatch h), (fun _ _ h => nomatch h)⟩,
      rfl, Or.inl ⟨rfl, rfl, by unfold inLongRange; decide, by decide⟩⟩
  have hj : JsonText (StrictNumber any_float)
      [0x20, 0x5B, 0x74, 0x72, 0x75, 0x65, 0x2C, 0x20, 0x2D, 0x31, 0x32, 0x5D, 0x0A]
      [Event.start_array, Event.boolean true, Event.integer (-12), Event.end_array] 1 :=
    ⟨[0x20], _, [0x0A], by simp [isWs], by simp [isWs],
      Json.array [] _ _ _ [] (by simp) (by simp)
        (Json.elements _ _ _ [] [0x20] _ _ _ Json.true_ (by simp) (by simp [isWs])
          (Json.element _ _ _ (Json.number _ _ hn))),
      rfl⟩
  exact ⟨hj, C3_strict_json_accepted any_float _ _ 1 hj (by decide) (by decide)⟩

end Jsnpg

namespace Jsnpg

open jsnpg_type jsnpg_error_code

/-- C4 fails on the code: with `multiple_values` and `trailing_chars` cleared
(option mask 0) the push parser accepts `1,2` and `[1],[2]`, returning eof
after handing its sink the events of two top-level values. -/
theorem C4_top_level_comma_accepted :
    push_events no_float 0 [0x31, 0x2C, 0x32] =
        ({ type := JSNPG_EOF, position := 3, u := result_union.none },
          [Event.integer 1, Event.integer 2]) ∧
    push_events no_float 0 [0x5B, 0x31, 0x5D, 0x2C, 0x5B, 0x32, 0x5D] =
        ({ type := JSNPG_EOF, position := 7, u := result_union.none },
          [Event.start_array, Event.integer 1, Event.end_array,
            Event.start_array, Event.integer 2, Event.end_array]) := by
  decide!

end Jsnpg

namespace Jsnpg

open jsnpg_type jsnpg_error_code

/-- C5: for every valid UTF-8 string `s` (the encodings of any sequence of
Unicode scalar values, among them every byte below 0x20, the quote and the
backslash), `jos_scan_escape` succeeds, whatever the generator's validation
setting, and if the bytes ahead of a parser are a quote, the bytes it wrote
and a quote, then `parse_string`, with or without UTF-8 validation, returns
the bytes of `s` and their count and stops right after the closing quote. -/
theorem C5_escape_then_parse_string (g : jgen) (v : Bool) (p : parser) (cps rest : List Nat)
    (hs : ∀ cp ∈ cps, isScalarValue cp) (hr : ∀ b ∈ rest, b < 256) :
    ∃ out, jos_scan_escape g (utf8String cps) (utf8String cps).length = (true, jos_puts g out) ∧
      (ahead p.mis = 0x22 :: (out ++ 0x22 :: rest) →
        ∃ mis1, parse_string v p =
            Res.ok (utf8String cps, (utf8String cps).length) { p with mis := mis1 } ∧
          ahead mis1 = rest) := by
  refine ⟨literalText (cps.map emitItem), jos_scan_escape_ok g cps hs, fun ha => ?_⟩
  obtain ⟨hwf, hval⟩ := emitItems_ok cps hs
  obtain ⟨mis1, h1, h2, _⟩ := parse_string_ok v p (cps.map emitItem) rest hwf ha hr
  rw [hval] at h1
  exact ⟨mis1, h1, h2⟩

/-- C5 at the string newline, quote, `é`: the emitter writes `\n\"é`, and
`parse_string` on the quoted literal returns the 4 bytes 0A 22 C3 A9. -/
theorem C5_escape_then_parse_string_witness :
    (jos_scan_escape (generator_new 0 0 (jos_new 0)) [0x0A, 0x22, 0xC3, 0xA9] 4).2.ctx.mos.buffer =
      [0x5C, 0x6E, 0x5C, 0x22, 0xC3, 0xA9] ∧
    ∃ mis1, parse_string true
        (jsnpg_parser_new_bytes 0 0 [0x22, 0x5C, 0x6E, 0x5C, 0x22, 0xC3, 0xA9, 0x22] 8) =
        Res.ok ([0x0A, 0x22, 0xC3, 0xA9], 4)
          { jsnpg_parser_new_bytes 0 0 [0x22, 0x5C, 0x6E, 0x5C, 0x22, 0xC3, 0xA9, 0x22] 8
            with mis := mis1 } ∧
      ahead mis1 = [0] := by
  obtain ⟨out, h1, h2⟩ := C5_escape_then_parse_string (generator_new 0 0 (jos_new 0)) true
    (jsnpg_parser_new_bytes 0 0 [0x22, 0x5C, 0x6E, 0x5C, 0x22, 0xC3, 0xA9, 0x22] 8)
    [0x0A, 0x22, 0xE9] [0] (by decide) (by decide)
  have e2 : (jos_scan_escape (generator_new 0 0 (jos_new 0)) [0x0A, 0x22, 0xC3, 0xA9] 4).2.ctx.mos.buffer
      = [0x5C, 0x6E, 0x5C, 0x22, 0xC3, 0xA9] := by decide
  have hout : out = [0x5C, 0x6E, 0x5C, 0x22, 0xC3, 0xA9] :=
    (congrArg (fun r => r.2.ctx.mos.buffer) h1).symm.trans e2
  subst hout
  exact ⟨e2, h2 (by decide)⟩

end Jsnpg

namespace Jsnpg

open jsnpg_type jsnpg_error_code

/-- C6 fails for an event log whose root block holds no record.  `dom_parse`
decodes a record at the start of the root block before it compares the offset
with the block's `count`, so it reads bytes that were never written.  For the
empty event sequence, whatever the fresh block holds, it does not return `eof`
with no event delivered, while `dom_parse_next` on the same log returns `eof`
at once; on a zero-filled block it returns the error `unexpected`.  The same
happens when the first event is a string of 8137 bytes, which does not fit the
root block and is stored in a second one: nothing is delivered and the result
is the error `unexpected`. -/
theorem C6_dom_parse_reads_empty_root_block :
    (∀ junk : Nat → Nat → Nat,
      dom_replay (dom_record junk []) ≠
        some ({ type := JSNPG_EOF, position := 0, u := result_union.none }, []) ∧
      dom_pull (dom_record junk []) = (some JSNPG_EOF, [])) ∧
    dom_replay (dom_record (fun _ _ => 0) []) =
      some (make_error_return JSNPG_ERROR_UNEXPECTED 0, []) ∧
    dom_replay (dom_record (fun _ _ => 0) [Event.string (List.replicate 8137 0x41)]) =
      some (make_error_return JSNPG_ERROR_UNEXPECTED 0, []) := by
  refine ⟨fun junk => ⟨dom_replay_not_silent _, dom_pull_empty junk⟩, ?_, ?_⟩
  · rw [dom_record_nil, dom_new_eq]
    exact dom_replay_zero_root _ _ _ _ _ zero_block_slice
  · obtain ⟨d, hd⟩ := dom_record_large (fun _ _ => 0) (List.replicate 8137 0x41)
      (by rw [List.length_replicate]; omega) (by rw [List.length_replicate]; omega)
    rw [hd]
    exact dom_replay_zero_root _ _ _ _ _ zero_block_slice

end Jsnpg

namespace Jsnpg
open jsnpg_type jsnpg_error_code parse_state

/-- C7: for every well-formed sequence of events `v` of one JSON value (an
integer is a `long`, strings and keys are valid UTF-8, the formatter keeps its
contract on the reals, the depth is below 2^32 as every depth within an
`unsigned` maximum is) and every indent `k`, the emitter accepts `v` with
indent `k` and with indent 0, and the strict push parser is handed the same
events on the two outputs: the events `v` themselves, with the result `eof`,
when the depth is within the parser's 1024 levels. -/
theorem C7_indent_same_events (fp : FloatPrims) (k : Nat) (v : List Event) (d : Nat)
    (ht : EventTree (ValueOk fp) Kind.value v d) (hd : d < 2 ^ 32) :
    (emit_events fp k 0 v).1 = true ∧ (emit_events fp 0 0 v).1 = true ∧
    (push_events fp 0 (emit_events fp k 0 v).2).2 =
      (push_events fp 0 (emit_events fp 0 0 v).2).2 ∧
    (d ≤ 1024 → (push_events fp 0 (emit_events fp k 0 v).2).1.type = JSNPG_EOF ∧
      (push_events fp 0 (emit_events fp 0 0 v).2).1.type = JSNPG_EOF ∧
      (push_events fp 0 (emit_events fp k 0 v).2).2 = v) := by
  obtain ⟨a1, a2, a3⟩ := emit_parse fp k v d ht hd
  obtain ⟨b1, b2, b3⟩ := emit_parse fp 0 v d ht hd
  exact ⟨a1, b1, a2.trans b2.symm, fun h => ⟨(a3 h).1, (b3 h).1, (a3 h).2⟩⟩

theorem C7_indent_same_events_witness :
    EventTree (ValueOk any_float) Kind.value
        [Event.start_array, Event.integer 1, Event.string [0x61], Event.end_array] 1 ∧
      (emit_events any_float 2 0
        [Event.start_array, Event.integer 1, Event.string [0x61], Event.end_array]).2 =
          [0x5B, 0x0A, 0x20, 0x20, 0x31, 0x2C, 0x0A, 0x20, 0x20, 0x22, 0x61, 0x22, 0x0A, 0x5D] ∧
      (push_events any_float 0 (emit_events any_float 2 0
        [Event.start_array, Event.integer 1, Event.string [0x61], Event.end_array]).2).2 =
      (push_events any_float 0 (emit_events any_float 0 0
        [Event.start_array, Event.integer 1, Event.string [0x61], Event.end_array]).2).2 := by
  have ht : EventTree (ValueOk any_float) Kind.value
      [Event.start_array, Event.integer 1, Event.string [0x61], Event.end_array] 1 :=
    EventTree.array _ 0
      (EventTree.elements [Event.integer 1] 0 _ 0
        (EventTree.scalar (Event.integer 1) rfl
          ⟨(show (-2 : Int) ^ 63 ≤ 1 ∧ (1 : Int) < 2 ^ 63 from by decide),
            fun _ h => nomatch h⟩)
        (EventTree.element _ 0
          (EventTree.scalar (Event.string [0x61]) rfl
            ⟨⟨[0x61], by decide, rfl⟩, fun _ h => nomatch h⟩)))
  exact ⟨ht, by decide!, (C7_indent_same_events any_float 2 _ 1 ht (by decide)).2.2.1⟩

end Jsnpg

namespace Jsnpg

open jsnpg_type jsnpg_error_code

/-- C8 as stated fails: on the literal `"a"`, which holds no escape,
`parse_string` returns the one byte `a` with count 1, but `write` is still
equal to `string` (both 1), so the range `[string..write)` is empty and is not
the returned slice.  Without an escape `mis_string_complete` takes the length
from `read`, not from `write`. -/
theorem C8_write_not_moved_without_escape :
    parse_string true (jsnpg_parser_new_bytes 0 0 [0x22, 0x61, 0x22] 3) =
      Res.ok ([0x61], 1)
        { jsnpg_parser_new_bytes 0 0 [0x22, 0x61, 0x22] 3 with
          mis := { has_start := true, start := [0x22, 0x61, 0x22, 0], string := 1, read := 3,
                   write := 1, mark := 1, count := 3 } } := by
  decide!

/-- C8, amended: let the bytes ahead be a quote, the text of well-formed
elements (characters written directly, two-character escapes, `\uXXXX`
escapes that are not surrogates, and pairs of a high and a low surrogate
escape), a quote, and any further bytes.  With or without UTF-8 validation,
`parse_string` returns the bytes of the literal in order with each escape
replaced by the UTF-8 encoding of its code point, together with their count;
it stops right after the closing quote; the returned bytes lie in the buffer
from `string` on; and `write` is the end of that range when the literal holds
an escape, while it stays at `string` when the literal holds none (the range
then ends right before the closing quote). -/
theorem C8_parse_string (v : Bool) (p : parser) (items : List StrItem) (rest : List Nat)
    (hwf : ∀ it ∈ items, it.wf)
    (ha : ahead p.mis = 0x22 :: (literalText items ++ 0x22 :: rest))
    (hr : ∀ b ∈ rest, b < 256) :
    ∃ mis1, parse_string v p =
        Res.ok (literalValue items, (literalValue items).length) { p with mis := mis1 } ∧
      ahead mis1 = rest ∧ mis1.string = p.mis.read + 1 ∧
      (mis1.start.drop mis1.string).take (literalValue items).length = literalValue items ∧
      mis1.write = (if items.any StrItem.isEscape = false then mis1.string
        else mis1.string + (literalValue items).length) := by
  obtain ⟨mis1, h1, h2, h3, h4, h5, _⟩ := parse_string_ok v p items rest hwf ha hr
  exact ⟨mis1, h1, h2, h3, h4, h5⟩

/-- C8 at the literal `"Aé😀"`: the 7 bytes
41 C3 A9 F0 9F 98 80 are returned and `write` is 7 past `string`. -/
theorem C8_parse_string_witness :
    ∃ mis1, parse_string true
        (jsnpg_parser_new_bytes 0 0
          [0x22, 0x5C, 0x75, 0x30, 0x30, 0x34, 0x31, 0x5C, 0x75, 0x30, 0x30, 0x45, 0x39,
           0x5C, 0x75, 0x44, 0x38, 0x33, 0x44, 0x5C, 0x75, 0x44, 0x45, 0x30, 0x30, 0x22] 26) =
        Res.ok ([0x41, 0xC3, 0xA9, 0xF0, 0x9F, 0x98, 0x80], 7)
          { jsnpg_parser_new_bytes 0 0
              [0x22, 0x5C, 0x75, 0x30, 0x30, 0x34, 0x31, 0x5C, 0x75, 0x30, 0x30, 0x45, 0x39,
               0x5C, 0x75, 0x44, 0x38, 0x33, 0x44, 0x5C, 0x75, 0x44, 0x45, 0x30, 0x30, 0x22] 26
            with mis := mis1 } ∧
      mis1.string = 1 ∧ mis1.write = 8 := by
  obtain ⟨m, h1, _, h3, _, h5⟩ := C8_parse_string true
    (jsnpg_parser_new_bytes 0 0
      [0x22, 0x5C, 0x75, 0x30, 0x30, 0x34, 0x31, 0x5C, 0x75, 0x30, 0x30, 0x45, 0x39,
       0x5C, 0x75, 0x44, 0x38, 0x33, 0x44, 0x5C, 0x75, 0x44, 0x45, 0x30, 0x30, 0x22] 26)
    [StrItem.u4 0x30 0x30 0x34 0x31, StrItem.u4 0x30 0x30 0x45 0x39,
     StrItem.pair 0x44 0x38 0x33 0x44 0x44 0x45 0x30 0x30] [0]
    (by
      intro it h
      simp only [List.mem_cons, List.mem_singleton, List.not_mem_nil, or_false] at h
      rcases h with rfl | rfl | rfl
      · exact ⟨0x41, by decide, by decide⟩
      · exact ⟨0xE9, by decide, by decide⟩
      · exact ⟨0xD83D, 0xDE00, by decide, by decide, by decide, by decide, by decide, by decide⟩)
    (by decide)
    (by simp)
  have hv : literalValue [StrItem.u4 0x30 0x30 0x34 0x31, StrItem.u4 0x30 0x30 0x45 0x39,
      StrItem.pair 0x44 0x38 0x33 0x44 0x44 0x45 0x30 0x30] =
      [0x41, 0xC3, 0xA9, 0xF0, 0x9F, 0x98, 0x80] := by decide
  rw [hv] at h1 h5
  refine ⟨m, h1, h3, ?_⟩
  rw [h5, h3]
  rfl

end Jsnpg

namespace Jsnpg

open jsnpg_type jsnpg_error_code

/-- C9 as stated fails: `1e1001` is a grammatical numeral with an exponent
part, yet `parse_number` does not return real on it but throws the error
`number` (at offset 6, inside the exponent loop), even with numeric routines
whose conversion always succeeds. -/
theorem C9_exponent_above_1000_rejected :
    isNumeral [0x31] none (some ([0x65], [0x31, 0x30, 0x30, 0x31])) ∧
    parse_number any_float
        (jsnpg_parser_new_bytes 0 0 [0x31, 0x65, 0x31, 0x30, 0x30, 0x31] 6) =
      Res.thrown
        { advance (jsnpg_parser_new_bytes 0 0 [0x31, 0x65, 0x31, 0x30, 0x30, 0x31] 6) 6 with
          result := make_error_return JSNPG_ERROR_NUMBER 6 } := by
  refine ⟨⟨Or.inr ⟨0x31, [], rfl, by decide, by decide, by simp⟩, by simp, ?_⟩, by decide!⟩
  intro ms ds h
  simp only [Option.some.injEq, Prod.mk.injEq] at h
  obtain ⟨rfl, rfl⟩ := h
  exact ⟨Or.inl rfl, by simp, by decide⟩

/-- C9, amended: let the bytes ahead be a grammatical numeral (optional `-`,
integer part, optional fraction, optional exponent) whose exponent digits
denote at most 1000, followed by a byte that cannot continue it.  With neither
fraction nor exponent and a value `n` with `-2^63 <= n <= 2^63-1`,
`parse_number` returns integer with value exactly `n` and stops right after
the numeral.  With a fraction or an exponent, or with a value outside that
range, it never returns integer.  When the fast conversion (`compute_float_64`
on the sum and the exponent the scan has accumulated) succeeds with `d`, it
returns real with `d` and stops right after the numeral.  When the fast
conversion refuses and `parse_float_strtod`, given the text from the start of
the numeral, returns `d` and an end pointer, it returns real with `d` and
reads on from that end pointer.  When both refuse it throws `number`. -/
theorem C9_parse_number (fp : FloatPrims) (p : parser) (neg : Bool)
    (ip : List Nat) (frac : Option (List Nat)) (exp : Option (List Nat × List Nat))
    (rest : List Nat) (hnum : isNumeral ip frac exp) (hb : rest.headD 0 < 256)
    (hnd : ¬ isDigit (rest.headD 0))
    (hne : exp = none → rest.headD 0 ≠ 0x65 ∧ rest.headD 0 ≠ 0x45)
    (hnf : frac = none → exp = none → rest.headD 0 ≠ 0x2E)
    (ha : ahead p.mis = numeralText neg ip frac exp ++ rest)
    (hexp : exponentDigitsValue exp ≤ 1000) :
    (frac = none → exp = none → -2 ^ 63 ≤ numeralInt neg ip → numeralInt neg ip ≤ 2 ^ 63 - 1 →
      parse_number fp p =
        Res.ok (JSNPG_INTEGER, result_union.integer (numeralInt neg ip))
          (advance p (numeralText neg ip frac exp).length)) ∧
    ((frac ≠ none ∨ exp ≠ none ∨ numeralInt neg ip < -2 ^ 63 ∨ 2 ^ 63 - 1 < numeralInt neg ip) →
      (∀ i p1, parse_number fp p ≠ Res.ok (JSNPG_INTEGER, result_union.integer i) p1) ∧
      (∀ d, fast_double fp (numeral_scan ip frac exp) neg = some d →
        parse_number fp p =
          Res.ok (JSNPG_REAL, result_union.real d)
            (advance p (numeralText neg ip frac exp).length)) ∧
      (fast_double fp (numeral_scan ip frac exp) neg = none →
        (∀ d n, fp.parse_float_strtod (ahead p.mis) = some (d, n) →
          parse_number fp p = Res.ok (JSNPG_REAL, result_union.real d) (advance p n)) ∧
        (fp.parse_float_strtod (ahead p.mis) = none →
          parse_number fp p =
            Res.thrown
              { advance p (numeralText neg ip frac exp).length with
                result := make_error_return JSNPG_ERROR_NUMBER
                  (parse_position (advance p (numeralText neg ip frac exp).length)) }))) := by
  constructor
  · intro hf he hlo hhi
    subst hf he
    have hrange : if neg then decimalValue ip ≤ 2 ^ 63 else decimalValue ip ≤ 2 ^ 63 - 1 := by
      unfold numeralInt at hlo hhi
      cases neg
      · simp only [Bool.false_eq_true, if_false] at hhi ⊢; omega
      · simp only [if_true] at hlo ⊢; omega
    have h := parse_number_integer_ok fp p neg ip rest hnum.1 hb
      ⟨hnd, hnf rfl rfl, (hne rfl).1, (hne rfl).2⟩
      (by rw [ha]; simp [numeralText]) hrange
    rw [h]
    simp [numeralText, numeralInt, sign_length]
  · intro hreal
    have hreal1 : frac ≠ none ∨ exp ≠ none ∨
        (if neg then decimalValue ip > 2 ^ 63 else decimalValue ip > 2 ^ 63 - 1) := by
      rcases hreal with h | h | h | h
      · exact Or.inl h
      · exact Or.inr (Or.inl h)
      · refine Or.inr (Or.inr ?_)
        unfold numeralInt at h
        cases neg
        · simp only [Bool.false_eq_true, if_false] at h ⊢; omega
        · simp only [if_true] at h ⊢; omega
      · refine Or.inr (Or.inr ?_)
        unfold numeralInt at h
        cases neg
        · simp only [Bool.false_eq_true, if_false] at h ⊢; omega
        · simp only [if_true] at h ⊢; omega
    have hn := parse_number_scans fp p neg ip frac exp rest hnum hb hnd hne hnf ha hexp hreal1
    have hstart : (advance p (numeralText neg ip frac exp).length).mis.start.drop p.mis.read =
        ahead p.mis := rfl
    rw [hn]
    unfold parse_number_real fast_double
    simp only []
    cases hfast : (if (numeral_scan ip frac exp).2.1 ≥ fp.FASTFLOAT_SMALLEST_POWER ∨
        (numeral_scan ip frac exp).2.1 ≤ fp.FASTFLOAT_LARGEST_POWER then
        fp.compute_float_64 (numeral_scan ip frac exp).2.1 (numeral_scan ip frac exp).1 neg
        else none) with
    | some d0 =>
      simp only [PM_pure_apply]
      refine ⟨?_, ?_, ?_⟩
      · intro i p1 h
        simp only [Res.ok.injEq, Prod.mk.injEq] at h
        exact absurd h.1.1 (by decide)
      · intro d h
        simp only [Option.some.injEq] at h
        rw [h]
      · intro h
        exact absurd h (by simp)
    | none =>
      simp only [PM_bind_apply, get_mis_apply, hstart]
      refine ⟨?_, ?_, ?_⟩
      · intro i p1 h
        cases hs : fp.parse_float_strtod (ahead p.mis) with
        | none =>
          rw [hs] at h
          exact Res.noConfusion h
        | some v =>
          obtain ⟨d, n⟩ := v
          rw [hs] at h
          simp only [PM_bind_apply, set_mis_apply, PM_pure_apply, Res.ok.injEq,
            Prod.mk.injEq] at h
          exact absurd h.1.1 (by decide)
      · intro d h
        exact absurd h (by simp)
      · intro _
        refine ⟨?_, ?_⟩
        · intro d n hs
          rw [hs]
          rfl
        · intro hs
          rw [hs]
          rfl

/-- C9 at the numeral `-12` followed by the sentinel: integer -12, three bytes
consumed; and at the numeral `1.5` with numeric routines whose fast conversion
always succeeds with the bit pattern 0: real with that pattern, three bytes
consumed. -/
theorem C9_parse_number_witness :
    parse_number no_float (jsnpg_parser_new_bytes 0 0 [0x2D, 0x31, 0x32] 3) =
      Res.ok (JSNPG_INTEGER, result_union.integer (-12))
        (advance (jsnpg_parser_new_bytes 0 0 [0x2D, 0x31, 0x32] 3) 3) ∧
    parse_number any_float (jsnpg_parser_new_bytes 0 0 [0x31, 0x2E, 0x35] 3) =
      Res.ok (JSNPG_REAL, result_union.real 0)
        (advance (jsnpg_parser_new_bytes 0 0 [0x31, 0x2E, 0x35] 3) 3) :=
  ⟨(C9_parse_number no_float (jsnpg_parser_new_bytes 0 0 [0x2D, 0x31, 0x32] 3) true
    [0x31, 0x32] none none [0]
    ⟨Or.inr ⟨0x31, [0x32], rfl, by decide, by decide, by simp [isDigit]⟩,
      by simp, by simp⟩
    (by decide) (by decide) (by decide) (by decide) (by decide) (by decide)).1
    rfl rfl (by decide) (by decide),
   ((C9_parse_number any_float (jsnpg_parser_new_bytes 0 0 [0x31, 0x2E, 0x35] 3) false
    [0x31] (some [0x35]) none [0]
    ⟨Or.inr ⟨0x31, [], rfl, by decide, by decide, by simp⟩,
      by simp [isDigit], by simp⟩
    (by decide) (by decide) (by decide) (by simp) (by decide) (by decide)).2
    (Or.inl (by simp))).2.1 0 (by decide)⟩

end Jsnpg

namespace Jsnpg

/-- C10: on bytes below 256 with `count` of them available,
`utf8_validate_sequence` returns a length `L` exactly when the first `L`
available bytes are the well-formed UTF-8 encoding of a Unicode scalar value;
such an `L` is between 1 and 4; and when no prefix of the available bytes is
such an encoding (bad lead byte, too few bytes, bad continuation byte,
overlong form, surrogate, above U+10FFFF) the result is -1. -/
theorem C10_utf8_validate_sequence (bytes : List Nat) (count : Nat)
    (hb : ∀ b ∈ bytes, b < 256) (hc : count ≤ bytes.length) :
    (∀ L : Nat, utf8_validate_sequence bytes count = (L : Int) ↔
      (L ≤ count ∧ ∃ cp, isScalarValue cp ∧ bytes.take L = utf8Encoding cp)) ∧
    (∀ L : Nat, utf8_validate_sequence bytes count = (L : Int) → 1 ≤ L ∧ L ≤ 4) ∧
    ((¬ ∃ L cp, L ≤ count ∧ isScalarValue cp ∧ bytes.take L = utf8Encoding cp) →
      utf8_validate_sequence bytes count = -1) := by
  refine ⟨fun L => ⟨fun hv => utf8_validate_sound bytes count L hb hc hv, ?_⟩, ?_, ?_⟩
  · rintro ⟨hL, cp, hs, ht⟩
    exact utf8_validate_complete bytes count L cp hb hc hL hs ht
  · intro L hv
    rcases utf8_validate_result bytes count hb with h | ⟨L', h1, h4, _, h⟩
    · rw [h] at hv; omega
    · rw [h] at hv; omega
  · intro hn
    rcases utf8_validate_result bytes count hb with h | ⟨L', _, _, _, h⟩
    · exact h
    · obtain ⟨hL, cp, hs, ht⟩ := utf8_validate_sound bytes count L' hb hc h
      exact absurd ⟨L', cp, hL, hs, ht⟩ hn

/-- C10 at the two-byte encoding of U+00E9: the validator returns 2. -/
theorem C10_utf8_validate_sequence_witness :
    utf8_validate_sequence [0xC3, 0xA9, 0x22] 3 = 2 :=
  ((C10_utf8_validate_sequence [0xC3, 0xA9, 0x22] 3 (by decide) (by decide)).1 2).mpr
    ⟨by decide, 0xE9, by decide, by decide⟩

end Jsnpg

namespace Jsnpg

/-- C11: for a code point `cp` that is at most U+10FFFF and outside
U+D800..U+DFFF, `utf8_encode` writes `n` bytes, with `n` = 1, 2, 3, 4 for `cp`
up to 0x7F, 0x7FF, 0xFFFF, 0x10FFFF; the bytes are the standard UTF-8 encoding
of `cp`; and `utf8_validate_sequence` on these bytes (whatever bytes follow
them in memory, with at least `n` bytes declared available) returns `n`. -/
theorem C11_utf8_encode (cp : Nat) (hs : isScalarValue cp) :
    (utf8_encode cp).length =
        (if cp ≤ 0x7F then 1 else if cp ≤ 0x7FF then 2 else if cp ≤ 0xFFFF then 3 else 4) ∧
      utf8_encode cp = utf8Encoding cp ∧
      (∀ b ∈ utf8_encode cp, b < 256) ∧
      ∀ (rest : List Nat) (count : Nat), (∀ b ∈ rest, b < 256) →
        (utf8_encode cp).length ≤ count → count ≤ (utf8_encode cp ++ rest).length →
        utf8_validate_sequence (utf8_encode cp ++ rest) count =
          ((utf8_encode cp).length : Int) := by
  have he := utf8_encode_eq cp hs
  refine ⟨?_, he, ?_, ?_⟩
  · rw [he]; unfold utf8Encoding
    split_ifs <;> first | rfl | omega
  · rw [he]; exact utf8Encoding_bytes cp hs
  · intro rest count hr h1 h2
    refine utf8_validate_complete _ count _ cp ?_ h2 h1 hs ?_
    · intro b hb
      rcases List.mem_append.mp hb with h | h
      · rw [he] at h; exact utf8Encoding_bytes cp hs b h
      · exact hr b h
    · rw [List.take_left, he]

/-- C11 at U+20AC: three bytes E2 82 AC, which validate as a sequence of 3. -/
theorem C11_utf8_encode_witness :
    isScalarValue 0x20AC ∧ utf8_encode 0x20AC = [0xE2, 0x82, 0xAC] ∧
      utf8_validate_sequence ([0xE2, 0x82, 0xAC] ++ []) 3 = 3 :=
  ⟨by decide, by decide,
    (C11_utf8_encode 0x20AC (by decide)).2.2.2 [] 3 (by simp) (by decide) (by decide)⟩

end Jsnpg

namespace Jsnpg

open jsnpg_type jsnpg_error_code parse_state

/-- C12 as stated fails: input that ends inside a value is reported as
`unexpected` (or `invalid`), never as `eof`.  With every option cleared the
push parse of `{"a":1` fails with `unexpected` at position 6; pulling from
`[1, 2` returns start_array, integer 1, integer 2 and then the error
`unexpected` at position 5; and the unterminated string `"abc` fails with
`invalid` at position 4 in both parsers. -/
theorem C12_truncated_input_is_not_eof :
    push_events no_float 0 [0x7B, 0x22, 0x61, 0x22, 0x3A, 0x31] =
        ({ type := JSNPG_ERROR, position := 6,
           u := result_union.error JSNPG_ERROR_UNEXPECTED },
          [Event.start_object, Event.key [0x61], Event.integer 1]) ∧
    pull_events no_float 0 [0x5B, 0x31, 0x2C, 0x20, 0x32] =
        (some { type := JSNPG_ERROR, position := 5,
                u := result_union.error JSNPG_ERROR_UNEXPECTED },
          [Event.start_array, Event.integer 1, Event.integer 2]) ∧
    push_events no_float 0 [0x22, 0x61, 0x62, 0x63] =
        ({ type := JSNPG_ERROR, position := 4,
           u := result_union.error JSNPG_ERROR_INVALID }, []) ∧
    pull_events no_float 0 [0x22, 0x61, 0x62, 0x63] =
        (some { type := JSNPG_ERROR, position := 4,
                u := result_union.error JSNPG_ERROR_INVALID }, []) := by
  decide!

/-- C12, amended: input that ends before the top-level value is complete is
never reported as `eof`.  The push parser reports the error `eof` for no input
and no option mask, and a call of `parse_next` stores it only when the parser
is already in the state `STATE_EOF` (where, comments not being allowed, it
always does).  In strict mode an unterminated string (a quote and the text of
well-formed string elements) fails with `invalid` at the end of the input in
both parsers, without an event; and the push parser on an array or object
that the input ends in after a complete element or member (with the elements
or members nested less than 1024 deep) delivers `start_array` or
`start_object` and the events of the elements or members and fails with
`unexpected` at the end of the input.  Pulling from `[1, 2` returns
start_array, integer 1, integer 2 and then the error `unexpected` at
position 5. -/
theorem C12_truncated_input_errors (fp : FloatPrims) :
    (∀ (allow : Nat) (text : List Nat),
      (push_events fp allow text).1.u ≠ result_union.error JSNPG_ERROR_EOF) ∧
    (∀ p p1 : parser, p.state ≠ STATE_EOF → parse_next fp p = Res.thrown p1 →
      p1.result.u ≠ result_union.error JSNPG_ERROR_EOF) ∧
    (∀ p : parser, p.state = STATE_EOF → flag_set p.flags JSNPG_ALLOW_COMMENTS = false →
      ∃ p1, parse_next fp p = Res.thrown p1 ∧ p1.result.type = JSNPG_ERROR ∧
        p1.result.u = result_union.error JSNPG_ERROR_EOF) ∧
    (∀ items : List StrItem, (∀ it ∈ items, it.wf) →
      push_events fp 0 (0x22 :: literalText items) =
        ({ type := JSNPG_ERROR, position := (0x22 :: literalText items).length,
           u := result_union.error JSNPG_ERROR_INVALID }, []) ∧
      pull_events fp 0 (0x22 :: literalText items) =
        (some { type := JSNPG_ERROR, position := (0x22 :: literalText items).length,
                u := result_union.error JSNPG_ERROR_INVALID }, [])) ∧
    (∀ (ws1 t ws2 : List Nat) (evs : List Event) (d : Nat),
      (∀ b ∈ ws1, isWs b) → (∀ b ∈ ws2, isWs b) →
      Json (StrictNumber fp) Kind.elements t evs d → d < 1024 →
      (∀ b ∈ 0x5B :: (ws1 ++ (t ++ ws2)), b < 256) →
      push_events fp 0 (0x5B :: (ws1 ++ (t ++ ws2))) =
        ({ type := JSNPG_ERROR, position := (0x5B :: (ws1 ++ (t ++ ws2))).length,
           u := result_union.error JSNPG_ERROR_UNEXPECTED }, Event.start_array :: evs)) ∧
    (∀ (ws1 t ws2 : List Nat) (evs : List Event) (d : Nat),
      (∀ b ∈ ws1, isWs b) → (∀ b ∈ ws2, isWs b) →
      Json (StrictNumber fp) Kind.members t evs d → d < 1024 →
      (∀ b ∈ 0x7B :: (ws1 ++ (t ++ ws2)), b < 256) →
      push_events fp 0 (0x7B :: (ws1 ++ (t ++ ws2))) =
        ({ type := JSNPG_ERROR, position := (0x7B :: (ws1 ++ (t ++ ws2))).length,
           u := result_union.error JSNPG_ERROR_UNEXPECTED }, Event.start_object :: evs)) ∧
    pull_events fp 0 [0x5B, 0x31, 0x2C, 0x20, 0x32] =
        (some { type := JSNPG_ERROR, position := 5,
                u := result_union.error JSNPG_ERROR_UNEXPECTED },
          [Event.start_array, Event.integer 1, Event.integer 2]) := by
  refine ⟨push_events_no_eof fp, ?_, parse_next_after_eof fp, ?_, ?_, ?_, rfl⟩
  · intro p p1 hs ht
    exact (parse_next_thrown fp p p1 hs ht).2.2.2
  · intro items hwf
    exact ⟨push_events_open_string fp items hwf, pull_events_open_string fp items hwf⟩
  · intro ws1 t ws2 evs d hws1 hws2 hj hd hb
    exact push_events_open_array (StrictNumber fp) fp (strict_number_parses fp) ws1 t ws2 evs d
      hws1 hws2 hj hd hb
  · intro ws1 t ws2 evs d hws1 hws2 hj hd hb
    exact push_events_open_object (StrictNumber fp) fp (strict_number_parses fp) ws1 t ws2 evs d
      hws1 hws2 hj hd hb

theorem C12_truncated_input_errors_witness :
    push_events no_float 0 (0x7B :: ([] ++ ([0x22, 0x61, 0x22, 0x3A, 0x31] ++ []))) =
        ({ type := JSNPG_ERROR,
           position := (0x7B :: ([] ++ ([0x22, 0x61, 0x22, 0x3A, 0x31] ++ []))).length,
           u := result_union.error JSNPG_ERROR_UNEXPECTED },
          Event.start_object :: [Event.key [0x61], Event.integer 1]) ∧
    push_events no_float 0 (0x5B :: ([] ++ ([0x31, 0x2C, 0x20, 0x32] ++ []))) =
        ({ type := JSNPG_ERROR,
           position := (0x5B :: ([] ++ ([0x31, 0x2C, 0x20, 0x32] ++ []))).length,
           u := result_union.error JSNPG_ERROR_UNEXPECTED },
          Event.start_array :: [Event.integer 1, Event.integer 2]) ∧
    (push_events no_float 0
        (0x22 :: literalText [StrItem.char 0x61, StrItem.char 0x62, StrItem.char 0x63]) =
        ({ type := JSNPG_ERROR,
           position := (0x22 ::
             literalText [StrItem.char 0x61, StrItem.char 0x62, StrItem.char 0x63]).length,
           u := result_union.error JSNPG_ERROR_INVALID }, []) ∧
      pull_events no_float 0
        (0x22 :: literalText [StrItem.char 0x61, StrItem.char 0x62, StrItem.char 0x63]) =
        (some { type := JSNPG_ERROR,
                position := (0x22 ::
                  literalText [StrItem.char 0x61, StrItem.char 0x62, StrItem.char 0x63]).length,
                u := result_union.error JSNPG_ERROR_INVALID }, [])) := by
  have h1 : StrictNumber no_float [0x31] (Event.integer 1) :=
    ⟨false, [0x31], none, none,
      ⟨Or.inr ⟨0x31, [], rfl, by decide, by decide, by simp⟩,
        (fun _ h => nomatch h), (fun _ _ h => nomatch h)⟩,
      rfl, Or.inl ⟨rfl, rfl, by unfold inLongRange; decide, by decide⟩⟩
  have h2 : StrictNumber no_float [0x32] (Event.integer 2) :=
    ⟨false, [0x32], none, none,
      ⟨Or.inr ⟨0x32, [], rfl, by decide, by decide, by simp⟩,
        (fun _ h => nomatch h), (fun _ _ h => nomatch h)⟩,
      rfl, Or.inl ⟨rfl, rfl, by unfold inLongRange; decide, by decide⟩⟩
  have hka : ∀ it ∈ [StrItem.char 0x61], it.wf := by
    intro it h
    rw [List.mem_singleton.1 h]
    exact ⟨by unfold isScalarValue; omega, by omega, by omega, by omega⟩
  have hm : Json (StrictNumber no_float) Kind.members [0x22, 0x61, 0x22, 0x3A, 0x31]
      [Event.key [0x61], Event.integer 1] 0 :=
    Json.member [StrItem.char 0x61] [] [] [0x31] [Event.integer 1] 0 hka (by simp) (by simp)
      (Json.number _ _ h1)
  have he : Json (StrictNumber no_float) Kind.elements [0x31, 0x2C, 0x20, 0x32]
      [Event.integer 1, Event.integer 2] 0 :=
    Json.elements [0x31] [Event.integer 1] 0 [] [0x20] [0x32] [Event.integer 2] 0
      (Json.number _ _ h1) (by simp) (by simp [isWs])
      (Json.element _ _ _ (Json.number _ _ h2))
  have hs : ∀ it ∈ [StrItem.char 0x61, StrItem.char 0x62, StrItem.char 0x63], it.wf := by
    intro it h
    simp only [List.mem_cons, List.mem_singleton, List.not_mem_nil, or_false] at h
    rcases h with h | h | h <;> rw [h] <;>
      exact ⟨by unfold isScalarValue; omega, by omega, by omega, by omega⟩
  exact ⟨(C12_truncated_input_errors no_float).2.2.2.2.2.1 [] _ [] _ 0 (by simp) (by simp) hm
      (by decide) (by decide),
    (C12_truncated_input_errors no_float).2.2.2.2.1 [] _ [] _ 0 (by simp) (by simp) he
      (by decide) (by decide),
    (C12_truncated_input_errors no_float).2.2.2.1 _ hs⟩

end Jsnpg

namespace Jsnpg

open jsnpg_type jsnpg_error_code parse_state

/-- C13 as stated fails: with `trailing_commas` cleared, `{"k": 1,}` fails with
`expected_key` (at position 8), not with `unexpected`, in the push parser and
in the pull parser.  And with the flag set, the lone comma of `[,]` directly
before the matching `]` is accepted by the push parser but rejected with
`unexpected` by the pull parser. -/
theorem C13_strict_object_comma_is_expected_key :
    push_events no_float 0 [0x7B, 0x22, 0x6B, 0x22, 0x3A, 0x20, 0x31, 0x2C, 0x7D] =
        ({ type := JSNPG_ERROR, position := 8,
           u := result_union.error JSNPG_ERROR_EXPECTED_KEY },
          [Event.start_object, Event.key [0x6B], Event.integer 1]) ∧
    pull_events no_float 0 [0x7B, 0x22, 0x6B, 0x22, 0x3A, 0x20, 0x31, 0x2C, 0x7D] =
        (some { type := JSNPG_ERROR, position := 8,
                u := result_union.error JSNPG_ERROR_EXPECTED_KEY },
          [Event.start_object, Event.key [0x6B], Event.integer 1]) ∧
    push_events no_float 2 [0x5B, 0x2C, 0x5D] =
        ({ type := JSNPG_EOF, position := 3, u := result_union.none },
          [Event.start_array, Event.end_array]) ∧
    pull_events no_float 2 [0x5B, 0x2C, 0x5D] =
        (some { type := JSNPG_ERROR, position := 1,
                u := result_union.error JSNPG_ERROR_UNEXPECTED },
          [Event.start_array]) := by
  decide!

/-- C13, amended: let comments be off, and let the bytes ahead be optional
whitespace, a comma, optional whitespace and a closing bracket, inside an open
container.  With `trailing_commas` set, the push parser's inner loop (after an
element of an array, or after a member of an object) consumes the comma and
the bracket and hands the sink the end event only, and the pull parser (in the
state after an element, or after a member) returns that end event.  With the
flag cleared both parsers fail there: with `unexpected` at `]`, with
`expected_key` at `}`.  So `{"k": 1,}` with the flag set yields start_object,
key k, integer 1, end_object and eof in both parsers. -/
theorem C13_trailing_comma (fp : FloatPrims) (p : parser) (g : generator (List Event))
    (ws1 ws2 rest : List Nat) (hc : flag_set p.flags JSNPG_ALLOW_COMMENTS = false)
    (hws1 : ∀ b ∈ ws1, isWs b) (hws2 : ∀ b ∈ ws2, isWs b) (hptr : 0 < p.stack.ptr) :
    (ahead p.mis = ws1 ++ 0x2C :: (ws2 ++ 0x5D :: rest) →
      (flag_set p.flags JSNPG_ALLOW_TRAILING_COMMAS = true →
        (∃ p1, pg_inner record_callbacks STACK_ARRAY p g =
            GRes.ok (pg_ctl.inner (stack_type_of { p.stack with ptr := p.stack.ptr - 1 })) p1
              (deliver g [Event.end_array]) ∧
          Stepped p p1 (ws1.length + 1 + ws2.length + 1) ∧
          p1.stack = { p.stack with ptr := p.stack.ptr - 1 }) ∧
        (p.state = STATE_ARRAY_VALUE →
          ∃ p1, parse_next fp p = Res.ok JSNPG_END_ARRAY p1 ∧
            p1.result.type = JSNPG_END_ARRAY ∧
            Stepped p p1 (ws1.length + 1 + ws2.length + 1) ∧
            p1.stack = { p.stack with ptr := p.stack.ptr - 1 })) ∧
      (flag_set p.flags JSNPG_ALLOW_TRAILING_COMMAS = false →
        (∀ k, ∃ p1, pg_loop record_callbacks fp (k + 2) (pg_ctl.inner STACK_ARRAY) p g =
            GRes.thrown p1 g ∧ p1.result.type = JSNPG_ERROR ∧
          p1.result.u = result_union.error JSNPG_ERROR_UNEXPECTED) ∧
        (p.state = STATE_ARRAY_VALUE → Fails (parse_next fp p) JSNPG_ERROR_UNEXPECTED))) ∧
    (ahead p.mis = ws1 ++ 0x2C :: (ws2 ++ 0x7D :: rest) →
      (flag_set p.flags JSNPG_ALLOW_TRAILING_COMMAS = true →
        (∃ p1, pg_inner record_callbacks STACK_OBJECT p g =
            GRes.ok (pg_ctl.inner (stack_type_of { p.stack with ptr := p.stack.ptr - 1 })) p1
              (deliver g [Event.end_object]) ∧
          Stepped p p1 (ws1.length + 1 + ws2.length + 1) ∧
          p1.stack = { p.stack with ptr := p.stack.ptr - 1 }) ∧
        (p.state = STATE_KEY_VALUE →
          ∃ p1, parse_next fp p = Res.ok JSNPG_END_OBJECT p1 ∧
            p1.result.type = JSNPG_END_OBJECT ∧
            Stepped p p1 (ws1.length + 1 + ws2.length + 1) ∧
            p1.stack = { p.stack with ptr := p.stack.ptr - 1 })) ∧
      (flag_set p.flags JSNPG_ALLOW_TRAILING_COMMAS = false →
        (∀ k, ∃ p1, pg_loop record_callbacks fp (k + 2) (pg_ctl.inner STACK_OBJECT) p g =
            GRes.thrown p1 g ∧ p1.result.type = JSNPG_ERROR ∧
          p1.result.u = result_union.error JSNPG_ERROR_EXPECTED_KEY) ∧
        (p.state = STATE_KEY_VALUE → Fails (parse_next fp p) JSNPG_ERROR_EXPECTED_KEY))) ∧
    push_events no_float 2 [0x7B, 0x22, 0x6B, 0x22, 0x3A, 0x20, 0x31, 0x2C, 0x7D] =
        ({ type := JSNPG_EOF, position := 9, u := result_union.none },
          [Event.start_object, Event.key [0x6B], Event.integer 1, Event.end_object]) ∧
    pull_events no_float 2 [0x7B, 0x22, 0x6B, 0x22, 0x3A, 0x20, 0x31, 0x2C, 0x7D] =
        (some { type := JSNPG_EOF, position := 9, u := result_union.none },
          [Event.start_object, Event.key [0x6B], Event.integer 1, Event.end_object]) := by
  refine ⟨fun ha => ⟨fun ht => ⟨?_, fun hs => ?_⟩, fun ht => ⟨fun k => ?_, fun hs => ?_⟩⟩,
    fun ha => ⟨fun ht => ⟨?_, fun hs => ?_⟩, fun ht => ⟨fun k => ?_, fun hs => ?_⟩⟩,
    by decide!, by decide!⟩
  · exact push_trailing_array p g ws1 ws2 rest hc ht ha hws1 hws2 hptr
  · exact pull_trailing_array fp p ws1 ws2 rest hc ht hs ha hws1 hws2 hptr
  · exact push_strict_array fp p g ws1 ws2 rest hc ht ha hws1 hws2 k
  · exact pull_strict_array fp p ws1 ws2 rest hc ht hs ha hws1 hws2
  · exact push_trailing_object p g ws1 ws2 rest hc ht ha hws1 hws2 hptr
  · exact pull_trailing_object fp p ws1 ws2 rest hc ht hs ha hws1 hws2 hptr
  · exact push_strict_object fp p g ws1 ws2 rest hc ht ha hws1 hws2 k
  · exact pull_strict_object fp p ws1 ws2 rest hc ht hs ha hws1 hws2

/-- C13, amended, at the parser that has read `[1` of `[1,]` with
`trailing_commas` set: the next pull returns `end_array`, with the comma and
the bracket consumed. -/
theorem C13_trailing_comma_witness :
    ∃ p1, parse_next no_float
        { advance (jsnpg_parser_new_bytes 0 2 [0x5B, 0x31, 0x2C, 0x5D] 4) 2 with
          state := STATE_ARRAY_VALUE,
          stack := { ptr := 1, size := 1024, stack := 1 :: List.replicate 127 0 } } =
        Res.ok JSNPG_END_ARRAY p1 ∧
      p1.result.type = JSNPG_END_ARRAY ∧
      Stepped { advance (jsnpg_parser_new_bytes 0 2 [0x5B, 0x31, 0x2C, 0x5D] 4) 2 with
          state := STATE_ARRAY_VALUE,
          stack := { ptr := 1, size := 1024, stack := 1 :: List.replicate 127 0 } } p1 2 ∧
      p1.stack = { ptr := 0, size := 1024, stack := 1 :: List.replicate 127 0 } :=
  ((((C13_trailing_comma no_float
    { advance (jsnpg_parser_new_bytes 0 2 [0x5B, 0x31, 0x2C, 0x5D] 4) 2 with
      state := STATE_ARRAY_VALUE,
      stack := { ptr := 1, size := 1024, stack := 1 :: List.replicate 127 0 } }
    (generator_new 0 2 []) [] [] [0] (by decide) (by simp) (by simp) (by decide)).1
    (by decide)).1 (by decide)).2 rfl)

end Jsnpg

namespace Jsnpg

open jsnpg_type jsnpg_error_code parse_state

/-- C15 fails on the code for the pull parser on scalar values.  With
`multiple_values` set (option mask 8) both parsers deliver the two arrays of
`[1][2]` and finish with eof, and the push parser delivers integer 1,
integer 2 from `1 2` and finishes with eof; but the pull parser on `1 2`
returns integer 1 and its second call never returns a result:
`parse_next` leaves `p->state` at `STATE_DONE` when it restarts for the next
value, and `accept_integer` then calls `state_change_value(STATE_DONE)`, which
ends in `assert(false)`. -/
theorem C15_pull_multiple_scalars_abort :
    push_events no_float 8 [0x5B, 0x31, 0x5D, 0x5B, 0x32, 0x5D] =
        ({ type := JSNPG_EOF, position := 6, u := result_union.none },
          [Event.start_array, Event.integer 1, Event.end_array,
            Event.start_array, Event.integer 2, Event.end_array]) ∧
    pull_events no_float 8 [0x5B, 0x31, 0x5D, 0x5B, 0x32, 0x5D] =
        (some { type := JSNPG_EOF, position := 6, u := result_union.none },
          [Event.start_array, Event.integer 1, Event.end_array,
            Event.start_array, Event.integer 2, Event.end_array]) ∧
    push_events no_float 8 [0x31, 0x20, 0x32] =
        ({ type := JSNPG_EOF, position := 3, u := result_union.none },
          [Event.integer 1, Event.integer 2]) ∧
    pull_events no_float 8 [0x31, 0x20, 0x32] = (none, [Event.integer 1]) ∧
    state_change_value STATE_DONE = none := by
  decide!

end Jsnpg

namespace Jsnpg

open jsnpg_type jsnpg_error_code

/-- C16 fails on the code: `utf8_bom_bytes` compares `sizeof("\xEF\xBB\xBF")`
= 4 bytes, the fourth against the NUL that ends the literal.  So it never
returns 3; on EF BB BF followed by a non-zero byte it returns 0 and nothing is
skipped; only on EF BB BF 00 does it return 4.  The input EF BB BF `1` fails
with `unexpected` at position 0 while `1` alone parses to integer 1, and the
input EF BB BF 00 `1` parses to integer 1 with four bytes skipped. -/
theorem C16_bom_needs_a_zero_byte :
    (∀ bytes count, utf8_bom_bytes bytes count ≠ 3) ∧
    (∀ b rest count, b ≠ 0 → utf8_bom_bytes (0xEF :: 0xBB :: 0xBF :: b :: rest) count = 0) ∧
    (∀ rest count, 4 ≤ count → utf8_bom_bytes (0xEF :: 0xBB :: 0xBF :: 0 :: rest) count = 4) ∧
    utf8_bom_bytes [0xEF, 0xBB, 0xBF] 3 = 0 ∧
    push_events no_float 0 [0xEF, 0xBB, 0xBF, 0x31] =
        ({ type := JSNPG_ERROR, position := 0,
           u := result_union.error JSNPG_ERROR_UNEXPECTED }, []) ∧
    push_events no_float 0 [0x31] =
        ({ type := JSNPG_EOF, position := 1, u := result_union.none }, [Event.integer 1]) ∧
    push_events no_float 0 [0xEF, 0xBB, 0xBF, 0x00, 0x31] =
        ({ type := JSNPG_EOF, position := 1, u := result_union.none }, [Event.integer 1]) := by
  refine ⟨?_, ?_, ?_, by decide, by decide!, by decide!, by decide!⟩
  · intro bytes count
    unfold utf8_bom_bytes
    simp only []
    split_ifs <;> decide
  · intro b rest count hb
    have h0 : ¬ (0 = b) := fun h => hb h.symm
    simp [utf8_bom_bytes, BYTE_ORDER_MARK, List.range, List.range.loop, h0]
  · intro rest count hc
    simp [utf8_bom_bytes, BYTE_ORDER_MARK, List.range, List.range.loop, hc]

end Jsnpg

namespace Jsnpg

open jsnpg_type jsnpg_error_code

/-- C17 fails on the code for `jsnpg_parse_opt`.  `jsnpg_parser_new_opt` does
report `opt` exactly when the number of sources among bytes, string and dom is
not one.  But `jsnpg_parse_opt` builds the parser from bytes, count and dom
only, leaving `string` out: a call that supplies only a zero-terminated string
returns the `opt` error whatever the string holds, and a call that supplies
both bytes and a string reports no `opt` error and parses the bytes. -/
theorem C17_parse_opt_drops_string :
    (∀ opts : jsnpg_parser_opts,
      (jsnpg_parser_new_opt opts).result = make_error_return JSNPG_ERROR_OPT 0 ↔
        not_null opts.bytes + not_null opts.string + not_null opts.dom ≠ 1) ∧
    (∀ (fp : FloatPrims) (heap : List jsnpg_dom) (max_nesting allow count : Nat)
        (string : List Nat) (cb : Option (callbacks (List Event))) (ctx : List Event)
        (g : Option (callbacks (List Event) × generator (List Event))),
      jsnpg_parse_opt fp heap
          { max_nesting := max_nesting, allow := allow, bytes := none, count := count,
            string := some string, dom := none, callbacks := cb, ctx := ctx, generator := g } =
        some (make_error_return JSNPG_ERROR_OPT 0, none)) ∧
    (jsnpg_parse_opt no_float []
          { max_nesting := 0, allow := 0, bytes := some [0x31], count := 1,
            string := some [0x32, 0], dom := none, callbacks := some record_callbacks,
            ctx := [], generator := none }).map (fun r => (r.1, r.2.map (fun g => g.ctx))) =
        some ({ type := JSNPG_EOF, position := 1, u := result_union.none },
          some [Event.integer 1]) := by
  refine ⟨?_, ?_, by decide!⟩
  · intro opts
    rcases opts with ⟨mn, al, b, c, s, d⟩
    rcases b with _ | b <;> rcases s with _ | s <;> rcases d with _ | d <;>
      simp [jsnpg_parser_new_opt, not_null, parser_new, parser_set_bytes, make_error_return]
  · intro fp heap mn al c s cb ctx g
    simp [jsnpg_parse_opt, jsnpg_parser_new_opt, not_null, make_error_return]

end Jsnpg

namespace Jsnpg

open jsnpg_type jsnpg_error_code

/-- C18 fails on the code for the event-log source.  `dom_parse` never stores
an error in the parser, so `make_pg_error_return` finds no error there and
returns `unexpected` at position 0: every error result of a parse of an event
log is that one.  In particular, replaying the log that records the single
event `null` into a sink that refuses `null` returns `unexpected`, whatever
error the sink deposits in the generator (an error such as `utf8`, or none).
On the byte buffer `null` the same sink gets the deposited error `utf8`, and
`terminated` when it deposits none. -/
theorem C18_dom_parse_reports_unexpected :
    (∀ (cb : callbacks (List Event)) (heap : List jsnpg_dom) (max_nesting allow root : Nat)
        (g g1 : generator (List Event)) (r : jsnpg_result),
      dom_parse cb heap (jsnpg_parser_new_dom max_nesting allow root) g = some (r, g1) →
      r.type = JSNPG_ERROR → r = make_error_return JSNPG_ERROR_UNEXPECTED 0) ∧
    (∀ (junk : Nat → Nat → Nat) (code : jsnpg_error_code),
      dom_parse (refuse_null_callbacks code) (dom_record junk [Event.null])
          (jsnpg_parser_new_dom 0 0 0) (generator_new 0 0 []) =
        some (make_error_return JSNPG_ERROR_UNEXPECTED 0,
          { generator_new 0 0 [] with error := code })) ∧
    (jsnpg_parse_bytes_callbacks (refuse_null_callbacks JSNPG_ERROR_UTF8) no_float [] 0 0
          [0x6E, 0x75, 0x6C, 0x6C] 4).1 =
        { type := JSNPG_ERROR, position := 4, u := result_union.error JSNPG_ERROR_UTF8 } ∧
    (jsnpg_parse_bytes_callbacks (refuse_null_callbacks JSNPG_ERROR_NONE) no_float [] 0 0
          [0x6E, 0x75, 0x6C, 0x6C] 4).1 =
        { type := JSNPG_ERROR, position := 4,
          u := result_union.error JSNPG_ERROR_TERMINATED } := by
  refine ⟨?_, ?_, by decide!, by decide!⟩
  · intro cb heap mn al root g g1 r h hr
    exact dom_parse_error cb heap mn al root g g1 r h hr
  · intro junk code
    obtain ⟨blk, h1, h2⟩ := dom_record_null junk
    rw [h1]
    exact dom_parse_refused code none (some 0) 56 8192 blk [] h2 0 0 _

end Jsnpg

namespace Jsnpg

open jsnpg_type jsnpg_error_code

/-- C19: with the read position at the backslash of an escape, `parse_escape`
fails with `surrogate` when the four hex digits after `\u` denote a value in
DC00..DFFF; when they denote a value in D800..DBFF and the next two bytes are
not a backslash and `u`; and when they are, and the four hex digits after
that second `\u` denote a value outside DC00..DFFF.  It fails with `escape`
when the byte after the backslash is none of the eight escape letters and not
`u`, and when one of the four bytes after `\u` (of the first escape, or of
the second after a high surrogate) is not a hex digit. -/
theorem C19_parse_escape_errors (p : parser) :
    (∀ v, byte_at p 1 = 0x75 →
      hex4Value (byte_at p 2) (byte_at p 3) (byte_at p 4) (byte_at p 5) = some v →
      ((0xDC00 ≤ v ∧ v ≤ 0xDFFF) → Fails (parse_escape p) JSNPG_ERROR_SURROGATE) ∧
      ((0xD800 ≤ v ∧ v ≤ 0xDBFF) → ¬ (byte_at p 6 = 0x5C ∧ byte_at p 7 = 0x75) →
        Fails (parse_escape p) JSNPG_ERROR_SURROGATE) ∧
      ((0xD800 ≤ v ∧ v ≤ 0xDBFF) → byte_at p 6 = 0x5C → byte_at p 7 = 0x75 →
        (∀ lo, hex4Value (byte_at p 8) (byte_at p 9) (byte_at p 10) (byte_at p 11) = some lo →
          ¬ (0xDC00 ≤ lo ∧ lo ≤ 0xDFFF) → Fails (parse_escape p) JSNPG_ERROR_SURROGATE) ∧
        (hex4Value (byte_at p 8) (byte_at p 9) (byte_at p 10) (byte_at p 11) = none →
          Fails (parse_escape p) JSNPG_ERROR_ESCAPE))) ∧
    (escapeValue (byte_at p 1) = none → byte_at p 1 ≠ 0x75 →
      Fails (parse_escape p) JSNPG_ERROR_ESCAPE) ∧
    (byte_at p 1 = 0x75 →
      hex4Value (byte_at p 2) (byte_at p 3) (byte_at p 4) (byte_at p 5) = none →
      Fails (parse_escape p) JSNPG_ERROR_ESCAPE) := by
  have he : escape_table 0x75 = 0 := by decide
  have b := byte_at_ahead p
  refine ⟨fun v g1 hv => ⟨?_, ?_, ?_⟩, ?_, ?_⟩
  · intro hr
    unfold parse_escape
    rw [← advance_zero p]
    simp only [PM_bind_apply, take_adv, peek_adv, Nat.zero_add, b, g1, he, ne_eq,
      not_true_eq_false, if_false, if_true]
    rw [parse_hex4_ok p 2 _ _ _ _ v (b 2) (b 3) (b 4) (b 5) hv]
    simp only [ge_iff_le, (show 0xD800 ≤ v by omega), hr.2, and_self, if_true,
      (show ¬ v ≤ 0xDBFF by omega), if_false]
    exact Fails_throw _ _
  · intro hr hn
    rw [parse_escape_high p v g1 hv hr]
    by_cases h6 : byte_at p 6 = 0x5C
    · have h7 : ¬ byte_at p 7 = 0x75 := fun h => hn ⟨h6, h⟩
      rw [if_pos h6, if_neg h7]
      exact Fails_throw _ _
    · rw [if_neg h6]
      exact Fails_throw _ _
  · intro hr h6 h7
    rw [parse_escape_high p v g1 hv hr, if_pos h6, if_pos h7]
    refine ⟨fun lo hlo hout => ?_, fun hnone => ?_⟩
    · show Fails (PM.bind _ _ _) _
      unfold PM.bind
      rw [parse_hex4_ok p 8 _ _ _ _ lo (b 8) (b 9) (b 10) (b 11) hlo]
      simp only [(show lo < 0xDC00 ∨ lo > 0xDFFF by omega), if_true]
      exact Fails_throw _ _
    · obtain ⟨p1, e1, e2, e3⟩ := parse_hex4_fail p 8 _ _ _ _ (b 8) (b 9) (b 10) (b 11) hnone
      show Fails (PM.bind _ _ _) _
      unfold PM.bind
      rw [e1]
      exact ⟨p1, rfl, e2, e3⟩
  · intro hnone hu
    unfold parse_escape
    rw [← advance_zero p]
    simp only [PM_bind_apply, take_adv, peek_adv, Nat.zero_add, b, escape_table_eq, hnone,
      Option.getD_none, ne_eq, not_true_eq_false, if_false, hu]
    exact Fails_throw _ _
  · intro g1 hnone
    unfold parse_escape
    rw [← advance_zero p]
    simp only [PM_bind_apply, take_adv, peek_adv, Nat.zero_add, b, g1, he, ne_eq,
      not_true_eq_false, if_false, if_true]
    obtain ⟨p1, e1, e2, e3⟩ := parse_hex4_fail p 2 _ _ _ _ (b 2) (b 3) (b 4) (b 5) hnone
    rw [e1]
    exact ⟨p1, rfl, e2, e3⟩

/-- C19 at the lone low surrogate `\uDC00`, with the read position at its
backslash: `parse_escape` fails with `surrogate`. -/
theorem C19_parse_escape_errors_witness :
    Fails (parse_escape (advance (jsnpg_parser_new_bytes 0 0
        [0x22, 0x5C, 0x75, 0x44, 0x43, 0x30, 0x30, 0x22] 8) 1)) JSNPG_ERROR_SURROGATE :=
  ((C19_parse_escape_errors (advance (jsnpg_parser_new_bytes 0 0
      [0x22, 0x5C, 0x75, 0x44, 0x43, 0x30, 0x30, 0x22] 8) 1)).1 0xDC00 (by decide)
    (by decide)).1 (by decide)

end Jsnpg

namespace Jsnpg

open jsnpg_type jsnpg_error_code

/-- C20: let the bytes ahead be a grammatical numeral with an exponent part
(any of the marks `e E e+ E+ e- E-`, then one or more digits, leading zeros
allowed), followed by a byte that is not a digit.  When the exponent digits
denote more than 1000, `parse_number` fails with `number`.  When they denote at
most 1000, the scan gets through the exponent: `parse_number` consumes the
whole numeral and hands it to the conversion to double, and it then returns
real unless `parse_float_strtod` refuses the numeral. -/
theorem C20_exponent_bound (fp : FloatPrims) (p : parser) (neg : Bool)
    (ip : List Nat) (frac : Option (List Nat)) (ms ds : List Nat) (rest : List Nat)
    (hnum : isNumeral ip frac (some (ms, ds))) (hb : rest.headD 0 < 256)
    (hnd : ¬ isDigit (rest.headD 0))
    (ha : ahead p.mis = numeralText neg ip frac (some (ms, ds)) ++ rest) :
    (1000 < decimalValue ds → Fails (parse_number fp p) JSNPG_ERROR_NUMBER) ∧
    (decimalValue ds ≤ 1000 →
      (∃ n, parse_number fp p =
        parse_number_real fp p.mis.read neg n
          (advance p (numeralText neg ip frac (some (ms, ds))).length)) ∧
      ((∃ d p1, parse_number fp p = Res.ok (JSNPG_REAL, result_union.real d) p1) ∨
        fp.parse_float_strtod (ahead p.mis) = none)) := by
  constructor
  · intro hover
    exact parse_number_exponent_above fp p neg ip frac ms ds rest hnum ha hover
  · intro hle
    obtain ⟨n, hn⟩ := parse_number_reaches_real fp p neg ip frac (some (ms, ds)) rest hnum hb hnd
      (fun h => by cases h) (fun _ h => by cases h) ha hle (Or.inr (Or.inl (by simp)))
    refine ⟨⟨n, hn⟩, ?_⟩
    rw [hn]
    rcases parse_number_real_cases fp p.mis.read neg n
      (advance p (numeralText neg ip frac (some (ms, ds))).length) with h | ⟨_, h2⟩
    · exact Or.inl h
    · exact Or.inr h2

/-- C20 at `2E-01001` followed by the sentinel: the exponent digits `01001`
denote 1001, and `parse_number` fails with `number`. -/
theorem C20_exponent_bound_witness :
    Fails (parse_number any_float
      (jsnpg_parser_new_bytes 0 0 [0x32, 0x45, 0x2D, 0x30, 0x31, 0x30, 0x30, 0x31] 8))
      JSNPG_ERROR_NUMBER :=
  (C20_exponent_bound any_float
    (jsnpg_parser_new_bytes 0 0 [0x32, 0x45, 0x2D, 0x30, 0x31, 0x30, 0x30, 0x31] 8) false
    [0x32] none [0x45, 0x2D] [0x30, 0x31, 0x30, 0x30, 0x31] [0]
    ⟨Or.inr ⟨0x32, [], rfl, by decide, by decide, by simp⟩, by simp,
      fun ms ds h => by
        simp only [Option.some.injEq, Prod.mk.injEq] at h
        obtain ⟨rfl, rfl⟩ := h
        exact ⟨Or.inr (Or.inr (Or.inr (Or.inr (Or.inr rfl)))), by simp, by decide⟩⟩
    (by decide) (by decide) (by decide)).1 (by decide)

end Jsnpg

namespace Jsnpg

open jsnpg_type jsnpg_error_code

/-- C21 as stated fails: a number with a leading zero before another digit is
not rejected with `number`.  `parse_number` stops after the `0` and returns
the integer 0, which the sink receives; the digit that follows is then met
where a comma, a closing bracket or the end of the input is expected, and the
error is `unexpected`.  So it is for `01` and `-012` at top level and for
`[01]`, in the push parser and in the pull parser. -/
theorem C21_leading_zero_is_unexpected :
    push_events no_float 0 [0x30, 0x31] =
        ({ type := JSNPG_ERROR, position := 1,
           u := result_union.error JSNPG_ERROR_UNEXPECTED }, [Event.integer 0]) ∧
    push_events no_float 0 [0x2D, 0x30, 0x31, 0x32] =
        ({ type := JSNPG_ERROR, position := 2,
           u := result_union.error JSNPG_ERROR_UNEXPECTED }, [Event.integer 0]) ∧
    push_events no_float 0 [0x5B, 0x30, 0x31, 0x5D] =
        ({ type := JSNPG_ERROR, position := 2,
           u := result_union.error JSNPG_ERROR_UNEXPECTED },
          [Event.start_array, Event.integer 0]) ∧
    pull_events no_float 0 [0x30, 0x31] =
        (some { type := JSNPG_ERROR, position := 1,
                u := result_union.error JSNPG_ERROR_UNEXPECTED }, [Event.integer 0]) ∧
    pull_events no_float 0 [0x5B, 0x30, 0x31, 0x5D] =
        (some { type := JSNPG_ERROR, position := 2,
                u := result_union.error JSNPG_ERROR_UNEXPECTED },
          [Event.start_array, Event.integer 0]) := by
  decide!

/-- C21, amended: an input whose number has a leading zero followed by another
digit `d` (an optional `-`, `0`, `d`, then any bytes `rest`) is rejected in
strict mode with the error `unexpected` at the offset of `d`, after the integer
0 was delivered.  Wherever the parser `p` stands at such a number,
`parse_number` stops after the `0` and returns the integer 0; at top level the
push parser and the pull parser deliver `integer(0)` and fail with `unexpected`
at the digit; as the first element of an array the push parser delivers
`start_array`, `integer(0)` and fails with `unexpected` at the digit. -/
theorem C21_leading_zero_read_as_zero (fp : FloatPrims) (neg : Bool) (d : Nat)
    (rest : List Nat) (p : parser) (hd : isDigit d)
    (ha : ahead p.mis = signText neg ++ 0x30 :: d :: rest) :
    parse_number fp p = Res.ok (JSNPG_INTEGER, result_union.integer 0)
        (advance p ((signText neg).length + 1)) ∧
    push_events fp 0 (signText neg ++ 0x30 :: d :: rest) =
        ({ type := JSNPG_ERROR, position := (signText neg).length + 1,
           u := result_union.error JSNPG_ERROR_UNEXPECTED }, [Event.integer 0]) ∧
    pull_events fp 0 (signText neg ++ 0x30 :: d :: rest) =
        (some { type := JSNPG_ERROR, position := (signText neg).length + 1,
                u := result_union.error JSNPG_ERROR_UNEXPECTED }, [Event.integer 0]) ∧
    push_events fp 0 (0x5B :: (signText neg ++ 0x30 :: d :: rest)) =
        ({ type := JSNPG_ERROR, position := (signText neg).length + 2,
           u := result_union.error JSNPG_ERROR_UNEXPECTED },
          [Event.start_array, Event.integer 0]) := by
  refine ⟨parse_number_zero fp p neg d rest hd ha, ?_, pull_events_zero fp neg d rest hd, ?_⟩
  · have hhead : (signText neg ++ 0x30 :: d :: rest).headD 0 ≠ 0xEF := by
      have := zero_head neg d rest; omega
    obtain ⟨f1, f2, f3, f4, f5, _, _, _⟩ := strict_start_facts _ hhead
    obtain ⟨p0, hp0⟩ : ∃ p0, p0 = jsnpg_parser_new_bytes 0 0 (signText neg ++ 0x30 :: d :: rest)
      (signText neg ++ 0x30 :: d :: rest).length := ⟨_, rfl⟩
    rw [← hp0] at f1 f2 f3 f4 f5
    have ha0 : ahead p0.mis = signText neg ++ 0x30 :: (d :: (rest ++ [0])) := by
      rw [f2]; simp
    have hpg := parse_generate_zero fp p0 (generator_new 0 0 []) neg d (rest ++ [0]) hd f1 ha0
    have hread : (advance p0 ((signText neg).length + 1)).mis.read =
        (signText neg).length + 1 := by
      show p0.mis.read + _ = _
      rw [f3, Nat.zero_add]
    have hne : (advance p0 ((signText neg).length + 1)).mis.read ≠
        (advance p0 ((signText neg).length + 1)).mis.count := by
      rw [hread]
      show _ ≠ p0.mis.count
      rw [f4]
      simp only [List.length_append, List.length_cons]
      omega
    subst hp0
    rw [push_events_trailing fp _ _ _ hpg f1 f5 hne, hread]
    rfl
  · obtain ⟨f1, f2, f3, _, _, _, _, f8⟩ := strict_start_facts
      (0x5B :: (signText neg ++ 0x30 :: d :: rest)) (by rw [List.headD_cons]; norm_num)
    obtain ⟨p0, hp0⟩ : ∃ p0, p0 = jsnpg_parser_new_bytes 0 0
      (0x5B :: (signText neg ++ 0x30 :: d :: rest))
      (0x5B :: (signText neg ++ 0x30 :: d :: rest)).length := ⟨_, rfl⟩
    rw [← hp0] at f1 f2 f3 f8
    have ha0 : ahead p0.mis = 0x5B :: (signText neg ++ 0x30 :: (d :: (rest ++ [0]))) := by
      rw [f2]; simp
    obtain ⟨p1, hpg, hread, hu⟩ := parse_generate_array_zero fp p0 (generator_new 0 0 []) neg d
      (rest ++ [0]) hd f1 (by rw [f8]; unfold StackOk; simp)
      (by rw [f8]; norm_num) ha0
    subst hp0
    rw [push_events_thrown_at fp _ p1 _ _ hpg hu (by decide), hread, f3, Nat.zero_add]
    rfl

theorem C21_leading_zero_read_as_zero_witness :
    isDigit 0x31 ∧
    ahead (jsnpg_parser_new_bytes 0 0 [0x30, 0x31] 2).mis = signText false ++ 0x30 :: 0x31 :: [0] ∧
    (parse_number no_float (jsnpg_parser_new_bytes 0 0 [0x30, 0x31] 2) =
        Res.ok (JSNPG_INTEGER, result_union.integer 0)
          (advance (jsnpg_parser_new_bytes 0 0 [0x30, 0x31] 2) ((signText false).length + 1)) ∧
      push_events no_float 0 (signText false ++ 0x30 :: 0x31 :: [0]) =
        ({ type := JSNPG_ERROR, position := (signText false).length + 1,
           u := result_union.error JSNPG_ERROR_UNEXPECTED }, [Event.integer 0]) ∧
      pull_events no_float 0 (signText false ++ 0x30 :: 0x31 :: [0]) =
        (some { type := JSNPG_ERROR, position := (signText false).length + 1,
                u := result_union.error JSNPG_ERROR_UNEXPECTED }, [Event.integer 0]) ∧
      push_events no_float 0 (0x5B :: (signText false ++ 0x30 :: 0x31 :: [0])) =
        ({ type := JSNPG_ERROR, position := (signText false).length + 2,
           u := result_union.error JSNPG_ERROR_UNEXPECTED },
          [Event.start_array, Event.integer 0])) :=
  ⟨by decide, by decide,
    C21_leading_zero_read_as_zero no_float false 0x31 [0]
      (jsnpg_parser_new_bytes 0 0 [0x30, 0x31] 2) (by decide) (by decide)⟩

end Jsnpg

namespace Jsnpg

open jsnpg_type jsnpg_error_code

/-- C22: for every signed 64-bit integer `n`, `i64toa` writes the canonical
decimal representation of `n`: a `-` when `n` is negative, then the decimal
digits of `|n|`, which are the single digit `0` for zero and start with a
non-zero digit otherwise (the integer part of the JSON grammar).  The text has
at most 20 bytes, so `jos_puti`, which reserves 22, appends exactly that text;
and wherever a delimiter follows it, `parse_number` reads it back as the
integer `n`. -/
theorem C22_i64toa_canonical (n : Int) (hlo : -2 ^ 63 ≤ n) (hhi : n < 2 ^ 63) :
    i64toa n = canonicalInt n ∧
    isIntegerPart (decimalText n.natAbs) ∧
    (i64toa n).length ≤ 20 ∧
    (∀ g : jgen, jos_puti g n = (true, jos_puts g (i64toa n))) ∧
    (∀ (fp : FloatPrims) (p : parser) (rest : List Nat), ahead p.mis = i64toa n ++ rest →
      isDelim (rest.headD 0) →
      parse_number fp p =
        Res.ok (JSNPG_INTEGER, result_union.integer n) (advance p (i64toa n).length)) :=
  ⟨i64toa_eq n hlo hhi, decimalText_integer_part _, i64toa_length n hlo hhi,
    fun g => jos_puti_eq g n hlo hhi,
    fun fp p rest ha hdl => i64toa_parses fp n hlo hhi p rest ha hdl⟩

/-- C22 at the least 64-bit integer, which `i64toa` writes as
`-9223372036854775808`. -/
theorem C22_i64toa_canonical_witness :
    i64toa (-9223372036854775808) =
        [0x2D, 0x39, 0x32, 0x32, 0x33, 0x33, 0x37, 0x32, 0x30, 0x33, 0x36, 0x38, 0x35, 0x34,
          0x37, 0x37, 0x35, 0x38, 0x30, 0x38] ∧
      (i64toa (-9223372036854775808) = canonicalInt (-9223372036854775808) ∧
      isIntegerPart (decimalText (-9223372036854775808 : Int).natAbs) ∧
      (i64toa (-9223372036854775808)).length ≤ 20 ∧
      (∀ g : jgen, jos_puti g (-9223372036854775808) =
        (true, jos_puts g (i64toa (-9223372036854775808)))) ∧
      (∀ (fp : FloatPrims) (p : parser) (rest : List Nat),
        ahead p.mis = i64toa (-9223372036854775808) ++ rest → isDelim (rest.headD 0) →
        parse_number fp p =
          Res.ok (JSNPG_INTEGER, result_union.integer (-9223372036854775808))
            (advance p (i64toa (-9223372036854775808)).length))) :=
  ⟨by decide, C22_i64toa_canonical (-9223372036854775808) (by decide) (by decide)⟩

end Jsnpg

namespace Jsnpg

open jsnpg_type jsnpg_error_code

/-- C23: for every byte string `s`, `jos_scan_escape` writes, byte by byte and
in order, what `escapeText` says: for the bytes 0x22, 0x5C, 0x08, 0x09, 0x0A,
0x0C, 0x0D the two-byte escapes, for every other byte below 0x20 the six bytes
`\u00XX` with uppercase hex digits, and every other byte unchanged (so without
validation the output is the concatenation of `escapeByte` over `s` and the
call succeeds); with validation on, at a byte of 0x80 or above the bytes of
the sequence that `utf8_validate_sequence` accepts are copied, and where it
accepts none the call returns false with the error `utf8` in the generator. -/
theorem C23_jos_scan_escape (g : jgen) (s : List Nat) (hb : ∀ b ∈ s, b < 256) :
    jos_scan_escape g s s.length =
      ((escapeText g.validate_utf8 s.length s).1,
        if (escapeText g.validate_utf8 s.length s).1 then
          jos_puts g (escapeText g.validate_utf8 s.length s).2
        else { jos_puts g (escapeText g.validate_utf8 s.length s).2 with
          error := JSNPG_ERROR_UTF8 }) ∧
    (g.validate_utf8 = false →
      jos_scan_escape g s s.length = (true, jos_puts g (s.flatMap escapeByte))) :=
  ⟨jos_scan_escape_bytes g s hb, jos_scan_escape_raw g s hb⟩

/-- C23 at the string of the bytes 0x01, `"`, newline, `é`, 0x1F: the emitter
writes `\u0001\"\né\u001F`; and with validation on, the string `a`, 0xFF fails
with `utf8` after `a` was written. -/
theorem C23_jos_scan_escape_witness :
    (∀ b ∈ [0x01, 0x22, 0x0A, 0xC3, 0xA9, 0x1F], b < 256) ∧
    (jos_scan_escape (generator_new 0 0 (jos_new 0)) [0x01, 0x22, 0x0A, 0xC3, 0xA9, 0x1F] 6 =
      ((escapeText true 6 [0x01, 0x22, 0x0A, 0xC3, 0xA9, 0x1F]).1,
        if (escapeText true 6 [0x01, 0x22, 0x0A, 0xC3, 0xA9, 0x1F]).1 then
          jos_puts (generator_new 0 0 (jos_new 0))
            (escapeText true 6 [0x01, 0x22, 0x0A, 0xC3, 0xA9, 0x1F]).2
        else { jos_puts (generator_new 0 0 (jos_new 0))
            (escapeText true 6 [0x01, 0x22, 0x0A, 0xC3, 0xA9, 0x1F]).2 with
          error := JSNPG_ERROR_UTF8 }) ∧
      ((generator_new 0 0 (jos_new 0)).validate_utf8 = false →
        jos_scan_escape (generator_new 0 0 (jos_new 0)) [0x01, 0x22, 0x0A, 0xC3, 0xA9, 0x1F] 6 =
          (true, jos_puts (generator_new 0 0 (jos_new 0))
            ([0x01, 0x22, 0x0A, 0xC3, 0xA9, 0x1F].flatMap escapeByte)))) ∧
    escapeText true 6 [0x01, 0x22, 0x0A, 0xC3, 0xA9, 0x1F] =
      (true, [0x5C, 0x75, 0x30, 0x30, 0x30, 0x31, 0x5C, 0x22, 0x5C, 0x6E, 0xC3, 0xA9,
        0x5C, 0x75, 0x30, 0x30, 0x31, 0x46]) ∧
    escapeText true 2 [0x61, 0xFF] = (false, [0x61]) :=
  ⟨by decide,
    C23_jos_scan_escape (generator_new 0 0 (jos_new 0)) [0x01, 0x22, 0x0A, 0xC3, 0xA9, 0x1F]
      (by decide),
    by decide, by decide⟩

end Jsnpg

namespace Jsnpg
open jsnpg_type jsnpg_error_code parse_state

/-- C24: with indent 0 the emitter's output for a well-formed sequence of
events of one JSON value (an integer is a `long`, a string or a key is
accepted by the scan for escapes, the nesting depth is below 2^32 as every
depth within an `unsigned` maximum is) is the compact text of the events:
the texts of the scalars, the keys in quotes each followed by exactly `:`,
and the brackets, with exactly one `,` between sibling values and between
members, none after an opening bracket or before a closing one, and no other
byte, so neither a newline nor a space outside the string literals; an empty
container prints as the two brackets. -/
theorem C24_compact_output (fp : FloatPrims) (allow : Nat) (v : List Event) (d : Nat)
    (ht : EventTree (EmitOk (!flag_set allow JSNPG_ALLOW_INVALID_UTF8_OUT)) Kind.value v d)
    (hd : d < 2 ^ 32) :
    emit_events fp 0 allow v =
      (true, compactText fp (!flag_set allow JSNPG_ALLOW_INVALID_UTF8_OUT) false v) := by
  obtain ⟨t, hlay, hrun⟩ := emit_events_layout fp 0 allow _ (fun e h => h) v d ht hd
  have hc := layout_compact fp _ _ _ (fun w hw => hw.2 rfl) _ t v d hlay false []
  rw [hrun]
  congr 1
  simpa [compactText] using hc.symm

/-- C24 at the events of `[1, 2.5, "a", true, null, {"k": []}]`, with a
formatter that writes `2.5`: the output is
`[1,2.5,"a",true,null,{"k":[]}]`. -/
theorem C24_compact_output_witness :
    EventTree (EmitOk (!flag_set 0 JSNPG_ALLOW_INVALID_UTF8_OUT)) Kind.value
        [Event.start_array, Event.integer 1, Event.real 0x4004000000000000,
          Event.string [0x61], Event.boolean true, Event.null, Event.start_object,
          Event.key [0x6B], Event.start_array, Event.end_array, Event.end_object,
          Event.end_array] 3 ∧
      emit_events { any_float with dtoa := fun _ => [0x32, 0x2E, 0x35] } 0 0
        [Event.start_array, Event.integer 1, Event.real 0x4004000000000000,
          Event.string [0x61], Event.boolean true, Event.null, Event.start_object,
          Event.key [0x6B], Event.start_array, Event.end_array, Event.end_object,
          Event.end_array] =
      (true, [0x5B, 0x31, 0x2C, 0x32, 0x2E, 0x35, 0x2C, 0x22, 0x61, 0x22, 0x2C, 0x74, 0x72,
        0x75, 0x65, 0x2C, 0x6E, 0x75, 0x6C, 0x6C, 0x2C, 0x7B, 0x22, 0x6B, 0x22, 0x3A, 0x5B,
        0x5D, 0x7D, 0x5D]) := by
  have ht : EventTree (EmitOk (!flag_set 0 JSNPG_ALLOW_INVALID_UTF8_OUT)) Kind.value
      [Event.start_array, Event.integer 1, Event.real 0x4004000000000000,
        Event.string [0x61], Event.boolean true, Event.null, Event.start_object,
        Event.key [0x6B], Event.start_array, Event.end_array, Event.end_object,
        Event.end_array] 3 :=
    EventTree.array _ 2
      (EventTree.elements [Event.integer 1] 0 _ 2
        (EventTree.scalar (Event.integer 1) rfl
          (show (-2 : Int) ^ 63 ≤ 1 ∧ (1 : Int) < 2 ^ 63 from by decide))
        (EventTree.elements [Event.real 0x4004000000000000] 0 _ 2
          (EventTree.scalar (Event.real 0x4004000000000000) rfl trivial)
          (EventTree.elements [Event.string [0x61]] 0 _ 2
            (EventTree.scalar (Event.string [0x61]) rfl
              (show StringOk true [0x61] from ⟨by decide, by decide⟩))
            (EventTree.elements [Event.boolean true] 0 _ 2
              (EventTree.scalar (Event.boolean true) rfl trivial)
              (EventTree.elements [Event.null] 0 _ 2
                (EventTree.scalar Event.null rfl trivial)
                (EventTree.element _ 2
                  (EventTree.object _ 1
                    (EventTree.member [0x6B] _ 1
                      (show StringOk true [0x6B] from ⟨by decide, by decide⟩)
                      EventTree.empty_array))))))))
  exact ⟨ht, (C24_compact_output { any_float with dtoa := fun _ => [0x32, 0x2E, 0x35] } 0 _ 3
    ht (by decide)).trans (by decide!)⟩

end Jsnpg

namespace Jsnpg

open jsnpg_type jsnpg_error_code

/-- C25 fails in the code for a configured maximum above 2048.  `stack_push`
keeps the byte index `sp >> 3` in a variable of type `byte`, so from depth
2048 on it writes to byte `(sp >> 3) mod 256` while `stack_peek` reads byte
`sp >> 3`.  For a stack of size 4096 and depth 2048 that holds arrays only,
pushing an object clears the bit of entry 0, which was an array; and for one
that holds objects only, pushing an array sets the bit of entry 0 and
`stack_peek` then reports an object.  For sizes up to 2048 the stack is
last-in-first-out: after a push of `t` the depth is one more, `stack_peek`
is `t`, the entries below are unchanged, and `stack_pop` gives back the depth
and reports the kind that was on top before the push (`STACK_NONE` for an
empty stack). -/
theorem C25_push_wraps_at_2048 :
    (stack_bit (⟨2048, 4096, List.replicate 256 0xFF ++ List.replicate 256 0⟩ : stack) 0 = 1 ∧
      (stack_push (⟨2048, 4096, List.replicate 256 0xFF ++ List.replicate 256 0⟩ : stack) STACK_OBJECT).1 = 0 ∧
      stack_bit (stack_push (⟨2048, 4096, List.replicate 256 0xFF ++ List.replicate 256 0⟩ : stack) STACK_OBJECT).2 0 = 0) ∧
    (stack_bit (⟨2048, 4096, List.replicate 512 0⟩ : stack) 0 = 0 ∧
      (stack_push (⟨2048, 4096, List.replicate 512 0⟩ : stack)
        STACK_ARRAY).1 = 0 ∧
      stack_bit (stack_push (⟨2048, 4096, List.replicate 512 0⟩ : stack)
        STACK_ARRAY).2 0 = 1 ∧
      stack_peek (stack_push (⟨2048, 4096, List.replicate 512 0⟩ : stack)
        STACK_ARRAY).2 = STACK_OBJECT) ∧
    (∀ (s : stack) (t : Int), StackOk s → s.ptr < s.size →
      t = STACK_ARRAY ∨ t = STACK_OBJECT →
      (stack_push s t).1 = 0 ∧ (stack_push s t).2.ptr = s.ptr + 1 ∧
      stack_peek (stack_push s t).2 = t ∧
      (∀ i, i < s.ptr → stack_bit (stack_push s t).2 i = stack_bit s i) ∧
      (stack_pop (stack_push s t).2).1 = stack_type_of s ∧
      (stack_pop (stack_push s t).2).2.ptr = s.ptr) := by
  refine ⟨by decide!, by decide!, ?_⟩
  intro s t hok hroom ht
  obtain ⟨s1, h1, h2, h3, h4, h5, h6⟩ := stack_push_ok s t hok hroom
  rw [h1]
  have hpop := (stack_pop_ok s1 (by omega)).1
  refine ⟨rfl, h2, ?_, h5, ?_, ?_⟩
  · show stack_peek s1 = t
    unfold stack_peek
    rw [if_neg (by omega), h2, Nat.add_sub_cancel]
    have h6' : (0x01 &&& ((s1.stack.getD (s.ptr >>> 3) 0) >>> (s.ptr &&& 0x07))) =
        (if t = STACK_ARRAY then 1 else 0) := h6
    simp only []
    rw [h6']
    rcases ht with rfl | rfl <;> rfl
  · show (stack_pop s1).1 = _
    rw [hpop]
    show stack_type_of { s1 with ptr := s1.ptr - 1 } = stack_type_of s
    unfold stack_type_of
    simp only [h2, Nat.add_sub_cancel]
    by_cases h0 : s.ptr = 0
    · simp only [h0, if_true]
    · simp only [h0, if_false]
      have : stack_bit { s1 with ptr := s.ptr } (s.ptr - 1) = stack_bit s (s.ptr - 1) :=
        h5 (s.ptr - 1) (by omega)
      rw [this]
  · show (stack_pop s1).2.ptr = _
    rw [hpop]
    show s1.ptr - 1 = s.ptr
    omega

end Jsnpg

namespace Jsnpg

open jsnpg_type jsnpg_error_code

/-- C26: for a stack whose depth is at most its size, `stack_push` fails (it
returns -1) exactly when the depth equals the size, and then leaves the stack
as it was, while below the size it returns 0 and the depth grows by one.  The
size of a parser's stack is `max(max_nesting, 1024)`.  With a full stack
`parse_start_object` and `parse_start_array` throw `stack overflow`.
`stack_pop` on an empty stack returns -1 and leaves it empty, and `stack_peek`
on an empty stack returns the sentinel -1, which is neither kind. -/
theorem C26_push_fails_at_maximum :
    (∀ (s : stack) (t : Int), s.ptr ≤ s.size →
      ((stack_push s t).1 = -1 ↔ s.ptr = s.size) ∧
      ((stack_push s t).1 = -1 → (stack_push s t).2 = s) ∧
      (s.ptr < s.size → (stack_push s t).1 = 0 ∧ (stack_push s t).2.ptr = s.ptr + 1)) ∧
    (∀ (max_nesting allow : Nat) (bytes : List Nat) (count : Nat),
      (jsnpg_parser_new_bytes max_nesting allow bytes count).stack.size = max max_nesting 1024 ∧
      (jsnpg_parser_new_bytes max_nesting allow bytes count).stack.ptr = 0) ∧
    (∀ p : parser, p.stack.ptr = p.stack.size →
      Fails (parse_start_object p) JSNPG_ERROR_STACK_OVERFLOW ∧
      Fails (parse_start_array p) JSNPG_ERROR_STACK_OVERFLOW) ∧
    (∀ s : stack, s.ptr = 0 → stack_pop s = (-1, s)) ∧
    (∀ s : stack, s.ptr = 0 →
      stack_peek s = -1 ∧ stack_peek s ≠ STACK_ARRAY ∧ stack_peek s ≠ STACK_OBJECT) := by
  refine ⟨?_, ?_, ?_, ?_, ?_⟩
  · intro s t hle
    by_cases h : s.ptr < s.size
    · have hp : stack_push s t = (0, { s with
          stack := s.stack.set ((s.ptr >>> 3) % 256)
            (if t = STACK_ARRAY then s.stack.getD ((s.ptr >>> 3) % 256) 0 |||
                (1 <<< (s.ptr &&& 0x07)) % 256
              else s.stack.getD ((s.ptr >>> 3) % 256) 0 &&&
                (0xFF ^^^ (1 <<< (s.ptr &&& 0x07)) % 256)),
          ptr := s.ptr + 1 }) := by
        unfold stack_push
        simp only [ge_iff_le, not_le.2 h, if_false]
      rw [hp]
      have hne : ¬ ((0 : Int) = -1) := by decide
      exact ⟨⟨fun h0 => absurd h0 hne, fun h0 => absurd h0 (by omega)⟩,
        fun h0 => absurd h0 hne, fun _ => ⟨rfl, rfl⟩⟩
    · rw [stack_push_full s t h]
      exact ⟨⟨fun _ => by omega, fun _ => rfl⟩, fun _ => rfl, fun h0 => absurd h0 h⟩
  · intro mx allow bytes count
    have h : (jsnpg_parser_new_bytes mx allow bytes count).stack =
        (parser_new (get_stack_size mx) allow).stack := rfl
    rw [h]
    refine ⟨?_, rfl⟩
    show get_stack_size mx = max mx 1024
    unfold get_stack_size MIN_STACK_SIZE
    by_cases h1 : mx > 1024
    · rw [if_pos h1]; omega
    · rw [if_neg h1]; omega
  · intro p hfull
    have h : ¬ p.stack.ptr < p.stack.size := by omega
    exact ⟨⟨_, parse_start_object_full p h, rfl, rfl⟩, ⟨_, parse_start_array_full p h, rfl, rfl⟩⟩
  · intro s h0
    unfold stack_pop
    rw [if_pos h0]
  · intro s h0
    have h : stack_peek s = -1 := by
      unfold stack_peek
      rw [if_pos h0]
    rw [h]
    exact ⟨rfl, by decide, by decide⟩

end Jsnpg

namespace Jsnpg

open jsnpg_type jsnpg_error_code

/-- C27 fails in the code for a maximum nesting above 2048.  The generator
made with `max_nesting` 4096 is sent 2048 times `start_object` and a key, then
`start_array`, the integer 1 and the integer 2: a prefix of a well-formed
stream of depth 2049.  The check of `start_array` passes and that of 1
passes, but `stack_push` has written the array bit at entry 0 (its byte index
is kept in a `byte`), `stack_peek` reports an object, and `can_value` fails
at 2 with `expected_key`.  For a stack size that is a multiple of 8 and at
most 2048, which covers the default of 1024, the checks of a new generator
pass along a sequence of events exactly when the sequence is a prefix of a
well-formed stream with at most that many containers open. -/
theorem C27_checks_reject_well_formed_prefix :
    (WellFormedPrefix 4096
        (nested_keys 2048 ++ [Event.start_array, Event.integer 1, Event.integer 2]) ∧
      (debug_checks (jsnpg_generator_new_json 0 4096 0)
        (nested_keys 2048 ++ [Event.start_array, Event.integer 1])).1 = true ∧
      (debug_checks (jsnpg_generator_new_json 0 4096 0)
        (nested_keys 2048 ++ [Event.start_array, Event.integer 1, Event.integer 2])).1 = false ∧
      (debug_checks (jsnpg_generator_new_json 0 4096 0)
        (nested_keys 2048 ++ [Event.start_array, Event.integer 1, Event.integer 2])).2.error =
          JSNPG_ERROR_EXPECTED_KEY) ∧
    (∀ (σ : Type) (max_nesting flags : Nat) (ctx : σ) (evs : List Event),
      get_stack_size max_nesting ≤ 2048 → get_stack_size max_nesting % 8 = 0 →
      ((debug_checks (generator_new (get_stack_size max_nesting) flags ctx) evs).1 = true ↔
        WellFormedPrefix (get_stack_size max_nesting) evs)) := by
  constructor
  · have hw : WellFormedPrefix 4096
        (nested_keys 2048 ++ [Event.start_array, Event.integer 1, Event.integer 2]) := by
      unfold WellFormedPrefix
      rw [stream_run_nested 4096 2048 ⟨[], false⟩ _ rfl (by decide)]
      decide!
    have hs : (jsnpg_generator_new_json 0 4096 0).stack = ⟨0, 4096, List.replicate 512 0⟩ := rfl
    have h := fun tail => debug_checks_nested 2048 (jsnpg_generator_new_json 0 4096 0) 0 4096 512
      tail hs (by decide) (by decide) rfl
    rw [h, h]
    exact ⟨hw, by decide!, by decide!, by decide!⟩
  · intro σ max_nesting flags ctx evs h1 h2
    have h0 : get_stack_size max_nesting ≠ 0 := by
      unfold get_stack_size MIN_STACK_SIZE
      split <;> omega
    rw [debug_checks_mirrors (get_stack_size max_nesting) evs _ _
      (generator_new_mirrors _ flags ctx h0 h2 h1)]
    rfl

end Jsnpg

namespace Jsnpg

open jsnpg_type jsnpg_error_code

/-- C28 as stated fails when the generator is the sink of `jsnpg_parse`:
`jsnpg_parse_opt` calls `generator_reset(opts.generator, p->flags)`, which sets
the generator's validation from the allow mask of the parse, so the
generator's own option does not decide alone and the setting is not left
unchanged.  A JSON generator
made with `invalid_utf8_out` does not validate, and used by itself it emits
every string and key without failing; but as the sink of a parse of the bytes
`"`, 0xFF, `"` with only `invalid_utf8_in` allowed it comes back validating,
and the parse fails with `utf8` after the opening quote was written.  With
`invalid_utf8_out` also in the mask of the parse the same parse succeeds and
the byte 0xFF is copied. -/
theorem C28_parse_resets_validation :
    (jsnpg_generator_new_json 0 0 JSNPG_ALLOW_INVALID_UTF8_OUT).validate_utf8 = false ∧
    (∀ (g : jgen) (s : List Nat), (∀ b ∈ s, b < 256) → g.validate_utf8 = false →
      (print_string g s s.length).1 = true ∧ (print_key g s s.length).1 = true ∧
      (print_string g s s.length).2.error = g.error ∧
      (print_string g s s.length).2.validate_utf8 = false) ∧
    (∀ (g : jgen) (flags : Nat),
      (generator_reset g flags).validate_utf8 = !flag_set flags JSNPG_ALLOW_INVALID_UTF8_OUT) ∧
    (jsnpg_parse_opt no_float []
        { max_nesting := 0, allow := JSNPG_ALLOW_INVALID_UTF8_IN, bytes := some [0x22, 0xFF, 0x22],
          count := 3, string := none, dom := none, callbacks := none, ctx := jos_new 0,
          generator := some (print_callbacks no_float,
            jsnpg_generator_new_json 0 0 JSNPG_ALLOW_INVALID_UTF8_OUT) }).map
        (fun r => (r.1, r.2.map (fun g => (g.validate_utf8, g.error, jsnpg_result_bytes g)))) =
      some ({ type := JSNPG_ERROR, position := 3, u := result_union.error JSNPG_ERROR_UTF8 },
        some (true, JSNPG_ERROR_UTF8, [0x22])) ∧
    (jsnpg_parse_opt no_float []
        { max_nesting := 0, allow := JSNPG_ALLOW_INVALID_UTF8_IN + JSNPG_ALLOW_INVALID_UTF8_OUT,
          bytes := some [0x22, 0xFF, 0x22],
          count := 3, string := none, dom := none, callbacks := none, ctx := jos_new 0,
          generator := some (print_callbacks no_float,
            jsnpg_generator_new_json 0 0 JSNPG_ALLOW_INVALID_UTF8_OUT) }).map
        (fun r => (r.1, r.2.map (fun g => (g.validate_utf8, g.error, jsnpg_result_bytes g)))) =
      some ({ type := JSNPG_EOF, position := 3, u := result_union.none },
        some (false, JSNPG_ERROR_NONE, [0x22, 0xFF, 0x22])) := by
  refine ⟨by decide, ?_, fun _ _ => rfl, by decide!, by decide!⟩
  intro g s hb hv
  have h1 : jos_scan_escape (jos_put ( jos_prefix g) 0x22) s s.length =
      (true, jos_puts (jos_put ( jos_prefix g) 0x22) (s.flatMap escapeByte)) :=
    jos_scan_escape_raw _ s hb ((jos_prefix_frame g).1.trans hv)
  unfold print_string print_key
  simp only [h1, if_true]
  exact ⟨trivial, trivial, (jos_prefix_frame g).2, (jos_prefix_frame g).1.trans hv⟩

/-- C28, amended: whether a generator validates output UTF-8 is decided by the
allow mask it was last configured with.  At creation that is its own allow
option: it validates unless `invalid_utf8_out` is in it.  A generator that
does not validate emits every string and every key without failing, the bytes
of 0x80 and above among them written as they are, and stays as it is.  As the
sink of a `jsnpg_parse` call on bytes the generator is first reset with the
allow mask of the call, so that during and after the parse it validates unless
`invalid_utf8_out` is in the mask of the parse. -/
theorem C28_validation_follows_last_mask :
    (∀ indent n allow : Nat,
      (jsnpg_generator_new_json indent n allow).validate_utf8 =
        !flag_set allow JSNPG_ALLOW_INVALID_UTF8_OUT) ∧
    (∀ (g : jgen) (s : List Nat), (∀ b ∈ s, b < 256) → g.validate_utf8 = false →
      print_string g s s.length =
        (true, jos_put (jos_puts (jos_put ( jos_prefix g) 0x22) (s.flatMap escapeByte)) 0x22) ∧
      print_key g s s.length =
        (true, jos_key_suffix
          (jos_put (jos_puts (jos_put ( jos_prefix g) 0x22) (s.flatMap escapeByte)) 0x22)) ∧
      (print_string g s s.length).2.error = g.error ∧
      (print_string g s s.length).2.validate_utf8 = false) ∧
    (∀ b : Nat, 0x80 ≤ b → escapeByte b = [b]) ∧
    (∀ (σ : Type) (g : generator σ) (flags : Nat),
      generator_reset g flags =
        { g with count := 0, validate_utf8 := !flag_set flags JSNPG_ALLOW_INVALID_UTF8_OUT,
                 error := JSNPG_ERROR_NONE }) ∧
    (∀ (σ : Type) (fp : FloatPrims) (heap : List jsnpg_dom) (opts : jsnpg_parse_opts σ)
        (cb : callbacks σ) (g : generator σ) (bytes : List Nat),
      opts.bytes = some bytes → opts.dom = none → opts.callbacks = none →
      opts.generator = some (cb, g) →
      jsnpg_parse_opt fp heap opts =
        some ((parse cb fp (jsnpg_parser_new_bytes opts.max_nesting opts.allow bytes opts.count)
                (generator_reset g opts.allow)).1,
              some (parse cb fp
                (jsnpg_parser_new_bytes opts.max_nesting opts.allow bytes opts.count)
                (generator_reset g opts.allow)).2.2)) := by
  refine ⟨fun _ _ _ => rfl, ?_, ?_, fun _ _ _ => rfl, ?_⟩
  · intro g s hb hv
    have h1 : jos_scan_escape (jos_put ( jos_prefix g) 0x22) s s.length =
        (true, jos_puts (jos_put ( jos_prefix g) 0x22) (s.flatMap escapeByte)) :=
      jos_scan_escape_raw _ s hb ((jos_prefix_frame g).1.trans hv)
    unfold print_string print_key
    simp only [h1, if_true]
    exact ⟨trivial, trivial, (jos_prefix_frame g).2, (jos_prefix_frame g).1.trans hv⟩
  · intro b hb
    unfold escapeByte
    split_ifs <;> first | rfl | omega
  · intro σ fp heap opts cb g bytes hbytes hdom hcb hgen
    unfold jsnpg_parse_opt jsnpg_parser_new_opt
    simp only [hbytes, hdom, hcb, hgen]
    have h1 : ¬ (1 ≠ not_null (some bytes) + not_null (none : Option (List Nat)) +
        not_null (none : Option Nat)) := fun h => h rfl
    have h2 : ¬ ((parser_set_bytes (parser_new (get_stack_size opts.max_nesting) opts.allow)
        bytes opts.count).result.type = JSNPG_ERROR) := by
      show ¬ (JSNPG_NONE = JSNPG_ERROR)
      decide
    rw [if_neg h1, if_neg h2]
    rfl

end Jsnpg

namespace Jsnpg

open jsnpg_type jsnpg_error_code parse_state

/-- C29 as stated fails: the position in the result record of the pull parser
is not the offset at which the token of the event begins.  For the input `[1]`
the start_array event has position 1 and the integer event has position 2 (the
claim says 0 and 1); for `{"a" : true}` the key event has position 6, the
offset after the colon. -/
theorem C29_position_is_not_token_start :
    pull_records no_float 8 (jsnpg_parser_new_bytes 0 0 [0x5B, 0x31, 0x5D] 3) =
      [{ type := JSNPG_START_ARRAY, position := 1, u := result_union.none },
       { type := JSNPG_INTEGER, position := 2, u := result_union.integer 1 },
       { type := JSNPG_END_ARRAY, position := 3, u := result_union.none },
       { type := JSNPG_EOF, position := 3, u := result_union.none }] ∧
    pull_records no_float 8 (jsnpg_parser_new_bytes 0 0
        [0x7B, 0x22, 0x61, 0x22, 0x20, 0x3A, 0x20, 0x74, 0x72, 0x75, 0x65, 0x7D] 12) =
      [{ type := JSNPG_START_OBJECT, position := 1, u := result_union.none },
       { type := JSNPG_KEY, position := 6, u := result_union.string [0x61] 1 },
       { type := JSNPG_TRUE, position := 11, u := result_union.none },
       { type := JSNPG_END_OBJECT, position := 12, u := result_union.none },
       { type := JSNPG_EOF, position := 12, u := result_union.none }] := by
  decide!

/-- C29, amended: whenever `parse_next` returns (an event or `eof`), the
position stored in the result record is `parse_position` of the parser as the
call leaves it: on byte input the offset of the read pointer after the call,
which has consumed the token of the event (and for a key also the colon). -/
theorem C29_position_is_read_offset (fp : FloatPrims) (p p1 : parser) (t : jsnpg_type)
    (h : parse_next fp p = Res.ok t p1) :
    p1.result.position = (if p1.mis.has_start then p1.mis.read else 0) :=
  EndsAtRead_parse_next fp p t p1 h

theorem C29_position_is_read_offset_witness :
    parse_next no_float (jsnpg_parser_new_bytes 0 0 [0x5B, 0x31, 0x5D] 3) =
        Res.ok JSNPG_START_ARRAY
          ⟨0, ⟨true, [0x5B, 0x31, 0x5D, 0], 0, 1, 0, 0, 3⟩, STATE_ARRAY, ⟨none, 0⟩,
            ⟨JSNPG_START_ARRAY, 1, result_union.none⟩, ⟨1, 1024, 1 :: List.replicate 127 0⟩⟩ ∧
      (1 : Nat) = (if true then 1 else 0) :=
  ⟨by decide!,
    C29_position_is_read_offset no_float (jsnpg_parser_new_bytes 0 0 [0x5B, 0x31, 0x5D] 3)
      ⟨0, ⟨true, [0x5B, 0x31, 0x5D, 0], 0, 1, 0, 0, 3⟩, STATE_ARRAY, ⟨none, 0⟩,
        ⟨JSNPG_START_ARRAY, 1, result_union.none⟩, ⟨1, 1024, 1 :: List.replicate 127 0⟩⟩
      JSNPG_START_ARRAY (by decide!)⟩

end Jsnpg

namespace Jsnpg

open jsnpg_type jsnpg_error_code parse_state

/-- At the end of the event log `dom_parse_next` returns `eof` and leaves the
parser where a further call meets the end of the log again. -/
theorem dom_parse_next_end (heap : List jsnpg_dom) (p : parser)
    (hc : (heap.getD (p.dom_info.hdr.getD 0) default).count ≤ p.dom_info.offset)
    (hn : (heap.getD (p.dom_info.hdr.getD 0) default).next = none) :
    dom_parse_next heap p = (JSNPG_EOF, { p with result := { p.result with type := JSNPG_EOF } }) := by
  unfold dom_parse_next
  simp only [ge_iff_le, hc, decide_True, if_true, hn]

/-- The replay of the log of the single event `null`: `null`, then `eof` at
every call. -/
theorem dom_calls_null (nx cur : Option Nat) (size : Nat) (blk : List Nat)
    (hnx : nx = none) (hblk : (blk.drop 40).take 4 = [2, 0, 0, 0]) :
    dom_calls [jsnpg_dom.mk nx cur 56 size blk] 3 (jsnpg_parser_new_dom 0 0 0) =
      [JSNPG_NULL, JSNPG_EOF, JSNPG_EOF] := by
  subst hnx
  have hload : dom_load [jsnpg_dom.mk none cur 56 size blk] 0 sizeof_dom 4 = [2, 0, 0, 0] := hblk
  have hcode : json_type_of_code (le_value [2, 0, 0, 0]) = some JSNPG_NULL := by decide
  have h1 : dom_parse_next [jsnpg_dom.mk none cur 56 size blk] (jsnpg_parser_new_dom 0 0 0) =
      (JSNPG_NULL, { jsnpg_parser_new_dom 0 0 0 with
        dom_info := { hdr := some 0, offset := 56 },
        result := { (jsnpg_parser_new_dom 0 0 0).result with type := JSNPG_NULL } }) := by
    unfold dom_parse_next
    have hp : (jsnpg_parser_new_dom 0 0 0).dom_info = { hdr := some 0, offset := sizeof_dom } := rfl
    simp only [hp, Option.getD_some, List.getD_cons_zero, sizeof_dom, ge_iff_le,
      show ¬ (56 ≤ 40) by decide, decide_False, Bool.false_eq_true, if_false]
    have hload2 : dom_load [jsnpg_dom.mk none cur 56 size blk] 0 40 4 = [2, 0, 0, 0] := hload
    rw [hload2]
    simp only [hcode, Option.getD_some, NODE_SIZE]
  have h2 : ∀ q : parser, q.dom_info = { hdr := some 0, offset := 56 } →
      dom_parse_next [jsnpg_dom.mk none cur 56 size blk] q =
        (JSNPG_EOF, { q with result := { q.result with type := JSNPG_EOF } }) := by
    intro q hq
    exact dom_parse_next_end _ q (by rw [hq]; exact Nat.le_refl 56) (by rw [hq]; rfl)
  unfold dom_calls
  rw [h1]
  unfold dom_calls
  rw [h2 _ rfl]
  unfold dom_calls
  rw [h2 _ rfl]
  rfl

/-- C30 fails in the code for a parser that replays an event log: at the end
of the log `dom_parse_next` stores and returns the type `eof`, and so it does
at every further call; no call returns an error.  So the replay of the log
that records the single event `null` returns `null`, `eof`, `eof`.  On byte
input the calls after `eof` do return the error `eof`, as for the inputs `1 `
and, with comments and trailing characters allowed, `1 x/*`; and with comments
off every call in the state `STATE_EOF` returns the error `eof` and leaves the
state as it is. -/
theorem C30_dom_replay_repeats_eof :
    (∀ (heap : List jsnpg_dom) (p : parser),
      (heap.getD (p.dom_info.hdr.getD 0) default).count ≤ p.dom_info.offset →
      (heap.getD (p.dom_info.hdr.getD 0) default).next = none →
      (dom_parse_next heap p).1 = JSNPG_EOF ∧
      (dom_parse_next heap p).2.result.type = JSNPG_EOF ∧
      dom_parse_next heap (dom_parse_next heap p).2 = dom_parse_next heap p) ∧
    (∀ junk : Nat → Nat → Nat,
      dom_calls (dom_record junk [Event.null]) 3 (jsnpg_parser_new_dom 0 0 0) =
        [JSNPG_NULL, JSNPG_EOF, JSNPG_EOF]) ∧
    pull_calls no_float 4 (jsnpg_parser_new_bytes 0 0 [0x31, 0x20] 2) =
      [{ type := JSNPG_INTEGER, position := 1, u := result_union.integer 1 },
       { type := JSNPG_EOF, position := 2, u := result_union.none },
       { type := JSNPG_ERROR, position := 2, u := result_union.error JSNPG_ERROR_EOF },
       { type := JSNPG_ERROR, position := 2, u := result_union.error JSNPG_ERROR_EOF }] ∧
    pull_calls no_float 4 (jsnpg_parser_new_bytes 0 5 [0x31, 0x20, 0x78, 0x2F, 0x2A] 5) =
      [{ type := JSNPG_INTEGER, position := 1, u := result_union.integer 1 },
       { type := JSNPG_EOF, position := 2, u := result_union.none },
       { type := JSNPG_ERROR, position := 2, u := result_union.error JSNPG_ERROR_EOF },
       { type := JSNPG_ERROR, position := 2, u := result_union.error JSNPG_ERROR_EOF }] ∧
    (∀ (fp : FloatPrims) (p : parser), p.state = STATE_EOF →
      flag_set p.flags JSNPG_ALLOW_COMMENTS = false →
      ∃ p1, parser_parse_next fp p = Res.ok JSNPG_ERROR p1 ∧
        p1.result.type = JSNPG_ERROR ∧ p1.result.u = result_union.error JSNPG_ERROR_EOF ∧
        p1.state = STATE_EOF ∧ p1.flags = p.flags) := by
  refine ⟨?_, ?_, by decide!, by decide!, ?_⟩
  · intro heap p hc hn
    rw [dom_parse_next_end heap p hc hn]
    exact ⟨rfl, rfl, dom_parse_next_end heap _ hc hn⟩
  · intro junk
    obtain ⟨blk, h1, h2⟩ := dom_record_null junk
    rw [h1]
    exact dom_calls_null none (some 0) 8192 blk rfl h2
  · intro fp p hs hc
    have hcw : consume_whitespace false p =
        Res.ok (mis_consume_whitespace p.mis).1 { p with mis := (mis_consume_whitespace p.mis).2 } :=
      rfl
    have hpn : parse_next fp p = Res.thrown
        { p with mis := (mis_consume_whitespace p.mis).2,
                 result := make_error_return JSNPG_ERROR_EOF
                   (parse_position { p with mis := (mis_consume_whitespace p.mis).2 }) } := by
      unfold parse_next
      simp only [PM_bind_apply, hc, hcw, hs, if_true]
      rfl
    have hpp : parser_parse_next fp p = Res.ok JSNPG_ERROR
        { p with mis := (mis_consume_whitespace p.mis).2,
                 result := make_error_return JSNPG_ERROR_EOF
                   (parse_position { p with mis := (mis_consume_whitespace p.mis).2 }) } := by
      unfold parser_parse_next
      rw [hpn]
      rfl
    exact ⟨_, hpp, rfl, rfl, hs, rfl⟩

end Jsnpg

namespace Jsnpg
open jsnpg_type jsnpg_error_code parse_state

/-- C31 fails in the code for a maximum nesting above 2048.  The push parser
with `max_nesting` 4096 is given `deep_text 2047`: an object, in it 2047
objects nested through the key `k`, the innermost holding the member
`"k":[]`, then 2047 closing braces and at last a closing bracket where the
brace of the outermost object is due.  The parse succeeds with `eof`, the
events delivered are `deep_events 2047` and the nesting stack is left empty;
but `stack_push` of the array at depth 2048 has written the entry of depth 0
(its byte index is kept in a `byte`), so the last event is an `end_array`
delivered while the one open container is the object that the first event
opened: the events before it leave the stream with that object open, and
the whole sequence is not a well-formed stream. -/
theorem C31_end_array_closes_object (fp : FloatPrims) :
    (jsnpg_parse_bytes_callbacks record_callbacks fp [] 4096 0 (deep_text 2047)
      (deep_text 2047).length).1.type = JSNPG_EOF ∧
    (jsnpg_parse_bytes_callbacks record_callbacks fp [] 4096 0 (deep_text 2047)
      (deep_text 2047).length).2.2.ctx = deep_events 2047 ∧
    (jsnpg_parse_bytes_callbacks record_callbacks fp [] 4096 0 (deep_text 2047)
      (deep_text 2047).length).2.1.stack.ptr = 0 ∧
    (∃ before, deep_events 2047 = before ++ [Event.end_array] ∧
      stream_run 4096 ⟨[], false⟩ before = some ⟨[false], false⟩) ∧
    ¬ WellFormedPrefix 4096 (deep_events 2047) := by
  obtain ⟨h1, h2, h3⟩ := deep_parse fp
  refine ⟨h1, h2, h3, ⟨Event.start_object :: (deep_open_events 2047 ++
    ([Event.key [0x6B], Event.start_array, Event.end_array] ++
      (List.replicate 2047 Event.end_object ++ []))), ?_, ?_⟩,
    deep_events_not_well_formed 4096 2047 (by decide)⟩
  · unfold deep_events
    simp only [List.append_nil, List.cons_append, List.append_assoc]
  · exact deep_events_stream 4096 2047 (by decide) []

end Jsnpg

namespace Jsnpg
open jsnpg_type jsnpg_error_code parse_state

/-- C32 fails in the code for a maximum nesting above 2048.  The push parser
with `max_nesting` 4096 delivers for `deep_text 2047` the events
`deep_events 2047` and succeeds with `eof`; a generator made with the same
`max_nesting` 4096 does not pass its checks on these events: `can_pop` fails
at the first `end_array` with `no_array`, because `stack_push` has written the
array bit of depth 2048 at entry 0 and `stack_peek` reports an object. -/
theorem C32_delivered_events_fail_checks (fp : FloatPrims) :
    (jsnpg_parse_bytes_callbacks record_callbacks fp [] 4096 0 (deep_text 2047)
      (deep_text 2047).length).1.type = JSNPG_EOF ∧
    (debug_checks (jsnpg_generator_new_json 0 4096 0)
      (jsnpg_parse_bytes_callbacks record_callbacks fp [] 4096 0 (deep_text 2047)
        (deep_text 2047).length).2.2.ctx).1 = false ∧
    (debug_checks (jsnpg_generator_new_json 0 4096 0)
      (jsnpg_parse_bytes_callbacks record_callbacks fp [] 4096 0 (deep_text 2047)
        (deep_text 2047).length).2.2.ctx).2.error = JSNPG_ERROR_NO_ARRAY := by
  obtain ⟨h1, h2, _⟩ := deep_parse fp
  rw [h2]
  exact ⟨h1, deep_events_checks.1, deep_events_checks.2⟩

end Jsnpg

namespace Jsnpg

open jsnpg_type jsnpg_error_code

/-- C33 fails in the code: in state KEY_VALUE the pull parser has no error
branch for a byte that is neither `,` nor `}`; it goes on to the code that
reads a key.  On `{"a":1 "b":2}`, with every option cleared, the calls of
`jsnpg_parse_next` return start_object, key, integer, then the key `b` (no
comma was consumed), the integer 2, end_object and eof.  A byte that does not
start a string is an error there, but `expected_key`: on `{"a":1 x}` the
fourth call fails with `expected_key` at offset 7. -/
theorem C33_pull_takes_key_without_comma :
    pull_events no_float 0
        [0x7B, 0x22, 0x61, 0x22, 0x3A, 0x31, 0x20, 0x22, 0x62, 0x22, 0x3A, 0x32, 0x7D] =
      (some { type := JSNPG_EOF, position := 13, u := result_union.none },
        [Event.start_object, Event.key [0x61], Event.integer 1, Event.key [0x62],
          Event.integer 2, Event.end_object]) ∧
    (pull_records no_float 4 (jsnpg_parser_new_bytes 0 0
        [0x7B, 0x22, 0x61, 0x22, 0x3A, 0x31, 0x20, 0x22, 0x62, 0x22, 0x3A, 0x32, 0x7D] 13)).map
        (fun r => (r.type, r.position)) =
      [(JSNPG_START_OBJECT, 1), (JSNPG_KEY, 5), (JSNPG_INTEGER, 6), (JSNPG_KEY, 11)] ∧
    pull_events no_float 0 [0x7B, 0x22, 0x61, 0x22, 0x3A, 0x31, 0x20, 0x78, 0x7D] =
      (some { type := JSNPG_ERROR, position := 7,
              u := result_union.error JSNPG_ERROR_EXPECTED_KEY },
        [Event.start_object, Event.key [0x61], Event.integer 1]) := by
  decide!

end Jsnpg

namespace Jsnpg
open jsnpg_type jsnpg_error_code parse_state

/-- C34: let the bytes ahead be whitespace (and comments, when they are
allowed) up to a byte `b` that is neither `,` nor `]`, which is where
`consume_whitespace` leaves the parser `p1`.  Then the pull parser in state
ARRAY_VALUE and the push parser at the point where it has completed a value
inside an array (the inner loop of `parse_generate` with `stack_type`
STACK_ARRAY) both leave through `throw_parse_error` with the error
`unexpected` at the same position, the read offset of `p1`; without comments
the byte at that offset is `b`. -/
theorem C34_array_value_unexpected {σ : Type} (fp : FloatPrims) (cb : callbacks σ)
    (p p1 : parser) (g : generator σ) (b : Nat)
    (hw : consume_whitespace (flag_set p.flags JSNPG_ALLOW_COMMENTS) p = Res.ok b p1)
    (hc : b ≠ 0x2C) (hb : b ≠ 0x5D) :
    (p.state = STATE_ARRAY_VALUE →
      parse_next fp p = Res.thrown
        { p1 with result := make_error_return JSNPG_ERROR_UNEXPECTED (parse_position p1) }) ∧
    pg_inner cb STACK_ARRAY p g = GRes.thrown
        { p1 with result := make_error_return JSNPG_ERROR_UNEXPECTED (parse_position p1) } g ∧
    (flag_set p.flags JSNPG_ALLOW_COMMENTS = false → mis_peek p1.mis = b) := by
  refine ⟨?_, ?_, ?_⟩
  · intro hs
    unfold parse_next
    simp only [PM_bind_apply, hw, hs]
    rw [if_neg (by decide)]
    unfold parse_next_switch
    simp only [PM_bind_apply, hb, hc, if_false]
    rfl
  · unfold pg_inner
    simp only [GM_bind_apply, liftP_apply, hw, hc, if_false, GM_pure_apply, Bool.false_eq_true,
      hb, false_and, show STACK_ARRAY ≠ STACK_OBJECT by decide,
      show STACK_ARRAY ≠ STACK_NONE by decide, and_false]
    rfl
  · intro hf
    rw [hf] at hw
    unfold consume_whitespace at hw
    simp only [Bool.not_false, if_true, on_mis_apply] at hw
    cases hw
    exact (mis_consume_whitespace_peek _ _).symm

theorem C34_array_value_unexpected_witness :
    consume_whitespace false
        (⟨0, ⟨true, [0x5B, 0x31, 0x20, 0x32, 0x5D, 0], 0, 2, 0, 0, 5⟩, STATE_ARRAY_VALUE,
          ⟨none, 0⟩, ⟨JSNPG_INTEGER, 2, result_union.integer 1⟩,
          ⟨1, 1024, 1 :: List.replicate 127 0⟩⟩ : parser) =
      Res.ok 0x32
        ⟨0, ⟨true, [0x5B, 0x31, 0x20, 0x32, 0x5D, 0], 0, 3, 0, 0, 5⟩, STATE_ARRAY_VALUE,
          ⟨none, 0⟩, ⟨JSNPG_INTEGER, 2, result_union.integer 1⟩,
          ⟨1, 1024, 1 :: List.replicate 127 0⟩⟩ ∧
      parse_next no_float
        (⟨0, ⟨true, [0x5B, 0x31, 0x20, 0x32, 0x5D, 0], 0, 2, 0, 0, 5⟩, STATE_ARRAY_VALUE,
          ⟨none, 0⟩, ⟨JSNPG_INTEGER, 2, result_union.integer 1⟩,
          ⟨1, 1024, 1 :: List.replicate 127 0⟩⟩ : parser) =
      Res.thrown
        ⟨0, ⟨true, [0x5B, 0x31, 0x20, 0x32, 0x5D, 0], 0, 3, 0, 0, 5⟩, STATE_ARRAY_VALUE,
          ⟨none, 0⟩, ⟨JSNPG_ERROR, 3, result_union.error JSNPG_ERROR_UNEXPECTED⟩,
          ⟨1, 1024, 1 :: List.replicate 127 0⟩⟩ :=
  ⟨by decide!,
    (C34_array_value_unexpected no_float record_callbacks
      ⟨0, ⟨true, [0x5B, 0x31, 0x20, 0x32, 0x5D, 0], 0, 2, 0, 0, 5⟩, STATE_ARRAY_VALUE,
        ⟨none, 0⟩, ⟨JSNPG_INTEGER, 2, result_union.integer 1⟩,
        ⟨1, 1024, 1 :: List.replicate 127 0⟩⟩
      ⟨0, ⟨true, [0x5B, 0x31, 0x20, 0x32, 0x5D, 0], 0, 3, 0, 0, 5⟩, STATE_ARRAY_VALUE,
        ⟨none, 0⟩, ⟨JSNPG_INTEGER, 2, result_union.integer 1⟩,
        ⟨1, 1024, 1 :: List.replicate 127 0⟩⟩
      (generator_new 0 0 []) 0x32 (by decide!) (by decide) (by decide)).1 rfl⟩

end Jsnpg

namespace Jsnpg
open jsnpg_type jsnpg_error_code parse_state

/-- C35: the write head of the string parser stays between the start of the
string and the read head after every step and on every input.
`mis_string_start` puts the three heads together; consuming a literal byte
moves the read head only; `mis_string_update` moves the write head by the
length of the pending run, which ends at the read head, or to the read head;
`parse_escape` reads more bytes than `utf8_encode` then stores at the write
head, so the bytes stored end at or before the read head and overwrite
nothing that was not read; `mis_string_restart` and `mis_string_complete`
keep the bounds; and `parse_string` as a whole, however it ends (with the
string, or through `throw_parse_error`), leaves the stream within the
bounds. -/
theorem C35_write_head_bounds :
    (∀ mis, StrLoop (mis_string_start mis)) ∧
    (∀ mis, StrLoop mis → StrLoop (mis_take mis).2 ∧ StrBounds (mis_take mis).2) ∧
    (∀ mis, StrLoop mis → StrBounds (mis_string_update mis)) ∧
    (∀ p cp p1, StrBounds p.mis → parse_escape p = Res.ok cp p1 →
      p1.mis.write + (utf8_encode cp).length ≤ p1.mis.read ∧
      StrBounds (mis_write_bytes p1.mis (utf8_encode cp)) ∧
      StrLoop (mis_string_restart (mis_write_bytes p1.mis (utf8_encode cp)))) ∧
    (∀ p p1, StrBounds p.mis → parse_escape p = Res.thrown p1 → StrBounds p1.mis) ∧
    (∀ mis, StrLoop mis → StrBounds (mis_string_complete mis).2) ∧
    (∀ v p, EndsInBounds (parse_string v p)) := by
  refine ⟨mis_string_start_loop, ?_, fun mis h => (mis_string_update_bounds mis h).1, ?_, ?_,
    mis_string_complete_bounds, parse_string_bounds⟩
  · intro mis h
    have h3 : StrLoop (mis_take mis).2 :=
      ⟨h.1, h.2.1, by show mis.mark ≤ mis.read + 1; have := h.2.2; omega⟩
    exact ⟨h3, StrLoop_bounds _ h3⟩
  · intro p cp p1 hb he
    have hr := parse_escape_reads p
    rw [he] at hr
    obtain ⟨n, ⟨r1, r2⟩, hn⟩ := hr
    have e1 : p1.mis.write = p.mis.write := by rw [r2]
    have e2 : p1.mis.string = p.mis.string := by rw [r2]
    have hn' : (utf8_encode cp).length + 1 ≤ n := hn
    have hw : p1.mis.write + (utf8_encode cp).length ≤ p1.mis.read := by
      rw [e1]; have := hb.2; omega
    have := mis_write_bytes_bounds p1.mis (utf8_encode cp) (by rw [e1, e2]; exact hb.1) hw
    exact ⟨hw, this.1, this.2⟩
  · intro p p1 hb he
    have hr := parse_escape_reads p
    rw [he] at hr
    obtain ⟨r1, r2⟩ := hr
    have e1 : p1.mis.write = p.mis.write := by rw [r2]
    have e2 : p1.mis.string = p.mis.string := by rw [r2]
    have r1' : p.mis.read + 0 ≤ p1.mis.read := r1
    exact ⟨by rw [e1, e2]; exact hb.1, by rw [e1]; have := hb.2; omega⟩

end Jsnpg

namespace Jsnpg
open jsnpg_type jsnpg_error_code parse_state

/-- The exponent part of a numeral leaves the accumulator and the count of
significant digits as they are. -/
theorem parse_number_exponent_frame (p p1 : parser) (n n1 : number_scan) (f f1 : Bool)
    (h : parse_number_exponent n f p = Res.ok (n1, f1) p1) :
    n1.sum = n.sum ∧ n1.sig_digits = n.sig_digits := by
  unfold parse_number_exponent at h
  simp only [] at h
  split at h
  · simp only [PM_bind_apply, on_mis_apply, get_mis_apply] at h
    split at h
    · simp only [PM_bind_apply, on_mis_apply, get_mis_apply] at h
      split at h
      · cases h
      · simp only [PM_bind_apply, on_mis_apply] at h
        generalize exponent_digits_loop _ _ _ _ = r at h
        obtain ⟨o, m⟩ := r
        cases o with
        | none => cases h
        | some ec =>
          cases h
          exact ⟨rfl, rfl⟩
    · simp only [PM_bind_apply, PM_pure_apply] at h
      split at h
      · cases h
      · simp only [PM_bind_apply, on_mis_apply] at h
        generalize exponent_digits_loop _ _ _ _ = r at h
        obtain ⟨o, m⟩ := r
        cases o with
        | none => cases h
        | some ec =>
          cases h
          exact ⟨rfl, rfl⟩
  · cases h
    exact ⟨rfl, rfl⟩

/-- C36: the accumulator of `parse_number` holds at most as many decimal
digits as were counted significant, of which at most 19 are added, so it is
at most 10^19 - 1 and below 2^64 (`ScanBound`).  The bound holds after the
first digit, is kept by the digits of the integer part and of the fraction,
and the exponent part does not touch the accumulator; under the bound the two
digit loops compute what they would without reduction modulo 2^64, so no
addition wraps.  Once 19 digits are significant, every further digit of the
integer part leaves the accumulator as it is and adds one to the exponent
counter. -/
theorem C36_accumulator_bound :
    (∀ n, ScanBound n → n.sum ≤ 10 ^ 19 - 1 ∧ n.sum < 2 ^ 64) ∧
    (∀ p p1 neg n, parse_number_first p = Res.ok (neg, n) p1 → ScanBound n) ∧
    (∀ p p1 n n1, ScanBound n → parse_number_integer_part n p = Res.ok n1 p1 →
      ScanBound n1) ∧
    (∀ p p1 n n1 f f1, ScanBound n → parse_number_fraction n f p = Res.ok (n1, f1) p1 →
      ScanBound n1) ∧
    (∀ p p1 n n1 f f1, ScanBound n → parse_number_exponent n f p = Res.ok (n1, f1) p1 →
      ScanBound n1) ∧
    (∀ k n mis, ScanBound n →
      integer_digits_loop k n mis = integer_digits_exact k n mis) ∧
    (∀ k n mis, ScanBound n → n.c < 10 →
      fraction_digits_loop k n mis = fraction_digits_exact k n mis) ∧
    (∀ k n mis, max_sig_digits ≤ n.sig_digits →
      (integer_digits_loop k n mis).1.sum = n.sum ∧
      (integer_digits_loop k n mis).1.exponent - n.exponent =
        (integer_digits_loop k n mis).1.sig_digits - n.sig_digits) := by
  refine ⟨?_, parse_number_first_bound, fun p p1 n n1 hb h =>
      parse_number_integer_part_bound p p1 n n1 hb h,
    fun p p1 n n1 f f1 hb h => parse_number_fraction_bound p p1 n n1 f f1 hb h, ?_,
    fun k n mis hb => (integer_digits_loop_bound k n mis hb).1,
    fun k n mis hb hc => (fraction_digits_loop_bound k n mis hb hc).1,
    integer_digits_loop_excess⟩
  · intro n hb
    have h1 := ScanBound_lt n hb
    have h2 := ten19_lt
    exact ⟨by omega, by omega⟩
  · intro p p1 n n1 f f1 hb h
    obtain ⟨e1, e2⟩ := parse_number_exponent_frame p p1 n n1 f f1 h
    unfold ScanBound
    rw [e1, e2]
    exact hb

end Jsnpg

namespace Jsnpg

open jsnpg_type jsnpg_error_code

/-- C37 fails in the code on the input `-` (one byte).  After the sign,
`parse_number` takes the next byte with `mis_take` before looking at it; here
that byte is the sentinel, so the read cursor ends at offset 2, one past the
sentinel at offset 1, and the error `number` is reported at position 2, which
is greater than the input length 1.  The pull parser reports the same
position, and on `[-` (two bytes) the position is 3. -/
theorem C37_error_position_past_the_end :
    (push_events no_float 0 [0x2D]).1 =
      { type := JSNPG_ERROR, position := 2, u := result_union.error JSNPG_ERROR_NUMBER } ∧
    (jsnpg_parse_bytes_callbacks record_callbacks no_float [] 0 0 [0x2D] 1).2.1.mis.read = 2 ∧
    (jsnpg_parse_bytes_callbacks record_callbacks no_float [] 0 0 [0x2D] 1).2.1.mis.count = 1 ∧
    (pull_events no_float 0 [0x2D]).1 =
      some { type := JSNPG_ERROR, position := 2,
             u := result_union.error JSNPG_ERROR_NUMBER } ∧
    (push_events no_float 0 [0x5B, 0x2D]).1 =
      { type := JSNPG_ERROR, position := 3, u := result_union.error JSNPG_ERROR_NUMBER } := by
  decide!

end Jsnpg

namespace Jsnpg
open jsnpg_type jsnpg_error_code parse_state

/-- C38 fails in the code: `jsnpg_result_string` ends the string by
`jos_put(jos, 0)`, which appends the NUL to the output stream for good.  For
every generator, the bytes that `jsnpg_result_bytes` reports after the call
are those before it followed by a zero byte, and the count is one more; for
the generator that was sent the integer 1 the count goes from 1 to 2.  What
does hold: a second call returns the same C string as the first. -/
theorem C38_result_string_appends_nul :
    (∀ g : jgen,
      jsnpg_result_bytes (jsnpg_result_string g).2 = jsnpg_result_bytes g ++ [0] ∧
      (jsnpg_result_bytes (jsnpg_result_string g).2).length =
        (jsnpg_result_bytes g).length + 1 ∧
      c_string (jsnpg_result_string (jsnpg_result_string g).2).1 =
        c_string (jsnpg_result_string g).1) ∧
    jsnpg_result_bytes
        (send_events (print_callbacks no_float) (jsnpg_generator_new_json 0 0 0)
          [Event.integer 1]).2 = [0x31] ∧
    jsnpg_result_bytes (jsnpg_result_string
        (send_events (print_callbacks no_float) (jsnpg_generator_new_json 0 0 0)
          [Event.integer 1]).2).2 = [0x31, 0] := by
  refine ⟨?_, by decide!, by decide!⟩
  intro g
  refine ⟨rfl, by simp [jsnpg_result_string, jsnpg_result_bytes, jos_put, mos_put], ?_⟩
  show c_string ((g.ctx.mos.buffer ++ [0]) ++ [0]) = c_string (g.ctx.mos.buffer ++ [0])
  unfold c_string
  generalize g.ctx.mos.buffer = l
  induction l with
  | nil => rfl
  | cons x t ih =>
    simp only [List.cons_append, List.takeWhile_cons]
    split
    · rw [ih]
    · rfl

end Jsnpg

namespace Jsnpg
open jsnpg_type jsnpg_error_code parse_state

/-- C39: for a payload of `c` bytes with `c + 16` below 2^64, the size
`dom_node_next` reserves, `dom_size_align(c + 2 * NODE_SIZE)`, is the amount
the readers advance, `2 * NODE_SIZE + dom_size_align(c)`, in arithmetic
modulo 2^64; `dom_size_align(0)` is 0; and for `c` above 0
`dom_size_align(c)` is the least multiple of `NODE_SIZE` that is at least
`c`. -/
theorem C39_dom_size_align (c : Nat) (h : c + 16 < 2 ^ 64) :
    dom_size_align ((c + 2 * NODE_SIZE) % 2 ^ 64) = (2 * NODE_SIZE + dom_size_align c) % 2 ^ 64 ∧
    dom_size_align 0 = 0 ∧
    (0 < c → dom_size_align c % NODE_SIZE = 0 ∧ c ≤ dom_size_align c ∧
      ∀ m, m % NODE_SIZE = 0 → c ≤ m → dom_size_align c ≤ m) := by
  have h0 : dom_size_align 0 = 0 := by decide
  have h16 : dom_size_align 16 = 16 := by decide
  have p64 : (2 : Nat) ^ 64 = 18446744073709551616 := by norm_num
  refine ⟨?_, h0, ?_⟩
  · have e : (c + 2 * NODE_SIZE) % 2 ^ 64 = c + 16 := by
      unfold NODE_SIZE
      exact Nat.mod_eq_of_lt (by omega)
    rw [e]
    by_cases hc : c = 0
    · subst hc
      rw [h0]; exact h16
    · rw [dom_size_align_pos c (by omega) h]
      unfold dom_size_align NODE_SIZE
      rw [p64] at h ⊢
      have e2 : (c + 16 + 18446744073709551616 - 1) % 18446744073709551616 = c + 15 := by
        have : c + 16 + 18446744073709551616 - 1 = (c + 15) + 18446744073709551616 := by
          omega
        rw [this, Nat.add_mod_right]
        exact Nat.mod_eq_of_lt (by omega)
      rw [e2]
      have e3 : 8 * (1 + (c + 15) / 8) = 2 * 8 + 8 * (1 + (c - 1) / 8) := by omega
      rw [e3]
  · intro hc
    rw [dom_size_align_pos c hc h]
    unfold NODE_SIZE
    refine ⟨by omega, by omega, ?_⟩
    intro m hm hle
    omega

theorem C39_dom_size_align_witness :
    (5 + 16 < 2 ^ 64) ∧
    dom_size_align ((5 + 2 * NODE_SIZE) % 2 ^ 64) = (2 * NODE_SIZE + dom_size_align 5) % 2 ^ 64 :=
  ⟨by norm_num, (C39_dom_size_align 5 (by norm_num)).1⟩

end Jsnpg

namespace Jsnpg
open jsnpg_type jsnpg_error_code parse_state

/-- C40 fails in the code: when the table is full, `allocator_alloc` passes
`a->capacity << 1` to `pg_realloc` as the size, a count of slots where a
count of bytes is due.  After 1024 allocations from a new allocator the table
is full (1024 slots in 8192 bytes); the next call asks for 2048 bytes, less
than the 16384 bytes of the doubled capacity and less than the 8192 bytes the
table had, and then stores the pointer in slot 1024, at byte offset 8192 of
the 2048-byte table.  In general, whenever the table is full the size asked
for is a quarter of what the slots recorded so far take. -/
theorem C40_table_grows_by_slots_not_bytes :
    Nat.iterate allocator_alloc 1024 allocator_new = ⟨1024, 1024, 8192⟩ ∧
    allocator_fits (Nat.iterate allocator_alloc 1024 allocator_new) ∧
    allocator_grow_size (Nat.iterate allocator_alloc 1024 allocator_new) = 2048 ∧
    allocator_alloc (Nat.iterate allocator_alloc 1024 allocator_new) = ⟨1025, 2048, 2048⟩ ∧
    ¬ allocator_fits (allocator_alloc (Nat.iterate allocator_alloc 1024 allocator_new)) ∧
    (∀ a : allocator, a.used = a.capacity → 0 < a.capacity → a.capacity < 2 ^ 63 →
      allocator_grow_size a = 2 * a.capacity ∧
      allocator_grow_size a < 2 * a.capacity * POINTER_SIZE ∧
      4 * allocator_grow_size a = a.used * POINTER_SIZE ∧
      ¬ allocator_fits (allocator_alloc a)) := by
  have h1 : Nat.iterate allocator_alloc 1024 allocator_new = ⟨1024, 1024, 8192⟩ := by decide!
  refine ⟨h1, ?_, ?_, ?_, ?_, ?_⟩
  · rw [h1]; unfold allocator_fits POINTER_SIZE; decide
  · rw [h1]; decide
  · rw [h1]; decide
  · rw [h1]; unfold allocator_fits POINTER_SIZE; decide
  · intro a hu h0 hc
    have hg : allocator_grow_size a = 2 * a.capacity := by
      unfold allocator_grow_size
      rw [Nat.shiftLeft_eq, pow_one, Nat.mul_comm]
      exact Nat.mod_eq_of_lt (by omega)
    refine ⟨hg, ?_, ?_, ?_⟩
    · rw [hg]; unfold POINTER_SIZE; omega
    · rw [hg, hu]; unfold POINTER_SIZE; omega
    · unfold allocator_fits allocator_alloc
      rw [if_pos hu]
      show ¬ ((a.used + 1) * POINTER_SIZE ≤ allocator_grow_size a)
      rw [hg, hu]; unfold POINTER_SIZE; omega

end Jsnpg
